import Mathlib

/-!
# Vowpal Wabbit example ingestion and the error-correcting tournament

Shallow embedding of `vowpalwabbit/parse_example.cc` (class `TC_parser`, `read_features`,
`substring_to_example`), of `vowpalwabbit/parse_example_json.h` (the state machine of
`VWReaderHandler`: `Context`, the state classes, the fast skip `DefaultState::Ignore`, and
the functions that read a line: `read_line_json`, `read_line_decision_service_json`,
`parse_line_json`, `read_features_json`), of `factorial` and `choose` of
`vowpalwabbit/vw_math.h`, and of `final_depth`, `not_empty` and `create_circuit` of
`vowpalwabbit/ect.cc`.

Conventions of the embedding.

* A line is a `List Char`; a byte used as a feature-group id is the number `c.toNat % 256`
  (the cast `(unsigned char)` of the source).
* `float` is an abstract type `F` with the operations collected in `FloatOps`; nothing is
  assumed about them unless a theorem states it as a hypothesis.
* 64-bit unsigned arithmetic is arithmetic on `Nat` reduced modulo `2 ^ 64`.
* The read index is a `size_t`; it is a `Nat` here, lines being far shorter than `2 ^ 64`.
  `string_view::substr(pos)` is `List.drop pos`; the two agree as long as the float reader
  reports consuming no more characters than the view holds, so that the read index never
  passes the end of the line.
* A member function of `TC_parser` is a function from the parser state to an `Outcome`:
  normal return, a thrown `strict_parse_exception` (with the state at the throw; the example
  is reached through a pointer, so what was stored before the throw stays stored), or
  exhaustion of the loop budget of the embedding.
* The JSON tokenizer is a collaborator: a line is the list of the tokens it hands to the
  handler, and a key token carries the bytes of the buffer from the key on, which is what
  `DefaultState::Ignore` reads and writes. A handler call ends in a `Handled`: the state
  returned (the null pointer is `none`), an exception, or no defined behaviour.
* A pointer to an example is an index into the example sequence.
* An `int64_t` is an `Int` that every arithmetic step wraps into the 64-bit range
  (`wrapInt64`).
* A `uint32_t` is a `Nat` reduced modulo `2 ^ 32` wherever the source computes or casts one.
  A loop whose number of passes the arguments do not bound beforehand takes a budget of
  passes, and `none` is a loop that has not ended within it (or an access past the end of a
  vector).
-/

namespace VW

/-! ## Data model -/

/-- Operations of the C++ type `float` used by the parser: the literals `0.f` and `1.`,
the product, the sum, the test `x == 0` and `std::isnan`. -/
structure FloatOps (F : Type) where
  zero : F
  one : F
  mul : F → F → F
  add : F → F → F
  isZero : F → Bool
  isNaN : F → Bool

/-- Audit record of one feature: namespace name and feature name. -/
structure audit_strings where
  first : List Char
  second : List Char
deriving DecidableEq, Repr

/-- Modelled from the spec: the type `features` (declared in `feature_group.h`, not part of
the sources at hand): an ordered sequence of (value, hashed id) pairs kept in the two
parallel arrays `values` and `indicies`, the audit strings `space_names`, and the running
sum of squares `sum_feat_sq`. -/
structure features (F : Type) where
  values : List F
  indicies : List Nat
  space_names : List audit_strings
  sum_feat_sq : F

/-- The empty feature group. -/
def features.empty {F : Type} (ops : FloatOps F) : features F :=
  { values := [], indicies := [], space_names := [], sum_feat_sq := ops.zero }

/-- Number of stored features, `features::size()`. -/
def features.size {F : Type} (fs : features F) : Nat := fs.values.length

/-- Modelled from the spec: `features::push_back(v, i)` appends the value and the hash and
adds `v * v` to the sum of squares. -/
def features.push_back {F : Type} (ops : FloatOps F) (fs : features F) (v : F) (i : Nat) :
    features F :=
  { fs with
    values := fs.values ++ [v]
    indicies := fs.indicies ++ [i]
    sum_feat_sq := ops.add fs.sum_feat_sq (ops.mul v v) }

/-- Modelled from the spec: the part of the type `example` (declared in `example.h`, not
part of the sources at hand) that the parsers write: the 256 feature spaces, the
namespace-index list, the tag and the blank-line flag. -/
structure Example (F : Type) where
  feature_space : Nat → features F
  indices : List Nat
  tag : List Char
  is_newline : Bool

/-- An example with nothing stored. -/
def Example.empty {F : Type} (ops : FloatOps F) : Example F :=
  { feature_space := fun _ => features.empty ops, indices := [], tag := [], is_newline := false }

/-- Replace one feature space of an example. -/
def Example.setSpace {F : Type} (ae : Example F) (i : Nat) (fs : features F) : Example F :=
  { ae with feature_space := fun j => if j = i then fs else ae.feature_space j }

/-- Append a group id to the namespace-index list, `indices.push_back`. -/
def Example.pushIndex {F : Type} (ae : Example F) (i : Nat) : Example F :=
  { ae with indices := ae.indices ++ [i] }

/-- What the text parser reads from `vw` and from `parser`, together with the collaborators
that are declared outside the sources at hand (`parseFloat`, `uniform_hash`, `hashstring`,
and the constants of `constant.h`), which are taken as parameters.

`parseFloat sv` is the pair of the value read and of `end_read`, the number of characters of
`sv` consumed (0 when `sv` does not start with a number). A dictionary is its lookup function. -/
structure vw (F : Type) where
  strict_parse : Bool
  hasher : List Char → Nat → Nat
  hash_seed : Nat
  parse_mask : Nat
  redefine_some : Bool
  redefine : Nat → Nat
  affix_features : Nat → Nat
  spelling_features : Nat → Bool
  namespace_dictionaries : Nat → List (List Char → Option (features F))
  parseFloat : List Char → F × Nat
  uniform_hash : List Char → Nat → Nat
  hashstring : List Char → Nat → Nat
  affix_namespace : Nat
  spelling_namespace : Nat
  dictionary_namespace : Nat
  affix_constant : Nat
  quadratic_constant : Nat

/-- The nine call sites of `parserWarning`, named after their message. -/
inductive WarningKind where
  /-- invalid feature value read as NaN, replaced with 0 (`isFeatureValueFloat`). -/
  | featureValueNaN
  /-- bar, colon, space or EOL expected after a feature name (`isFeatureValueFloat`). -/
  | featureValueMalformed
  /-- Float expected after the colon of a namespace (`nameSpaceInfoValue`). -/
  | namespaceFloatExpected
  /-- invalid namespace value read as NaN, replaced with 1 (`nameSpaceInfoValue`). -/
  | namespaceValueNaN
  /-- bar, colon, space or EOL expected after a namespace name (`nameSpaceInfoValue`). -/
  | namespaceValueMalformed
  /-- String expected after a bar (`nameSpaceInfo`). -/
  | namespaceStringExpected
  /-- bar, space or EOL expected after a feature (`listFeatures`). -/
  | listFeaturesMalformed
  /-- bar, String, space or EOL expected after a bar (`nameSpace`). -/
  | namespaceMalformed
  /-- bar or EOL expected at the end of the namespaces (`listNameSpace`). -/
  | listNameSpaceMalformed
deriving DecidableEq, Repr

/-- One message of `parserWarning`: the call site and the variable part `var_msg`. -/
structure ParserMessage where
  kind : WarningKind
  var_msg : List Char
deriving DecidableEq, Repr

/-- Result of a member function: normal return with a value and the new state, a thrown
`strict_parse_exception` with the state at the throw, or `timeout` when a loop of the
embedding used up its budget (shown below never to happen). -/
inductive Outcome (σ α : Type) where
  | ok (a : α) (s : σ)
  | thrown (m : ParserMessage) (s : σ)
  | timeout

/-- The state in which a member function left the parser, whether it returned or threw. -/
def Outcome.state? {σ α : Type} : Outcome σ α → Option σ
  | .ok _ s => some s
  | .thrown _ s => some s
  | .timeout => none

/-- A property of the final state, on return and on throw alike. -/
def Outcome.Holds {σ α : Type} (P : σ → Prop) : Outcome σ α → Prop
  | .ok _ s => P s
  | .thrown _ s => P s
  | .timeout => True

/-- The function returned normally. -/
def Outcome.isOk {σ α : Type} : Outcome σ α → Bool
  | .ok _ _ => true
  | _ => false

/-- The function threw. -/
def Outcome.isThrown {σ α : Type} : Outcome σ α → Bool
  | .thrown _ _ => true
  | _ => false

/-- Sequencing of two member-function calls: the second runs on the state the first returned;
a throw or a timeout of the first ends the sequence. -/
def Outcome.bind {σ α β : Type} (x : Outcome σ α) (f : α → σ → Outcome σ β) : Outcome σ β :=
  match x with
  | .ok a s => f a s
  | .thrown m s => .thrown m s
  | .timeout => .timeout

/-- The mutable members of `TC_parser` (the line and the configuration are passed to every
function instead), and `warnings`, the messages handed to the logger so far. -/
structure TCParser (F : Type) where
  _read_idx : Nat
  _cur_channel_v : F
  _new_index : Bool
  _anon : Nat
  _channel_hash : Nat
  _base : List Char
  _index : Nat
  _v : F
  _ae : Example F
  _spelling : List Char
  warnings : List ParserMessage

/-! ## The text parser -/

/-- `TC_parser::parserWarning`: throws in strict mode, logs a warning otherwise. The message
is kept as its call site and its variable part. -/
def parserWarning {F : Type} (all : vw F) (k : WarningKind) (var_msg : List Char)
    (st : TCParser F) : Outcome (TCParser F) Unit :=
  if all.strict_parse then .thrown ⟨k, var_msg⟩ st
  else .ok () { st with warnings := st.warnings ++ [⟨k, var_msg⟩] }

/-- The characters that end a feature or a namespace header: space, tab, bar and CR. -/
def isSeparator (c : Char) : Bool := c == ' ' || c == '\t' || c == '|' || c == '\r'

/-- The test `_read_idx >= _line.size() || _line[_read_idx] is one of space, tab, bar, CR`. -/
def atSeparator (line : List Char) (i : Nat) : Bool :=
  match line.get? i with
  | none => true
  | some c => isSeparator c

/-- The characters that end a name in `read_name`: space, colon, tab, bar and CR. -/
def isNameStop (c : Char) : Bool := c == ' ' || c == ':' || c == '\t' || c == '|' || c == '\r'

/-- The exit test of the loop of `read_name`: end of line, space, colon, tab, bar or CR. -/
def nameEnd (line : List Char) (i : Nat) : Bool :=
  match line.get? i with
  | none => true
  | some c => isNameStop c

/-- The loop of `read_name`, with a budget of iterations. -/
def read_name_loop (line : List Char) : Nat → Nat → Nat
  | 0, i => i
  | n + 1, i => if nameEnd line i then i else read_name_loop line n (i + 1)

/-- `TC_parser::read_name`: advances to the end of the name and returns the name. The budget
`line.length - name_start` is the largest number of iterations the loop can make. -/
def read_name {F : Type} (line : List Char) (st : TCParser F) : List Char × TCParser F :=
  let name_start := st._read_idx
  let i := read_name_loop line (line.length - name_start) name_start
  ((line.drop name_start).take (i - name_start), { st with _read_idx := i })

/-- Membership in the set " \t\r\n" of `stringFeatureValue`. -/
def isBlank (c : Char) : Bool := c == ' ' || c == '\t' || c == '\r' || c == '\n'

/-- `string_view::find_first_of` and `find_first_not_of` for a predicate on characters;
`none` is `npos`. -/
def find_first (p : Char → Bool) : List Char → Option Nat
  | [] => none
  | c :: cs => if p c then some 0 else (find_first p cs).map (· + 1)

/-- `TC_parser::stringFeatureValue`. -/
def stringFeatureValue {F : Type} (sv : List Char) (st : TCParser F) :
    List Char × TCParser F :=
  let start_idx := find_first (fun c => !isBlank c) sv
  let (sv1, st1) :=
    match start_idx with
    | some k => if k > 0 then (sv.drop k, { st with _read_idx := st._read_idx + k }) else (sv, st)
    | none => (sv, st)
  let end_idx := match find_first isBlank sv1 with
    | some k => k
    | none => sv1.length
  (sv1.take end_idx, { st1 with _read_idx := st1._read_idx + end_idx })

/-- `TC_parser::isFeatureValueFloat`: the value returned is the pair of the function's
result and of the reference argument `float_feature_value`. -/
def isFeatureValueFloat {F : Type} (ops : FloatOps F) (all : vw F) (line : List Char)
    (st : TCParser F) : Outcome (TCParser F) (Bool × F) :=
  if atSeparator line st._read_idx then .ok (true, ops.one) st
  else if line.get? st._read_idx = some ':' then
    let st1 := { st with _read_idx := st._read_idx + 1 }
    let r := all.parseFloat (line.drop st1._read_idx)
    let st2 := { st1 with _v := r.1 }
    if r.2 = 0 then .ok (false, r.1) st2
    else if ops.isNaN r.1 then
      (parserWarning all .featureValueNaN (line.drop st2._read_idx)
          { st2 with _v := ops.zero }).bind fun _ st3 =>
        .ok (true, ops.zero) { st3 with _read_idx := st3._read_idx + r.2 }
    else .ok (true, r.1) { st2 with _read_idx := st2._read_idx + r.2 }
  else
    (parserWarning all .featureValueMalformed (line.take st._read_idx)
        { st with _v := ops.zero }).bind fun _ st1 => .ok (true, ops.zero) st1

/-- Lines 212-227 of `maybeFeature`: the feature is appended to the feature space of the
current group, with its audit strings in audit mode. -/
def pushFeature {F : Type} (ops : FloatOps F) (audit : Bool) (feature_name sfv : List Char)
    (word_hash : Nat) (st : TCParser F) : Example F :=
  let fs := (st._ae.feature_space st._index).push_back ops st._v word_hash
  let fs1 :=
    if audit then
      if !sfv.isEmpty then
        { fs with space_names := fs.space_names ++ [⟨st._base, feature_name ++ ['^'] ++ sfv⟩] }
      else { fs with space_names := fs.space_names ++ [⟨st._base, feature_name⟩] }
    else fs
  st._ae.setSpace st._index fs1

/-- The characters of a `v_array<char>` read as a C string: up to the first NUL. -/
def cstr (cs : List Char) : List Char := cs.takeWhile (fun c => c != Char.ofNat 0)

/-- The `while (affix > 0)` loop of `maybeFeature` (lines 235-263) on the affix feature
space. `affix` is a `uint64_t`, so sixteen shifts by four bits exhaust it; the budget of
the embedding is at least sixteen. -/
def affixLoop {F : Type} (ops : FloatOps F) (all : vw F) (audit : Bool)
    (feature_name : List Char) (st : TCParser F) : Nat → Nat → features F → features F
  | 0, _, affix_fs => affix_fs
  | n + 1, affix, affix_fs =>
    if affix > 0 then
      let isPre : Bool := affix &&& 1 != 0
      let len := (affix >>> 1) &&& 7
      let affix_name :=
        if feature_name.length > len then
          if isPre then feature_name.take len else feature_name.drop (feature_name.length - len)
        else feature_name
      let word_hash := (all.hasher affix_name st._channel_hash *
        (all.affix_constant + (affix &&& 15) * all.quadratic_constant)) % 2 ^ 64
      let fs1 := affix_fs.push_back ops st._v word_hash
      let fs2 :=
        if audit then
          let affix_v := (if st._index != 32 then [Char.ofNat st._index] else []) ++
            [if isPre then '+' else '-', Char.ofNat (48 + len), '='] ++ affix_name ++
            [Char.ofNat 0]
          { fs1 with space_names := fs1.space_names ++ [⟨"affix".toList, cstr affix_v⟩] }
        else fs1
      affixLoop ops all audit feature_name st n (affix >>> 4) fs2
    else affix_fs

/-- Lines 229-264 of `maybeFeature`: affix features. -/
def affixBlock {F : Type} (ops : FloatOps F) (all : vw F) (audit : Bool)
    (feature_name : List Char) (st : TCParser F) : TCParser F :=
  if all.affix_features st._index > 0 ∧ !feature_name.isEmpty then
    let ae1 :=
      if (st._ae.feature_space all.affix_namespace).size = 0 then
        st._ae.pushIndex all.affix_namespace
      else st._ae
    let affix := all.affix_features st._index
    let affix_fs :=
      affixLoop ops all audit feature_name st 16 affix (ae1.feature_space all.affix_namespace)
    { st with _ae := ae1.setSpace all.affix_namespace affix_fs }
  else st

/-- The class of one character in a spelling feature (lines 273-283). -/
def spellingClass (c : Char) : Char :=
  if '0' ≤ c ∧ c ≤ '9' then '0'
  else if 'a' ≤ c ∧ c ≤ 'z' then 'a'
  else if 'A' ≤ c ∧ c ≤ 'Z' then 'A'
  else if c = '.' then '.'
  else '#'

/-- Lines 265-303 of `maybeFeature`: the spelling feature. -/
def spellingBlock {F : Type} (ops : FloatOps F) (all : vw F) (audit : Bool)
    (feature_name : List Char) (st : TCParser F) : TCParser F :=
  if all.spelling_features st._index then
    let ae1 :=
      if (st._ae.feature_space all.spelling_namespace).size = 0 then
        st._ae.pushIndex all.spelling_namespace
      else st._ae
    let spelling := feature_name.map spellingClass
    let word_hash := all.hashstring spelling st._channel_hash
    let fs1 := (ae1.feature_space all.spelling_namespace).push_back ops st._v word_hash
    let fs2 :=
      if audit then
        let spelling_v := (if st._index != 32 then [Char.ofNat st._index, '_'] else []) ++
          spelling ++ [Char.ofNat 0]
        { fs1 with space_names := fs1.space_names ++ [⟨"spelling".toList, cstr spelling_v⟩] }
      else fs1
    { st with _ae := ae1.setSpace all.spelling_namespace fs2, _spelling := spelling }
  else st

/-- Body of the loop over the dictionaries of the current group (lines 311-329) for one
dictionary `map`. -/
def dictionaryStep {F : Type} (ops : FloatOps F) (all : vw F) (audit : Bool)
    (feature_name : List Char) (index : Nat) (ae : Example F)
    (map : List Char → Option (features F)) : Example F :=
  match map feature_name with
  | none => ae
  | some feats =>
    if feats.values.length > 0 then
      let ae1 :=
        if (ae.feature_space all.dictionary_namespace).size = 0 then
          ae.pushIndex all.dictionary_namespace
        else ae
      let dict_fs := ae1.feature_space all.dictionary_namespace
      let fs1 : features F :=
        { dict_fs with
          values := dict_fs.values ++ feats.values
          indicies := dict_fs.indicies ++ feats.indicies
          sum_feat_sq := ops.add dict_fs.sum_feat_sq feats.sum_feat_sq }
      let fs2 :=
        if audit then
          { fs1 with space_names := fs1.space_names ++ feats.indicies.map (fun id =>
              ⟨"dictionary".toList,
                [Char.ofNat index, '_'] ++ feature_name ++ ['='] ++ (Nat.repr id).toList⟩) }
        else fs1
      ae1.setSpace all.dictionary_namespace fs2
    else ae

/-- Lines 304-331 of `maybeFeature`: dictionary features. -/
def dictionaryBlock {F : Type} (ops : FloatOps F) (all : vw F) (audit : Bool)
    (feature_name : List Char) (st : TCParser F) : TCParser F :=
  let ae1 := (all.namespace_dictionaries st._index).foldl
    (dictionaryStep ops all audit feature_name st._index) st._ae
  { st with _ae := ae1 }

/-- Lines 212-331 of `maybeFeature`: everything done for a feature whose value is not 0. -/
def storeFeature {F : Type} (ops : FloatOps F) (all : vw F) (audit : Bool)
    (feature_name sfv : List Char) (word_hash : Nat) (st : TCParser F) : TCParser F :=
  let st1 := { st with _ae := pushFeature ops audit feature_name sfv word_hash st }
  dictionaryBlock ops all audit feature_name
    (spellingBlock ops all audit feature_name (affixBlock ops all audit feature_name st1))

/-- Lines 181-189 of `maybeFeature`: the string value of the feature (empty for a numeric
feature) and the state with `_v` set. `r` is what `isFeatureValueFloat` returned. -/
def featureValue {F : Type} (ops : FloatOps F) (line : List Char) (r : Bool × F)
    (st : TCParser F) : List Char × TCParser F :=
  if !r.1 then
    let q := stringFeatureValue (line.drop st._read_idx) st
    (q.1, { q.2 with _v := ops.one })
  else ([], { st with _v := ops.mul st._cur_channel_v r.2 })

/-- Lines 191-209 of `maybeFeature`: the hash of the feature and the state with the
anonymous-feature counter advanced where it is used. -/
def featureHash {F : Type} (all : vw F) (feature_name sfv : List Char) (st : TCParser F) :
    Nat × TCParser F :=
  if !sfv.isEmpty then
    (all.hasher sfv (all.hasher feature_name st._channel_hash) &&& all.parse_mask, st)
  else if !feature_name.isEmpty then
    (all.hasher feature_name st._channel_hash &&& all.parse_mask, st)
  else
    ((st._channel_hash + st._anon) % 2 ^ 64, { st with _anon := (st._anon + 1) % 2 ^ 64 })

/-- `TC_parser::maybeFeature`. -/
def maybeFeature {F : Type} (ops : FloatOps F) (all : vw F) (audit : Bool) (line : List Char)
    (st : TCParser F) : Outcome (TCParser F) Unit :=
  if atSeparator line st._read_idx then .ok () st
  else
    let rn := read_name line st
    (isFeatureValueFloat ops all line rn.2).bind fun r st2 =>
      let fv := featureValue ops line r st2
      let fh := featureHash all rn.1 fv.1 fv.2
      if ops.isZero fh.2._v then .ok () fh.2
      else .ok () (storeFeature ops all audit rn.1 fv.1 fh.1 fh.2)

/-- `TC_parser::nameSpaceInfoValue`. -/
def nameSpaceInfoValue {F : Type} (ops : FloatOps F) (all : vw F) (line : List Char)
    (st : TCParser F) : Outcome (TCParser F) Unit :=
  if atSeparator line st._read_idx then .ok () st
  else if line.get? st._read_idx = some ':' then
    let st1 := { st with _read_idx := st._read_idx + 1 }
    let r := all.parseFloat (line.drop st1._read_idx)
    let st2 := { st1 with _cur_channel_v := r.1 }
    (if r.2 + st2._read_idx ≥ line.length then
        parserWarning all .namespaceFloatExpected (line.take st2._read_idx) st2
      else .ok () st2).bind fun _ st3 =>
    (if ops.isNaN st3._cur_channel_v then
        parserWarning all .namespaceValueNaN (line.drop st3._read_idx)
          { st3 with _cur_channel_v := ops.one }
      else .ok () st3).bind fun _ st4 =>
    .ok () { st4 with _read_idx := st4._read_idx + r.2 }
  else parserWarning all .namespaceValueMalformed (line.take st._read_idx) st

/-- `TC_parser::nameSpaceInfo`. -/
def nameSpaceInfo {F : Type} (ops : FloatOps F) (all : vw F) (audit : Bool) (line : List Char)
    (st : TCParser F) : Outcome (TCParser F) Unit :=
  match line.get? st._read_idx with
  | none => parserWarning all .namespaceStringExpected (line.take st._read_idx) st
  | some c =>
    if c == '|' || c == ' ' || c == '\t' || c == ':' || c == '\r' then
      parserWarning all .namespaceStringExpected (line.take st._read_idx) st
    else
      let index0 := c.toNat % 256
      let index := if all.redefine_some then all.redefine index0 else index0
      let st1 := { st with _index := index }
      let st2 := if (st1._ae.feature_space index).size = 0 then { st1 with _new_index := true }
        else st1
      let rn := read_name line st2
      let st3 := if audit then { rn.2 with _base := rn.1 } else rn.2
      nameSpaceInfoValue ops all line { st3 with _channel_hash := all.hasher rn.1 all.hash_seed }

/-- The test of the `while` of `listFeatures`: a space or a tab at the read index. -/
def atBlank (line : List Char) (i : Nat) : Bool :=
  match line.get? i with
  | none => false
  | some c => c == ' ' || c == '\t'

/-- The `while` loop of `listFeatures`, with a budget of iterations. -/
def listFeaturesLoop {F : Type} (ops : FloatOps F) (all : vw F) (audit : Bool)
    (line : List Char) : Nat → TCParser F → Outcome (TCParser F) Unit
  | 0, st => if atBlank line st._read_idx then .timeout else .ok () st
  | n + 1, st =>
    if atBlank line st._read_idx then
      (maybeFeature ops all audit line { st with _read_idx := st._read_idx + 1 }).bind
        fun _ s => listFeaturesLoop ops all audit line n s
    else .ok () st

/-- The test after the loop of `listFeatures`: end of line, bar or CR. -/
def atSectionEnd (line : List Char) (i : Nat) : Bool :=
  match line.get? i with
  | none => true
  | some c => c == '|' || c == '\r'

/-- `TC_parser::listFeatures`. Every iteration of the loop consumes a character, so the
budget `line.length - _read_idx` is never used up. -/
def listFeatures {F : Type} (ops : FloatOps F) (all : vw F) (audit : Bool) (line : List Char)
    (st : TCParser F) : Outcome (TCParser F) Unit :=
  (listFeaturesLoop ops all audit line (line.length - st._read_idx) st).bind fun _ s =>
    if !atSectionEnd line s._read_idx then
      parserWarning all .listFeaturesMalformed (line.take s._read_idx) s
    else .ok () s

/-- Lines 404-407, the first four assignments of `nameSpace`: the scale is 1, the group is 0,
the new-group flag is clear and the anonymous-feature counter is 0. -/
def nameSpaceReset {F : Type} (ops : FloatOps F) (st : TCParser F) : TCParser F :=
  { st with _cur_channel_v := ops.one, _index := 0, _new_index := false, _anon := 0 }

/-- Lines 412-420 of `nameSpace`, the set-up of an unnamed section: the group is the space
character, the new-group flag is raised when its feature space is empty, and the channel hash
is 0 or the hash of the empty string. -/
def unnamedSection {F : Type} (all : vw F) (audit : Bool) (st0 : TCParser F) : TCParser F :=
  let st1 := { st0 with _index := 32 }
  let st2 := if (st1._ae.feature_space 32).size = 0 then { st1 with _new_index := true }
    else st1
  let st3 := if audit then { st2 with _base := [' '] } else st2
  { st3 with _channel_hash := if all.hash_seed = 0 then 0 else all.uniform_hash [] all.hash_seed }

/-- `TC_parser::nameSpace`. -/
def nameSpace {F : Type} (ops : FloatOps F) (all : vw F) (audit : Bool) (line : List Char)
    (st : TCParser F) : Outcome (TCParser F) Unit :=
  let st0 := nameSpaceReset ops st
  (if atSeparator line st0._read_idx then
      listFeatures ops all audit line (unnamedSection all audit st0)
    else if line.get? st0._read_idx ≠ some ':' then
      (nameSpaceInfo ops all audit line st0).bind fun _ s => listFeatures ops all audit line s
    else parserWarning all .namespaceMalformed (line.take st0._read_idx) st0).bind fun _ s =>
  if s._new_index ∧ (s._ae.feature_space s._index).size > 0 then
    .ok () { s with _ae := s._ae.pushIndex s._index }
  else .ok () s

/-- The `while` loop of `listNameSpace`, with a budget of iterations. -/
def listNameSpaceLoop {F : Type} (ops : FloatOps F) (all : vw F) (audit : Bool)
    (line : List Char) : Nat → TCParser F → Outcome (TCParser F) Unit
  | 0, st => if line.get? st._read_idx = some '|' then .timeout else .ok () st
  | n + 1, st =>
    if line.get? st._read_idx = some '|' then
      (nameSpace ops all audit line { st with _read_idx := st._read_idx + 1 }).bind
        fun _ s => listNameSpaceLoop ops all audit line n s
    else .ok () st

/-- `TC_parser::listNameSpace`. Every iteration of the loop consumes a bar, so the budget
`line.length - _read_idx` is never used up. -/
def listNameSpace {F : Type} (ops : FloatOps F) (all : vw F) (audit : Bool) (line : List Char)
    (st : TCParser F) : Outcome (TCParser F) Unit :=
  (listNameSpaceLoop ops all audit line (line.length - st._read_idx) st).bind fun _ s =>
    match line.get? s._read_idx with
    | none => .ok () s
    | some c =>
      if c != '\r' then parserWarning all .listNameSpaceMalformed (line.take s._read_idx) s
      else .ok () s

/-- The constructor `TC_parser(line, all, ae)`, which does the whole parse. The members the
constructor leaves uninitialised have the values they have in `u`; `u.warnings` is what was
logged before the call. -/
def TCParser.construct {F : Type} (ops : FloatOps F) (all : vw F) (audit : Bool)
    (line : List Char) (ae : Example F) (u : TCParser F) : Outcome (TCParser F) Unit :=
  if !line.isEmpty then
    listNameSpace ops all audit line { u with _spelling := [], _read_idx := 0, _ae := ae }
  else .ok () { u with _spelling := [], _ae := { ae with is_newline := true } }

/-! ## Namespace bookkeeping of the JSON parser -/

/-- Modelled from the spec: the record `Namespace` of the JSON parser (declared in
`json_utils.h`, not part of the sources at hand), as `Context::PushNamespace` fills it: the
one-byte group id, the hash of the name, the number of features added in this scope and the
name. The pointer `ftrs` into the example is the feature space of `feature_group`. -/
structure Namespace where
  feature_group : Nat
  namespace_hash : Nat
  feature_count : Nat
  name : List Char
deriving DecidableEq, Repr

/-- The members of the JSON `Context` that `PopNamespace` reads and writes: the example
being built, the stack of namespace scopes and the stack of states to return to (`S` is the
type of parser states). The last element of a list is the top of the stack. -/
structure Context (F S : Type) where
  ex : Example F
  namespace_path : List Namespace
  return_path : List S

/-- `Context::PopNamespace`: the group of the scope that ends is listed when features were
added to it and it is not listed yet; the scope is popped and the state to return to is
returned. On an empty stack the source has no defined behaviour: `none`. -/
def Context.PopNamespace {F S : Type} (ctx : Context F S) : Option (S × Context F S) :=
  match ctx.namespace_path.getLast?, ctx.return_path.getLast? with
  | some ns, some return_state =>
    let ex1 :=
      if ns.feature_count > 0 then
        if ns.feature_group ∉ ctx.ex.indices then ctx.ex.pushIndex ns.feature_group else ctx.ex
      else ctx.ex
    some (return_state, { ctx with ex := ex1, namespace_path := ctx.namespace_path.dropLast,
                                   return_path := ctx.return_path.dropLast })
  | _, _ => none

/-! ## A concrete configuration for evaluation -/

/-- A small stand-in for `float`: integers, and `none` for NaN. -/
def sampleOps : FloatOps (Option Int) where
  zero := some 0
  one := some 1
  mul := fun a b => match a, b with
    | some x, some y => some (x * y)
    | _, _ => none
  add := fun a b => match a, b with
    | some x, some y => some (x + y)
    | _, _ => none
  isZero := fun a => a == some 0
  isNaN := fun a => a == none

/-- Value of a string of decimal digits. -/
def digitsValue (cs : List Char) : Int :=
  cs.foldl (fun acc c => acc * 10 + ((c.toNat - 48 : Nat) : Int)) 0

/-- A float reader for evaluation: `nan` is read as NaN (three characters), a run of decimal
digits as its value, and anything else consumes nothing, as `strtof` does on a string that
does not start with a number. -/
def sampleParseFloat (sv : List Char) : Option Int × Nat :=
  if sv.take 3 = ['n', 'a', 'n'] then (none, 3)
  else
    let ds := sv.takeWhile Char.isDigit
    if ds.isEmpty then (some 0, 0) else (some (digitsValue ds), ds.length)

/-- A hash function for evaluation. -/
def sampleHasher (s : List Char) (seed : Nat) : Nat :=
  s.foldl (fun h c => (h * 31 + c.toNat) % 2 ^ 64) seed

/-- A configuration for evaluation: no renaming, no affix, spelling or dictionary features,
an 18-bit mask, and the given strictness. -/
def sampleVW (strict : Bool) : vw (Option Int) where
  strict_parse := strict
  hasher := sampleHasher
  hash_seed := 0
  parse_mask := 2 ^ 18 - 1
  redefine_some := false
  redefine := fun i => i
  affix_features := fun _ => 0
  spelling_features := fun _ => false
  namespace_dictionaries := fun _ => []
  parseFloat := sampleParseFloat
  uniform_hash := sampleHasher
  hashstring := sampleHasher
  affix_namespace := 132
  spelling_namespace := 133
  dictionary_namespace := 135
  affix_constant := 13903957
  quadratic_constant := 27942141

/-- A parser state with nothing read and nothing stored. -/
def sampleState : TCParser (Option Int) where
  _read_idx := 0
  _cur_channel_v := some 1
  _new_index := false
  _anon := 0
  _channel_hash := 0
  _base := []
  _index := 0
  _v := some 0
  _ae := Example.empty sampleOps
  _spelling := []
  warnings := []

/-- An example that lists the group of the space character although the feature space of
that group is empty. -/
def sampleListedEmpty : Example (Option Int) :=
  { Example.empty sampleOps with indices := [32] }

/-- A JSON context in which one scope of group `a`, with one feature added, is about to
end, and whose example lists `a` already. -/
def sampleContext : Context (Option Int) Unit where
  ex := { Example.empty sampleOps with indices := [97] }
  namespace_path := [{ feature_group := 97, namespace_hash := 0, feature_count := 1, name := ['a'] }]
  return_path := [()]

/-- The parser state after `|a ` of a line: the read index is 3, the group is `a`, the
channel hash is the one of the name `a`, and the scale is 2. -/
def sampleTokenState : TCParser (Option Int) :=
  { sampleState with
    _read_idx := 3, _index := 97, _channel_hash := sampleHasher ['a'] 0,
    _cur_channel_v := some 2 }

/-- The parser state on which `listFeatures` starts in the unnamed section of a line that
begins with a bar: the read index is 1. -/
def sampleSectionState : TCParser (Option Int) :=
  unnamedSection (sampleVW false) false
    (nameSpaceReset sampleOps { sampleState with _read_idx := 1, _anon := 7 })

/-- The line `| :3 x :0 :5`: three anonymous tokens, the second of value 0, and a named one. -/
def sampleAnonLine : List Char :=
  ['|', ' ', ':', '3', ' ', 'x', ' ', ':', '0', ' ', ':', '5']

/-- The feature part of the line `1 |a b:xyz`: `substring_to_example` hands the parser the
line from its first bar on (lines 513-518). -/
def sampleStringLine : List Char := ['|', 'a', ' ', 'b', ':', 'x', 'y', 'z']

/-- The line `| x |: y`: an unnamed section, then a bar immediately followed by a colon. -/
def sampleColonLine : List Char := ['|', ' ', 'x', ' ', '|', ':', ' ', 'y']

/-- The state in which the loop of `listNameSpace` stands at the second bar of
`sampleColonLine`, after the section `| x ` was parsed into the empty example. -/
def sampleColonState (strict : Bool) : TCParser (Option Int) :=
  match nameSpace sampleOps (sampleVW strict) false sampleColonLine
      { sampleState with _read_idx := 1 } with
  | .ok _ s => s
  | _ => sampleState

/-! ## Relations and predicates used in the statements -/

/-- The function returned or threw, and the state it left satisfies `P`. -/
def Outcome.Ensures {σ α : Type} (P : σ → Prop) : Outcome σ α → Prop
  | .ok _ s => P s
  | .thrown _ s => P s
  | .timeout => False

/-- The members that are fixed while the features of one namespace section are read, and
the example, are the same in both states. -/
structure SameSection {F : Type} (s s' : TCParser F) : Prop where
  index : s'._index = s._index
  channel_hash : s'._channel_hash = s._channel_hash
  cur_channel_v : s'._cur_channel_v = s._cur_channel_v
  new_index : s'._new_index = s._new_index
  base : s'._base = s._base
  ae : s'._ae = s._ae

/-- The section members agree and the read index did not move back. -/
def Advanced {F : Type} (s s' : TCParser F) : Prop :=
  SameSection s s' ∧ s._read_idx ≤ s'._read_idx

/-- What one call of `maybeFeature` does to the section members and to the example: nothing,
or it stores one feature whose value is not 0. The read index does not move back. -/
def FeatureStep {F : Type} (ops : FloatOps F) (all : vw F) (audit : Bool)
    (s s' : TCParser F) : Prop :=
  s._read_idx ≤ s'._read_idx ∧
    (SameSection s s' ∨ ∃ s1 feature_name sfv word_hash, SameSection s s1 ∧
      ops.isZero s1._v = false ∧ s' = storeFeature ops all audit feature_name sfv word_hash s1)

/-- The index list has no duplicates and every group id in it has a non-empty feature
space. -/
def Example.Listed {F : Type} (ae : Example F) : Prop :=
  ae.indices.Nodup ∧ ∀ i ∈ ae.indices, 0 < (ae.feature_space i).size

/-- Invariant of the parser while the features of a section are read: the index list is
well formed, and a group that was empty when the section began is not listed yet. -/
def SectionInv {F : Type} (s : TCParser F) : Prop :=
  s._ae.Listed ∧ (s._new_index = true → s._index ∉ s._ae.indices)

/-- The invariant of a section once a feature of the section is stored. -/
def StoredInv {F : Type} (ae : Example F) (new_index : Bool) (index : Nat) : Prop :=
  ae.Listed ∧ (new_index = true → index ∉ ae.indices) ∧ 0 < (ae.feature_space index).size

/-- The group, its hash, the new-group flag, the audit base and the example are the same
in both states, and the read index did not move back. Only the scale and the scratch members
may differ. -/
structure SameGroup {F : Type} (s s' : TCParser F) : Prop where
  index : s'._index = s._index
  channel_hash : s'._channel_hash = s._channel_hash
  new_index : s'._new_index = s._new_index
  base : s'._base = s._base
  ae : s'._ae = s._ae
  read_idx : s._read_idx ≤ s'._read_idx

/-- The feature group a namespace name starting with the byte `c` is written to. -/
def groupOf {F : Type} (all : vw F) (c : Char) : Nat :=
  if all.redefine_some then all.redefine (c.toNat % 256) else c.toNat % 256

/-- What `nameSpaceInfo` leaves when the read index is at the first byte `c` of a name: the
group of `c`, the hash of the name, the example untouched, and the new-group flag raised
when the feature space of the group is empty. -/
structure InfoDone {F : Type} (all : vw F) (line : List Char) (c : Char)
    (s s' : TCParser F) : Prop where
  index : s'._index = groupOf all c
  channel_hash : s'._channel_hash = all.hasher (read_name line s).1 all.hash_seed
  new_index : s'._new_index =
    (s._new_index || decide ((s._ae.feature_space (groupOf all c)).size = 0))
  ae : s'._ae = s._ae
  read_idx : s._read_idx ≤ s'._read_idx
  scale : line.get? (read_name line s).2._read_idx ≠ some ':' →
    s'._cur_channel_v = s._cur_channel_v
  anon : s'._anon = s._anon

/-- The feature group `fs'` is `fs` with more values and hashes appended. -/
def features.Extends {F : Type} (fs fs' : features F) : Prop :=
  ∃ vs ids, fs'.values = fs.values ++ vs ∧ fs'.indicies = fs.indicies ++ ids

/-- Every feature space of `ae'` is the one of `ae` with more features appended. -/
def Example.Extends {F : Type} (ae ae' : Example F) : Prop :=
  ∀ j, (ae.feature_space j).Extends (ae'.feature_space j)

/-- The feature `(v, h)` is the next one stored in group `g`: the feature space of `g` in
`ae'` is the one in `ae`, then `(v, h)`, then possibly more. -/
def StoredNext {F : Type} (ae ae' : Example F) (g : Nat) (v : F) (h : Nat) : Prop :=
  ∃ vs ids, (ae'.feature_space g).values = (ae.feature_space g).values ++ v :: vs ∧
    (ae'.feature_space g).indicies = (ae.feature_space g).indicies ++ h :: ids

/-- The states on which the loop of `listFeatures` calls `maybeFeature`, in order: the loop
of `listFeaturesLoop` with the calls recorded. -/
def listFeaturesCalls {F : Type} (ops : FloatOps F) (all : vw F) (audit : Bool)
    (line : List Char) : Nat → TCParser F → List (TCParser F)
  | 0, _ => []
  | n + 1, st =>
    if atBlank line st._read_idx then
      { st with _read_idx := st._read_idx + 1 } ::
        (match maybeFeature ops all audit line { st with _read_idx := st._read_idx + 1 } with
          | .ok _ s => listFeaturesCalls ops all audit line n s
          | _ => [])
    else []

/-- The call of `maybeFeature` in state `s` reaches the case of an anonymous feature (lines
205-209): a token is present, `isFeatureValueFloat` returns, and both the string value and
the name are empty. -/
def anonymousAt {F : Type} (ops : FloatOps F) (all : vw F) (line : List Char)
    (s : TCParser F) : Bool :=
  !atSeparator line s._read_idx &&
    match isFeatureValueFloat ops all line (read_name line s).2 with
    | .ok r s2 => (featureValue ops line r s2).1.isEmpty && (read_name line s).1.isEmpty
    | _ => false

/-- The two outcomes are of the same kind, with the same message when thrown, and their
states differ at most in the anonymous-feature counter. -/
def Outcome.SameButAnon {F : Type} :
    Outcome (TCParser F) Unit → Outcome (TCParser F) Unit → Prop
  | .ok _ s, .ok _ t => ∃ x, s = { t with _anon := x }
  | .thrown m s, .thrown m' t => m = m' ∧ ∃ x, s = { t with _anon := x }
  | .timeout, .timeout => True
  | _, _ => False

/-- Every feature space of `ae'` other than the one of group `g` and those of the affix,
spelling and dictionary namespaces is the one of `ae`. -/
def Frame {F : Type} (all : vw F) (ae ae' : Example F) (g : Nat) : Prop :=
  ∀ j, j ≠ g → j ≠ all.affix_namespace → j ≠ all.spelling_namespace →
    j ≠ all.dictionary_namespace → ae'.feature_space j = ae.feature_space j

/-- Lines 377-382 of `nameSpaceInfo`, the set-up of a named section whose name starts with
the byte `c`: the state on which `nameSpaceInfoValue` is called. -/
def namedSection {F : Type} (all : vw F) (audit : Bool) (line : List Char) (st : TCParser F)
    (c : Char) : TCParser F :=
  let index0 := c.toNat % 256
  let index := if all.redefine_some then all.redefine index0 else index0
  let st1 := { st with _index := index }
  let st2 := if (st1._ae.feature_space index).size = 0 then { st1 with _new_index := true }
    else st1
  let rn := read_name line st2
  let st3 := if audit then { rn.2 with _base := rn.1 } else rn.2
  { st3 with _channel_hash := all.hasher rn.1 all.hash_seed }

/-! ## Reading a line and its label section -/

/-- What `read_features` hands back: the pointer `line` (the bytes from it on), the length
`num_chars` of the line, and the return value. -/
structure ReadLine where
  line : List Char
  num_chars : Nat
  ret : Nat
deriving DecidableEq, Repr

/-- The text the caller sees: `num_chars` bytes from `line` on. -/
def ReadLine.view (r : ReadLine) : List Char := r.line.take r.num_chars

/-- `read_features`. The collaborator `input->readto(line, '\n')` is represented by the
bytes `raw` it read, their number being its return value; `num_chars0` is what the caller's
variable `num_chars` held before the call. -/
def read_features (raw : List Char) (num_chars0 : Nat) : ReadLine :=
  let num_chars_initial := raw.length
  if num_chars_initial < 1 then { line := raw, num_chars := num_chars0, ret := num_chars_initial }
  else
    let num_chars := num_chars_initial
    let bom : Bool := raw.get? 0 == some (Char.ofNat 0xef) && decide (num_chars ≥ 3) &&
      raw.get? 1 == some (Char.ofNat 0xbb) && raw.get? 2 == some (Char.ofNat 0xbf)
    let line := if bom then raw.drop 3 else raw
    let num_chars := if bom then num_chars - 3 else num_chars
    let num_chars :=
      if num_chars > 0 ∧ line.get? (num_chars - 1) = some '\n' then num_chars - 1 else num_chars
    let num_chars :=
      if num_chars > 0 ∧ line.get? (num_chars - 1) = some '\r' then num_chars - 1 else num_chars
    { line := line, num_chars := num_chars, ret := num_chars_initial }

/-- The three bytes EF BB BF. -/
def utf8Bom : List Char := [Char.ofNat 0xef, Char.ofNat 0xbb, Char.ofNat 0xbf]

/-- The bytes without the three leading bytes EF BB BF, when they begin with them. -/
def withoutBom (raw : List Char) : List Char :=
  if utf8Bom.isPrefixOf raw then raw.drop 3 else raw

/-- The bytes without their last one, when that is `c`. -/
def dropTrailing (c : Char) (l : List Char) : List Char :=
  if l.getLast? = some c then l.dropLast else l

/-- A `VW::string_view` into the line handed to `substring_to_example`: the offset of its
first character in the line and its length. -/
structure string_view where
  start : Nat
  size : Nat
deriving DecidableEq, Repr

/-- The offset one past the last character, `end()`. -/
def string_view.stop (v : string_view) : Nat := v.start + v.size

/-- The characters of a view of `line`. -/
def string_view.text (line : List Char) (v : string_view) : List Char :=
  (line.drop v.start).take v.size

/-- Modelled from the spec: the loop of `tokenize` (declared in `parse_primitives.h`, not
part of the sources at hand). `pos` is the offset of the next character and `tok` the offset
at which the current piece began; a piece is kept when it is not empty. -/
def tokenizeFrom (delim : Char) : List Char → Nat → Nat → List string_view
  | [], pos, tok => if tok < pos then [{ start := tok, size := pos - tok }] else []
  | c :: cs, pos, tok =>
    if c = delim then
      (if tok < pos then [{ start := tok, size := pos - tok }] else []) ++
        tokenizeFrom delim cs (pos + 1) (pos + 1)
    else tokenizeFrom delim cs (pos + 1) tok

/-- Modelled from the spec: `tokenize(delim, s, ret)` splits the view `s` of `line` at every
`delim`; the pieces that are not empty are returned in order, as views of `line`. -/
def tokenize (delim : Char) (line : List Char) (s : string_view) : List string_view :=
  tokenizeFrom delim (s.text line) s.start s.start

/-- The label parser of the configured task, `all->example_parser->lbl_parser` (a
collaborator): the default label and the token parser. The shared data and the reduction
features the token parser may also write are part of the label type `L` here. -/
structure LabelParser (L : Type) where
  default_label : L → L
  parse_label : List (List Char) → L → L

/-- What `substring_to_example` reads and writes besides the line: the example, its label
`ae->l`, the scratch array `all->example_parser->words`, and `parse_label_calls`, the
arguments of the calls of the label token parser made so far. -/
structure LineState (F L : Type) where
  ae : Example F
  l : L
  words : List string_view
  parse_label_calls : List (List (List Char))

/-- Lines 487-493 of `substring_to_example`: the view `label_space` of the whole line, cut
before the first bar when there is one (`remove_suffix`). -/
def cutAtBar (line : List Char) (bar_idx : Option Nat) : string_view :=
  let label_space : string_view := { start := 0, size := line.length }
  match bar_idx with
  | some b => { label_space with size := label_space.size - (label_space.size - b) }
  | none => label_space

/-- Lines 494-495 of `substring_to_example`: the view cut after its first tab
(`remove_prefix`). -/
def cutAfterTab (line : List Char) (label_space : string_view) : string_view :=
  let tab_idx := find_first (fun c => c == '\t') (label_space.text line)
  match tab_idx with
  | some t => { start := label_space.start + (t + 1), size := label_space.size - (t + 1) }
  | none => label_space

/-- Lines 487-495 of `substring_to_example`: the view `label_space`. -/
def labelSpace (line : List Char) (bar_idx : Option Nat) : string_view :=
  cutAfterTab line (cutAtBar line bar_idx)

/-- Lines 485-507 of `substring_to_example`: the label section, its tokens and the tag. -/
def labelSection {F L : Type} (line : List Char) (bar_idx : Option Nat) (st : LineState F L) :
    LineState F L :=
  if bar_idx ≠ some 0 then
    let label_space := labelSpace line bar_idx
    let words := tokenize ' ' line label_space
    match words.getLast? with
    | some back =>
      if back.stop = label_space.stop ∨ (back.text line).head? = some '\'' then
        let tag := back
        let words := words.dropLast
        let tag : string_view :=
          if (tag.text line).head? = some '\'' then
            { start := tag.start + 1, size := tag.size - 1 }
          else tag
        { st with words := words, ae := { st.ae with tag := st.ae.tag ++ tag.text line } }
      else { st with words := words }
    | none => { st with words := words }
  else st

/-- Lines 478-484 of `substring_to_example`: the blank-line flag, the default label, and
`words.clear()`. -/
def labelStart {F L : Type} (lp : LabelParser L) (line : List Char) (st : LineState F L) :
    LineState F L :=
  let st1 := if line.isEmpty then { st with ae := { st.ae with is_newline := true } } else st
  let st2 := { st1 with l := lp.default_label st1.l }
  { st2 with words := [] }

/-- Lines 509-511 of `substring_to_example`: the label token parser is called when tokens
are left. -/
def labelParse {F L : Type} (lp : LabelParser L) (line : List Char) (st : LineState F L) :
    LineState F L :=
  if !st.words.isEmpty then
    { st with
      l := lp.parse_label (st.words.map (string_view.text line)) st.l
      parse_label_calls := st.parse_label_calls ++ [st.words.map (string_view.text line)] }
  else st

/-- `substring_to_example`. `audit` is the value of `all->audit || all->hash_inv`, and `u`
holds what the members of the `TC_parser` object hold before its constructor runs, with the
warnings logged so far. The result state of the feature parser is returned with the rest. -/
def substring_to_example {F L : Type} (ops : FloatOps F) (all : vw F) (lp : LabelParser L)
    (audit : Bool) (line : List Char) (st : LineState F L) (u : TCParser F) :
    Outcome (LineState F L × TCParser F) Unit :=
  let bar_idx := find_first (fun c => c == '|') line
  let st5 := labelParse lp line (labelSection line bar_idx (labelStart lp line st))
  match bar_idx with
  | some b =>
    match TCParser.construct ops all audit (line.drop b) st5.ae u with
    | .ok _ s => .ok () ({ st5 with ae := s._ae }, s)
    | .thrown m s => .thrown m ({ st5 with ae := s._ae }, s)
    | .timeout => .timeout
  | none => .ok () (st5, u)

/-- `read_features_string` on the bytes `raw` that `readto` read: the example `examples[0]`
is `st.ae`. The third component is the return value. -/
def read_features_string {F L : Type} (ops : FloatOps F) (all : vw F) (lp : LabelParser L)
    (audit : Bool) (raw : List Char) (num_chars0 : Nat) (st : LineState F L) (u : TCParser F) :
    Outcome (LineState F L × TCParser F) Nat :=
  let r := read_features raw num_chars0
  if r.ret < 1 then .ok r.ret ({ st with ae := { st.ae with is_newline := true } }, u)
  else
    match substring_to_example ops all lp audit r.view st u with
    | .ok _ s => .ok r.ret s
    | .thrown m s => .thrown m s
    | .timeout => .timeout

/-! ### The label section in the words of the specification -/

/-- The text before the first bar. -/
def beforeBar (line : List Char) : List Char := line.takeWhile (fun c => c != '|')

/-- The text after the first tab, or the whole text when it has no tab. -/
def afterFirstTab (s : List Char) : List Char :=
  if '\t' ∈ s then (s.dropWhile (fun c => c != '\t')).drop 1 else s

/-- The label section of a line: the text before the first bar, with everything up to and
including its first tab removed. -/
def labelText (line : List Char) : List Char := afterFirstTab (beforeBar line)

/-- The space-separated tokens of a text: its maximal runs of characters other than the
space, in order. -/
def spaceTokens (s : List Char) : List (List Char) :=
  (s.splitOn ' ').filter (fun t => !t.isEmpty)

/-- The last token of the label section is a tag: it begins with a single quote, or the
section does not end with a space (the token ends at the very end of the section). -/
def lastIsTag (line : List Char) : Bool :=
  match (spaceTokens (labelText line)).getLast? with
  | some t => t.head? == some '\'' || (labelText line).getLast? != some ' '
  | none => false

/-- The tag text: the last token with one leading single quote stripped. -/
def tagText (line : List Char) : List Char :=
  match (spaceTokens (labelText line)).getLast? with
  | some t => if t.head? = some '\'' then t.drop 1 else t
  | none => []

/-- The tokens left for the label parser. -/
def labelTokens (line : List Char) : List (List Char) :=
  if lastIsTag line then (spaceTokens (labelText line)).dropLast
  else spaceTokens (labelText line)

/-- A label parser for evaluation: the label is the list of token lists parsed so far. -/
def sampleLabelParser : LabelParser (List (List (List Char))) where
  default_label := fun _ => []
  parse_label := fun ws l => l ++ [ws]

/-- A line state with nothing stored; the label is left over from an earlier example. -/
def sampleLineState : LineState (Option Int) (List (List (List Char))) where
  ae := Example.empty sampleOps
  l := [[['9']]]
  words := [{ start := 0, size := 1 }]
  parse_label_calls := []

/-- The line `x\t1 2 'tag|a b`. -/
def sampleTagLine : List Char :=
  ['x', '\t', '1', ' ', '2', ' ', '\'', 't', 'a', 'g', '|', 'a', ' ', 'b']

/-! ## The JSON parser: data model -/

/-- Conversions and constants of the C++ type `float` that the JSON parser uses besides those
of `FloatOps`: `quiet_NaN()`, `FLT_MAX`, `-1.f`, the casts `(float)v` of an unsigned integer
and `(uint32_t)v`, and the difference. -/
structure FloatConv (F : Type) where
  nan : F
  flt_max : F
  minus_one : F
  ofUInt : Nat → F
  toUInt32 : F → Nat
  sub : F → F → F

/-- Modelled from the spec: the label variants a task can be configured with (the type
`label_type_t` is declared in `label_parser.h`, not part of the sources at hand). -/
inductive label_type_t where
  | simple
  | multiclass
  | cs
  | cb
  | ccb
  | slates
  | continuous
deriving DecidableEq, Repr

/-- Modelled from the spec: `CB::cb_class` (declared in `cb.h`, not part of the sources at
hand), one (action, cost, probability) observation. -/
structure cb_class (F : Type) where
  cost : F
  action : Nat
  probability : F
  partial_prediction : F

/-- Modelled from the spec: `VW::cb_continuous::continuous_label_elm`, one (action, cost,
pdf-value) tuple. -/
structure continuous_label_elm (F : Type) where
  action : F
  cost : F
  pdf_value : F

/-- Modelled from the spec: `VW::continuous_actions::pdf_segment`, one (left, right,
pdf-value) triple. -/
structure pdf_segment (F : Type) where
  left : F
  right : F
  pdf_value : F

/-- Modelled from the spec: `ACTION_SCORE::action_score`, an (action, probability) pair. -/
structure action_score (F : Type) where
  action : Nat
  score : F

/-- Modelled from the spec: the per-example type tag of the ccb and slates labels
(`CCB::example_type`, `VW::slates::example_type`). -/
inductive example_type where
  | unset
  | shared
  | action
  | slot
deriving DecidableEq, Repr

/-- Modelled from the spec: `CCB::conditional_contextual_bandit_outcome`, a cost and a list
of (action, probability) pairs. -/
structure conditional_contextual_bandit_outcome (F : Type) where
  cost : F
  probabilities : List (action_score F)

/-- Modelled from the spec: `CCB::label`. -/
structure ccb_label (F : Type) where
  type : example_type
  outcome : Option (conditional_contextual_bandit_outcome F)
  explicit_included_actions : List Nat
  weight : F

/-- Modelled from the spec: `VW::slates::label`. -/
structure slates_label (F : Type) where
  type : example_type
  labeled : Bool
  slot_id : Nat
  probabilities : List (action_score F)

/-- Modelled from the spec: `CB::label`. -/
structure cb_label_t (F : Type) where
  costs : List (cb_class F)
  weight : F

/-- Modelled from the spec: `polylabel` (declared in `example.h`, not part of the sources at
hand): one record in which the label of every task is present, of which the JSON parser
touches the simple label, the cb costs, the ccb label, the slates label and the continuous
costs. -/
structure polylabel (F : Type) where
  simple_label : F
  cb : cb_label_t F
  conditional_contextual_bandit : ccb_label F
  slates : slates_label F
  cb_cont_costs : List (continuous_label_elm F)

/-- Modelled from the spec: the reduction features of an example that the JSON parser
writes: the initial value and weight of `simple_label_reduction_features`, and the pdf and
chosen action of `VW::continuous_actions::reduction_features`. -/
structure reduction_features (F : Type) where
  initial : F
  weight : F
  pdf : List (pdf_segment F)
  chosen_action : F

/-- Modelled from the spec: the type `example` with the members the JSON parser writes
besides those of `Example`: the label, the weight, the reduction features and the
feature-space offset. -/
structure LabeledExample (F : Type) extends Example F where
  l : polylabel F
  weight : F
  _reduction_features : reduction_features F
  ft_offset : Nat

/-- Modelled from the spec: the Decision-Service Interaction record
(`DecisionServiceInteraction`, declared in `json_utils.h`). -/
structure DecisionServiceInteraction (F : Type) where
  eventId : List Char
  actions : List Nat
  probabilities : List F
  probabilityOfDrop : F
  skipLearn : Bool

/-- A pointer to one of the state objects of `Context`, named after the member. The null
pointer is `none` of `Option BaseState`. -/
inductive BaseState where
  | default_state
  | label_state
  | label_object_state
  | label_single_property_state
  | label_index_state
  | text_state
  | tag_state
  | multi_state
  | ignore_state
  | array_state
  | slots_state
  | array_pdf_state
  | decision_service_state
  | array_float_state
  | array_uint_state
  | string_state
  | float_state
  | uint_state
  | uint_dedup_state
  | bool_state
  | slot_outcome_list_state
deriving DecidableEq, Repr

/-- The token the tokenizer (a collaborator) hands to the handler. Every number that is not
an unsigned 32-bit integer arrives at the `Float` handler, already cast to `float`. A string
is its bytes (its length is their number). A key comes with `src`, the bytes of the buffer
from `stream->src_` on at the time of the call, up to `stream_end`: the opening quote of the
key, the key, the byte after it, and the text that follows. -/
inductive Token (F : Type) where
  | Null
  | Bool (b : Bool)
  | Float (v : F)
  | Uint (v : Nat)
  | String (str : List Char)
  | StartObject
  | Key (str : List Char) (src : List Char)
  | EndObject (memberCount : Nat)
  | StartArray
  | EndArray (elementCount : Nat)

/-- The messages streamed into `ctx.error()`, one constructor per site. A number that was
part of the message is not recorded for a float. -/
inductive JsonError where
  | unexpectedBool (b : Bool)
  | unexpectedFloat
  | unexpectedUint (v : Nat)
  | unexpectedString (str : List Char)
  | unexpectedStartObject
  | unexpectedKey (str : List Char)
  | unexpectedEndObject
  | unexpectedStartArray
  | unexpectedEndArray
  | onlyNaNInArray
  | unsupportedLabelProperty (key : List Char) (len : Nat)
  | onlyNaNString (key : List Char) (len : Nat)
  | nestedLabelObject
  | nestedArrays
  | expectedColon (found : Char)
  | foundEOF
  | unsupportedKey (key : List Char) (len : Nat)
  | labelIndexOutOfBounds (label_index : Int) (actions : Nat)
deriving DecidableEq, Repr

/-- The exceptions the handlers raise with `THROW`. -/
inductive JsonException where
  | labelTypeNotCbCcbSlates
  | actionsAndProbabilitiesLength
  | slotIdOnlyWithSlates
  | dedupIdNotFound (i : Nat)
  | sharedExampleRequired
deriving DecidableEq, Repr

/-- The array an `ArrayToVectorState<unsigned>` appends to (`output_array`). -/
inductive UintArrayTarget where
  | label_inc
  | label_actions
  | interaction_actions
deriving DecidableEq, Repr

/-- The array an `ArrayToVectorState<float>` appends to (`output_array`). -/
inductive FloatArrayTarget where
  | label_probs
  | interaction_probabilities
deriving DecidableEq, Repr

/-- The members of `LabelObjectState`. -/
structure LabelObjectState (F : Type) where
  return_state : Option BaseState
  cb_label : cb_class F
  cont_label_element : continuous_label_elm F
  found : Bool
  found_cb : Bool
  found_cb_continuous : Bool
  actions : List Nat
  probs : List F
  inc : List Nat

/-- The members of `ArrayToPdfState`. -/
structure ArrayToPdfState (F : Type) where
  obj_return_state : Option BaseState
  segment : pdf_segment F
  return_state : Option BaseState

/-- The members of `ArrayToVectorState<T>`; `T` is the type of the pointer target. -/
structure ArrayToVectorState (T : Type) where
  output_array : Option T
  return_state : Option BaseState
  has_seen_array_start : Bool

/-- The members of `SlotOutcomeList`. -/
structure SlotOutcomeList where
  slot_object_index : Int
  old_root : Option BaseState

/-- A scope of the namespace stack: the record `Namespace`, and the example the pointer
`ftrs` points into, as an index into `examples` (the feature space is the one of
`feature_group`). -/
structure Scope extends Namespace where
  ftrs : Nat
deriving DecidableEq, Repr

/-- What the JSON parser reads from `vw` and `parser`, with the collaborators declared
outside the sources at hand taken as parameters: the label type and the default label of the
configured task, `VW::parse_example_label`, the value of `CB::cb_class` after value
initialisation, `VW::continuous_actions::is_valid_pdf`, and the example factory, whose `k`-th
call returns `example_factory k`. -/
structure JsonConfig (F : Type) where
  all : vw F
  audit : Bool
  label_type : label_type_t
  default_label : polylabel F → polylabel F
  parse_example_label : List Char → LabeledExample F → LabeledExample F
  chain_hash_json : Bool
  decision_service_json : Bool
  cb_class_default : cb_class F
  is_valid_pdf : List (pdf_segment F) → Bool
  example_factory : Nat → LabeledExample F

/-- The members of `Context` and of the state objects it holds. A pointer to an example is
its index in `examples`; a pointer that was never assigned is `none`. `stream` holds the
bytes of the buffer from `stream->src_` to `stream_end`, `factory_calls` counts the calls of
the example factory, `counted_labels` records the arguments of `count_label`, and
`error_ptr` the messages streamed into `error()`. The targets of `string_state`,
`float_state` and `bool_state` are the event id, the probability of drop and the skip-learn
flag of the interaction record, the only ones they are ever given. -/
structure JsonContext (F : Type) where
  error_ptr : List JsonError
  key : List Char
  key_length : Nat
  current_state : BaseState
  previous_state : Option BaseState
  namespace_path : List Scope
  return_path : List (Option BaseState)
  dedup_examples : Option (Nat → Option (LabeledExample F))
  examples : List (LabeledExample F)
  ex : Nat
  stream : List Char
  factory_calls : Nat
  counted_labels : List F
  label_object_state : LabelObjectState F
  label_index_state_index : Int
  array_state_array_hash : Nat
  slots_state_saved : Option BaseState
  slots_state_saved_root_state : Option BaseState
  array_pdf_state : ArrayToPdfState F
  decision_service_state_data : DecisionServiceInteraction F
  array_float_state : ArrayToVectorState FloatArrayTarget
  array_uint_state : ArrayToVectorState UintArrayTarget
  string_state_return_state : Option BaseState
  float_state_return_state : Option BaseState
  uint_state_output_uint : Option Nat
  uint_state_return_state : Option BaseState
  uint_dedup_state_return_state : Option BaseState
  bool_state_return_state : Option BaseState
  slot_outcome_list_state : SlotOutcomeList
  root_state : Option BaseState

/-- What a handler call ends with: it returned a pointer to the next state (`none` is the
null pointer, the error sentinel) and left the context `ctx`; it raised an exception; or
the source has no defined behaviour (an empty namespace stack, an example index out of
range, a pointer that was never assigned). -/
inductive Handled (F : Type) where
  | ret (next_state : Option BaseState) (ctx : JsonContext F)
  | throws (e : JsonException) (ctx : JsonContext F)
  | undefined

/-! ## The JSON parser: helpers -/

/-- The zero byte. -/
def NUL : Char := Char.ofNat 0

/-- `strcmp(a, b) == 0` for two C strings given by the bytes at their addresses. -/
def strcmp_eq (a b : List Char) : Bool := cstr a == cstr b

/-- `strncmp(a, b, n) == 0`. -/
def strncmp_eq (a b : List Char) (n : Nat) : Bool := (cstr a).take n == (cstr b).take n

/-- The C function `_stricmp` (`strcasecmp`) returning 0: equality without regard to the
case of ASCII letters. -/
def stricmp_eq (a b : List Char) : Bool :=
  (cstr a).map Char.toLower == (cstr b).map Char.toLower

/-- Modelled from the spec: `VW::hash_space_cstr(all, ns)`, the hash of a namespace name
against the global seed. -/
def hash_space_cstr {F : Type} (all : vw F) (ns : List Char) : Nat :=
  all.hasher (cstr ns) all.hash_seed

/-- Modelled from the spec: `VW::hash_feature_cstr(all, str, seed)`, the hash of a feature
name chained into a seed and masked to the configured width. -/
def hash_feature_cstr {F : Type} (all : vw F) (str : List Char) (seed : Nat) : Nat :=
  all.hasher (cstr str) seed &&& all.parse_mask

/-- Modelled from the spec: `VW::chain_hash(all, key, value, seed)`: the hash of the value
chained into the hash of the name chained into the seed, masked. -/
def chain_hash {F : Type} (all : vw F) (key value : List Char) (seed : Nat) : Nat :=
  all.hasher (cstr value) (all.hasher (cstr key) seed) &&& all.parse_mask

/-- The conversion of an `unsigned` to `int` (`index = v`): values from `2 ^ 31` on wrap to
negative numbers. -/
def intOfUnsigned (v : Nat) : Int :=
  if v % 2 ^ 32 < 2 ^ 31 then ((v % 2 ^ 32 : Nat) : Int) else ((v % 2 ^ 32 : Nat) : Int) - 2 ^ 32

/-- An `int` after an arithmetic step, wrapped to 32 bits. -/
def wrapInt (i : Int) : Int :=
  (i + 2 ^ 31) % 2 ^ 32 - 2 ^ 31

/-- `ctx.error() << message; return nullptr;`. -/
def JsonContext.fail {F : Type} (ctx : JsonContext F) (e : JsonError) : Handled F :=
  .ret none { ctx with error_ptr := ctx.error_ptr ++ [e] }

/-- The example `ctx.ex` points to. -/
def JsonContext.ex? {F : Type} (ctx : JsonContext F) : Option (LabeledExample F) :=
  ctx.examples.get? ctx.ex

/-- Write through the pointer `ctx.ex`. -/
def JsonContext.setEx {F : Type} (ctx : JsonContext F) (e : LabeledExample F) : JsonContext F :=
  { ctx with examples := ctx.examples.set ctx.ex e }

/-- `Context::PushNamespace`. The group id is the first byte of the name. -/
def JsonContext.PushNamespace {F : Type} (cfg : JsonConfig F) (ctx : JsonContext F)
    (ns : List Char) (return_state : Option BaseState) : JsonContext F :=
  let n : Scope :=
    { feature_group := (ns.headD NUL).toNat % 256
      namespace_hash := hash_space_cstr cfg.all ns
      ftrs := ctx.ex
      feature_count := 0
      name := ns }
  { ctx with
    namespace_path := ctx.namespace_path ++ [n]
    return_path := ctx.return_path ++ [return_state] }

/-- `Context::PopNamespace` on the whole context: the function `Context.PopNamespace` on the
example `ctx.ex` points to. When no feature was added in the scope the example is not
read. -/
def JsonContext.PopNamespace {F : Type} (ctx : JsonContext F) :
    Option (Option BaseState × JsonContext F) :=
  match ctx.namespace_path.getLast?, ctx.return_path.getLast? with
  | some ns, some return_state =>
    if ns.feature_count > 0 then
      match ctx.ex? with
      | none => none
      | some e =>
        match Context.PopNamespace
            { ex := e.toExample, namespace_path := ctx.namespace_path.map Scope.toNamespace,
              return_path := ctx.return_path } with
        | none => none
        | some (r, c) =>
          some (r, { ctx.setEx { e with toExample := c.ex } with
            namespace_path := ctx.namespace_path.dropLast
            return_path := ctx.return_path.dropLast })
    else
      some (return_state, { ctx with
        namespace_path := ctx.namespace_path.dropLast
        return_path := ctx.return_path.dropLast })
  | _, _ => none

/-- `Context::CurrentNamespace`, `namespace_path.back()`. -/
def JsonContext.CurrentNamespace {F : Type} (ctx : JsonContext F) : Option Scope :=
  ctx.namespace_path.getLast?

/-- The feature `(v, i)` is appended to the feature space `ftrs` of the current scope, with
its audit strings in audit mode, and the feature count of the scope is incremented. -/
def JsonContext.pushFeature {F : Type} (ops : FloatOps F) (cfg : JsonConfig F)
    (ctx : JsonContext F) (v : F) (i : Nat) (feature_name : List Char) :
    Option (JsonContext F) :=
  match ctx.namespace_path.getLast? with
  | none => none
  | some ns =>
    match ctx.examples.get? ns.ftrs with
    | none => none
    | some e =>
      let fs := (e.feature_space ns.feature_group).push_back ops v i
      let fs1 :=
        if cfg.audit then
          { fs with space_names := fs.space_names ++ [⟨ns.name, feature_name⟩] }
        else fs
      some { ctx with
        examples := ctx.examples.set ns.ftrs
          { e with toExample := e.toExample.setSpace ns.feature_group fs1 }
        namespace_path := ctx.namespace_path.dropLast ++
          [{ ns with feature_count := ns.feature_count + 1 }] }

/-- Modelled from the spec: `Namespace::AddFeature(v, i, feature_name)` (declared in
`json_utils.h`, not part of the sources at hand) on the current scope: a feature of value 0
is dropped, any other is stored. -/
def JsonContext.AddFeature {F : Type} (ops : FloatOps F) (cfg : JsonConfig F)
    (ctx : JsonContext F) (v : F) (i : Nat) (feature_name : List Char) :
    Option (JsonContext F) :=
  match ctx.namespace_path.getLast? with
  | none => none
  | some _ => if ops.isZero v then some ctx else ctx.pushFeature ops cfg v i feature_name

/-- Modelled from the spec: `Namespace::AddFeature(all, str)` on the current scope: the
feature named `str`, hashed into the hash of the scope, with value 1. -/
def JsonContext.AddFeatureStr {F : Type} (ops : FloatOps F) (cfg : JsonConfig F)
    (ctx : JsonContext F) (str : List Char) : Option (JsonContext F) :=
  match ctx.namespace_path.getLast? with
  | none => none
  | some ns =>
    ctx.pushFeature ops cfg ops.one (hash_feature_cstr cfg.all str ns.namespace_hash) (cstr str)

/-- Modelled from the spec: `Namespace::AddFeature(all, key, value)` on the current scope:
the chained string-valued feature, with value 1. -/
def JsonContext.AddFeatureKeyValue {F : Type} (ops : FloatOps F) (cfg : JsonConfig F)
    (ctx : JsonContext F) (key value : List Char) : Option (JsonContext F) :=
  match ctx.namespace_path.getLast? with
  | none => none
  | some ns =>
    ctx.pushFeature ops cfg ops.one (chain_hash cfg.all key value ns.namespace_hash)
      (cstr key ++ ['^'] ++ cstr value)

/-- A handler that goes on only when a context is defined. -/
def Handled.ofOption {F : Type} (next_state : Option BaseState) :
    Option (JsonContext F) → Handled F
  | some ctx => .ret next_state ctx
  | none => .undefined

/-! ## The JSON parser: the fast skip -/

/-- What the scan of `DefaultState::Ignore` ends with. -/
inductive IgnoreScan where
  /-- the scan stopped; `head` is one past the terminator. -/
  | stopped (head : Nat)
  /-- the zero byte was met: Found EOF. -/
  | eof
  /-- the scan stepped over the zero byte that ends the buffer and reads past it. -/
  | overrun
deriving DecidableEq, Repr

mutual
/-- The outer loop of `DefaultState::Ignore` (lines 796-848): the first byte of the list is
`*head`. The buffer ends with a zero byte, which is not part of the list. -/
def ignoreLoop : List Char → Nat → Int → Int → IgnoreScan
  | [], _, _, _ => .eof
  | c :: cs, head, depth, sq_depth =>
    if c = NUL then .eof
    else if c = '"' then ignoreString cs head depth sq_depth
    else if c = '\x7b' then ignoreLoop cs (head + 1) (depth + 1) sq_depth
    else if c = '\x7d' then
      if depth = 0 ∧ sq_depth = 0 then .stopped (head + 1)
      else ignoreLoop cs (head + 1) (depth - 1) sq_depth
    else if c = '[' then ignoreLoop cs (head + 1) depth (sq_depth + 1)
    else if c = ']' then
      if depth = 0 ∧ sq_depth = 0 then .stopped (head + 1)
      else ignoreLoop cs (head + 1) depth (sq_depth - 1)
    else if c = ',' then
      if depth = 0 ∧ sq_depth = 0 then .stopped (head + 1)
      else ignoreLoop cs (head + 1) depth sq_depth
    else ignoreLoop cs (head + 1) depth sq_depth
/-- The inner loop of `DefaultState::Ignore` (lines 807-822), which skips a string: the
list holds the bytes after `*head`. At the closing quote the outer loop goes on with the
byte after it. -/
def ignoreString : List Char → Nat → Int → Int → IgnoreScan
  | [], _, _, _ => .eof
  | c :: cs, head, depth, sq_depth =>
    if c = NUL then .eof
    else if c = '\\' then ignoreEscaped cs (head + 1) depth sq_depth
    else if c = '"' then ignoreLoop cs (head + 2) depth sq_depth
    else ignoreString cs (head + 1) depth sq_depth
/-- The inner loop after a backslash (line 816): the next byte is skipped without being
looked at (`case '\\': head++`). When the buffer ends right there, the byte skipped is the
zero byte that ends it and the next read is past the end of the buffer. -/
def ignoreEscaped : List Char → Nat → Int → Int → IgnoreScan
  | [], _, _, _ => .overrun
  | _ :: cs, head, depth, sq_depth => ignoreString cs (head + 1) depth sq_depth
end

/-- The bytes `value .. head - 2` of the buffer overwritten as lines 858-860 do: a `0`, then
spaces (`memset(value + 1, ' ', head - value - 1)`). -/
def blankValue (stream : List Char) (value head : Nat) : List Char :=
  stream.take value ++ '0' :: List.replicate (head - (value + 1) - 1) ' ' ++
    stream.drop (head - 1)

/-- `DefaultState::Ignore`. The key of `length` bytes is at `stream->src_ + 1`; a byte read
at or after `stream_end` is the zero byte that ends the buffer. An empty value, for which
the `memset` would be given a negative size, has no defined behaviour, and neither has a
scan that reads past the end of the buffer. -/
def DefaultState.Ignore {F : Type} (ctx : JsonContext F) (length : Nat) : Handled F :=
  let head := length + 2
  if head ≥ ctx.stream.length ∨ ctx.stream.getD head NUL ≠ ':' then
    ctx.fail (.expectedColon (ctx.stream.getD head NUL))
  else
    let head := head + 1
    match ignoreLoop (ctx.stream.drop head) head 0 0 with
    | .eof => ctx.fail .foundEOF
    | .overrun => .undefined
    | .stopped head =>
      let value := length + 3
      if value ≥ ctx.stream.length then ctx.fail .foundEOF
      else if head < value + 2 then .undefined
      else .ret (some .ignore_state) { ctx with stream := blankValue ctx.stream value head }

/-! ## The JSON parser: the handlers of the states -/

/-- `BaseState::Null`: a null is ignored; the handler returns the previous state when there
is one and the state itself otherwise. -/
def BaseState.Null {F : Type} (this : BaseState) (ctx : JsonContext F) : Handled F :=
  .ret (if ctx.previous_state = none then some this else ctx.previous_state) ctx

/-! ### `ArrayToPdfState` -/

/-- `ArrayToPdfState::StartObject`. -/
def ArrayToPdfState.StartObject {F : Type} (ctx : JsonContext F) : Handled F :=
  .ret (some .array_pdf_state)
    { ctx with array_pdf_state := { ctx.array_pdf_state with
        obj_return_state := ctx.previous_state } }

/-- `ArrayToPdfState::Key`. -/
def ArrayToPdfState.Key {F : Type} (ctx : JsonContext F) (str : List Char) : Handled F :=
  .ret (some .array_pdf_state) { ctx with key := str, key_length := str.length }

/-- `ArrayToPdfState::String`. -/
def ArrayToPdfState.String {F : Type} (ctx : JsonContext F) (str : List Char) : Handled F :=
  if !stricmp_eq str "NaN".toList then ctx.fail .onlyNaNInArray
  else .ret (some .array_pdf_state) ctx

/-- `ArrayToPdfState::StartArray`. -/
def ArrayToPdfState.StartArray {F : Type} (ops : FloatOps F) (ctx : JsonContext F) :
    Handled F :=
  .ret (some .array_pdf_state)
    { ctx with array_pdf_state := { ctx.array_pdf_state with
        segment := { left := ops.zero, right := ops.zero, pdf_value := ops.zero } } }

/-- `ArrayToPdfState::EndArray`. -/
def ArrayToPdfState.EndArray {F : Type} (cfg : JsonConfig F) (ctx : JsonContext F) :
    Handled F :=
  match ctx.ex? with
  | none => .undefined
  | some e =>
    let e1 :=
      if !cfg.is_valid_pdf e._reduction_features.pdf then
        { e with _reduction_features := { e._reduction_features with pdf := [] } }
      else e
    .ret ctx.array_pdf_state.return_state (ctx.setEx e1)

/-- `ArrayToPdfState::Float`. -/
def ArrayToPdfState.Float {F : Type} (ctx : JsonContext F) (v : F) : Handled F :=
  let st := ctx.array_pdf_state
  if stricmp_eq ctx.key "left".toList then
    .ret (some .array_pdf_state)
      { ctx with array_pdf_state := { st with segment := { st.segment with left := v } } }
  else if stricmp_eq ctx.key "right".toList then
    .ret (some .array_pdf_state)
      { ctx with array_pdf_state := { st with segment := { st.segment with right := v } } }
  else if stricmp_eq ctx.key "pdf_value".toList then
    .ret (some .array_pdf_state)
      { ctx with array_pdf_state := { st with segment := { st.segment with pdf_value := v } } }
  else if stricmp_eq ctx.key "chosen_action".toList then
    match ctx.ex? with
    | none => .undefined
    | some e =>
      .ret (some .array_pdf_state) (ctx.setEx
        { e with _reduction_features := { e._reduction_features with chosen_action := v } })
  else ctx.fail (.unsupportedLabelProperty ctx.key ctx.key_length)

/-- `ArrayToPdfState::EndObject`. -/
def ArrayToPdfState.EndObject {F : Type} (ops : FloatOps F) (ctx : JsonContext F) :
    Handled F :=
  match ctx.ex? with
  | none => .undefined
  | some e =>
    let e1 := { e with _reduction_features := { e._reduction_features with
      pdf := e._reduction_features.pdf ++ [ctx.array_pdf_state.segment] } }
    let ctx1 := ctx.setEx e1
    .ret ctx.array_pdf_state.obj_return_state
      { ctx1 with array_pdf_state := { ctx1.array_pdf_state with
          segment := { left := ops.zero, right := ops.zero, pdf_value := ops.zero } } }

/-! ### `LabelObjectState` -/

/-- `LabelObjectState::init`. -/
def LabelObjectState.init {F : Type} (ops : FloatOps F) (cfg : JsonConfig F)
    (st : LabelObjectState F) : LabelObjectState F :=
  { st with
    found := false, found_cb := false, found_cb_continuous := false
    cb_label := cfg.cb_class_default
    cont_label_element := { action := ops.zero, cost := ops.zero, pdf_value := ops.zero } }

/-- `LabelObjectState::StartObject`. -/
def LabelObjectState.StartObject {F : Type} (cfg : JsonConfig F) (ctx : JsonContext F) :
    Handled F :=
  match ctx.ex? with
  | none => .undefined
  | some e =>
    let ctx1 := ctx.setEx { e with l := cfg.default_label e.l }
    if ctx1.previous_state = some .label_object_state then ctx1.fail .nestedLabelObject
    else
      .ret (some .label_object_state)
        { ctx1 with label_object_state := { ctx1.label_object_state with
            return_state := ctx1.previous_state } }

/-- `LabelObjectState::Key`. -/
def LabelObjectState.Key {F : Type} (ctx : JsonContext F) (str : List Char) : Handled F :=
  .ret (some .label_object_state) { ctx with key := str, key_length := str.length }

/-- `LabelObjectState::String`. -/
def LabelObjectState.String {F : Type} (cv : FloatConv F) (ctx : JsonContext F)
    (str : List Char) : Handled F :=
  let st := ctx.label_object_state
  if !stricmp_eq str "NaN".toList then ctx.fail (.onlyNaNString ctx.key ctx.key_length)
  else if stricmp_eq ctx.key "Label".toList then
    match ctx.ex? with
    | none => .undefined
    | some e =>
      let ctx1 := ctx.setEx { e with l := { e.l with simple_label := cv.nan } }
      .ret (some .label_object_state) { ctx1 with label_object_state := { st with found := true } }
  else if stricmp_eq ctx.key "Initial".toList then
    match ctx.ex? with
    | none => .undefined
    | some e =>
      let ctx1 := ctx.setEx
        { e with _reduction_features := { e._reduction_features with initial := cv.nan } }
      .ret (some .label_object_state) { ctx1 with label_object_state := { st with found := true } }
  else if stricmp_eq ctx.key "Weight".toList then
    match ctx.ex? with
    | none => .undefined
    | some e =>
      let ctx1 := ctx.setEx
        { e with _reduction_features := { e._reduction_features with weight := cv.nan } }
      .ret (some .label_object_state) { ctx1 with label_object_state := { st with found := true } }
  else if stricmp_eq ctx.key "Cost".toList then
    if st.found_cb_continuous then
      .ret (some .label_object_state) { ctx with label_object_state :=
        { st with cont_label_element := { st.cont_label_element with cost := cv.nan } } }
    else
      .ret (some .label_object_state) { ctx with label_object_state :=
        { st with cb_label := { st.cb_label with cost := cv.nan }, found_cb := true } }
  else if stricmp_eq ctx.key "Probability".toList then
    .ret (some .label_object_state) { ctx with label_object_state :=
      { st with cb_label := { st.cb_label with probability := cv.nan }, found_cb := true } }
  else if stricmp_eq ctx.key "Pdf_value".toList && st.found_cb_continuous then
    .ret (some .label_object_state) { ctx with label_object_state :=
      { st with cont_label_element := { st.cont_label_element with pdf_value := cv.nan } } }
  else ctx.fail (.unsupportedLabelProperty ctx.key ctx.key_length)

/-- `LabelObjectState::Float`. -/
def LabelObjectState.Float {F : Type} (cv : FloatConv F) (ctx : JsonContext F) (v : F) :
    Handled F :=
  let st := ctx.label_object_state
  if stricmp_eq ctx.key "Label".toList then
    match ctx.ex? with
    | none => .undefined
    | some e =>
      let ctx1 := ctx.setEx { e with l := { e.l with simple_label := v } }
      .ret (some .label_object_state) { ctx1 with label_object_state := { st with found := true } }
  else if stricmp_eq ctx.key "Initial".toList then
    match ctx.ex? with
    | none => .undefined
    | some e =>
      let ctx1 := ctx.setEx
        { e with _reduction_features := { e._reduction_features with initial := v } }
      .ret (some .label_object_state) { ctx1 with label_object_state := { st with found := true } }
  else if stricmp_eq ctx.key "Weight".toList then
    match ctx.ex? with
    | none => .undefined
    | some e =>
      let ctx1 := ctx.setEx { e with weight := v }
      .ret (some .label_object_state) { ctx1 with label_object_state := { st with found := true } }
  else if stricmp_eq ctx.key "Action".toList then
    if st.found_cb_continuous then
      .ret (some .label_object_state) { ctx with label_object_state :=
        { st with cont_label_element := { st.cont_label_element with action := v } } }
    else
      .ret (some .label_object_state) { ctx with label_object_state :=
        { st with cb_label := { st.cb_label with action := cv.toUInt32 v }, found_cb := true } }
  else if stricmp_eq ctx.key "Cost".toList then
    if st.found_cb_continuous then
      .ret (some .label_object_state) { ctx with label_object_state :=
        { st with cont_label_element := { st.cont_label_element with cost := v } } }
    else
      .ret (some .label_object_state) { ctx with label_object_state :=
        { st with cb_label := { st.cb_label with cost := v }, found_cb := true } }
  else if stricmp_eq ctx.key "Probability".toList then
    .ret (some .label_object_state) { ctx with label_object_state :=
      { st with cb_label := { st.cb_label with probability := v }, found_cb := true } }
  else if stricmp_eq ctx.key "Pdf_value".toList && st.found_cb_continuous then
    .ret (some .label_object_state) { ctx with label_object_state :=
      { st with cont_label_element := { st.cont_label_element with pdf_value := v } } }
  else ctx.fail (.unsupportedLabelProperty ctx.key ctx.key_length)

/-- `LabelObjectState::Uint`. -/
def LabelObjectState.Uint {F : Type} (cv : FloatConv F) (ctx : JsonContext F) (v : Nat) :
    Handled F :=
  LabelObjectState.Float cv ctx (cv.ofUInt v)

/-- The pairs `(actions[i], probs[i])` for `i` below `actions.size()`, as the two loops of
`LabelObjectState::EndObject` build them; the lists have the same length when they run. -/
def zipActionScores {F : Type} (actions : List Nat) (probs : List F) : List (action_score F) :=
  List.zipWith (fun a p => { action := a, score := p }) actions probs

/-- `LabelObjectState::EndObject`. -/
def LabelObjectState.EndObject {F : Type} (ops : FloatOps F) (cfg : JsonConfig F)
    (ctx : JsonContext F) : Handled F :=
  let st := ctx.label_object_state
  if cfg.label_type = .ccb then
    match ctx.ex? with
    | none => .undefined
    | some e =>
      let ld := e.l.conditional_contextual_bandit
      let ld1 := { ld with explicit_included_actions := ld.explicit_included_actions ++ st.inc }
      let st1 := { st with inc := [] }
      if st1.actions.length ≠ 0 ∧ st1.probs.length ≠ 0 then
        if st1.actions.length ≠ st1.probs.length then
          .throws .actionsAndProbabilitiesLength
            { ctx.setEx { e with l := { e.l with conditional_contextual_bandit := ld1 } } with
              label_object_state := st1 }
        else
          let outcome : conditional_contextual_bandit_outcome F :=
            { cost := st1.cb_label.cost, probabilities := zipActionScores st1.actions st1.probs }
          let ld2 := { ld1 with outcome := some outcome }
          .ret st.return_state
            { ctx.setEx { e with l := { e.l with conditional_contextual_bandit := ld2 } } with
              label_object_state :=
                { st1 with actions := [], probs := [], cb_label := cfg.cb_class_default } }
      else
        .ret st.return_state
          { ctx.setEx { e with l := { e.l with conditional_contextual_bandit := ld1 } } with
            label_object_state := st1 }
  else if cfg.label_type = .slates then
    if st.actions.length ≠ 0 ∧ st.probs.length ≠ 0 then
      if st.actions.length ≠ st.probs.length then
        .throws .actionsAndProbabilitiesLength ctx
      else
        match ctx.ex? with
        | none => .undefined
        | some e =>
          let ld := e.l.slates
          let ld1 := { ld with
            labeled := true
            probabilities := ld.probabilities ++ zipActionScores st.actions st.probs }
          .ret st.return_state
            { ctx.setEx { e with l := { e.l with slates := ld1 } } with
              label_object_state :=
                { st with actions := [], probs := [], cb_label := cfg.cb_class_default } }
    else .ret st.return_state ctx
  else if st.found_cb then
    match ctx.ex? with
    | none => .undefined
    | some e =>
      let ld := e.l.cb
      .ret st.return_state
        { ctx.setEx { e with l := { e.l with cb := { ld with costs := ld.costs ++ [st.cb_label] } } }
          with label_object_state :=
            { st with found_cb := false, cb_label := cfg.cb_class_default } }
  else if st.found_cb_continuous then
    match ctx.ex? with
    | none => .undefined
    | some e =>
      .ret st.return_state
        { ctx.setEx { e with l := { e.l with
            cb_cont_costs := e.l.cb_cont_costs ++ [st.cont_label_element] } }
          with label_object_state :=
            { st with
              found_cb_continuous := false
              cont_label_element :=
                { action := ops.zero, cost := ops.zero, pdf_value := ops.zero } } }
  else if st.found then
    match ctx.ex? with
    | none => .undefined
    | some e =>
      .ret st.return_state
        { ctx with
          counted_labels := ctx.counted_labels ++ [e.l.simple_label]
          label_object_state := { st with found := false } }
  else .ret st.return_state ctx

/-! ### `LabelSinglePropertyState`, `LabelIndexState`, `LabelState` -/

/-- The first two statements of the handlers of `LabelSinglePropertyState`: the prefix
`_label_` of the key is skipped (`key_length` is an unsigned 32-bit integer). -/
def skipLabelPrefix {F : Type} (ctx : JsonContext F) : JsonContext F :=
  { ctx with key := ctx.key.drop 7, key_length := (ctx.key_length + 2 ^ 32 - 7) % 2 ^ 32 }

/-- The end of the handlers of `LabelSinglePropertyState`: the null pointer of the label
object handler is passed on, any other result is replaced by the previous state. -/
def forwardLabel {F : Type} : Handled F → Handled F
  | .ret none ctx => .ret none ctx
  | .ret (some _) ctx => .ret ctx.previous_state ctx
  | .throws e ctx => .throws e ctx
  | .undefined => .undefined

/-- `LabelSinglePropertyState::StartObject`. -/
def LabelSinglePropertyState.StartObject {F : Type} (cfg : JsonConfig F)
    (ctx : JsonContext F) : Handled F :=
  LabelObjectState.StartObject cfg ctx

/-- `LabelSinglePropertyState::Float`. -/
def LabelSinglePropertyState.Float {F : Type} (cv : FloatConv F) (ctx : JsonContext F)
    (v : F) : Handled F :=
  forwardLabel (LabelObjectState.Float cv (skipLabelPrefix ctx) v)

/-- `LabelSinglePropertyState::String`. -/
def LabelSinglePropertyState.String {F : Type} (cv : FloatConv F) (ctx : JsonContext F)
    (str : List Char) : Handled F :=
  forwardLabel (LabelObjectState.String cv (skipLabelPrefix ctx) str)

/-- `LabelSinglePropertyState::Uint`. -/
def LabelSinglePropertyState.Uint {F : Type} (cv : FloatConv F) (ctx : JsonContext F)
    (v : Nat) : Handled F :=
  forwardLabel (LabelObjectState.Uint cv (skipLabelPrefix ctx) v)

/-- `LabelIndexState::Uint`: the unsigned value is stored in the `int` member `index`. -/
def LabelIndexState.Uint {F : Type} (ctx : JsonContext F) (v : Nat) : Handled F :=
  .ret ctx.previous_state { ctx with label_index_state_index := intOfUnsigned v }

/-- `LabelState::StartObject`. -/
def LabelState.StartObject {F : Type} (cfg : JsonConfig F) (ctx : JsonContext F) : Handled F :=
  LabelObjectState.StartObject cfg ctx

/-- `LabelState::String`. -/
def LabelState.String {F : Type} (cfg : JsonConfig F) (ctx : JsonContext F)
    (str : List Char) : Handled F :=
  match ctx.ex? with
  | none => .undefined
  | some e => .ret ctx.previous_state (ctx.setEx (cfg.parse_example_label str e))

/-- `LabelState::Float`. -/
def LabelState.Float {F : Type} (ctx : JsonContext F) (v : F) : Handled F :=
  match ctx.ex? with
  | none => .undefined
  | some e => .ret ctx.previous_state (ctx.setEx { e with l := { e.l with simple_label := v } })

/-- `LabelState::Uint`. -/
def LabelState.Uint {F : Type} (cv : FloatConv F) (ctx : JsonContext F) (v : Nat) :
    Handled F :=
  LabelState.Float ctx (cv.ofUInt v)

/-! ### `TextState`, `TagState` -/

/-- The loop of `TextState::String` and the statement after it (lines 546-566): `cur` holds
the bytes from `start` to `p`, already escaped. -/
def TextState.loop {F : Type} (ops : FloatOps F) (cfg : JsonConfig F) :
    List Char → List Char → JsonContext F → Option (JsonContext F)
  | [], cur, ctx => if cur.length > 0 then ctx.AddFeatureStr ops cfg cur else some ctx
  | c :: cs, cur, ctx =>
    if c = ' ' ∨ c = '\t' then
      match (if cur.length > 0 then ctx.AddFeatureStr ops cfg cur else some ctx) with
      | none => none
      | some ctx1 => TextState.loop ops cfg cs [] ctx1
    else if c = ':' ∨ c = '|' then TextState.loop ops cfg cs (cur ++ ['_']) ctx
    else TextState.loop ops cfg cs (cur ++ [c]) ctx

/-- `TextState::String`. -/
def TextState.String {F : Type} (ops : FloatOps F) (cfg : JsonConfig F) (ctx : JsonContext F)
    (str : List Char) : Handled F :=
  match ctx.CurrentNamespace with
  | none => .undefined
  | some _ => Handled.ofOption ctx.previous_state (TextState.loop ops cfg str [] ctx)

/-- `TagState::String`. -/
def TagState.String {F : Type} (ctx : JsonContext F) (str : List Char) : Handled F :=
  match ctx.ex? with
  | none => .undefined
  | some e =>
    .ret ctx.previous_state (ctx.setEx { e with toExample := { e.toExample with
      tag := e.tag ++ str } })

/-! ### `MultiState`, `SlotsState` -/

/-- `MultiState::StartArray`. -/
def MultiState.StartArray {F : Type} (ops : FloatOps F) (cv : FloatConv F) (cfg : JsonConfig F)
    (ctx : JsonContext F) : Handled F :=
  if cfg.label_type = .cb then
    match ctx.ex? with
    | none => .undefined
    | some e =>
      let f : cb_class F :=
        { partial_prediction := ops.zero
          action := cfg.all.uniform_hash "shared".toList 0 % 2 ^ 32
          cost := cv.flt_max
          probability := cv.minus_one }
      .ret (some .multi_state)
        (ctx.setEx { e with l := { e.l with cb := { e.l.cb with costs := e.l.cb.costs ++ [f] } } })
  else if cfg.label_type = .ccb then
    match ctx.ex? with
    | none => .undefined
    | some e =>
      .ret (some .multi_state) (ctx.setEx { e with l := { e.l with
        conditional_contextual_bandit :=
          { e.l.conditional_contextual_bandit with type := .shared } } })
  else if cfg.label_type = .slates then
    match ctx.ex? with
    | none => .undefined
    | some e =>
      .ret (some .multi_state)
        (ctx.setEx { e with l := { e.l with slates := { e.l.slates with type := .shared } } })
  else .throws .labelTypeNotCbCcbSlates ctx

/-- Lines 623-631 and 670-678: the example taken from the factory by its `k`-th call, given
the default label and, under the ccb and slates label types, the type `t`. -/
def freshExample {F : Type} (cfg : JsonConfig F) (k : Nat) (t : example_type) :
    LabeledExample F :=
  let e := cfg.example_factory k
  let e1 := { e with l := cfg.default_label e.l }
  if cfg.label_type = .ccb then
    { e1 with l := { e1.l with conditional_contextual_bandit :=
        { e1.l.conditional_contextual_bandit with type := t } } }
  else if cfg.label_type = .slates then
    { e1 with l := { e1.l with slates := { e1.l.slates with type := t } } }
  else e1

/-- Lines 623-633 and 670-680: a new example is taken from the factory, given the default
label and, under the ccb and slates label types, the type `t`; it becomes the current
example and is appended to the examples. -/
def JsonContext.newExample {F : Type} (cfg : JsonConfig F) (ctx : JsonContext F)
    (t : example_type) : JsonContext F :=
  { ctx with
    factory_calls := ctx.factory_calls + 1
    ex := ctx.examples.length
    examples := ctx.examples ++ [freshExample cfg ctx.factory_calls t] }

/-- `MultiState::StartObject`. -/
def MultiState.StartObject {F : Type} (cfg : JsonConfig F) (ctx : JsonContext F) : Handled F :=
  .ret (some .default_state)
    ((ctx.newExample cfg .action).PushNamespace cfg [' '] (some .multi_state))

/-- `MultiState::EndArray`. -/
def MultiState.EndArray {F : Type} (ctx : JsonContext F) : Handled F :=
  if ctx.examples.isEmpty then .undefined
  else .ret (some .default_state) { ctx with ex := 0 }

/-- `SlotsState::StartArray`. -/
def SlotsState.StartArray {F : Type} (ctx : JsonContext F) : Handled F :=
  match ctx.PopNamespace with
  | none => .undefined
  | some (saved, ctx1) =>
    .ret (some .slots_state)
      { ctx1 with
        slots_state_saved := saved
        slots_state_saved_root_state := ctx1.root_state
        root_state := some .slots_state }

/-- `SlotsState::StartObject`. -/
def SlotsState.StartObject {F : Type} (cfg : JsonConfig F) (ctx : JsonContext F) : Handled F :=
  let ctx1 := ctx.newExample cfg .slot
  let ctx2 := { ctx1 with
    label_index_state_index := wrapInt (intOfUnsigned ctx1.examples.length - 2) }
  .ret (some .default_state) (ctx2.PushNamespace cfg [' '] (some .slots_state))

/-- `SlotsState::EndArray`. -/
def SlotsState.EndArray {F : Type} (cfg : JsonConfig F) (ctx : JsonContext F) : Handled F :=
  if ctx.examples.isEmpty then .undefined
  else
    let ctx1 := { ctx with ex := 0 }
    let ctx2 := ctx1.PushNamespace cfg [' '] ctx1.slots_state_saved
    .ret (some .default_state) { ctx2 with root_state := ctx2.slots_state_saved_root_state }

/-! ### `ArrayState`, `IgnoreState` -/

/-- `ArrayState::StartArray`. -/
def ArrayState.StartArray {F : Type} (cfg : JsonConfig F) (ctx : JsonContext F) : Handled F :=
  if ctx.previous_state = some .array_state then ctx.fail .nestedArrays
  else
    let ctx1 := ctx.PushNamespace cfg ctx.key ctx.previous_state
    .ret (some .array_state)
      { ctx1 with array_state_array_hash := hash_space_cstr cfg.all ctx.key }

/-- `ArrayState::Float`. The audit name is the position in brackets. -/
def ArrayState.Float {F : Type} (ops : FloatOps F) (cfg : JsonConfig F) (ctx : JsonContext F)
    (f : F) : Handled F :=
  match ctx.CurrentNamespace with
  | none => .undefined
  | some ns =>
    let name : List Char :=
      if cfg.audit then
        ['['] ++ (Nat.repr ((ctx.array_state_array_hash + 2 ^ 64 - ns.namespace_hash % 2 ^ 64)
          % 2 ^ 64)).toList ++ [']']
      else []
    match ctx.AddFeature ops cfg f ctx.array_state_array_hash name with
    | none => .undefined
    | some ctx1 =>
      .ret (some .array_state)
        { ctx1 with array_state_array_hash := (ctx1.array_state_array_hash + 1) % 2 ^ 64 }

/-- `ArrayState::Uint`. -/
def ArrayState.Uint {F : Type} (ops : FloatOps F) (cv : FloatConv F) (cfg : JsonConfig F)
    (ctx : JsonContext F) (f : Nat) : Handled F :=
  ArrayState.Float ops cfg ctx (cv.ofUInt f)

/-- `ArrayState::Null`. -/
def ArrayState.Null {F : Type} (ctx : JsonContext F) : Handled F :=
  .ret (some .array_state) ctx

/-- `ArrayState::StartObject`. -/
def ArrayState.StartObject {F : Type} (cfg : JsonConfig F) (ctx : JsonContext F) : Handled F :=
  let ns : List Char :=
    match ctx.CurrentNamespace with
    | some n => n.name
    | none => [' ']
  .ret (some .default_state) (ctx.PushNamespace cfg ns (some .array_state))

/-- `ArrayState::EndArray`. -/
def ArrayState.EndArray {F : Type} (ctx : JsonContext F) : Handled F :=
  match ctx.PopNamespace with
  | none => .undefined
  | some (return_state, ctx1) => .ret return_state ctx1

/-- `IgnoreState::Uint`. -/
def IgnoreState.Uint {F : Type} (ctx : JsonContext F) : Handled F :=
  .ret ctx.previous_state ctx

/-! ### `DefaultState` -/

/-- The four characters `DefaultState::String` replaces by an underscore. -/
def escapeChar (c : Char) : Char :=
  if c = ' ' ∨ c = '\t' ∨ c = '|' ∨ c = ':' then '_' else c

/-- `DefaultState::Key`. -/
def DefaultState.Key {F : Type} (cfg : JsonConfig F) (ctx0 : JsonContext F) (str : List Char) :
    Handled F :=
  let length := str.length
  let ctx := { ctx0 with key := str, key_length := length }
  if length > 0 ∧ str.head? = some '_' then
    if ctx.key_length ≥ 6 ∧ strncmp_eq ctx.key "_label".toList 6 then
      if ctx.key_length ≥ 7 ∧ ctx.key.getD 6 NUL = '_' then
        if length ≥ 9 ∧ strncmp_eq (ctx.key.drop 7) "ca".toList 2 then
          .ret (some .label_single_property_state)
            { ctx with label_object_state :=
                { ctx.label_object_state with found_cb_continuous := true } }
        else .ret (some .label_single_property_state) ctx
      else if ctx.key_length = 6 then .ret (some .label_state) ctx
      else if ctx.key_length = 11 ∧ stricmp_eq ctx.key "_labelIndex".toList then
        .ret (some .label_index_state) ctx
      else ctx.fail (.unsupportedKey ctx.key length)
    else if ctx.key_length = 5 ∧ strcmp_eq ctx.key "_text".toList then
      .ret (some .text_state) ctx
    else if ctx.key_length = 6 ∧ strcmp_eq ctx.key "_multi".toList then
      .ret (some .multi_state) ctx
    else if ctx.key_length = 6 ∧ strcmp_eq ctx.key "_slots".toList then
      .ret (some .slots_state) ctx
    else if ctx.key_length = 4 ∧ stricmp_eq ctx.key "_tag".toList then
      .ret (some .tag_state) ctx
    else if ctx.key_length = 4 ∧ stricmp_eq ctx.key "_inc".toList then
      .ret (some .array_uint_state)
        { ctx with array_uint_state := { ctx.array_uint_state with
            output_array := some .label_inc, return_state := some .default_state } }
    else if ctx.key_length = 2 ∧ ctx.key.getD 1 NUL = 'a' then
      .ret (some .array_uint_state)
        { ctx with array_uint_state := { ctx.array_uint_state with
            output_array := some .label_actions, return_state := some .default_state } }
    else if ctx.key_length = 2 ∧ ctx.key.getD 1 NUL = 'p' then
      let skipped : Option (JsonContext F) :=
        if ctx.root_state = some .decision_service_state then
          match DefaultState.Ignore ctx length with
          | .ret _ c => some c
          | .throws _ c => some c
          | .undefined => none
        else some ctx
      match skipped with
      | none => .undefined
      | some ctx1 =>
        .ret (some .array_float_state)
          { ctx1 with array_float_state := { ctx1.array_float_state with
              output_array := some .label_probs, return_state := some .default_state } }
    else if length = 8 ∧ strncmp_eq str "_slot_id".toList 8 then
      if cfg.label_type ≠ .slates then .throws .slotIdOnlyWithSlates ctx
      else
        .ret (some .array_float_state)
          { ctx with
            uint_state_output_uint := some ctx.ex
            array_float_state := { ctx.array_float_state with
              return_state := some .default_state } }
    else if ctx.key_length = 5 ∧ stricmp_eq ctx.key "__aid".toList then
      .ret (some .uint_dedup_state)
        { ctx with uint_dedup_state_return_state := some .default_state }
    else DefaultState.Ignore ctx length
  else .ret (some .default_state) ctx

/-- `DefaultState::String`. Without chained hashing the key is copied in front of the
string in the buffer and the two are one feature name. -/
def DefaultState.String {F : Type} (ops : FloatOps F) (cfg : JsonConfig F)
    (ctx : JsonContext F) (str : List Char) : Handled F :=
  let str1 := str.map escapeChar
  if cfg.chain_hash_json then
    Handled.ofOption (some .default_state) (ctx.AddFeatureKeyValue ops cfg ctx.key str1)
  else
    Handled.ofOption (some .default_state)
      (ctx.AddFeatureStr ops cfg (ctx.key.take ctx.key_length ++ str1))

/-- `DefaultState::Bool`. -/
def DefaultState.Bool {F : Type} (ops : FloatOps F) (cfg : JsonConfig F) (ctx : JsonContext F)
    (b : Bool) : Handled F :=
  if b then Handled.ofOption (some .default_state) (ctx.AddFeatureStr ops cfg ctx.key)
  else .ret (some .default_state) ctx

/-- `DefaultState::StartObject`. -/
def DefaultState.StartObject {F : Type} (cfg : JsonConfig F) (ctx : JsonContext F) :
    Handled F :=
  .ret (some .default_state) (ctx.PushNamespace cfg ctx.key (some .default_state))

/-- Lines 991-1009 of `DefaultState::EndObject`: the label index captured for the group is
applied. `none` is the error return; the third case has no defined behaviour. -/
def applyLabelIndex {F : Type} (ctx : JsonContext F) : Option (Handled F ⊕ JsonContext F) :=
  let label_index := ctx.label_index_state_index
  if label_index ≥ 0 then
    let label_index := wrapInt (label_index + 1)
    if label_index ≥ intOfUnsigned ctx.examples.length then
      some (.inl (ctx.fail (.labelIndexOutOfBounds (label_index - 1) (ctx.examples.length - 1))))
    else if label_index < 0 then none
    else some (.inr { ctx with ex := label_index.toNat, label_index_state_index := -1 })
  else some (.inr ctx)

/-- Lines 1016-1033 of `DefaultState::EndObject`: under the ccb label type, when no example
of the group has the type slot and a cb label was found, a slot example is made. -/
def syntheticSlot {F : Type} (cfg : JsonConfig F) (ctx : JsonContext F) : JsonContext F :=
  if cfg.label_type = .ccb then
    let num_slots := ctx.examples.countP
      (fun ex => ex.l.conditional_contextual_bandit.type == example_type.slot)
    if num_slots = 0 ∧ ctx.label_object_state.found_cb then
      let e := cfg.example_factory ctx.factory_calls
      let e1 := { e with l := cfg.default_label e.l }
      let outcome : conditional_contextual_bandit_outcome F :=
        { cost := ctx.label_object_state.cb_label.cost
          probabilities :=
            [{ action := (ctx.label_object_state.cb_label.action + 2 ^ 32 - 1) % 2 ^ 32
               score := ctx.label_object_state.cb_label.probability }] }
      let e2 := { e1 with l := { e1.l with conditional_contextual_bandit :=
        { e1.l.conditional_contextual_bandit with type := .slot, outcome := some outcome } } }
      { ctx with
        factory_calls := ctx.factory_calls + 1
        ex := ctx.examples.length
        examples := ctx.examples ++ [e2] }
    else ctx
  else ctx

/-- `DefaultState::EndObject`. -/
def DefaultState.EndObject {F : Type} (ops : FloatOps F) (cfg : JsonConfig F)
    (ctx : JsonContext F) : Handled F :=
  match ctx.PopNamespace with
  | none => .undefined
  | some (return_state, ctx1) =>
    if ctx1.namespace_path.isEmpty then
      match applyLabelIndex ctx1 with
      | none => .undefined
      | some (.inl r) => r
      | some (.inr ctx2) =>
        match LabelObjectState.EndObject ops cfg ctx2 with
        | .undefined => .undefined
        | .throws e c => .throws e c
        | .ret _ ctx3 =>
          let ctx4 := syntheticSlot cfg ctx3
          .ret ctx4.root_state ctx4
    else .ret return_state ctx1

/-- `DefaultState::Float`. -/
def DefaultState.Float {F : Type} (ops : FloatOps F) (cfg : JsonConfig F) (ctx : JsonContext F)
    (f : F) : Handled F :=
  match ctx.CurrentNamespace with
  | none => .undefined
  | some ns =>
    Handled.ofOption (some .default_state)
      (ctx.AddFeature ops cfg f (hash_feature_cstr cfg.all ctx.key ns.namespace_hash)
        (cstr ctx.key))

/-- `DefaultState::Uint`. -/
def DefaultState.Uint {F : Type} (ops : FloatOps F) (cv : FloatConv F) (cfg : JsonConfig F)
    (ctx : JsonContext F) (f : Nat) : Handled F :=
  DefaultState.Float ops cfg ctx (cv.ofUInt f)

/-- `DefaultState::StartArray`. -/
def DefaultState.StartArray {F : Type} (cfg : JsonConfig F) (ctx : JsonContext F) : Handled F :=
  ArrayState.StartArray cfg ctx

/-! ### `ArrayToVectorState` -/

/-- `output_array->push_back(v)` of `array_float_state`. -/
def JsonContext.pushFloatArray {F : Type} (ctx : JsonContext F) (v : F) :
    Option (JsonContext F) :=
  match ctx.array_float_state.output_array with
  | none => none
  | some .label_probs =>
    some { ctx with label_object_state := { ctx.label_object_state with
      probs := ctx.label_object_state.probs ++ [v] } }
  | some .interaction_probabilities =>
    some { ctx with decision_service_state_data := { ctx.decision_service_state_data with
      probabilities := ctx.decision_service_state_data.probabilities ++ [v] } }

/-- `output_array->push_back(v)` of `array_uint_state`. -/
def JsonContext.pushUintArray {F : Type} (ctx : JsonContext F) (v : Nat) :
    Option (JsonContext F) :=
  match ctx.array_uint_state.output_array with
  | none => none
  | some .label_inc =>
    some { ctx with label_object_state := { ctx.label_object_state with
      inc := ctx.label_object_state.inc ++ [v] } }
  | some .label_actions =>
    some { ctx with label_object_state := { ctx.label_object_state with
      actions := ctx.label_object_state.actions ++ [v] } }
  | some .interaction_actions =>
    some { ctx with decision_service_state_data := { ctx.decision_service_state_data with
      actions := ctx.decision_service_state_data.actions ++ [v] } }

/-- `ArrayToVectorState<float>::StartArray`. -/
def ArrayFloatState.StartArray {F : Type} (ctx : JsonContext F) : Handled F :=
  if ctx.previous_state = some .array_float_state then ctx.fail .nestedArrays
  else
    .ret (some .array_float_state)
      { ctx with array_float_state := { ctx.array_float_state with
          has_seen_array_start := true } }

/-- The end of the value handlers of `ArrayToVectorState<float>`: a single value, not in an
array, ends the state. -/
def ArrayFloatState.afterValue {F : Type} (ctx : JsonContext F) : Handled F :=
  if !ctx.array_float_state.has_seen_array_start then
    .ret ctx.array_float_state.return_state
      { ctx with array_float_state := { ctx.array_float_state with
          has_seen_array_start := false } }
  else .ret (some .array_float_state) ctx

/-- `ArrayToVectorState<float>::String`. -/
def ArrayFloatState.String {F : Type} (cv : FloatConv F) (ctx : JsonContext F)
    (str : List Char) : Handled F :=
  if !stricmp_eq str "NaN".toList then ctx.fail .onlyNaNInArray
  else
    match ctx.pushFloatArray cv.nan with
    | none => .undefined
    | some ctx1 => ArrayFloatState.afterValue ctx1

/-- `ArrayToVectorState<float>::Uint`. -/
def ArrayFloatState.Uint {F : Type} (cv : FloatConv F) (ctx : JsonContext F) (f : Nat) :
    Handled F :=
  match ctx.pushFloatArray (cv.ofUInt f) with
  | none => .undefined
  | some ctx1 => ArrayFloatState.afterValue ctx1

/-- `ArrayToVectorState<float>::Float`. -/
def ArrayFloatState.Float {F : Type} (ctx : JsonContext F) (f : F) : Handled F :=
  match ctx.pushFloatArray f with
  | none => .undefined
  | some ctx1 => ArrayFloatState.afterValue ctx1

/-- `ArrayToVectorState<float>::Null`. -/
def ArrayFloatState.Null {F : Type} (ctx : JsonContext F) : Handled F :=
  ArrayFloatState.afterValue ctx

/-- `ArrayToVectorState<float>::EndArray`. -/
def ArrayFloatState.EndArray {F : Type} (ctx : JsonContext F) : Handled F :=
  .ret ctx.array_float_state.return_state
    { ctx with array_float_state := { ctx.array_float_state with
        has_seen_array_start := false } }

/-- `ArrayToVectorState<unsigned>::StartArray`. -/
def ArrayUintState.StartArray {F : Type} (ctx : JsonContext F) : Handled F :=
  if ctx.previous_state = some .array_uint_state then ctx.fail .nestedArrays
  else
    .ret (some .array_uint_state)
      { ctx with array_uint_state := { ctx.array_uint_state with
          has_seen_array_start := true } }

/-- The end of the value handlers of `ArrayToVectorState<unsigned>`. -/
def ArrayUintState.afterValue {F : Type} (ctx : JsonContext F) : Handled F :=
  if !ctx.array_uint_state.has_seen_array_start then
    .ret ctx.array_uint_state.return_state
      { ctx with array_uint_state := { ctx.array_uint_state with
          has_seen_array_start := false } }
  else .ret (some .array_uint_state) ctx

/-- `ArrayToVectorState<unsigned>::String`; the quiet NaN of `unsigned` is 0. -/
def ArrayUintState.String {F : Type} (ctx : JsonContext F) (str : List Char) : Handled F :=
  if !stricmp_eq str "NaN".toList then ctx.fail .onlyNaNInArray
  else
    match ctx.pushUintArray 0 with
    | none => .undefined
    | some ctx1 => ArrayUintState.afterValue ctx1

/-- `ArrayToVectorState<unsigned>::Uint`. -/
def ArrayUintState.Uint {F : Type} (ctx : JsonContext F) (f : Nat) : Handled F :=
  match ctx.pushUintArray f with
  | none => .undefined
  | some ctx1 => ArrayUintState.afterValue ctx1

/-- `ArrayToVectorState<unsigned>::Float`. -/
def ArrayUintState.Float {F : Type} (cv : FloatConv F) (ctx : JsonContext F) (f : F) :
    Handled F :=
  match ctx.pushUintArray (cv.toUInt32 f) with
  | none => .undefined
  | some ctx1 => ArrayUintState.afterValue ctx1

/-- `ArrayToVectorState<unsigned>::Null`. -/
def ArrayUintState.Null {F : Type} (ctx : JsonContext F) : Handled F :=
  ArrayUintState.afterValue ctx

/-- `ArrayToVectorState<unsigned>::EndArray`. -/
def ArrayUintState.EndArray {F : Type} (ctx : JsonContext F) : Handled F :=
  .ret ctx.array_uint_state.return_state
    { ctx with array_uint_state := { ctx.array_uint_state with
        has_seen_array_start := false } }

/-! ### The single-value states -/

/-- `StringToStringState::String`. -/
def StringToStringState.String {F : Type} (ctx : JsonContext F) (str : List Char) :
    Handled F :=
  .ret ctx.string_state_return_state
    { ctx with decision_service_state_data := { ctx.decision_service_state_data with
        eventId := str } }

/-- `StringToStringState::Null`. -/
def StringToStringState.Null {F : Type} (ctx : JsonContext F) : Handled F :=
  .ret ctx.string_state_return_state ctx

/-- `FloatToFloatState::Float`. -/
def FloatToFloatState.Float {F : Type} (ctx : JsonContext F) (f : F) : Handled F :=
  .ret ctx.float_state_return_state
    { ctx with decision_service_state_data := { ctx.decision_service_state_data with
        probabilityOfDrop := f } }

/-- `FloatToFloatState::Uint`. -/
def FloatToFloatState.Uint {F : Type} (cv : FloatConv F) (ctx : JsonContext F) (i : Nat) :
    Handled F :=
  FloatToFloatState.Float ctx (cv.ofUInt i)

/-- `FloatToFloatState::Null`. -/
def FloatToFloatState.Null {F : Type} (ops : FloatOps F) (ctx : JsonContext F) : Handled F :=
  FloatToFloatState.Float ctx ops.zero

/-- `UIntDedupState::Uint`. -/
def UIntDedupState.Uint {F : Type} (ctx : JsonContext F) (i : Nat) : Handled F :=
  match ctx.examples.getLast?, ctx.dedup_examples with
  | some new_ex, some dedup =>
    match dedup i with
    | none => .throws (.dedupIdNotFound i) ctx
    | some stored_ex =>
      let new_ex1 : LabeledExample F :=
        { new_ex with
          toExample := { new_ex.toExample with
            indices := stored_ex.indices
            feature_space := fun ns =>
              if ns ∈ stored_ex.indices then stored_ex.feature_space ns
              else new_ex.feature_space ns }
          ft_offset := stored_ex.ft_offset }
      .ret ctx.uint_dedup_state_return_state
        { ctx with examples := ctx.examples.dropLast ++ [new_ex1] }
  | _, _ => .undefined

/-- `UIntToUIntState::Uint`: the only target the state is ever given is the slot id of the
slates label of an example. -/
def UIntToUIntState.Uint {F : Type} (ctx : JsonContext F) (i : Nat) : Handled F :=
  match ctx.uint_state_output_uint with
  | none => .undefined
  | some idx =>
    match ctx.examples.get? idx with
    | none => .undefined
    | some e =>
      let e1 := { e with l := { e.l with slates := { e.l.slates with slot_id := i } } }
      .ret ctx.uint_state_return_state { ctx with examples := ctx.examples.set idx e1 }

/-- `BoolToBoolState::Bool`. -/
def BoolToBoolState.Bool {F : Type} (ctx : JsonContext F) (b : Bool) : Handled F :=
  .ret ctx.bool_state_return_state
    { ctx with decision_service_state_data := { ctx.decision_service_state_data with
        skipLearn := b } }

/-! ### `SlotOutcomeList`, `DecisionServiceState` -/

/-- The example is counted by the loop of `SlotOutcomeList::StartArray`: it is not a slot,
under the ccb or the slates label type. -/
def isNonSlot {F : Type} (cfg : JsonConfig F) (ex : LabeledExample F) : Bool :=
  (cfg.label_type == label_type_t.ccb &&
      ex.l.conditional_contextual_bandit.type != example_type.slot) ||
    (cfg.label_type == label_type_t.slates && ex.l.slates.type != example_type.slot)

/-- `SlotOutcomeList::StartArray`. -/
def SlotOutcomeList.StartArray {F : Type} (cfg : JsonConfig F) (ctx : JsonContext F) :
    Handled F :=
  let slot_object_index : Int := ((ctx.examples.countP (isNonSlot cfg) : Nat) : Int)
  let ctx1 := { ctx with
    slot_outcome_list_state :=
      { slot_object_index := slot_object_index, old_root := ctx.root_state }
    root_state := some .slot_outcome_list_state }
  if slot_object_index = 0 then .throws .sharedExampleRequired ctx1
  else .ret (some .slot_outcome_list_state) ctx1

/-- `SlotOutcomeList::StartObject`. -/
def SlotOutcomeList.StartObject {F : Type} (cfg : JsonConfig F) (ctx : JsonContext F) :
    Handled F :=
  let i := ctx.slot_outcome_list_state.slot_object_index
  if i < 0 ∨ i ≥ (ctx.examples.length : Int) then .undefined
  else
    let ctx1 := { ctx with
      ex := i.toNat
      label_index_state_index := wrapInt (i - 1)
      slot_outcome_list_state := { ctx.slot_outcome_list_state with
        slot_object_index := wrapInt (i + 1) } }
    .ret (some .default_state) (ctx1.PushNamespace cfg [' '] (some .slot_outcome_list_state))

/-- The body of the loop of `SlotOutcomeList::EndArray` for one example: the first (action,
probability) pair of a labelled slot is appended to the interaction record. -/
def topAction {F : Type} (cfg : JsonConfig F) (data : Option (DecisionServiceInteraction F))
    (ex : LabeledExample F) : Option (DecisionServiceInteraction F) :=
  match data with
  | none => none
  | some d =>
    if cfg.label_type = .ccb ∧ ex.l.conditional_contextual_bandit.type = .slot then
      match ex.l.conditional_contextual_bandit.outcome with
      | none => some d
      | some outcome =>
        match outcome.probabilities.head? with
        | none => none
        | some p =>
          some { d with actions := d.actions ++ [p.action],
                        probabilities := d.probabilities ++ [p.score] }
    else if cfg.label_type = .slates ∧ ex.l.slates.type = .slot then
      if ex.l.slates.labeled then
        match ex.l.slates.probabilities.head? with
        | none => none
        | some p =>
          some { d with actions := d.actions ++ [p.action],
                        probabilities := d.probabilities ++ [p.score] }
      else some d
    else some d

/-- `SlotOutcomeList::EndArray`. Reading the first pair of an empty list has no defined
behaviour. -/
def SlotOutcomeList.EndArray {F : Type} (cfg : JsonConfig F) (ctx : JsonContext F) :
    Handled F :=
  match ctx.examples.foldl (topAction cfg) (some ctx.decision_service_state_data) with
  | none => .undefined
  | some d =>
    .ret (some .decision_service_state)
      { ctx with
        decision_service_state_data := d
        root_state := ctx.slot_outcome_list_state.old_root }

/-- `DecisionServiceState::StartObject`. -/
def DecisionServiceState.StartObject {F : Type} (ctx : JsonContext F) : Handled F :=
  .ret (some .decision_service_state) ctx

/-- `DecisionServiceState::EndObject`. -/
def DecisionServiceState.EndObject {F : Type} (ctx : JsonContext F) : Handled F :=
  .ret (some .decision_service_state) ctx

/-- The branch of `DecisionServiceState::Key` for a key that begins with an underscore
(lines 1385-1420); `none` when no `return` is reached. -/
def DecisionServiceState.underscoreKey {F : Type} (ctx : JsonContext F) (str : List Char) :
    Option (Handled F) :=
  let length := str.length
  if length ≥ 6 ∧ strncmp_eq str "_label".toList 6 then
    let ctx1 := { ctx with key := str, key_length := length }
    if length ≥ 7 ∧ ctx1.key.getD 6 NUL = '_' then
      if length ≥ 9 ∧ strncmp_eq (ctx1.key.drop 7) "ca".toList 2 then
        some (.ret (some .label_single_property_state)
          { ctx1 with label_object_state :=
              { ctx1.label_object_state with found_cb_continuous := true } })
      else some (.ret (some .label_single_property_state) ctx1)
    else if length = 6 then some (.ret (some .label_state) ctx1)
    else if length = 11 ∧ stricmp_eq str "_labelIndex".toList then
      some (.ret (some .label_index_state) ctx1)
    else none
  else if length = 10 ∧ strncmp_eq str "_skipLearn".toList 10 then
    some (.ret (some .bool_state)
      { ctx with bool_state_return_state := some .decision_service_state })
  else if length = 9 ∧ strncmp_eq str "_outcomes".toList 9 then
    some (.ret (some .slot_outcome_list_state) ctx)
  else if length = 2 ∧ strncmp_eq str "_p".toList 2 then
    some (.ret (some .array_float_state)
      { ctx with
        decision_service_state_data := { ctx.decision_service_state_data with
          probabilities := [] }
        array_float_state := { ctx.array_float_state with
          output_array := some .interaction_probabilities
          return_state := some .decision_service_state } })
  else none

/-- What `DecisionServiceState::underscoreKey` leaves of the context when it reaches no
`return`: the key is recorded when it begins with `_label`. -/
def DecisionServiceState.afterUnderscore {F : Type} (ctx : JsonContext F) (str : List Char) :
    JsonContext F :=
  if str.length ≥ 6 ∧ strncmp_eq str "_label".toList 6 then
    { ctx with key := str, key_length := str.length }
  else ctx

/-- `DecisionServiceState::Key`. -/
def DecisionServiceState.Key {F : Type} (ctx : JsonContext F) (str : List Char) : Handled F :=
  let length := str.length
  if length = 1 then
    if str.head? = some 'a' then
      .ret (some .array_uint_state)
        { ctx with array_uint_state := { ctx.array_uint_state with
            output_array := some .interaction_actions
            return_state := some .decision_service_state } }
    else if str.head? = some 'p' then
      .ret (some .array_float_state)
        { ctx with
          decision_service_state_data := { ctx.decision_service_state_data with
            probabilities := [] }
          array_float_state := { ctx.array_float_state with
            output_array := some .interaction_probabilities
            return_state := some .decision_service_state } }
    else if str.head? = some 'c' then
      .ret (some .default_state) { ctx with key := [' '], key_length := 1 }
    else DefaultState.Ignore ctx length
  else if length = 3 ∧ strcmp_eq str "pdf".toList then
    .ret (some .array_pdf_state)
      { ctx with array_pdf_state := { ctx.array_pdf_state with
          return_state := some .decision_service_state } }
  else if length = 5 ∧ strcmp_eq str "pdrop".toList then
    .ret (some .float_state) { ctx with float_state_return_state := some .decision_service_state }
  else if length = 7 ∧ strcmp_eq str "EventId".toList then
    .ret (some .string_state)
      { ctx with string_state_return_state := some .decision_service_state }
  else if length > 0 ∧ str.head? = some '_' then
    match DecisionServiceState.underscoreKey ctx str with
    | some r => r
    | none => DefaultState.Ignore (DecisionServiceState.afterUnderscore ctx str) length
  else DefaultState.Ignore ctx length

/-! ## The JSON parser: dispatch and driver -/

/-- The handler of state `s` for the token `t`: the override of the state when it has one,
the handler of `BaseState` otherwise. -/
def BaseState.handle {F : Type} (ops : FloatOps F) (cv : FloatConv F) (cfg : JsonConfig F)
    (s : BaseState) (t : Token F) (ctx : JsonContext F) : Handled F :=
  match s, t with
  -- DefaultState
  | .default_state, .Key str _ => DefaultState.Key cfg ctx str
  | .default_state, .String str => DefaultState.String ops cfg ctx str
  | .default_state, .Bool b => DefaultState.Bool ops cfg ctx b
  | .default_state, .StartObject => DefaultState.StartObject cfg ctx
  | .default_state, .EndObject _ => DefaultState.EndObject ops cfg ctx
  | .default_state, .Float f => DefaultState.Float ops cfg ctx f
  | .default_state, .Uint f => DefaultState.Uint ops cv cfg ctx f
  | .default_state, .StartArray => DefaultState.StartArray cfg ctx
  -- LabelState
  | .label_state, .StartObject => LabelState.StartObject cfg ctx
  | .label_state, .String str => LabelState.String cfg ctx str
  | .label_state, .Float v => LabelState.Float ctx v
  | .label_state, .Uint v => LabelState.Uint cv ctx v
  -- LabelObjectState
  | .label_object_state, .StartObject => LabelObjectState.StartObject cfg ctx
  | .label_object_state, .Key str _ => LabelObjectState.Key ctx str
  | .label_object_state, .String str => LabelObjectState.String cv ctx str
  | .label_object_state, .Float v => LabelObjectState.Float cv ctx v
  | .label_object_state, .Uint v => LabelObjectState.Uint cv ctx v
  | .label_object_state, .EndObject _ => LabelObjectState.EndObject ops cfg ctx
  -- LabelSinglePropertyState
  | .label_single_property_state, .StartObject => LabelSinglePropertyState.StartObject cfg ctx
  | .label_single_property_state, .Float v => LabelSinglePropertyState.Float cv ctx v
  | .label_single_property_state, .String str => LabelSinglePropertyState.String cv ctx str
  | .label_single_property_state, .Uint v => LabelSinglePropertyState.Uint cv ctx v
  -- LabelIndexState
  | .label_index_state, .Uint v => LabelIndexState.Uint ctx v
  -- TextState, TagState
  | .text_state, .String str => TextState.String ops cfg ctx str
  | .tag_state, .String str => TagState.String ctx str
  -- MultiState
  | .multi_state, .StartArray => MultiState.StartArray ops cv cfg ctx
  | .multi_state, .StartObject => MultiState.StartObject cfg ctx
  | .multi_state, .EndArray _ => MultiState.EndArray ctx
  -- IgnoreState
  | .ignore_state, .Uint _ => IgnoreState.Uint ctx
  -- ArrayState
  | .array_state, .StartArray => ArrayState.StartArray cfg ctx
  | .array_state, .Float f => ArrayState.Float ops cfg ctx f
  | .array_state, .Uint f => ArrayState.Uint ops cv cfg ctx f
  | .array_state, .Null => ArrayState.Null ctx
  | .array_state, .StartObject => ArrayState.StartObject cfg ctx
  | .array_state, .EndArray _ => ArrayState.EndArray ctx
  -- SlotsState
  | .slots_state, .StartArray => SlotsState.StartArray ctx
  | .slots_state, .StartObject => SlotsState.StartObject cfg ctx
  | .slots_state, .EndArray _ => SlotsState.EndArray cfg ctx
  -- ArrayToPdfState
  | .array_pdf_state, .StartObject => ArrayToPdfState.StartObject ctx
  | .array_pdf_state, .Key str _ => ArrayToPdfState.Key ctx str
  | .array_pdf_state, .String str => ArrayToPdfState.String ctx str
  | .array_pdf_state, .StartArray => ArrayToPdfState.StartArray ops ctx
  | .array_pdf_state, .EndArray _ => ArrayToPdfState.EndArray cfg ctx
  | .array_pdf_state, .Float v => ArrayToPdfState.Float ctx v
  | .array_pdf_state, .Uint v => ArrayToPdfState.Float ctx (cv.ofUInt v)
  | .array_pdf_state, .EndObject _ => ArrayToPdfState.EndObject ops ctx
  -- DecisionServiceState
  | .decision_service_state, .StartObject => DecisionServiceState.StartObject ctx
  | .decision_service_state, .EndObject _ => DecisionServiceState.EndObject ctx
  | .decision_service_state, .Key str _ => DecisionServiceState.Key ctx str
  -- ArrayToVectorState<float>
  | .array_float_state, .StartArray => ArrayFloatState.StartArray ctx
  | .array_float_state, .String str => ArrayFloatState.String cv ctx str
  | .array_float_state, .Uint f => ArrayFloatState.Uint cv ctx f
  | .array_float_state, .Float f => ArrayFloatState.Float ctx f
  | .array_float_state, .Null => ArrayFloatState.Null ctx
  | .array_float_state, .EndArray _ => ArrayFloatState.EndArray ctx
  -- ArrayToVectorState<unsigned>
  | .array_uint_state, .StartArray => ArrayUintState.StartArray ctx
  | .array_uint_state, .String str => ArrayUintState.String ctx str
  | .array_uint_state, .Uint f => ArrayUintState.Uint ctx f
  | .array_uint_state, .Float f => ArrayUintState.Float cv ctx f
  | .array_uint_state, .Null => ArrayUintState.Null ctx
  | .array_uint_state, .EndArray _ => ArrayUintState.EndArray ctx
  -- the single-value states
  | .string_state, .String str => StringToStringState.String ctx str
  | .string_state, .Null => StringToStringState.Null ctx
  | .float_state, .Float f => FloatToFloatState.Float ctx f
  | .float_state, .Uint i => FloatToFloatState.Uint cv ctx i
  | .float_state, .Null => FloatToFloatState.Null ops ctx
  | .uint_state, .Uint i => UIntToUIntState.Uint ctx i
  | .uint_dedup_state, .Uint i => UIntDedupState.Uint ctx i
  | .bool_state, .Bool b => BoolToBoolState.Bool ctx b
  -- SlotOutcomeList
  | .slot_outcome_list_state, .StartArray => SlotOutcomeList.StartArray cfg ctx
  | .slot_outcome_list_state, .StartObject => SlotOutcomeList.StartObject cfg ctx
  | .slot_outcome_list_state, .EndArray _ => SlotOutcomeList.EndArray cfg ctx
  -- BaseState
  | s, .Null => BaseState.Null s ctx
  | _, .Bool b => ctx.fail (.unexpectedBool b)
  | _, .Float _ => ctx.fail .unexpectedFloat
  | _, .Uint v => ctx.fail (.unexpectedUint v)
  | _, .String str => ctx.fail (.unexpectedString str)
  | _, .StartObject => ctx.fail .unexpectedStartObject
  | _, .Key str _ => ctx.fail (.unexpectedKey str)
  | _, .EndObject _ => ctx.fail .unexpectedEndObject
  | _, .StartArray => ctx.fail .unexpectedStartArray
  | _, .EndArray _ => ctx.fail .unexpectedEndArray

/-- `Context::TransitionState`. -/
def JsonContext.TransitionState {F : Type} (ctx : JsonContext F) (next_state : Option BaseState) :
    Bool × JsonContext F :=
  match next_state with
  | none => (false, ctx)
  | some s => (true, { ctx with previous_state := some ctx.current_state, current_state := s })

/-- What the parse of a token sequence ends with: every handler call returned a state; a
handler call returned the null pointer, so that the reader stops with an error and
`read_line_json` throws; a handler raised an exception; or the source has no defined
behaviour. -/
inductive ParseEnd (F : Type) where
  | finished (ctx : JsonContext F)
  | failed (ctx : JsonContext F)
  | throws (e : JsonException) (ctx : JsonContext F)
  | undefined

/-- One method of `VWReaderHandler`: the handler of the current state for the token, then
`TransitionState`. The buffer view a key comes with is the state of the stream during the
call. -/
def VWReaderHandler.token {F : Type} (ops : FloatOps F) (cv : FloatConv F) (cfg : JsonConfig F)
    (ctx : JsonContext F) (t : Token F) : Handled F :=
  let ctx1 : JsonContext F :=
    match t with
    | .Key _ src => { ctx with stream := src }
    | _ => ctx
  BaseState.handle ops cv cfg ctx1.current_state t ctx1

/-- The reader's loop over the tokens (`reader.Parse`): it stops at the first handler call
that returns false. -/
def parseTokens {F : Type} (ops : FloatOps F) (cv : FloatConv F) (cfg : JsonConfig F) :
    List (Token F) → JsonContext F → ParseEnd F
  | [], ctx => .finished ctx
  | t :: ts, ctx =>
    match VWReaderHandler.token ops cv cfg ctx t with
    | .undefined => .undefined
    | .throws e c => .throws e c
    | .ret next_state c =>
      match c.TransitionState next_state with
      | (true, c1) => parseTokens ops cv cfg ts c1
      | (false, c1) => .failed c1

/-- `Context::Context`, `Context::init` and `VWReaderHandler::init`: the context on which
the parse of a line starts. Members that nothing assigns are empty. -/
def VWReaderHandler.init {F : Type} (ops : FloatOps F) (cfg : JsonConfig F)
    (examples : List (LabeledExample F)) (stream : List Char)
    (dedup_examples : Option (Nat → Option (LabeledExample F)))
    (data : DecisionServiceInteraction F) : JsonContext F :=
  let examples1 :=
    match examples with
    | e :: es => { e with l := cfg.default_label e.l } :: es
    | [] => []
  { error_ptr := []
    key := [' ']
    key_length := 1
    current_state := .default_state
    previous_state := none
    namespace_path := []
    return_path := []
    dedup_examples := dedup_examples
    examples := examples1
    ex := 0
    stream := stream
    factory_calls := 0
    counted_labels := []
    label_object_state := LabelObjectState.init ops cfg
      { return_state := none, cb_label := cfg.cb_class_default,
        cont_label_element := { action := ops.zero, cost := ops.zero, pdf_value := ops.zero },
        found := false, found_cb := false, found_cb_continuous := false,
        actions := [], probs := [], inc := [] }
    label_index_state_index := -1
    array_state_array_hash := 0
    slots_state_saved := none
    slots_state_saved_root_state := none
    array_pdf_state :=
      { obj_return_state := none, return_state := none,
        segment := { left := ops.zero, right := ops.zero, pdf_value := ops.zero } }
    decision_service_state_data := data
    array_float_state := { output_array := none, return_state := none,
                           has_seen_array_start := false }
    array_uint_state := { output_array := none, return_state := none,
                          has_seen_array_start := false }
    string_state_return_state := none
    float_state_return_state := none
    uint_state_output_uint := none
    uint_state_return_state := none
    uint_dedup_state_return_state := none
    bool_state_return_state := none
    slot_outcome_list_state := { slot_object_index := 0, old_root := none }
    root_state := some .default_state }

/-- `Context::SetStartStateToDecisionService`. -/
def JsonContext.SetStartStateToDecisionService {F : Type} (ctx : JsonContext F)
    (data : DecisionServiceInteraction F) : JsonContext F :=
  { ctx with
    decision_service_state_data := data
    current_state := .decision_service_state
    root_state := some .decision_service_state }

/-! ## Observations on the results of the JSON parser -/

/-- The context a handler call left, when it returned or threw. -/
def Handled.ctx? {F : Type} : Handled F → Option (JsonContext F)
  | .ret _ ctx => some ctx
  | .throws _ ctx => some ctx
  | .undefined => none

/-- The handler returned the error sentinel, the null pointer. -/
def Handled.isError {F : Type} : Handled F → Bool
  | .ret none _ => true
  | _ => false

/-- The state the handler returned, when it returned one. -/
def Handled.next? {F : Type} : Handled F → Option BaseState
  | .ret s _ => s
  | _ => none

/-- The exception the handler raised, when it raised one. -/
def Handled.exception? {F : Type} : Handled F → Option JsonException
  | .throws e _ => some e
  | _ => none

/-- The context the parse ended with, when the behaviour is defined. -/
def ParseEnd.ctx? {F : Type} : ParseEnd F → Option (JsonContext F)
  | .finished ctx => some ctx
  | .failed ctx => some ctx
  | .throws _ ctx => some ctx
  | .undefined => none

/-- The exception a handler call of the parse raised, when one did. -/
def ParseEnd.exception? {F : Type} : ParseEnd F → Option JsonException
  | .throws e _ => some e
  | _ => none

/-- Every handler call of the parse returned a state. -/
def ParseEnd.isFinished {F : Type} : ParseEnd F → Bool
  | .finished _ => true
  | _ => false

/-- A handler call of the parse returned the error sentinel. -/
def ParseEnd.isFailed {F : Type} : ParseEnd F → Bool
  | .failed _ => true
  | _ => false

/-- The values stored in the feature spaces an example lists, by group in list order. -/
def storedValues {F : Type} (e : LabeledExample F) : List (Nat × List F) :=
  e.indices.map (fun i => (i, (e.feature_space i).values))

/-- The examples after `PopNamespace` ended the scope `ns`: the group of the scope is
listed in the current example when features were added in the scope and the group is not
listed yet. -/
def popExamples {F : Type} (ctx : JsonContext F) (ns : Scope) : List (LabeledExample F) :=
  if ns.feature_count > 0 then
    match ctx.examples.get? ctx.ex with
    | some e =>
      ctx.examples.set ctx.ex
        (if ns.feature_group ∈ e.indices then e
          else { e with toExample := e.toExample.pushIndex ns.feature_group })
    | none => ctx.examples
  else ctx.examples

/-! ## A concrete JSON configuration for evaluation -/

/-- Conversions for the stand-in for `float` of `sampleOps`. -/
def sampleConv : FloatConv (Option Int) where
  nan := none
  flt_max := some (2 ^ 127)
  minus_one := some (-1)
  ofUInt := fun n => some (n : Int)
  toUInt32 := fun v =>
    match v with
    | some x => x.toNat % 2 ^ 32
    | none => 0
  sub := fun a b =>
    match a, b with
    | some x, some y => some (x - y)
    | _, _ => none

/-- A label in which nothing is set. -/
def sampleLabel : polylabel (Option Int) where
  simple_label := some 0
  cb := { costs := [], weight := some 1 }
  conditional_contextual_bandit :=
    { type := .unset, outcome := none, explicit_included_actions := [], weight := some 1 }
  slates := { type := .unset, labeled := false, slot_id := 0, probabilities := [] }
  cb_cont_costs := []

/-- An example as the pool hands it out: nothing stored, nothing set. -/
def sampleExample : LabeledExample (Option Int) where
  toExample := Example.empty sampleOps
  l := sampleLabel
  weight := some 1
  _reduction_features := { initial := some 0, weight := some 1, pdf := [], chosen_action := some 0 }
  ft_offset := 0

/-- A configuration of the JSON parser for evaluation, for a given label type. -/
def sampleJson (label_type : label_type_t) : JsonConfig (Option Int) where
  all := sampleVW false
  audit := false
  label_type := label_type
  default_label := fun _ => sampleLabel
  parse_example_label := fun _ e => e
  chain_hash_json := false
  decision_service_json := false
  cb_class_default :=
    { cost := some (2 ^ 127), action := 0, probability := some (-1),
      partial_prediction := some 0 }
  is_valid_pdf := fun _ => true
  example_factory := fun _ => sampleExample

/-- An interaction record with nothing in it. -/
def sampleInteraction : DecisionServiceInteraction (Option Int) where
  eventId := []
  actions := []
  probabilities := []
  probabilityOfDrop := some 0
  skipLearn := false

/-- The context on which the parse of a line starts, with one example from the pool. -/
def sampleJsonContext (label_type : label_type_t) : JsonContext (Option Int) :=
  VWReaderHandler.init sampleOps (sampleJson label_type) [sampleExample] [] none
    sampleInteraction

/-- A key token whose buffer view is not looked at. -/
def keyToken (s : String) : Token (Option Int) := .Key s.toList []

/-- The tokens of `\x7b"arr":[[1],null]\x7d`: an array whose first element is an array and
whose second element is a null. -/
def nestedArrayNullTokens : List (Token (Option Int)) :=
  [.StartObject, keyToken "arr", .StartArray, .StartArray, .Uint 1, .EndArray 1, .Null,
    .EndArray 2, .EndObject 1]

/-- The tokens of `\x7b"_labelIndex":4294967295,"_multi":[\x7b"a":1\x7d]\x7d`: a label index
that names no action of the group of two examples. -/
def hugeLabelIndexTokens : List (Token (Option Int)) :=
  [.StartObject, keyToken "_labelIndex", .Uint 4294967295, keyToken "_multi", .StartArray,
    .StartObject, keyToken "a", .Uint 1, .EndObject 1, .EndArray 1, .EndObject 2]

/-- The tokens of `\x7b"_labelIndex":1,"_multi":[\x7b"a":1\x7d]\x7d`. -/
def smallLabelIndexTokens : List (Token (Option Int)) :=
  [.StartObject, keyToken "_labelIndex", .Uint 1, keyToken "_multi", .StartArray,
    .StartObject, keyToken "a", .Uint 1, .EndObject 1, .EndArray 1, .EndObject 2]

/-- The tokens of `\x7b"_a":[1]\x7d`: an action list and no probability list. -/
def actionsOnlyTokens : List (Token (Option Int)) :=
  [.StartObject, keyToken "_a", .StartArray, .Uint 1, .EndArray 1, .EndObject 1]

/-- A context in the LabelObject state in which two actions and one probability are
accumulated. -/
def sampleMismatchContext (label_type : label_type_t) : JsonContext (Option Int) :=
  { sampleJsonContext label_type with
    current_state := .label_object_state
    label_object_state := { (sampleJsonContext label_type).label_object_state with
      actions := [1, 2], probs := [some 1] } }

/-- A context in the LabelObject state whose last key is `Action`. -/
def sampleActionKeyContext : JsonContext (Option Int) :=
  { sampleJsonContext .cb with
    current_state := .label_object_state
    key := "Action".toList
    key_length := 6 }

/-- The start context with the buffer view `"_labels":1\x7d` of the key `_labels`. -/
def sampleLabelsKeyContext : JsonContext (Option Int) :=
  { sampleJsonContext .simple with stream := "\"_labels\":1\x7d".toList }

/-- The start context with the buffer view `"_x":[1,"],"],"b":2\x7d` of the key `_x`. -/
def sampleSkipContext : JsonContext (Option Int) :=
  { sampleJsonContext .simple with stream := "\"_x\":[1,\"],\"],\"b\":2\x7d".toList }

/-- The context after the opening brace of the line: the Default state inside the top-level
object. -/
def sampleOpenContext : JsonContext (Option Int) :=
  ((parseTokens sampleOps sampleConv (sampleJson .simple) [.StartObject]
    (sampleJsonContext .simple)).ctx?).getD (sampleJsonContext .simple)

/-- The value `\x7b"a":["x\"\x7d,]"]\x7d`: an object that holds an array that holds a string
with an escaped quote, a closing brace, a comma and a closing bracket. -/
def sampleNestedValue : List Char := "\x7b\"a\":[\"x\\\"\x7d,]\"]\x7d".toList

/-- The buffer view of the key `_x` in `\x7b"_x":\x7b"a":["x\"\x7d,]"]\x7d,"b":2\x7d`. -/
def sampleNestedView : List Char :=
  "\"_x\"".toList ++ ':' :: sampleNestedValue ++ ',' :: "\"b\":2\x7d".toList

/-- The tokens of `\x7b"arr":[\x7b"_x":1\x7d,[2],null]\x7d`: an array whose first element is
an object with a fast-skipped member and whose second element is an array. -/
def skippedThenArrayTokens : List (Token (Option Int)) :=
  [.StartObject, keyToken "arr", .StartArray, .StartObject,
    .Key "_x".toList "\"_x\":1\x7d,[2],null]\x7d".toList, .Uint 0, .EndObject 1,
    .StartArray, .Uint 2, .EndArray 1, .Null, .EndArray 3, .EndObject 1]

/-- The tokens of `\x7b"arr":[\x7b\x7d,[2],null]\x7d`: the same line without the member. -/
def emptyThenArrayTokens : List (Token (Option Int)) :=
  [.StartObject, keyToken "arr", .StartArray, .StartObject, .EndObject 0,
    .StartArray, .Uint 2, .EndArray 1, .Null, .EndArray 3, .EndObject 1]

/-- The tokens of `\x7b"arr":[[1]]\x7d`. -/
def nestedArrayFirstTokens : List (Token (Option Int)) :=
  [.StartObject, keyToken "arr", .StartArray, .StartArray, .Uint 1, .EndArray 1, .EndArray 1,
    .EndObject 1]

/-- The tokens of `\x7b"arr":[1,[2]]\x7d`. -/
def nestedArrayLaterTokens : List (Token (Option Int)) :=
  [.StartObject, keyToken "arr", .StartArray, .Uint 1, .StartArray, .Uint 2, .EndArray 1,
    .EndArray 2, .EndObject 1]

/-! ## Well-formed JSON text, for the fast skip -/

/-- JSON white space. -/
def isJsonSpace (c : Char) : Bool := c == ' ' || c == '\t' || c == '\n' || c == '\r'

/-- A character that is none of the seven the scan of `Ignore` looks at outside a string:
the zero byte, the double quote, the braces, the brackets and the comma. The characters of
numbers, of `true`, `false` and `null`, white space and the colon are such characters. -/
def isScalarChar (c : Char) : Bool :=
  c != NUL && c != '"' && c != '\x7b' && c != '\x7d' && c != '[' && c != ']' && c != ','

/-- The text between the quotes of a JSON string: characters other than the double quote,
the backslash and the zero byte, and escapes, a backslash followed by one character. -/
inductive StringBody : List Char → Prop where
  | nil : StringBody []
  | char (c : Char) (rest : List Char) :
      c ≠ NUL → c ≠ '\\' → c ≠ '"' → StringBody rest → StringBody (c :: rest)
  | escape (c : Char) (rest : List Char) : StringBody rest → StringBody ('\\' :: c :: rest)

/-- The three kinds of text of the grammar below. -/
inductive JsonPart where
  | value
  | elements
  | members
deriving DecidableEq, Repr

/-- Well-formed JSON text: a value (a number or literal, a string, an array, an object, with
white space around it), the elements of an array (values separated by commas), or the
members of an object (pairs of a key string, a colon and a value, separated by commas). The
grammar accepts every JSON value of RFC 8259; it does not check numbers and literals any
further. -/
inductive JsonText : JsonPart → List Char → Prop where
  | scalar (cs : List Char) :
      cs ≠ [] → (∀ c ∈ cs, isScalarChar c = true) → JsonText .value cs
  | string (ws1 body ws2 : List Char) :
      (∀ c ∈ ws1, isJsonSpace c = true) → StringBody body → (∀ c ∈ ws2, isJsonSpace c = true) →
      JsonText .value (ws1 ++ '"' :: body ++ '"' :: ws2)
  | array (ws1 es ws2 : List Char) :
      (∀ c ∈ ws1, isJsonSpace c = true) → JsonText .elements es →
      (∀ c ∈ ws2, isJsonSpace c = true) →
      JsonText .value (ws1 ++ '[' :: es ++ ']' :: ws2)
  | object (ws1 ms ws2 : List Char) :
      (∀ c ∈ ws1, isJsonSpace c = true) → JsonText .members ms →
      (∀ c ∈ ws2, isJsonSpace c = true) →
      JsonText .value (ws1 ++ '\x7b' :: ms ++ '\x7d' :: ws2)
  | noElements (ws : List Char) : (∀ c ∈ ws, isJsonSpace c = true) → JsonText .elements ws
  | element (v : List Char) : JsonText .value v → JsonText .elements v
  | elements (v es : List Char) :
      JsonText .value v → JsonText .elements es → JsonText .elements (v ++ ',' :: es)
  | noMembers (ws : List Char) : (∀ c ∈ ws, isJsonSpace c = true) → JsonText .members ws
  | member (ws1 key ws2 v : List Char) :
      (∀ c ∈ ws1, isJsonSpace c = true) → StringBody key → (∀ c ∈ ws2, isJsonSpace c = true) →
      JsonText .value v → JsonText .members (ws1 ++ '"' :: key ++ '"' :: ws2 ++ ':' :: v)
  | members (m ms : List Char) :
      JsonText .members m → JsonText .members ms → JsonText .members (m ++ ',' :: ms)

/-- One of the three characters at which the scan of `Ignore` can stop. -/
def isTerminator (c : Char) : Bool := c == ',' || c == '\x7d' || c == ']'

/-- The key begins with an underscore and is none of the keys the Default state has a
state or an error for: it does not begin with `_label`, and is none of `_text`, `_multi`,
`_slots`, `_slot_id`, `_a`, `_p` nor, in any letter case, `_tag`, `_inc`, `__aid`. -/
def IgnoredKey (str : List Char) : Prop :=
  str.head? = some '_' ∧ str.take 6 ≠ "_label".toList ∧
    str ≠ "_text".toList ∧ str ≠ "_multi".toList ∧ str ≠ "_slots".toList ∧
    str ≠ "_slot_id".toList ∧ str ≠ "_a".toList ∧ str ≠ "_p".toList ∧
    str.map Char.toLower ≠ "_tag".toList ∧ str.map Char.toLower ≠ "_inc".toList ∧
    str.map Char.toLower ≠ "__aid".toList

/-- The result of a handler call with the context it left changed by `f`. -/
def Handled.mapCtx {F : Type} (f : JsonContext F → JsonContext F) : Handled F → Handled F
  | .ret s c => .ret s (f c)
  | .throws e c => .throws e (f c)
  | .undefined => .undefined

/-- The context with another last key, key length, previous state and buffer. -/
def JsonContext.withKey {F : Type} (c : JsonContext F) (key : List Char) (key_length : Nat)
    (previous_state : Option BaseState) (stream : List Char) : JsonContext F :=
  { c with key := key, key_length := key_length, previous_state := previous_state,
           stream := stream }

/-- The context without the four members the fast skip of a key leaves changed: the last
key and its length, the previous state and the buffer. -/
def JsonContext.forgetKey {F : Type} (c : JsonContext F) : JsonContext F :=
  { c with key := [], key_length := 0, previous_state := none, stream := [] }

/-- The two parses end in the same way (finished, failed, the same exception, undefined)
and with the same context, the last key, its length, the previous state and the buffer
apart: the same examples, the same current example, the same namespace stack, the same
label scratch, the same interaction record, the same error messages. -/
def ParseEnd.Same {F : Type} : ParseEnd F → ParseEnd F → Prop
  | .finished c, .finished c' => c.forgetKey = c'.forgetKey
  | .failed c, .failed c' => c.forgetKey = c'.forgetKey
  | .throws e c, .throws e' c' => e = e' ∧ c.forgetKey = c'.forgetKey
  | .undefined, .undefined => True
  | _, _ => False

/-! ## Feature objects and groups, for the shape of a `_multi` array -/

/-- The scope with its feature count erased. -/
def Scope.noCount (s : Scope) : Scope := { s with feature_count := 0 }

/-- The context without the members the handlers of feature members write: the last key and
its length, the two state pointers, the buffer, the examples, the two stacks and the running
hash of the Array state. -/
def JsonContext.frame {F : Type} (c : JsonContext F) : JsonContext F :=
  { c with key := [], key_length := 0, current_state := .default_state, previous_state := none,
           stream := [], examples := [], namespace_path := [], return_path := [],
           array_state_array_hash := 0 }

/-- The handlers of feature members can run on the context: the namespace stack is not
empty, the scope on top writes into the current example, which exists, and every scope has
a state to return to. -/
structure InScope {F : Type} (ctx : JsonContext F) : Prop where
  scope : ∃ ns, ctx.namespace_path.getLast? = some ns ∧ ns.ftrs = ctx.ex
  current : ctx.ex < ctx.examples.length
  returns : ctx.return_path.length = ctx.namespace_path.length

/-- The context `c` is what feature members make of `ctx`: the same state, the same stacks
but for the feature count of the scope on top, the same labels, the same examples but for
the current one, and nothing else changed outside the last key, the buffer, the previous
state and the running hash of the Array state. -/
structure SameObject {F : Type} (ctx c : JsonContext F) : Prop where
  frame : c.frame = ctx.frame
  state : c.current_state = ctx.current_state
  returns : c.return_path = ctx.return_path
  stack_init : c.namespace_path.dropLast = ctx.namespace_path.dropLast
  stack_last : c.namespace_path.getLast?.map Scope.noCount =
    ctx.namespace_path.getLast?.map Scope.noCount
  labels : c.examples.map (fun e => e.l) = ctx.examples.map (fun e => e.l)
  others : ∀ j, j ≠ ctx.ex → c.examples.get? j = ctx.examples.get? j

/-- The parse takes the tokens `ts` from the context `ctx` to the context `c` with every
handler call returning a state: whatever follows is parsed from `c`. -/
def Runs {F : Type} (ops : FloatOps F) (cv : FloatConv F) (cfg : JsonConfig F)
    (ts : List (Token F)) (ctx c : JsonContext F) : Prop :=
  ∀ post, parseTokens ops cv cfg (ts ++ post) ctx = parseTokens ops cv cfg post c

/-- The value of an `int64_t` after an operation that wraps around. -/
def wrapInt64 (i : Int) : Int := (i + 2 ^ 63) % 2 ^ 64 - 2 ^ 63

/-- The loop of `VW::math::factorial`: `for (i = 2; i <= n; i++) result *= i`. The first
argument bounds the number of iterations. -/
def factorialLoop : Nat → Int → Int → Int → Int
  | 0, _, _, result => result
  | fuel + 1, n, i, result =>
    if i ≤ n then factorialLoop fuel n (wrapInt64 (i + 1)) (wrapInt64 (result * i))
    else result

/-- `VW::math::factorial`. -/
def factorial (n : Int) : Int := factorialLoop n.toNat n 2 1

/-- The loop of `VW::math::choose`: `for (d = 1; d <= k; ++d) { r *= n--; r /= d; }`. The
first argument bounds the number of iterations; the list records the dividend and the
divisor of every division made. -/
def chooseLoop : Nat → Int → Int → Int → Int → List (Int × Int) → Int × List (Int × Int)
  | 0, _, _, _, r, divs => (r, divs)
  | fuel + 1, k, d, n, r, divs =>
    if d ≤ k then
      let r1 := wrapInt64 (r * n)
      let n1 := wrapInt64 (n - 1)
      let r2 := wrapInt64 (Int.tdiv r1 d)
      chooseLoop fuel k (wrapInt64 (d + 1)) n1 r2 (divs ++ [(r1, d)])
    else (r, divs)

/-- `VW::math::choose`. -/
def choose (n k : Int) : Int :=
  if k > n then 0
  else if k < 0 then 0
  else if k = n then 1
  else if k = 0 ∧ n ≠ 0 then 1
  else (chooseLoop k.toNat k 1 n 1 []).1

/-- The divisions the loop of `VW::math::choose` makes, as pairs of dividend and divisor; none
when the function returns before the loop. -/
def chooseDivisions (n k : Int) : List (Int × Int) :=
  if k > n then []
  else if k < 0 then []
  else if k = n then []
  else if k = 0 ∧ n ≠ 0 then []
  else (chooseLoop k.toNat k 1 n 1 []).2

/-! ## The JSON parser: which state handles which token -/

/-- The state class overrides the handler of `BaseState` for the kind of the token. -/
def hasOwnHandler {F : Type} : BaseState → Token F → Bool
  | .default_state, .Key _ _ => true
  | .default_state, .String _ => true
  | .default_state, .Bool _ => true
  | .default_state, .StartObject => true
  | .default_state, .EndObject _ => true
  | .default_state, .Float _ => true
  | .default_state, .Uint _ => true
  | .default_state, .StartArray => true
  | .label_state, .StartObject => true
  | .label_state, .String _ => true
  | .label_state, .Float _ => true
  | .label_state, .Uint _ => true
  | .label_object_state, .StartObject => true
  | .label_object_state, .Key _ _ => true
  | .label_object_state, .String _ => true
  | .label_object_state, .Float _ => true
  | .label_object_state, .Uint _ => true
  | .label_object_state, .EndObject _ => true
  | .label_single_property_state, .StartObject => true
  | .label_single_property_state, .Float _ => true
  | .label_single_property_state, .String _ => true
  | .label_single_property_state, .Uint _ => true
  | .label_index_state, .Uint _ => true
  | .text_state, .String _ => true
  | .tag_state, .String _ => true
  | .multi_state, .StartArray => true
  | .multi_state, .StartObject => true
  | .multi_state, .EndArray _ => true
  | .ignore_state, .Uint _ => true
  | .array_state, .StartArray => true
  | .array_state, .Float _ => true
  | .array_state, .Uint _ => true
  | .array_state, .Null => true
  | .array_state, .StartObject => true
  | .array_state, .EndArray _ => true
  | .slots_state, .StartArray => true
  | .slots_state, .StartObject => true
  | .slots_state, .EndArray _ => true
  | .array_pdf_state, .StartObject => true
  | .array_pdf_state, .Key _ _ => true
  | .array_pdf_state, .String _ => true
  | .array_pdf_state, .StartArray => true
  | .array_pdf_state, .EndArray _ => true
  | .array_pdf_state, .Float _ => true
  | .array_pdf_state, .Uint _ => true
  | .array_pdf_state, .EndObject _ => true
  | .decision_service_state, .StartObject => true
  | .decision_service_state, .EndObject _ => true
  | .decision_service_state, .Key _ _ => true
  | .array_float_state, .StartArray => true
  | .array_float_state, .String _ => true
  | .array_float_state, .Uint _ => true
  | .array_float_state, .Float _ => true
  | .array_float_state, .Null => true
  | .array_float_state, .EndArray _ => true
  | .array_uint_state, .StartArray => true
  | .array_uint_state, .String _ => true
  | .array_uint_state, .Uint _ => true
  | .array_uint_state, .Float _ => true
  | .array_uint_state, .Null => true
  | .array_uint_state, .EndArray _ => true
  | .string_state, .String _ => true
  | .string_state, .Null => true
  | .float_state, .Float _ => true
  | .float_state, .Uint _ => true
  | .float_state, .Null => true
  | .uint_state, .Uint _ => true
  | .uint_dedup_state, .Uint _ => true
  | .bool_state, .Bool _ => true
  | .slot_outcome_list_state, .StartArray => true
  | .slot_outcome_list_state, .StartObject => true
  | .slot_outcome_list_state, .EndArray _ => true
  | _, _ => false

/-- The token is a null. -/
def isNullToken {F : Type} : Token F → Bool
  | .Null => true
  | _ => false

/-- The message of the handler of `BaseState` for a token that is not a null. -/
def unexpectedToken {F : Type} : Token F → JsonError
  | .Bool b => .unexpectedBool b
  | .Float _ => .unexpectedFloat
  | .Uint v => .unexpectedUint v
  | .String str => .unexpectedString str
  | .StartObject => .unexpectedStartObject
  | .Key str _ => .unexpectedKey str
  | .EndObject _ => .unexpectedEndObject
  | .StartArray => .unexpectedStartArray
  | .EndArray _ => .unexpectedEndArray
  | .Null => .unexpectedEndArray

/-! ## The JSON parser: reading a line -/

/-- Modelled from the spec: the `DecisionServiceInteraction` a caller declares
(`json_utils.h` is not part of the sources at hand): no event id, no actions, no
probabilities, probability of drop 0, and the skip flag clear. -/
def DecisionServiceInteraction.empty {F : Type} (ops : FloatOps F) :
    DecisionServiceInteraction F :=
  { eventId := [], actions := [], probabilities := [], probabilityOfDrop := ops.zero,
    skipLearn := false }

/-- The collaborators of the functions that read a line. `tokens line` is the sequence of
tokens `rapidjson::Reader::Parse` hands to the handler for the line, and `parse_error line`
tells that the reader itself reports an error after them. `parse_slates_example_json` and
`parse_slates_example_dsjson` (declared in `parse_slates_example_json.h`, not part of the
sources at hand) return the examples, the number of examples they took from the factory
and the interaction record, or throw (`none`). `is_multiline` is `all->l->is_multiline`.
`parse_label` is the token parser of the label parser, and `scratch` what the members of a
`TC_parser` object hold before its constructor runs. -/
structure JsonDriver (F : Type) where
  tokens : List Char → List (Token F)
  parse_error : List Char → Bool
  parse_slates_example_json : List Char → List (LabeledExample F) → Nat →
    Option (List (LabeledExample F) × Nat)
  parse_slates_example_dsjson : List Char → List (LabeledExample F) → Nat →
    DecisionServiceInteraction F →
    Option (List (LabeledExample F) × Nat × DecisionServiceInteraction F)
  is_multiline : Bool
  parse_label : List (List Char) → polylabel F → polylabel F
  scratch : TCParser F

/-- What reading a line ends with: it returned, leaving the examples, the number of examples
taken from the factory so far and the interaction record; an exception was thrown (a handler
exception, or `none` for the error of the JSON parser and for an exception of a
collaborator); or the source has no defined behaviour. -/
inductive LineRead (F : Type) where
  | returned (examples : List (LabeledExample F)) (calls : Nat)
      (data : DecisionServiceInteraction F)
  | threw (e : Option JsonException)
  | undefined

/-- The configuration whose factory has been called `calls` times already. -/
def JsonConfig.after {F : Type} (cfg : JsonConfig F) (calls : Nat) : JsonConfig F :=
  { cfg with example_factory := fun k => cfg.example_factory (calls + k) }

/-- `VW::read_line_json`. `calls` is the number of examples taken from the factory before
the call. -/
def read_line_json {F : Type} (ops : FloatOps F) (cv : FloatConv F) (cfg : JsonConfig F)
    (drv : JsonDriver F) (examples : List (LabeledExample F)) (line : List Char) (calls : Nat)
    (dedup_examples : Option (Nat → Option (LabeledExample F))) : LineRead F :=
  if cfg.label_type = .slates then
    match drv.parse_slates_example_json line examples calls with
    | some (exs, n) => .returned exs n (DecisionServiceInteraction.empty ops)
    | none => .threw none
  else if examples.isEmpty then .undefined
  else
    let ctx := VWReaderHandler.init ops (cfg.after calls) examples line dedup_examples
      (DecisionServiceInteraction.empty ops)
    match parseTokens ops cv (cfg.after calls) (drv.tokens line) ctx with
    | .finished c =>
      if drv.parse_error line then .threw none
      else .returned c.examples (calls + c.factory_calls) c.decision_service_state_data
    | .failed _ => .threw none
    | .throws e _ => .threw (some e)
    | .undefined => .undefined

/-- `VW::apply_pdrop`. -/
def apply_pdrop {F : Type} (ops : FloatOps F) (cv : FloatConv F) (cfg : JsonConfig F)
    (pdrop : F) (examples : List (LabeledExample F)) : List (LabeledExample F) :=
  if cfg.label_type = .cb then
    examples.map (fun e =>
      { e with l := { e.l with cb := { e.l.cb with weight := cv.sub ops.one pdrop } } })
  else if cfg.label_type = .ccb then
    examples.map (fun e =>
      { e with l := { e.l with conditional_contextual_bandit :=
          { e.l.conditional_contextual_bandit with weight := cv.sub ops.one pdrop } } })
  else examples

/-- `VW::read_line_decision_service_json`, called with `copy_line` false. -/
def read_line_decision_service_json {F : Type} (ops : FloatOps F) (cv : FloatConv F)
    (cfg : JsonConfig F) (drv : JsonDriver F) (examples : List (LabeledExample F))
    (line : List Char) (calls : Nat) (data : DecisionServiceInteraction F) : LineRead F :=
  if cfg.label_type = .slates then
    match drv.parse_slates_example_dsjson line examples calls data with
    | some (exs, n, d) => .returned (apply_pdrop ops cv cfg d.probabilityOfDrop exs) n d
    | none => .threw none
  else if examples.isEmpty then .undefined
  else
    let ctx := (VWReaderHandler.init ops (cfg.after calls) examples line none
      data).SetStartStateToDecisionService data
    match parseTokens ops cv (cfg.after calls) (drv.tokens line) ctx with
    | .finished c =>
      if drv.parse_error line then .threw none
      else
        .returned
          (apply_pdrop ops cv cfg c.decision_service_state_data.probabilityOfDrop c.examples)
          (calls + c.factory_calls) c.decision_service_state_data
    | .failed _ => .threw none
    | .throws e _ => .threw (some e)
    | .undefined => .undefined

/-- What `parse_line_json` and `read_features_json` end with: the return value, the
examples and the number of examples taken from the factory so far; or an exception; or no
defined behaviour. -/
inductive LineParsed (F : Type) (α : Type) where
  | returned (ret : α) (examples : List (LabeledExample F)) (calls : Nat)
  | threw (e : Option JsonException)
  | undefined

/-- Modelled from the spec: `VW::return_multiple_example` followed by
`examples.push_back(&VW::get_unused_example(all))`: the examples go back to the pool, the
sequence is cleared, and one example is taken from the factory. -/
def returnAndTakeOne {F : Type} (cfg : JsonConfig F) (calls : Nat) :
    List (LabeledExample F) × Nat :=
  ([cfg.example_factory calls], calls + 1)

/-- `parse_line_json`. The line is a buffer that ends with a zero byte, which is not part of
the list. -/
def parse_line_json {F : Type} (ops : FloatOps F) (cv : FloatConv F) (cfg : JsonConfig F)
    (drv : JsonDriver F) (line : List Char) (examples : List (LabeledExample F))
    (calls : Nat) : LineParsed F Bool :=
  if cfg.decision_service_json then
    if line.headD NUL ≠ '\x7b' then .returned false examples calls
    else
      match read_line_decision_service_json ops cv cfg drv examples line calls
          (DecisionServiceInteraction.empty ops) with
      | .returned exs calls1 interaction =>
        if interaction.skipLearn then
          .returned false (returnAndTakeOne cfg calls1).1 (returnAndTakeOne cfg calls1).2
        else if interaction.actions.length = 0 ∧ drv.is_multiline then
          .returned false (returnAndTakeOne cfg calls1).1 (returnAndTakeOne cfg calls1).2
        else .returned true exs calls1
      | .threw e => .threw e
      | .undefined => .undefined
  else
    match read_line_json ops cv cfg drv examples line calls none with
    | .returned exs calls1 _ => .returned true exs calls1
    | .threw e => .threw e
    | .undefined => .undefined

/-- `append_empty_newline_example_for_driver`. -/
def append_empty_newline_example_for_driver {F : Type} (ops : FloatOps F) (cfg : JsonConfig F)
    (drv : JsonDriver F) (examples : List (LabeledExample F)) (calls : Nat) :
    LineParsed F Unit :=
  if examples.length > 1 then
    let ae := cfg.example_factory calls
    let lp : LabelParser (polylabel F) :=
      { default_label := cfg.default_label, parse_label := drv.parse_label }
    match substring_to_example ops cfg.all lp cfg.audit []
        { ae := ae.toExample, l := ae.l, words := [], parse_label_calls := [] }
        drv.scratch with
    | .ok _ s =>
      let ae1 : LabeledExample F :=
        { ae with toExample := { s.1.ae with is_newline := true }, l := s.1.l }
      .returned () (examples ++ [ae1]) (calls + 1)
    | .thrown _ _ => .threw none
    | .timeout => .undefined
  else .returned () examples calls

/-- `read_features_json`. The input is the list of the raw lines `readto` reads, in order;
at its end `readto` reads nothing. What is returned with the return value is the input
left. -/
def read_features_json {F : Type} (ops : FloatOps F) (cv : FloatConv F) (cfg : JsonConfig F)
    (drv : JsonDriver F) :
    List (List Char) → List (LabeledExample F) → Nat →
      LineParsed F (Nat × List (List Char))
  | [], examples, calls => .returned ((read_features [] 0).ret, []) examples calls
  | raw :: input, examples, calls =>
    let r := read_features raw 0
    if r.ret < 1 then .returned (r.ret, input) examples calls
    else
      match parse_line_json ops cv cfg drv r.view examples calls with
      | .returned good exs calls1 =>
        if !good then read_features_json ops cv cfg drv input exs calls1
        else
          match append_empty_newline_example_for_driver ops cfg drv exs calls1 with
          | .returned _ exs2 calls2 => .returned (1, input) exs2 calls2
          | .threw e => .threw e
          | .undefined => .undefined
      | .threw e => .threw e
      | .undefined => .undefined

/-! ## A dedup table for evaluation -/

/-- A stored example with one feature in group 97 and the feature offset 5. -/
def sampleStored : LabeledExample (Option Int) :=
  { sampleExample with
    toExample := { sampleExample.toExample with
      indices := [97]
      feature_space := fun ns =>
        if ns = 97 then
          { values := [some 2], indicies := [1234], space_names := [], sum_feat_sq := some 4 }
        else features.empty sampleOps }
    ft_offset := 5 }

/-- A dedup table with the one key 7. -/
def sampleDedup : Nat → Option (LabeledExample (Option Int)) :=
  fun k => if k = 7 then some sampleStored else none

/-- The start context of a line parsed with the dedup table `sampleDedup`. -/
def sampleDedupStart : JsonContext (Option Int) :=
  VWReaderHandler.init sampleOps (sampleJson .cb) [sampleExample] [] (some sampleDedup)
    sampleInteraction

/-- The context after `\x7b"_multi":[\x7b"__aid":`: the dedup state, entered from the Default
state inside the first action object. -/
def sampleDedupContext : JsonContext (Option Int) :=
  ((parseTokens sampleOps sampleConv (sampleJson .cb)
    [.StartObject, keyToken "_multi", .StartArray, .StartObject, keyToken "__aid"]
    sampleDedupStart).ctx?).getD sampleDedupStart

/-- The context on which the parse of a decision-service line starts, in the
DecisionService state. -/
def sampleServiceContext : JsonContext (Option Int) :=
  (sampleJsonContext .cb).SetStartStateToDecisionService sampleInteraction

/-- The start context with the buffer view `"_LABELINDEX":1\x7d` of the key `_LABELINDEX`. -/
def sampleUpperIndexContext : JsonContext (Option Int) :=
  { sampleJsonContext .cb with stream := "\"_LABELINDEX\":1\x7d".toList }

/-- The context before the closing brace of
`\x7b"_labelIndex":1,"_label_cost":2,"_multi":[\x7b"a":1\x7d,\x7b"b":1\x7d]\x7d` under the
cb label type: a group of three examples, the label index 1 and a cost found. -/
def sampleIndexedContext : JsonContext (Option Int) :=
  ((parseTokens sampleOps sampleConv (sampleJson .cb)
    [.StartObject, keyToken "_labelIndex", .Uint 1, keyToken "_label_cost", .Uint 2,
      keyToken "_multi", .StartArray, .StartObject, keyToken "a", .Uint 1, .EndObject 1,
      .StartObject, keyToken "b", .Uint 1, .EndObject 1, .EndArray 2]
    (sampleJsonContext .cb)).ctx?).getD (sampleJsonContext .cb)

/-- The scope of the top-level object of a line: the namespace of the blank. -/
def sampleTopScope : Scope :=
  { feature_group := 32
    namespace_hash := hash_space_cstr (sampleVW false) [' ']
    ftrs := 0
    feature_count := 0
    name := [' '] }

/-- The context before the closing brace of
`\x7b"_label_Action":3,"_label_cost":2,"_label_probability":1,"_multi":[\x7b"a":1\x7d]\x7d`
under the ccb label type: a group of two examples, none of them a slot, and a cb label
found. -/
def sampleCcbCloseContext : JsonContext (Option Int) :=
  ((parseTokens sampleOps sampleConv (sampleJson .ccb)
    [.StartObject, keyToken "_label_Action", .Uint 3, keyToken "_label_cost", .Uint 2,
      keyToken "_label_probability", .Uint 1, keyToken "_multi", .StartArray, .StartObject,
      keyToken "a", .Uint 1, .EndObject 1, .EndArray 1]
    (sampleJsonContext .ccb)).ctx?).getD (sampleJsonContext .ccb)

/-- The ccb types of the examples of a group, in order. -/
def slotTypes {F : Type} (l : List (LabeledExample F)) : List example_type :=
  l.map (fun e => e.l.conditional_contextual_bandit.type)

/-- The context before the closing brace of
`\x7b"_label_Action":3,"_label_cost":2,"_label_probability":1,"_a":[1],"_p":[1],`
`"_multi":[\x7b"a":1\x7d]\x7d` under the ccb label type: a cb label found, and an action
list and a probability list accumulated as well. -/
def sampleCcbResetContext : JsonContext (Option Int) :=
  ((parseTokens sampleOps sampleConv (sampleJson .ccb)
    [.StartObject, keyToken "_label_Action", .Uint 3, keyToken "_label_cost", .Uint 2,
      keyToken "_label_probability", .Uint 1, keyToken "_a", .StartArray, .Uint 1, .EndArray 1,
      keyToken "_p", .StartArray, .Uint 1, .EndArray 1, keyToken "_multi", .StartArray,
      .StartObject, keyToken "a", .Uint 1, .EndObject 1, .EndArray 1]
    (sampleJsonContext .ccb)).ctx?).getD (sampleJsonContext .ccb)

/-- The decision-service line `\x7b"_skipLearn":true\x7d`. -/
def sampleSkipLearnLine : List Char := "\x7b\"_skipLearn\":true\x7d".toList

/-- The decision-service line `\x7b"a":[1],"_skipLearn":false\x7d`. -/
def sampleLearnLine : List Char := "\x7b\"a\":[1],\"_skipLearn\":false\x7d".toList

/-- A driver for evaluation: the reader's tokens for the two sample lines, no syntax error,
a multiline learner. -/
def sampleDriver : JsonDriver (Option Int) where
  tokens := fun line =>
    if line = sampleSkipLearnLine then
      [.StartObject, .Key "_skipLearn".toList (line.drop 1), .Bool true, .EndObject 1]
    else if line = sampleLearnLine then
      [.StartObject, .Key "a".toList (line.drop 1), .StartArray, .Uint 1, .EndArray 1,
        .Key "_skipLearn".toList (line.drop 9), .Bool false, .EndObject 2]
    else []
  parse_error := fun _ => false
  parse_slates_example_json := fun _ _ _ => none
  parse_slates_example_dsjson := fun _ _ _ _ => none
  is_multiline := true
  parse_label := fun _ l => l
  scratch := sampleState

/-- The configuration `sampleJson` in decision-service mode. -/
def sampleServiceJson (label_type : label_type_t) : JsonConfig (Option Int) :=
  { sampleJson label_type with decision_service_json := true }

/-! ## Sample data for the error returns of the fast skip -/

/-- The buffer view of the key `_x` in the line `\x7b"_x" : 1\x7d`: a blank stands between the
closing quote of the key and the colon. -/
def sampleSpacedColonView : List Char := "\"_x\" : 1\x7d".toList

/-- The tokens of `\x7b"_x" : 1\x7d`. -/
def spacedColonTokens : List (Token (Option Int)) :=
  [.StartObject, .Key "_x".toList sampleSpacedColonView, .Uint 1, .EndObject 1]

/-- The buffer view of the key `_x` in the line `\x7b"_x":"a\`, whose last byte before the
zero byte that ends the buffer is a backslash inside a string. -/
def sampleCutEscapeView : List Char := "\"_x\":\"a\\".toList

/-- The buffer view of the key `_x` in the line `\x7b"_x":"a`, which ends inside a string. -/
def sampleCutStringView : List Char := "\"_x\":\"a".toList

/-! ## The label scratch after a commit -/

/-- The scratch members of the Label-object state as `LabelObjectState::EndObject` leaves
them, read off its branches: under ccb the included actions are cleared, and the action and
probability lists and the cb element when both lists hold something; under slates the two
lists and the cb element when both lists hold something; under any other label type the
first that is set of `found_cb` (with the cb element), `found_cb_continuous` (with the
continuous element) and `found`. -/
def LabelObjectState.afterCommit {F : Type} (ops : FloatOps F) (cfg : JsonConfig F)
    (st : LabelObjectState F) : LabelObjectState F :=
  if cfg.label_type = .ccb then
    if st.actions.length ≠ 0 ∧ st.probs.length ≠ 0 then
      { st with inc := [], actions := [], probs := [], cb_label := cfg.cb_class_default }
    else { st with inc := [] }
  else if cfg.label_type = .slates then
    if st.actions.length ≠ 0 ∧ st.probs.length ≠ 0 then
      { st with actions := [], probs := [], cb_label := cfg.cb_class_default }
    else st
  else if st.found_cb then { st with found_cb := false, cb_label := cfg.cb_class_default }
  else if st.found_cb_continuous then
    { st with
      found_cb_continuous := false
      cont_label_element := { action := ops.zero, cost := ops.zero, pdf_value := ops.zero } }
  else if st.found then { st with found := false }
  else st

/-- The number of the flags `found`, `found_cb` and `found_cb_continuous` that are set. -/
def LabelObjectState.flagCount {F : Type} (st : LabelObjectState F) : Nat :=
  (if st.found then 1 else 0) + (if st.found_cb then 1 else 0) +
    (if st.found_cb_continuous then 1 else 0)

/-- The tokens of `\x7b"_label":\x7b"Label":2,"Cost":1\x7d` up to the close of the label
object: a label object with a simple label and a cost. -/
def labelAndCostTokens : List (Token (Option Int)) :=
  [.StartObject, keyToken "_label", .StartObject, keyToken "Label", .Uint 2, keyToken "Cost",
    .Uint 1, .EndObject 2]

/-- The context after `labelAndCostTokens` under the cb label type. -/
def sampleLabelAndCostContext : JsonContext (Option Int) :=
  ((parseTokens sampleOps sampleConv (sampleJson .cb) labelAndCostTokens
    (sampleJsonContext .cb)).ctx?).getD (sampleJsonContext .cb)

/-- A context under the ccb label type with a cost found and one action, no probability, in
the scratch lists. -/
def sampleCcbScratchContext : JsonContext (Option Int) :=
  { sampleJsonContext .ccb with
    label_object_state := { (sampleJsonContext .ccb).label_object_state with
      found_cb := true, actions := [1], inc := [2] } }

/-- A context under the cb label type with a cost found. -/
def sampleCostFoundContext : JsonContext (Option Int) :=
  { sampleJsonContext .cb with
    label_object_state := { (sampleJsonContext .cb).label_object_state with
      found_cb := true, return_state := some .default_state } }

/-- The context after the commit on `sampleCostFoundContext`. -/
def sampleCostCommitted : JsonContext (Option Int) :=
  ((LabelObjectState.EndObject sampleOps (sampleJson .cb) sampleCostFoundContext).ctx?).getD
    sampleCostFoundContext

/-! ## The runs of a `_text` value -/

/-- The escape of `TextState::String`: `:` and `|` become `_`. -/
def escapeTextChar (c : Char) : Char := if c = ':' ∨ c = '|' then '_' else c

/-- The maximal runs of characters of `str` that are neither space nor tab, in order of
appearance, each with `:` and `|` replaced by `_`: the pieces between separators, the empty
ones left out. -/
def textRuns (str : List Char) : List (List Char) :=
  ((str.splitOnP (fun c => c == ' ' || c == '\t')).filter (fun r => !r.isEmpty)).map
    (fun r => r.map escapeTextChar)

/-- One feature per run: `Namespace::AddFeature(all, run)` for each run in turn. -/
def addTextFeatures {F : Type} (ops : FloatOps F) (cfg : JsonConfig F) :
    List (List Char) → JsonContext F → Option (JsonContext F)
  | [], ctx => some ctx
  | r :: rs, ctx =>
    match ctx.AddFeatureStr ops cfg r with
    | none => none
    | some ctx1 => addTextFeatures ops cfg rs ctx1

/-! ## The elements of a numeric array -/

/-- The token is a number or a null: an element of a numeric array. -/
def isNumberOrNull {F : Type} : Token F → Bool
  | .Float _ => true
  | .Uint _ => true
  | .Null => true
  | _ => false

/-- The values of the numeric elements among the tokens, in order; nulls are left out. -/
def numericValues {F : Type} (cv : FloatConv F) : List (Token F) → List F
  | [] => []
  | .Float f :: ts => f :: numericValues cv ts
  | .Uint v :: ts => cv.ofUInt v :: numericValues cv ts
  | _ :: ts => numericValues cv ts

/-- The numeric element of position `i` and value `f` is offered with the hash `b + i`, the
sum being that of 64-bit unsigned integers; then the elements after it, from position
`i + 1` on. The audit name is the position in brackets. -/
def offerArrayFeatures {F : Type} (ops : FloatOps F) (cfg : JsonConfig F) (b : Nat) :
    List F → Nat → JsonContext F → Option (JsonContext F)
  | [], _, ctx => some ctx
  | f :: fs, i, ctx =>
    match ctx.CurrentNamespace with
    | none => none
    | some ns =>
      match ctx.AddFeature ops cfg f ((b + i) % 2 ^ 64)
          (if cfg.audit then
            ['['] ++ (Nat.repr (((b + i) % 2 ^ 64 + 2 ^ 64 - ns.namespace_hash % 2 ^ 64)
              % 2 ^ 64)).toList ++ [']']
          else []) with
      | none => none
      | some ctx1 => offerArrayFeatures ops cfg b fs (i + 1) ctx1

/-- The context `c` with the Array state as current state, `prev` as previous state and
`hash` as the running hash of the Array state. -/
def JsonContext.inArray {F : Type} (c : JsonContext F) (hash : Nat) (prev : Option BaseState) :
    JsonContext F :=
  { c with array_state_array_hash := hash, previous_state := prev, current_state := .array_state }

/-- The tokens of `\x7b"a":[3,null,0,5]\x7d` up to the last element of the array. -/
def sampleArrayTokens : List (Token (Option Int)) :=
  [.StartObject, keyToken "a", .StartArray]

/-- The context inside the array of `\x7b"a":[`: the Array state, with the hash of
the namespace `a` captured. -/
def sampleArrayContext : JsonContext (Option Int) :=
  ((parseTokens sampleOps sampleConv (sampleJson .simple) sampleArrayTokens
    (sampleJsonContext .simple)).ctx?).getD (sampleJsonContext .simple)

/-- The elements `3,null,0,5` of the array. -/
def sampleArrayElements : List (Token (Option Int)) := [.Uint 3, .Null, .Uint 0, .Float (some 5)]

/-! ## Sample data for the `_outcomes` array -/

/-- The tokens of the outcome object `\x7b"_label_cost":2,"_a":[0],"_p":[1]\x7d`. -/
def outcomeObjectTokens : List (Token (Option Int)) :=
  [.StartObject, keyToken "_label_cost", .Uint 2, keyToken "_a", .StartArray, .Uint 0,
    .EndArray 1, keyToken "_p", .StartArray, .Uint 1, .EndArray 1, .EndObject 3]

/-- The tokens of the decision-service line
`\x7b"c":\x7b"_multi":[\x7b"a":1\x7d],"_slots":[\x7b"x":1\x7d,\x7b"y":1\x7d]\x7d,`
`"_outcomes":[\x7b...\x7d,\x7b...\x7d]\x7d`: the actions stand before the slots. -/
def multiFirstTokens : List (Token (Option Int)) :=
  [.StartObject, keyToken "c", .StartObject, keyToken "_multi", .StartArray, .StartObject,
    keyToken "a", .Uint 1, .EndObject 1, .EndArray 1, keyToken "_slots", .StartArray,
    .StartObject, keyToken "x", .Uint 1, .EndObject 1, .StartObject, keyToken "y", .Uint 1,
    .EndObject 1, .EndArray 2, .EndObject 2, keyToken "_outcomes", .StartArray] ++
    outcomeObjectTokens ++ outcomeObjectTokens ++ [.EndArray 2, .EndObject 2]

/-- The tokens of the decision-service line
`\x7b"c":\x7b"_slots":[\x7b"x":1\x7d],"_multi":[\x7b"a":1\x7d]\x7d,"_outcomes":[\x7b...\x7d]\x7d`:
the member `_slots` stands before the member `_multi`, so that the slot is created before
the action. -/
def slotsFirstTokens : List (Token (Option Int)) :=
  [.StartObject, keyToken "c", .StartObject, keyToken "_slots", .StartArray, .StartObject,
    keyToken "x", .Uint 1, .EndObject 1, .EndArray 1, keyToken "_multi", .StartArray,
    .StartObject, keyToken "a", .Uint 1, .EndObject 1, .EndArray 1, .EndObject 2,
    keyToken "_outcomes", .StartArray] ++ outcomeObjectTokens ++ [.EndArray 1, .EndObject 2]

/-- The context on which the parse of a decision-service line starts under the ccb label
type. -/
def sampleCcbServiceContext : JsonContext (Option Int) :=
  (sampleJsonContext .ccb).SetStartStateToDecisionService sampleInteraction

/-- The context before the opening bracket of the `_outcomes` array of the line of
`slotsFirstTokens`: a group of a shared example, a slot and an action, in that order. -/
def sampleSlotsFirstContext : JsonContext (Option Int) :=
  ((parseTokens sampleOps sampleConv (sampleServiceJson .ccb) (slotsFirstTokens.take 19)
    sampleCcbServiceContext).ctx?).getD sampleCcbServiceContext

/-- The ccb types of the examples of the group a parse ends with, and for each example
whether an outcome has been attached to it. -/
def outcomePlaces (r : ParseEnd (Option Int)) : Option (List example_type × List Bool) :=
  r.ctx?.map fun c =>
    (slotTypes c.examples,
      c.examples.map fun e => e.l.conditional_contextual_bandit.outcome.isSome)

/-- The examples of the group that are slots, in creation order. -/
def slotExamples {F : Type} (cfg : JsonConfig F) (examples : List (LabeledExample F)) :
    List (LabeledExample F) :=
  examples.filter (fun e => !isNonSlot cfg e)

/-! ## The read index of the text parser -/

/-- The read index did not move back and is at most the length of the line. -/
def Within {F : Type} (line : List Char) (s s' : TCParser F) : Prop :=
  s._read_idx ≤ s'._read_idx ∧ s'._read_idx ≤ line.length

/-- The float reader reports consuming no more characters than the text it is given has. -/
def FloatReaderBounded {F : Type} (all : vw F) : Prop :=
  ∀ sv : List Char, (all.parseFloat sv).2 ≤ sv.length

/-! ## The error-correcting tournament (`ect.cc`) -/

/-- `struct direction`: a node of the tournament structure. `winner`, `loser`, `left` and
`right` are 32-bit in the source, `id` and `tournament` are `size_t`. -/
structure direction where
  id : Nat
  tournament : Nat
  winner : Nat
  loser : Nat
  left : Nat
  right : Nat
  last : Bool
deriving DecidableEq, Repr

/-- `struct ect`, the members `create_circuit` reads or writes and the class count `k`. The
members `class_boundary`, `up_directions`, `down_directions` and `tournaments_won` are used
by prediction and learning only. -/
structure ect where
  k : Nat
  errors : Nat
  directions : List direction
  all_levels : List (List (List Nat))
  final_nodes : List Nat
  tree_height : Nat
  last_pair : Nat
deriving DecidableEq, Repr

/-- `final_depth`: the first `i < 32` with `(eliminations - 1) >> i == 0`, or 31. The
decrement is that of a `size_t`. -/
def final_depth (eliminations : Nat) : Nat :=
  ((List.range 32).find? (fun i => ((eliminations + 2 ^ 64 - 1) % 2 ^ 64) >>> i == 0)).getD 31

/-- `not_empty`: some tournament of the level has an entrant. -/
def not_empty (tournaments : List (List Nat)) : Bool :=
  tournaments.any (fun tournament => !tournament.isEmpty)

/-- The leaf of label `i`: `direction d = \x7bi, 0, 0, 0, 0, 0, false\x7d`. -/
def leaf (i : Nat) : direction :=
  { id := i, tournament := 0, winner := 0, loser := 0, left := 0, right := 0, last := false }

/-- The first loop of `create_circuit`, `for (uint32_t i = 0; i < max_label; i++)`, on the
pair (`t`, `e.directions`). The counter is 32-bit and wraps; `none` is a loop that has not
ended when the fuel is used up. -/
def leafLoop (max_label : Nat) :
    Nat → Nat → List Nat × List direction → Option (List Nat × List direction)
  | 0, i, st => if i < max_label then none else some st
  | fuel + 1, i, st =>
    if i < max_label then
      leafLoop max_label fuel ((i + 1) % 2 ^ 32) (st.1 ++ [i], st.2 ++ [leaf i])
    else some st

/-- The variables the body of the level loop works on: the structure, the 32-bit counter
`node` and the tournaments of the next level. -/
structure Round where
  e : ect
  node : Nat
  new_tournaments : List (List Nat)
deriving DecidableEq, Repr

/-- `tournaments[i].push_back(x)`; indexing past the end has no defined behaviour. -/
def pushAt (tournaments : List (List Nat)) (i x : Nat) : Option (List (List Nat)) :=
  match tournaments.get? i with
  | none => none
  | some t => some (tournaments.set i (t ++ [x]))

/-- An assignment to a member of `e.directions[i]`; indexing past the end has no defined
behaviour. -/
def setDirection (directions : List direction) (i : Nat) (f : direction → direction) :
    Option (List direction) :=
  match directions.get? i with
  | none => none
  | some d => some (directions.set i (f d))

/-- Lines 129-136: the entrant's way up is the new node, as winner when the entrant belongs
to tournament `i` and as loser otherwise. -/
def wayUp (i direction_index : Nat) (x : direction) : direction :=
  if x.tournament = i then { x with winner := direction_index }
  else { x with loser := direction_index }

/-- Line 137: `if (e.directions[left].last) e.directions[left].winner = direction_index`. -/
def wayUpOfLast (direction_index : Nat) (x : direction) : direction :=
  if x.last then { x with winner := direction_index } else x

/-- The node of a match: `direction d = \x7bid, i, 0, 0, left, right, false\x7d`. -/
def matchNode (id i left right : Nat) : direction :=
  { id := id, tournament := i, winner := 0, loser := 0, left := left, right := right,
    last := false }

/-- The value of `(uint32_t)e.directions.size() - 1` for a vector of `size` nodes. -/
def backIndex (size : Nat) : Nat := (size % 2 ^ 32 + 2 ^ 32 - 1) % 2 ^ 32

/-- Lines 126-137: the node of the match of `left` and `right` in tournament `i` is appended
and the two entrants are linked to it. The result is the vector and `direction_index`. -/
def linkMatch (directions : List direction) (i id left right : Nat) :
    Option (List direction × Nat) :=
  let ds0 := directions ++ [matchNode id i left right]
  let direction_index := backIndex ds0.length
  (setDirection ds0 left (wayUp i direction_index)).bind fun ds1 =>
  (setDirection ds1 right (wayUp i direction_index)).bind fun ds2 =>
  (setDirection ds2 left (wayUpOfLast direction_index)).map fun ds3 => (ds3, direction_index)

/-- The test of line 139: the pair is the last one of tournament `i`. -/
def lastPair (tournaments : List (List Nat)) (i : Nat) : Bool :=
  (tournaments.getD i []).length == 2 && (i == 0 || (tournaments.getD (i - 1) []).isEmpty)

/-- Lines 139-152: where the winner and the loser of the match go. The result is the vector
of nodes, the tournaments of the next level and the final nodes. -/
def promote (tournaments : List (List Nat)) (i id direction_index : Nat)
    (directions : List direction) (new_tournaments : List (List Nat)) (final_nodes : List Nat) :
    Option (List direction × List (List Nat) × List Nat) :=
  (if lastPair tournaments i then
    (setDirection directions direction_index (fun x => { x with last := true })).bind fun ds4 =>
    (if i + 1 < tournaments.length then
      (pushAt new_tournaments (i + 1) id).map fun nt => (ds4, nt)
    else
      (setDirection ds4 direction_index (fun x => { x with winner := 0 })).map fun ds5 =>
        (ds5, new_tournaments)).map fun p =>
      (p.1, p.2, final_nodes ++ [(p.1.length - 1) % 2 ^ 32])
  else
    (pushAt new_tournaments i id).map fun nt => (directions, nt, final_nodes)).bind fun p =>
  if i + 1 < tournaments.length then
    (pushAt p.2.1 (i + 1) id).map fun nt => (p.1, nt, p.2.2)
  else
    (setDirection p.1 direction_index (fun x => { x with loser := 0 })).map fun ds6 =>
      (ds6, p.2.1, p.2.2)

/-- The body of the loop over `j` (lines 122-153): the match of the entrants `2 * j` and
`2 * j + 1` of tournament `i`. -/
def matchBody (tournaments : List (List Nat)) (i j : Nat) (r : Round) : Option Round :=
  match (tournaments.getD i []).get? (2 * j), (tournaments.getD i []).get? (2 * j + 1) with
  | some left, some right =>
    (linkMatch r.e.directions i r.node left right).bind fun l =>
    (promote tournaments i r.node l.2 l.1 r.new_tournaments r.e.final_nodes).map fun p =>
      { e := { r.e with directions := p.1, final_nodes := p.2.2 }
        node := (r.node + 1) % 2 ^ 32
        new_tournaments := p.2.1 }
  | _, _ => none

/-- The loop over `j`: `count` matches of tournament `i`, in order. -/
def matchLoop (tournaments : List (List Nat)) (i : Nat) : Nat → Nat → Round → Option Round
  | 0, _, r => some r
  | count + 1, j, r =>
    (matchBody tournaments i j r).bind fun r1 => matchLoop tournaments i count (j + 1) r1

/-- The body of the loop over `i` (lines 120-155): the matches of tournament `i`, then the
odd entrant is carried over. -/
def tournamentBody (tournaments : List (List Nat)) (i : Nat) (r : Round) : Option Round :=
  (matchLoop tournaments i ((tournaments.getD i []).length / 2) 0 r).bind fun r1 =>
  if (tournaments.getD i []).length % 2 = 1 then
    match (tournaments.getD i []).getLast? with
    | none => none
    | some x => (pushAt r1.new_tournaments i x).map fun nt => { r1 with new_tournaments := nt }
  else some r1

/-- The loop over `i`: `count` tournaments from `i` on, in order. -/
def tournamentLoop (tournaments : List (List Nat)) : Nat → Nat → Round → Option Round
  | 0, _, r => some r
  | count + 1, i, r =>
    (tournamentBody tournaments i r).bind fun r1 => tournamentLoop tournaments count (i + 1) r1

/-- The body of the level loop (lines 109-158) for the level `tournaments`. -/
def levelBody (tournaments : List (List Nat)) (e : ect) (node : Nat) : Option (ect × Nat) :=
  (tournamentLoop tournaments tournaments.length 0
    { e := e, node := node, new_tournaments := tournaments.map (fun _ => []) }).map fun r =>
  ({ r.e with all_levels := r.e.all_levels ++ [r.new_tournaments] }, r.node)

/-- The level loop `while (not_empty(e.all_levels[level]))`; `none` is an access past the end
of a vector or a loop that has not ended when the fuel is used up. -/
def levelLoop : Nat → ect → Nat → Nat → Option ect
  | fuel, e, level, node =>
    match e.all_levels.get? level with
    | none => none
    | some tournaments =>
      if not_empty tournaments then
        match fuel with
        | 0 => none
        | fuel + 1 =>
          (levelBody tournaments e node).bind fun p => levelLoop fuel p.1 (level + 1) p.2
      else some e

/-- `create_circuit`: the structure as the call leaves it, and the value returned. Each of
the two loops that the arguments do not bound beforehand gets the budget `fuel`. -/
def create_circuit (fuel : Nat) (e : ect) (max_label eliminations : Nat) : Option (ect × Nat) :=
  if max_label = 1 then some (e, 0)
  else
    (leafLoop max_label fuel 0 ([], e.directions)).bind fun p =>
    let tournaments : List (List Nat) :=
      p.1 :: List.replicate ((eliminations + 2 ^ 64 - 1) % 2 ^ 64) []
    let e1 : ect := { e with directions := p.2, all_levels := e.all_levels ++ [tournaments] }
    (levelLoop fuel e1 0 (p.2.length % 2 ^ 32)).map fun e2 =>
    let last_pair := ((max_label + 2 ^ 64 - 1) % 2 ^ 64 * eliminations) % 2 ^ 64 % 2 ^ 32
    ({ e2 with
        last_pair := last_pair
        tree_height := if max_label > 1 then final_depth eliminations else e2.tree_height },
      (last_pair + (eliminations + 2 ^ 64 - 1) % 2 ^ 64) % 2 ^ 64)

/-- A structure on which nothing has been built. -/
def freshEct (k errors : Nat) : ect :=
  { k := k, errors := errors, directions := [], all_levels := [], final_nodes := [],
    tree_height := 0, last_pair := 0 }

/-- The number of entrants of tournament `q` of a level. -/
def entrants (tournaments : List (List Nat)) (q : Nat) : Nat := (tournaments.getD q []).length

/-- No tournament of the level is left alone with one entrant: a tournament with exactly one
entrant comes after a tournament that still has two entrants or more, whose matches send it
more entrants. -/
def NoStrandedEntrant (tournaments : List (List Nat)) : Prop :=
  ∀ q, entrants tournaments q = 1 → ∃ q0, q0 < q ∧ 2 ≤ entrants tournaments q0

/-- Every node of the vector has its position, as a 32-bit number, as id. -/
def DirIds (directions : List direction) : Prop :=
  ∀ j d, directions.get? j = some d → d.id = j % 2 ^ 32

/-- Invariant of the variables of a level while its matches are made: the counter `node`
is the size of the vector of nodes, as a 32-bit number; the next level has `E` tournaments;
and every entrant of the next level is the position of a node. -/
structure RoundInv (E : Nat) (r : Round) : Prop where
  node : r.node = r.e.directions.length % 2 ^ 32
  len : r.new_tournaments.length = E
  ids : ∀ t ∈ r.new_tournaments, ∀ x ∈ t, x < r.e.directions.length

/-- What a part of the body of the level loop has done: `dlen` nodes and `dfin` final nodes
were appended, tournament `q` of the next level got `dsz q` entrants more, and the levels
built so far are as they were. -/
structure RoundStep (E : Nat) (r r1 : Round) (dlen dfin : Nat) (dsz : Nat → Nat) : Prop where
  inv : RoundInv E r1
  dirs : r1.e.directions.length = r.e.directions.length + dlen
  finals : r1.e.final_nodes.length = r.e.final_nodes.length + dfin
  sizes : ∀ q, entrants r1.new_tournaments q = entrants r.new_tournaments q + dsz q
  levels : r1.e.all_levels = r.e.all_levels
  dirIds : DirIds r.e.directions → DirIds r1.e.directions

/-- The sum of `f` over the `count` indices from `i` on. -/
def sumFrom (f : Nat → Nat) : Nat → Nat → Nat
  | _, 0 => 0
  | i, count + 1 => f i + sumFrom f (i + 1) count

/-- The entrants that the matches of tournament `i` leave in tournament `i`: the winners,
unless the pair is the last one, and the odd entrant. -/
def staying (tournaments : List (List Nat)) (i : Nat) : Nat :=
  (if lastPair tournaments i then 0 else entrants tournaments i / 2) + entrants tournaments i % 2

/-- The entrants that the matches of tournament `i` send to tournament `i + 1`: the losers,
and the winner of the last pair. -/
def moving (tournaments : List (List Nat)) (i : Nat) : Nat :=
  (if lastPair tournaments i then 2 else 1) * (entrants tournaments i / 2)

/-- The final nodes that the matches of tournament `i` make. -/
def finalsOf (tournaments : List (List Nat)) (i : Nat) : Nat :=
  if lastPair tournaments i then entrants tournaments i / 2 else 0

/-- Invariant of the levels: the tournaments before tournament `m` are over, tournament `m`
has two entrants or more, and after it no tournament with entrants follows an empty one. -/
structure LevelInv (E m : Nat) (s : Nat → Nat) : Prop where
  le : m ≤ E
  over : ∀ q, q < m → s q = 0
  live : m < E → 2 ≤ s m
  chain : ∀ q, m < q → s q = 0 → s (q + 1) = 0
  beyond : ∀ q, E ≤ q → s q = 0

/-- The weight of a level with `E` tournaments: an entrant of tournament `q` counts
`E - q`, the number of matches it can still lose. -/
def levelWeight (E : Nat) (s : Nat → Nat) : Nat :=
  sumFrom (fun q => s q * (E - q)) 0 E

/-! ## The skip-learn flag of the interaction record -/

/-- The test `DecisionServiceState::Key` makes for the key `_skipLearn`:
`length == 10 && !strncmp(str, "_skipLearn", 10)`. -/
def isSkipLearnKey (str : List Char) : Bool :=
  decide (str.length = 10) && strncmp_eq str "_skipLearn".toList 10

/-- The token is a key that passes the test for `_skipLearn`. -/
def isSkipLearnToken {F : Type} : Token F → Bool
  | .Key str _ => isSkipLearnKey str
  | _ => false

/-- The pointer does not point to the Bool state. -/
def NotBoolState (p : Option BaseState) : Prop := p ≠ some .bool_state

/-- None of the state pointers the context and its state objects have saved points to the
Bool state. -/
structure SavedNotBool {F : Type} (ctx : JsonContext F) : Prop where
  label_object : NotBoolState ctx.label_object_state.return_state
  slots_saved : NotBoolState ctx.slots_state_saved
  slots_root : NotBoolState ctx.slots_state_saved_root_state
  pdf_object : NotBoolState ctx.array_pdf_state.obj_return_state
  pdf_array : NotBoolState ctx.array_pdf_state.return_state
  float_array : NotBoolState ctx.array_float_state.return_state
  uint_array : NotBoolState ctx.array_uint_state.return_state
  string_value : NotBoolState ctx.string_state_return_state
  float_value : NotBoolState ctx.float_state_return_state
  uint_value : NotBoolState ctx.uint_state_return_state
  dedup_value : NotBoolState ctx.uint_dedup_state_return_state
  bool_value : NotBoolState ctx.bool_state_return_state
  old_root : NotBoolState ctx.slot_outcome_list_state.old_root
  root : NotBoolState ctx.root_state
  path : ∀ p ∈ ctx.return_path, NotBoolState p

/-- What a handler call that is not the write of the Bool state does to the control part of
the context: the state it returns is not the Bool state, no saved pointer points to the Bool
state, and the skip-learn flag, the current state, the previous state and the return state
of the Bool state are as they were. -/
structure KeepsFlag {F : Type} (ctx : JsonContext F) (n : Option BaseState)
    (c : JsonContext F) : Prop where
  next : NotBoolState n
  saved : SavedNotBool c
  flag : c.decision_service_state_data.skipLearn = ctx.decision_service_state_data.skipLearn
  state : c.current_state = ctx.current_state
  previous : c.previous_state = ctx.previous_state
  bool_return : c.bool_state_return_state = ctx.bool_state_return_state

/-- Invariant of the parse of a line: no saved pointer points to the Bool state, the Bool
state returns to the DecisionService state when it has been given a return state, the Bool
state is left for the DecisionService state, and it is entered from the DecisionService
state. -/
structure BoolStateInv {F : Type} (ctx : JsonContext F) : Prop where
  saved : SavedNotBool ctx
  bool_return : ctx.bool_state_return_state = none ∨
    ctx.bool_state_return_state = some .decision_service_state
  after : ctx.previous_state = some .bool_state → ctx.current_state = .decision_service_state
  inside : ctx.current_state = .bool_state →
    ctx.previous_state = some .decision_service_state

/-- The handler call, when it returns, keeps the flag. -/
def Handled.Keeps {F : Type} (ctx : JsonContext F) : Handled F → Prop
  | .ret n c => KeepsFlag ctx n c
  | .throws _ _ => True
  | .undefined => True

/-- The decision-service line `\x7b"_skipLearn":true,"a":[1]\x7d`: a member follows the
skip-learn flag. -/
def sampleSkipFirstLine : List Char := "\x7b\"_skipLearn\":true,\"a\":[1]\x7d".toList

/-- A driver for evaluation: the reader's tokens for `sampleSkipFirstLine`, no syntax
error, a multiline learner. -/
def sampleSkipFirstDriver : JsonDriver (Option Int) where
  tokens := fun line =>
    if line = sampleSkipFirstLine then
      [.StartObject, .Key "_skipLearn".toList (line.drop 1), .Bool true,
        .Key "a".toList (line.drop 19), .StartArray, .Uint 1, .EndArray 1, .EndObject 2]
    else []
  parse_error := fun _ => false
  parse_slates_example_json := fun _ _ _ => none
  parse_slates_example_dsjson := fun _ _ _ _ => none
  is_multiline := true
  parse_label := fun _ l => l
  scratch := sampleState

/-- The tokens of
`\x7b"_multi":[\x7b"_label":\x7b"Label":2,"Cost":1\x7d\x7d,\x7b"_label":\x7b\x7d\x7d]\x7d`:
two actions, the first with a label object that holds a simple label and a cost, the second
with an empty label object. The first twelve tokens end with the close of the first action,
the first sixteen with the close of the second label object. -/
def staleFlagTokens : List (Token (Option Int)) :=
  [.StartObject, keyToken "_multi", .StartArray,
    .StartObject, keyToken "_label", .StartObject, keyToken "Label", .Uint 2, keyToken "Cost",
    .Uint 1, .EndObject 2, .EndObject 1,
    .StartObject, keyToken "_label", .StartObject, .EndObject 0, .EndObject 1,
    .EndArray 2, .EndObject 1]

/-! ## General facts about outcomes -/

lemma Outcome.Ensures.mono_ensures {σ α : Type} {P Q : σ → Prop} {x : Outcome σ α}
    (h : x.Ensures P) (hPQ : ∀ s, P s → Q s) : x.Ensures Q := by
  cases x with
  | ok a s => exact hPQ s h
  | thrown m s => exact hPQ s h
  | timeout => exact h

lemma Outcome.Ensures.bind_ensures {σ α β : Type} {P Q : σ → Prop} {x : Outcome σ α}
    {f : α → σ → Outcome σ β} (h : x.Ensures P) (hPQ : ∀ s, P s → Q s)
    (hf : ∀ a s, P s → (f a s).Ensures Q) : (x.bind f).Ensures Q := by
  cases x with
  | ok a s => exact hf a s h
  | thrown m s => exact hPQ s h
  | timeout => exact h

lemma Outcome.Ensures.state_ensures {σ α : Type} {P : σ → Prop} {x : Outcome σ α}
    (h : x.Ensures P) : ∃ s, x.state? = some s ∧ P s := by
  cases x with
  | ok a s => exact ⟨s, rfl, h⟩
  | thrown m s => exact ⟨s, rfl, h⟩
  | timeout => exact h.elim

lemma Outcome.Ensures.and_ensures {σ α : Type} {P Q : σ → Prop} {x : Outcome σ α}
    (h : x.Ensures P) (h' : x.Ensures Q) : x.Ensures (fun s => P s ∧ Q s) := by
  cases x with
  | ok a s => exact ⟨h, h'⟩
  | thrown m s => exact ⟨h, h'⟩
  | timeout => exact h

lemma SameSection.refl_section {F : Type} (s : TCParser F) : SameSection s s :=
  ⟨rfl, rfl, rfl, rfl, rfl, rfl⟩

lemma SameSection.trans_section {F : Type} {a b c : TCParser F} (h : SameSection a b)
    (h' : SameSection b c) : SameSection a c :=
  ⟨h'.index.trans h.index, h'.channel_hash.trans h.channel_hash,
    h'.cur_channel_v.trans h.cur_channel_v, h'.new_index.trans h.new_index,
    h'.base.trans h.base, h'.ae.trans h.ae⟩

lemma Advanced.refl_adv {F : Type} (s : TCParser F) : Advanced s s :=
  ⟨SameSection.refl_section s, le_refl _⟩

lemma Advanced.trans_adv {F : Type} {a b c : TCParser F} (h : Advanced a b) (h' : Advanced b c) :
    Advanced a c :=
  ⟨h.1.trans_section h'.1, le_trans h.2 h'.2⟩

lemma parserWarning_ensures {F : Type} (all : vw F) (k : WarningKind) (m : List Char)
    (st : TCParser F) : (parserWarning all k m st).Ensures (Advanced st) := by
  unfold parserWarning
  split
  · exact Advanced.refl_adv st
  · exact ⟨⟨rfl, rfl, rfl, rfl, rfl, rfl⟩, le_refl _⟩

lemma read_name_loop_ge (line : List Char) (n i : Nat) : i ≤ read_name_loop line n i := by
  induction n generalizing i with
  | zero => simp [read_name_loop]
  | succ n ih =>
    unfold read_name_loop
    split
    · exact le_refl _
    · exact le_trans (Nat.le_succ i) (ih (i + 1))

lemma read_name_advanced {F : Type} (line : List Char) (st : TCParser F) :
    Advanced st (read_name line st).2 :=
  ⟨⟨rfl, rfl, rfl, rfl, rfl, rfl⟩, read_name_loop_ge line _ _⟩

lemma stringFeatureValue_advanced {F : Type} (sv : List Char) (st : TCParser F) :
    Advanced st (stringFeatureValue sv st).2 := by
  unfold stringFeatureValue
  cases h : find_first (fun c => !isBlank c) sv with
  | none => exact ⟨⟨rfl, rfl, rfl, rfl, rfl, rfl⟩, Nat.le_add_right _ _⟩
  | some k =>
    by_cases hk : k > 0
    · simp only [hk, if_true]
      exact ⟨⟨rfl, rfl, rfl, rfl, rfl, rfl⟩, by simp only []; omega⟩
    · simp only [hk, if_false]
      exact ⟨⟨rfl, rfl, rfl, rfl, rfl, rfl⟩, Nat.le_add_right _ _⟩

lemma isFeatureValueFloat_ensures {F : Type} (ops : FloatOps F) (all : vw F) (line : List Char)
    (st : TCParser F) : (isFeatureValueFloat ops all line st).Ensures (Advanced st) := by
  unfold isFeatureValueFloat
  split
  · exact Advanced.refl_adv st
  · split
    · simp only []
      split
      · exact ⟨⟨rfl, rfl, rfl, rfl, rfl, rfl⟩, Nat.le_succ _⟩
      · have h1 : Advanced st { st with _read_idx := st._read_idx + 1, _v := ops.zero } :=
          ⟨⟨rfl, rfl, rfl, rfl, rfl, rfl⟩, Nat.le_succ _⟩
        split
        · refine Outcome.Ensures.bind_ensures (parserWarning_ensures _ _ _ _)
            (fun s hs => h1.trans_adv hs) (fun _ s hs => h1.trans_adv (hs.trans_adv ?_))
          exact ⟨⟨rfl, rfl, rfl, rfl, rfl, rfl⟩, Nat.le_add_right _ _⟩
        · exact ⟨⟨rfl, rfl, rfl, rfl, rfl, rfl⟩, by simp only []; omega⟩
    · have h1 : Advanced st { st with _v := ops.zero } := ⟨⟨rfl, rfl, rfl, rfl, rfl, rfl⟩, le_refl _⟩
      exact Outcome.Ensures.bind_ensures (parserWarning_ensures _ _ _ _)
        (fun s hs => h1.trans_adv hs) (fun _ s hs => h1.trans_adv hs)

lemma featureValue_advanced {F : Type} (ops : FloatOps F) (line : List Char) (r : Bool × F)
    (st : TCParser F) : Advanced st (featureValue ops line r st).2 := by
  unfold featureValue
  split
  · have h := stringFeatureValue_advanced (line.drop st._read_idx) st
    exact ⟨⟨h.1.index, h.1.channel_hash, h.1.cur_channel_v, h.1.new_index, h.1.base, h.1.ae⟩, h.2⟩
  · exact ⟨⟨rfl, rfl, rfl, rfl, rfl, rfl⟩, le_refl _⟩

lemma featureHash_advanced {F : Type} (all : vw F) (feature_name sfv : List Char)
    (st : TCParser F) : Advanced st (featureHash all feature_name sfv st).2 := by
  unfold featureHash
  split
  · exact Advanced.refl_adv st
  · split
    · exact Advanced.refl_adv st
    · exact ⟨⟨rfl, rfl, rfl, rfl, rfl, rfl⟩, le_refl _⟩

lemma affixBlock_read_idx {F : Type} (ops : FloatOps F) (all : vw F) (audit : Bool)
    (feature_name : List Char) (st : TCParser F) :
    (affixBlock ops all audit feature_name st)._read_idx = st._read_idx := by
  unfold affixBlock
  split <;> rfl

lemma spellingBlock_read_idx {F : Type} (ops : FloatOps F) (all : vw F) (audit : Bool)
    (feature_name : List Char) (st : TCParser F) :
    (spellingBlock ops all audit feature_name st)._read_idx = st._read_idx := by
  unfold spellingBlock
  split <;> rfl

lemma storeFeature_read_idx {F : Type} (ops : FloatOps F) (all : vw F) (audit : Bool)
    (feature_name sfv : List Char) (word_hash : Nat) (st : TCParser F) :
    (storeFeature ops all audit feature_name sfv word_hash st)._read_idx = st._read_idx := by
  unfold storeFeature dictionaryBlock
  simp only [spellingBlock_read_idx, affixBlock_read_idx]

lemma maybeFeature_ensures {F : Type} (ops : FloatOps F) (all : vw F) (audit : Bool)
    (line : List Char) (st : TCParser F) :
    (maybeFeature ops all audit line st).Ensures (FeatureStep ops all audit st) := by
  unfold maybeFeature
  split
  · exact ⟨le_refl _, Or.inl (SameSection.refl_section st)⟩
  · have h1 := read_name_advanced line st
    refine Outcome.Ensures.bind_ensures (isFeatureValueFloat_ensures ops all line _)
      (fun s hs => ⟨(h1.trans_adv hs).2, Or.inl (h1.trans_adv hs).1⟩) (fun r s hs => ?_)
    have h2 := featureValue_advanced ops line r s
    have h3 := featureHash_advanced all (read_name line st).1 (featureValue ops line r s).1
      (featureValue ops line r s).2
    have h4 := h1.trans_adv (hs.trans_adv (h2.trans_adv h3))
    simp only []
    split
    · exact ⟨h4.2, Or.inl h4.1⟩
    · rename_i hz
      refine ⟨?_, Or.inr ⟨_, _, _, _, h4.1, by simpa using hz, rfl⟩⟩
      rw [storeFeature_read_idx]
      exact h4.2

lemma atBlank_lt {line : List Char} {i : Nat} (h : atBlank line i = true) : i < line.length := by
  unfold atBlank at h
  by_contra hlt
  rw [List.get?_eq_none.mpr (by omega)] at h
  simp at h

/-- Invariant rule for the loop of `listFeatures`: a property of the state that depends only
on the section members and on the example, and that storing a feature preserves, holds
when the loop ends; the loop ends within the budget `line.length - _read_idx`. -/
lemma listFeaturesLoop_ensures {F : Type} (ops : FloatOps F) (all : vw F) (audit : Bool)
    (line : List Char) (P : TCParser F → Prop)
    (hsame : ∀ s s', P s → SameSection s s' → P s')
    (hstore : ∀ s feature_name sfv word_hash, P s → ops.isZero s._v = false →
      P (storeFeature ops all audit feature_name sfv word_hash s))
    (n : Nat) (st : TCParser F) (hn : line.length - st._read_idx ≤ n) (hP : P st) :
    (listFeaturesLoop ops all audit line n st).Ensures
      (fun s' => P s' ∧ st._read_idx ≤ s'._read_idx) := by
  induction n generalizing st with
  | zero =>
    unfold listFeaturesLoop
    split
    · rename_i hb
      have := atBlank_lt hb
      omega
    · exact ⟨hP, le_refl _⟩
  | succ n ih =>
    unfold listFeaturesLoop
    split
    · rename_i hb
      have hlt := atBlank_lt hb
      have hP1 : P { st with _read_idx := st._read_idx + 1 } :=
        hsame _ _ hP ⟨rfl, rfl, rfl, rfl, rfl, rfl⟩
      have hstep : ∀ s, FeatureStep ops all audit { st with _read_idx := st._read_idx + 1 } s →
          P s ∧ st._read_idx + 1 ≤ s._read_idx := by
        intro s hs
        refine ⟨?_, hs.1⟩
        rcases hs.2 with h | ⟨s1, nm, sfv, wh, h, hz, rfl⟩
        · exact hsame _ _ hP1 h
        · exact hstore _ _ _ _ (hsame _ _ hP1 h) hz
      refine Outcome.Ensures.bind_ensures (maybeFeature_ensures ops all audit line _)
        (fun s hs => ⟨(hstep s hs).1, by have := (hstep s hs).2; omega⟩) (fun _ s hs => ?_)
      have h5 := hstep s hs
      refine (ih s (by omega) h5.1).mono_ensures (fun s' hs' => ⟨hs'.1, by omega⟩)
    · exact ⟨hP, le_refl _⟩

/-- Invariant rule for `listFeatures`. -/
lemma listFeatures_ensures {F : Type} (ops : FloatOps F) (all : vw F) (audit : Bool)
    (line : List Char) (P : TCParser F → Prop)
    (hsame : ∀ s s', P s → SameSection s s' → P s')
    (hstore : ∀ s feature_name sfv word_hash, P s → ops.isZero s._v = false →
      P (storeFeature ops all audit feature_name sfv word_hash s))
    (st : TCParser F) (hP : P st) :
    (listFeatures ops all audit line st).Ensures
      (fun s' => P s' ∧ st._read_idx ≤ s'._read_idx) := by
  unfold listFeatures
  refine Outcome.Ensures.bind_ensures
    (listFeaturesLoop_ensures ops all audit line P hsame hstore _ st (le_refl _) hP)
    (fun s hs => hs) (fun _ s hs => ?_)
  split
  · exact (parserWarning_ensures all _ _ s).mono_ensures
      (fun s' hs' => ⟨hsame _ _ hs.1 hs'.1, le_trans hs.2 hs'.2⟩)
  · exact hs

lemma listFeaturesLoop_step {F : Type} (ops : FloatOps F) (all : vw F) (audit : Bool)
    (line : List Char) (n : Nat) (st : TCParser F) (h : atBlank line st._read_idx = true) :
    listFeaturesLoop ops all audit line (n + 1) st =
      (maybeFeature ops all audit line { st with _read_idx := st._read_idx + 1 }).bind
        fun _ s => listFeaturesLoop ops all audit line n s := by
  rw [listFeaturesLoop, if_pos h]

lemma listFeaturesLoop_stop {F : Type} (ops : FloatOps F) (all : vw F) (audit : Bool)
    (line : List Char) (n : Nat) (st : TCParser F) (h : atBlank line st._read_idx = false) :
    listFeaturesLoop ops all audit line n st = .ok () st := by
  cases n with
  | zero => rw [listFeaturesLoop, if_neg (by rw [h]; exact Bool.false_ne_true)]
  | succ n => rw [listFeaturesLoop, if_neg (by rw [h]; exact Bool.false_ne_true)]

lemma listNameSpaceLoop_step {F : Type} (ops : FloatOps F) (all : vw F) (audit : Bool)
    (line : List Char) (n : Nat) (st : TCParser F) (h : line.get? st._read_idx = some '|') :
    listNameSpaceLoop ops all audit line (n + 1) st =
      (nameSpace ops all audit line { st with _read_idx := st._read_idx + 1 }).bind
        fun _ s => listNameSpaceLoop ops all audit line n s := by
  rw [listNameSpaceLoop, if_pos h]

lemma listNameSpaceLoop_stop {F : Type} (ops : FloatOps F) (all : vw F) (audit : Bool)
    (line : List Char) (n : Nat) (st : TCParser F) (h : line.get? st._read_idx ≠ some '|') :
    listNameSpaceLoop ops all audit line n st = .ok () st := by
  cases n with
  | zero => rw [listNameSpaceLoop, if_neg h]
  | succ n => rw [listNameSpaceLoop, if_neg h]

/-! ## The namespace-index list -/

/-- Writing a non-empty feature space `fs` at group `k`, after listing `k` when its space
was empty, keeps the invariant. This is the pattern of the affix, spelling and dictionary
blocks. -/
lemma StoredInv.augment {F : Type} {ae : Example F} {b : Bool} {idx : Nat}
    (h : StoredInv ae b idx) (k : Nat) (fs : features F) (hfs : 0 < fs.size) :
    StoredInv ((if (ae.feature_space k).size = 0 then ae.pushIndex k else ae).setSpace k fs)
      b idx := by
  obtain ⟨⟨hnd, hne⟩, hnew, hst⟩ := h
  by_cases hk : (ae.feature_space k).size = 0
  · have hkn : k ∉ ae.indices := fun hmem => by have := hne k hmem; omega
    have hki : k ≠ idx := fun e => by subst e; omega
    simp only [hk, if_true]
    refine ⟨⟨?_, ?_⟩, ?_, ?_⟩
    · simp only [Example.setSpace, Example.pushIndex]
      exact List.Nodup.append hnd (List.nodup_singleton k) (by simpa using hkn)
    · intro i hi
      simp only [Example.setSpace, Example.pushIndex] at hi ⊢
      by_cases hik : i = k
      · simp [hik, hfs]
      · simp only [hik, if_false]
        rcases List.mem_append.mp hi with h1 | h1
        · exact hne i h1
        · simp at h1; exact absurd h1 hik
    · intro hb
      simp only [Example.setSpace, Example.pushIndex]
      intro hmem
      rcases List.mem_append.mp hmem with h1 | h1
      · exact hnew hb h1
      · simp at h1; exact hki h1.symm
    · simp only [Example.setSpace, Example.pushIndex]
      simp [Ne.symm hki, hst]
  · simp only [hk, if_false]
    refine ⟨⟨hnd, ?_⟩, hnew, ?_⟩
    · intro i hi
      simp only [Example.setSpace] at hi ⊢
      by_cases hik : i = k
      · simp [hik, hfs]
      · simp only [hik, if_false]
        exact hne i hi
    · simp only [Example.setSpace]
      by_cases hik : idx = k
      · simp [hik, hfs]
      · simp [hik, hst]

lemma pushFeature_storedInv {F : Type} (ops : FloatOps F) (audit : Bool)
    (feature_name sfv : List Char) (word_hash : Nat) (st : TCParser F) (h : SectionInv st) :
    StoredInv (pushFeature ops audit feature_name sfv word_hash st) st._new_index st._index := by
  obtain ⟨⟨hnd, hne⟩, hnew⟩ := h
  have hsz : ∀ fs : features F, 0 < (fs.push_back ops st._v word_hash).size := by
    intro fs; simp [features.size, features.push_back]
  unfold pushFeature
  simp only []
  refine ⟨⟨hnd, ?_⟩, hnew, ?_⟩
  · intro i hi
    simp only [Example.setSpace]
    by_cases hik : i = st._index
    · simp only [hik, if_true]
      split
      · split <;> exact hsz _
      · exact hsz _
    · simp only [hik, if_false]
      exact hne i hi
  · simp only [Example.setSpace, if_true]
    split
    · split <;> exact hsz _
    · exact hsz _

lemma affixLoop_size {F : Type} (ops : FloatOps F) (all : vw F) (audit : Bool)
    (feature_name : List Char) (st : TCParser F) (n affix : Nat) (fs : features F) :
    fs.size ≤ (affixLoop ops all audit feature_name st n affix fs).size := by
  induction n generalizing affix fs with
  | zero => simp [affixLoop]
  | succ n ih =>
    unfold affixLoop
    split
    · refine le_trans ?_ (ih _ _)
      simp only []
      split <;> simp [features.size, features.push_back]
    · exact le_refl _

lemma affixLoop_size_pos {F : Type} (ops : FloatOps F) (all : vw F) (audit : Bool)
    (feature_name : List Char) (st : TCParser F) (n affix : Nat) (fs : features F)
    (ha : 0 < affix) : 0 < (affixLoop ops all audit feature_name st (n + 1) affix fs).size := by
  unfold affixLoop
  simp only [gt_iff_lt, ha, if_true]
  refine lt_of_lt_of_le ?_ (affixLoop_size ops all audit feature_name st n _ _)
  split <;> simp [features.size, features.push_back]

lemma affixBlock_storedInv {F : Type} (ops : FloatOps F) (all : vw F) (audit : Bool)
    (feature_name : List Char) (st : TCParser F)
    (h : StoredInv st._ae st._new_index st._index) :
    StoredInv (affixBlock ops all audit feature_name st)._ae
      (affixBlock ops all audit feature_name st)._new_index
      (affixBlock ops all audit feature_name st)._index := by
  unfold affixBlock
  split
  · rename_i hc
    simp only []
    have hpos := affixLoop_size_pos ops all audit feature_name st 15
      (all.affix_features st._index)
      ((if (st._ae.feature_space all.affix_namespace).size = 0 then
        st._ae.pushIndex all.affix_namespace else st._ae).feature_space all.affix_namespace) hc.1
    exact h.augment all.affix_namespace _ hpos
  · exact h

lemma spellingBlock_storedInv {F : Type} (ops : FloatOps F) (all : vw F) (audit : Bool)
    (feature_name : List Char) (st : TCParser F)
    (h : StoredInv st._ae st._new_index st._index) :
    StoredInv (spellingBlock ops all audit feature_name st)._ae
      (spellingBlock ops all audit feature_name st)._new_index
      (spellingBlock ops all audit feature_name st)._index := by
  unfold spellingBlock
  split
  · simp only []
    refine h.augment all.spelling_namespace _ ?_
    split <;> simp [features.size, features.push_back]
  · exact h

lemma dictionaryStep_storedInv {F : Type} (ops : FloatOps F) (all : vw F) (audit : Bool)
    (feature_name : List Char) (index : Nat) (ae : Example F)
    (map : List Char → Option (features F)) {b : Bool} {idx : Nat} (h : StoredInv ae b idx) :
    StoredInv (dictionaryStep ops all audit feature_name index ae map) b idx := by
  unfold dictionaryStep
  split
  · exact h
  · split
    · rename_i feats _ hpos
      simp only []
      refine h.augment all.dictionary_namespace _ ?_
      split <;> simp [features.size] <;> exact Or.inr (by simpa using hpos)
    · exact h

lemma dictionaryBlock_storedInv {F : Type} (ops : FloatOps F) (all : vw F) (audit : Bool)
    (feature_name : List Char) (st : TCParser F)
    (h : StoredInv st._ae st._new_index st._index) :
    StoredInv (dictionaryBlock ops all audit feature_name st)._ae
      (dictionaryBlock ops all audit feature_name st)._new_index
      (dictionaryBlock ops all audit feature_name st)._index := by
  unfold dictionaryBlock
  simp only []
  generalize all.namespace_dictionaries st._index = maps
  generalize st._ae = ae at h ⊢
  induction maps generalizing ae with
  | nil => exact h
  | cons m ms ih => exact ih _ (dictionaryStep_storedInv ops all audit feature_name _ ae m h)

lemma storeFeature_sectionInv {F : Type} (ops : FloatOps F) (all : vw F) (audit : Bool)
    (feature_name sfv : List Char) (word_hash : Nat) (st : TCParser F) (h : SectionInv st) :
    SectionInv (storeFeature ops all audit feature_name sfv word_hash st) := by
  have h1 := pushFeature_storedInv ops audit feature_name sfv word_hash st h
  have h2 := dictionaryBlock_storedInv ops all audit feature_name _
    (spellingBlock_storedInv ops all audit feature_name _
      (affixBlock_storedInv ops all audit feature_name
        { st with _ae := pushFeature ops audit feature_name sfv word_hash st } h1))
  exact ⟨h2.1, h2.2.1⟩

lemma SameGroup.refl_group {F : Type} (s : TCParser F) : SameGroup s s :=
  ⟨rfl, rfl, rfl, rfl, rfl, le_refl _⟩

lemma SameGroup.trans_group {F : Type} {a b c : TCParser F} (h : SameGroup a b)
    (h' : SameGroup b c) : SameGroup a c :=
  ⟨h'.index.trans h.index, h'.channel_hash.trans h.channel_hash,
    h'.new_index.trans h.new_index, h'.base.trans h.base, h'.ae.trans h.ae,
    le_trans h.read_idx h'.read_idx⟩

lemma Advanced.sameGroup {F : Type} {s s' : TCParser F} (h : Advanced s s') : SameGroup s s' :=
  ⟨h.1.index, h.1.channel_hash, h.1.new_index, h.1.base, h.1.ae, h.2⟩

lemma warnIf_ensures {F : Type} (all : vw F) (k : WarningKind) (m : List Char)
    (c : Prop) (inst : Decidable c) (s1 s2 : TCParser F) (P : TCParser F → Prop)
    (h1 : ∀ s, Advanced s1 s → P s) (h2 : P s2) :
    (@ite _ c inst (parserWarning all k m s1) (.ok () s2)).Ensures P := by
  split
  · exact (parserWarning_ensures all k m s1).mono_ensures h1
  · exact h2

lemma nameSpaceInfoValue_ensures {F : Type} (ops : FloatOps F) (all : vw F) (line : List Char)
    (st : TCParser F) : (nameSpaceInfoValue ops all line st).Ensures (SameGroup st) := by
  unfold nameSpaceInfoValue
  split
  · exact SameGroup.refl_group st
  · split
    · simp only []
      refine @Outcome.Ensures.bind_ensures _ _ _ (SameGroup st) _ _ _ ?_ (fun s hs => hs)
        (fun _ s3 h3 => ?_)
      · refine warnIf_ensures _ _ _ _ _ _ _ _ (fun s hs => ?_) ?_
        · exact ⟨hs.1.index, hs.1.channel_hash, hs.1.new_index, hs.1.base, hs.1.ae,
            le_trans (Nat.le_succ _) hs.2⟩
        · exact ⟨rfl, rfl, rfl, rfl, rfl, Nat.le_succ _⟩
      · refine @Outcome.Ensures.bind_ensures _ _ _ (SameGroup st) _ _ _ ?_ (fun s hs => hs)
          (fun _ s4 h4 => ?_)
        · refine warnIf_ensures _ _ _ _ _ _ _ _ (fun s hs => ?_) h3
          exact h3.trans_group ⟨hs.1.index, hs.1.channel_hash, hs.1.new_index, hs.1.base, hs.1.ae, hs.2⟩
        · exact h4.trans_group ⟨rfl, rfl, rfl, rfl, rfl, Nat.le_add_right _ _⟩
    · exact (parserWarning_ensures all _ _ _).mono_ensures (fun s hs => hs.sameGroup)

lemma parserWarning_log {F : Type} (all : vw F) (k : WarningKind) (m : List Char)
    (st : TCParser F) :
    (parserWarning all k m st).Ensures (fun s' => ∃ w, s' = { st with warnings := w }) := by
  unfold parserWarning
  split
  · exact ⟨st.warnings, rfl⟩
  · exact ⟨_, rfl⟩

lemma warnIf_log {F : Type} (all : vw F) (k : WarningKind) (m : List Char)
    (c : Prop) (inst : Decidable c) (s1 s2 : TCParser F) (P : TCParser F → Prop)
    (h1 : ∀ w, P { s1 with warnings := w }) (h2 : P s2) :
    (@ite _ c inst (parserWarning all k m s1) (.ok () s2)).Ensures P := by
  split
  · refine (parserWarning_log all k m s1).mono_ensures (fun s hs => ?_)
    obtain ⟨w, rfl⟩ := hs
    exact h1 w
  · exact h2

lemma nameSpaceInfoValue_anon {F : Type} (ops : FloatOps F) (all : vw F) (line : List Char)
    (st : TCParser F) :
    (nameSpaceInfoValue ops all line st).Ensures (fun s' => s'._anon = st._anon) := by
  unfold nameSpaceInfoValue
  split
  · rfl
  · split
    · simp only []
      refine @Outcome.Ensures.bind_ensures _ _ _ (fun s : TCParser F => s._anon = st._anon) _ _ _ ?_
        (fun s hs => hs) (fun _ s3 h3 => ?_)
      · exact warnIf_log _ _ _ _ _ _ _ _ (fun _ => rfl) rfl
      · refine @Outcome.Ensures.bind_ensures _ _ _ (fun s : TCParser F => s._anon = st._anon) _ _ _ ?_
          (fun s hs => hs) (fun _ s4 h4 => h4)
        exact warnIf_log _ _ _ _ _ _ _ _ (fun _ => h3) h3
    · refine (parserWarning_log all _ _ _).mono_ensures (fun s hs => ?_)
      obtain ⟨w, rfl⟩ := hs
      rfl

lemma nameSpaceInfoValue_scale {F : Type} (ops : FloatOps F) (all : vw F) (line : List Char)
    (st : TCParser F) (hc : line.get? st._read_idx ≠ some ':') :
    (nameSpaceInfoValue ops all line st).Ensures
      (fun s' => s'._cur_channel_v = st._cur_channel_v) := by
  unfold nameSpaceInfoValue
  split
  · rfl
  · exact (parserWarning_ensures all _ _ _).mono_ensures (fun s hs => hs.1.cur_channel_v)

lemma nameSpaceInfo_tail {F : Type} (ops : FloatOps F) (all : vw F) (audit : Bool)
    (line : List Char) (t : TCParser F) :
    (nameSpaceInfoValue ops all line
      { (if audit then { (read_name line t).2 with _base := (read_name line t).1 }
          else (read_name line t).2) with
        _channel_hash := all.hasher (read_name line t).1 all.hash_seed }).Ensures
      (fun s' => s'._index = t._index ∧
        s'._channel_hash = all.hasher (read_name line t).1 all.hash_seed ∧
        s'._new_index = t._new_index ∧ s'._ae = t._ae ∧ t._read_idx ≤ s'._read_idx ∧
        (line.get? (read_name line t).2._read_idx ≠ some ':' →
          s'._cur_channel_v = t._cur_channel_v) ∧
        s'._anon = t._anon) := by
  have hrn := read_name_advanced line t
  by_cases hc : line.get? (read_name line t).2._read_idx = some ':'
  · cases audit
    · refine ((nameSpaceInfoValue_ensures ops all line _).and_ensures
        (nameSpaceInfoValue_anon ops all line _)).mono_ensures (fun s hs => ?_)
      exact ⟨hs.1.index.trans hrn.1.index, hs.1.channel_hash,
        hs.1.new_index.trans hrn.1.new_index, hs.1.ae.trans hrn.1.ae,
        le_trans hrn.2 hs.1.read_idx, fun h => absurd hc h, hs.2⟩
    · refine ((nameSpaceInfoValue_ensures ops all line _).and_ensures
        (nameSpaceInfoValue_anon ops all line _)).mono_ensures (fun s hs => ?_)
      exact ⟨hs.1.index.trans hrn.1.index, hs.1.channel_hash,
        hs.1.new_index.trans hrn.1.new_index, hs.1.ae.trans hrn.1.ae,
        le_trans hrn.2 hs.1.read_idx, fun h => absurd hc h, hs.2⟩
  · cases audit
    · refine (((nameSpaceInfoValue_ensures ops all line _).and_ensures
        (nameSpaceInfoValue_scale ops all line _ (by exact hc))).and_ensures
        (nameSpaceInfoValue_anon ops all line _)).mono_ensures (fun s hs => ?_)
      exact ⟨hs.1.1.index.trans hrn.1.index, hs.1.1.channel_hash,
        hs.1.1.new_index.trans hrn.1.new_index, hs.1.1.ae.trans hrn.1.ae,
        le_trans hrn.2 hs.1.1.read_idx, fun _ => hs.1.2.trans hrn.1.cur_channel_v, hs.2⟩
    · refine (((nameSpaceInfoValue_ensures ops all line _).and_ensures
        (nameSpaceInfoValue_scale ops all line _ (by exact hc))).and_ensures
        (nameSpaceInfoValue_anon ops all line _)).mono_ensures (fun s hs => ?_)
      exact ⟨hs.1.1.index.trans hrn.1.index, hs.1.1.channel_hash,
        hs.1.1.new_index.trans hrn.1.new_index, hs.1.1.ae.trans hrn.1.ae,
        le_trans hrn.2 hs.1.1.read_idx, fun _ => hs.1.2.trans hrn.1.cur_channel_v, hs.2⟩

lemma nameSpaceInfo_ensures {F : Type} (ops : FloatOps F) (all : vw F) (audit : Bool)
    (line : List Char) (st : TCParser F) (c : Char) (hc : line.get? st._read_idx = some c)
    (hn : nameEnd line st._read_idx = false) :
    (nameSpaceInfo ops all audit line st).Ensures (InfoDone all line c st) := by
  unfold nameSpaceInfo
  have hc' : (c == '|' || c == ' ' || c == '\t' || c == ':' || c == '\r') = false := by
    unfold nameEnd isNameStop at hn
    rw [hc] at hn
    simp only [Bool.or_eq_false_iff] at hn ⊢
    tauto
  simp only [hc, hc']
  by_cases hsz : (st._ae.feature_space (groupOf all c)).size = 0
  · have hsz' := hsz
    simp only [groupOf] at hsz'
    simp only [hsz', if_true]
    refine (nameSpaceInfo_tail ops all audit line _).mono_ensures (fun s hs => ?_)
    exact ⟨hs.1, hs.2.1.trans rfl, hs.2.2.1.trans (by simp [hsz]),
      hs.2.2.2.1, hs.2.2.2.2.1, hs.2.2.2.2.2.1, hs.2.2.2.2.2.2⟩
  · have hsz' := hsz
    simp only [groupOf] at hsz'
    simp only [hsz', if_false]
    refine (nameSpaceInfo_tail ops all audit line _).mono_ensures (fun s hs => ?_)
    exact ⟨hs.1, hs.2.1.trans rfl, hs.2.2.1.trans (by simp [hsz]),
      hs.2.2.2.1, hs.2.2.2.2.1, hs.2.2.2.2.2.1, hs.2.2.2.2.2.2⟩

lemma SectionInv.same {F : Type} {s s' : TCParser F} (h : SectionInv s)
    (hs : SameSection s s') : SectionInv s' := by
  unfold SectionInv at h ⊢
  rw [hs.ae, hs.new_index, hs.index]
  exact h

lemma nameEnd_false_of {line : List Char} {i : Nat} (h1 : atSeparator line i = false)
    (h2 : line.get? i ≠ some ':') : ∃ c, line.get? i = some c ∧ nameEnd line i = false := by
  unfold atSeparator isSeparator at h1
  unfold nameEnd isNameStop
  cases hc : line.get? i with
  | none => rw [hc] at h1; simp at h1
  | some c =>
    rw [hc] at h1 h2
    refine ⟨c, rfl, ?_⟩
    have hcc : (c == ':') = false := by
      simp only [beq_eq_false_iff_ne]
      intro e; exact h2 (by rw [e])
    simp only [Bool.or_eq_false_iff] at h1 ⊢
    tauto

/-- The end of `nameSpace` (line 435): the group is listed when it was empty at the start
of the section and is not empty now. -/
lemma nameSpace_close_listed {F : Type} (s : TCParser F) (h : SectionInv s) :
    (if s._new_index ∧ (s._ae.feature_space s._index).size > 0 then
      s._ae.pushIndex s._index else s._ae).Listed := by
  split
  · rename_i hc
    refine ⟨?_, ?_⟩
    · simp only [Example.pushIndex]
      exact List.Nodup.append h.1.1 (List.nodup_singleton _) (by simpa using h.2 hc.1)
    · intro i hi
      simp only [Example.pushIndex] at hi ⊢
      rcases List.mem_append.mp hi with h1 | h1
      · exact h.1.2 i h1
      · simp at h1; rw [h1]; exact hc.2
  · exact h.1

lemma unnamedSection_fields {F : Type} (all : vw F) (audit : Bool) (st0 : TCParser F) :
    (unnamedSection all audit st0)._index = 32 ∧
    (unnamedSection all audit st0)._ae = st0._ae ∧
    (unnamedSection all audit st0)._read_idx = st0._read_idx ∧
    (unnamedSection all audit st0)._cur_channel_v = st0._cur_channel_v ∧
    (unnamedSection all audit st0)._anon = st0._anon ∧
    (unnamedSection all audit st0)._new_index =
      (st0._new_index || decide ((st0._ae.feature_space 32).size = 0)) := by
  unfold unnamedSection
  by_cases h0 : (st0._ae.feature_space 32).size = 0 <;> cases audit <;> simp [h0]

/-- The index list stays well formed through one namespace section. -/
lemma nameSpace_listed {F : Type} (ops : FloatOps F) (all : vw F) (audit : Bool)
    (line : List Char) (st : TCParser F) (h : st._ae.Listed) :
    (nameSpace ops all audit line st).Ensures
      (fun s' => s'._ae.Listed ∧ st._read_idx ≤ s'._read_idx) := by
  unfold nameSpace
  simp only []
  refine @Outcome.Ensures.bind_ensures _ _ _ (fun s => SectionInv s ∧ st._read_idx ≤ s._read_idx) _ _ _
    ?_ (fun s hs => ⟨hs.1.1, hs.2⟩) (fun _ s hs => ?_)
  · split
    · -- unnamed section
      obtain ⟨hi, hae, hidx, _, _, hnew⟩ := unnamedSection_fields all audit (nameSpaceReset ops st)
      refine (listFeatures_ensures ops all audit line SectionInv
        (fun s s' hs hss => hs.same hss)
        (fun s nm sfv wh hs _ => storeFeature_sectionInv ops all audit nm sfv wh s hs) _ ?_).mono_ensures
        (fun s hs => ?_)
      · refine ⟨?_, ?_⟩
        · rw [hae]; exact h
        · rw [hnew, hi, hae]
          intro hb
          simp only [nameSpaceReset, Bool.false_or, decide_eq_true_eq] at hb
          intro hmem
          have := h.2 _ hmem
          omega
      · exact ⟨hs.1, le_trans (le_of_eq hidx.symm) hs.2⟩
    · split
      · -- named section
        rename_i hsep hcolon
        obtain ⟨c, hc, hne⟩ := nameEnd_false_of (by simpa using hsep) hcolon
        refine @Outcome.Ensures.bind_ensures _ _ _
          (fun s => SectionInv s ∧ st._read_idx ≤ s._read_idx) _ _ _ ?_ (fun s hs => hs)
          (fun _ s hs => ?_)
        · refine (nameSpaceInfo_ensures ops all audit line (nameSpaceReset ops st) c hc
            hne).mono_ensures (fun s hs => ?_)
          refine ⟨⟨?_, ?_⟩, hs.read_idx⟩
          · rw [hs.ae]; exact h
          · rw [hs.new_index, hs.index, hs.ae]
            intro hb
            simp only [nameSpaceReset, Bool.false_or, decide_eq_true_eq] at hb
            intro hmem
            have := h.2 _ hmem
            omega
        · exact (listFeatures_ensures ops all audit line SectionInv
            (fun s s' hs hss => hs.same hss)
            (fun s nm sfv wh hs _ => storeFeature_sectionInv ops all audit nm sfv wh s hs)
            s hs.1).mono_ensures (fun s' hs' => ⟨hs'.1, le_trans hs.2 hs'.2⟩)
      · -- a colon right after the bar
        refine (parserWarning_ensures all _ _ _).mono_ensures (fun s hs => ⟨?_, hs.2⟩)
        refine SectionInv.same ?_ hs.1
        exact ⟨h, fun hb => by simp [nameSpaceReset] at hb⟩
  · have hl := nameSpace_close_listed s hs.1
    split
    · rename_i hc
      simp only [hc, and_self, if_true] at hl
      exact ⟨hl, hs.2⟩
    · rename_i hc
      simp only [hc, if_false] at hl
      exact ⟨hl, hs.2⟩

lemma bar_lt {line : List Char} {i : Nat} (h : line.get? i = some '|') : i < line.length := by
  by_contra hlt
  rw [List.get?_eq_none.mpr (by omega)] at h
  exact Option.noConfusion h

/-- Invariant rule for the loop of `listNameSpace`: a property that moving the read index
and logging keep, and that every namespace section keeps, holds when the loop ends; the loop
ends within the budget `line.length - _read_idx`. -/
lemma listNameSpaceLoop_ensures {F : Type} (ops : FloatOps F) (all : vw F) (audit : Bool)
    (line : List Char) (P : TCParser F → Prop)
    (hadv : ∀ s s', P s → Advanced s s' → P s')
    (hns : ∀ s, P s → (nameSpace ops all audit line s).Ensures
      (fun s' => P s' ∧ s._read_idx ≤ s'._read_idx))
    (n : Nat) (st : TCParser F) (hn : line.length - st._read_idx ≤ n) (hP : P st) :
    (listNameSpaceLoop ops all audit line n st).Ensures
      (fun s' => P s' ∧ st._read_idx ≤ s'._read_idx) := by
  induction n generalizing st with
  | zero =>
    unfold listNameSpaceLoop
    split
    · rename_i hb
      have := bar_lt hb
      omega
    · exact ⟨hP, le_refl _⟩
  | succ n ih =>
    unfold listNameSpaceLoop
    split
    · rename_i hb
      have hlt := bar_lt hb
      have hP1 : P { st with _read_idx := st._read_idx + 1 } :=
        hadv _ _ hP ⟨⟨rfl, rfl, rfl, rfl, rfl, rfl⟩, Nat.le_succ _⟩
      refine Outcome.Ensures.bind_ensures (hns _ hP1)
        (fun s hs => ⟨hs.1, le_trans (Nat.le_succ _) hs.2⟩) (fun _ s hs => ?_)
      have h2 : st._read_idx + 1 ≤ s._read_idx := hs.2
      exact (ih s (by omega) hs.1).mono_ensures (fun s' hs' => ⟨hs'.1, by omega⟩)
    · exact ⟨hP, le_refl _⟩

/-- Invariant rule for `listNameSpace`. -/
lemma listNameSpace_ensures {F : Type} (ops : FloatOps F) (all : vw F) (audit : Bool)
    (line : List Char) (P : TCParser F → Prop)
    (hadv : ∀ s s', P s → Advanced s s' → P s')
    (hns : ∀ s, P s → (nameSpace ops all audit line s).Ensures
      (fun s' => P s' ∧ s._read_idx ≤ s'._read_idx))
    (st : TCParser F) (hP : P st) :
    (listNameSpace ops all audit line st).Ensures P := by
  unfold listNameSpace
  refine Outcome.Ensures.bind_ensures
    (listNameSpaceLoop_ensures ops all audit line P hadv hns _ st (le_refl _) hP)
    (fun s hs => hs.1) (fun _ s hs => ?_)
  split
  · exact hs.1
  · split
    · exact (parserWarning_ensures all _ _ s).mono_ensures (fun s' hs' => hadv _ _ hs.1 hs')
    · exact hs.1

/-- Invariant rule for a whole line: the parse returns or throws, and a property of the
example that every namespace section keeps holds of the example it leaves. -/
lemma construct_ensures {F : Type} (ops : FloatOps F) (all : vw F) (audit : Bool)
    (line : List Char) (P : Example F → Prop)
    (hns : ∀ s : TCParser F, P s._ae → (nameSpace ops all audit line s).Ensures
      (fun s' => P s'._ae ∧ s._read_idx ≤ s'._read_idx))
    (hnl : ∀ ae : Example F, P ae → P { ae with is_newline := true })
    (ae : Example F) (u : TCParser F) (hP : P ae) :
    (TCParser.construct ops all audit line ae u).Ensures (fun s => P s._ae) := by
  unfold TCParser.construct
  split
  · exact listNameSpace_ensures ops all audit line (fun s => P s._ae)
      (fun s s' hs h => by show P s'._ae; rw [h.1.ae]; exact hs) hns _ hP
  · exact hnl ae hP

/-- The index list stays well formed through the parse of a line. -/
lemma construct_listed {F : Type} (ops : FloatOps F) (all : vw F) (audit : Bool)
    (line : List Char) (ae : Example F) (u : TCParser F) (h : ae.Listed) :
    (TCParser.construct ops all audit line ae u).Ensures (fun s => s._ae.Listed) :=
  construct_ensures ops all audit line Example.Listed
    (fun s hs => nameSpace_listed ops all audit line s hs) (fun _ h => h) ae u h

/-! ## Facts about one feature token -/

lemma affixBlock_same {F : Type} (ops : FloatOps F) (all : vw F) (audit : Bool)
    (feature_name : List Char) (st : TCParser F) :
    (affixBlock ops all audit feature_name st)._v = st._v ∧
    (affixBlock ops all audit feature_name st)._anon = st._anon ∧
    (affixBlock ops all audit feature_name st)._index = st._index ∧
    (affixBlock ops all audit feature_name st)._channel_hash = st._channel_hash ∧
    (affixBlock ops all audit feature_name st)._cur_channel_v = st._cur_channel_v ∧
    (affixBlock ops all audit feature_name st).warnings = st.warnings := by
  unfold affixBlock
  split <;> exact ⟨rfl, rfl, rfl, rfl, rfl, rfl⟩

lemma spellingBlock_same {F : Type} (ops : FloatOps F) (all : vw F) (audit : Bool)
    (feature_name : List Char) (st : TCParser F) :
    (spellingBlock ops all audit feature_name st)._v = st._v ∧
    (spellingBlock ops all audit feature_name st)._anon = st._anon ∧
    (spellingBlock ops all audit feature_name st)._index = st._index ∧
    (spellingBlock ops all audit feature_name st)._channel_hash = st._channel_hash ∧
    (spellingBlock ops all audit feature_name st)._cur_channel_v = st._cur_channel_v ∧
    (spellingBlock ops all audit feature_name st).warnings = st.warnings := by
  unfold spellingBlock
  split <;> exact ⟨rfl, rfl, rfl, rfl, rfl, rfl⟩

/-- Storing a feature changes the example and the spelling buffer only. -/
lemma storeFeature_same {F : Type} (ops : FloatOps F) (all : vw F) (audit : Bool)
    (feature_name sfv : List Char) (word_hash : Nat) (st : TCParser F) :
    (storeFeature ops all audit feature_name sfv word_hash st)._v = st._v ∧
    (storeFeature ops all audit feature_name sfv word_hash st)._anon = st._anon ∧
    (storeFeature ops all audit feature_name sfv word_hash st)._index = st._index ∧
    (storeFeature ops all audit feature_name sfv word_hash st)._channel_hash =
      st._channel_hash ∧
    (storeFeature ops all audit feature_name sfv word_hash st)._cur_channel_v =
      st._cur_channel_v ∧
    (storeFeature ops all audit feature_name sfv word_hash st).warnings = st.warnings := by
  unfold storeFeature dictionaryBlock
  simp only []
  obtain ⟨a1, a2, a3, a4, a5, a6⟩ := affixBlock_same ops all audit feature_name
    { st with _ae := pushFeature ops audit feature_name sfv word_hash st }
  obtain ⟨b1, b2, b3, b4, b5, b6⟩ := spellingBlock_same ops all audit feature_name
    (affixBlock ops all audit feature_name
      { st with _ae := pushFeature ops audit feature_name sfv word_hash st })
  exact ⟨b1.trans a1, b2.trans a2, b3.trans a3, b4.trans a4, b5.trans a5, b6.trans a6⟩

/-- The body of `maybeFeature` once `isFeatureValueFloat` has returned `r`. -/
lemma maybeFeature_of_ok {F : Type} (ops : FloatOps F) (all : vw F) (audit : Bool)
    (line : List Char) (st st2 : TCParser F) (r : Bool × F)
    (hsep : atSeparator line st._read_idx = false)
    (hr : isFeatureValueFloat ops all line (read_name line st).2 = .ok r st2) :
    maybeFeature ops all audit line st =
      if ops.isZero (featureHash all (read_name line st).1 (featureValue ops line r st2).1
          (featureValue ops line r st2).2).2._v then
        .ok () (featureHash all (read_name line st).1 (featureValue ops line r st2).1
          (featureValue ops line r st2).2).2
      else
        .ok () (storeFeature ops all audit (read_name line st).1 (featureValue ops line r st2).1
          (featureHash all (read_name line st).1 (featureValue ops line r st2).1
            (featureValue ops line r st2).2).1
          (featureHash all (read_name line st).1 (featureValue ops line r st2).1
            (featureValue ops line r st2).2).2) := by
  unfold maybeFeature
  simp only [hsep, Bool.false_eq_true, if_false, hr, Outcome.bind]

lemma Example.empty_listed {F : Type} (ops : FloatOps F) : (Example.empty ops).Listed :=
  ⟨List.nodup_nil, fun i hi => absurd hi (List.not_mem_nil i)⟩

lemma PopNamespace_nodup {F S : Type} (ctx : Context F S) (hctx : ctx.ex.indices.Nodup)
    (hns : ctx.namespace_path ≠ []) (hret : ctx.return_path ≠ []) :
    ∃ r ctx', ctx.PopNamespace = some (r, ctx') ∧ ctx'.ex.indices.Nodup := by
  unfold Context.PopNamespace
  obtain ⟨ns, hns'⟩ : ∃ ns, ctx.namespace_path.getLast? = some ns := by
    cases h : ctx.namespace_path.getLast? with
    | none => exact absurd (List.getLast?_eq_none_iff.mp h) hns
    | some ns => exact ⟨ns, rfl⟩
  obtain ⟨rs, hrs'⟩ : ∃ rs, ctx.return_path.getLast? = some rs := by
    cases h : ctx.return_path.getLast? with
    | none => exact absurd (List.getLast?_eq_none_iff.mp h) hret
    | some rs => exact ⟨rs, rfl⟩
  rw [hns', hrs']
  refine ⟨_, _, rfl, ?_⟩
  simp only []
  split
  · split
    · rename_i hmem
      simp only [Example.pushIndex]
      exact List.Nodup.append hctx (List.nodup_singleton _) (by simpa using hmem)
    · exact hctx
  · exact hctx

/-- C2, counterexample to the claim as stated. The example lists group 32 and all its
feature spaces are empty, so its index list has no duplicates and lists every non-empty
feature space; parsing the line `| x` into it leaves the index list `[32, 32]`. -/
theorem indices_duplicated_when_listed_group_empty :
    sampleListedEmpty.indices.Nodup ∧
      (∀ i, 0 < (sampleListedEmpty.feature_space i).size → i ∈ sampleListedEmpty.indices) ∧
      (TCParser.construct sampleOps (sampleVW false) false ['|', ' ', 'x'] sampleListedEmpty
        sampleState).state?.map (fun s => s._ae.indices) = some [32, 32] ∧
      ¬ [32, 32].Nodup := by
  refine ⟨by decide, ?_, by rfl, by decide⟩
  intro i hi
  exact absurd hi (by simp [sampleListedEmpty, Example.empty, features.empty, features.size])

/-- C2, amended. Starting from an example whose index list has no duplicates and in which
every listed group id has a non-empty feature space, parsing any text line (with the affix,
spelling and dictionary namespaces it may create, and any repetition of a namespace id)
returns or throws and leaves the index list free of duplicates; and `PopNamespace`, on a
context whose stacks are not empty, returns and keeps a duplicate-free index list free of
duplicates. -/
theorem indices_nodup_preserved {F S : Type} (ops : FloatOps F) (all : vw F) (audit : Bool)
    (line : List Char) (ae : Example F) (u : TCParser F) (ctx : Context F S)
    (hae : ae.indices.Nodup ∧ ∀ i ∈ ae.indices, 0 < (ae.feature_space i).size)
    (hctx : ctx.ex.indices.Nodup) (hns : ctx.namespace_path ≠ [])
    (hret : ctx.return_path ≠ []) :
    (TCParser.construct ops all audit line ae u).Ensures (fun s => s._ae.indices.Nodup) ∧
      ∃ r ctx', ctx.PopNamespace = some (r, ctx') ∧ ctx'.ex.indices.Nodup :=
  ⟨(construct_listed ops all audit line ae u hae).mono_ensures (fun _ h => h.1),
    PopNamespace_nodup ctx hctx hns hret⟩

/-- C2, the amended statement at a concrete input: the line `|a x |a y` parsed into the
empty example, and the end of a scope of group `a` in a context that lists `a` already. -/
theorem indices_nodup_preserved_witness :
    ((Example.empty sampleOps).indices.Nodup ∧
        ∀ i ∈ (Example.empty sampleOps).indices,
          0 < ((Example.empty sampleOps).feature_space i).size) ∧
      sampleContext.ex.indices.Nodup ∧ sampleContext.namespace_path ≠ [] ∧
      sampleContext.return_path ≠ [] ∧
      ((TCParser.construct sampleOps (sampleVW false) false
          ['|', 'a', ' ', 'x', ' ', '|', 'a', ' ', 'y'] (Example.empty sampleOps)
          sampleState).Ensures (fun s => s._ae.indices.Nodup) ∧
        ∃ r ctx', sampleContext.PopNamespace = some (r, ctx') ∧ ctx'.ex.indices.Nodup) :=
  ⟨Example.empty_listed sampleOps, by decide, by decide, by decide,
    indices_nodup_preserved sampleOps (sampleVW false) false
      ['|', 'a', ' ', 'x', ' ', '|', 'a', ' ', 'y'] (Example.empty sampleOps) sampleState
      sampleContext (Example.empty_listed sampleOps) (by decide) (by decide) (by decide)⟩

/-- C3. After parsing any line into an example that started with an empty index list (its
feature spaces may hold anything, in particular nothing), the parse returns or throws and
every group id in the index list has a non-empty feature space; so a group whose feature
space is empty, such as that of a section without features or whose features were all
dropped, is not in the list. -/
theorem listed_groups_are_nonempty {F : Type} (ops : FloatOps F) (all : vw F) (audit : Bool)
    (line : List Char) (ae : Example F) (u : TCParser F) (hidx : ae.indices = []) :
    (TCParser.construct ops all audit line ae u).Ensures (fun s =>
      (∀ i ∈ s._ae.indices, 0 < (s._ae.feature_space i).size) ∧
      (∀ i, (s._ae.feature_space i).size = 0 → i ∉ s._ae.indices)) := by
  have hl : ae.Listed := by
    unfold Example.Listed
    rw [hidx]
    exact ⟨List.nodup_nil, fun i hi => absurd hi (List.not_mem_nil i)⟩
  refine (construct_listed ops all audit line ae u hl).mono_ensures (fun s hs => ⟨hs.2, ?_⟩)
  intro i h0 hmem
  have := hs.2 i hmem
  omega

/-- C3 at a concrete input: in the line `|a x:0 |b |c y` the only feature of section `a` is
dropped and section `b` has none; only `c` is listed. -/
theorem listed_groups_are_nonempty_witness :
    (Example.empty sampleOps).indices = [] ∧
      (TCParser.construct sampleOps (sampleVW false) false
        ['|', 'a', ' ', 'x', ':', '0', ' ', '|', 'b', ' ', '|', 'c', ' ', 'y']
        (Example.empty sampleOps) sampleState).state?.map (fun s => s._ae.indices) =
          some [99] ∧
      (TCParser.construct sampleOps (sampleVW false) false
        ['|', 'a', ' ', 'x', ':', '0', ' ', '|', 'b', ' ', '|', 'c', ' ', 'y']
        (Example.empty sampleOps) sampleState).Ensures (fun s =>
          (∀ i ∈ s._ae.indices, 0 < (s._ae.feature_space i).size) ∧
          (∀ i, (s._ae.feature_space i).size = 0 → i ∉ s._ae.indices)) :=
  ⟨rfl, by rfl, listed_groups_are_nonempty sampleOps (sampleVW false) false
    ['|', 'a', ' ', 'x', ':', '0', ' ', '|', 'b', ' ', '|', 'c', ' ', 'y']
    (Example.empty sampleOps) sampleState rfl⟩

/-! ## Reading one token of a known shape (C4, C5) -/

lemma get?_append_cons (pre : List Char) (c : Char) (cs : List Char) :
    (pre ++ c :: cs).get? pre.length = some c := by
  induction pre with
  | nil => rfl
  | cons a as ih => exact ih

/-- The loop of `read_name` stops exactly at the end of a run `name` of characters that do
not end a name, when the run is followed by the end of the line or by a character that ends
a name. -/
lemma read_name_loop_run (pre name rest : List Char)
    (hname : ∀ c ∈ name, isNameStop c = false)
    (hrest : ∀ c, rest.head? = some c → isNameStop c = true) :
    read_name_loop (pre ++ name ++ rest) (name.length + rest.length) pre.length =
      pre.length + name.length := by
  induction name generalizing pre with
  | nil =>
    have hend : nameEnd (pre ++ [] ++ rest) pre.length = true := by
      unfold nameEnd
      cases rest with
      | nil =>
        rw [List.get?_eq_none.mpr (by simp)]
      | cons c cs =>
        rw [List.append_nil, get?_append_cons]
        exact hrest c rfl
    generalize ([] : List Char).length + rest.length = n
    cases n with
    | zero => rfl
    | succ n =>
      unfold read_name_loop
      rw [if_pos hend]
      rfl
  | cons c cs ih =>
    have hnot : nameEnd (pre ++ (c :: cs) ++ rest) pre.length = false := by
      unfold nameEnd
      rw [List.append_assoc, List.cons_append, get?_append_cons]
      exact hname c (List.mem_cons_self c cs)
    have hfuel : (c :: cs).length + rest.length = (cs.length + rest.length) + 1 := by
      simp only [List.length_cons]; omega
    rw [hfuel]
    unfold read_name_loop
    rw [if_neg (by rw [hnot]; exact Bool.false_ne_true)]
    have h := ih (pre ++ [c]) (fun d hd => hname d (List.mem_cons_of_mem c hd))
    have hl : pre ++ [c] ++ cs ++ rest = pre ++ (c :: cs) ++ rest := by simp
    rw [hl, List.length_append, List.length_singleton] at h
    rw [h, List.length_cons]
    omega

/-- `read_name` on a line `pre ++ name ++ rest`, read from the end of `pre`. -/
lemma read_name_run {F : Type} (pre name rest : List Char) (st : TCParser F)
    (hidx : st._read_idx = pre.length)
    (hname : ∀ c ∈ name, isNameStop c = false)
    (hrest : ∀ c, rest.head? = some c → isNameStop c = true) :
    read_name (pre ++ name ++ rest) st =
      (name, { st with _read_idx := pre.length + name.length }) := by
  unfold read_name
  have hlen : (pre ++ name ++ rest).length - st._read_idx = name.length + rest.length := by
    simp only [List.length_append, hidx]; omega
  simp only [hlen]
  rw [hidx, read_name_loop_run pre name rest hname hrest]
  have h1 : (pre ++ name ++ rest).drop pre.length = name ++ rest := by
    rw [List.append_assoc, List.drop_left]
  have h2 : pre.length + name.length - pre.length = name.length := by omega
  rw [h1, h2, List.take_left]

lemma find_first_none (p : Char → Bool) (cs : List Char) (h : ∀ c ∈ cs, p c = false) :
    find_first p cs = none := by
  induction cs with
  | nil => rfl
  | cons c cs ih =>
    unfold find_first
    rw [h c (List.mem_cons_self c cs), ih (fun d hd => h d (List.mem_cons_of_mem c hd))]
    rfl

lemma find_first_run (p : Char → Bool) (str rest : List Char) (c : Char)
    (h : ∀ d ∈ str, p d = false) (hc : p c = true) :
    find_first p (str ++ c :: rest) = some str.length := by
  induction str with
  | nil =>
    show find_first p (c :: rest) = some 0
    unfold find_first
    rw [if_pos hc]
  | cons d ds ih =>
    show find_first p (d :: (ds ++ c :: rest)) = some (ds.length + 1)
    unfold find_first
    rw [if_neg (by rw [h d (List.mem_cons_self d ds)]; exact Bool.false_ne_true),
      ih (fun e he => h e (List.mem_cons_of_mem d he))]
    rfl

/-- `stringFeatureValue` on a view that starts with a non-empty run `str` of characters
that are not blank, followed by the end of the line or by a blank: the string is `str`. -/
lemma stringFeatureValue_run {F : Type} (str rest : List Char) (st : TCParser F)
    (hne : str ≠ []) (hstr : ∀ c ∈ str, isBlank c = false)
    (hrest : ∀ c, rest.head? = some c → isBlank c = true) :
    stringFeatureValue (str ++ rest) st =
      (str, { st with _read_idx := st._read_idx + str.length }) := by
  obtain ⟨c, cs, rfl⟩ := List.exists_cons_of_ne_nil hne
  have h0 : find_first (fun c => !isBlank c) (c :: cs ++ rest) = some 0 := by
    simp [find_first, hstr c (List.mem_cons_self c cs)]
  have hend : (match find_first isBlank (c :: cs ++ rest) with
      | some k => k
      | none => (c :: cs ++ rest).length) = (c :: cs).length := by
    cases rest with
    | nil =>
      rw [List.append_nil, find_first_none isBlank _ hstr]
    | cons d ds =>
      rw [find_first_run isBlank (c :: cs) ds d hstr (hrest d rfl)]
  unfold stringFeatureValue
  simp only [h0, gt_iff_lt, lt_self_iff_false, if_false]
  rw [hend, List.take_left]

/-! ## Storing only appends -/

lemma features.extends_refl_fs {F : Type} (fs : features F) : fs.Extends fs :=
  ⟨[], [], by simp, by simp⟩

lemma features.Extends.trans_ext {F : Type} {a b c : features F} (h : a.Extends b)
    (h' : b.Extends c) : a.Extends c := by
  obtain ⟨v1, i1, hv1, hi1⟩ := h
  obtain ⟨v2, i2, hv2, hi2⟩ := h'
  exact ⟨v1 ++ v2, i1 ++ i2, by rw [hv2, hv1, List.append_assoc],
    by rw [hi2, hi1, List.append_assoc]⟩

lemma features.extends_push_back {F : Type} (ops : FloatOps F) (fs : features F) (v : F)
    (i : Nat) : fs.Extends (fs.push_back ops v i) :=
  ⟨[v], [i], rfl, rfl⟩

lemma Example.extends_refl_ex {F : Type} (ae : Example F) : ae.Extends ae :=
  fun _ => features.extends_refl_fs _

lemma Example.Extends.trans_ex {F : Type} {a b c : Example F} (h : a.Extends b)
    (h' : b.Extends c) : a.Extends c :=
  fun j => (h j).trans_ext (h' j)

/-- Listing a group when its space is empty and then writing an extension of its space
extends the example. -/
lemma Example.extends_augment {F : Type} (ae : Example F) (k : Nat) (fs : features F)
    (c : Prop) [Decidable c]
    (h : ((if c then ae.pushIndex k else ae).feature_space k).Extends fs) :
    ae.Extends ((if c then ae.pushIndex k else ae).setSpace k fs) := by
  intro j
  have hsp : ∀ i, (if c then ae.pushIndex k else ae).feature_space i = ae.feature_space i := by
    intro i; split <;> rfl
  simp only [Example.setSpace]
  by_cases hj : j = k
  · simp only [hj, if_true]
    rw [← hsp k]
    exact h
  · simp only [hj, if_false]
    rw [hsp j]
    exact features.extends_refl_fs _

lemma affixLoop_extends {F : Type} (ops : FloatOps F) (all : vw F) (audit : Bool)
    (feature_name : List Char) (st : TCParser F) (n affix : Nat) (fs : features F) :
    fs.Extends (affixLoop ops all audit feature_name st n affix fs) := by
  induction n generalizing affix fs with
  | zero => exact features.extends_refl_fs fs
  | succ n ih =>
    unfold affixLoop
    split
    · refine features.Extends.trans_ext ?_ (ih _ _)
      simp only []
      split
      · exact ⟨[st._v], [_], rfl, rfl⟩
      · exact ⟨[st._v], [_], rfl, rfl⟩
    · exact features.extends_refl_fs fs

lemma affixBlock_extends {F : Type} (ops : FloatOps F) (all : vw F) (audit : Bool)
    (feature_name : List Char) (st : TCParser F) :
    st._ae.Extends (affixBlock ops all audit feature_name st)._ae := by
  unfold affixBlock
  split
  · exact Example.extends_augment st._ae all.affix_namespace _ _
      (affixLoop_extends ops all audit feature_name st 16 _ _)
  · exact Example.extends_refl_ex _

lemma spellingBlock_extends {F : Type} (ops : FloatOps F) (all : vw F) (audit : Bool)
    (feature_name : List Char) (st : TCParser F) :
    st._ae.Extends (spellingBlock ops all audit feature_name st)._ae := by
  unfold spellingBlock
  split
  · refine Example.extends_augment st._ae all.spelling_namespace _ _ ?_
    cases audit
    · exact ⟨[st._v], [_], rfl, rfl⟩
    · exact ⟨[st._v], [_], rfl, rfl⟩
  · exact Example.extends_refl_ex _

lemma dictionaryStep_extends {F : Type} (ops : FloatOps F) (all : vw F) (audit : Bool)
    (feature_name : List Char) (index : Nat) (ae : Example F)
    (map : List Char → Option (features F)) :
    ae.Extends (dictionaryStep ops all audit feature_name index ae map) := by
  unfold dictionaryStep
  split
  · exact Example.extends_refl_ex _
  · split
    · rename_i feats _ _
      refine Example.extends_augment ae all.dictionary_namespace _ _ ?_
      cases audit
      · exact ⟨feats.values, feats.indicies, rfl, rfl⟩
      · exact ⟨feats.values, feats.indicies, rfl, rfl⟩
    · exact Example.extends_refl_ex _

lemma dictionaryBlock_extends {F : Type} (ops : FloatOps F) (all : vw F) (audit : Bool)
    (feature_name : List Char) (st : TCParser F) :
    st._ae.Extends (dictionaryBlock ops all audit feature_name st)._ae := by
  unfold dictionaryBlock
  simp only []
  generalize all.namespace_dictionaries st._index = maps
  generalize st._ae = ae
  induction maps generalizing ae with
  | nil => exact Example.extends_refl_ex _
  | cons m ms ih =>
    exact (dictionaryStep_extends ops all audit feature_name _ ae m).trans_ex (ih _)

/-- Lines 212-331: the feature is stored in the current group with the value `_v` and the
hash computed for it; what the affix, spelling and dictionary blocks add comes after it. -/
lemma storeFeature_storedNext {F : Type} (ops : FloatOps F) (all : vw F) (audit : Bool)
    (feature_name sfv : List Char) (word_hash : Nat) (st : TCParser F) :
    StoredNext st._ae (storeFeature ops all audit feature_name sfv word_hash st)._ae
      st._index st._v word_hash := by
  have h1 : ∃ fs : features F,
      (pushFeature ops audit feature_name sfv word_hash st).feature_space st._index = fs ∧
      fs.values = (st._ae.feature_space st._index).values ++ [st._v] ∧
      fs.indicies = (st._ae.feature_space st._index).indicies ++ [word_hash] := by
    refine ⟨_, rfl, ?_⟩
    unfold pushFeature
    simp only [Example.setSpace, if_true]
    split
    · split <;> exact ⟨rfl, rfl⟩
    · exact ⟨rfl, rfl⟩
  obtain ⟨fs, hfs, hv, hi⟩ := h1
  have h2 : (pushFeature ops audit feature_name sfv word_hash st).Extends
      (storeFeature ops all audit feature_name sfv word_hash st)._ae := by
    unfold storeFeature
    simp only []
    exact ((affixBlock_extends ops all audit feature_name _).trans_ex
      (spellingBlock_extends ops all audit feature_name _)).trans_ex
      (dictionaryBlock_extends ops all audit feature_name _)
  obtain ⟨vs, ids, hvs, hids⟩ := h2 st._index
  rw [hfs] at hvs hids
  exact ⟨vs, ids, by rw [hvs, hv, List.append_assoc, List.singleton_append],
    by rw [hids, hi, List.append_assoc, List.singleton_append]⟩

lemma isNameStop_of_separator {line : List Char} {i : Nat} {c : Char}
    (hc : line.get? i = some c) (h : isNameStop c = false) : atSeparator line i = false := by
  unfold atSeparator isSeparator
  rw [hc]
  unfold isNameStop at h
  simp only [Bool.or_eq_false_iff] at h ⊢
  tauto

/-- `isFeatureValueFloat` at a colon after which the float reader consumes nothing: the
value is not a float, and the read index is past the colon. -/
lemma isFeatureValueFloat_not_float {F : Type} (ops : FloatOps F) (all : vw F)
    (line : List Char) (st : TCParser F) (hc : line.get? st._read_idx = some ':')
    (hf : (all.parseFloat (line.drop (st._read_idx + 1))).2 = 0) :
    isFeatureValueFloat ops all line st =
      .ok (false, (all.parseFloat (line.drop (st._read_idx + 1))).1)
        { st with _read_idx := st._read_idx + 1,
                  _v := (all.parseFloat (line.drop (st._read_idx + 1))).1 } := by
  have hsep : atSeparator line st._read_idx = false := by
    unfold atSeparator; rw [hc]; decide
  unfold isFeatureValueFloat
  simp only [hsep, Bool.false_eq_true, if_false, hc, if_true, hf]

/-- The token at the read index is `name`, a colon, and then `tail`. -/
lemma token_colon_facts (pre name tail : List Char)
    (hname : ∀ c ∈ name, isNameStop c = false) :
    atSeparator (pre ++ name ++ ':' :: tail) pre.length = false ∧
    (pre ++ name ++ ':' :: tail).get? (pre.length + name.length) = some ':' ∧
    (pre ++ name ++ ':' :: tail).drop (pre.length + name.length + 1) = tail := by
  refine ⟨?_, ?_, ?_⟩
  · cases name with
    | nil =>
      have : (pre ++ [] ++ ':' :: tail).get? pre.length = some ':' := by
        rw [List.append_nil, get?_append_cons]
      unfold atSeparator; rw [this]; decide
    | cons c cs =>
      have : (pre ++ c :: cs ++ ':' :: tail).get? pre.length = some c := by
        rw [List.append_assoc, List.cons_append, get?_append_cons]
      exact isNameStop_of_separator this (hname c (List.mem_cons_self c cs))
  · rw [← List.length_append, get?_append_cons]
  · have h : pre ++ name ++ ':' :: tail = (pre ++ name ++ [':']) ++ tail := by simp
    have hl : pre.length + name.length + 1 = (pre ++ name ++ [':']).length := by
      simp only [List.length_append, List.length_singleton]
    rw [h, hl, List.drop_left]

/-- `maybeFeature` on a string-valued token, from what its three readers return. -/
lemma maybeFeature_string_token {F : Type} (ops : FloatOps F) (all : vw F) (audit : Bool)
    (line : List Char) (st st1 st2 st3 : TCParser F) (name str : List Char) (x : F)
    (hsep : atSeparator line st._read_idx = false)
    (hrn : read_name line st = (name, st1))
    (hiv : isFeatureValueFloat ops all line st1 = .ok (false, x) st2)
    (hsfv : stringFeatureValue (line.drop st2._read_idx) st2 = (str, st3))
    (hstr : str ≠ []) (hone : ops.isZero ops.one = false) :
    maybeFeature ops all audit line st =
      .ok () (storeFeature ops all audit name str
        (all.hasher str (all.hasher name st3._channel_hash) &&& all.parse_mask)
        { st3 with _v := ops.one }) := by
  have hiv' : isFeatureValueFloat ops all line (read_name line st).2 = .ok (false, x) st2 := by
    rw [hrn]; exact hiv
  have hfv : featureValue ops line (false, x) st2 = (str, { st3 with _v := ops.one }) := by
    unfold featureValue
    simp only [Bool.not_false, if_true, hsfv]
  have hemp : str.isEmpty = false := by
    cases str with
    | nil => exact absurd rfl hstr
    | cons c cs => rfl
  have hfh : featureHash all name str { st3 with _v := ops.one } =
      (all.hasher str (all.hasher name st3._channel_hash) &&& all.parse_mask,
        { st3 with _v := ops.one }) := by
    unfold featureHash
    simp only [hemp, Bool.not_false, if_true]
  rw [maybeFeature_of_ok ops all audit line st st2 (false, x) hsep hiv', hrn, hfv]
  simp only [hfh, hone, Bool.false_eq_true, if_false]

/-- `maybeFeature` on a token `name:string` of which the float reader consumes nothing. -/
lemma maybeFeature_string_run {F : Type} (ops : FloatOps F) (all : vw F)
    (audit : Bool) (pre name str rest : List Char) (st : TCParser F)
    (hidx : st._read_idx = pre.length)
    (hname : ∀ c ∈ name, isNameStop c = false)
    (hstr : str ≠ []) (hstrc : ∀ c ∈ str, isBlank c = false)
    (hrest : ∀ c, rest.head? = some c → isBlank c = true)
    (hfloat : (all.parseFloat (str ++ rest)).2 = 0)
    (hone : ops.isZero ops.one = false) :
    maybeFeature ops all audit (pre ++ name ++ ':' :: (str ++ rest)) st =
      .ok () (storeFeature ops all audit name str
        (all.hasher str (all.hasher name st._channel_hash) &&& all.parse_mask)
        { st with _read_idx := pre.length + name.length + 1 + str.length, _v := ops.one }) := by
  obtain ⟨hsep, hcolon, hdrop⟩ := token_colon_facts pre name (str ++ rest) hname
  have hrn := read_name_run pre name (':' :: (str ++ rest)) st hidx hname
    (fun c hc => by
      have : c = ':' := by simpa using hc.symm
      rw [this]; decide)
  have hiv := isFeatureValueFloat_not_float ops all (pre ++ name ++ ':' :: (str ++ rest))
    { st with _read_idx := pre.length + name.length } hcolon
    (by rw [hdrop]; exact hfloat)
  have hsfv : ∀ t : TCParser F,
      stringFeatureValue ((pre ++ name ++ ':' :: (str ++ rest)).drop
        (pre.length + name.length + 1)) t =
        (str, { t with _read_idx := t._read_idx + str.length }) := by
    intro t
    rw [hdrop]
    exact stringFeatureValue_run str rest t hstr hstrc hrest
  exact maybeFeature_string_token ops all audit (pre ++ name ++ ':' :: (str ++ rest))
    st _ _ _ name str _ (by rw [hidx]; exact hsep) hrn hiv (hsfv _) hstr hone

/-- C4. A feature token `name:string`, where `string` is a non-empty run of characters
without space, tab, CR or LF that ends at a blank or at the end of the line, and of which
the float reader consumes no character, is stored in the current group as the next feature,
with hash `hasher(string, hasher(name, channel_hash)) & parse_mask` and value exactly 1,
whatever the namespace scale `_cur_channel_v` is (1 is not 0 for the float type); the read
index ends right after the string. -/
theorem string_valued_feature_chained_hash {F : Type} (ops : FloatOps F) (all : vw F)
    (audit : Bool) (pre name str rest : List Char) (st : TCParser F)
    (hidx : st._read_idx = pre.length)
    (hname : ∀ c ∈ name, isNameStop c = false)
    (hstr : str ≠ []) (hstrc : ∀ c ∈ str, isBlank c = false)
    (hrest : ∀ c, rest.head? = some c → isBlank c = true)
    (hfloat : (all.parseFloat (str ++ rest)).2 = 0)
    (hone : ops.isZero ops.one = false) :
    ∃ s', maybeFeature ops all audit (pre ++ name ++ ':' :: (str ++ rest)) st = .ok () s' ∧
      s'._read_idx = pre.length + name.length + 1 + str.length ∧
      s'._v = ops.one ∧
      StoredNext st._ae s'._ae st._index ops.one
        (all.hasher str (all.hasher name st._channel_hash) &&& all.parse_mask) := by
  refine ⟨_, maybeFeature_string_run ops all audit pre name str rest st hidx hname hstr hstrc
    hrest hfloat hone, ?_, ?_, ?_⟩
  · rw [storeFeature_read_idx]
  · rw [(storeFeature_same ops all audit _ _ _ _).1]
  · exact storeFeature_storedNext ops all audit name str _
      { st with _read_idx := pre.length + name.length + 1 + str.length, _v := ops.one }

/-- `isFeatureValueFloat` at a colon followed by a float that is not NaN: the value is the
float, and the read index is past it. -/
lemma isFeatureValueFloat_float {F : Type} (ops : FloatOps F) (all : vw F)
    (line : List Char) (st : TCParser F) (hc : line.get? st._read_idx = some ':')
    (hf : (all.parseFloat (line.drop (st._read_idx + 1))).2 ≠ 0)
    (hnan : ops.isNaN (all.parseFloat (line.drop (st._read_idx + 1))).1 = false) :
    isFeatureValueFloat ops all line st =
      .ok (true, (all.parseFloat (line.drop (st._read_idx + 1))).1)
        { st with _read_idx := st._read_idx + 1 +
                    (all.parseFloat (line.drop (st._read_idx + 1))).2,
                  _v := (all.parseFloat (line.drop (st._read_idx + 1))).1 } := by
  have hsep : atSeparator line st._read_idx = false := by
    unfold atSeparator; rw [hc]; decide
  unfold isFeatureValueFloat
  simp only [hsep, Bool.false_eq_true, if_false, hc, if_true, hf, hnan]

/-- `isFeatureValueFloat` at the end of a bare name: the value is 1 and nothing is read. -/
lemma isFeatureValueFloat_bare {F : Type} (ops : FloatOps F) (all : vw F)
    (line : List Char) (st : TCParser F) (hsep : atSeparator line st._read_idx = true) :
    isFeatureValueFloat ops all line st = .ok (true, ops.one) st := by
  unfold isFeatureValueFloat
  simp only [hsep, if_true]

/-- `maybeFeature` on a named token with a float value that is not dropped, from what its
readers return. -/
lemma maybeFeature_float_token {F : Type} (ops : FloatOps F) (all : vw F) (audit : Bool)
    (line : List Char) (st st1 st2 : TCParser F) (name : List Char) (v : F)
    (hsep : atSeparator line st._read_idx = false)
    (hrn : read_name line st = (name, st1))
    (hiv : isFeatureValueFloat ops all line st1 = .ok (true, v) st2)
    (hname : name ≠ [])
    (hnz : ops.isZero (ops.mul st2._cur_channel_v v) = false) :
    maybeFeature ops all audit line st =
      .ok () (storeFeature ops all audit name []
        (all.hasher name st2._channel_hash &&& all.parse_mask)
        { st2 with _v := ops.mul st2._cur_channel_v v }) := by
  have hiv' : isFeatureValueFloat ops all line (read_name line st).2 = .ok (true, v) st2 := by
    rw [hrn]; exact hiv
  have hfv : featureValue ops line (true, v) st2 =
      ([], { st2 with _v := ops.mul st2._cur_channel_v v }) := by
    unfold featureValue
    simp only [Bool.not_true, Bool.false_eq_true, if_false]
  have hemp : name.isEmpty = false := by
    cases name with
    | nil => exact absurd rfl hname
    | cons c cs => rfl
  have hfh : featureHash all name [] { st2 with _v := ops.mul st2._cur_channel_v v } =
      (all.hasher name st2._channel_hash &&& all.parse_mask,
        { st2 with _v := ops.mul st2._cur_channel_v v }) := by
    unfold featureHash
    simp only [List.isEmpty_nil, Bool.not_true, Bool.false_eq_true, if_false, hemp,
      Bool.not_false, if_true]
  rw [maybeFeature_of_ok ops all audit line st st2 (true, v) hsep hiv', hrn, hfv]
  simp only [hfh, hnz, Bool.false_eq_true, if_false]

/-- The token at the read index is the non-empty name `name`, followed by the end of the
line or by a separator. -/
lemma token_bare_facts (pre name rest : List Char) (hne : name ≠ [])
    (hname : ∀ c ∈ name, isNameStop c = false)
    (hrest : ∀ c, rest.head? = some c → isSeparator c = true) :
    atSeparator (pre ++ name ++ rest) pre.length = false ∧
    atSeparator (pre ++ name ++ rest) (pre.length + name.length) = true := by
  refine ⟨?_, ?_⟩
  · obtain ⟨c, cs, rfl⟩ := List.exists_cons_of_ne_nil hne
    have : (pre ++ c :: cs ++ rest).get? pre.length = some c := by
      rw [List.append_assoc, List.cons_append, get?_append_cons]
    exact isNameStop_of_separator this (hname c (List.mem_cons_self c cs))
  · unfold atSeparator
    cases rest with
    | nil => rw [List.get?_eq_none.mpr (by simp)]
    | cons c cs =>
      rw [← List.length_append, get?_append_cons]
      exact hrest c rfl

lemma isNameStop_of_isSeparator {c : Char} (h : isSeparator c = true) : isNameStop c = true := by
  unfold isSeparator at h
  unfold isNameStop
  simp only [Bool.or_eq_true] at h ⊢
  tauto

/-! ## The scale of a section -/

lemma nameSpaceInfo_error {F : Type} (ops : FloatOps F) (all : vw F) (audit : Bool)
    (line : List Char) (st : TCParser F) (h : nameEnd line st._read_idx = true) :
    nameSpaceInfo ops all audit line st =
      parserWarning all .namespaceStringExpected (line.take st._read_idx) st := by
  unfold nameSpaceInfo
  unfold nameEnd at h
  cases hget : line.get? st._read_idx with
  | none => rfl
  | some c =>
    rw [hget] at h
    have hc : (c == '|' || c == ' ' || c == '\t' || c == ':' || c == '\r') = true := by
      unfold isNameStop at h
      simp only [Bool.or_eq_true] at h ⊢
      tauto
    simp only [hc, if_true]

lemma nameSpaceInfo_scale {F : Type} (ops : FloatOps F) (all : vw F) (audit : Bool)
    (line : List Char) (st : TCParser F)
    (hc : line.get? (read_name line st).2._read_idx ≠ some ':') :
    (nameSpaceInfo ops all audit line st).Ensures
      (fun s' => s'._cur_channel_v = st._cur_channel_v) := by
  cases hne : nameEnd line st._read_idx with
  | true =>
    rw [nameSpaceInfo_error ops all audit line st hne]
    exact (parserWarning_ensures all _ _ _).mono_ensures (fun s hs => hs.1.cur_channel_v)
  | false =>
    cases hget : line.get? st._read_idx with
    | none =>
      unfold nameEnd at hne
      rw [hget] at hne
      exact absurd hne (by decide)
    | some c =>
      exact (nameSpaceInfo_ensures ops all audit line st c hget hne).mono_ensures
        (fun s hs => hs.scale hc)

/-- Through `listFeatures` the scale of the section does not change. -/
lemma listFeatures_scale {F : Type} (ops : FloatOps F) (all : vw F) (audit : Bool)
    (line : List Char) (st : TCParser F) :
    (listFeatures ops all audit line st).Ensures
      (fun s' => s'._cur_channel_v = st._cur_channel_v) :=
  (listFeatures_ensures ops all audit line (fun s => s._cur_channel_v = st._cur_channel_v)
    (fun _ _ hs h => h.cur_channel_v.trans hs)
    (fun s nm sfv wh hs _ => (storeFeature_same ops all audit nm sfv wh s).2.2.2.2.1.trans hs)
    st rfl).mono_ensures (fun _ h => h.1)

/-- A section without a declared scale is read with the scale 1. -/
lemma nameSpace_scale_one {F : Type} (ops : FloatOps F) (all : vw F) (audit : Bool)
    (line : List Char) (st : TCParser F)
    (h : atSeparator line st._read_idx = true ∨
      line.get? (read_name line st).2._read_idx ≠ some ':') :
    (nameSpace ops all audit line st).Ensures (fun s' => s'._cur_channel_v = ops.one) := by
  unfold nameSpace
  simp only []
  refine @Outcome.Ensures.bind_ensures _ _ _ (fun s => s._cur_channel_v = ops.one) _ _ _
    ?_ (fun s hs => hs) (fun _ s hs => ?_)
  · split
    · refine (listFeatures_scale ops all audit line _).mono_ensures (fun s hs => ?_)
      rw [hs]
      exact (unnamedSection_fields all audit (nameSpaceReset ops st)).2.2.2.1
    · rename_i hsep
      have hsep' : atSeparator line st._read_idx = false := by simpa using hsep
      have hc : line.get? (read_name line st).2._read_idx ≠ some ':' := by
        rcases h with h | h
        · rw [hsep'] at h; exact absurd h Bool.false_ne_true
        · exact h
      split
      · refine @Outcome.Ensures.bind_ensures _ _ _ (fun s => s._cur_channel_v = ops.one) _ _ _
          ?_ (fun s hs => hs) (fun _ s hs => ?_)
        · exact nameSpaceInfo_scale ops all audit line (nameSpaceReset ops st) hc
        · exact (listFeatures_scale ops all audit line s).mono_ensures
            (fun s' hs' => hs'.trans hs)
      · exact (parserWarning_ensures all _ _ _).mono_ensures (fun s hs => hs.1.cur_channel_v)
  · split
    · exact hs
    · exact hs

/-- `nameSpaceInfoValue` at a colon followed by a float that is not NaN and that does not
reach the end of the line: the float becomes the scale of the section. -/
lemma nameSpaceInfoValue_float {F : Type} (ops : FloatOps F) (all : vw F) (line : List Char)
    (t : TCParser F) (hc : line.get? t._read_idx = some ':')
    (hnan : ops.isNaN (all.parseFloat (line.drop (t._read_idx + 1))).1 = false)
    (hend : (all.parseFloat (line.drop (t._read_idx + 1))).2 + (t._read_idx + 1) <
      line.length) :
    nameSpaceInfoValue ops all line t =
      .ok () { t with
        _read_idx := t._read_idx + 1 + (all.parseFloat (line.drop (t._read_idx + 1))).2,
        _cur_channel_v := (all.parseFloat (line.drop (t._read_idx + 1))).1 } := by
  have hsep : atSeparator line t._read_idx = false := by
    unfold atSeparator; rw [hc]; decide
  unfold nameSpaceInfoValue
  simp only [hsep, Bool.false_eq_true, if_false, hc, if_true, ge_iff_le, not_le.mpr hend,
    Outcome.bind, hnan]

/-- C5. A feature token with the non-empty name `name`, read in a section with channel hash
`_channel_hash` and scale `_cur_channel_v`, is stored in the current group as the next
feature with hash `hasher(name, channel_hash) & parse_mask` and value `scale * v`, when that
product is not 0: for the bare form (the name is followed by a separator or by the end of
the line) with `v = 1`, and for the form `name:v` with `v` the float read after the colon
(the reader consumes at least one character and the value is not NaN). The scale is the one
the section declares (a colon and a float after its name); a section that declares none is
read with the scale 1; and the scale a section starts from never depends on the scale before
its bar. -/
theorem numeric_feature_hash_and_value {F : Type} (ops : FloatOps F) (all : vw F)
    (audit : Bool) (pre name : List Char) (st : TCParser F)
    (hidx : st._read_idx = pre.length) (hne : name ≠ [])
    (hname : ∀ c ∈ name, isNameStop c = false) :
    (∀ rest, (∀ c, rest.head? = some c → isSeparator c = true) →
      ops.isZero (ops.mul st._cur_channel_v ops.one) = false →
      ∃ s', maybeFeature ops all audit (pre ++ name ++ rest) st = .ok () s' ∧
        s'._v = ops.mul st._cur_channel_v ops.one ∧
        StoredNext st._ae s'._ae st._index (ops.mul st._cur_channel_v ops.one)
          (all.hasher name st._channel_hash &&& all.parse_mask)) ∧
    (∀ tail, (all.parseFloat tail).2 ≠ 0 → ops.isNaN (all.parseFloat tail).1 = false →
      ops.isZero (ops.mul st._cur_channel_v (all.parseFloat tail).1) = false →
      ∃ s', maybeFeature ops all audit (pre ++ name ++ ':' :: tail) st = .ok () s' ∧
        s'._v = ops.mul st._cur_channel_v (all.parseFloat tail).1 ∧
        StoredNext st._ae s'._ae st._index (ops.mul st._cur_channel_v (all.parseFloat tail).1)
          (all.hasher name st._channel_hash &&& all.parse_mask)) ∧
    (∀ line (t : TCParser F), line.get? t._read_idx = some ':' →
      ops.isNaN (all.parseFloat (line.drop (t._read_idx + 1))).1 = false →
      (all.parseFloat (line.drop (t._read_idx + 1))).2 + (t._read_idx + 1) < line.length →
      ∃ t', nameSpaceInfoValue ops all line t = .ok () t' ∧
        t'._cur_channel_v = (all.parseFloat (line.drop (t._read_idx + 1))).1) ∧
    (∀ line (t : TCParser F),
      (atSeparator line t._read_idx = true ∨
        line.get? (read_name line t).2._read_idx ≠ some ':') →
      (nameSpace ops all audit line t).Ensures (fun s' => s'._cur_channel_v = ops.one)) ∧
    (∀ line (t : TCParser F) (x : F),
      nameSpace ops all audit line { t with _cur_channel_v := x } =
        nameSpace ops all audit line t) := by
  refine ⟨?_, ?_, ?_, ?_, ?_⟩
  · intro rest hrest hnz
    obtain ⟨hsep, hsep2⟩ := token_bare_facts pre name rest hne hname hrest
    have hrn := read_name_run pre name rest st hidx hname
      (fun c hc => isNameStop_of_isSeparator (hrest c hc))
    have hiv := isFeatureValueFloat_bare ops all (pre ++ name ++ rest)
      { st with _read_idx := pre.length + name.length } hsep2
    have hmf := maybeFeature_float_token ops all audit (pre ++ name ++ rest) st _ _ name
      ops.one (by rw [hidx]; exact hsep) hrn hiv hne hnz
    refine ⟨_, hmf, ?_, ?_⟩
    · rw [(storeFeature_same ops all audit _ _ _ _).1]
    · exact storeFeature_storedNext ops all audit name [] _
        { st with _read_idx := pre.length + name.length,
                  _v := ops.mul st._cur_channel_v ops.one }
  · intro tail hk hnan hnz
    obtain ⟨hsep, hcolon, hdrop⟩ := token_colon_facts pre name tail hname
    have hrn := read_name_run pre name (':' :: tail) st hidx hname
      (fun c hc => by
        have : c = ':' := by simpa using hc.symm
        rw [this]; decide)
    have hiv := isFeatureValueFloat_float ops all (pre ++ name ++ ':' :: tail)
      { st with _read_idx := pre.length + name.length } hcolon
      (by rw [hdrop]; exact hk) (by rw [hdrop]; exact hnan)
    rw [hdrop] at hiv
    have hmf := maybeFeature_float_token ops all audit (pre ++ name ++ ':' :: tail) st _ _ name
      (all.parseFloat tail).1 (by rw [hidx]; exact hsep) hrn hiv hne hnz
    refine ⟨_, hmf, ?_, ?_⟩
    · rw [(storeFeature_same ops all audit _ _ _ _).1]
    · exact storeFeature_storedNext ops all audit name [] _
        { st with _read_idx := pre.length + name.length + 1 + (all.parseFloat tail).2,
                  _v := ops.mul st._cur_channel_v (all.parseFloat tail).1 }
  · intro line t hc hnan hend
    exact ⟨_, nameSpaceInfoValue_float ops all line t hc hnan hend, rfl⟩
  · intro line t h
    exact nameSpace_scale_one ops all audit line t h
  · intro line t x
    rfl

/-- C4 at a concrete input: the token `b:xyz` of the line `|a b:xyz`, in strict
mode and with the scale 2, is stored with the value 1 and the chained hash. -/
theorem string_valued_feature_chained_hash_witness :
    sampleTokenState._read_idx = ['|', 'a', ' '].length ∧
      (∀ c ∈ ['b'], isNameStop c = false) ∧ ['x', 'y', 'z'] ≠ [] ∧
      (∀ c ∈ ['x', 'y', 'z'], isBlank c = false) ∧
      ((sampleVW true).parseFloat (['x', 'y', 'z'] ++ [])).2 = 0 ∧
      sampleOps.isZero sampleOps.one = false ∧
      ∃ s', maybeFeature sampleOps (sampleVW true) false
          (['|', 'a', ' '] ++ ['b'] ++ ':' :: (['x', 'y', 'z'] ++ [])) sampleTokenState =
            .ok () s' ∧
        s'._read_idx = ['|', 'a', ' '].length + ['b'].length + 1 + ['x', 'y', 'z'].length ∧
        s'._v = sampleOps.one ∧
        StoredNext sampleTokenState._ae s'._ae sampleTokenState._index sampleOps.one
          ((sampleVW true).hasher ['x', 'y', 'z']
            ((sampleVW true).hasher ['b'] sampleTokenState._channel_hash) &&&
            (sampleVW true).parse_mask) :=
  ⟨rfl, by decide, by decide, by decide, by rfl, rfl,
    string_valued_feature_chained_hash sampleOps (sampleVW true) false ['|', 'a', ' '] ['b']
      ['x', 'y', 'z'] [] sampleTokenState rfl (by decide) (by decide) (by decide)
      (fun c hc => by simp at hc) (by rfl) rfl⟩

/-- C5 at a concrete input: the token `b:3` of the line `|a b:3`, read with the scale 2, is
stored with the value 6 and the hash of `b` in the channel of `a`. -/
theorem numeric_feature_hash_and_value_witness :
    sampleTokenState._read_idx = ['|', 'a', ' '].length ∧ ['b'] ≠ [] ∧
      (∀ c ∈ ['b'], isNameStop c = false) ∧
      ∃ s', maybeFeature sampleOps (sampleVW false) false
          (['|', 'a', ' '] ++ ['b'] ++ ':' :: ['3']) sampleTokenState = .ok () s' ∧
        s'._v = some 6 ∧
        StoredNext sampleTokenState._ae s'._ae 97 (some 6)
          (sampleHasher ['b'] (sampleHasher ['a'] 0) &&& (2 ^ 18 - 1)) :=
  ⟨rfl, by decide, by decide,
    (numeric_feature_hash_and_value sampleOps (sampleVW false) false ['|', 'a', ' '] ['b']
      sampleTokenState rfl (by decide) (by decide)).2.1 ['3'] (by decide) (by rfl) (by rfl)⟩

/-! ## The anonymous-feature counter (C6) -/

lemma isFeatureValueFloat_anon {F : Type} (ops : FloatOps F) (all : vw F) (line : List Char)
    (st : TCParser F) :
    (isFeatureValueFloat ops all line st).Ensures (fun s' => s'._anon = st._anon) := by
  unfold isFeatureValueFloat
  split
  · rfl
  · split
    · simp only []
      split
      · rfl
      · split
        · refine Outcome.Ensures.bind_ensures (parserWarning_log _ _ _ _)
            (fun s hs => ?_) (fun _ s hs => ?_)
          · obtain ⟨w, rfl⟩ := hs; rfl
          · obtain ⟨w, rfl⟩ := hs; rfl
        · rfl
    · refine Outcome.Ensures.bind_ensures (parserWarning_log _ _ _ _)
        (fun s hs => ?_) (fun _ s hs => ?_)
      · obtain ⟨w, rfl⟩ := hs; rfl
      · obtain ⟨w, rfl⟩ := hs; rfl

lemma stringFeatureValue_anon {F : Type} (sv : List Char) (st : TCParser F) :
    (stringFeatureValue sv st).2._anon = st._anon := by
  unfold stringFeatureValue
  cases h : find_first (fun c => !isBlank c) sv with
  | none => rfl
  | some k =>
    by_cases hk : k > 0
    · simp only [hk, if_true]
    · simp only [hk, if_false]

lemma featureValue_anon {F : Type} (ops : FloatOps F) (line : List Char) (r : Bool × F)
    (st : TCParser F) : (featureValue ops line r st).2._anon = st._anon := by
  unfold featureValue
  split
  · exact stringFeatureValue_anon _ st
  · rfl

lemma featureHash_anon {F : Type} (all : vw F) (feature_name sfv : List Char)
    (st : TCParser F) :
    (featureHash all feature_name sfv st).2._anon =
      (if sfv.isEmpty && feature_name.isEmpty then (st._anon + 1) % 2 ^ 64 else st._anon) ∧
    (sfv.isEmpty = true → feature_name.isEmpty = true →
      (featureHash all feature_name sfv st).1 = (st._channel_hash + st._anon) % 2 ^ 64) := by
  unfold featureHash
  cases sfv.isEmpty <;> cases feature_name.isEmpty <;> simp

/-- One call of `maybeFeature` that returns: the counter advances by one exactly when the
call reaches the case of an anonymous feature, and the channel hash is unchanged. -/
lemma maybeFeature_anon_step {F : Type} (ops : FloatOps F) (all : vw F) (audit : Bool)
    (line : List Char) (s s' : TCParser F)
    (h : maybeFeature ops all audit line s = .ok () s') :
    s'._anon = (if anonymousAt ops all line s then (s._anon + 1) % 2 ^ 64 else s._anon) ∧
    s'._channel_hash = s._channel_hash := by
  have hch : s'._channel_hash = s._channel_hash := by
    have := maybeFeature_ensures ops all audit line s
    rw [h] at this
    rcases this.2 with h1 | ⟨s1, nm, sfv, wh, h1, _, rfl⟩
    · exact h1.channel_hash
    · exact (storeFeature_same ops all audit nm sfv wh s1).2.2.2.1.trans h1.channel_hash
  refine ⟨?_, hch⟩
  cases hsep : atSeparator line s._read_idx with
  | true =>
    unfold maybeFeature at h
    simp only [hsep, if_true] at h
    cases h
    simp [anonymousAt, hsep]
  | false =>
    cases hr : isFeatureValueFloat ops all line (read_name line s).2 with
    | timeout =>
      unfold maybeFeature at h
      simp only [hsep, Bool.false_eq_true, if_false, hr, Outcome.bind] at h
      cases h
    | thrown m t =>
      unfold maybeFeature at h
      simp only [hsep, Bool.false_eq_true, if_false, hr, Outcome.bind] at h
      cases h
    | ok r s2 =>
      have hanon2 : s2._anon = s._anon := by
        have := isFeatureValueFloat_anon ops all line (read_name line s).2
        rw [hr] at this
        exact this
      rw [maybeFeature_of_ok ops all audit line s s2 r hsep hr] at h
      have hfh := (featureHash_anon all (read_name line s).1 (featureValue ops line r s2).1
        (featureValue ops line r s2).2).1
      rw [featureValue_anon, hanon2] at hfh
      have hA : anonymousAt ops all line s =
          ((featureValue ops line r s2).1.isEmpty && (read_name line s).1.isEmpty) := by
        simp [anonymousAt, hsep, hr]
      rw [hA]
      split at h
      · cases h
        exact hfh
      · cases h
        rw [(storeFeature_same ops all audit _ _ _ _).2.1]
        exact hfh

/-- A call of `maybeFeature` that reaches the case of an anonymous feature returns, and
stores the feature, when its value is not 0, with the hash `_channel_hash + _anon`. -/
lemma maybeFeature_anonymous {F : Type} (ops : FloatOps F) (all : vw F) (audit : Bool)
    (line : List Char) (s : TCParser F) (h : anonymousAt ops all line s = true) :
    ∃ s', maybeFeature ops all audit line s = .ok () s' ∧
      (ops.isZero s'._v = false →
        StoredNext s._ae s'._ae s._index s'._v ((s._channel_hash + s._anon) % 2 ^ 64)) := by
  unfold anonymousAt at h
  cases hsep : atSeparator line s._read_idx with
  | true => rw [hsep] at h; simp at h
  | false =>
    rw [hsep] at h
    cases hr : isFeatureValueFloat ops all line (read_name line s).2 with
    | timeout => rw [hr] at h; simp at h
    | thrown m t => rw [hr] at h; simp at h
    | ok r s2 =>
      rw [hr] at h
      simp only [Bool.not_false, Bool.true_and, Bool.and_eq_true] at h
      have hadv : Advanced s (featureValue ops line r s2).2 := by
        have h1 := isFeatureValueFloat_ensures ops all line (read_name line s).2
        rw [hr] at h1
        exact (read_name_advanced line s).trans_adv
          (h1.trans_adv (featureValue_advanced ops line r s2))
      have hanon : (featureValue ops line r s2).2._anon = s._anon := by
        have h1 := isFeatureValueFloat_anon ops all line (read_name line s).2
        rw [hr] at h1
        rw [featureValue_anon]
        exact h1
      have hfh := (featureHash_anon all (read_name line s).1 (featureValue ops line r s2).1
        (featureValue ops line r s2).2).2 h.1 h.2
      rw [hadv.1.channel_hash, hanon] at hfh
      have hadv2 := hadv.trans_adv (featureHash_advanced all (read_name line s).1
        (featureValue ops line r s2).1 (featureValue ops line r s2).2)
      rw [maybeFeature_of_ok ops all audit line s s2 r hsep hr]
      split
      · rename_i hz
        exact ⟨_, rfl, fun hnz => by rw [hz] at hnz; exact absurd hnz (by decide)⟩
      · refine ⟨_, rfl, fun _ => ?_⟩
        have hst := storeFeature_storedNext ops all audit (read_name line s).1
          (featureValue ops line r s2).1
          (featureHash all (read_name line s).1 (featureValue ops line r s2).1
            (featureValue ops line r s2).2).1
          (featureHash all (read_name line s).1 (featureValue ops line r s2).1
            (featureValue ops line r s2).2).2
        rw [hadv2.1.ae, hadv2.1.index] at hst
        rw [(storeFeature_same ops all audit _ _ _ _).1, ← hfh]
        exact hst

/-- The counter at the `j`-th call of `maybeFeature` of a section is the counter at the
start of the loop plus the number of earlier calls that reached the case of an anonymous
feature (modulo `2 ^ 64`), and the channel hash is the one at the start of the loop. -/
lemma listFeaturesCalls_anon {F : Type} (ops : FloatOps F) (all : vw F) (audit : Bool)
    (line : List Char) (n : Nat) (st : TCParser F) (j : Nat) (s : TCParser F)
    (hj : (listFeaturesCalls ops all audit line n st).get? j = some s) :
    s._anon % 2 ^ 64 = (st._anon + ((listFeaturesCalls ops all audit line n st).take j).countP
      (anonymousAt ops all line)) % 2 ^ 64 ∧
    s._channel_hash = st._channel_hash := by
  have h264 : (2 : Nat) ^ 64 = 18446744073709551616 := by norm_num
  induction n generalizing st j with
  | zero => simp [listFeaturesCalls] at hj
  | succ n ih =>
    unfold listFeaturesCalls at hj ⊢
    by_cases hb : atBlank line st._read_idx = true
    · simp only [hb, if_true] at hj ⊢
      cases j with
      | zero =>
        simp only [List.get?_cons_zero, Option.some.injEq] at hj
        subst hj
        simp
      | succ j =>
        simp only [List.get?_cons_succ] at hj
        cases hm : maybeFeature ops all audit line { st with _read_idx := st._read_idx + 1 } with
        | timeout => rw [hm] at hj; simp at hj
        | thrown m t => rw [hm] at hj; simp at hj
        | ok a s2 =>
          rw [hm] at hj
          simp only [] at hj
          obtain ⟨h1, h2⟩ := ih s2 j hj
          obtain ⟨h3, h4⟩ := maybeFeature_anon_step ops all audit line _ s2 hm
          refine ⟨?_, h2.trans h4⟩
          simp only [List.take_succ_cons, List.countP_cons]
          rw [h1, h3]
          by_cases ha : anonymousAt ops all line { st with _read_idx := st._read_idx + 1 } = true
          · simp only [ha, if_true]
            rw [h264]
            omega
          · simp only [ha, Bool.false_eq_true, if_false]
            rw [h264]
            omega
    · simp only [hb, Bool.false_eq_true, if_false] at hj
      simp at hj

lemma nameSpaceInfo_anon {F : Type} (ops : FloatOps F) (all : vw F) (audit : Bool)
    (line : List Char) (st : TCParser F) :
    (nameSpaceInfo ops all audit line st).Ensures (fun s' => s'._anon = st._anon) := by
  cases hne : nameEnd line st._read_idx with
  | true =>
    rw [nameSpaceInfo_error ops all audit line st hne]
    refine (parserWarning_log all _ _ _).mono_ensures (fun s hs => ?_)
    obtain ⟨w, rfl⟩ := hs
    rfl
  | false =>
    cases hget : line.get? st._read_idx with
    | none =>
      unfold nameEnd at hne
      rw [hget] at hne
      exact absurd hne (by decide)
    | some c =>
      exact (nameSpaceInfo_ensures ops all audit line st c hget hne).mono_ensures
        (fun s hs => hs.anon)

lemma Outcome.sameButAnon_refl {F : Type} (o : Outcome (TCParser F) Unit) :
    o.SameButAnon o := by
  cases o with
  | ok a s => exact ⟨s._anon, rfl⟩
  | thrown m s => exact ⟨rfl, s._anon, rfl⟩
  | timeout => trivial

/-- What `listNameSpace` leaves does not depend on the counter it starts from, except for
the counter itself when the line has no namespace section. -/
lemma listNameSpaceLoop_forget_anon {F : Type} (ops : FloatOps F) (all : vw F)
    (audit : Bool) (line : List Char) (n : Nat) (s : TCParser F) (x : Nat) :
    (listNameSpaceLoop ops all audit line n { s with _anon := x }).SameButAnon
      (listNameSpaceLoop ops all audit line n s) := by
  cases n with
  | zero =>
    unfold listNameSpaceLoop
    simp only []
    split
    · trivial
    · exact ⟨x, rfl⟩
  | succ n =>
    unfold listNameSpaceLoop
    simp only []
    split
    · have h : nameSpace ops all audit line
          { s with _anon := x, _read_idx := s._read_idx + 1 } =
          nameSpace ops all audit line { s with _read_idx := s._read_idx + 1 } := rfl
      rw [h]
      exact Outcome.sameButAnon_refl _
    · exact ⟨x, rfl⟩

lemma listNameSpace_forget_anon {F : Type} (ops : FloatOps F) (all : vw F)
    (audit : Bool) (line : List Char) (s : TCParser F) (x : Nat) :
    (listNameSpace ops all audit line { s with _anon := x }).SameButAnon
      (listNameSpace ops all audit line s) := by
  unfold listNameSpace
  have h := listNameSpaceLoop_forget_anon ops all audit line (line.length - s._read_idx) s x
  simp only []
  generalize listNameSpaceLoop ops all audit line (line.length - s._read_idx)
    { s with _anon := x } = o1 at h
  generalize listNameSpaceLoop ops all audit line (line.length - s._read_idx) s = o2 at h
  cases o1 with
  | timeout =>
    cases o2 with
    | timeout => trivial
    | ok a t => exact h.elim
    | thrown m t => exact h.elim
  | thrown m t1 =>
    cases o2 with
    | timeout => exact h.elim
    | ok a t => exact h.elim
    | thrown m' t2 => exact h
  | ok a t1 =>
    cases o2 with
    | timeout => exact h.elim
    | thrown m t => exact h.elim
    | ok b t2 =>
      obtain ⟨y, rfl⟩ := h
      simp only [Outcome.bind]
      cases hget : line.get? t2._read_idx with
      | none => exact ⟨y, rfl⟩
      | some c =>
        simp only []
        split
        · unfold parserWarning
          split
          · exact ⟨rfl, y, rfl⟩
          · exact ⟨y, rfl⟩
        · exact ⟨y, rfl⟩

/-- The example a line leaves, and whether the parse throws, do not depend on the value the
anonymous-feature counter had before the line. -/
lemma construct_forget_anon {F : Type} (ops : FloatOps F) (all : vw F) (audit : Bool)
    (line : List Char) (ae : Example F) (u : TCParser F) (x : Nat) :
    (TCParser.construct ops all audit line ae { u with _anon := x }).state?.map (·._ae) =
      (TCParser.construct ops all audit line ae u).state?.map (·._ae) ∧
    (TCParser.construct ops all audit line ae { u with _anon := x }).isThrown =
      (TCParser.construct ops all audit line ae u).isThrown := by
  unfold TCParser.construct
  split
  · have h := listNameSpace_forget_anon ops all audit line
      { u with _spelling := [], _read_idx := 0, _ae := ae } x
    generalize listNameSpace ops all audit line
      { u with _anon := x, _spelling := [], _read_idx := 0, _ae := ae } = o1 at h ⊢
    generalize listNameSpace ops all audit line
      { u with _spelling := [], _read_idx := 0, _ae := ae } = o2 at h ⊢
    cases o1 with
    | timeout =>
      cases o2 with
      | timeout => exact ⟨rfl, rfl⟩
      | ok a t => exact h.elim
      | thrown m t => exact h.elim
    | thrown m t1 =>
      cases o2 with
      | timeout => exact h.elim
      | ok a t => exact h.elim
      | thrown m' t2 =>
        obtain ⟨_, y, rfl⟩ := h
        exact ⟨rfl, rfl⟩
    | ok a t1 =>
      cases o2 with
      | timeout => exact h.elim
      | thrown m t => exact h.elim
      | ok b t2 =>
        obtain ⟨y, rfl⟩ := h
        exact ⟨rfl, rfl⟩
  · exact ⟨rfl, rfl⟩

lemma read_name_at_stop {F : Type} (line : List Char) (t : TCParser F)
    (h : nameEnd line t._read_idx = true) : read_name line t = ([], t) := by
  unfold read_name
  have hl : read_name_loop line (line.length - t._read_idx) t._read_idx = t._read_idx := by
    cases line.length - t._read_idx with
    | zero => rfl
    | succ n => unfold read_name_loop; rw [if_pos h]
  simp only [hl, Nat.sub_self, List.take_zero]

/-- A token `:v`, a colon followed by a float that is not NaN, reaches the case of an
anonymous feature. -/
lemma anonymousAt_colon_float {F : Type} (ops : FloatOps F) (all : vw F) (line : List Char)
    (t : TCParser F) (hc : line.get? t._read_idx = some ':')
    (hf : (all.parseFloat (line.drop (t._read_idx + 1))).2 ≠ 0)
    (hnan : ops.isNaN (all.parseFloat (line.drop (t._read_idx + 1))).1 = false) :
    anonymousAt ops all line t = true := by
  have hsep : atSeparator line t._read_idx = false := by
    unfold atSeparator; rw [hc]; decide
  have hstop : nameEnd line t._read_idx = true := by
    unfold nameEnd; rw [hc]; decide
  unfold anonymousAt
  rw [read_name_at_stop line t hstop]
  simp only [hsep, isFeatureValueFloat_float ops all line t hc hf hnan, featureValue]
  simp

/-- The recorded calls are the calls of the loop: the run of `listFeaturesLoop` passes
through the `j`-th recorded call, and goes on from what that call returns. -/
lemma listFeaturesLoop_through_call {F : Type} (ops : FloatOps F) (all : vw F) (audit : Bool)
    (line : List Char) (n : Nat) (st : TCParser F) (j : Nat) (s : TCParser F)
    (hj : (listFeaturesCalls ops all audit line n st).get? j = some s) :
    listFeaturesLoop ops all audit line n st =
      (maybeFeature ops all audit line s).bind
        fun _ s' => listFeaturesLoop ops all audit line (n - j - 1) s' := by
  induction n generalizing st j with
  | zero => simp [listFeaturesCalls] at hj
  | succ n ih =>
    unfold listFeaturesCalls at hj
    by_cases hb : atBlank line st._read_idx = true
    · simp only [hb, if_true] at hj
      rw [listFeaturesLoop_step ops all audit line n st hb]
      cases j with
      | zero =>
        simp only [List.get?_cons_zero, Option.some.injEq] at hj
        subst hj
        rfl
      | succ j =>
        simp only [List.get?_cons_succ] at hj
        cases hm : maybeFeature ops all audit line { st with _read_idx := st._read_idx + 1 } with
        | timeout => rw [hm] at hj; simp at hj
        | thrown m t => rw [hm] at hj; simp at hj
        | ok a s2 =>
          rw [hm] at hj
          simp only [] at hj
          have h := ih s2 j hj
          show listFeaturesLoop ops all audit line n s2 = _
          rw [h, show n + 1 - (j + 1) - 1 = n - j - 1 by omega]
    · simp only [hb, Bool.false_eq_true, if_false] at hj
      simp at hj

/-- C6. In the loop of `listFeatures` started in a state `st` whose counter is 0 (as it is at
the start of every section), let `s` be the state of the `j`-th call of `maybeFeature` and
let that call reach the case of an anonymous feature. Then the call returns, and the feature,
when its value is not 0, is stored in the current group with the hash
`(channel_hash + k) mod 2 ^ 64`, where `k` is the number of earlier calls of the section
that reached that case; the run of the loop passes through that call. A token `:v` (a colon and a float that is not NaN) reaches that
case. The counter is 0 when `listFeatures` starts, in an unnamed and in a named section
alike; what `nameSpace` does never depends on the counter before the bar, and the example a
line leaves never depends on the counter before the line. -/
theorem anonymous_feature_hash {F : Type} (ops : FloatOps F) (all : vw F) (audit : Bool)
    (line : List Char) (st : TCParser F) (n j : Nat) (s : TCParser F)
    (h0 : st._anon = 0)
    (hj : (listFeaturesCalls ops all audit line n st).get? j = some s)
    (hanon : anonymousAt ops all line s = true) :
    (∃ s', maybeFeature ops all audit line s = .ok () s' ∧
      (ops.isZero s'._v = false →
        StoredNext s._ae s'._ae s._index s'._v
          ((st._channel_hash + ((listFeaturesCalls ops all audit line n st).take j).countP
            (anonymousAt ops all line)) % 2 ^ 64))) ∧
    (listFeaturesLoop ops all audit line n st =
      (maybeFeature ops all audit line s).bind
        fun _ s' => listFeaturesLoop ops all audit line (n - j - 1) s') ∧
    (∀ t : TCParser F, line.get? t._read_idx = some ':' →
      (all.parseFloat (line.drop (t._read_idx + 1))).2 ≠ 0 →
      ops.isNaN (all.parseFloat (line.drop (t._read_idx + 1))).1 = false →
      anonymousAt ops all line t = true) ∧
    (∀ t : TCParser F, (unnamedSection all audit (nameSpaceReset ops t))._anon = 0 ∧
      (nameSpaceInfo ops all audit line (nameSpaceReset ops t)).Ensures
        (fun s => s._anon = 0)) ∧
    (∀ (t : TCParser F) (x : Nat),
      nameSpace ops all audit line { t with _anon := x } = nameSpace ops all audit line t) ∧
    (∀ (ae : Example F) (u : TCParser F) (x : Nat),
      (TCParser.construct ops all audit line ae { u with _anon := x }).state?.map (·._ae) =
        (TCParser.construct ops all audit line ae u).state?.map (·._ae) ∧
      (TCParser.construct ops all audit line ae { u with _anon := x }).isThrown =
        (TCParser.construct ops all audit line ae u).isThrown) := by
  have h264 : (2 : Nat) ^ 64 = 18446744073709551616 := by norm_num
  refine ⟨?_, listFeaturesLoop_through_call ops all audit line n st j s hj, ?_, ?_, ?_, ?_⟩
  · obtain ⟨s', hs', hst⟩ := maybeFeature_anonymous ops all audit line s hanon
    obtain ⟨ha, hc⟩ := listFeaturesCalls_anon ops all audit line n st j s hj
    refine ⟨s', hs', fun hnz => ?_⟩
    have h := hst hnz
    have he : (s._channel_hash + s._anon) % 2 ^ 64 =
        (st._channel_hash + ((listFeaturesCalls ops all audit line n st).take j).countP
          (anonymousAt ops all line)) % 2 ^ 64 := by
      rw [hc]
      rw [h0, Nat.zero_add] at ha
      rw [h264] at ha ⊢
      omega
    rw [he] at h
    exact h
  · exact fun t hc hf hnan => anonymousAt_colon_float ops all line t hc hf hnan
  · intro t
    exact ⟨(unnamedSection_fields all audit (nameSpaceReset ops t)).2.2.2.2.1,
      nameSpaceInfo_anon ops all audit line (nameSpaceReset ops t)⟩
  · exact fun t x => rfl
  · exact fun ae u x => construct_forget_anon ops all audit line ae u x

/-- C6 at a concrete input: in the line `| :3 x :0 :5` the fourth call of `maybeFeature`
reads `:5`; two anonymous tokens come before it (one of them dropped for its value 0), and
it is stored with the hash `channel_hash + 2`. The counter was 7 before the bar. -/
theorem anonymous_feature_hash_witness :
    ∃ s, sampleSectionState._anon = 0 ∧
      (listFeaturesCalls sampleOps (sampleVW false) false sampleAnonLine 11
        sampleSectionState).get? 3 = some s ∧
      anonymousAt sampleOps (sampleVW false) sampleAnonLine s = true ∧
      ∃ s', maybeFeature sampleOps (sampleVW false) false sampleAnonLine s = .ok () s' ∧
        (sampleOps.isZero s'._v = false →
          StoredNext s._ae s'._ae s._index s'._v
            ((sampleSectionState._channel_hash + 2) % 2 ^ 64)) := by
  have hsome : ((listFeaturesCalls sampleOps (sampleVW false) false sampleAnonLine 11
      sampleSectionState).get? 3).isSome = true := by rfl
  have hj := (Option.some_get hsome).symm
  have ha : anonymousAt sampleOps (sampleVW false) sampleAnonLine
      (((listFeaturesCalls sampleOps (sampleVW false) false sampleAnonLine 11
        sampleSectionState).get? 3).get hsome) = true := by rfl
  have hk : ((listFeaturesCalls sampleOps (sampleVW false) false sampleAnonLine 11
      sampleSectionState).take 3).countP
        (anonymousAt sampleOps (sampleVW false) sampleAnonLine) = 2 := by rfl
  have h := (anonymous_feature_hash sampleOps (sampleVW false) false sampleAnonLine
    sampleSectionState 11 3 _ rfl hj ha).1
  rw [hk] at h
  exact ⟨_, rfl, hj, ha, h⟩

/-! ## The group and the channel hash of a section (C7) -/

lemma setSpace_other {F : Type} (ae : Example F) (k j : Nat) (fs : features F) (h : j ≠ k) :
    (ae.setSpace k fs).feature_space j = ae.feature_space j := by
  simp only [Example.setSpace, h, if_false]

lemma augment_other {F : Type} (ae : Example F) (k j : Nat) (fs : features F) (c : Prop)
    [Decidable c] (h : j ≠ k) :
    ((if c then ae.pushIndex k else ae).setSpace k fs).feature_space j =
      ae.feature_space j := by
  rw [setSpace_other _ _ _ _ h]
  split <;> rfl

lemma dictionaryStep_other {F : Type} (ops : FloatOps F) (all : vw F) (audit : Bool)
    (feature_name : List Char) (index : Nat) (ae : Example F)
    (map : List Char → Option (features F)) (j : Nat) (h : j ≠ all.dictionary_namespace) :
    (dictionaryStep ops all audit feature_name index ae map).feature_space j =
      ae.feature_space j := by
  unfold dictionaryStep
  split
  · rfl
  · split
    · exact augment_other ae all.dictionary_namespace j _ _ h
    · rfl

lemma storeFeature_frame {F : Type} (ops : FloatOps F) (all : vw F) (audit : Bool)
    (feature_name sfv : List Char) (word_hash : Nat) (st : TCParser F) :
    Frame all st._ae (storeFeature ops all audit feature_name sfv word_hash st)._ae
      st._index := by
  intro j hg ha hs hd
  unfold storeFeature
  simp only []
  have h1 : (pushFeature ops audit feature_name sfv word_hash st).feature_space j =
      st._ae.feature_space j := by
    unfold pushFeature
    exact setSpace_other _ _ _ _ hg
  have h2 : ∀ t : TCParser F, (affixBlock ops all audit feature_name t)._ae.feature_space j =
      t._ae.feature_space j := by
    intro t
    unfold affixBlock
    split
    · exact augment_other t._ae all.affix_namespace j _ _ ha
    · rfl
  have h3 : ∀ t : TCParser F, (spellingBlock ops all audit feature_name t)._ae.feature_space j =
      t._ae.feature_space j := by
    intro t
    unfold spellingBlock
    split
    · exact augment_other t._ae all.spelling_namespace j _ _ hs
    · rfl
  have h4 : ∀ t : TCParser F,
      (dictionaryBlock ops all audit feature_name t)._ae.feature_space j =
        t._ae.feature_space j := by
    intro t
    unfold dictionaryBlock
    simp only []
    generalize all.namespace_dictionaries t._index = maps
    generalize t._ae = ae
    induction maps generalizing ae with
    | nil => rfl
    | cons m ms ih =>
      exact (ih _).trans (dictionaryStep_other ops all audit feature_name _ ae m j hd)
  rw [h4, h3, h2]
  exact h1

/-- Through `listFeatures` the group and the channel hash of the section do not change, and
only the feature space of the group and those of the three special namespaces are written. -/
lemma listFeatures_group {F : Type} (ops : FloatOps F) (all : vw F) (audit : Bool)
    (line : List Char) (st : TCParser F) (ae0 : Example F) (h : Frame all ae0 st._ae st._index) :
    (listFeatures ops all audit line st).Ensures (fun s' =>
      s'._index = st._index ∧ s'._channel_hash = st._channel_hash ∧
      Frame all ae0 s'._ae st._index) := by
  refine (listFeatures_ensures ops all audit line
    (fun s => s._index = st._index ∧ s._channel_hash = st._channel_hash ∧
      Frame all ae0 s._ae st._index)
    (fun s s' hs hss => ⟨hss.index.trans hs.1, hss.channel_hash.trans hs.2.1, by
      rw [hss.ae]; exact hs.2.2⟩)
    (fun s nm sfv wh hs _ => ?_) st ⟨rfl, rfl, h⟩).mono_ensures (fun _ hs => hs.1)
  obtain ⟨_, _, hi, hc, _, _⟩ := storeFeature_same ops all audit nm sfv wh s
  refine ⟨hi.trans hs.1, hc.trans hs.2.1, ?_⟩
  intro j hg ha hsp hd
  have := storeFeature_frame ops all audit nm sfv wh s j (by rw [hs.1]; exact hg) ha hsp hd
  rw [this]
  exact hs.2.2 j hg ha hsp hd

lemma nameSpace_close_group {F : Type} (all : vw F) (s : TCParser F) (ae0 : Example F)
    (g h : Nat)
    (hs : s._index = g ∧ s._channel_hash = h ∧ Frame all ae0 s._ae g) :
    (if s._new_index ∧ (s._ae.feature_space s._index).size > 0 then
        (Outcome.ok () { s with _ae := s._ae.pushIndex s._index } : Outcome (TCParser F) Unit)
      else .ok () s).Ensures (fun s' =>
        s'._index = g ∧ s'._channel_hash = h ∧ Frame all ae0 s'._ae g) := by
  split
  · exact ⟨hs.1, hs.2.1, hs.2.2⟩
  · exact hs

/-- A named section: the group is the one of the first byte of the name, the channel hash
is the hash of the name, and no other ordinary group is written. -/
lemma nameSpace_group_named {F : Type} (ops : FloatOps F) (all : vw F) (audit : Bool)
    (line : List Char) (t : TCParser F) (c : Char)
    (hc : line.get? t._read_idx = some c) (hne : nameEnd line t._read_idx = false) :
    (nameSpace ops all audit line t).Ensures (fun s' =>
      s'._index = groupOf all c ∧
      s'._channel_hash = all.hasher (read_name line t).1 all.hash_seed ∧
      Frame all t._ae s'._ae (groupOf all c)) := by
  have hsep : atSeparator line t._read_idx = false := by
    unfold nameEnd at hne
    rw [hc] at hne
    exact isNameStop_of_separator hc hne
  have hcolon : line.get? t._read_idx ≠ some ':' := by
    unfold nameEnd at hne
    rw [hc] at hne ⊢
    intro e
    cases e
    exact absurd hne (by decide)
  unfold nameSpace
  simp only []
  have hsep' : atSeparator line (nameSpaceReset ops t)._read_idx = false := hsep
  have hcolon' : line.get? (nameSpaceReset ops t)._read_idx ≠ some ':' := hcolon
  rw [if_neg (by rw [hsep']; exact Bool.false_ne_true), if_pos hcolon']
  refine @Outcome.Ensures.bind_ensures _ _ _ (fun s => s._index = groupOf all c ∧
      s._channel_hash = all.hasher (read_name line t).1 all.hash_seed ∧
      Frame all t._ae s._ae (groupOf all c)) _ _ _ ?_ (fun s hs => hs)
    (fun _ s hs => nameSpace_close_group all s t._ae _ _ hs)
  refine @Outcome.Ensures.bind_ensures _ _ _ (fun s => s._index = groupOf all c ∧
      s._channel_hash = all.hasher (read_name line t).1 all.hash_seed ∧
      Frame all t._ae s._ae (groupOf all c)) _ _ _ ?_ (fun s hs => hs) (fun _ s hs => ?_)
  · refine (nameSpaceInfo_ensures ops all audit line (nameSpaceReset ops t) c hc
      hne).mono_ensures (fun s hs => ⟨hs.index, hs.channel_hash, ?_⟩)
    intro j _ _ _ _
    rw [hs.ae]
    rfl
  · refine (listFeatures_group ops all audit line s t._ae (by rw [hs.1]; exact hs.2.2)).mono_ensures
      (fun s' hs' => ⟨hs'.1.trans hs.1, hs'.2.1.trans hs.2.1, ?_⟩)
    have := hs'.2.2
    rw [hs.1] at this
    exact this

/-- An unnamed section: the group is the space character, and no other ordinary group is
written. -/
lemma nameSpace_group_unnamed {F : Type} (ops : FloatOps F) (all : vw F) (audit : Bool)
    (line : List Char) (t : TCParser F) (hsep : atSeparator line t._read_idx = true) :
    (nameSpace ops all audit line t).Ensures (fun s' =>
      s'._index = 32 ∧
      s'._channel_hash = (if all.hash_seed = 0 then 0 else all.uniform_hash [] all.hash_seed) ∧
      Frame all t._ae s'._ae 32) := by
  unfold nameSpace
  simp only []
  have hsep' : atSeparator line (nameSpaceReset ops t)._read_idx = true := hsep
  rw [if_pos hsep']
  obtain ⟨hi, hae, _, _, _, _⟩ := unnamedSection_fields all audit (nameSpaceReset ops t)
  have hch : (unnamedSection all audit (nameSpaceReset ops t))._channel_hash =
      (if all.hash_seed = 0 then 0 else all.uniform_hash [] all.hash_seed) := rfl
  refine @Outcome.Ensures.bind_ensures _ _ _ (fun s => s._index = 32 ∧
      s._channel_hash = (if all.hash_seed = 0 then 0 else all.uniform_hash [] all.hash_seed) ∧
      Frame all t._ae s._ae 32) _ _ _ ?_ (fun s hs => hs)
    (fun _ s hs => nameSpace_close_group all s t._ae _ _ hs)
  refine (listFeatures_group ops all audit line _ t._ae ?_).mono_ensures
    (fun s' hs' => ⟨hs'.1.trans hi, hs'.2.1.trans hch, ?_⟩)
  · intro j _ _ _ _
    rw [hae]
    rfl
  · have := hs'.2.2
    rw [hi] at this
    exact this

/-- C7. For a named section, where the text after the bar is the non-empty run `name` of
characters that do not end a name, followed by the end of the line or by a character that
ends a name, `nameSpace` returns or throws with the group `_index` equal to the first byte
of the name, mapped through the table `redefine` when `redefine_some` is set, and with the
channel hash `hasher(name, hash_seed)`; for an unnamed section (the bar is followed by a
space, a tab, a bar, a CR or the end of the line) the group is 32, the space character. In
both cases the features of the section go to that group: no feature space other than the one
of the group and those of the affix, spelling and dictionary namespaces is changed. -/
theorem namespace_group_and_hash {F : Type} (ops : FloatOps F) (all : vw F) (audit : Bool)
    (pre name rest : List Char) (c : Char) (t : TCParser F)
    (hidx : t._read_idx = pre.length)
    (hname : ∀ d ∈ name, isNameStop d = false) (hc : name.head? = some c)
    (hrest : ∀ d, rest.head? = some d → isNameStop d = true) :
    (nameSpace ops all audit (pre ++ name ++ rest) t).Ensures (fun s' =>
      s'._index = (if all.redefine_some then all.redefine (c.toNat % 256) else c.toNat % 256) ∧
      s'._channel_hash = all.hasher name all.hash_seed ∧
      Frame all t._ae s'._ae
        (if all.redefine_some then all.redefine (c.toNat % 256) else c.toNat % 256)) ∧
    (∀ line (u : TCParser F), atSeparator line u._read_idx = true →
      (nameSpace ops all audit line u).Ensures (fun s' =>
        s'._index = 32 ∧ Frame all u._ae s'._ae 32)) := by
  constructor
  · obtain ⟨cs, rfl⟩ : ∃ cs, name = c :: cs := by
      cases name with
      | nil => simp at hc
      | cons d ds =>
        simp only [List.head?_cons, Option.some.injEq] at hc
        exact ⟨ds, by rw [hc]⟩
    have hget : (pre ++ c :: cs ++ rest).get? t._read_idx = some c := by
      rw [hidx, List.append_assoc, List.cons_append, get?_append_cons]
    have hne : nameEnd (pre ++ c :: cs ++ rest) t._read_idx = false := by
      unfold nameEnd
      rw [hget]
      exact hname c (List.mem_cons_self c cs)
    have hrn := read_name_run pre (c :: cs) rest t hidx hname hrest
    have h := nameSpace_group_named ops all audit (pre ++ c :: cs ++ rest) t c hget hne
    rw [hrn] at h
    exact h
  · intro line u hsep
    exact (nameSpace_group_unnamed ops all audit line u hsep).mono_ensures
      (fun s hs => ⟨hs.1, hs.2.2⟩)

/-- C7 at a concrete input: the section `|ab x` is written to group 97, the byte `a`, with
the channel hash of the name `ab`. -/
theorem namespace_group_and_hash_witness :
    ({ sampleState with _read_idx := 1 } : TCParser (Option Int))._read_idx = ['|'].length ∧
      (∀ d ∈ ['a', 'b'], isNameStop d = false) ∧ ['a', 'b'].head? = some 'a' ∧
      (∀ d, [' ', 'x'].head? = some d → isNameStop d = true) ∧
      (nameSpace sampleOps (sampleVW false) false (['|'] ++ ['a', 'b'] ++ [' ', 'x'])
        { sampleState with _read_idx := 1 }).Ensures (fun s' =>
          s'._index = 97 ∧ s'._channel_hash = sampleHasher ['a', 'b'] 0) :=
  ⟨rfl, by decide, rfl, fun d hd => by
      have : d = ' ' := by simpa using hd.symm
      rw [this]; decide,
    ((namespace_group_and_hash sampleOps (sampleVW false) false ['|'] ['a', 'b'] [' ', 'x'] 'a'
      { sampleState with _read_idx := 1 } rfl (by decide) rfl (fun d hd => by
        have : d = ' ' := by simpa using hd.symm
        rw [this]; decide)).1).mono_ensures (fun _ hs => ⟨hs.1, hs.2.1⟩)⟩

/-! ## Running the parser on a line of a known shape (C8, C9, C10) -/

lemma nameSpaceInfo_eq {F : Type} (ops : FloatOps F) (all : vw F) (audit : Bool)
    (line : List Char) (st : TCParser F) (c : Char) (hc : line.get? st._read_idx = some c)
    (hn : nameEnd line st._read_idx = false) :
    nameSpaceInfo ops all audit line st =
      nameSpaceInfoValue ops all line (namedSection all audit line st c) := by
  have hc' : (c == '|' || c == ' ' || c == '\t' || c == ':' || c == '\r') = false := by
    unfold nameEnd isNameStop at hn
    rw [hc] at hn
    simp only [Bool.or_eq_false_iff] at hn ⊢
    tauto
  unfold nameSpaceInfo namedSection
  simp only [hc, hc', Bool.false_eq_true, if_false]

lemma namedSection_fields {F : Type} (all : vw F) (audit : Bool) (line : List Char)
    (st : TCParser F) (c : Char) :
    (namedSection all audit line st c)._index = groupOf all c ∧
    (namedSection all audit line st c)._ae = st._ae ∧
    (namedSection all audit line st c)._read_idx = (read_name line st).2._read_idx ∧
    (namedSection all audit line st c)._channel_hash =
      all.hasher (read_name line st).1 all.hash_seed ∧
    (namedSection all audit line st c).warnings = st.warnings ∧
    (namedSection all audit line st c)._cur_channel_v = st._cur_channel_v := by
  unfold namedSection groupOf
  simp only []
  by_cases h0 : (st._ae.feature_space
      (if all.redefine_some then all.redefine (c.toNat % 256) else c.toNat % 256)).size = 0
  · simp only [h0, if_true]
    cases audit <;> exact ⟨rfl, rfl, rfl, rfl, rfl, rfl⟩
  · simp only [h0, if_false]
    cases audit <;> exact ⟨rfl, rfl, rfl, rfl, rfl, rfl⟩

/-- `nameSpace` on a named section. -/
lemma nameSpace_named {F : Type} (ops : FloatOps F) (all : vw F) (audit : Bool)
    (line : List Char) (st : TCParser F) (hsep : atSeparator line st._read_idx = false)
    (hcolon : line.get? st._read_idx ≠ some ':') :
    nameSpace ops all audit line st =
      ((nameSpaceInfo ops all audit line (nameSpaceReset ops st)).bind
        fun _ s => listFeatures ops all audit line s).bind fun _ s =>
          if s._new_index ∧ (s._ae.feature_space s._index).size > 0 then
            .ok () { s with _ae := s._ae.pushIndex s._index }
          else .ok () s := by
  unfold nameSpace
  simp only []
  have hsep' : atSeparator line (nameSpaceReset ops st)._read_idx = false := hsep
  have hcolon' : line.get? (nameSpaceReset ops st)._read_idx ≠ some ':' := hcolon
  rw [if_neg (by rw [hsep']; exact Bool.false_ne_true), if_pos hcolon']

/-- C8, amended. For the line `1 |a b:xyz`, of which the parser reads `|a b:xyz`, and a
float reader that consumes no character of `xyz`: whatever the strictness flag is, the parse
returns without throwing and without logging a warning, and `b` is stored as the next
feature of the group of `a` with value 1 and hash
`hasher(xyz, hasher(b, hasher(a, hash_seed))) & parse_mask` (1 is not 0 for the float
type). -/
theorem string_value_line_same_in_both_modes {F : Type} (ops : FloatOps F) (all : vw F)
    (audit : Bool) (ae : Example F) (u : TCParser F)
    (hfloat : (all.parseFloat ['x', 'y', 'z']).2 = 0)
    (hone : ops.isZero ops.one = false) :
    ∃ s, TCParser.construct ops all audit sampleStringLine ae u = .ok () s ∧
      s.warnings = u.warnings ∧
      StoredNext ae s._ae (groupOf all 'a') ops.one
        (all.hasher ['x', 'y', 'z'] (all.hasher ['b'] (all.hasher ['a'] all.hash_seed)) &&&
          all.parse_mask) := by
  have hN := namedSection_fields all audit sampleStringLine
    (nameSpaceReset ops { u with _spelling := [], _read_idx := 1, _ae := ae }) 'a'
  -- the header of the section
  have hinfo : nameSpaceInfo ops all audit sampleStringLine
      (nameSpaceReset ops { u with _spelling := [], _read_idx := 1, _ae := ae }) =
      .ok () (namedSection all audit sampleStringLine
        (nameSpaceReset ops { u with _spelling := [], _read_idx := 1, _ae := ae }) 'a') := by
    rw [nameSpaceInfo_eq ops all audit sampleStringLine _ 'a'
      (show sampleStringLine.get? 1 = some 'a' from rfl)
      (show nameEnd sampleStringLine 1 = false by decide)]
    unfold nameSpaceInfoValue
    rw [show (namedSection all audit sampleStringLine
        (nameSpaceReset ops { u with _spelling := [], _read_idx := 1, _ae := ae })
          'a')._read_idx = 2 from hN.2.2.1.trans rfl,
      if_pos (show atSeparator sampleStringLine 2 = true by decide)]
  have hns : nameSpace ops all audit sampleStringLine
      { u with _spelling := [], _read_idx := 1, _ae := ae } =
      (listFeatures ops all audit sampleStringLine
        (namedSection all audit sampleStringLine
          (nameSpaceReset ops { u with _spelling := [], _read_idx := 1, _ae := ae }) 'a')).bind
        fun _ s =>
          if s._new_index ∧ (s._ae.feature_space s._index).size > 0 then
            .ok () { s with _ae := s._ae.pushIndex s._index }
          else .ok () s := by
    rw [nameSpace_named ops all audit sampleStringLine _
      (show atSeparator sampleStringLine 1 = false by decide)
      (show sampleStringLine.get? 1 ≠ some ':' by decide), hinfo]
    rfl
  obtain ⟨hNi, hNae, hNidx, hNch, hNw, _⟩ := hN
  have hNidx2 : (namedSection all audit sampleStringLine
      (nameSpaceReset ops { u with _spelling := [], _read_idx := 1, _ae := ae }) 'a')._read_idx
        = 2 := hNidx
  have hNch2 : (namedSection all audit sampleStringLine
      (nameSpaceReset ops { u with _spelling := [], _read_idx := 1, _ae := ae })
        'a')._channel_hash = all.hasher ['a'] all.hash_seed := hNch
  have hNae2 : (namedSection all audit sampleStringLine
      (nameSpaceReset ops { u with _spelling := [], _read_idx := 1, _ae := ae }) 'a')._ae = ae :=
    hNae
  have hNw2 : (namedSection all audit sampleStringLine
      (nameSpaceReset ops { u with _spelling := [], _read_idx := 1, _ae := ae })
        'a').warnings = u.warnings := hNw
  generalize namedSection all audit sampleStringLine
    (nameSpaceReset ops { u with _spelling := [], _read_idx := 1, _ae := ae }) 'a' = sN
    at hns hNi hNidx2 hNch2 hNae2 hNw2
  -- the feature
  have hmf : maybeFeature ops all audit sampleStringLine { sN with _read_idx := 2 + 1 } =
      .ok () (storeFeature ops all audit ['b'] ['x', 'y', 'z']
        (all.hasher ['x', 'y', 'z'] (all.hasher ['b'] sN._channel_hash) &&& all.parse_mask)
        { sN with _read_idx := 8, _v := ops.one }) :=
    maybeFeature_string_run ops all audit ['|', 'a', ' '] ['b'] ['x', 'y', 'z'] []
      { sN with _read_idx := 3 } rfl (by decide) (by decide) (by decide)
      (fun c hc => by simp at hc) hfloat hone
  -- the loop of listFeatures
  have hlf : listFeatures ops all audit sampleStringLine sN =
      .ok () (storeFeature ops all audit ['b'] ['x', 'y', 'z']
        (all.hasher ['x', 'y', 'z'] (all.hasher ['b'] sN._channel_hash) &&& all.parse_mask)
        { sN with _read_idx := 8, _v := ops.one }) := by
    unfold listFeatures
    rw [hNidx2, show sampleStringLine.length - 2 = 5 + 1 from rfl,
      listFeaturesLoop_step ops all audit sampleStringLine 5 sN
        (by rw [hNidx2]; decide), hNidx2, hmf]
    simp only [Outcome.bind]
    rw [listFeaturesLoop_stop ops all audit sampleStringLine 5 _
      (by rw [storeFeature_read_idx]; show atBlank sampleStringLine 8 = false; decide)]
    simp only [storeFeature_read_idx]
    rw [if_neg (show ¬ ((!atSectionEnd sampleStringLine 8) = true) by decide)]
  rw [hlf] at hns
  simp only [Outcome.bind] at hns
  obtain ⟨_, _, hFi, _, _, hFw⟩ := storeFeature_same ops all audit ['b'] ['x', 'y', 'z']
    (all.hasher ['x', 'y', 'z'] (all.hasher ['b'] sN._channel_hash) &&& all.parse_mask)
    { sN with _read_idx := 8, _v := ops.one }
  have hFidx := storeFeature_read_idx ops all audit ['b'] ['x', 'y', 'z']
    (all.hasher ['x', 'y', 'z'] (all.hasher ['b'] sN._channel_hash) &&& all.parse_mask)
    { sN with _read_idx := 8, _v := ops.one }
  have hFst := storeFeature_storedNext ops all audit ['b'] ['x', 'y', 'z']
    (all.hasher ['x', 'y', 'z'] (all.hasher ['b'] sN._channel_hash) &&& all.parse_mask)
    { sN with _read_idx := 8, _v := ops.one }
  generalize storeFeature ops all audit ['b'] ['x', 'y', 'z']
    (all.hasher ['x', 'y', 'z'] (all.hasher ['b'] sN._channel_hash) &&& all.parse_mask)
    { sN with _read_idx := 8, _v := ops.one } = sF at hns hFi hFw hFidx hFst
  have hFst' : StoredNext ae sF._ae (groupOf all 'a') ops.one
      (all.hasher ['x', 'y', 'z'] (all.hasher ['b'] (all.hasher ['a'] all.hash_seed)) &&&
        all.parse_mask) := by
    have h := hFst
    simp only [hNae2, hNi, hNch2] at h
    exact h
  -- the whole line
  have hfin : ∀ s : TCParser F, s._read_idx = 8 →
      ((listNameSpaceLoop ops all audit sampleStringLine 7 s).bind fun _ s =>
        match sampleStringLine.get? s._read_idx with
        | none => .ok () s
        | some c =>
          if c != '\r' then
            parserWarning all .listNameSpaceMalformed (sampleStringLine.take s._read_idx) s
          else .ok () s) = .ok () s := by
    intro s hs
    rw [listNameSpaceLoop_stop ops all audit sampleStringLine 7 s (by rw [hs]; decide)]
    simp only [Outcome.bind, hs]
    rfl
  unfold TCParser.construct
  rw [if_pos (show (!sampleStringLine.isEmpty) = true by decide)]
  unfold listNameSpace
  rw [show sampleStringLine.length -
      ({ u with _spelling := [], _read_idx := 0, _ae := ae } : TCParser F)._read_idx =
        7 + 1 from rfl,
    listNameSpaceLoop_step ops all audit sampleStringLine 7 _
      (show sampleStringLine.get? 0 = some '|' from rfl)]
  rw [show ({ ({ u with _spelling := [], _read_idx := 0, _ae := ae } : TCParser F) with
      _read_idx := ({ u with _spelling := [], _read_idx := 0, _ae := ae } :
        TCParser F)._read_idx + 1 } : TCParser F) =
      { u with _spelling := [], _read_idx := 1, _ae := ae } from rfl, hns]
  by_cases hcl : sF._new_index = true ∧ (sF._ae.feature_space sF._index).size > 0
  · rw [if_pos hcl]
    simp only [Outcome.bind]
    refine ⟨_, hfin _ hFidx, hFw.trans hNw2, ?_⟩
    exact hFst'
  · rw [if_neg hcl]
    simp only [Outcome.bind]
    exact ⟨_, hfin _ hFidx, hFw.trans hNw2, hFst'⟩

/-- C8, counterexample to the claim as stated. With a float reader that, like `strtof`,
consumes nothing of `xyz`, the strict parse of `|a b:xyz` does not throw, and the non-strict
parse stores the value 1 for `b`, not 0, and logs no warning. -/
theorem non_numeric_value_is_no_error :
    (sampleVW true).strict_parse = true ∧
      ((sampleVW true).parseFloat ['x', 'y', 'z']).2 = 0 ∧
      (TCParser.construct sampleOps (sampleVW true) false sampleStringLine
        (Example.empty sampleOps) sampleState).isThrown = false ∧
      (TCParser.construct sampleOps (sampleVW true) false sampleStringLine
        (Example.empty sampleOps) sampleState).isOk = true ∧
      (TCParser.construct sampleOps (sampleVW false) false sampleStringLine
        (Example.empty sampleOps) sampleState).state?.map
          (fun s => ((s._ae.feature_space 97).values, s.warnings)) = some ([some 1], []) := by
  refine ⟨rfl, by rfl, by rfl, by rfl, by rfl⟩

/-- C8, the amended statement at a concrete input: the strict configuration. -/
theorem string_value_line_same_in_both_modes_witness :
    ((sampleVW true).parseFloat ['x', 'y', 'z']).2 = 0 ∧
      sampleOps.isZero sampleOps.one = false ∧
      ∃ s, TCParser.construct sampleOps (sampleVW true) false sampleStringLine
          (Example.empty sampleOps) sampleState = .ok () s ∧
        s.warnings = sampleState.warnings ∧
        StoredNext (Example.empty sampleOps) s._ae (groupOf (sampleVW true) 'a') sampleOps.one
          ((sampleVW true).hasher ['x', 'y', 'z']
            ((sampleVW true).hasher ['b'] ((sampleVW true).hasher ['a']
              (sampleVW true).hash_seed)) &&& (sampleVW true).parse_mask) :=
  ⟨by rfl, rfl, string_value_line_same_in_both_modes sampleOps (sampleVW true) false
    (Example.empty sampleOps) sampleState (by rfl) rfl⟩

/-- `nameSpace` when the bar is followed by a colon. -/
lemma nameSpace_colon {F : Type} (ops : FloatOps F) (all : vw F) (audit : Bool)
    (line : List Char) (st : TCParser F) (hc : line.get? st._read_idx = some ':') :
    nameSpace ops all audit line st =
      (parserWarning all .namespaceMalformed (line.take st._read_idx)
        (nameSpaceReset ops st)).bind fun _ s =>
          if s._new_index ∧ (s._ae.feature_space s._index).size > 0 then
            .ok () { s with _ae := s._ae.pushIndex s._index }
          else .ok () s := by
  have hsep : atSeparator line (nameSpaceReset ops st)._read_idx = false := by
    show atSeparator line st._read_idx = false
    unfold atSeparator; rw [hc]; decide
  have hc' : line.get? (nameSpaceReset ops st)._read_idx = some ':' := hc
  unfold nameSpace
  simp only []
  rw [if_neg (by rw [hsep]; exact Bool.false_ne_true), if_neg (by rw [hc']; exact fun h => h rfl)]
  rfl

/-- C9. Let the loop of `listNameSpace`, started on `st0`, stand at a bar in state `st`
(with `n + 1` iterations of budget left), the bar being immediately followed by a colon.
With the strict flag set the parse throws the strict-parse error of `nameSpace`, and the
example is the one of `st`. With the flag clear the parse returns: the example is exactly
the one of `st`, what was parsed before that bar (no feature is stored and no namespace is
recorded for the section), the read index stays on the colon (the rest of the line is not
read), and two warnings are logged. -/
theorem empty_namespace_id_stops_parse {F : Type} (ops : FloatOps F) (all : vw F)
    (audit : Bool) (line : List Char) (st0 st : TCParser F) (n : Nat)
    (hreach : listNameSpaceLoop ops all audit line (line.length - st0._read_idx) st0 =
      listNameSpaceLoop ops all audit line (n + 1) st)
    (hbar : line.get? st._read_idx = some '|')
    (hcolon : line.get? (st._read_idx + 1) = some ':') :
    (all.strict_parse = true →
      ∃ s', listNameSpace ops all audit line st0 =
          .thrown ⟨.namespaceMalformed, line.take (st._read_idx + 1)⟩ s' ∧
        s'._ae = st._ae) ∧
    (all.strict_parse = false →
      ∃ s', listNameSpace ops all audit line st0 = .ok () s' ∧
        s'._ae = st._ae ∧ s'._read_idx = st._read_idx + 1 ∧
        s'.warnings = st.warnings ++
          [⟨.namespaceMalformed, line.take (st._read_idx + 1)⟩,
            ⟨.listNameSpaceMalformed, line.take (st._read_idx + 1)⟩]) := by
  have hns := nameSpace_colon ops all audit line { st with _read_idx := st._read_idx + 1 } hcolon
  have hloop := listNameSpaceLoop_step ops all audit line n st hbar
  constructor
  · intro hstrict
    refine ⟨nameSpaceReset ops { st with _read_idx := st._read_idx + 1 }, ?_, rfl⟩
    unfold listNameSpace
    rw [hreach, hloop, hns]
    unfold parserWarning
    rw [if_pos hstrict]
    rfl
  · intro hlax
    have hlax' : ¬ (all.strict_parse = true) := by rw [hlax]; exact Bool.false_ne_true
    refine ⟨{ nameSpaceReset ops { st with _read_idx := st._read_idx + 1 } with
      warnings := st.warnings ++
        [⟨.namespaceMalformed, line.take (st._read_idx + 1)⟩,
          ⟨.listNameSpaceMalformed, line.take (st._read_idx + 1)⟩] }, ?_, rfl, rfl, rfl⟩
    unfold listNameSpace
    rw [hreach, hloop, hns]
    unfold parserWarning
    rw [if_neg hlax']
    simp only [Outcome.bind]
    rw [if_neg (by
      show ¬ ((nameSpaceReset ops { st with _read_idx := st._read_idx + 1 })._new_index = true ∧ _)
      exact fun h => absurd h.1 Bool.false_ne_true)]
    simp only []
    rw [listNameSpaceLoop_stop ops all audit line n _ (by
      show line.get? (st._read_idx + 1) ≠ some '|'
      rw [hcolon]; decide)]
    simp only []
    show (match line.get? (st._read_idx + 1) with
      | none => _
      | some c => _) = _
    rw [hcolon]
    simp only []
    rw [if_pos (by decide), if_neg hlax']
    simp only [List.append_assoc, List.singleton_append]
    rfl

/-- C9 at a concrete input: the line `| x |: y`, with the strict flag clear and set. In
both cases the example is the one left by the section `| x `. -/
theorem empty_namespace_id_stops_parse_witness :
    (listNameSpaceLoop sampleOps (sampleVW false) false sampleColonLine
        (sampleColonLine.length - sampleState._read_idx) sampleState =
      listNameSpaceLoop sampleOps (sampleVW false) false sampleColonLine (6 + 1)
        (sampleColonState false)) ∧
      sampleColonLine.get? (sampleColonState false)._read_idx = some '|' ∧
      sampleColonLine.get? ((sampleColonState false)._read_idx + 1) = some ':' ∧
      (∃ s', listNameSpace sampleOps (sampleVW false) false sampleColonLine sampleState =
          .ok () s' ∧
        s'._ae = (sampleColonState false)._ae ∧
        s'._read_idx = (sampleColonState false)._read_idx + 1 ∧
        s'.warnings = (sampleColonState false).warnings ++
          [⟨.namespaceMalformed, sampleColonLine.take ((sampleColonState false)._read_idx + 1)⟩,
            ⟨.listNameSpaceMalformed,
              sampleColonLine.take ((sampleColonState false)._read_idx + 1)⟩]) ∧
      (∃ s', listNameSpace sampleOps (sampleVW true) false sampleColonLine sampleState =
          .thrown ⟨.namespaceMalformed,
            sampleColonLine.take ((sampleColonState true)._read_idx + 1)⟩ s' ∧
        s'._ae = (sampleColonState true)._ae) ∧
      (sampleColonState false)._ae.indices = [32] :=
  ⟨by rfl, by rfl, by rfl,
    (empty_namespace_id_stops_parse sampleOps (sampleVW false) false sampleColonLine sampleState
      (sampleColonState false) 6 (by rfl) (by rfl) (by rfl)).2 rfl,
    (empty_namespace_id_stops_parse sampleOps (sampleVW true) false sampleColonLine sampleState
      (sampleColonState true) 6 (by rfl) (by rfl) (by rfl)).1 rfl,
    by rfl⟩

/-- C10. The strict parse of `|a:2`, a namespace `a` with the scale 2 as the last thing on
the line: for every configuration with the strict flag set whose float reader reads `2` as
`v` and consumes its one character, the parse throws the error "Float expected after" of
`nameSpaceInfoValue`, although the float is there and has become the scale. -/
theorem namespace_scale_at_line_end_throws {F : Type} (ops : FloatOps F) (all : vw F)
    (audit : Bool) (ae : Example F) (u : TCParser F) (v : F)
    (hstrict : all.strict_parse = true) (hpf : all.parseFloat ['2'] = (v, 1)) :
    ∃ s, TCParser.construct ops all audit ['|', 'a', ':', '2'] ae u =
        .thrown ⟨.namespaceFloatExpected, ['|', 'a', ':']⟩ s ∧
      s._cur_channel_v = v ∧ s._ae = ae := by
  have hN := namedSection_fields all audit ['|', 'a', ':', '2']
    (nameSpaceReset ops { u with _spelling := [], _read_idx := 1, _ae := ae }) 'a'
  have hNidx : (namedSection all audit ['|', 'a', ':', '2']
      (nameSpaceReset ops { u with _spelling := [], _read_idx := 1, _ae := ae }) 'a')._read_idx
        = 2 := hN.2.2.1.trans rfl
  have hNae : (namedSection all audit ['|', 'a', ':', '2']
      (nameSpaceReset ops { u with _spelling := [], _read_idx := 1, _ae := ae }) 'a')._ae = ae :=
    hN.2.1
  have hinfo : nameSpaceInfo ops all audit ['|', 'a', ':', '2']
      (nameSpaceReset ops { u with _spelling := [], _read_idx := 1, _ae := ae }) =
      .thrown ⟨.namespaceFloatExpected, ['|', 'a', ':']⟩
        { (namedSection all audit ['|', 'a', ':', '2']
            (nameSpaceReset ops { u with _spelling := [], _read_idx := 1, _ae := ae }) 'a') with
          _read_idx := 3, _cur_channel_v := v } := by
    rw [nameSpaceInfo_eq ops all audit ['|', 'a', ':', '2'] _ 'a'
      (show ['|', 'a', ':', '2'].get? 1 = some 'a' from rfl)
      (show nameEnd ['|', 'a', ':', '2'] 1 = false by decide)]
    unfold nameSpaceInfoValue
    rw [hNidx, if_neg (show ¬ (atSeparator ['|', 'a', ':', '2'] 2 = true) by decide),
      if_pos (show ['|', 'a', ':', '2'].get? 2 = some ':' from rfl)]
    simp only []
    rw [show (['|', 'a', ':', '2'] : List Char).drop (2 + 1) = ['2'] from rfl, hpf]
    simp only []
    rw [if_pos (show 1 + (2 + 1) ≥ (['|', 'a', ':', '2'] : List Char).length by decide)]
    unfold parserWarning
    rw [if_pos hstrict]
    rfl
  refine ⟨{ (namedSection all audit ['|', 'a', ':', '2']
      (nameSpaceReset ops { u with _spelling := [], _read_idx := 1, _ae := ae }) 'a') with
    _read_idx := 3, _cur_channel_v := v }, ?_, rfl, hNae⟩
  unfold TCParser.construct
  rw [if_pos (show (!(['|', 'a', ':', '2'] : List Char).isEmpty) = true by decide)]
  unfold listNameSpace
  rw [show (['|', 'a', ':', '2'] : List Char).length -
      ({ u with _spelling := [], _read_idx := 0, _ae := ae } : TCParser F)._read_idx =
        3 + 1 from rfl,
    listNameSpaceLoop_step ops all audit ['|', 'a', ':', '2'] 3 _
      (show ['|', 'a', ':', '2'].get? 0 = some '|' from rfl)]
  rw [show ({ ({ u with _spelling := [], _read_idx := 0, _ae := ae } : TCParser F) with
      _read_idx := ({ u with _spelling := [], _read_idx := 0, _ae := ae } :
        TCParser F)._read_idx + 1 } : TCParser F) =
      { u with _spelling := [], _read_idx := 1, _ae := ae } from rfl,
    nameSpace_named ops all audit ['|', 'a', ':', '2'] _
      (show atSeparator ['|', 'a', ':', '2'] 1 = false by decide)
      (show ['|', 'a', ':', '2'].get? 1 ≠ some ':' by decide), hinfo]
  rfl

/-- C10 at a concrete input: the strict configuration of the samples, whose float reader
reads `2` as the integer 2. -/
theorem namespace_scale_at_line_end_throws_witness :
    (sampleVW true).strict_parse = true ∧
      (sampleVW true).parseFloat ['2'] = (some 2, 1) ∧
      ∃ s, TCParser.construct sampleOps (sampleVW true) false ['|', 'a', ':', '2']
          (Example.empty sampleOps) sampleState =
            .thrown ⟨.namespaceFloatExpected, ['|', 'a', ':']⟩ s ∧
        s._cur_channel_v = some 2 ∧ s._ae = Example.empty sampleOps :=
  ⟨rfl, by rfl, namespace_scale_at_line_end_throws sampleOps (sampleVW true) false
    (Example.empty sampleOps) sampleState (some 2) rfl (by rfl)⟩

/-! ## Reading a line (C11, C12) -/

lemma get?_last_iff (l : List Char) (c : Char) :
    (l.length > 0 ∧ l.get? (l.length - 1) = some c) ↔ l.getLast? = some c := by
  rw [List.getLast?_eq_getElem?, List.get?_eq_getElem?]
  constructor
  · exact fun h => h.2
  · intro h
    refine ⟨?_, h⟩
    by_contra h0
    have : l = [] := List.length_eq_zero.mp (by omega)
    subst this
    simp at h

lemma dropTrailing_length (c : Char) (l : List Char) :
    (dropTrailing c l).length = if l.getLast? = some c then l.length - 1 else l.length := by
  unfold dropTrailing
  split <;> simp

lemma dropTrailing_eq_take (c : Char) (l : List Char) :
    dropTrailing c l = l.take (dropTrailing c l).length := by
  unfold dropTrailing
  split
  · rw [List.length_dropLast, List.dropLast_eq_take]
  · rw [List.take_length]

/-- The two trailing-byte tests of `read_features` (lines 31-32) on a line of which
`line.length` bytes are counted. -/
lemma line_end_stripped (line : List Char) :
    let n1 := if line.length > 0 ∧ line.get? (line.length - 1) = some '\n' then
      line.length - 1 else line.length
    let n2 := if n1 > 0 ∧ line.get? (n1 - 1) = some '\r' then n1 - 1 else n1
    n2 = (dropTrailing '\r' (dropTrailing '\n' line)).length ∧
      line.take n2 = dropTrailing '\r' (dropTrailing '\n' line) := by
  intro n1 n2
  have h1 : n1 = (dropTrailing '\n' line).length := by
    show (if _ then _ else _) = _
    rw [dropTrailing_length]
    by_cases h : line.getLast? = some '\n'
    · rw [if_pos ((get?_last_iff _ _).mpr h), if_pos h]
    · rw [if_neg (fun h' => h ((get?_last_iff _ _).mp h')), if_neg h]
  have ht : dropTrailing '\n' line = line.take n1 := by
    rw [h1]; exact dropTrailing_eq_take _ _
  have hle : n1 ≤ line.length := by
    rw [h1, dropTrailing_length]; split <;> omega
  have hget : ∀ i, i < n1 → line.get? i = (dropTrailing '\n' line).get? i := by
    intro i hi
    rw [ht, List.get?_eq_getElem?, List.get?_eq_getElem?, List.getElem?_take_of_lt hi]
  have h2 : n2 = (dropTrailing '\r' (dropTrailing '\n' line)).length := by
    show (if _ then _ else _) = _
    rw [dropTrailing_length]
    by_cases h : (dropTrailing '\n' line).getLast? = some '\r'
    · have h' := (get?_last_iff _ _).mpr h
      rw [← h1] at h'
      rw [if_pos ⟨h'.1, by rw [hget _ (by omega)]; exact h'.2⟩, if_pos h, h1]
    · rw [if_neg, if_neg h, h1]
      rintro ⟨hp, hq⟩
      apply h
      apply (get?_last_iff _ _).mp
      rw [← h1]
      exact ⟨hp, by rw [← hget _ (by omega)]; exact hq⟩
  refine ⟨h2, ?_⟩
  rw [h2]
  have h3 := dropTrailing_eq_take '\r' (dropTrailing '\n' line)
  have hle2 : (dropTrailing '\r' (dropTrailing '\n' line)).length ≤ n1 := by
    rw [dropTrailing_length, ← h1]; split <;> omega
  generalize dropTrailing '\r' (dropTrailing '\n' line) = dd at h3 hle2 ⊢
  rw [ht, List.take_take, min_eq_left hle2] at h3
  exact h3.symm

lemma withoutBom_append (rest : List Char) : withoutBom (utf8Bom ++ rest) = rest := by
  unfold withoutBom
  rw [if_pos (by simp [utf8Bom, List.isPrefixOf])]
  rfl

/-- The test of line 26 is the test for the three leading bytes. -/
lemma bom_test (raw : List Char) :
    (raw.get? 0 == some (Char.ofNat 0xef) && decide (raw.length ≥ 3) &&
      raw.get? 1 == some (Char.ofNat 0xbb) && raw.get? 2 == some (Char.ofNat 0xbf)) =
      utf8Bom.isPrefixOf raw := by
  match raw with
  | [] => rfl
  | [a] => simp [utf8Bom, List.isPrefixOf]
  | [a, b] => simp [utf8Bom, List.isPrefixOf]
  | a :: b :: c :: rest =>
    simp only [utf8Bom, List.isPrefixOf, List.get?, List.length_cons]
    have : decide (rest.length + 1 + 1 + 1 ≥ 3) = true := by simp
    rw [this, Bool.eq_iff_iff]
    simp only [Bool.and_true, Bool.and_eq_true, beq_iff_eq, Option.some.injEq,
      @eq_comm _ (Char.ofNat 0xef) a, @eq_comm _ (Char.ofNat 0xbb) b,
      @eq_comm _ (Char.ofNat 0xbf) c]
    tauto

/-- C12. `read_features` returns the raw number of bytes read; when at least one byte was
read, the line handed back is the raw line without its three leading bytes EF BB BF, if it
begins with them, and the text the caller sees (`num_chars` bytes from `line` on) is that
line without one trailing LF and then without one trailing CR. For raw bytes that begin
with EF BB BF the line starts three bytes later. -/
theorem read_features_strips_bom_then_line_end (raw : List Char) (num_chars0 : Nat) :
    (read_features raw num_chars0).ret = raw.length ∧
      (raw ≠ [] →
        (read_features raw num_chars0).line = withoutBom raw ∧
        (read_features raw num_chars0).num_chars =
          (dropTrailing '\r' (dropTrailing '\n' (withoutBom raw))).length ∧
        (read_features raw num_chars0).view =
          dropTrailing '\r' (dropTrailing '\n' (withoutBom raw))) ∧
      (∀ rest, raw = utf8Bom ++ rest →
        (read_features raw num_chars0).line = rest ∧
        (read_features raw num_chars0).view = dropTrailing '\r' (dropTrailing '\n' rest) ∧
        (read_features raw num_chars0).ret = rest.length + 3) := by
  have hret : (read_features raw num_chars0).ret = raw.length := by
    unfold read_features; simp only []; split <;> rfl
  have hmain : raw ≠ [] →
      (read_features raw num_chars0).line = withoutBom raw ∧
      (read_features raw num_chars0).num_chars =
        (dropTrailing '\r' (dropTrailing '\n' (withoutBom raw))).length ∧
      (read_features raw num_chars0).view =
        dropTrailing '\r' (dropTrailing '\n' (withoutBom raw)) := by
    intro hne
    have hlen : ¬ raw.length < 1 := by
      intro h; exact hne (List.length_eq_zero.mp (by omega))
    have hline : (if utf8Bom.isPrefixOf raw = true then raw.drop 3 else raw) = withoutBom raw := rfl
    have hn : (if utf8Bom.isPrefixOf raw = true then raw.length - 3 else raw.length) =
        (withoutBom raw).length := by
      unfold withoutBom; split <;> simp
    have h := line_end_stripped (withoutBom raw)
    simp only [] at h
    unfold ReadLine.view read_features
    simp only [if_neg hlen, bom_test, hline, hn]
    exact ⟨trivial, h.1, h.2⟩
  refine ⟨hret, hmain, fun rest hr => ?_⟩
  have hne : raw ≠ [] := by rw [hr]; simp [utf8Bom]
  have h := hmain hne
  rw [hr, withoutBom_append] at h
  rw [hr] at hret
  refine ⟨by rw [hr]; exact h.1, by rw [hr]; exact h.2.2, ?_⟩
  rw [hr, hret]; simp [utf8Bom]

/-! ## The tag is not touched by the feature parser -/

lemma storeFeature_tag {F : Type} (ops : FloatOps F) (all : vw F) (audit : Bool)
    (feature_name sfv : List Char) (word_hash : Nat) (st : TCParser F) :
    (storeFeature ops all audit feature_name sfv word_hash st)._ae.tag = st._ae.tag := by
  have h2 : ∀ t : TCParser F, (affixBlock ops all audit feature_name t)._ae.tag = t._ae.tag := by
    intro t
    unfold affixBlock
    split
    · simp only [Example.setSpace]; split <;> rfl
    · rfl
  have h3 : ∀ t : TCParser F,
      (spellingBlock ops all audit feature_name t)._ae.tag = t._ae.tag := by
    intro t
    unfold spellingBlock
    split
    · simp only [Example.setSpace]; split <;> rfl
    · rfl
  have h5 : ∀ (ae : Example F) (idx : Nat) (m : List Char → Option (features F)),
      (dictionaryStep ops all audit feature_name idx ae m).tag = ae.tag := by
    intro ae idx m
    unfold dictionaryStep
    split
    · rfl
    · split
      · simp only [Example.setSpace]; split <;> rfl
      · rfl
  have h4 : ∀ t : TCParser F,
      (dictionaryBlock ops all audit feature_name t)._ae.tag = t._ae.tag := by
    intro t
    unfold dictionaryBlock
    simp only []
    generalize all.namespace_dictionaries t._index = maps
    generalize t._ae = ae
    induction maps generalizing ae with
    | nil => rfl
    | cons m ms ih => exact (ih _).trans (h5 ae _ m)
  unfold storeFeature
  simp only []
  rw [h4, h3, h2]
  rfl

/-- The tag of the example is the same after one namespace section. -/
lemma nameSpace_tag {F : Type} (ops : FloatOps F) (all : vw F) (audit : Bool)
    (line : List Char) (t : List Char) (st : TCParser F) (h : st._ae.tag = t) :
    (nameSpace ops all audit line st).Ensures
      (fun s' => s'._ae.tag = t ∧ st._read_idx ≤ s'._read_idx) := by
  have hlf : ∀ s : TCParser F, s._ae.tag = t →
      (listFeatures ops all audit line s).Ensures
        (fun s' => s'._ae.tag = t ∧ s._read_idx ≤ s'._read_idx) := fun s hs =>
    listFeatures_ensures ops all audit line (fun s => s._ae.tag = t)
      (fun s s' hs hss => by show s'._ae.tag = t; rw [hss.ae]; exact hs)
      (fun s nm sfv wh hs _ => (storeFeature_tag ops all audit nm sfv wh s).trans hs) s hs
  unfold nameSpace
  simp only []
  refine @Outcome.Ensures.bind_ensures _ _ _
    (fun s => s._ae.tag = t ∧ st._read_idx ≤ s._read_idx) _ _ _ ?_ (fun s hs => hs)
    (fun _ s hs => ?_)
  · split
    · obtain ⟨_, hae, hidx, _, _, _⟩ := unnamedSection_fields all audit (nameSpaceReset ops st)
      refine (hlf _ (by rw [hae]; exact h)).mono_ensures (fun s hs => ⟨hs.1, ?_⟩)
      exact le_trans (le_of_eq hidx.symm) hs.2
    · split
      · rename_i hsep hcolon
        obtain ⟨c, hc, hne⟩ := nameEnd_false_of (by simpa using hsep) hcolon
        refine @Outcome.Ensures.bind_ensures _ _ _
          (fun s => s._ae.tag = t ∧ st._read_idx ≤ s._read_idx) _ _ _ ?_ (fun s hs => hs)
          (fun _ s hs => ?_)
        · refine (nameSpaceInfo_ensures ops all audit line (nameSpaceReset ops st) c hc
            hne).mono_ensures (fun s hs => ⟨?_, hs.read_idx⟩)
          rw [hs.ae]; exact h
        · exact (hlf s hs.1).mono_ensures (fun s' hs' => ⟨hs'.1, le_trans hs.2 hs'.2⟩)
      · refine (parserWarning_ensures all _ _ _).mono_ensures (fun s hs => ⟨?_, hs.2⟩)
        rw [hs.1.ae]; exact h
  · split
    · exact hs
    · exact hs

/-- The tag of the example is the same after the feature parser ran, whether it returned
or threw. -/
lemma construct_tag {F : Type} (ops : FloatOps F) (all : vw F) (audit : Bool)
    (line : List Char) (ae : Example F) (u : TCParser F) :
    (TCParser.construct ops all audit line ae u).Ensures (fun s => s._ae.tag = ae.tag) :=
  construct_ensures ops all audit line (fun e => e.tag = ae.tag)
    (fun s hs => nameSpace_tag ops all audit line ae.tag s hs) (fun _ h => h) ae u rfl

/-! ## The tokens of the label section -/

lemma tokenizeFrom_pending (d : Char) (cs : List Char) (pos tok : Nat) (h : tok < pos) :
    tokenizeFrom d cs pos tok ≠ [] := by
  induction cs generalizing pos with
  | nil => simp [tokenizeFrom, h]
  | cons c cs ih =>
    unfold tokenizeFrom
    split
    · simp [h]
    · exact ih (pos + 1) (by omega)

lemma tokenizeFrom_nil (d : Char) (cs : List Char) (pos : Nat)
    (h : tokenizeFrom d cs pos pos = []) : ∀ c ∈ cs, c = d := by
  induction cs generalizing pos with
  | nil => simp
  | cons c cs ih =>
    unfold tokenizeFrom at h
    split at h
    · rename_i hc
      simp only [lt_self_iff_false, if_false, List.nil_append] at h
      intro x hx
      rcases List.mem_cons.mp hx with rfl | hx
      · exact hc
      · exact ih _ h x hx
    · exact absurd h (tokenizeFrom_pending d cs (pos + 1) pos (by omega))

lemma splitOn_single (d : Char) (pre : List Char) (h : d ∉ pre) : pre.splitOn d = [pre] :=
  List.splitOnP_eq_single (fun x => x == d) pre
    (fun x hx hp => h (by rw [← beq_iff_eq.mp hp]; exact hx))

lemma splitOn_first (d : Char) (pre cs : List Char) (h : d ∉ pre) :
    (pre ++ d :: cs).splitOn d = pre :: cs.splitOn d :=
  List.splitOnP_first (fun x => x == d) pre
    (fun x hx hp => h (by rw [← beq_iff_eq.mp hp]; exact hx)) d (beq_self_eq_true d) cs

lemma getLast?_append_cons (pre : List Char) (c : Char) (cs : List Char) :
    (pre ++ c :: cs).getLast? = some (cs.getLast?.getD c) := by
  simp [List.getLast?_append, List.getLast?_cons]

/-- The texts of the pieces `tokenize` returns are the non-empty pieces between the
delimiters. -/
lemma tokenizeFrom_text (d : Char) (line : List Char) (cs : List Char) :
    ∀ (pre : List Char) (tok : Nat) (after : List Char), d ∉ pre →
      line.drop tok = pre ++ cs ++ after →
      (tokenizeFrom d cs (tok + pre.length) tok).map (string_view.text line) =
        ((pre ++ cs).splitOn d).filter (fun t => !t.isEmpty) := by
  induction cs with
  | nil =>
    intro pre tok after hd hl
    have htext : string_view.text line { start := tok, size := tok + pre.length - tok } = pre := by
      simp only [string_view.text, hl, Nat.add_sub_cancel_left, List.append_nil]
      rw [List.take_append_of_le_length (le_refl _), List.take_length]
    rw [List.append_nil, splitOn_single d pre hd]
    unfold tokenizeFrom
    cases pre with
    | nil => simp
    | cons a as =>
      rw [if_pos (by simp)]
      simp only [List.map_cons, List.map_nil, htext]
      simp
  | cons c cs ih =>
    intro pre tok after hd hl
    unfold tokenizeFrom
    split
    · rename_i hc
      subst hc
      have hl' : line.drop (tok + pre.length + 1) = [] ++ cs ++ after := by
        rw [show tok + pre.length + 1 = tok + (pre.length + 1) by omega, ← List.drop_drop, hl]
        simp
      have h1 := ih [] (tok + pre.length + 1) after (by simp) hl'
      simp only [List.length_nil, Nat.add_zero, List.nil_append] at h1
      rw [List.map_append, h1, splitOn_first c pre cs hd, List.filter_cons]
      have htext : string_view.text line { start := tok, size := tok + pre.length - tok } =
          pre := by
        simp only [string_view.text, hl, Nat.add_sub_cancel_left]
        rw [List.append_assoc, List.take_append_of_le_length (le_refl _), List.take_length]
      cases pre with
      | nil => simp
      | cons a as =>
        rw [if_pos (by simp)]
        simp only [List.map_cons, List.map_nil, htext]
        simp
    · rename_i hc
      have h1 := ih (pre ++ [c]) tok after
        (by simp only [List.mem_append, List.mem_singleton, not_or]
            exact ⟨hd, fun h => hc h.symm⟩)
        (by rw [hl]; simp)
      rw [List.length_append, List.length_singleton, ← Nat.add_assoc] at h1
      rw [h1]
      simp

/-- The last piece ends where the text ends exactly when the text does not end with the
delimiter. -/
lemma tokenizeFrom_last_stop (d : Char) (cs : List Char) :
    ∀ (pre : List Char) (tok : Nat), d ∉ pre →
      ∀ v, (tokenizeFrom d cs (tok + pre.length) tok).getLast? = some v →
        (v.stop = tok + pre.length + cs.length ↔ (pre ++ cs).getLast? ≠ some d) := by
  induction cs with
  | nil =>
    intro pre tok hd v hv
    unfold tokenizeFrom at hv
    split at hv
    · simp only [List.getLast?_singleton, Option.some.injEq] at hv
      subst hv
      simp only [string_view.stop, List.length_nil, List.append_nil, Nat.add_zero]
      refine ⟨fun _ h => hd (List.mem_of_getLast?_eq_some h), fun _ => by omega⟩
    · simp at hv
  | cons c cs ih =>
    intro pre tok hd v hv
    unfold tokenizeFrom at hv
    split at hv
    · rename_i hc
      subst hc
      cases hT : tokenizeFrom c cs (tok + pre.length + 1) (tok + pre.length + 1) with
      | nil =>
        rw [hT, List.append_nil] at hv
        have hall := tokenizeFrom_nil c cs _ hT
        have hlast : (pre ++ c :: cs).getLast? = some c := by
          rw [getLast?_append_cons]
          cases hcs : cs.getLast? with
          | none => rfl
          | some x => rw [hall x (List.mem_of_getLast?_eq_some hcs)]; rfl
        split at hv
        · simp only [List.getLast?_singleton, Option.some.injEq] at hv
          subst hv
          simp only [string_view.stop, List.length_cons, hlast]
          constructor
          · intro h; omega
          · intro h; exact absurd rfl h
        · simp at hv
      | cons t ts =>
        rw [hT] at hv
        have hv' : (tokenizeFrom c cs (tok + pre.length + 1 + ([] : List Char).length)
            (tok + pre.length + 1)).getLast? = some v := by
          rw [List.length_nil, Nat.add_zero, hT]
          rw [List.getLast?_append] at hv
          cases hq : (t :: ts).getLast? with
          | none => simp at hq
          | some q => rw [hq] at hv; simpa using hv
        have h1 := ih [] (tok + pre.length + 1) (by simp) v hv'
        simp only [List.length_nil, Nat.add_zero, List.nil_append] at h1
        have hne : cs ≠ [] := by
          intro h0; subst h0
          simp [tokenizeFrom] at hT
        have hlast : (pre ++ c :: cs).getLast? = cs.getLast? := by
          rw [getLast?_append_cons]
          cases hcs : cs.getLast? with
          | none => exact absurd (List.getLast?_eq_none_iff.mp hcs) hne
          | some x => rfl
        rw [hlast, ← h1, List.length_cons]
        constructor <;> intro h <;> omega
    · rename_i hc
      have h1 := ih (pre ++ [c]) tok
        (by simp only [List.mem_append, List.mem_singleton, not_or]
            exact ⟨hd, fun h => hc h.symm⟩) v
        (by rw [List.length_append, List.length_singleton, ← Nat.add_assoc]; exact hv)
      rw [List.length_append, List.length_singleton, List.append_assoc] at h1
      rw [List.length_cons]
      simp only [List.singleton_append] at h1
      rw [← h1]
      constructor <;> intro h <;> omega

/-! ## The label section (C11, C13) -/

lemma find_first_some_split (p : Char → Bool) :
    ∀ (l : List Char) (b : Nat), find_first p l = some b →
      l.takeWhile (fun c => !p c) = l.take b ∧ l.dropWhile (fun c => !p c) = l.drop b ∧
      b < l.length ∧ ∃ c ∈ l, p c = true := by
  intro l
  induction l with
  | nil => intro b h; simp [find_first] at h
  | cons a as ih =>
    intro b h
    unfold find_first at h
    by_cases hp : p a = true
    · rw [if_pos hp] at h
      cases h
      simp [List.takeWhile, List.dropWhile, hp]
    · rw [if_neg hp] at h
      cases hf : find_first p as with
      | none => rw [hf] at h; simp at h
      | some k =>
        rw [hf] at h
        simp only [Option.map_some', Option.some.injEq] at h
        subst h
        obtain ⟨h1, h2, h3, c, hc, hpc⟩ := ih k hf
        have hp' : p a = false := by simpa using hp
        refine ⟨?_, ?_, ?_, c, List.mem_cons_of_mem _ hc, hpc⟩
        · simp [List.takeWhile, hp', h1]
        · simp [List.dropWhile, hp', h2]
        · simp; omega

lemma find_first_none_all (p : Char → Bool) :
    ∀ (l : List Char), find_first p l = none →
      l.takeWhile (fun c => !p c) = l ∧ ∀ c ∈ l, p c = false := by
  intro l
  induction l with
  | nil => intro _; simp
  | cons a as ih =>
    intro h
    unfold find_first at h
    by_cases hp : p a = true
    · rw [if_pos hp] at h; simp at h
    · rw [if_neg hp] at h
      have hp' : p a = false := by simpa using hp
      cases hf : find_first p as with
      | some k => rw [hf] at h; simp at h
      | none =>
        obtain ⟨h1, h2⟩ := ih hf
        refine ⟨by simp [List.takeWhile, hp', h1], ?_⟩
        intro c hc
        rcases List.mem_cons.mp hc with rfl | hc
        · exact hp'
        · exact h2 c hc

/-- The view `label_space` holds the label section: the text before the first bar, after
its first tab. -/
lemma labelSpace_spec (line : List Char) :
    ∃ s after, labelSpace line (find_first (fun c => c == '|') line) =
        { start := s, size := (labelText line).length } ∧
      line.drop s = labelText line ++ after := by
  -- the view before the tab is cut
  have h0 : ∃ rest0, cutAtBar line (find_first (fun c => c == '|') line) =
        { start := 0, size := (beforeBar line).length } ∧ line = beforeBar line ++ rest0 := by
    unfold cutAtBar
    cases hb : find_first (fun c => c == '|') line with
    | none =>
      have h := (find_first_none_all _ line hb).1
      have hbb : beforeBar line = line := h
      exact ⟨[], by simp only [hbb], by rw [hbb, List.append_nil]⟩
    | some b =>
      obtain ⟨h1, _, h3, _⟩ := find_first_some_split _ line b hb
      have hbb : beforeBar line = line.take b := h1
      refine ⟨line.drop b, ?_, by rw [hbb, List.take_append_drop]⟩
      simp only [hbb, List.length_take]
      congr 1
      omega
  obtain ⟨rest0, hv, hline⟩ := h0
  have hgen : ∀ bb : List Char, line = bb ++ rest0 →
      string_view.text line { start := 0, size := bb.length } = bb := by
    intro bb h
    simp only [string_view.text, List.drop_zero]
    rw [h, List.take_append_of_le_length (le_refl _), List.take_length]
  have htext := hgen _ hline
  unfold labelSpace cutAfterTab
  simp only []
  rw [hv, htext]
  cases ht : find_first (fun c => c == '\t') (beforeBar line) with
  | none =>
    have h := (find_first_none_all _ _ ht).2
    have hno : '\t' ∉ beforeBar line := fun hm => by
      have := h _ hm
      simp at this
    have hlt : labelText line = beforeBar line := by
      unfold labelText afterFirstTab
      rw [if_neg hno]
    exact ⟨0, rest0, by simp only [hlt], by rw [hlt, List.drop_zero]; exact hline⟩
  | some t =>
    obtain ⟨_, h2, h3, c, hc, hpc⟩ := find_first_some_split _ _ t ht
    have hmem : '\t' ∈ beforeBar line := by
      have : c = '\t' := by simpa using hpc
      rw [← this]; exact hc
    have hlt : labelText line = (beforeBar line).drop (t + 1) := by
      unfold labelText afterFirstTab
      rw [if_pos hmem]
      have h2' : (beforeBar line).dropWhile (fun c => c != '\t') = (beforeBar line).drop t := h2
      rw [h2', List.drop_drop]
    refine ⟨t + 1, rest0, ?_, ?_⟩
    · simp only [hlt, List.length_drop, Nat.zero_add]
    · rw [hlt]
      have hd : ∀ bb : List Char, line = bb ++ rest0 → t + 1 ≤ bb.length →
          line.drop (t + 1) = bb.drop (t + 1) ++ rest0 := by
        intro bb h hle
        rw [h, List.drop_append_of_le_length hle]
      exact hd _ hline (by omega)

lemma text_without_first (line : List Char) (v : string_view) :
    string_view.text line { start := v.start + 1, size := v.size - 1 } =
      (string_view.text line v).drop 1 := by
  simp only [string_view.text]
  rw [List.drop_take, ← List.drop_drop]

lemma spaceTokens_nil : spaceTokens [] = [] := by
  simp [spaceTokens]

/-- Lines 485-507 in the words of the specification: the tokens left in `words` are the
label tokens, and the tag text is appended to the tag exactly when the last token is a
tag. -/
lemma labelSection_spec {F L : Type} (line : List Char) (st : LineState F L)
    (hw : st.words = []) :
    ∃ W, labelSection line (find_first (fun c => c == '|') line) st =
        { st with
          words := W
          ae := { st.ae with
            tag := st.ae.tag ++ (if lastIsTag line then tagText line else []) } } ∧
      W.map (string_view.text line) = labelTokens line := by
  obtain ⟨s, after, hls, hdrop⟩ := labelSpace_spec line
  have htext0 : string_view.text line { start := s, size := (labelText line).length } =
      labelText line := by
    simp only [string_view.text, hdrop]
    rw [List.take_append_of_le_length (le_refl _), List.take_length]
  have htok : tokenize ' ' line { start := s, size := (labelText line).length } =
      tokenizeFrom ' ' (labelText line) s s := by
    unfold tokenize
    rw [htext0]
  have htxt := tokenizeFrom_text ' ' line (labelText line) [] s after (by simp)
    (by rw [hdrop]; rfl)
  have hstop := tokenizeFrom_last_stop ' ' (labelText line) [] s (by simp)
  simp only [List.length_nil, Nat.add_zero, List.nil_append] at htxt hstop
  have htxt' : (tokenizeFrom ' ' (labelText line) s s).map (string_view.text line) =
      spaceTokens (labelText line) := htxt
  by_cases hb : find_first (fun c => c == '|') line = some 0
  · -- the line begins with a bar: the label section is empty
    have hbb : beforeBar line = [] := by
      have h := (find_first_some_split _ line 0 hb).1
      have h' : beforeBar line = line.take 0 := h
      rw [h', List.take_zero]
    have hlt : labelText line = [] := by
      unfold labelText afterFirstTab
      rw [hbb]; simp
    have hnot : lastIsTag line = false := by
      unfold lastIsTag; rw [hlt, spaceTokens_nil]; rfl
    have hlab : labelTokens line = [] := by
      unfold labelTokens; rw [hnot, hlt, spaceTokens_nil]; rfl
    refine ⟨[], ?_, by rw [hlab]; rfl⟩
    unfold labelSection
    rw [if_neg (fun h => h hb), hnot]
    cases st
    simp only [Bool.false_eq_true, if_false, List.append_nil] at hw ⊢
    subst hw
    rfl
  · unfold labelSection
    rw [if_pos hb]
    simp only []
    rw [hls, htok]
    cases hlast : (tokenizeFrom ' ' (labelText line) s s).getLast? with
    | none =>
      have hnil : tokenizeFrom ' ' (labelText line) s s = [] :=
        List.getLast?_eq_none_iff.mp hlast
      have hsp : spaceTokens (labelText line) = [] := by rw [← htxt', hnil]; rfl
      have hnot : lastIsTag line = false := by
        unfold lastIsTag; rw [hsp]; rfl
      have hlab : labelTokens line = [] := by
        unfold labelTokens; rw [hnot, hsp]; rfl
      refine ⟨[], ?_, by rw [hlab]; rfl⟩
      simp only [hnil, hnot, Bool.false_eq_true, if_false, List.append_nil]
    | some back =>
      have hsl : (spaceTokens (labelText line)).getLast? = some (back.text line) := by
        rw [← htxt', List.getLast?_map, hlast]; rfl
      have hcond : (back.stop = ({ start := s, size := (labelText line).length } :
          string_view).stop ∨ (back.text line).head? = some '\'') ↔ lastIsTag line = true := by
        unfold lastIsTag
        rw [hsl]
        simp only [Bool.or_eq_true, beq_iff_eq, bne_iff_ne, ne_eq]
        have h := hstop back hlast
        simp only [string_view.stop] at h ⊢
        rw [h]
        tauto
      have htag : tagText line = if (back.text line).head? = some '\'' then
          (back.text line).drop 1 else back.text line := by
        unfold tagText; rw [hsl]
      simp only []
      by_cases hc : lastIsTag line = true
      · rw [if_pos (hcond.mpr hc)]
        refine ⟨(tokenizeFrom ' ' (labelText line) s s).dropLast, ?_, ?_⟩
        · rw [hc, if_pos rfl, htag]
          by_cases hq : (back.text line).head? = some '\''
          · rw [if_pos hq, if_pos hq, text_without_first]
          · rw [if_neg hq, if_neg hq]
        · rw [List.map_dropLast, htxt']
          unfold labelTokens
          rw [hc, if_pos rfl]
      · rw [if_neg (fun h => hc (hcond.mp h))]
        have hc' : lastIsTag line = false := by simpa using hc
        refine ⟨tokenizeFrom ' ' (labelText line) s s, ?_, ?_⟩
        · rw [hc']
          simp only [Bool.false_eq_true, if_false, List.append_nil]
        · rw [htxt']
          unfold labelTokens
          rw [hc']
          rfl

/-- The state on which the feature parser starts. -/
lemma labelParse_spec {F L : Type} (lp : LabelParser L) (line : List Char)
    (st : LineState F L) :
    ∃ s5, labelParse lp line (labelSection line (find_first (fun c => c == '|') line)
        (labelStart lp line st)) = s5 ∧
      s5.ae.tag = st.ae.tag ++ (if lastIsTag line then tagText line else []) ∧
      s5.words.map (string_view.text line) = labelTokens line ∧
      s5.parse_label_calls = st.parse_label_calls ++
        (if (labelTokens line).isEmpty then [] else [labelTokens line]) ∧
      s5.l = (if (labelTokens line).isEmpty then lp.default_label st.l
        else lp.parse_label (labelTokens line) (lp.default_label st.l)) ∧
      s5.ae.feature_space = st.ae.feature_space ∧ s5.ae.indices = st.ae.indices ∧
      s5.ae.is_newline = (line.isEmpty || st.ae.is_newline) := by
  obtain ⟨W, hW, hmap⟩ := labelSection_spec line (labelStart lp line st) rfl
  refine ⟨_, rfl, ?_⟩
  rw [hW]
  have htag : (labelStart lp line st).ae.tag = st.ae.tag := by
    unfold labelStart; simp only []; split <;> rfl
  have hfs : (labelStart lp line st).ae.feature_space = st.ae.feature_space := by
    unfold labelStart; simp only []; split <;> rfl
  have hidx : (labelStart lp line st).ae.indices = st.ae.indices := by
    unfold labelStart; simp only []; split <;> rfl
  have hnl : (labelStart lp line st).ae.is_newline = (line.isEmpty || st.ae.is_newline) := by
    unfold labelStart; simp only []; split
    · rename_i h; rw [h]; rfl
    · rename_i h; simp only [Bool.not_eq_true] at h; rw [h]; rfl
  have hl : (labelStart lp line st).l = lp.default_label st.l := by
    unfold labelStart; simp only []; split <;> rfl
  have hcalls : (labelStart lp line st).parse_label_calls = st.parse_label_calls := by
    unfold labelStart; simp only []; split <;> rfl
  have hemp : W.isEmpty = (labelTokens line).isEmpty := by
    rw [← hmap]; cases W <;> rfl
  unfold labelParse
  simp only []
  by_cases he : (labelTokens line).isEmpty = true
  · rw [hemp, he]
    simp only [Bool.not_true, Bool.false_eq_true, if_false, if_true, List.append_nil]
    exact ⟨by rw [htag], hmap, hcalls, hl, hfs, hidx, hnl⟩
  · have he' : (labelTokens line).isEmpty = false := by simpa using he
    rw [hemp, he']
    simp only [Bool.not_false, if_true, Bool.false_eq_true, if_false]
    exact ⟨by rw [htag], hmap, by rw [hmap, hcalls], by rw [hmap, hl], hfs, hidx, hnl⟩

/-- C13. Whatever the line is, `substring_to_example` returns or throws, and then: the tag
of the example is its old tag followed, exactly when the last space-separated token of the
label section begins with a single quote or ends at the very end of the section, by that
token with one leading single quote stripped (`tagText`); the label section being the text
before the first bar with everything up to and including its first tab removed
(`labelText`). The tokens left in `words` are all the other tokens, in order
(`labelTokens`), and they are what the label token parser received: it was called once,
with exactly them, on the default label, when there is at least one, and not at all
otherwise. -/
theorem label_section_tag_and_tokens {F L : Type} (ops : FloatOps F) (all : vw F)
    (lp : LabelParser L) (audit : Bool) (line : List Char) (st : LineState F L)
    (u : TCParser F) :
    (substring_to_example ops all lp audit line st u).Ensures (fun s =>
      s.1.ae.tag = st.ae.tag ++ (if lastIsTag line then tagText line else []) ∧
      s.1.words.map (string_view.text line) = labelTokens line ∧
      s.1.parse_label_calls = st.parse_label_calls ++
        (if (labelTokens line).isEmpty then [] else [labelTokens line]) ∧
      s.1.l = (if (labelTokens line).isEmpty then lp.default_label st.l
        else lp.parse_label (labelTokens line) (lp.default_label st.l))) := by
  obtain ⟨s5, hs5, htag, hwords, hcalls, hl, _, _, _⟩ := labelParse_spec lp line st
  unfold substring_to_example
  simp only []
  rw [hs5]
  cases find_first (fun c => c == '|') line with
  | none => exact ⟨htag, hwords, hcalls, hl⟩
  | some b =>
    simp only []
    have h := construct_tag ops all audit (line.drop b) s5.ae u
    cases hc : TCParser.construct ops all audit (line.drop b) s5.ae u with
    | ok a s =>
      rw [hc] at h
      exact ⟨(show s._ae.tag = s5.ae.tag from h).trans htag, hwords, hcalls, hl⟩
    | thrown m s =>
      rw [hc] at h
      exact ⟨(show s._ae.tag = s5.ae.tag from h).trans htag, hwords, hcalls, hl⟩
    | timeout => rw [hc] at h; exact h

/-- C11. On the empty line `substring_to_example` returns, having set `is_newline` and
replaced the label by the default label of the task; the label token parser is not called,
and the feature spaces, the namespace-index list and the tag are what they were. The same
holds of `read_features_string` when the line read is just a line end. -/
theorem empty_line_is_newline_only {F L : Type} (ops : FloatOps F) (all : vw F)
    (lp : LabelParser L) (audit : Bool) (st : LineState F L) (u : TCParser F) :
    (∃ s, substring_to_example ops all lp audit [] st u = .ok () (s, u) ∧
      s.ae.is_newline = true ∧ s.l = lp.default_label st.l ∧
      s.parse_label_calls = st.parse_label_calls ∧
      s.ae.feature_space = st.ae.feature_space ∧ s.ae.indices = st.ae.indices ∧
      s.ae.tag = st.ae.tag) ∧
    (∀ n0, read_features_string ops all lp audit ['\n'] n0 st u =
        (match substring_to_example ops all lp audit [] st u with
          | .ok _ s => .ok 1 s
          | .thrown m s => .thrown m s
          | .timeout => .timeout)) ∧
    (∀ n0, read_features_string ops all lp audit ['\r', '\n'] n0 st u =
        (match substring_to_example ops all lp audit [] st u with
          | .ok _ s => .ok 2 s
          | .thrown m s => .thrown m s
          | .timeout => .timeout)) := by
  refine ⟨⟨_, rfl, rfl, rfl, rfl, rfl, rfl, rfl⟩, fun n0 => rfl, fun n0 => rfl⟩

/-! ## The namespace stack of the JSON parser -/

lemma getLast?_append_singleton {α : Type} (p : List α) (a : α) :
    (p ++ [a]).getLast? = some a := by
  simp

lemma dropLast_append_singleton {α : Type} (p : List α) (a : α) :
    (p ++ [a]).dropLast = p := by
  simp

/-- `PopNamespace` on a stack that is not empty. -/
lemma PopNamespace_eq {F : Type} (ctx : JsonContext F) (p : List Scope) (ns : Scope)
    (rp : List (Option BaseState)) (r : Option BaseState)
    (h1 : ctx.namespace_path = p ++ [ns]) (h2 : ctx.return_path = rp ++ [r])
    (h3 : ctx.ex < ctx.examples.length) :
    ctx.PopNamespace = some (r, { ctx with
      examples := popExamples ctx ns, namespace_path := p, return_path := rp }) := by
  obtain ⟨e, he⟩ : ∃ e, ctx.examples.get? ctx.ex = some e := by
    rw [List.get?_eq_getElem?, List.getElem?_eq_getElem h3]; exact ⟨_, rfl⟩
  unfold JsonContext.PopNamespace popExamples
  rw [h1, h2, getLast?_append_singleton, getLast?_append_singleton]
  simp only [dropLast_append_singleton]
  by_cases hfc : ns.feature_count > 0
  · rw [if_pos hfc, if_pos hfc]
    simp only [JsonContext.ex?, he, Context.PopNamespace, List.map_append, List.map_cons,
      List.map_nil, getLast?_append_singleton, dropLast_append_singleton]
    have hfc' : ns.toNamespace.feature_count > 0 := hfc
    rw [if_pos hfc']
    by_cases hm : ns.feature_group ∈ e.indices
    · have hm' : ¬ ns.toNamespace.feature_group ∉ e.toExample.indices := fun h => h hm
      rw [if_neg hm', if_pos hm]
      rfl
    · have hm' : ns.toNamespace.feature_group ∉ e.toExample.indices := hm
      rw [if_pos hm', if_neg hm]
      rfl
  · rw [if_neg hfc, if_neg hfc]

lemma intOfUnsigned_small (v : Nat) (h : v < 2 ^ 31) : intOfUnsigned v = (v : Int) := by
  unfold intOfUnsigned
  have h1 : v % 2 ^ 32 = v := Nat.mod_eq_of_lt (by omega)
  rw [h1, if_pos h]

lemma wrapInt_small (i : Int) (h0 : 0 ≤ i) (h : i < 2 ^ 31) : wrapInt i = i := by
  unfold wrapInt
  norm_num at h ⊢
  omega

/-! ## The label index at the close of the group (C17) -/

/-- C17. At the close of the outermost object (one scope on the stack), with the label
index that `LabelIndexState::Uint` stored for the value `v` and `n` examples in the group:
when `v + 1 >= n` and `v + 1` is below `2 ^ 31`, `DefaultState::EndObject` returns the
error sentinel. For `v = 4294967295` the stored index is -1, the value of "no index": the
parse of a group of two examples with that label index goes through without any error,
while it fails for the label index 1. -/
theorem label_index_bound_checked_below_int_max :
    (∀ (F : Type) (ops : FloatOps F) (cfg : JsonConfig F) (ctx : JsonContext F) (v : Nat)
      (ns : Scope) (r : Option BaseState),
      ctx.namespace_path = [ns] → ctx.return_path = [r] → ctx.ex < ctx.examples.length →
      ctx.label_index_state_index = intOfUnsigned v →
      v + 1 < 2 ^ 31 → v + 1 ≥ ctx.examples.length →
        (DefaultState.EndObject ops cfg ctx).isError = true) ∧
    (LabelIndexState.Uint (sampleJsonContext .cb) 4294967295).ctx?.map
      (fun c => c.label_index_state_index) = some (-1) ∧
    (parseTokens sampleOps sampleConv (sampleJson .cb) hugeLabelIndexTokens
      (sampleJsonContext .cb)).isFinished = true ∧
    (parseTokens sampleOps sampleConv (sampleJson .cb) hugeLabelIndexTokens
      (sampleJsonContext .cb)).ctx?.map (fun c => (c.error_ptr, c.examples.length)) =
      some ([], 2) ∧
    (parseTokens sampleOps sampleConv (sampleJson .cb) smallLabelIndexTokens
      (sampleJsonContext .cb)).isFailed = true := by
  refine ⟨?_, by rfl, by rfl, by rfl, by rfl⟩
  intro F ops cfg ctx v ns r h1 h2 h3 h4 h5 h6
  have hpop := PopNamespace_eq ctx [] ns [] r (by rw [h1]; rfl) (by rw [h2]; rfl) h3
  unfold DefaultState.EndObject
  rw [hpop]
  simp only [List.isEmpty_nil, if_true]
  have hlen : (popExamples ctx ns).length = ctx.examples.length := by
    unfold popExamples
    split
    · split <;> simp
    · rfl
  have hidx : (0 : Int) ≤ intOfUnsigned v := by
    rw [intOfUnsigned_small v (by omega)]; omega
  unfold applyLabelIndex
  simp only [h4, ge_iff_le, hidx, if_true, hlen]
  rw [intOfUnsigned_small v (by omega), wrapInt_small _ (by omega) (by norm_num; omega),
    intOfUnsigned_small _ (by omega)]
  rw [if_pos (by omega)]
  rfl

/-! ## The commit of a label (C18) -/

/-- C18, counterexample to the claim as stated. Under the ccb label type the line
`\x7b"_a":[1]\x7d` accumulates one action and no probability; the two lists have different
lengths when the label is committed at the close of the object, and the parse goes through
without an error or an exception. -/
theorem unequal_lists_one_empty_commit_without_error :
    (parseTokens sampleOps sampleConv (sampleJson .ccb) actionsOnlyTokens
      (sampleJsonContext .ccb)).isFinished = true ∧
    (parseTokens sampleOps sampleConv (sampleJson .ccb) actionsOnlyTokens
      (sampleJsonContext .ccb)).ctx?.map
        (fun c => (c.error_ptr, c.label_object_state.actions, c.label_object_state.probs)) =
      some ([], [1], []) := by
  refine ⟨by rfl, by rfl⟩

/-- C18, amended. Under the ccb or the slates label type, when the action list and the
probability list are both non-empty and have different lengths, `LabelObjectState::EndObject`
raises the exception `Actions and probabilities must be the same length`, and so does the
parse of any token sequence that begins with the end of the object in the LabelObject
state. When one of the two lists is empty nothing is raised and the handler returns its
return state. -/
theorem label_commit_length_mismatch_throws {F : Type} (ops : FloatOps F) (cv : FloatConv F)
    (cfg : JsonConfig F) (ctx : JsonContext F)
    (hlt : cfg.label_type = .ccb ∨ cfg.label_type = .slates)
    (hex : ctx.ex < ctx.examples.length) :
    (ctx.label_object_state.actions ≠ [] → ctx.label_object_state.probs ≠ [] →
      ctx.label_object_state.actions.length ≠ ctx.label_object_state.probs.length →
        (LabelObjectState.EndObject ops cfg ctx).exception? =
          some .actionsAndProbabilitiesLength ∧
        (ctx.current_state = .label_object_state → ∀ n ts,
          (parseTokens ops cv cfg (.EndObject n :: ts) ctx).exception? =
            some .actionsAndProbabilitiesLength)) ∧
    (ctx.label_object_state.actions = [] ∨ ctx.label_object_state.probs = [] →
      (LabelObjectState.EndObject ops cfg ctx).exception? = none ∧
      (LabelObjectState.EndObject ops cfg ctx).next? = ctx.label_object_state.return_state) := by
  obtain ⟨e, he⟩ : ∃ e, ctx.ex? = some e := by
    unfold JsonContext.ex?
    rw [List.get?_eq_getElem?, List.getElem?_eq_getElem hex]; exact ⟨_, rfl⟩
  have hthrow : ctx.label_object_state.actions ≠ [] → ctx.label_object_state.probs ≠ [] →
      ctx.label_object_state.actions.length ≠ ctx.label_object_state.probs.length →
      ∃ c, LabelObjectState.EndObject ops cfg ctx = .throws .actionsAndProbabilitiesLength c := by
    intro ha hp hne
    have ha' : ctx.label_object_state.actions.length ≠ 0 := fun h => ha (List.length_eq_zero.mp h)
    have hp' : ctx.label_object_state.probs.length ≠ 0 := fun h => hp (List.length_eq_zero.mp h)
    unfold LabelObjectState.EndObject
    rcases hlt with h | h
    · simp only [h, if_true, he, ha', hp', hne, ne_eq, not_false_eq_true, and_self]
      exact ⟨_, rfl⟩
    · have hn : ¬ (label_type_t.slates = label_type_t.ccb) := by decide
      simp only [h, hn, if_false, if_true, ha', hp', hne, ne_eq, not_false_eq_true, and_self]
      exact ⟨_, rfl⟩
  refine ⟨fun ha hp hne => ?_, fun hor => ?_⟩
  · obtain ⟨c, hc⟩ := hthrow ha hp hne
    refine ⟨by rw [hc]; rfl, fun hcur n ts => ?_⟩
    have : VWReaderHandler.token ops cv cfg ctx (.EndObject n) =
        LabelObjectState.EndObject ops cfg ctx := by
      unfold VWReaderHandler.token
      simp only [hcur]
      rfl
    unfold parseTokens
    rw [this, hc]
    rfl
  · have hz : ¬ (ctx.label_object_state.actions.length ≠ 0 ∧
        ctx.label_object_state.probs.length ≠ 0) := by
      rintro ⟨h1, h2⟩
      rcases hor with h | h
      · exact h1 (by rw [h]; rfl)
      · exact h2 (by rw [h]; rfl)
    unfold LabelObjectState.EndObject
    rcases hlt with h | h
    · simp only [h, if_true, he, hz, if_false]
      exact ⟨rfl, rfl⟩
    · have hn : ¬ (label_type_t.slates = label_type_t.ccb) := by decide
      simp only [h, hn, if_false, if_true, hz]
      exact ⟨rfl, rfl⟩

/-- C18, the amended statement at a concrete input: two actions and one probability under
the ccb label type. -/
theorem label_commit_length_mismatch_throws_witness :
    (sampleJson .ccb).label_type = .ccb ∧
    (sampleMismatchContext .ccb).ex < (sampleMismatchContext .ccb).examples.length ∧
    (sampleMismatchContext .ccb).label_object_state.actions = [1, 2] ∧
    (sampleMismatchContext .ccb).label_object_state.probs = [some 1] ∧
    (LabelObjectState.EndObject sampleOps (sampleJson .ccb)
      (sampleMismatchContext .ccb)).exception? = some .actionsAndProbabilitiesLength ∧
    (parseTokens sampleOps sampleConv (sampleJson .ccb) [.EndObject 0]
      (sampleMismatchContext .ccb)).exception? = some .actionsAndProbabilitiesLength :=
  have h := (label_commit_length_mismatch_throws sampleOps sampleConv (sampleJson .ccb)
    (sampleMismatchContext .ccb) (Or.inl rfl) (by decide)).1 (by decide) (by decide)
      (by decide)
  ⟨rfl, by decide, rfl, rfl, h.1, h.2 rfl 0 []⟩

/-! ## The string NaN as a label value (C19) -/

lemma stricmp_other (k a b : List Char) (h : stricmp_eq k a = true)
    (hab : (cstr a).map Char.toLower ≠ (cstr b).map Char.toLower) : stricmp_eq k b = false := by
  unfold stricmp_eq at h ⊢
  rw [beq_iff_eq] at h
  rw [beq_eq_false_iff_ne, h]
  exact hab

/-- C19, counterexample to the claim as stated. With `Action` as the last key, the Float
handler of the LabelObject state accepts a number, and the String handler given `NaN`
returns the error sentinel. -/
theorem label_string_nan_rejected_for_action :
    sampleActionKeyContext.key = "Action".toList ∧
    (LabelObjectState.Float sampleConv sampleActionKeyContext (some 1)).next? =
      some .label_object_state ∧
    (LabelObjectState.String sampleConv sampleActionKeyContext "NaN".toList).isError = true ∧
    (LabelObjectState.String sampleConv sampleActionKeyContext "NaN".toList).ctx?.map
      (fun c => c.error_ptr) = some [.unsupportedLabelProperty "Action".toList 6] := by
  refine ⟨by rfl, by rfl, by rfl, by rfl⟩

/-- C19, amended. In the LabelObject state, a string that is not `NaN` in some letter case
(as a C string) is rejected with an error. Given `NaN`, for every last key other than
`Weight` and `Action` (compared without regard to case) the String handler does exactly
what the Float handler does with a quiet NaN: it accepts the keys `Label`, `Initial`,
`Cost`, `Probability`, and `Pdf_value` in continuous mode, writes the NaN into the same
field and sets the same flags, and rejects every other key with the same error. For the key
`Action`, which the Float handler accepts whatever the number is, the String handler
returns the error sentinel. Whether the Float handler accepts a key does not depend on the
number. -/
theorem label_string_nan_as_float_nan {F : Type} (cv : FloatConv F) (ctx : JsonContext F)
    (str : List Char) :
    (stricmp_eq str "NaN".toList = false →
      LabelObjectState.String cv ctx str = ctx.fail (.onlyNaNString ctx.key ctx.key_length)) ∧
    (stricmp_eq str "NaN".toList = true →
      stricmp_eq ctx.key "Weight".toList = false → stricmp_eq ctx.key "Action".toList = false →
      LabelObjectState.String cv ctx str = LabelObjectState.Float cv ctx cv.nan) ∧
    (stricmp_eq str "NaN".toList = true → stricmp_eq ctx.key "Action".toList = true →
      (LabelObjectState.String cv ctx str).isError = true ∧
      ∀ v, (LabelObjectState.Float cv ctx v).next? = some .label_object_state) ∧
    (∀ v w, (LabelObjectState.Float cv ctx v).isError =
      (LabelObjectState.Float cv ctx w).isError) := by
  refine ⟨fun h => ?_, fun h hw ha => ?_, fun h ha => ?_, fun v w => ?_⟩
  · unfold LabelObjectState.String
    simp only [h, Bool.not_false, if_true]
  · unfold LabelObjectState.String LabelObjectState.Float
    simp only [h, hw, ha, Bool.not_true, Bool.false_eq_true, if_false]
  · have h1 := stricmp_other ctx.key "Action".toList "Label".toList ha (by decide)
    have h2 := stricmp_other ctx.key "Action".toList "Initial".toList ha (by decide)
    have h3 := stricmp_other ctx.key "Action".toList "Weight".toList ha (by decide)
    have h4 := stricmp_other ctx.key "Action".toList "Cost".toList ha (by decide)
    have h5 := stricmp_other ctx.key "Action".toList "Probability".toList ha (by decide)
    have h6 := stricmp_other ctx.key "Action".toList "Pdf_value".toList ha (by decide)
    refine ⟨?_, fun v => ?_⟩
    · unfold LabelObjectState.String
      simp only [h, h1, h2, h3, h4, h5, h6, Bool.not_true, Bool.false_eq_true, if_false,
        Bool.false_and]
      rfl
    · unfold LabelObjectState.Float
      simp only [h1, h2, h3, ha, Bool.false_eq_true, if_false, if_true]
      split <;> rfl
  · unfold LabelObjectState.Float
    simp only []
    repeat' split
    all_goals rfl

/-! ## Arrays inside a feature array (C20) -/

/-- C20. An array start in the Array state right after a number or a null element (the
previous state is the Array state) returns the error sentinel: the shape `[1,[2]]`. An
array that is the first element is entered like its parent, and the parse of `[[1]]` fails
only at the close of the outer array. With a null after the inner array the outer array is
closed without any error: the parse of `[[1],null]` goes through, and the feature of the
inner array is stored. -/
theorem nested_array_then_null_is_accepted :
    (∀ (F : Type) (cfg : JsonConfig F) (ctx : JsonContext F),
      ctx.previous_state = some .array_state →
        (ArrayState.StartArray cfg ctx).isError = true) ∧
    (parseTokens sampleOps sampleConv (sampleJson .simple) nestedArrayLaterTokens
      (sampleJsonContext .simple)).isFailed = true ∧
    (parseTokens sampleOps sampleConv (sampleJson .simple) nestedArrayFirstTokens
      (sampleJsonContext .simple)).isFailed = true ∧
    (parseTokens sampleOps sampleConv (sampleJson .simple) nestedArrayNullTokens
      (sampleJsonContext .simple)).isFinished = true ∧
    (parseTokens sampleOps sampleConv (sampleJson .simple) nestedArrayNullTokens
      (sampleJsonContext .simple)).ctx?.map
        (fun c => (c.error_ptr, c.examples.map storedValues)) =
      some ([], [[(97, [some 1])]]) := by
  refine ⟨fun F cfg ctx h => ?_, by rfl, by rfl, by rfl, by rfl⟩
  unfold ArrayState.StartArray
  rw [if_pos h]
  rfl

/-! ## The scan of the fast skip (C14) -/

lemma isScalarChar_iff (c : Char) :
    isScalarChar c = true ↔ c ≠ NUL ∧ c ≠ '"' ∧ c ≠ '\x7b' ∧ c ≠ '\x7d' ∧ c ≠ '[' ∧
      c ≠ ']' ∧ c ≠ ',' := by
  unfold isScalarChar
  simp only [Bool.and_eq_true, bne_iff_ne, ne_eq]
  tauto

lemma isScalarChar_of_space {c : Char} (h : isJsonSpace c = true) : isScalarChar c = true := by
  unfold isJsonSpace at h
  simp only [Bool.or_eq_true, beq_iff_eq] at h
  rw [isScalarChar_iff]
  rcases h with ((h | h) | h) | h <;> subst h <;> decide

/-- One iteration of the outer loop on a character the switch has no case for. -/
lemma ignoreLoop_scalar (c : Char) (cs : List Char) (head : Nat) (d s : Int)
    (h : isScalarChar c = true) :
    ignoreLoop (c :: cs) head d s = ignoreLoop cs (head + 1) d s := by
  obtain ⟨h0, h1, h2, h3, h4, h5, h6⟩ := (isScalarChar_iff c).mp h
  rw [ignoreLoop]
  simp only [h0, h1, h2, h3, h4, h5, h6, if_false]

/-- The outer loop steps over a run of such characters. -/
lemma ignoreLoop_scalars (cs rest : List Char) (head : Nat) (d s : Int)
    (h : ∀ c ∈ cs, isScalarChar c = true) :
    ignoreLoop (cs ++ rest) head d s = ignoreLoop rest (head + cs.length) d s := by
  induction cs generalizing head with
  | nil => rfl
  | cons c cs ih =>
    rw [List.cons_append, ignoreLoop_scalar c _ head d s (h c (List.mem_cons_self _ _)),
      ih (head + 1) (fun x hx => h x (List.mem_cons_of_mem _ hx)), List.length_cons]
    congr 1
    omega

lemma ignoreLoop_spaces (ws rest : List Char) (head : Nat) (d s : Int)
    (h : ∀ c ∈ ws, isJsonSpace c = true) :
    ignoreLoop (ws ++ rest) head d s = ignoreLoop rest (head + ws.length) d s :=
  ignoreLoop_scalars ws rest head d s (fun c hc => isScalarChar_of_space (h c hc))

/-- The inner loop skips a string body and its closing quote, whatever the body holds:
quotes after a backslash, braces, brackets, commas. -/
lemma ignoreString_body (body : List Char) (h : StringBody body) (rest : List Char)
    (head : Nat) (d s : Int) :
    ignoreString (body ++ '"' :: rest) head d s =
      ignoreLoop rest (head + body.length + 2) d s := by
  induction h generalizing head with
  | nil =>
    rw [List.nil_append, ignoreString]
    simp only [show ('"' : Char) ≠ NUL by decide, show ('"' : Char) ≠ '\\' by decide, if_false,
      if_true, List.length_nil, Nat.add_zero]
  | char c r h0 h1 h2 _ ih =>
    rw [List.cons_append, ignoreString]
    simp only [h0, h1, h2, if_false]
    rw [ih (head + 1), List.length_cons]
    congr 1
    omega
  | escape c r _ ih =>
    rw [List.cons_append, List.cons_append, ignoreString]
    simp only [show ('\\' : Char) ≠ NUL by decide, if_false, if_true]
    rw [ignoreEscaped, ih (head + 1 + 1), List.length_cons, List.length_cons]
    congr 1
    omega

/-- A quote in the outer loop starts the inner loop. -/
lemma ignoreLoop_quote (cs : List Char) (head : Nat) (d s : Int) :
    ignoreLoop ('"' :: cs) head d s = ignoreString cs head d s := by
  rw [ignoreLoop]
  simp only [show ('"' : Char) ≠ NUL by decide, if_false, if_true]

lemma ignoreLoop_open_brace (cs : List Char) (head : Nat) (d s : Int) :
    ignoreLoop ('\x7b' :: cs) head d s = ignoreLoop cs (head + 1) (d + 1) s := by
  rw [ignoreLoop]
  simp only [show ('\x7b' : Char) ≠ NUL by decide, show ('\x7b' : Char) ≠ '"' by decide,
    if_false, if_true]

lemma ignoreLoop_open_bracket (cs : List Char) (head : Nat) (d s : Int) :
    ignoreLoop ('[' :: cs) head d s = ignoreLoop cs (head + 1) d (s + 1) := by
  rw [ignoreLoop]
  simp only [show ('[' : Char) ≠ NUL by decide, show ('[' : Char) ≠ '"' by decide,
    show ('[' : Char) ≠ '\x7b' by decide, show ('[' : Char) ≠ '\x7d' by decide, if_false,
    if_true]

lemma ignoreLoop_close_brace (cs : List Char) (head : Nat) (d s : Int) :
    ignoreLoop ('\x7d' :: cs) head d s =
      if d = 0 ∧ s = 0 then .stopped (head + 1) else ignoreLoop cs (head + 1) (d - 1) s := by
  rw [ignoreLoop]
  simp only [show ('\x7d' : Char) ≠ NUL by decide, show ('\x7d' : Char) ≠ '"' by decide,
    show ('\x7d' : Char) ≠ '\x7b' by decide, if_false, if_true]

lemma ignoreLoop_close_bracket (cs : List Char) (head : Nat) (d s : Int) :
    ignoreLoop (']' :: cs) head d s =
      if d = 0 ∧ s = 0 then .stopped (head + 1) else ignoreLoop cs (head + 1) d (s - 1) := by
  rw [ignoreLoop]
  simp only [show (']' : Char) ≠ NUL by decide, show (']' : Char) ≠ '"' by decide,
    show (']' : Char) ≠ '\x7b' by decide, show (']' : Char) ≠ '\x7d' by decide,
    show (']' : Char) ≠ '[' by decide, if_false, if_true]

lemma ignoreLoop_comma (cs : List Char) (head : Nat) (d s : Int) :
    ignoreLoop (',' :: cs) head d s =
      if d = 0 ∧ s = 0 then .stopped (head + 1) else ignoreLoop cs (head + 1) d s := by
  rw [ignoreLoop]
  simp only [show (',' : Char) ≠ NUL by decide, show (',' : Char) ≠ '"' by decide,
    show (',' : Char) ≠ '\x7b' by decide, show (',' : Char) ≠ '\x7d' by decide,
    show (',' : Char) ≠ '[' by decide, show (',' : Char) ≠ ']' by decide, if_false, if_true]

/-- The outer loop steps over well-formed text and comes back to the nesting depth it had
before it: over a value at any depth, over the elements of an array and the members of an
object inside a bracket or a brace. -/
lemma ignoreLoop_text (part : JsonPart) (w : List Char) (h : JsonText part w) :
    ∀ (rest : List Char) (head : Nat) (d s : Int), 0 ≤ d → 0 ≤ s →
      (part ≠ .value → ¬ (d = 0 ∧ s = 0)) →
      ignoreLoop (w ++ rest) head d s = ignoreLoop rest (head + w.length) d s := by
  induction h with
  | scalar cs _ hcs =>
    intro rest head d s _ _ _
    exact ignoreLoop_scalars cs rest head d s hcs
  | string ws1 body ws2 h1 hb h2 =>
    intro rest head d s _ _ _
    simp only [List.append_assoc, List.cons_append, List.length_append, List.length_cons]
    rw [ignoreLoop_spaces ws1 _ head d s h1, ignoreLoop_quote, ignoreString_body body hb,
      ignoreLoop_spaces ws2 _ _ d s h2]
    congr 1
    omega
  | array ws1 es ws2 h1 _ h2 ih =>
    intro rest head d s hd hs _
    simp only [List.append_assoc, List.cons_append, List.length_append, List.length_cons]
    rw [ignoreLoop_spaces ws1 _ head d s h1, ignoreLoop_open_bracket,
      ih _ _ d (s + 1) hd (by omega) (fun _ hz => by omega),
      ignoreLoop_close_bracket, if_neg (by omega), Int.add_sub_cancel,
      ignoreLoop_spaces ws2 _ _ d s h2]
    congr 1
    omega
  | object ws1 ms ws2 h1 _ h2 ih =>
    intro rest head d s hd hs _
    simp only [List.append_assoc, List.cons_append, List.length_append, List.length_cons]
    rw [ignoreLoop_spaces ws1 _ head d s h1, ignoreLoop_open_brace,
      ih _ _ (d + 1) s (by omega) hs (fun _ hz => by omega),
      ignoreLoop_close_brace, if_neg (by omega), Int.add_sub_cancel,
      ignoreLoop_spaces ws2 _ _ d s h2]
    congr 1
    omega
  | noElements ws hws =>
    intro rest head d s _ _ _
    exact ignoreLoop_spaces ws rest head d s hws
  | element v _ ih =>
    intro rest head d s hd hs _
    exact ih rest head d s hd hs (fun h => absurd rfl h)
  | elements v es _ _ ihv ihes =>
    intro rest head d s hd hs hin
    simp only [List.append_assoc, List.cons_append, List.length_append, List.length_cons]
    rw [ihv _ head d s hd hs (fun h => absurd rfl h),
      ignoreLoop_comma, if_neg (hin (by decide)), ihes _ _ d s hd hs hin]
    congr 1
    omega
  | noMembers ws hws =>
    intro rest head d s _ _ _
    exact ignoreLoop_spaces ws rest head d s hws
  | member ws1 key ws2 v h1 hk h2 _ ih =>
    intro rest head d s hd hs _
    simp only [List.append_assoc, List.cons_append, List.length_append, List.length_cons]
    rw [ignoreLoop_spaces ws1 _ head d s h1, ignoreLoop_quote, ignoreString_body key hk,
      ignoreLoop_spaces ws2 _ _ d s h2,
      ignoreLoop_scalar ':' _ _ d s (by decide), ih _ _ d s hd hs (fun h => absurd rfl h)]
    congr 1
    omega
  | members m ms _ _ ihm ihms =>
    intro rest head d s hd hs hin
    simp only [List.append_assoc, List.cons_append, List.length_append, List.length_cons]
    rw [ihm _ head d s hd hs hin,
      ignoreLoop_comma, if_neg (hin (by decide)), ihms _ _ d s hd hs hin]
    congr 1
    omega

/-- The text of a value is not empty. -/
lemma JsonText.value_ne_nil {w : List Char} (h : JsonText .value w) : w ≠ [] := by
  cases h with
  | scalar cs hne _ => exact hne
  | string ws1 body ws2 _ _ _ => simp
  | array ws1 es ws2 _ _ _ => simp
  | object ws1 ms ws2 _ _ _ => simp

/-- The scan of `Ignore`, started on the first byte of a well-formed value that a
terminator follows, stops at that terminator: `head` is one past it. -/
lemma ignoreLoop_value (w : List Char) (h : JsonText .value w) (c : Char)
    (hc : isTerminator c = true) (rest : List Char) (head : Nat) :
    ignoreLoop (w ++ c :: rest) head 0 0 = .stopped (head + w.length + 1) := by
  rw [ignoreLoop_text .value w h _ head 0 0 (le_refl _) (le_refl _) (fun h => absurd rfl h)]
  unfold isTerminator at hc
  simp only [Bool.or_eq_true, beq_iff_eq] at hc
  rcases hc with (hc | hc) | hc <;> subst hc
  · rw [ignoreLoop_comma, if_pos ⟨rfl, rfl⟩]
  · rw [ignoreLoop_close_brace, if_pos ⟨rfl, rfl⟩]
  · rw [ignoreLoop_close_bracket, if_pos ⟨rfl, rfl⟩]

/-! ## The fast skip on a buffer -/

/-- Where the scan stops there is a byte of the buffer: `head` is at most one past the last
byte. -/
lemma ignore_stopped_le (cs : List Char) :
    (∀ head d s h, ignoreLoop cs head d s = .stopped h → h ≤ head + cs.length) ∧
    (∀ head d s h, ignoreString cs head d s = .stopped h → h ≤ head + 1 + cs.length) ∧
    (∀ head d s h, ignoreEscaped cs head d s = .stopped h → h ≤ head + 1 + cs.length) := by
  induction cs with
  | nil =>
    refine ⟨fun head d s h hh => ?_, fun head d s h hh => ?_, fun head d s h hh => ?_⟩
    · rw [ignoreLoop] at hh; cases hh
    · rw [ignoreString] at hh; cases hh
    · rw [ignoreEscaped] at hh; cases hh
  | cons c cs ih =>
    obtain ⟨ihA, ihB, ihC⟩ := ih
    refine ⟨fun head d s h hh => ?_, fun head d s h hh => ?_, fun head d s h hh => ?_⟩
    · rw [ignoreLoop] at hh
      simp only [List.length_cons]
      split at hh
      · cases hh
      · split at hh
        · have := ihB _ _ _ _ hh; omega
        · split at hh
          · have := ihA _ _ _ _ hh; omega
          · split at hh
            · split at hh
              · cases hh; omega
              · have := ihA _ _ _ _ hh; omega
            · split at hh
              · have := ihA _ _ _ _ hh; omega
              · split at hh
                · split at hh
                  · cases hh; omega
                  · have := ihA _ _ _ _ hh; omega
                · split at hh
                  · split at hh
                    · cases hh; omega
                    · have := ihA _ _ _ _ hh; omega
                  · have := ihA _ _ _ _ hh; omega
    · rw [ignoreString] at hh
      simp only [List.length_cons]
      split at hh
      · cases hh
      · split at hh
        · have := ihC _ _ _ _ hh; omega
        · split at hh
          · have := ihA _ _ _ _ hh; omega
          · have := ihB _ _ _ _ hh; omega
    · rw [ignoreEscaped] at hh
      simp only [List.length_cons]
      have := ihB _ _ _ _ hh; omega

/-! ## Keys that begin with an underscore (C15) -/

lemma take_of_cstr_take (s t : List Char) (n : Nat) (h : (cstr s).take n = t)
    (hl : t.length = n) : s.take n = t := by
  obtain ⟨r, hr⟩ : cstr s <+: s := List.takeWhile_prefix _
  have hn : n ≤ (cstr s).length := by
    rw [← hl, ← h, List.length_take]; omega
  rw [← hr, List.take_append_of_le_length hn]
  exact h

lemma eq_of_cstr_eq (s t : List Char) (h : cstr s = t) (hl : s.length = t.length) : s = t := by
  obtain ⟨r, hr⟩ : cstr s <+: s := List.takeWhile_prefix _
  have hlen : (cstr s).length + r.length = s.length := by
    rw [← List.length_append, hr]
  have hr0 : r = [] := List.length_eq_zero.mp (by rw [h] at hlen; omega)
  rw [← hr, hr0, List.append_nil]
  exact h

lemma strcmp_eq_of_length (s t : List Char) (h : strcmp_eq s t = true) (ht : cstr t = t)
    (hl : s.length = t.length) : s = t := by
  unfold strcmp_eq at h
  rw [beq_iff_eq, ht] at h
  exact eq_of_cstr_eq s t h hl

lemma stricmp_eq_of_length (s t : List Char) (h : stricmp_eq s t = true) (ht : cstr t = t)
    (hl : s.length = t.length) : s.map Char.toLower = t.map Char.toLower := by
  unfold stricmp_eq at h
  rw [beq_iff_eq, ht] at h
  have hlen : (cstr s).length = s.length := by
    have := congrArg List.length h
    simp only [List.length_map] at this
    omega
  have hs : cstr s = s := (eq_of_cstr_eq s (cstr s) rfl hlen.symm).symm
  rw [hs] at h
  exact h

lemma strncmp_eq_take (s t : List Char) (n : Nat) (h : strncmp_eq s t n = true)
    (ht : (cstr t).take n = t) (hl : t.length = n) : s.take n = t := by
  unfold strncmp_eq at h
  rw [beq_iff_eq, ht] at h
  exact take_of_cstr_take s t n h hl

/-- C15, counterexample to the claim as stated. The key `_labels` begins with an underscore
and is none of the dedicated keys; the Key handler of the Default state returns the error
sentinel for it and reports the error `Unsupported key`. The key `_TAG` is routed to the
Tag state. -/
theorem unknown_label_key_is_rejected :
    (DefaultState.Key (sampleJson .simple) sampleLabelsKeyContext "_labels".toList).isError =
      true ∧
    (DefaultState.Key (sampleJson .simple) sampleLabelsKeyContext "_labels".toList).ctx?.map
      (fun c => c.error_ptr) = some [.unsupportedKey "_labels".toList 7] ∧
    (DefaultState.Key (sampleJson .simple) sampleLabelsKeyContext "_TAG".toList).next? =
      some .tag_state := by
  refine ⟨by rfl, by rfl, by rfl⟩

/-- A key that begins with an underscore and that the Default state has no state for is
handed to `Ignore`, with the key recorded. -/
lemma Key_ignored {F : Type} (cfg : JsonConfig F) (ctx : JsonContext F) (str : List Char)
    (hkey : IgnoredKey str) :
    DefaultState.Key cfg ctx str =
      DefaultState.Ignore { ctx with key := str, key_length := str.length } str.length := by
  obtain ⟨hu, hlabel, htext, hmulti, hslots, hslotid, ha, hp, htag, hinc, haid⟩ := hkey
  have hlen : str.length > 0 := by
    cases str with
    | nil => simp at hu
    | cons a as => simp
  have c1 : ¬ (str.length ≥ 6 ∧ strncmp_eq str "_label".toList 6 = true) := fun h =>
    hlabel (strncmp_eq_take str _ 6 h.2 (by rfl) (by rfl))
  have c2 : ¬ (str.length = 5 ∧ strcmp_eq str "_text".toList = true) := fun h =>
    htext (strcmp_eq_of_length str _ h.2 (by rfl) (by rw [h.1]; rfl))
  have c3 : ¬ (str.length = 6 ∧ strcmp_eq str "_multi".toList = true) := fun h =>
    hmulti (strcmp_eq_of_length str _ h.2 (by rfl) (by rw [h.1]; rfl))
  have c4 : ¬ (str.length = 6 ∧ strcmp_eq str "_slots".toList = true) := fun h =>
    hslots (strcmp_eq_of_length str _ h.2 (by rfl) (by rw [h.1]; rfl))
  have c5 : ¬ (str.length = 4 ∧ stricmp_eq str "_tag".toList = true) := fun h =>
    htag (stricmp_eq_of_length str _ h.2 (by rfl) (by rw [h.1]; rfl))
  have c6 : ¬ (str.length = 4 ∧ stricmp_eq str "_inc".toList = true) := fun h =>
    hinc (stricmp_eq_of_length str _ h.2 (by rfl) (by rw [h.1]; rfl))
  have c7 : ¬ (str.length = 2 ∧ str.getD 1 NUL = 'a') := by
    rintro ⟨h1, h2⟩
    apply ha
    match str, hu, h1, h2 with
    | [a, b], hu, _, h2 =>
      simp only [List.head?_cons, Option.some.injEq] at hu
      simp only [List.getD_cons_succ, List.getD_cons_zero] at h2
      rw [hu, h2]; rfl
  have c8 : ¬ (str.length = 2 ∧ str.getD 1 NUL = 'p') := by
    rintro ⟨h1, h2⟩
    apply hp
    match str, hu, h1, h2 with
    | [a, b], hu, _, h2 =>
      simp only [List.head?_cons, Option.some.injEq] at hu
      simp only [List.getD_cons_succ, List.getD_cons_zero] at h2
      rw [hu, h2]; rfl
  have c9 : ¬ (str.length = 8 ∧ strncmp_eq str "_slot_id".toList 8 = true) := fun h =>
    hslotid (by
      have := strncmp_eq_take str _ 8 h.2 (by rfl) (by rfl)
      rw [← this, List.take_of_length_le (by omega)])
  have c10 : ¬ (str.length = 5 ∧ stricmp_eq str "__aid".toList = true) := fun h =>
    haid (stricmp_eq_of_length str _ h.2 (by rfl) (by rw [h.1]; rfl))
  unfold DefaultState.Key
  simp only [hlen, hu, and_self, if_true, c1, c2, c3, c4, c5, c6, c7, c8, c9, c10, if_false]

/-- C15, amended. A key that begins with an underscore but not with `_label`, and is none
of `_text`, `_multi`, `_slots`, `_slot_id`, `_a`, `_p` nor, in any letter case, `_tag`,
`_inc`, `__aid` (`IgnoredKey`), is routed through the fast skip: the Key handler of the
Default state records the key and returns what `Ignore` returns. That is the Ignore state,
with no error reported, when the byte after the key is a colon and the scan stops at a
terminator that does not follow the colon immediately. -/
theorem underscore_key_is_fast_skipped {F : Type} (cfg : JsonConfig F) (ctx : JsonContext F)
    (str : List Char) (hkey : IgnoredKey str) :
    DefaultState.Key cfg ctx str =
      DefaultState.Ignore { ctx with key := str, key_length := str.length } str.length ∧
    (∀ head, str.length + 2 < ctx.stream.length →
      ctx.stream.getD (str.length + 2) NUL = ':' →
      ignoreLoop (ctx.stream.drop (str.length + 2 + 1)) (str.length + 2 + 1) 0 0 =
        .stopped head →
      str.length + 5 ≤ head →
      DefaultState.Key cfg ctx str = .ret (some .ignore_state)
        { ctx with key := str, key_length := str.length,
                   stream := blankValue ctx.stream (str.length + 3) head }) := by
  refine ⟨Key_ignored cfg ctx str hkey, fun head h1 h2 h3 h4 => ?_⟩
  have hle := (ignore_stopped_le _).1 _ _ _ _ h3
  rw [List.length_drop] at hle
  rw [Key_ignored cfg ctx str hkey]
  unfold DefaultState.Ignore
  simp only []
  rw [if_neg (by
    rintro (h | h)
    · omega
    · exact h h2)]
  rw [h3]
  simp only []
  rw [if_neg (by omega), if_neg (by omega)]

/-- C15, the amended statement at a concrete input: the key `_x` in front of an array. -/
theorem underscore_key_is_fast_skipped_witness :
    IgnoredKey "_x".toList ∧
    (DefaultState.Key (sampleJson .simple) sampleSkipContext "_x".toList).next? =
      some .ignore_state ∧
    (DefaultState.Key (sampleJson .simple) sampleSkipContext "_x".toList).ctx?.map
      (fun c => (c.error_ptr, c.stream)) =
      some ([], "\"_x\":0       ,\"b\":2\x7d".toList) :=
  have hk : IgnoredKey "_x".toList := by unfold IgnoredKey; decide
  have h := (underscore_key_is_fast_skipped (sampleJson .simple) sampleSkipContext "_x".toList
    hk).2 14 (by decide) (by rfl) (by rfl) (by decide)
  ⟨hk, by rw [h]; rfl, by rw [h]; rfl⟩

lemma getD_append_colon (pre tail : List Char) (n : Nat) (h : pre.length = n) :
    (pre ++ ':' :: tail).getD n NUL = ':' := by
  subst h
  rw [List.getD_eq_getElem?_getD, List.getElem?_append_right (le_refl _), Nat.sub_self]
  simp

lemma drop_append_colon (pre tail : List Char) (n : Nat) (h : pre.length = n) :
    (pre ++ ':' :: tail).drop (n + 1) = tail := by
  subst h
  rw [List.drop_append_eq_append_drop, List.drop_eq_nil_of_le (by omega),
    Nat.add_sub_cancel_left]
  rfl

/-- The bytes lines 858-860 leave for a value `w` between the colon and its terminator: a
`0` and spaces in the place of `w`, every other byte as it was. -/
lemma blankValue_value (pre w tail : List Char) (n : Nat) (h : pre.length = n)
    (hw : w ≠ []) :
    blankValue (pre ++ ':' :: w ++ tail) (n + 1) (n + 1 + w.length + 1) =
      pre ++ ':' :: '0' :: List.replicate (w.length - 1) ' ' ++ tail := by
  subst h
  obtain ⟨a, as, rfl⟩ := List.exists_cons_of_ne_nil hw
  unfold blankValue
  have h1 : (pre ++ ':' :: (a :: as) ++ tail).take (pre.length + 1) = pre ++ [':'] := by
    simp only [List.append_assoc, List.cons_append]
    rw [List.take_append_eq_append_take, List.take_of_length_le (by omega),
      Nat.add_sub_cancel_left]
    rfl
  have h2 : (pre ++ ':' :: (a :: as) ++ tail).drop (pre.length + 1 + (a :: as).length + 1 - 1) =
      tail := by
    simp only [List.append_assoc, List.cons_append, List.length_cons]
    rw [List.drop_append_eq_append_drop, List.drop_eq_nil_of_le (by omega),
      show pre.length + 1 + (as.length + 1) + 1 - 1 - pre.length = as.length + 1 + 1 by omega,
      List.nil_append, List.drop_succ_cons, List.drop_succ_cons,
      List.drop_append_of_le_length (le_refl _), List.drop_length, List.nil_append]
  rw [h1, h2]
  simp only [List.length_cons, List.append_assoc, List.cons_append, List.nil_append]
  rw [show pre.length + 1 + (as.length + 1) + 1 - (pre.length + 1 + 1) - 1 = as.length by omega,
    show as.length + 1 - 1 = as.length by omega]

/-- `Ignore` on a key of `length` bytes that a colon, a well-formed value and a terminator
follow: the value and nothing else is blanked, no error is reported, and the Ignore state is
returned. -/
lemma Ignore_value {F : Type} (ctx : JsonContext F) (length : Nat)
    (pre w rest : List Char) (c : Char) (hs : ctx.stream = pre ++ ':' :: w ++ c :: rest)
    (hpre : pre.length = length + 2) (hw : JsonText .value w) (hc : isTerminator c = true) :
    DefaultState.Ignore ctx length = .ret (some .ignore_state)
      { ctx with stream := pre ++ ':' :: '0' :: List.replicate (w.length - 1) ' ' ++ c :: rest } := by
  have hwl : 0 < w.length := List.length_pos.mpr hw.value_ne_nil
  have hlen : ctx.stream.length = length + 2 + 1 + w.length + 1 + rest.length := by
    rw [hs]; simp only [List.length_append, List.length_cons, hpre]; omega
  have hs' : ctx.stream = pre ++ ':' :: (w ++ c :: rest) := by
    rw [hs]; simp only [List.append_assoc, List.cons_append]
  unfold DefaultState.Ignore
  simp only []
  rw [if_neg (by
    rintro (h | h)
    · omega
    · rw [hs', getD_append_colon pre _ _ hpre] at h; exact h rfl)]
  rw [show ctx.stream.drop (length + 2 + 1) = w ++ c :: rest by
    rw [hs', drop_append_colon pre _ _ hpre]]
  rw [ignoreLoop_value w hw c hc rest]
  simp only []
  rw [if_neg (by omega), if_neg (by omega)]
  congr 2
  rw [hs, blankValue_value pre w (c :: rest) (length + 2) hpre hw.value_ne_nil]

/-! ## The fast skip in the token machine -/

lemma Same_refl {F : Type} (r : ParseEnd F) : r.Same r := by
  cases r <;> simp [ParseEnd.Same]

lemma PopNamespace_withKey {F : Type} (c : JsonContext F) (k : List Char) (kl : Nat)
    (p : Option BaseState) (st : List Char) :
    (c.withKey k kl p st).PopNamespace =
      c.PopNamespace.map (fun r => (r.1, r.2.withKey k kl p st)) := by
  unfold JsonContext.PopNamespace
  simp only [JsonContext.withKey, JsonContext.ex?, JsonContext.setEx]
  split
  · split
    · split
      · rfl
      · split
        · rfl
        · rfl
    · rfl
  · rfl

lemma applyLabelIndex_withKey {F : Type} (c : JsonContext F) (k : List Char) (kl : Nat)
    (p : Option BaseState) (st : List Char) :
    applyLabelIndex (c.withKey k kl p st) =
      (applyLabelIndex c).map (Sum.map (Handled.mapCtx (fun x => x.withKey k kl p st))
        (fun x => x.withKey k kl p st)) := by
  unfold applyLabelIndex
  simp only [JsonContext.withKey, JsonContext.fail]
  split
  · split
    · rfl
    · split
      · rfl
      · rfl
  · rfl

lemma LabelObject_EndObject_withKey {F : Type} (ops : FloatOps F) (cfg : JsonConfig F)
    (c : JsonContext F) (k : List Char) (kl : Nat) (p : Option BaseState) (st : List Char) :
    LabelObjectState.EndObject ops cfg (c.withKey k kl p st) =
      (LabelObjectState.EndObject ops cfg c).mapCtx (fun x => x.withKey k kl p st) := by
  unfold LabelObjectState.EndObject
  simp only [JsonContext.withKey, JsonContext.ex?, JsonContext.setEx]
  repeat (first | rfl | split)

lemma syntheticSlot_withKey {F : Type} (cfg : JsonConfig F)
    (c : JsonContext F) (k : List Char) (kl : Nat) (p : Option BaseState) (st : List Char) :
    syntheticSlot cfg (c.withKey k kl p st) = (syntheticSlot cfg c).withKey k kl p st := by
  unfold syntheticSlot
  simp only [JsonContext.withKey]
  repeat (first | rfl | split)

lemma Default_EndObject_withKey {F : Type} (ops : FloatOps F) (cfg : JsonConfig F)
    (c : JsonContext F) (k : List Char) (kl : Nat) (p : Option BaseState) (st : List Char) :
    DefaultState.EndObject ops cfg (c.withKey k kl p st) =
      (DefaultState.EndObject ops cfg c).mapCtx (fun x => x.withKey k kl p st) := by
  unfold DefaultState.EndObject
  rw [PopNamespace_withKey]
  cases h1 : c.PopNamespace with
  | none => rfl
  | some r =>
    obtain ⟨r1, c1⟩ := r
    simp only [Option.map_some']
    have hns : (c1.withKey k kl p st).namespace_path = c1.namespace_path := rfl
    rw [hns]
    split
    · rw [applyLabelIndex_withKey]
      cases h2 : applyLabelIndex c1 with
      | none => rfl
      | some v =>
        cases v with
        | inl r => rfl
        | inr c2 =>
          simp only [Option.map_some', Sum.map_inr]
          rw [LabelObject_EndObject_withKey]
          cases h3 : LabelObjectState.EndObject ops cfg c2 with
          | undefined => rfl
          | throws e c3 => rfl
          | ret n c3 =>
            simp only [Handled.mapCtx]
            rw [syntheticSlot_withKey]
            rfl
    · rfl

lemma Ignore_previous {F : Type} (c : JsonContext F) (p : Option BaseState) (n : Nat) :
    DefaultState.Ignore { c with previous_state := p } n =
      (DefaultState.Ignore c n).mapCtx (fun x => { x with previous_state := p }) := by
  unfold DefaultState.Ignore
  simp only [JsonContext.fail]
  repeat (first | rfl | split)

lemma Default_Key_previous {F : Type} (cfg : JsonConfig F) (c : JsonContext F)
    (k : List Char) (kl : Nat) (p : Option BaseState) (s : List Char) :
    DefaultState.Key cfg { c with key := k, key_length := kl, previous_state := p } s =
      (DefaultState.Key cfg c s).mapCtx (fun x => { x with previous_state := p }) := by
  have hI := Ignore_previous { c with key := s, key_length := s.length } p s.length
  unfold DefaultState.Key
  simp only [JsonContext.fail]
  by_cases h0 : s.length > 0 ∧ s.head? = some '_'
  swap
  · rw [if_neg h0, if_neg h0]; rfl
  rw [if_pos h0, if_pos h0]
  by_cases h1 : s.length ≥ 6 ∧ strncmp_eq s "_label".toList 6 = true
  · rw [if_pos h1, if_pos h1]
    by_cases h2 : s.length ≥ 7 ∧ s.getD 6 NUL = '_'
    · rw [if_pos h2, if_pos h2]
      by_cases h3 : s.length ≥ 9 ∧ strncmp_eq (s.drop 7) "ca".toList 2 = true
      · rw [if_pos h3, if_pos h3]; rfl
      · rw [if_neg h3, if_neg h3]; rfl
    · rw [if_neg h2, if_neg h2]
      by_cases h3 : s.length = 6
      · rw [if_pos h3, if_pos h3]; rfl
      · rw [if_neg h3, if_neg h3]
        by_cases h4 : s.length = 11 ∧ stricmp_eq s "_labelIndex".toList = true
        · rw [if_pos h4, if_pos h4]; rfl
        · rw [if_neg h4, if_neg h4]; rfl
  rw [if_neg h1, if_neg h1]
  by_cases h2 : s.length = 5 ∧ strcmp_eq s "_text".toList = true
  · rw [if_pos h2, if_pos h2]; rfl
  rw [if_neg h2, if_neg h2]
  by_cases h3 : s.length = 6 ∧ strcmp_eq s "_multi".toList = true
  · rw [if_pos h3, if_pos h3]; rfl
  rw [if_neg h3, if_neg h3]
  by_cases h4 : s.length = 6 ∧ strcmp_eq s "_slots".toList = true
  · rw [if_pos h4, if_pos h4]; rfl
  rw [if_neg h4, if_neg h4]
  by_cases h5 : s.length = 4 ∧ stricmp_eq s "_tag".toList = true
  · rw [if_pos h5, if_pos h5]; rfl
  rw [if_neg h5, if_neg h5]
  by_cases h6 : s.length = 4 ∧ stricmp_eq s "_inc".toList = true
  · rw [if_pos h6, if_pos h6]; rfl
  rw [if_neg h6, if_neg h6]
  by_cases h7 : s.length = 2 ∧ s.getD 1 NUL = 'a'
  · rw [if_pos h7, if_pos h7]; rfl
  rw [if_neg h7, if_neg h7]
  by_cases h8 : s.length = 2 ∧ s.getD 1 NUL = 'p'
  · rw [if_pos h8, if_pos h8]
    by_cases hr : c.root_state = some .decision_service_state
    · rw [if_pos hr, if_pos hr]
      simp only [] at hI
      rw [hI]
      cases DefaultState.Ignore { c with key := s, key_length := s.length } s.length <;> rfl
    · rw [if_neg hr, if_neg hr]; rfl
  rw [if_neg h8, if_neg h8]
  by_cases h9 : s.length = 8 ∧ strncmp_eq s "_slot_id".toList 8 = true
  · rw [if_pos h9, if_pos h9]
    by_cases hs : cfg.label_type ≠ .slates
    · rw [if_pos hs, if_pos hs]; rfl
    · rw [if_neg hs, if_neg hs]; rfl
  rw [if_neg h9, if_neg h9]
  by_cases h10 : s.length = 5 ∧ stricmp_eq s "__aid".toList = true
  · rw [if_pos h10, if_pos h10]; rfl
  rw [if_neg h10, if_neg h10]
  exact hI

lemma token_key_default {F : Type} (ops : FloatOps F) (cv : FloatConv F) (cfg : JsonConfig F)
    (ctx : JsonContext F) (h : ctx.current_state = .default_state) (str src : List Char) :
    VWReaderHandler.token ops cv cfg ctx (.Key str src) =
      DefaultState.Key cfg { ctx with stream := src } str := by
  show BaseState.handle ops cv cfg ctx.current_state _ _ = _
  rw [h]
  rfl

lemma token_end_object_default {F : Type} (ops : FloatOps F) (cv : FloatConv F)
    (cfg : JsonConfig F) (ctx : JsonContext F) (h : ctx.current_state = .default_state)
    (n : Nat) :
    VWReaderHandler.token ops cv cfg ctx (.EndObject n) = DefaultState.EndObject ops cfg ctx := by
  show BaseState.handle ops cv cfg ctx.current_state _ _ = _
  rw [h]
  rfl

lemma token_uint_ignore {F : Type} (ops : FloatOps F) (cv : FloatConv F) (cfg : JsonConfig F)
    (ctx : JsonContext F) (h : ctx.current_state = .ignore_state) (v : Nat) :
    VWReaderHandler.token ops cv cfg ctx (.Uint v) = .ret ctx.previous_state ctx := by
  show BaseState.handle ops cv cfg ctx.current_state _ _ = _
  rw [h]
  rfl

lemma parseTokens_cons_ret {F : Type} (ops : FloatOps F) (cv : FloatConv F) (cfg : JsonConfig F)
    (ctx c : JsonContext F) (t : Token F) (ts : List (Token F)) (s : BaseState)
    (h : VWReaderHandler.token ops cv cfg ctx t = .ret (some s) c) :
    parseTokens ops cv cfg (t :: ts) ctx =
      parseTokens ops cv cfg ts
        { c with previous_state := some c.current_state, current_state := s } := by
  rw [parseTokens, h]
  rfl

/-- The two tokens of a fast-skipped member, the key and the zero its value is replaced by,
leave the Default state as it was, with the key and the blanked buffer recorded. -/
lemma skipped_member_run {F : Type} (ops : FloatOps F) (cv : FloatConv F) (cfg : JsonConfig F)
    (ctx : JsonContext F) (str pre w rest : List Char) (c : Char)
    (hstate : ctx.current_state = .default_state) (hkey : IgnoredKey str)
    (hpre : pre.length = str.length + 2) (hw : JsonText .value w)
    (hc : isTerminator c = true) (v : Nat) (post : List (Token F)) :
    parseTokens ops cv cfg (.Key str (pre ++ ':' :: w ++ c :: rest) :: .Uint v :: post) ctx =
      parseTokens ops cv cfg post
        (ctx.withKey str str.length (some .ignore_state)
          (pre ++ ':' :: '0' :: List.replicate (w.length - 1) ' ' ++ c :: rest)) := by
  have h1 : VWReaderHandler.token ops cv cfg ctx (.Key str (pre ++ ':' :: w ++ c :: rest)) =
      .ret (some .ignore_state)
        { ctx with key := str, key_length := str.length,
                   stream := pre ++ ':' :: '0' :: List.replicate (w.length - 1) ' ' ++ c :: rest } := by
    rw [token_key_default ops cv cfg ctx hstate, Key_ignored cfg _ str hkey,
      Ignore_value _ str.length pre w rest c rfl hpre hw hc]
  rw [parseTokens_cons_ret ops cv cfg ctx _ _ _ _ h1]
  rw [parseTokens, token_uint_ignore ops cv cfg _ rfl v]
  show parseTokens ops cv cfg post _ = _
  congr 1

lemma Same_key_led {F : Type} (ops : FloatOps F) (cv : FloatConv F) (cfg : JsonConfig F)
    (ctx : JsonContext F) (hstate : ctx.current_state = .default_state)
    (k : List Char) (kl : Nat) (p : Option BaseState) (st : List Char)
    (str2 src2 : List Char) (post : List (Token F)) :
    (parseTokens ops cv cfg (.Key str2 src2 :: post) (ctx.withKey k kl p st)).Same
      (parseTokens ops cv cfg (.Key str2 src2 :: post) ctx) := by
  have hA : VWReaderHandler.token ops cv cfg (ctx.withKey k kl p st) (.Key str2 src2) =
      (VWReaderHandler.token ops cv cfg ctx (.Key str2 src2)).mapCtx
        (fun x => { x with previous_state := p }) := by
    rw [token_key_default ops cv cfg ctx hstate,
      token_key_default ops cv cfg (ctx.withKey k kl p st) hstate,
      ← Default_Key_previous cfg _ k kl p str2]
    rfl
  rw [parseTokens, parseTokens, hA]
  cases VWReaderHandler.token ops cv cfg ctx (.Key str2 src2) with
  | undefined => trivial
  | throws e c => exact ⟨rfl, rfl⟩
  | ret n c =>
    cases n with
    | none => show JsonContext.forgetKey _ = JsonContext.forgetKey _; rfl
    | some s => exact Same_refl _

lemma Same_end_object {F : Type} (ops : FloatOps F) (cv : FloatConv F) (cfg : JsonConfig F)
    (ctx : JsonContext F) (hstate : ctx.current_state = .default_state)
    (k : List Char) (kl : Nat) (p : Option BaseState) (st : List Char) (n m : Nat) :
    (parseTokens ops cv cfg [.EndObject n] (ctx.withKey k kl p st)).Same
      (parseTokens ops cv cfg [.EndObject m] ctx) := by
  rw [parseTokens, parseTokens, token_end_object_default ops cv cfg ctx hstate,
    token_end_object_default ops cv cfg (ctx.withKey k kl p st) hstate,
    Default_EndObject_withKey]
  cases DefaultState.EndObject ops cfg ctx with
  | undefined => trivial
  | throws e c => exact ⟨rfl, rfl⟩
  | ret n c =>
    cases n with
    | none => show JsonContext.forgetKey _ = JsonContext.forgetKey _; rfl
    | some s => show JsonContext.forgetKey _ = JsonContext.forgetKey _; rfl

lemma PopNamespace_return {F : Type} (ctx c1 : JsonContext F) (r : Option BaseState)
    (h : ctx.PopNamespace = some (r, c1)) :
    ctx.return_path.getLast? = some r ∧ c1.namespace_path = ctx.namespace_path.dropLast := by
  unfold JsonContext.PopNamespace at h
  cases hn : ctx.namespace_path.getLast? with
  | none => rw [hn] at h; cases h
  | some ns =>
    cases hr : ctx.return_path.getLast? with
    | none => rw [hn, hr] at h; cases h
    | some r0 =>
      rw [hn, hr] at h
      simp only [] at h
      by_cases hfc : ns.feature_count > 0
      · rw [if_pos hfc] at h
        cases he : ctx.ex? with
        | none => rw [he] at h; cases h
        | some e =>
          rw [he] at h
          simp only [Context.PopNamespace, List.getLast?_map, hn, hr, Option.map_some'] at h
          simp only [Option.some.injEq, Prod.mk.injEq] at h
          obtain ⟨h1, h2⟩ := h
          subst h2
          exact ⟨congrArg some h1, rfl⟩
      · rw [if_neg hfc] at h
        simp only [Option.some.injEq, Prod.mk.injEq] at h
        obtain ⟨h1, h2⟩ := h
        subst h2
        exact ⟨congrArg some h1, rfl⟩

/-- The close of an object that is nested in an object returns to the Default state. -/
lemma nested_close_state {F : Type} (ops : FloatOps F) (cfg : JsonConfig F)
    (ctx c1 : JsonContext F) (s : BaseState)
    (hret : ctx.return_path.getLast? = some (some .default_state))
    (hdeep : 1 < ctx.namespace_path.length)
    (h : DefaultState.EndObject ops cfg ctx = .ret (some s) c1) : s = .default_state := by
  unfold DefaultState.EndObject at h
  cases hp : ctx.PopNamespace with
  | none => rw [hp] at h; cases h
  | some rc =>
    obtain ⟨r, c⟩ := rc
    rw [hp] at h
    obtain ⟨h1, h2⟩ := PopNamespace_return ctx c r hp
    have hne : ¬ c.namespace_path.isEmpty = true := by
      rw [h2]
      intro h3
      rw [List.isEmpty_iff] at h3
      have := congrArg List.length h3
      rw [List.length_dropLast] at this
      simp only [List.length_nil] at this
      omega
    simp only [] at h
    rw [if_neg hne] at h
    rw [hret] at h1
    simp only [Option.some.injEq] at h1
    subst h1
    simp only [Handled.ret.injEq, Option.some.injEq] at h
    exact h.1.symm

lemma Same_close_then_key {F : Type} (ops : FloatOps F) (cv : FloatConv F) (cfg : JsonConfig F)
    (ctx : JsonContext F) (hstate : ctx.current_state = .default_state)
    (hret : ctx.return_path.getLast? = some (some .default_state))
    (hdeep : 1 < ctx.namespace_path.length)
    (k : List Char) (kl : Nat) (p : Option BaseState) (st : List Char) (n m : Nat)
    (str2 src2 : List Char) (post : List (Token F)) :
    (parseTokens ops cv cfg (.EndObject n :: .Key str2 src2 :: post)
      (ctx.withKey k kl p st)).Same
      (parseTokens ops cv cfg (.EndObject m :: .Key str2 src2 :: post) ctx) := by
  rw [parseTokens, parseTokens, token_end_object_default ops cv cfg ctx hstate,
    token_end_object_default ops cv cfg (ctx.withKey k kl p st) hstate,
    Default_EndObject_withKey]
  cases hE : DefaultState.EndObject ops cfg ctx with
  | undefined => trivial
  | throws e c => exact ⟨rfl, rfl⟩
  | ret nx c1 =>
    cases nx with
    | none => show JsonContext.forgetKey _ = JsonContext.forgetKey _; rfl
    | some s =>
      have hs := nested_close_state ops cfg ctx c1 s hret hdeep hE
      subst hs
      exact Same_key_led ops cv cfg
        { c1 with previous_state := some c1.current_state, current_state := .default_state }
        rfl k kl (some c1.current_state) st str2 src2 post

/-- C14. In the Default state, for a key of the fast-skip path whose buffer view is the
quoted key, a colon, a well-formed JSON value `w` and then a terminator `c` (a comma, a
closing brace or a closing bracket): the scan of `Ignore` over the text after the colon
stops one byte past `c`, the first terminator outside every string, object and array of
the value, whatever braces, brackets, commas and escaped quotes its strings hold; the Key
handler returns the Ignore state with no error, the value blanked to a zero and spaces and
nothing after it changed; and the parse of the member followed by a further key, by the
closing brace of the object that ends the line, or by the closing brace of an object nested
in an object and a further key, ends as the parse without the member does, with the same
examples, namespace stack, label scratch and messages. The skipped key stays
the last key, and an array start that is accepted right after the object (an array after an
object element of an array) names its namespace after it: the line
`\x7b"arr":[\x7b"_x":1\x7d,[2],null]\x7d` stores its feature in the group 95 of `_x`, the
line `\x7b"arr":[\x7b\x7d,[2],null]\x7d` in the group 97 of `arr`. -/
theorem fast_skip_value_is_exact_and_inert {F : Type} (ops : FloatOps F) (cv : FloatConv F)
    (cfg : JsonConfig F) (ctx : JsonContext F) (str pre w rest : List Char) (c : Char)
    (hstate : ctx.current_state = .default_state) (hkey : IgnoredKey str)
    (hpre : pre.length = str.length + 2) (hw : JsonText .value w)
    (hc : isTerminator c = true) :
    ignoreLoop (w ++ c :: rest) (str.length + 3) 0 0 =
        .stopped (str.length + 3 + w.length + 1) ∧
    VWReaderHandler.token ops cv cfg ctx (.Key str (pre ++ ':' :: w ++ c :: rest)) =
      .ret (some .ignore_state)
        { ctx with key := str, key_length := str.length,
                   stream := pre ++ ':' :: '0' :: List.replicate (w.length - 1) ' ' ++
                     c :: rest } ∧
    (∀ (str2 src2 : List Char) (post : List (Token F)),
      (parseTokens ops cv cfg
        (.Key str (pre ++ ':' :: w ++ c :: rest) :: .Uint 0 :: .Key str2 src2 :: post) ctx).Same
      (parseTokens ops cv cfg (.Key str2 src2 :: post) ctx)) ∧
    (∀ n m : Nat,
      (parseTokens ops cv cfg
        [.Key str (pre ++ ':' :: w ++ c :: rest), .Uint 0, .EndObject n] ctx).Same
      (parseTokens ops cv cfg [.EndObject m] ctx)) ∧
    (ctx.return_path.getLast? = some (some .default_state) → 1 < ctx.namespace_path.length →
      ∀ (n m : Nat) (str2 src2 : List Char) (post : List (Token F)),
      (parseTokens ops cv cfg
        (.Key str (pre ++ ':' :: w ++ c :: rest) :: .Uint 0 :: .EndObject n ::
          .Key str2 src2 :: post) ctx).Same
      (parseTokens ops cv cfg (.EndObject m :: .Key str2 src2 :: post) ctx)) ∧
    (parseTokens sampleOps sampleConv (sampleJson .simple) skippedThenArrayTokens
      (sampleJsonContext .simple)).ctx?.map
        (fun c => (c.error_ptr, c.examples.map storedValues)) =
      some ([], [[(95, [some 2])]]) ∧
    (parseTokens sampleOps sampleConv (sampleJson .simple) emptyThenArrayTokens
      (sampleJsonContext .simple)).ctx?.map
        (fun c => (c.error_ptr, c.examples.map storedValues)) =
      some ([], [[(97, [some 2])]]) := by
  refine ⟨ignoreLoop_value w hw c hc rest _, ?_, fun str2 src2 post => ?_, fun n m => ?_,
    fun hret hdeep n m str2 src2 post => ?_, by rfl, by rfl⟩
  · rw [token_key_default ops cv cfg ctx hstate, Key_ignored cfg _ str hkey,
      Ignore_value _ str.length pre w rest c rfl hpre hw hc]
  · rw [skipped_member_run ops cv cfg ctx str pre w rest c hstate hkey hpre hw hc]
    exact Same_key_led ops cv cfg ctx hstate _ _ _ _ str2 src2 post
  · rw [skipped_member_run ops cv cfg ctx str pre w rest c hstate hkey hpre hw hc]
    exact Same_end_object ops cv cfg ctx hstate _ _ _ _ n m
  · rw [skipped_member_run ops cv cfg ctx str pre w rest c hstate hkey hpre hw hc]
    exact Same_close_then_key ops cv cfg ctx hstate hret hdeep _ _ _ _ n m str2 src2 post

/-- C14 at a concrete input: the member `"_x":\x7b"a":["x\"\x7d,]"]\x7d` in front of the
member `"b":2`. -/
theorem fast_skip_value_is_exact_and_inert_witness :
    sampleOpenContext.current_state = .default_state ∧ IgnoredKey "_x".toList ∧
    JsonText .value sampleNestedValue ∧ isTerminator ',' = true ∧
    ignoreLoop (sampleNestedValue ++ ',' :: "\"b\":2\x7d".toList) 5 0 0 = .stopped 22 ∧
    (parseTokens sampleOps sampleConv (sampleJson .simple)
      [.Key "_x".toList sampleNestedView, .Uint 0, .Key "b".toList "\"b\":2\x7d".toList,
        .Uint 2, .EndObject 2] sampleOpenContext).Same
      (parseTokens sampleOps sampleConv (sampleJson .simple)
        [.Key "b".toList "\"b\":2\x7d".toList, .Uint 2, .EndObject 1] sampleOpenContext) :=
  have hk : IgnoredKey "_x".toList := by unfold IgnoredKey; decide
  have hbody : StringBody ['x', '\\', '"', '\x7d', ',', ']'] :=
    .char 'x' _ (by decide) (by decide) (by decide)
      (.escape '"' _
        (.char '\x7d' _ (by decide) (by decide) (by decide)
          (.char ',' _ (by decide) (by decide) (by decide)
            (.char ']' _ (by decide) (by decide) (by decide) .nil))))
  have hstr := JsonText.string [] _ [] (by simp) hbody (by simp)
  have harr := JsonText.array [] _ [] (by simp) (JsonText.element _ hstr) (by simp)
  have hmem := JsonText.member [] ['a'] [] _ (by simp)
    (.char 'a' _ (by decide) (by decide) (by decide) .nil) (by simp) harr
  have hobj := JsonText.object [] _ [] (by simp) hmem (by simp)
  have hw : JsonText .value sampleNestedValue := hobj
  have h := fast_skip_value_is_exact_and_inert sampleOps sampleConv (sampleJson .simple)
    sampleOpenContext "_x".toList "\"_x\"".toList sampleNestedValue "\"b\":2\x7d".toList ','
    (by rfl) hk (by rfl) hw (by rfl)
  ⟨by rfl, hk, hw, by rfl, h.1, h.2.2.1 "b".toList "\"b\":2\x7d".toList [.Uint 2, .EndObject 2]⟩

/-! ## Feature objects and groups in the token machine -/

section
variable {F : Type} (ops : FloatOps F) (cv : FloatConv F) (cfg : JsonConfig F)

lemma Runs.nil_run (ctx : JsonContext F) : Runs ops cv cfg [] ctx ctx := fun _ => rfl

lemma Runs.append_run {ts1 ts2 : List (Token F)} {a b c : JsonContext F}
    (h1 : Runs ops cv cfg ts1 a b) (h2 : Runs ops cv cfg ts2 b c) :
    Runs ops cv cfg (ts1 ++ ts2) a c := fun post => by
  rw [List.append_assoc, h1, h2]

lemma Runs.cons_run {t : Token F} {ts : List (Token F)} {a c1 c : JsonContext F}
    {s : BaseState} (h : VWReaderHandler.token ops cv cfg a t = .ret (some s) c1)
    (h2 : Runs ops cv cfg ts
      { c1 with previous_state := some c1.current_state, current_state := s } c) :
    Runs ops cv cfg (t :: ts) a c := fun post => by
  rw [List.cons_append, parseTokens_cons_ret ops cv cfg a c1 t _ s h, h2]

lemma Runs.single_run {t : Token F} {a c1 : JsonContext F}
    {s : BaseState} (h : VWReaderHandler.token ops cv cfg a t = .ret (some s) c1) :
    Runs ops cv cfg [t] a
      { c1 with previous_state := some c1.current_state, current_state := s } :=
  Runs.cons_run ops cv cfg h (Runs.nil_run ops cv cfg _)

lemma Runs.finished_run {ts : List (Token F)} {a c : JsonContext F}
    (h : Runs ops cv cfg ts a c) : parseTokens ops cv cfg ts a = .finished c := by
  have := h []
  rw [List.append_nil] at this
  rw [this, parseTokens]

end

lemma SameObject.ex_eq {F : Type} {ctx c : JsonContext F} (h : SameObject ctx c) :
    c.ex = ctx.ex := by
  have h1 : c.frame.ex = ctx.frame.ex := by rw [h.frame]
  exact h1

lemma SameObject.refl_object {F : Type} (ctx : JsonContext F) : SameObject ctx ctx :=
  ⟨rfl, rfl, rfl, rfl, rfl, rfl, fun _ _ => rfl⟩

lemma SameObject.trans_object {F : Type} {a b c : JsonContext F} (h1 : SameObject a b)
    (h2 : SameObject b c) : SameObject a c :=
  ⟨h2.frame.trans h1.frame, h2.state.trans h1.state, h2.returns.trans h1.returns,
    h2.stack_init.trans h1.stack_init, h2.stack_last.trans h1.stack_last,
    h2.labels.trans h1.labels,
    fun j hj => (h2.others j (by rw [h1.ex_eq]; exact hj)).trans (h1.others j hj)⟩

lemma SameObject.length_eq {F : Type} {ctx c : JsonContext F} (h : SameObject ctx c) :
    c.examples.length = ctx.examples.length := by
  have := congrArg List.length h.labels
  simpa using this

lemma InScope.of_same {F : Type} {ctx c : JsonContext F} (hs : InScope ctx)
    (h : SameObject ctx c) : InScope c := by
  obtain ⟨ns, hns, hf⟩ := hs.scope
  have hl := h.stack_last
  rw [hns] at hl
  have hlen : c.namespace_path.length = ctx.namespace_path.length := by
    have h1 := congrArg List.length h.stack_init
    simp only [List.length_dropLast] at h1
    have h2 : ctx.namespace_path ≠ [] := by
      intro h0; rw [h0] at hns; simp at hns
    have h3 : c.namespace_path ≠ [] := by
      intro h0; rw [h0] at hl; simp at hl
    have := List.length_pos.mpr h2
    have := List.length_pos.mpr h3
    omega
  refine ⟨?_, ?_, ?_⟩
  · cases hc : c.namespace_path.getLast? with
    | none => rw [hc] at hl; simp at hl
    | some ns' =>
      refine ⟨ns', rfl, ?_⟩
      rw [hc] at hl
      simp only [Option.map_some', Option.some.injEq] at hl
      have := congrArg Scope.ftrs hl
      rw [h.ex_eq, ← hf]
      exact this
  · rw [h.ex_eq, h.length_eq]; exact hs.current
  · rw [h.returns, hlen]; exact hs.returns

lemma map_set_same {α β : Type} (f : α → β) (l : List α) (i : Nat) (e e' : α)
    (h : l.get? i = some e) (hf : f e' = f e) : (l.set i e').map f = l.map f := by
  apply List.ext_getElem?
  intro j
  rw [List.getElem?_map, List.getElem?_map, List.getElem?_set]
  by_cases hij : i = j
  · subst hij
    rw [if_pos rfl]
    rw [List.get?_eq_getElem?] at h
    rw [h]
    have hlt : i < l.length := by
      by_contra hc
      rw [List.getElem?_eq_none (by omega)] at h
      cases h
    rw [if_pos hlt]
    simp [hf]
  · rw [if_neg hij]

lemma get?_set_other {α : Type} (l : List α) (i j : Nat) (e : α) (h : j ≠ i) :
    (l.set i e).get? j = l.get? j := by
  rw [List.get?_eq_getElem?, List.get?_eq_getElem?, List.getElem?_set, if_neg (Ne.symm h)]

lemma pushFeature_same {F : Type} (ops : FloatOps F) (cfg : JsonConfig F) (ctx : JsonContext F)
    (hs : InScope ctx) (v : F) (i : Nat) (name : List Char) :
    ∃ c, ctx.pushFeature ops cfg v i name = some c ∧ SameObject ctx c := by
  obtain ⟨ns, hns, hf⟩ := hs.scope
  obtain ⟨e, he⟩ : ∃ e, ctx.examples.get? ns.ftrs = some e := by
    rw [hf, List.get?_eq_getElem?, List.getElem?_eq_getElem hs.current]; exact ⟨_, rfl⟩
  unfold JsonContext.pushFeature
  rw [hns]
  simp only [he]
  refine ⟨_, rfl, ⟨rfl, rfl, rfl, ?_, ?_, ?_, ?_⟩⟩
  · exact dropLast_append_singleton _ _
  · show (List.getLast? (_ ++ [_])).map _ = _
    rw [getLast?_append_singleton, hns]
    rfl
  · exact map_set_same _ _ _ e _ he rfl
  · intro j hj
    exact get?_set_other _ _ _ _ (by rw [hf]; exact hj)

lemma AddFeature_same {F : Type} (ops : FloatOps F) (cfg : JsonConfig F) (ctx : JsonContext F)
    (hs : InScope ctx) (v : F) (i : Nat) (name : List Char) :
    ∃ c, ctx.AddFeature ops cfg v i name = some c ∧ SameObject ctx c := by
  obtain ⟨ns, hns, hf⟩ := hs.scope
  unfold JsonContext.AddFeature
  rw [hns]
  simp only []
  by_cases hz : ops.isZero v = true
  · rw [if_pos hz]; exact ⟨ctx, rfl, SameObject.refl_object ctx⟩
  · rw [if_neg hz]; exact pushFeature_same ops cfg ctx hs v i name

lemma AddFeatureStr_same {F : Type} (ops : FloatOps F) (cfg : JsonConfig F)
    (ctx : JsonContext F) (hs : InScope ctx) (str : List Char) :
    ∃ c, ctx.AddFeatureStr ops cfg str = some c ∧ SameObject ctx c := by
  obtain ⟨ns, hns, hf⟩ := hs.scope
  unfold JsonContext.AddFeatureStr
  rw [hns]
  exact pushFeature_same ops cfg ctx hs _ _ _

section
variable {F : Type} (ops : FloatOps F) (cv : FloatConv F) (cfg : JsonConfig F)

lemma token_of_state (ctx : JsonContext F) (s : BaseState) (h : ctx.current_state = s)
    (t : Token F) (ht : ∀ k src, t ≠ .Key k src) :
    VWReaderHandler.token ops cv cfg ctx t = BaseState.handle ops cv cfg s t ctx := by
  subst h
  cases t <;> first | rfl | exact absurd rfl (ht _ _)

end

section
variable {F : Type} (ops : FloatOps F) (cv : FloatConv F) (cfg : JsonConfig F)

end

section
variable {F : Type} (ops : FloatOps F) (cv : FloatConv F) (cfg : JsonConfig F)

end

section
variable {F : Type} (ops : FloatOps F) (cv : FloatConv F) (cfg : JsonConfig F)

end

section
variable {F : Type} (ops : FloatOps F) (cv : FloatConv F) (cfg : JsonConfig F)

end

lemma wrapInt64_small (i : Int) (h1 : -2 ^ 63 ≤ i) (h2 : i < 2 ^ 63) : wrapInt64 i = i := by
  unfold wrapInt64
  rw [Int.emod_eq_of_lt (by omega) (by omega)]
  omega

/-- The loop of `choose` after `j` iterations holds the binomial coefficient of `j`; every
product it makes is the next coefficient times the divisor. -/
lemma chooseLoop_spec (n0 k : Nat) (hk : k < n0) (hn : (n0 : Int) < 2 ^ 63)
    (hfit : ∀ d : Nat, 1 ≤ d → d ≤ k → ((d * Nat.choose n0 d : Nat) : Int) < 2 ^ 63) :
    ∀ (fuel j : Nat) (divs : List (Int × Int)), fuel + j = k →
      chooseLoop fuel k ((j : Int) + 1) ((n0 : Int) - j) (Nat.choose n0 j) divs =
        ((Nat.choose n0 k : Int),
          divs ++ (List.range' j fuel).map
            (fun i => ((((i + 1) * Nat.choose n0 (i + 1) : Nat) : Int), ((i : Int) + 1)))) := by
  intro fuel
  induction fuel with
  | zero =>
    intro j divs h
    have : j = k := by omega
    subst this
    simp [chooseLoop]
  | succ fuel ih =>
    intro j divs h
    have hj : j + 1 ≤ k := by omega
    have hprod : (Nat.choose n0 j : Int) * ((n0 : Int) - j) =
        (((j + 1) * Nat.choose n0 (j + 1) : Nat) : Int) := by
      have h1 := Nat.choose_succ_right_eq n0 j
      have h2 : ((n0 - j : Nat) : Int) = (n0 : Int) - j := by
        rw [Nat.cast_sub (by omega)]
      rw [← h2, ← Nat.cast_mul, ← h1, Nat.mul_comm]
    have hfitj := hfit (j + 1) (by omega) hj
    have hnonneg : (0 : Int) ≤ (((j + 1) * Nat.choose n0 (j + 1) : Nat) : Int) :=
      Int.natCast_nonneg _
    have hr1 : wrapInt64 ((Nat.choose n0 j : Int) * ((n0 : Int) - j)) =
        (((j + 1) * Nat.choose n0 (j + 1) : Nat) : Int) := by
      rw [hprod]
      exact wrapInt64_small _ (by omega) hfitj
    have hn1 : wrapInt64 ((n0 : Int) - j - 1) = (n0 : Int) - ((j + 1 : Nat) : Int) := by
      rw [wrapInt64_small _ (by omega) (by omega)]
      push_cast
      ring
    have hdiv : Int.tdiv (((j + 1) * Nat.choose n0 (j + 1) : Nat) : Int) ((j : Int) + 1) =
        (Nat.choose n0 (j + 1) : Int) := by
      rw [Int.tdiv_eq_ediv (Int.natCast_nonneg _) (by omega)]
      push_cast
      rw [Int.mul_ediv_cancel_left _ (by omega)]
    have hcle : ((Nat.choose n0 (j + 1) : Nat) : Int) < 2 ^ 63 := by
      have : Nat.choose n0 (j + 1) ≤ (j + 1) * Nat.choose n0 (j + 1) :=
        Nat.le_mul_of_pos_left _ (by omega)
      have h3 : ((Nat.choose n0 (j + 1) : Nat) : Int) ≤
          (((j + 1) * Nat.choose n0 (j + 1) : Nat) : Int) := by exact_mod_cast this
      omega
    have hr2 : wrapInt64 (Nat.choose n0 (j + 1) : Int) = (Nat.choose n0 (j + 1) : Int) :=
      wrapInt64_small _ (by have := Int.natCast_nonneg (Nat.choose n0 (j + 1)); omega) hcle
    have hd : wrapInt64 ((j : Int) + 1 + 1) = ((j + 1 : Nat) : Int) + 1 := by
      rw [wrapInt64_small _ (by omega) (by omega)]
      push_cast
      ring
    rw [chooseLoop, if_pos (by omega)]
    simp only []
    rw [hr1, hn1, hdiv, hr2, hd, ih (j + 1) _ (by omega)]
    rw [List.range'_succ, List.map_cons, List.append_assoc]
    simp only [List.singleton_append, Nat.cast_add, Nat.cast_one]

lemma factorial_small (m : Nat) (h : m ≤ 20) : factorial (m : Int) = (Nat.factorial m : Int) := by
  interval_cases m <;> rfl

lemma chooseLoop_run (n k : Int) (hk : 0 < k) (hkn : k < n) (hn : n < 2 ^ 63)
    (hfit : ∀ d : Nat, 1 ≤ d → (d : Int) ≤ k →
      ((d * Nat.choose n.toNat d : Nat) : Int) < 2 ^ 63) :
    chooseLoop k.toNat k 1 n 1 [] =
      ((Nat.choose n.toNat k.toNat : Int),
        (List.range' 0 k.toNat).map
          (fun i => ((((i + 1) * Nat.choose n.toNat (i + 1) : Nat) : Int), ((i : Int) + 1)))) := by
  have hn0 : ((n.toNat : Nat) : Int) = n := Int.toNat_of_nonneg (by omega)
  have hk0 : ((k.toNat : Nat) : Int) = k := Int.toNat_of_nonneg (by omega)
  have h := chooseLoop_spec n.toNat k.toNat (by omega) (by omega)
    (fun d hd1 hd2 => hfit d hd1 (by omega)) k.toNat 0 [] rfl
  simp only [Nat.cast_zero, zero_add, sub_zero, Nat.choose_zero_right, Nat.cast_one, hn0, hk0,
    List.nil_append] at h
  exact h

/-- C24. `VW::math::choose(n, k)` returns 0 when `k > n` or `k < 0`. For `0 <= k <= n`, when
the loop runs (`0 < k < n`) with `n` an `int64_t` value and every product the loop makes,
which is `d` times the binomial coefficient of `n` and `d` for `d = 1 .. k`, below `2 ^ 63`,
and always when it does not run (`k = 0` or `k = n`), the function returns the binomial
coefficient of `n` and `k`, the number with `choose * (k! * (n - k)!) = n!`; every division
of the loop has a divisor that is not 0 and divides the dividend; and for `n <= 20`, where
`VW::math::factorial` does not overflow, the result times `factorial(k) * factorial(n - k)`
is `factorial(n)`. -/
theorem choose_is_binomial (n k : Int) (hk : 0 ≤ k) (hkn : k ≤ n)
    (hfit : 0 < k → k < n → n < 2 ^ 63 ∧ ∀ d : Nat, 1 ≤ d → (d : Int) ≤ k →
      ((d * Nat.choose n.toNat d : Nat) : Int) < 2 ^ 63) :
    (∀ n1 k1 : Int, k1 > n1 ∨ k1 < 0 → choose n1 k1 = 0) ∧
    choose n k = (Nat.choose n.toNat k.toNat : Int) ∧
    Nat.choose n.toNat k.toNat * (Nat.factorial k.toNat * Nat.factorial (n.toNat - k.toNat)) =
      Nat.factorial n.toNat ∧
    (∀ p ∈ chooseDivisions n k, p.2 ≠ 0 ∧ p.2 ∣ p.1) ∧
    (n ≤ 20 → choose n k * (factorial k * factorial (n - k)) = factorial n) := by
  have hkn' : k.toNat ≤ n.toNat := Int.toNat_le_toNat hkn
  have hmain : choose n k = (Nat.choose n.toNat k.toNat : Int) := by
    unfold choose
    rw [if_neg (by omega), if_neg (by omega)]
    by_cases h1 : k = n
    · rw [if_pos h1, h1, Nat.choose_self]; rfl
    · rw [if_neg h1]
      by_cases h2 : k = 0 ∧ n ≠ 0
      · rw [if_pos h2, h2.1]; simp
      · rw [if_neg h2]
        have hk0 : 0 < k := by
          by_contra hc
          have : k = 0 := by omega
          exact h2 ⟨this, by omega⟩
        obtain ⟨hn, hf⟩ := hfit hk0 (by omega)
        rw [chooseLoop_run n k hk0 (by omega) hn hf]
  have hfact : Nat.choose n.toNat k.toNat *
      (Nat.factorial k.toNat * Nat.factorial (n.toNat - k.toNat)) = Nat.factorial n.toNat := by
    rw [← Nat.mul_assoc]
    exact Nat.choose_mul_factorial_mul_factorial hkn'
  refine ⟨fun n1 k1 h => ?_, hmain, hfact, fun p hp => ?_, fun h20 => ?_⟩
  · unfold choose
    by_cases h1 : k1 > n1
    · rw [if_pos h1]
    · rw [if_neg h1, if_pos (by omega)]
  · unfold chooseDivisions at hp
    rw [if_neg (by omega), if_neg (by omega)] at hp
    by_cases h1 : k = n
    · rw [if_pos h1] at hp; cases hp
    · rw [if_neg h1] at hp
      by_cases h2 : k = 0 ∧ n ≠ 0
      · rw [if_pos h2] at hp; cases hp
      · rw [if_neg h2] at hp
        have hk0 : 0 < k := by
          by_contra hc
          have : k = 0 := by omega
          exact h2 ⟨this, by omega⟩
        obtain ⟨hn, hf⟩ := hfit hk0 (by omega)
        rw [chooseLoop_run n k hk0 (by omega) hn hf] at hp
        simp only [List.mem_map] at hp
        obtain ⟨i, _, hi⟩ := hp
        subst hi
        refine ⟨by simp only []; omega, ?_⟩
        simp only [Nat.cast_mul, Nat.cast_add, Nat.cast_one]
        exact Dvd.intro _ rfl
  · have hn0 : ((n.toNat : Nat) : Int) = n := Int.toNat_of_nonneg (by omega)
    have hk0 : ((k.toNat : Nat) : Int) = k := Int.toNat_of_nonneg (by omega)
    have hnk : (((n.toNat - k.toNat : Nat) : Nat) : Int) = n - k := by
      rw [Nat.cast_sub hkn', hn0, hk0]
    have e1 := factorial_small n.toNat (by omega)
    have e2 := factorial_small k.toNat (by omega)
    have e3 := factorial_small (n.toNat - k.toNat) (by omega)
    rw [hn0] at e1
    rw [hk0] at e2
    rw [hnk] at e3
    rw [hmain, e1, e2, e3]
    exact_mod_cast hfact

/-- C24 at a concrete input: `choose(52, 5)` is 2598960, through the five divisions
52 / 1, 1326 * 2 / 2, 22100 * 3 / 3, 270725 * 4 / 4 and 2598960 * 5 / 5. -/
theorem choose_is_binomial_witness :
    (0 : Int) ≤ 5 ∧ (5 : Int) ≤ 52 ∧ choose 52 5 = 2598960 ∧
    chooseDivisions 52 5 =
      [(52, 1), (2652, 2), (66300, 3), (1082900, 4), (12994800, 5)] ∧
    (∀ p ∈ chooseDivisions 52 5, p.2 ≠ 0 ∧ p.2 ∣ p.1) ∧ choose 5 7 = 0 :=
  have h := choose_is_binomial 52 5 (by decide) (by decide) (fun _ _ => ⟨by decide, by
    intro d hd1 hd2
    have hd : d ≤ 5 := by omega
    interval_cases d <;> simp [Nat.choose]⟩)
  ⟨by decide, by decide, by rw [h.2.1]; rfl, by rfl, h.2.2.2.1, h.1 5 7 (Or.inl (by decide))⟩

/-! ## Tokens a state has no handler for (C25) -/

/-- C25. In every state, a token that is not a null and for whose kind the state class
defines no handler of its own is handled by `BaseState`: the handler streams its message
into the error and returns the null pointer, `TransitionState` then returns false and
leaves the context, with its current and previous state, as the handler left it, and the
parse stops as failed. A null for which the state defines no handler of its own is ignored:
the handler returns the previous state when there is one and the state itself otherwise,
and changes nothing. -/
theorem unhandled_token_is_an_error {F : Type} (ops : FloatOps F) (cv : FloatConv F)
    (cfg : JsonConfig F) (s : BaseState) (t : Token F) (ctx : JsonContext F)
    (h : hasOwnHandler s t = false) :
    (isNullToken t = false →
      BaseState.handle ops cv cfg s t ctx =
        .ret none { ctx with error_ptr := ctx.error_ptr ++ [unexpectedToken t] } ∧
      ({ ctx with error_ptr := ctx.error_ptr ++ [unexpectedToken t] } :
        JsonContext F).TransitionState none =
        (false, { ctx with error_ptr := ctx.error_ptr ++ [unexpectedToken t] }) ∧
      (ctx.current_state = s → ∀ ts, ∃ c, parseTokens ops cv cfg (t :: ts) ctx = .failed c ∧
        c.current_state = ctx.current_state ∧ c.previous_state = ctx.previous_state ∧
        c.error_ptr = ctx.error_ptr ++ [unexpectedToken t])) ∧
    (isNullToken t = true →
      BaseState.handle ops cv cfg s t ctx =
        .ret (if ctx.previous_state = none then some s else ctx.previous_state) ctx) := by
  have key : ∀ c0 : JsonContext F, isNullToken t = false → BaseState.handle ops cv cfg s t c0 =
      .ret none { c0 with error_ptr := c0.error_ptr ++ [unexpectedToken t] } := by
    intro c0 hn
    cases s <;> cases t <;>
      first | rfl | (cases hn; done) | cases h
  refine ⟨fun hn => ⟨key ctx hn, rfl, fun hs ts => ?_⟩, fun hn => ?_⟩
  · have htok : ∃ c1 : JsonContext F, VWReaderHandler.token ops cv cfg ctx t =
          BaseState.handle ops cv cfg s t c1 ∧ c1.current_state = ctx.current_state ∧
          c1.previous_state = ctx.previous_state ∧ c1.error_ptr = ctx.error_ptr := by
      cases t
      case Key str src =>
        exact ⟨{ ctx with stream := src }, by rw [← hs]; rfl, rfl, rfl, rfl⟩
      all_goals exact ⟨ctx, by rw [← hs]; rfl, rfl, rfl, rfl⟩
    obtain ⟨c1, h1, h2, h3, h4⟩ := htok
    refine ⟨{ c1 with error_ptr := c1.error_ptr ++ [unexpectedToken t] }, ?_, h2, h3, ?_⟩
    · rw [parseTokens, h1, key c1 hn]
      rfl
    · show c1.error_ptr ++ [unexpectedToken t] = _
      rw [h4]
  · cases s <;> cases t <;>
      first | rfl | (cases hn; done) | cases h

/-- Witness for C25: an unsigned integer where the text state expects a string. -/
theorem unhandled_token_is_an_error_witness :
    hasOwnHandler BaseState.text_state (Token.Uint 3 : Token (Option Int)) = false ∧
    BaseState.handle sampleOps sampleConv (sampleJson .cb) .text_state (Token.Uint 3)
        (sampleJsonContext .cb) =
      .ret none { sampleJsonContext .cb with
        error_ptr := (sampleJsonContext .cb).error_ptr ++ [JsonError.unexpectedUint 3] } ∧
    hasOwnHandler BaseState.text_state (Token.Null : Token (Option Int)) = false ∧
    BaseState.handle sampleOps sampleConv (sampleJson .cb) .text_state Token.Null
        (sampleJsonContext .cb) =
      .ret (if (sampleJsonContext .cb).previous_state = none then some .text_state
        else (sampleJsonContext .cb).previous_state) (sampleJsonContext .cb) :=
  ⟨rfl,
    (unhandled_token_is_an_error sampleOps sampleConv (sampleJson .cb) .text_state (Token.Uint 3)
      (sampleJsonContext .cb) rfl).1 rfl |>.1,
    rfl,
    (unhandled_token_is_an_error sampleOps sampleConv (sampleJson .cb) .text_state Token.Null
      (sampleJsonContext .cb) rfl).2 rfl⟩

/-! ## The dedup copy (C21, C22) -/

lemma token_uint_dedup {F : Type} (ops : FloatOps F) (cv : FloatConv F) (cfg : JsonConfig F)
    (ctx : JsonContext F) (h : ctx.current_state = .uint_dedup_state) (i : Nat) :
    VWReaderHandler.token ops cv cfg ctx (.Uint i) = UIntDedupState.Uint ctx i := by
  show BaseState.handle ops cv cfg ctx.current_state _ _ = _
  rw [h]
  rfl

/-- C21. When the integer given to `__aid` is not a key of the dedup table, the handler of
the dedup state raises the exception `dedup id not found` and leaves the whole context, and
with it every example of the group, its index list, its feature spaces and its feature
offset, as it was; the parse of the line ends with that exception. -/
theorem dedup_missing_id_is_fatal {F : Type} (ops : FloatOps F) (cv : FloatConv F)
    (cfg : JsonConfig F) (ctx : JsonContext F) (i : Nat)
    (dedup : Nat → Option (LabeledExample F))
    (hd : ctx.dedup_examples = some dedup) (hi : dedup i = none) (hne : ctx.examples ≠ []) :
    UIntDedupState.Uint ctx i = .throws (.dedupIdNotFound i) ctx ∧
    (ctx.current_state = .uint_dedup_state → ∀ ts,
      parseTokens ops cv cfg (.Uint i :: ts) ctx = .throws (.dedupIdNotFound i) ctx) := by
  have h1 : UIntDedupState.Uint ctx i = .throws (.dedupIdNotFound i) ctx := by
    unfold UIntDedupState.Uint
    obtain ⟨e, he⟩ : ∃ e, ctx.examples.getLast? = some e := by
      cases hx : ctx.examples.getLast? with
      | none => exact absurd (List.getLast?_eq_none_iff.mp hx) hne
      | some e => exact ⟨e, rfl⟩
    rw [he, hd]
    simp only [hi]
  refine ⟨h1, fun hs ts => ?_⟩
  rw [parseTokens, token_uint_dedup ops cv cfg ctx hs, h1]

/-- Witness for C21: the id 8 in `\x7b"_multi":[\x7b"__aid":8` with the table whose one key
is 7. -/
theorem dedup_missing_id_is_fatal_witness :
    sampleDedupContext.current_state = .uint_dedup_state ∧
    parseTokens sampleOps sampleConv (sampleJson .cb) [.Uint 8, .EndObject 1]
      sampleDedupContext = .throws (.dedupIdNotFound 8) sampleDedupContext :=
  ⟨rfl, (dedup_missing_id_is_fatal sampleOps sampleConv (sampleJson .cb) sampleDedupContext 8
    sampleDedup rfl rfl (fun h => absurd (congrArg List.length h) (by decide))).2 rfl [.EndObject 1]⟩

lemma terminator_shift (c : Char) (cs : List Char) (k k' : Nat) (hk : k = k' + 1)
    (h : isTerminator (cs.getD k' NUL) = true) : isTerminator ((c :: cs).getD k NUL) = true := by
  subst hk
  exact h

lemma terminator_here (c : Char) (cs : List Char) (k : Nat) (hk : k = 0)
    (h : c = ',' ∨ c = '\x7d' ∨ c = ']') : isTerminator ((c :: cs).getD k NUL) = true := by
  subst hk
  show isTerminator c = true
  rcases h with h | h | h <;> rw [h] <;> rfl

/-- Where the scan stops, the byte before `head` is one of the three terminators, and the
scan has moved over at least one byte. -/
lemma ignore_stopped_at (cs : List Char) :
    (∀ head d s h, ignoreLoop cs head d s = .stopped h →
      head + 1 ≤ h ∧ isTerminator (cs.getD (h - 1 - head) NUL) = true) ∧
    (∀ head d s h, ignoreString cs head d s = .stopped h →
      head + 2 ≤ h ∧ isTerminator (cs.getD (h - 2 - head) NUL) = true) ∧
    (∀ head d s h, ignoreEscaped cs head d s = .stopped h →
      head + 2 ≤ h ∧ isTerminator (cs.getD (h - 2 - head) NUL) = true) := by
  induction cs with
  | nil =>
    refine ⟨fun head d s h hh => ?_, fun head d s h hh => ?_, fun head d s h hh => ?_⟩
    · rw [ignoreLoop] at hh; cases hh
    · rw [ignoreString] at hh; cases hh
    · rw [ignoreEscaped] at hh; cases hh
  | cons c cs ih =>
    obtain ⟨ihA, ihB, ihC⟩ := ih
    have stepA : ∀ head d s h, ignoreLoop cs (head + 1) d s = .stopped h →
        head + 1 ≤ h ∧ isTerminator ((c :: cs).getD (h - 1 - head) NUL) = true := by
      intro head d s h hh
      obtain ⟨h1, h2⟩ := ihA _ _ _ _ hh
      exact ⟨by omega, terminator_shift _ _ _ _ (by omega) h2⟩
    refine ⟨fun head d s h hh => ?_, fun head d s h hh => ?_, fun head d s h hh => ?_⟩
    · rw [ignoreLoop] at hh
      by_cases c0 : c = NUL
      · rw [if_pos c0] at hh; cases hh
      rw [if_neg c0] at hh
      by_cases c1 : c = '"'
      · rw [if_pos c1] at hh
        obtain ⟨h1, h2⟩ := ihB _ _ _ _ hh
        exact ⟨by omega, terminator_shift _ _ _ _ (by omega) h2⟩
      rw [if_neg c1] at hh
      by_cases c2 : c = '\x7b'
      · rw [if_pos c2] at hh; exact stepA _ _ _ _ hh
      rw [if_neg c2] at hh
      by_cases c3 : c = '\x7d'
      · rw [if_pos c3] at hh
        by_cases hd : d = 0 ∧ s = 0
        · rw [if_pos hd] at hh
          cases hh
          exact ⟨le_refl _, terminator_here _ _ _ (by omega) (Or.inr (Or.inl c3))⟩
        · rw [if_neg hd] at hh; exact stepA _ _ _ _ hh
      rw [if_neg c3] at hh
      by_cases c4 : c = '['
      · rw [if_pos c4] at hh; exact stepA _ _ _ _ hh
      rw [if_neg c4] at hh
      by_cases c5 : c = ']'
      · rw [if_pos c5] at hh
        by_cases hd : d = 0 ∧ s = 0
        · rw [if_pos hd] at hh
          cases hh
          exact ⟨le_refl _, terminator_here _ _ _ (by omega) (Or.inr (Or.inr c5))⟩
        · rw [if_neg hd] at hh; exact stepA _ _ _ _ hh
      rw [if_neg c5] at hh
      by_cases c6 : c = ','
      · rw [if_pos c6] at hh
        by_cases hd : d = 0 ∧ s = 0
        · rw [if_pos hd] at hh
          cases hh
          exact ⟨le_refl _, terminator_here _ _ _ (by omega) (Or.inl c6)⟩
        · rw [if_neg hd] at hh; exact stepA _ _ _ _ hh
      rw [if_neg c6] at hh
      exact stepA _ _ _ _ hh
    · rw [ignoreString] at hh
      by_cases c0 : c = NUL
      · rw [if_pos c0] at hh; cases hh
      rw [if_neg c0] at hh
      by_cases c1 : c = '\\'
      · rw [if_pos c1] at hh
        obtain ⟨h1, h2⟩ := ihC _ _ _ _ hh
        exact ⟨by omega, terminator_shift _ _ _ _ (by omega) h2⟩
      rw [if_neg c1] at hh
      by_cases c2 : c = '"'
      · rw [if_pos c2] at hh
        obtain ⟨h1, h2⟩ := ihA _ _ _ _ hh
        exact ⟨by omega, terminator_shift _ _ _ _ (by omega) h2⟩
      rw [if_neg c2] at hh
      obtain ⟨h1, h2⟩ := ihB _ _ _ _ hh
      exact ⟨by omega, terminator_shift _ _ _ _ (by omega) h2⟩
    · rw [ignoreEscaped] at hh
      obtain ⟨h1, h2⟩ := ihB _ _ _ _ hh
      exact ⟨by omega, terminator_shift _ _ _ _ (by omega) h2⟩

/-- The bytes `blankValue` writes and the bytes it leaves. -/
lemma blankValue_frame (stream : List Char) (value head : Nat) (hv : value < stream.length)
    (h1 : value + 2 ≤ head) (h2 : head ≤ stream.length) :
    (blankValue stream value head).length = stream.length ∧
    (blankValue stream value head).getD value NUL = '0' ∧
    (∀ j, value < j → j + 1 < head → (blankValue stream value head).getD j NUL = ' ') ∧
    (∀ j, j < value → (blankValue stream value head).getD j NUL = stream.getD j NUL) ∧
    (∀ j, head ≤ j + 1 → (blankValue stream value head).getD j NUL = stream.getD j NUL) := by
  have ha : (stream.take value).length = value := by
    rw [List.length_take]; omega
  have hm : ('0' :: List.replicate (head - (value + 1) - 1) ' ').length = head - 1 - value := by
    rw [List.length_cons, List.length_replicate]; omega
  have hz : (stream.drop (head - 1)).length = stream.length - (head - 1) := List.length_drop _ _
  have hlen2 : (stream.take value ++ '0' :: List.replicate (head - (value + 1) - 1) ' ').length =
      head - 1 := by
    rw [List.length_append, ha, hm]; omega
  unfold blankValue
  refine ⟨?_, ?_, fun j hj1 hj2 => ?_, fun j hj => ?_, fun j hj => ?_⟩
  · rw [List.length_append, hlen2, hz]; omega
  · rw [List.getD_eq_getElem?_getD, List.getElem?_append_left (by rw [hlen2]; omega),
      List.getElem?_append_right (by rw [ha]), ha, Nat.sub_self]
    simp
  · rw [List.getD_eq_getElem?_getD, List.getElem?_append_left (by rw [hlen2]; omega),
      List.getElem?_append_right (by rw [ha]; omega), ha]
    obtain ⟨k, hk⟩ : ∃ k, j - value = k + 1 := ⟨j - value - 1, by omega⟩
    rw [hk, List.getElem?_cons_succ, List.getElem?_replicate, if_pos (by omega)]
    rfl
  · rw [List.getD_eq_getElem?_getD, List.getD_eq_getElem?_getD,
      List.getElem?_append_left (by rw [hlen2]; omega),
      List.getElem?_append_left (by rw [ha]; exact hj), List.getElem?_take_of_lt hj]
  · rw [List.getD_eq_getElem?_getD, List.getD_eq_getElem?_getD,
      List.getElem?_append_right (by rw [hlen2]; omega), hlen2, List.getElem?_drop]
    congr 2
    omega

/-- What `Ignore` has done when it returns a state. -/
lemma Ignore_ret {F : Type} (ctx : JsonContext F) (n : Nat) (s : BaseState) (c : JsonContext F)
    (h : DefaultState.Ignore ctx n = .ret (some s) c) :
    s = .ignore_state ∧ ∃ head, n + 3 < ctx.stream.length ∧ ctx.stream.getD (n + 2) NUL = ':' ∧
      ignoreLoop (ctx.stream.drop (n + 3)) (n + 3) 0 0 = .stopped head ∧ n + 5 ≤ head ∧
      c = { ctx with stream := blankValue ctx.stream (n + 3) head } := by
  unfold DefaultState.Ignore at h
  simp only [JsonContext.fail] at h
  by_cases h0 : n + 2 ≥ ctx.stream.length ∨ ctx.stream.getD (n + 2) NUL ≠ ':'
  · rw [if_pos h0] at h
    injection h with h1 h2
    cases h1
  rw [if_neg h0] at h
  have hcolon : ctx.stream.getD (n + 2) NUL = ':' := by
    by_contra hne
    exact h0 (Or.inr hne)
  cases hscan : ignoreLoop (ctx.stream.drop (n + 2 + 1)) (n + 2 + 1) 0 0 with
  | eof =>
    rw [hscan] at h
    injection h with h1 h2
    cases h1
  | overrun =>
    rw [hscan] at h
    cases h
  | stopped head =>
    rw [hscan] at h
    simp only [] at h
    by_cases h3 : n + 3 ≥ ctx.stream.length
    · rw [if_pos h3] at h
      injection h with h1 h2
      cases h1
    rw [if_neg h3] at h
    by_cases h4 : head < n + 3 + 2
    · rw [if_pos h4] at h
      cases h
    rw [if_neg h4] at h
    injection h with h1 h2
    injection h1 with h1
    exact ⟨h1.symm, head, by omega, hcolon, rfl, by omega, h2.symm⟩

/-- C26. When `Ignore` succeeds (returns a state) on a key of `length` bytes whose opening
quote is the first byte of the buffer view, the state is the Ignore state, the byte at
`length + 2` is the colon, and the scan from the byte after it stopped one past a
terminator at `head - 1`, at least one byte after the first byte of the value. Of the
context only the buffer is changed; in the buffer the byte at `length + 3` is overwritten
with `0` and every byte after it and before the terminator with a space, and every other
byte is as it was: the bytes before the value, the terminator, which is one of `,`, the
closing brace and `]`, and the bytes after it; the length of the buffer is unchanged. -/
theorem ignore_blanks_only_the_value {F : Type} (ctx : JsonContext F) (length : Nat)
    (s : BaseState) (c : JsonContext F)
    (h : DefaultState.Ignore ctx length = .ret (some s) c) :
    s = .ignore_state ∧
    ∃ head, length + 5 ≤ head ∧ head ≤ ctx.stream.length ∧
      ctx.stream.getD (length + 2) NUL = ':' ∧
      ignoreLoop (ctx.stream.drop (length + 3)) (length + 3) 0 0 = .stopped head ∧
      isTerminator (ctx.stream.getD (head - 1) NUL) = true ∧
      c = { ctx with stream := c.stream } ∧
      c.stream.length = ctx.stream.length ∧
      c.stream.getD (length + 3) NUL = '0' ∧
      (∀ j, length + 3 < j → j < head - 1 → c.stream.getD j NUL = ' ') ∧
      (∀ j, j < length + 3 → c.stream.getD j NUL = ctx.stream.getD j NUL) ∧
      (∀ j, head - 1 ≤ j → c.stream.getD j NUL = ctx.stream.getD j NUL) := by
  obtain ⟨hs, head, h1, h2, h3, h4, h5⟩ := Ignore_ret ctx length s c h
  have hle := (ignore_stopped_le _).1 _ _ _ _ h3
  rw [List.length_drop] at hle
  have hat := ((ignore_stopped_at _).1 _ _ _ _ h3).2
  have hterm : isTerminator (ctx.stream.getD (head - 1) NUL) = true := by
    rw [List.getD_eq_getElem?_getD, List.getElem?_drop] at hat
    rw [List.getD_eq_getElem?_getD, show head - 1 = length + 3 + (head - 1 - (length + 3)) by omega]
    exact hat
  have hstream : c.stream = blankValue ctx.stream (length + 3) head := by rw [h5]
  obtain ⟨f1, f2, f3, f4, f5⟩ := blankValue_frame ctx.stream (length + 3) head h1 (by omega)
    (by omega)
  refine ⟨hs, head, h4, by omega, h2, h3, hterm, ?_, ?_, ?_, fun j hj1 hj2 => ?_,
    fun j hj => ?_, fun j hj => ?_⟩
  · rw [hstream, h5]
  · rw [hstream]; exact f1
  · rw [hstream]; exact f2
  · rw [hstream]; exact f3 j hj1 (by omega)
  · rw [hstream]; exact f4 j hj
  · rw [hstream]; exact f5 j (by omega)

/-- Witness for C26: the key `_x` in front of the array `[1,"],"]`. -/
theorem ignore_blanks_only_the_value_witness :
    sampleSkipContext.stream = "\"_x\":[1,\"],\"],\"b\":2\x7d".toList ∧
    DefaultState.Ignore sampleSkipContext 2 = .ret (some .ignore_state)
      { sampleSkipContext with stream := "\"_x\":0       ,\"b\":2\x7d".toList } ∧
    ∃ head, 2 + 5 ≤ head ∧ head ≤ sampleSkipContext.stream.length ∧
      sampleSkipContext.stream.getD (2 + 2) NUL = ':' ∧
      ignoreLoop (sampleSkipContext.stream.drop (2 + 3)) (2 + 3) 0 0 = .stopped head ∧
      isTerminator (sampleSkipContext.stream.getD (head - 1) NUL) = true :=
  ⟨rfl, rfl,
    (ignore_blanks_only_the_value sampleSkipContext 2 .ignore_state
      { sampleSkipContext with stream := "\"_x\":0       ,\"b\":2\x7d".toList } rfl).2.imp
      (fun _ h => ⟨h.1, h.2.1, h.2.2.1, h.2.2.2.1, h.2.2.2.2.1⟩)⟩

/-! ## The fast skip resumes the state it was called in (C27) -/

/-- The Key handler of the Default state returns the Ignore state only as the result of
`Ignore` on the context with the key recorded. -/
lemma Default_Key_to_ignore {F : Type} (cfg : JsonConfig F) (ctx : JsonContext F)
    (s : List Char) (c : JsonContext F)
    (h : DefaultState.Key cfg ctx s = .ret (some .ignore_state) c) :
    DefaultState.Ignore { ctx with key := s, key_length := s.length } s.length =
      .ret (some .ignore_state) c := by
  unfold DefaultState.Key at h
  simp only [JsonContext.fail] at h
  by_cases h0 : s.length > 0 ∧ s.head? = some '_'
  swap
  · rw [if_neg h0] at h; injection h with a b; cases a
  rw [if_pos h0] at h
  by_cases h1 : s.length ≥ 6 ∧ strncmp_eq s "_label".toList 6 = true
  · rw [if_pos h1] at h
    by_cases h2 : s.length ≥ 7 ∧ s.getD 6 NUL = '_'
    · rw [if_pos h2] at h
      by_cases h3 : s.length ≥ 9 ∧ strncmp_eq (s.drop 7) "ca".toList 2 = true
      · rw [if_pos h3] at h; injection h with a b; cases a
      · rw [if_neg h3] at h; injection h with a b; cases a
    · rw [if_neg h2] at h
      by_cases h3 : s.length = 6
      · rw [if_pos h3] at h; injection h with a b; cases a
      · rw [if_neg h3] at h
        by_cases h4 : s.length = 11 ∧ stricmp_eq s "_labelIndex".toList = true
        · rw [if_pos h4] at h; injection h with a b; cases a
        · rw [if_neg h4] at h; injection h with a b; cases a
  rw [if_neg h1] at h
  by_cases h2 : s.length = 5 ∧ strcmp_eq s "_text".toList = true
  · rw [if_pos h2] at h; injection h with a b; cases a
  rw [if_neg h2] at h
  by_cases h3 : s.length = 6 ∧ strcmp_eq s "_multi".toList = true
  · rw [if_pos h3] at h; injection h with a b; cases a
  rw [if_neg h3] at h
  by_cases h4 : s.length = 6 ∧ strcmp_eq s "_slots".toList = true
  · rw [if_pos h4] at h; injection h with a b; cases a
  rw [if_neg h4] at h
  by_cases h5 : s.length = 4 ∧ stricmp_eq s "_tag".toList = true
  · rw [if_pos h5] at h; injection h with a b; cases a
  rw [if_neg h5] at h
  by_cases h6 : s.length = 4 ∧ stricmp_eq s "_inc".toList = true
  · rw [if_pos h6] at h; injection h with a b; cases a
  rw [if_neg h6] at h
  by_cases h7 : s.length = 2 ∧ s.getD 1 NUL = 'a'
  · rw [if_pos h7] at h; injection h with a b; cases a
  rw [if_neg h7] at h
  by_cases h8 : s.length = 2 ∧ s.getD 1 NUL = 'p'
  · rw [if_pos h8] at h
    split at h
    · cases h
    · injection h with a b; cases a
  rw [if_neg h8] at h
  by_cases h9 : s.length = 8 ∧ strncmp_eq s "_slot_id".toList 8 = true
  · rw [if_pos h9] at h
    by_cases hs : cfg.label_type ≠ .slates
    · rw [if_pos hs] at h; cases h
    · rw [if_neg hs] at h; injection h with a b; cases a
  rw [if_neg h9] at h
  by_cases h10 : s.length = 5 ∧ stricmp_eq s "__aid".toList = true
  · rw [if_pos h10] at h; injection h with a b; cases a
  rw [if_neg h10] at h
  exact h

/-- The Key handler of the DecisionService state returns the Ignore state only as the result
of `Ignore`, on the context itself or on the context with the key recorded. -/
lemma DecisionService_Key_to_ignore {F : Type} (ctx : JsonContext F) (s : List Char)
    (c : JsonContext F) (h : DecisionServiceState.Key ctx s = .ret (some .ignore_state) c) :
    DefaultState.Ignore ctx s.length = .ret (some .ignore_state) c ∨
    DefaultState.Ignore { ctx with key := s, key_length := s.length } s.length =
      .ret (some .ignore_state) c := by
  unfold DecisionServiceState.Key at h
  simp only [] at h
  by_cases h0 : s.length = 1
  · rw [if_pos h0] at h
    by_cases h1 : s.head? = some 'a'
    · rw [if_pos h1] at h; injection h with a b; cases a
    rw [if_neg h1] at h
    by_cases h2 : s.head? = some 'p'
    · rw [if_pos h2] at h; injection h with a b; cases a
    rw [if_neg h2] at h
    by_cases h3 : s.head? = some 'c'
    · rw [if_pos h3] at h; injection h with a b; cases a
    rw [if_neg h3] at h
    exact Or.inl h
  rw [if_neg h0] at h
  by_cases h1 : s.length = 3 ∧ strcmp_eq s "pdf".toList = true
  · rw [if_pos h1] at h; injection h with a b; cases a
  rw [if_neg h1] at h
  by_cases h2 : s.length = 5 ∧ strcmp_eq s "pdrop".toList = true
  · rw [if_pos h2] at h; injection h with a b; cases a
  rw [if_neg h2] at h
  by_cases h3 : s.length = 7 ∧ strcmp_eq s "EventId".toList = true
  · rw [if_pos h3] at h; injection h with a b; cases a
  rw [if_neg h3] at h
  by_cases h4 : s.length > 0 ∧ s.head? = some '_'
  swap
  · rw [if_neg h4] at h; exact Or.inl h
  rw [if_pos h4] at h
  unfold DecisionServiceState.underscoreKey DecisionServiceState.afterUnderscore at h
  simp only [] at h
  by_cases k1 : s.length ≥ 6 ∧ strncmp_eq s "_label".toList 6 = true
  · rw [if_pos k1, if_pos k1] at h
    by_cases k2 : s.length ≥ 7 ∧ s.getD 6 NUL = '_'
    · rw [if_pos k2] at h
      by_cases k3 : s.length ≥ 9 ∧ strncmp_eq (s.drop 7) "ca".toList 2 = true
      · rw [if_pos k3] at h; injection h with a b; cases a
      · rw [if_neg k3] at h; injection h with a b; cases a
    rw [if_neg k2] at h
    by_cases k3 : s.length = 6
    · rw [if_pos k3] at h; injection h with a b; cases a
    rw [if_neg k3] at h
    by_cases k4 : s.length = 11 ∧ stricmp_eq s "_labelIndex".toList = true
    · rw [if_pos k4] at h; injection h with a b; cases a
    rw [if_neg k4] at h
    exact Or.inr h
  rw [if_neg k1, if_neg k1] at h
  by_cases k2 : s.length = 10 ∧ strncmp_eq s "_skipLearn".toList 10 = true
  · rw [if_pos k2] at h; injection h with a b; cases a
  rw [if_neg k2] at h
  by_cases k3 : s.length = 9 ∧ strncmp_eq s "_outcomes".toList 9 = true
  · rw [if_pos k3] at h; injection h with a b; cases a
  rw [if_neg k3] at h
  by_cases k4 : s.length = 2 ∧ strncmp_eq s "_p".toList 2 = true
  · rw [if_pos k4] at h; injection h with a b; cases a
  rw [if_neg k4] at h
  exact Or.inl h

lemma token_key_decision_service {F : Type} (ops : FloatOps F) (cv : FloatConv F)
    (cfg : JsonConfig F) (ctx : JsonContext F) (h : ctx.current_state = .decision_service_state)
    (str src : List Char) :
    VWReaderHandler.token ops cv cfg ctx (.Key str src) =
      DecisionServiceState.Key { ctx with stream := src } str := by
  show BaseState.handle ops cv cfg ctx.current_state _ _ = _
  rw [h]
  rfl

/-- C27. For S the Default state or the DecisionService state: when the handler of a key in
S returns the Ignore state, the key and the unsigned integer that stands for its blanked
value are handled without an error and the parse goes on in a context whose current state
is S again, whose previous state is the Ignore state, and which differs from the context
before the key in nothing but the last key, its length, the previous state and the buffer:
the examples, the current example, the namespace stack and the label scratch are as they
were. -/
theorem fast_skip_resumes_state {F : Type} (ops : FloatOps F) (cv : FloatConv F)
    (cfg : JsonConfig F) (ctx : JsonContext F) (S : BaseState)
    (hS : S = .default_state ∨ S = .decision_service_state) (hcur : ctx.current_state = S)
    (key src : List Char) (c1 : JsonContext F)
    (hkey : VWReaderHandler.token ops cv cfg ctx (.Key key src) = .ret (some .ignore_state) c1)
    (v : Nat) :
    ∃ c2 : JsonContext F,
      (∀ post, parseTokens ops cv cfg (.Key key src :: .Uint v :: post) ctx =
        parseTokens ops cv cfg post c2) ∧
      c2.current_state = S ∧ c2.previous_state = some .ignore_state ∧
      c2.examples = ctx.examples ∧ c2.ex = ctx.ex ∧
      c2.namespace_path = ctx.namespace_path ∧ c2.return_path = ctx.return_path ∧
      c2.label_object_state = ctx.label_object_state ∧
      c2.stream = c1.stream ∧ c2.forgetKey = ctx.forgetKey := by
  have hc1 : c1.forgetKey = ctx.forgetKey ∧ c1.current_state = ctx.current_state := by
    rcases hS with hS | hS
    · rw [token_key_default ops cv cfg ctx (hcur.trans hS)] at hkey
      obtain ⟨_, head, _, _, _, _, h5⟩ := Ignore_ret _ _ _ _ (Default_Key_to_ignore cfg _ _ _ hkey)
      rw [h5]
      exact ⟨rfl, rfl⟩
    · rw [token_key_decision_service ops cv cfg ctx (hcur.trans hS)] at hkey
      rcases DecisionService_Key_to_ignore _ _ _ hkey with hi | hi
      · obtain ⟨_, head, _, _, _, _, h5⟩ := Ignore_ret _ _ _ _ hi
        rw [h5]
        exact ⟨rfl, rfl⟩
      · obtain ⟨_, head, _, _, _, _, h5⟩ := Ignore_ret _ _ _ _ hi
        rw [h5]
        exact ⟨rfl, rfl⟩
  obtain ⟨hf, hst⟩ := hc1
  have hfield : ∀ {α : Type} (f : JsonContext F → α),
      (∀ x : JsonContext F, f x = f x.forgetKey) → f c1 = f ctx := by
    intro α f hfx
    rw [hfx c1, hfx ctx, hf]
  refine ⟨{ c1 with previous_state := some .ignore_state }, fun post => ?_, hst.trans hcur, rfl,
    hfield (fun x => x.examples) (fun _ => rfl), hfield (fun x => x.ex) (fun _ => rfl),
    hfield (fun x => x.namespace_path) (fun _ => rfl),
    hfield (fun x => x.return_path) (fun _ => rfl),
    hfield (fun x => x.label_object_state) (fun _ => rfl), rfl, ?_⟩
  · rw [parseTokens_cons_ret ops cv cfg ctx _ _ _ _ hkey]
    rw [parseTokens, token_uint_ignore ops cv cfg _ rfl v]
    show parseTokens ops cv cfg post _ = _
    congr 1
  · rw [← hf]
    rfl

/-- Witness for C27: the member `"_x":[1,"],"]` in the Default state inside the top-level
object, and the member `"Version":"1"` in the DecisionService state. -/
theorem fast_skip_resumes_state_witness :
    (∃ c2 : JsonContext (Option Int),
      (∀ post, parseTokens sampleOps sampleConv (sampleJson .simple)
          (.Key "_x".toList "\"_x\":[1,\"],\"],\"b\":2\x7d".toList :: .Uint 0 :: post)
          sampleOpenContext =
        parseTokens sampleOps sampleConv (sampleJson .simple) post c2) ∧
      c2.current_state = .default_state ∧ c2.examples = sampleOpenContext.examples ∧
      c2.stream = "\"_x\":0       ,\"b\":2\x7d".toList) ∧
    (∃ c2 : JsonContext (Option Int),
      (∀ post, parseTokens sampleOps sampleConv (sampleJson .cb)
          (.Key "Version".toList "\"Version\":\"1\",\"a\":[1]\x7d".toList :: .Uint 0 :: post)
          sampleServiceContext =
        parseTokens sampleOps sampleConv (sampleJson .cb) post c2) ∧
      c2.current_state = .decision_service_state ∧
      c2.examples = sampleServiceContext.examples ∧
      c2.stream = "\"Version\":0  ,\"a\":[1]\x7d".toList) :=
  ⟨(fast_skip_resumes_state sampleOps sampleConv (sampleJson .simple) sampleOpenContext
      .default_state (Or.inl rfl) rfl "_x".toList "\"_x\":[1,\"],\"],\"b\":2\x7d".toList
      { sampleOpenContext with
        key := "_x".toList, key_length := 2, stream := "\"_x\":0       ,\"b\":2\x7d".toList }
      rfl 0).imp (fun _ h => ⟨h.1, h.2.1, h.2.2.2.1, h.2.2.2.2.2.2.2.2.1⟩),
    (fast_skip_resumes_state sampleOps sampleConv (sampleJson .cb) sampleServiceContext
      .decision_service_state (Or.inr rfl) rfl "Version".toList
      "\"Version\":\"1\",\"a\":[1]\x7d".toList
      { sampleServiceContext with stream := "\"Version\":0  ,\"a\":[1]\x7d".toList }
      rfl 0).imp (fun _ h => ⟨h.1, h.2.1, h.2.2.2.1, h.2.2.2.2.2.2.2.2.1⟩)⟩

/-! ## The routing of keys in the Default state (C28) -/

/-- A character whose lower-case form is not a lower-case letter is its own lower-case
form. -/
lemma toLower_eq_of_not_lower (c t : Char) (ht : t.toNat < 97 ∨ 122 < t.toNat)
    (h : c.toLower = t) : c = t := by
  unfold Char.toLower at h
  simp only [] at h
  by_cases hr : c.toNat ≥ 65 ∧ c.toNat ≤ 90
  · rw [if_pos hr] at h
    exfalso
    obtain ⟨h1, h2⟩ := hr
    have ht2 : t.toNat = c.toNat + 32 := by
      rw [← h]
      generalize c.toNat = n at h1 h2
      interval_cases n <;> rfl
    omega
  · rw [if_neg hr] at h
    exact h

lemma cstr_eq_self_iff (s : List Char) : cstr s = s ↔ ∀ c ∈ s, c ≠ NUL := by
  unfold cstr
  rw [List.takeWhile_eq_self_iff]
  constructor
  · intro h c hc
    have := h c hc
    simpa [NUL] using this
  · intro h c hc
    have := h c hc
    simpa [NUL] using this

/-- Two strings with the same lower-case form, of which the second holds no zero byte, are
equal for `_stricmp`. -/
lemma stricmp_eq_of_lower (s t : List Char) (h : s.map Char.toLower = t.map Char.toLower)
    (ht : cstr t = t) : stricmp_eq s t = true := by
  have hs : cstr s = s := by
    rw [cstr_eq_self_iff]
    intro c hc hcn
    have h1 : Char.toLower c ∈ t.map Char.toLower := by
      rw [← h]
      exact List.mem_map_of_mem _ hc
    obtain ⟨d, hd, hdc⟩ := List.mem_map.mp h1
    rw [hcn] at hdc
    have hd0 : d = NUL :=
      toLower_eq_of_not_lower d _ (Or.inl (by decide)) (hdc.trans (by rfl))
    exact (cstr_eq_self_iff t).mp ht d hd hd0
  unfold stricmp_eq
  rw [hs, ht, h]
  exact beq_self_eq_true _

/-- A string that begins with `n` bytes none of which is the zero byte is equal to them for
`strncmp` over `n` bytes. -/
lemma strncmp_eq_of_take (s t : List Char) (n : Nat) (h : s.take n = t) (hl : t.length = n)
    (ht : cstr t = t) : strncmp_eq s t n = true := by
  have hs : s = t ++ s.drop n := by
    rw [← h, List.take_append_drop]
  have hc : (cstr s).take n = t := by
    rw [hs]
    unfold cstr
    rw [List.takeWhile_append_of_pos (by
      intro c hc
      have := (cstr_eq_self_iff t).mp ht c hc
      simpa [NUL] using this)]
    rw [List.take_append_of_le_length (by omega), List.take_of_length_le (by omega)]
  unfold strncmp_eq
  rw [hc, ht, List.take_of_length_le (by omega)]
  exact beq_self_eq_true _

lemma next_of_Ignore {F : Type} (ctx : JsonContext F) (n : Nat) (X : BaseState)
    (h : (DefaultState.Ignore ctx n).next? = some X) : X = .ignore_state := by
  cases hI : DefaultState.Ignore ctx n with
  | undefined => rw [hI] at h; cases h
  | throws e c => rw [hI] at h; cases h
  | ret r c =>
    rw [hI] at h
    have hr : r = some X := h
    rw [hr] at hI
    exact (Ignore_ret ctx n X c hI).1

/-- The keys for which the Key handler of the Default state returns a state. -/
lemma Default_Key_route {F : Type} (cfg : JsonConfig F) (ctx : JsonContext F) (s : List Char)
    (X : BaseState) (h : (DefaultState.Key cfg ctx s).next? = some X) :
    (X = .label_single_property_state ∧ s.take 7 = "_label_".toList) ∨
    (X = .label_state ∧ s = "_label".toList) ∨
    (X = .label_index_state ∧ s.take 6 = "_label".toList ∧
      (s.drop 6).map Char.toLower = "index".toList) ∨
    (X = .text_state ∧ s = "_text".toList) ∨
    (X = .multi_state ∧ s = "_multi".toList) ∨
    (X = .slots_state ∧ s = "_slots".toList) ∨
    (X = .tag_state ∧ s.map Char.toLower = "_tag".toList) ∨
    (X = .uint_dedup_state ∧ s.map Char.toLower = "__aid".toList) ∨
    (X = .default_state ∧ s.head? ≠ some '_') ∨
    X = .array_uint_state ∨ X = .array_float_state ∨ X = .ignore_state := by
  unfold DefaultState.Key at h
  simp only [JsonContext.fail] at h
  by_cases h0 : s.length > 0 ∧ s.head? = some '_'
  swap
  · rw [if_neg h0] at h
    have hx : X = .default_state := (Option.some.inj h).symm
    refine Or.inr (Or.inr (Or.inr (Or.inr (Or.inr (Or.inr (Or.inr (Or.inr (Or.inl ⟨hx, ?_⟩))))))))
    intro hh
    apply h0
    refine ⟨?_, hh⟩
    cases s with
    | nil => cases hh
    | cons a as => simp
  rw [if_pos h0] at h
  by_cases h1 : s.length ≥ 6 ∧ strncmp_eq s "_label".toList 6 = true
  · rw [if_pos h1] at h
    have ht6 : s.take 6 = "_label".toList := strncmp_eq_take s _ 6 h1.2 (by rfl) (by rfl)
    by_cases h2 : s.length ≥ 7 ∧ s.getD 6 NUL = '_'
    · have ht7 : s.take 7 = "_label_".toList := by
        have h6 : s[6]? = some '_' := by
          have hlt : 6 < s.length := by omega
          rw [List.getElem?_eq_getElem hlt]
          have := h2.2
          rw [List.getD_eq_getElem?_getD, List.getElem?_eq_getElem hlt] at this
          exact congrArg some this
        rw [List.take_succ, ht6, h6]
        rfl
      rw [if_pos h2] at h
      by_cases h3 : s.length ≥ 9 ∧ strncmp_eq (s.drop 7) "ca".toList 2 = true
      · rw [if_pos h3] at h
        exact Or.inl ⟨(Option.some.inj h).symm, ht7⟩
      · rw [if_neg h3] at h
        exact Or.inl ⟨(Option.some.inj h).symm, ht7⟩
    · rw [if_neg h2] at h
      by_cases h3 : s.length = 6
      · rw [if_pos h3] at h
        refine Or.inr (Or.inl ⟨(Option.some.inj h).symm, ?_⟩)
        rw [← ht6, List.take_of_length_le (by omega)]
      · rw [if_neg h3] at h
        by_cases h4 : s.length = 11 ∧ stricmp_eq s "_labelIndex".toList = true
        · rw [if_pos h4] at h
          refine Or.inr (Or.inr (Or.inl ⟨(Option.some.inj h).symm, ht6, ?_⟩))
          have := stricmp_eq_of_length s _ h4.2 (by rfl) (by rw [h4.1]; rfl)
          rw [List.map_drop, this]
          rfl
        · rw [if_neg h4] at h; cases h
  rw [if_neg h1] at h
  by_cases h2 : s.length = 5 ∧ strcmp_eq s "_text".toList = true
  · rw [if_pos h2] at h
    exact Or.inr (Or.inr (Or.inr (Or.inl ⟨(Option.some.inj h).symm,
      strcmp_eq_of_length s _ h2.2 (by rfl) (by rw [h2.1]; rfl)⟩)))
  rw [if_neg h2] at h
  by_cases h3 : s.length = 6 ∧ strcmp_eq s "_multi".toList = true
  · rw [if_pos h3] at h
    exact Or.inr (Or.inr (Or.inr (Or.inr (Or.inl ⟨(Option.some.inj h).symm,
      strcmp_eq_of_length s _ h3.2 (by rfl) (by rw [h3.1]; rfl)⟩))))
  rw [if_neg h3] at h
  by_cases h4 : s.length = 6 ∧ strcmp_eq s "_slots".toList = true
  · rw [if_pos h4] at h
    exact Or.inr (Or.inr (Or.inr (Or.inr (Or.inr (Or.inl ⟨(Option.some.inj h).symm,
      strcmp_eq_of_length s _ h4.2 (by rfl) (by rw [h4.1]; rfl)⟩)))))
  rw [if_neg h4] at h
  by_cases h5 : s.length = 4 ∧ stricmp_eq s "_tag".toList = true
  · rw [if_pos h5] at h
    exact Or.inr (Or.inr (Or.inr (Or.inr (Or.inr (Or.inr (Or.inl ⟨(Option.some.inj h).symm,
      stricmp_eq_of_length s _ h5.2 (by rfl) (by rw [h5.1]; rfl)⟩))))))
  rw [if_neg h5] at h
  by_cases h6 : s.length = 4 ∧ stricmp_eq s "_inc".toList = true
  · rw [if_pos h6] at h
    exact Or.inr (Or.inr (Or.inr (Or.inr (Or.inr (Or.inr (Or.inr (Or.inr (Or.inr
      (Or.inl (Option.some.inj h).symm)))))))))
  rw [if_neg h6] at h
  by_cases h7 : s.length = 2 ∧ s.getD 1 NUL = 'a'
  · rw [if_pos h7] at h
    exact Or.inr (Or.inr (Or.inr (Or.inr (Or.inr (Or.inr (Or.inr (Or.inr (Or.inr
      (Or.inl (Option.some.inj h).symm)))))))))
  rw [if_neg h7] at h
  by_cases h8 : s.length = 2 ∧ s.getD 1 NUL = 'p'
  · rw [if_pos h8] at h
    split at h
    · cases h
    · exact Or.inr (Or.inr (Or.inr (Or.inr (Or.inr (Or.inr (Or.inr (Or.inr (Or.inr
        (Or.inr (Or.inl (Option.some.inj h).symm))))))))))
  rw [if_neg h8] at h
  by_cases h9 : s.length = 8 ∧ strncmp_eq s "_slot_id".toList 8 = true
  · rw [if_pos h9] at h
    by_cases hs : cfg.label_type ≠ .slates
    · rw [if_pos hs] at h; cases h
    · rw [if_neg hs] at h
      exact Or.inr (Or.inr (Or.inr (Or.inr (Or.inr (Or.inr (Or.inr (Or.inr (Or.inr
        (Or.inr (Or.inl (Option.some.inj h).symm))))))))))
  rw [if_neg h9] at h
  by_cases h10 : s.length = 5 ∧ stricmp_eq s "__aid".toList = true
  · rw [if_pos h10] at h
    exact Or.inr (Or.inr (Or.inr (Or.inr (Or.inr (Or.inr (Or.inr (Or.inl
      ⟨(Option.some.inj h).symm,
        stricmp_eq_of_length s _ h10.2 (by rfl) (by rw [h10.1]; rfl)⟩)))))))
  rw [if_neg h10] at h
  exact Or.inr (Or.inr (Or.inr (Or.inr (Or.inr (Or.inr (Or.inr (Or.inr (Or.inr
    (Or.inr (Or.inr (next_of_Ignore _ _ _ h)))))))))))

lemma length_pos_of_head {s : List Char} {c : Char} (h : s.head? = some c) : s.length > 0 := by
  cases s with
  | nil => cases h
  | cons a as => simp

lemma Default_Key_not_underscore {F : Type} (cfg : JsonConfig F) (ctx : JsonContext F)
    (s : List Char) (h : s.head? ≠ some '_') :
    DefaultState.Key cfg ctx s =
      .ret (some .default_state) { ctx with key := s, key_length := s.length } := by
  unfold DefaultState.Key
  simp only []
  rw [if_neg (fun hh => h hh.2)]

lemma Default_Key_label_property {F : Type} (cfg : JsonConfig F) (ctx : JsonContext F)
    (s : List Char) (h : s.take 7 = "_label_".toList) :
    DefaultState.Key cfg ctx s =
      .ret (some .label_single_property_state)
        (if s.length ≥ 9 ∧ strncmp_eq (s.drop 7) "ca".toList 2 = true then
          { ctx with key := s, key_length := s.length,
                     label_object_state :=
                       { ctx.label_object_state with found_cb_continuous := true } }
        else { ctx with key := s, key_length := s.length }) := by
  have hl : 7 ≤ s.length := by
    have := congrArg List.length h
    rw [List.length_take] at this
    have h7 : "_label_".toList.length = 7 := rfl
    omega
  have hs : s = "_label_".toList ++ s.drop 7 := by
    rw [← h, List.take_append_drop]
  have hu : s.head? = some '_' := by rw [hs]; rfl
  have h0 : s.length > 0 ∧ s.head? = some '_' := ⟨by omega, hu⟩
  have h1 : s.length ≥ 6 ∧ strncmp_eq s "_label".toList 6 = true :=
    ⟨by omega, strncmp_eq_of_take s _ 6 (by rw [hs]; rfl) (by rfl) (by rfl)⟩
  have h2 : s.length ≥ 7 ∧ s.getD 6 NUL = '_' := ⟨hl, by rw [hs]; rfl⟩
  unfold DefaultState.Key
  simp only []
  rw [if_pos h0, if_pos h1, if_pos h2]
  by_cases h3 : s.length ≥ 9 ∧ strncmp_eq (s.drop 7) "ca".toList 2 = true
  · rw [if_pos h3, if_pos h3]
  · rw [if_neg h3, if_neg h3]

lemma Default_Key_label_index {F : Type} (cfg : JsonConfig F) (ctx : JsonContext F)
    (s : List Char) (h : s.take 6 = "_label".toList)
    (hi : (s.drop 6).map Char.toLower = "index".toList) :
    DefaultState.Key cfg ctx s =
      .ret (some .label_index_state) { ctx with key := s, key_length := s.length } := by
  have hs : s = "_label".toList ++ s.drop 6 := by
    rw [← h, List.take_append_drop]
  have hdl : (s.drop 6).length = 5 := by
    have := congrArg List.length hi
    rw [List.length_map] at this
    exact this
  have hl : s.length = 11 := by
    rw [List.length_drop] at hdl
    omega
  have hu : s.head? = some '_' := by rw [hs]; rfl
  have h0 : s.length > 0 ∧ s.head? = some '_' := ⟨by omega, hu⟩
  have h1 : s.length ≥ 6 ∧ strncmp_eq s "_label".toList 6 = true :=
    ⟨by omega, strncmp_eq_of_take s _ 6 h (by rfl) (by rfl)⟩
  have h2 : ¬ (s.length ≥ 7 ∧ s.getD 6 NUL = '_') := by
    rintro ⟨_, h6⟩
    match hd : s.drop 6, hdl, hi with
    | [a, b, c, d, e], _, hi =>
      rw [hs, hd] at h6
      have ha : a = '_' := h6
      rw [ha] at hi
      have hc : Char.toLower '_' = 'i' := by injection hi
      exact absurd hc (by decide)
  have h3 : ¬ s.length = 6 := by omega
  have h4 : s.length = 11 ∧ stricmp_eq s "_labelIndex".toList = true := by
    refine ⟨hl, stricmp_eq_of_lower s _ ?_ (by rfl)⟩
    rw [hs, List.map_append, hi]
    rfl
  unfold DefaultState.Key
  simp only []
  rw [if_pos h0, if_pos h1, if_neg h2, if_neg h3, if_pos h4]

lemma Default_Key_tag {F : Type} (cfg : JsonConfig F) (ctx : JsonContext F)
    (s : List Char) (h : s.map Char.toLower = "_tag".toList) :
    DefaultState.Key cfg ctx s =
      .ret (some .tag_state) { ctx with key := s, key_length := s.length } := by
  have hl : s.length = 4 := by
    have := congrArg List.length h
    rw [List.length_map] at this
    exact this
  have hu : s.head? = some '_' := by
    match s, hl, h with
    | [a, b, c, d], _, h =>
      have ha : a.toLower = '_' := by injection h
      rw [toLower_eq_of_not_lower a _ (Or.inl (by decide)) ha]
      rfl
  have h0 : s.length > 0 ∧ s.head? = some '_' := ⟨by omega, hu⟩
  have h1 : ¬ (s.length ≥ 6 ∧ strncmp_eq s "_label".toList 6 = true) := fun hh => by omega
  have h2 : ¬ (s.length = 5 ∧ strcmp_eq s "_text".toList = true) := fun hh => by omega
  have h3 : ¬ (s.length = 6 ∧ strcmp_eq s "_multi".toList = true) := fun hh => by omega
  have h4 : ¬ (s.length = 6 ∧ strcmp_eq s "_slots".toList = true) := fun hh => by omega
  have h5 : s.length = 4 ∧ stricmp_eq s "_tag".toList = true :=
    ⟨hl, stricmp_eq_of_lower s _ (by rw [h]; rfl) (by rfl)⟩
  unfold DefaultState.Key
  simp only []
  rw [if_pos h0, if_neg h1, if_neg h2, if_neg h3, if_neg h4, if_pos h5]

lemma Default_Key_aid {F : Type} (cfg : JsonConfig F) (ctx : JsonContext F)
    (s : List Char) (h : s.map Char.toLower = "__aid".toList) :
    DefaultState.Key cfg ctx s =
      .ret (some .uint_dedup_state)
        { ctx with key := s, key_length := s.length,
                   uint_dedup_state_return_state := some .default_state } := by
  have hl : s.length = 5 := by
    have := congrArg List.length h
    rw [List.length_map] at this
    exact this
  have hu : s.head? = some '_' := by
    match s, hl, h with
    | [a, b, c, d, e], _, h =>
      have ha : a.toLower = '_' := by injection h
      rw [toLower_eq_of_not_lower a _ (Or.inl (by decide)) ha]
      rfl
  have h0 : s.length > 0 ∧ s.head? = some '_' := ⟨by omega, hu⟩
  have h1 : ¬ (s.length ≥ 6 ∧ strncmp_eq s "_label".toList 6 = true) := fun hh => by omega
  have h2 : ¬ (s.length = 5 ∧ strcmp_eq s "_text".toList = true) := by
    rintro ⟨_, hh⟩
    have := strcmp_eq_of_length s _ hh (by rfl) (by rw [hl]; rfl)
    rw [this] at h
    exact absurd h (by decide)
  have h3 : ¬ (s.length = 6 ∧ strcmp_eq s "_multi".toList = true) := fun hh => by omega
  have h4 : ¬ (s.length = 6 ∧ strcmp_eq s "_slots".toList = true) := fun hh => by omega
  have h5 : ¬ (s.length = 4 ∧ stricmp_eq s "_tag".toList = true) := fun hh => by omega
  have h6 : ¬ (s.length = 4 ∧ stricmp_eq s "_inc".toList = true) := fun hh => by omega
  have h7 : ¬ (s.length = 2 ∧ s.getD 1 NUL = 'a') := fun hh => by omega
  have h8 : ¬ (s.length = 2 ∧ s.getD 1 NUL = 'p') := fun hh => by omega
  have h9 : ¬ (s.length = 8 ∧ strncmp_eq s "_slot_id".toList 8 = true) := fun hh => by omega
  have h10 : s.length = 5 ∧ stricmp_eq s "__aid".toList = true :=
    ⟨hl, stricmp_eq_of_lower s _ (by rw [h]; rfl) (by rfl)⟩
  unfold DefaultState.Key
  simp only []
  rw [if_pos h0, if_neg h1, if_neg h2, if_neg h3, if_neg h4, if_neg h5, if_neg h6, if_neg h7,
    if_neg h8, if_neg h9, if_pos h10]

/-- C28, counterexample to the claim as stated. The key `_LABELINDEX` is `_labelIndex` in
another letter case, and the Key handler of the Default state does not return the LabelIndex
state for it: the key does not begin with the bytes `_label`, and it is fast-skipped. For
`_labelINDEX`, which only differs from `_labelIndex` after `_label`, the handler returns the
LabelIndex state. -/
theorem upper_case_label_index_is_skipped :
    "_LABELINDEX".toList.map Char.toLower = "_labelIndex".toList.map Char.toLower ∧
    (DefaultState.Key (sampleJson .cb) sampleUpperIndexContext "_LABELINDEX".toList).next? =
      some .ignore_state ∧
    (DefaultState.Key (sampleJson .cb) sampleUpperIndexContext "_LABELINDEX".toList).next? ≠
      some .label_index_state ∧
    (DefaultState.Key (sampleJson .cb) sampleUpperIndexContext "_labelINDEX".toList).next? =
      some .label_index_state := by
  refine ⟨by decide, by rfl, ?_, by rfl⟩
  have h : (DefaultState.Key (sampleJson .cb) sampleUpperIndexContext
      "_LABELINDEX".toList).next? = some .ignore_state := by rfl
  rw [h]
  decide

/-- C28, amended. The Key handler of the Default state returns the Label state for the key
`_label` and for no other key; the LabelSingleProperty state for the keys that begin with
`_label_` and for no other key (it sets `found_cb_continuous` when the key has 9 bytes or
more and goes on with `ca`); the LabelIndex state for the keys that begin with `_label`, in
that letter case, and go on with `index` in any letter case, and for no other key; the
Text, Multi and Slots states for `_text`, `_multi`, `_slots` and for no other key; the Tag
state for `_tag` in any letter case and for no other key; the dedup state for `__aid` in
any letter case and for no other key, with the Default state as the state to return to; and
the Default state itself for the keys that do not begin with an underscore, the empty key
among them, and for no other key. In each of these cases the key and its length are
recorded in the context and nothing else is changed. -/
theorem default_state_key_routing {F : Type} (cfg : JsonConfig F) (ctx : JsonContext F)
    (s : List Char) :
    ((s = "_label".toList → DefaultState.Key cfg ctx s =
        .ret (some .label_state) { ctx with key := s, key_length := s.length }) ∧
      ((DefaultState.Key cfg ctx s).next? = some .label_state → s = "_label".toList)) ∧
    ((s.take 7 = "_label_".toList → DefaultState.Key cfg ctx s =
        .ret (some .label_single_property_state)
          (if s.length ≥ 9 ∧ strncmp_eq (s.drop 7) "ca".toList 2 = true then
            { ctx with key := s, key_length := s.length,
                       label_object_state :=
                         { ctx.label_object_state with found_cb_continuous := true } }
          else { ctx with key := s, key_length := s.length })) ∧
      ((DefaultState.Key cfg ctx s).next? = some .label_single_property_state →
        s.take 7 = "_label_".toList)) ∧
    ((s.take 6 = "_label".toList ∧ (s.drop 6).map Char.toLower = "index".toList →
        DefaultState.Key cfg ctx s =
          .ret (some .label_index_state) { ctx with key := s, key_length := s.length }) ∧
      ((DefaultState.Key cfg ctx s).next? = some .label_index_state →
        s.take 6 = "_label".toList ∧ (s.drop 6).map Char.toLower = "index".toList)) ∧
    ((s = "_text".toList → DefaultState.Key cfg ctx s =
        .ret (some .text_state) { ctx with key := s, key_length := s.length }) ∧
      ((DefaultState.Key cfg ctx s).next? = some .text_state → s = "_text".toList)) ∧
    ((s = "_multi".toList → DefaultState.Key cfg ctx s =
        .ret (some .multi_state) { ctx with key := s, key_length := s.length }) ∧
      ((DefaultState.Key cfg ctx s).next? = some .multi_state → s = "_multi".toList)) ∧
    ((s = "_slots".toList → DefaultState.Key cfg ctx s =
        .ret (some .slots_state) { ctx with key := s, key_length := s.length }) ∧
      ((DefaultState.Key cfg ctx s).next? = some .slots_state → s = "_slots".toList)) ∧
    ((s.map Char.toLower = "_tag".toList → DefaultState.Key cfg ctx s =
        .ret (some .tag_state) { ctx with key := s, key_length := s.length }) ∧
      ((DefaultState.Key cfg ctx s).next? = some .tag_state →
        s.map Char.toLower = "_tag".toList)) ∧
    ((s.map Char.toLower = "__aid".toList → DefaultState.Key cfg ctx s =
        .ret (some .uint_dedup_state)
          { ctx with key := s, key_length := s.length,
                     uint_dedup_state_return_state := some .default_state }) ∧
      ((DefaultState.Key cfg ctx s).next? = some .uint_dedup_state →
        s.map Char.toLower = "__aid".toList)) ∧
    ((s.head? ≠ some '_' → DefaultState.Key cfg ctx s =
        .ret (some .default_state) { ctx with key := s, key_length := s.length }) ∧
      ((DefaultState.Key cfg ctx s).next? = some .default_state → s.head? ≠ some '_')) := by
  have route := Default_Key_route cfg ctx s
  refine ⟨⟨?label, ?onlyLabel⟩, ⟨Default_Key_label_property cfg ctx s, ?onlyProperty⟩,
    ⟨fun hi => Default_Key_label_index cfg ctx s hi.1 hi.2, ?onlyIndex⟩,
    ⟨?text, ?onlyText⟩, ⟨?multi, ?onlyMulti⟩, ⟨?slots, ?onlySlots⟩,
    ⟨Default_Key_tag cfg ctx s, ?onlyTag⟩, ⟨Default_Key_aid cfg ctx s, ?onlyAid⟩,
    ⟨Default_Key_not_underscore cfg ctx s, ?onlyDefault⟩⟩
  all_goals intro h
  · subst h; rfl
  · rcases route _ h with
      ⟨x, _⟩ | ⟨_, r⟩ | ⟨x, _⟩ | ⟨x, _⟩ | ⟨x, _⟩ | ⟨x, _⟩ | ⟨x, _⟩ | ⟨x, _⟩ | ⟨x, _⟩ | x | x | x
    all_goals first | exact r | cases x
  · rcases route _ h with
      ⟨_, r⟩ | ⟨x, _⟩ | ⟨x, _⟩ | ⟨x, _⟩ | ⟨x, _⟩ | ⟨x, _⟩ | ⟨x, _⟩ | ⟨x, _⟩ | ⟨x, _⟩ | x | x | x
    all_goals first | exact r | cases x
  · rcases route _ h with
      ⟨x, _⟩ | ⟨x, _⟩ | ⟨_, r⟩ | ⟨x, _⟩ | ⟨x, _⟩ | ⟨x, _⟩ | ⟨x, _⟩ | ⟨x, _⟩ | ⟨x, _⟩ | x | x | x
    all_goals first | exact r | cases x
  · subst h; rfl
  · rcases route _ h with
      ⟨x, _⟩ | ⟨x, _⟩ | ⟨x, _⟩ | ⟨_, r⟩ | ⟨x, _⟩ | ⟨x, _⟩ | ⟨x, _⟩ | ⟨x, _⟩ | ⟨x, _⟩ | x | x | x
    all_goals first | exact r | cases x
  · subst h; rfl
  · rcases route _ h with
      ⟨x, _⟩ | ⟨x, _⟩ | ⟨x, _⟩ | ⟨x, _⟩ | ⟨_, r⟩ | ⟨x, _⟩ | ⟨x, _⟩ | ⟨x, _⟩ | ⟨x, _⟩ | x | x | x
    all_goals first | exact r | cases x
  · subst h; rfl
  · rcases route _ h with
      ⟨x, _⟩ | ⟨x, _⟩ | ⟨x, _⟩ | ⟨x, _⟩ | ⟨x, _⟩ | ⟨_, r⟩ | ⟨x, _⟩ | ⟨x, _⟩ | ⟨x, _⟩ | x | x | x
    all_goals first | exact r | cases x
  · rcases route _ h with
      ⟨x, _⟩ | ⟨x, _⟩ | ⟨x, _⟩ | ⟨x, _⟩ | ⟨x, _⟩ | ⟨x, _⟩ | ⟨_, r⟩ | ⟨x, _⟩ | ⟨x, _⟩ | x | x | x
    all_goals first | exact r | cases x
  · rcases route _ h with
      ⟨x, _⟩ | ⟨x, _⟩ | ⟨x, _⟩ | ⟨x, _⟩ | ⟨x, _⟩ | ⟨x, _⟩ | ⟨x, _⟩ | ⟨_, r⟩ | ⟨x, _⟩ | x | x | x
    all_goals first | exact r | cases x
  · rcases route _ h with
      ⟨x, _⟩ | ⟨x, _⟩ | ⟨x, _⟩ | ⟨x, _⟩ | ⟨x, _⟩ | ⟨x, _⟩ | ⟨x, _⟩ | ⟨x, _⟩ | ⟨_, r⟩ | x | x | x
    all_goals first | exact r | cases x

/-! ## The label index and the synthetic slot at the close of the group (C29, C30) -/

lemma popExamples_length {F : Type} (ctx : JsonContext F) (ns : Scope) :
    (popExamples ctx ns).length = ctx.examples.length := by
  unfold popExamples
  split
  · split <;> simp
  · rfl

/-- `DefaultState::EndObject` on the last scope of the stack: the scope is popped, the label
index is applied, the label is committed and the synthetic slot is made. -/
lemma Default_EndObject_top {F : Type} (ops : FloatOps F) (cfg : JsonConfig F)
    (ctx : JsonContext F) (ns : Scope) (r : Option BaseState)
    (hnp : ctx.namespace_path = [ns]) (hrp : ctx.return_path = [r])
    (hex : ctx.ex < ctx.examples.length) (c2 : JsonContext F)
    (happly : applyLabelIndex { ctx with
      examples := popExamples ctx ns, namespace_path := [], return_path := [] } =
        some (.inr c2)) :
    DefaultState.EndObject ops cfg ctx =
      match LabelObjectState.EndObject ops cfg c2 with
      | .undefined => .undefined
      | .throws e c => .throws e c
      | .ret _ c3 => .ret (syntheticSlot cfg c3).root_state (syntheticSlot cfg c3) := by
  have hpop := PopNamespace_eq ctx [] ns [] r (by rw [hnp]; rfl) (by rw [hrp]; rfl) hex
  unfold DefaultState.EndObject
  rw [hpop]
  simp only [List.isEmpty_nil, if_true]
  rw [happly]

/-- C29. At the close of the outermost object (one scope on the stack, which the handler
pops, so that the stack becomes empty), `DefaultState::EndObject` applies the captured label
index before it commits the label. With a captured index `i >= 0` such that `i + 1` is
smaller than the number of examples (a number below `2 ^ 31`), the example at position
`i + 1` of the group becomes the current example, the captured index is reset to -1, and
`LabelObjectState::EndObject` runs on that context: what the handler returns is what the
commit and the ccb slot step make of it. Under the cb label type with a cb label found the
label is appended to the costs of that example. With the index -1 (none captured) the
commit runs on the context as the pop left it, with the current example unchanged. -/
theorem label_index_selects_example {F : Type} (ops : FloatOps F) (cfg : JsonConfig F)
    (ctx : JsonContext F) (ns : Scope) (r : Option BaseState)
    (hnp : ctx.namespace_path = [ns]) (hrp : ctx.return_path = [r])
    (hex : ctx.ex < ctx.examples.length) :
    (∀ i : Nat, ctx.label_index_state_index = (i : Int) → i + 1 < ctx.examples.length →
      ctx.examples.length < 2 ^ 31 →
      applyLabelIndex { ctx with
          examples := popExamples ctx ns, namespace_path := [], return_path := [] } =
        some (.inr { ctx with
          examples := popExamples ctx ns, namespace_path := [], return_path := [],
          ex := i + 1, label_index_state_index := -1 }) ∧
      DefaultState.EndObject ops cfg ctx =
        (match LabelObjectState.EndObject ops cfg { ctx with
            examples := popExamples ctx ns, namespace_path := [], return_path := [],
            ex := i + 1, label_index_state_index := -1 } with
        | .undefined => .undefined
        | .throws e c => .throws e c
        | .ret _ c3 => .ret (syntheticSlot cfg c3).root_state (syntheticSlot cfg c3)) ∧
      (cfg.label_type = .cb → ctx.label_object_state.found_cb = true →
        ∃ e, (popExamples ctx ns).get? (i + 1) = some e ∧
          DefaultState.EndObject ops cfg ctx = .ret ctx.root_state
            { ctx with
              examples := (popExamples ctx ns).set (i + 1)
                { e with l := { e.l with cb :=
                    { e.l.cb with costs := e.l.cb.costs ++ [ctx.label_object_state.cb_label] } } },
              namespace_path := [], return_path := [],
              ex := i + 1, label_index_state_index := -1,
              label_object_state := { ctx.label_object_state with
                found_cb := false, cb_label := cfg.cb_class_default } })) ∧
    (ctx.label_index_state_index = -1 →
      applyLabelIndex { ctx with
          examples := popExamples ctx ns, namespace_path := [], return_path := [] } =
        some (.inr { ctx with
          examples := popExamples ctx ns, namespace_path := [], return_path := [] }) ∧
      DefaultState.EndObject ops cfg ctx =
        (match LabelObjectState.EndObject ops cfg { ctx with
            examples := popExamples ctx ns, namespace_path := [], return_path := [] } with
        | .undefined => .undefined
        | .throws e c => .throws e c
        | .ret _ c3 => .ret (syntheticSlot cfg c3).root_state (syntheticSlot cfg c3))) := by
  refine ⟨fun i hi hlt hmax => ?_, fun hi => ?_⟩
  · have happly : applyLabelIndex { ctx with
          examples := popExamples ctx ns, namespace_path := [], return_path := [] } =
        some (.inr { ctx with
          examples := popExamples ctx ns, namespace_path := [], return_path := [],
          ex := i + 1, label_index_state_index := -1 }) := by
      unfold applyLabelIndex
      simp only [hi, popExamples_length]
      rw [if_pos (by omega), wrapInt_small _ (by omega) (by norm_num; omega),
        intOfUnsigned_small _ hmax, if_neg (by omega), if_neg (by omega)]
      rfl
    have hend := Default_EndObject_top ops cfg ctx ns r hnp hrp hex _ happly
    refine ⟨happly, hend, fun hcb hfound => ?_⟩
    have hlt2 : i + 1 < (popExamples ctx ns).length := by
      rw [popExamples_length]; exact hlt
    refine ⟨(popExamples ctx ns).get ⟨i + 1, hlt2⟩, List.get?_eq_get hlt2, ?_⟩
    rw [hend]
    unfold LabelObjectState.EndObject
    simp only []
    rw [if_neg (by rw [hcb]; decide), if_neg (by rw [hcb]; decide), if_pos hfound]
    have hexq : ({ ctx with
          examples := popExamples ctx ns, namespace_path := [], return_path := [],
          ex := i + 1, label_index_state_index := -1 } : JsonContext F).ex? =
        some ((popExamples ctx ns).get ⟨i + 1, hlt2⟩) := List.get?_eq_get hlt2
    rw [hexq]
    simp only []
    unfold syntheticSlot
    rw [if_neg (by rw [hcb]; decide)]
    rfl
  · have happly : applyLabelIndex { ctx with
          examples := popExamples ctx ns, namespace_path := [], return_path := [] } =
        some (.inr { ctx with
          examples := popExamples ctx ns, namespace_path := [], return_path := [] }) := by
      unfold applyLabelIndex
      simp only [hi]
      rw [if_neg (by omega)]
    exact ⟨happly, Default_EndObject_top ops cfg ctx ns r hnp hrp hex _ happly⟩

/-- Witness for C29: the close of
`\x7b"_labelIndex":1,"_label_cost":2,"_multi":[\x7b"a":1\x7d,\x7b"b":1\x7d]\x7d` under the cb
label type. The cost goes to the example at position 2. -/
theorem label_index_selects_example_witness :
    sampleIndexedContext.label_index_state_index = 1 ∧
    sampleIndexedContext.examples.length = 3 ∧
    sampleIndexedContext.ex = 0 ∧
    applyLabelIndex { sampleIndexedContext with
        examples := popExamples sampleIndexedContext sampleTopScope,
        namespace_path := [], return_path := [] } =
      some (.inr { sampleIndexedContext with
        examples := popExamples sampleIndexedContext sampleTopScope,
        namespace_path := [], return_path := [],
        ex := 1 + 1, label_index_state_index := -1 }) ∧
    (DefaultState.EndObject sampleOps (sampleJson .cb) sampleIndexedContext).ctx?.map
      (fun c => (c.ex, c.label_index_state_index,
        c.examples.map (fun e => e.l.cb.costs.map (fun x => x.cost)))) =
      some (2, -1, [[some (2 ^ 127)], [], [some 2]]) :=
  ⟨rfl, rfl, rfl,
    ((label_index_selects_example sampleOps (sampleJson .cb) sampleIndexedContext sampleTopScope
      (some .default_state) rfl rfl (by decide)).1 1 rfl (by decide) (by decide)).1,
    by rfl⟩

lemma slotTypes_set {F : Type} (l : List (LabeledExample F)) (i : Nat)
    (e e' : LabeledExample F) (h : l.get? i = some e)
    (ht : e'.l.conditional_contextual_bandit.type = e.l.conditional_contextual_bandit.type) :
    slotTypes (l.set i e') = slotTypes l := by
  unfold slotTypes
  rw [List.map_set]
  apply List.ext_getElem?
  intro n
  rw [List.getElem?_set]
  by_cases hin : i = n
  · subst hin
    rw [if_pos rfl]
    rw [List.get?_eq_getElem?] at h
    by_cases hl : i < l.length
    · rw [if_pos (by rw [List.length_map]; exact hl), List.getElem?_map, h, ht]
      rfl
    · rw [List.getElem?_eq_none (by omega)] at h
      cases h
  · rw [if_neg hin]

lemma popExamples_types {F : Type} (ctx : JsonContext F) (ns : Scope) :
    slotTypes (popExamples ctx ns) = slotTypes ctx.examples := by
  unfold popExamples
  split
  · split
    · rename_i e he
      apply slotTypes_set _ _ e _ he
      split <;> rfl
    · rfl
  · rfl

/-- What applying the label index leaves of the context: everything but the current example
and the captured index. -/
lemma applyLabelIndex_inr {F : Type} (c c2 : JsonContext F)
    (h : applyLabelIndex c = some (.inr c2)) :
    c2.examples = c.examples ∧ c2.label_object_state = c.label_object_state := by
  unfold applyLabelIndex at h
  simp only [JsonContext.fail] at h
  by_cases h0 : c.label_index_state_index ≥ 0
  · rw [if_pos h0] at h
    by_cases h1 : wrapInt (c.label_index_state_index + 1) ≥ intOfUnsigned c.examples.length
    · rw [if_pos h1] at h
      injection h with h
      cases h
    rw [if_neg h1] at h
    by_cases h2 : wrapInt (c.label_index_state_index + 1) < 0
    · rw [if_pos h2] at h
      cases h
    rw [if_neg h2] at h
    injection h with h
    injection h with h
    rw [← h]
    exact ⟨rfl, rfl⟩
  · rw [if_neg h0] at h
    injection h with h
    injection h with h
    rw [← h]
    exact ⟨rfl, rfl⟩

/-- The commit of the label under the ccb label type, when it returns: the types of the
examples, the flag `found_cb` and the root state are as they were; the cb label is as it was
when one of the two lists is empty and is reset otherwise. -/
lemma LabelObject_EndObject_ccb {F : Type} (ops : FloatOps F) (cfg : JsonConfig F)
    (c c3 : JsonContext F) (n : Option BaseState) (hlt : cfg.label_type = .ccb)
    (h : LabelObjectState.EndObject ops cfg c = .ret n c3) :
    slotTypes c3.examples = slotTypes c.examples ∧
    c3.label_object_state.found_cb = c.label_object_state.found_cb ∧
    c3.root_state = c.root_state ∧ c3.factory_calls = c.factory_calls ∧
    (c.label_object_state.actions = [] ∨ c.label_object_state.probs = [] →
      c3.label_object_state.cb_label = c.label_object_state.cb_label) ∧
    (c.label_object_state.actions ≠ [] → c.label_object_state.probs ≠ [] →
      c3.label_object_state.cb_label = cfg.cb_class_default) := by
  unfold LabelObjectState.EndObject at h
  simp only [] at h
  rw [if_pos hlt] at h
  cases hex : c.ex? with
  | none =>
    rw [hex] at h
    cases h
  | some e =>
    rw [hex] at h
    simp only [] at h
    have hget : c.examples.get? c.ex = some e := hex
    by_cases h1 : c.label_object_state.actions.length ≠ 0 ∧ c.label_object_state.probs.length ≠ 0
    · rw [if_pos h1] at h
      by_cases h2 : c.label_object_state.actions.length ≠ c.label_object_state.probs.length
      · rw [if_pos h2] at h
        cases h
      rw [if_neg h2] at h
      injection h with _ h
      rw [← h]
      refine ⟨slotTypes_set _ _ e _ hget rfl, rfl, rfl, rfl, fun hor => ?_, fun _ _ => rfl⟩
      exfalso
      rcases hor with ha | hp
      · rw [ha] at h1; exact h1.1 rfl
      · rw [hp] at h1; exact h1.2 rfl
    · rw [if_neg h1] at h
      injection h with _ h
      rw [← h]
      refine ⟨slotTypes_set _ _ e _ hget rfl, rfl, rfl, rfl, fun _ => rfl, fun ha hp => ?_⟩
      exfalso
      apply h1
      exact ⟨fun h0 => ha (List.length_eq_zero.mp h0), fun h0 => hp (List.length_eq_zero.mp h0)⟩

lemma countP_slot_eq_zero {F : Type} (l : List (LabeledExample F)) :
    l.countP (fun ex => ex.l.conditional_contextual_bandit.type == example_type.slot) = 0 ↔
      ∀ t ∈ slotTypes l, t ≠ example_type.slot := by
  rw [List.countP_eq_zero]
  unfold slotTypes
  constructor
  · intro h t ht
    obtain ⟨e, he, rfl⟩ := List.mem_map.mp ht
    have := h e he
    simpa using this
  · intro h e he
    have := h _ (List.mem_map_of_mem _ he)
    simpa using this

/-- C30. Under the ccb label type, at the close of the outermost object (one scope on the
stack, which the handler pops), when the label index is applied and the commit of the label
returns with the context `c3`: the commit leaves the number and the types of the examples
and the flag `found_cb` as they were before the close; when no example of the group has the
type slot and `found_cb` is set, the handler appends exactly one example, of type slot, whose
outcome has the cost of the cb label of `c3` and the one pair (action of that label minus
one modulo `2 ^ 32`, probability of that label); otherwise it appends nothing. The cb label
of `c3` is the accumulated one when the action list or the probability list is empty; when
both are non-empty the commit has reset it to the default `cb_class`, and the slot is made
from the default values, not from the accumulated ones: for the line with the label action
3, the cost 2, the probability 1 and the lists `_a` = [1], `_p` = [1] the slot has the
default cost and the pair (4294967295, -1). -/
theorem ccb_close_synthetic_slot {F : Type} (ops : FloatOps F) (cfg : JsonConfig F)
    (ctx : JsonContext F) (ns : Scope) (r : Option BaseState)
    (hlt : cfg.label_type = .ccb)
    (hnp : ctx.namespace_path = [ns]) (hrp : ctx.return_path = [r])
    (hex : ctx.ex < ctx.examples.length) (c2 c3 : JsonContext F) (n3 : Option BaseState)
    (happly : applyLabelIndex { ctx with
      examples := popExamples ctx ns, namespace_path := [], return_path := [] } =
        some (.inr c2))
    (hcommit : LabelObjectState.EndObject ops cfg c2 = .ret n3 c3) :
    (slotTypes c3.examples = slotTypes ctx.examples ∧
      c3.examples.length = ctx.examples.length ∧
      c3.label_object_state.found_cb = ctx.label_object_state.found_cb) ∧
    ((∀ t ∈ slotTypes ctx.examples, t ≠ example_type.slot) ∧
        ctx.label_object_state.found_cb = true →
      ∃ slot : LabeledExample F,
        DefaultState.EndObject ops cfg ctx = .ret c3.root_state
          { c3 with factory_calls := c3.factory_calls + 1, ex := c3.examples.length,
                    examples := c3.examples ++ [slot] } ∧
        (c3.examples ++ [slot]).length = ctx.examples.length + 1 ∧
        slot.l.conditional_contextual_bandit.type = .slot ∧
        slot.l.conditional_contextual_bandit.outcome = some
          { cost := c3.label_object_state.cb_label.cost
            probabilities :=
              [{ action := (c3.label_object_state.cb_label.action + 2 ^ 32 - 1) % 2 ^ 32
                 score := c3.label_object_state.cb_label.probability }] }) ∧
    (¬ ((∀ t ∈ slotTypes ctx.examples, t ≠ example_type.slot) ∧
        ctx.label_object_state.found_cb = true) →
      DefaultState.EndObject ops cfg ctx = .ret c3.root_state c3) ∧
    (ctx.label_object_state.actions = [] ∨ ctx.label_object_state.probs = [] →
      c3.label_object_state.cb_label = ctx.label_object_state.cb_label) ∧
    (ctx.label_object_state.actions ≠ [] → ctx.label_object_state.probs ≠ [] →
      c3.label_object_state.cb_label = cfg.cb_class_default) ∧
    (sampleCcbResetContext.label_object_state.cb_label.action,
        sampleCcbResetContext.label_object_state.cb_label.cost,
        sampleCcbResetContext.label_object_state.cb_label.probability,
        sampleCcbResetContext.label_object_state.found_cb,
        slotTypes sampleCcbResetContext.examples) =
      (3, some 2, some 1, true, [.shared, .action]) ∧
    (DefaultState.EndObject sampleOps (sampleJson .ccb) sampleCcbResetContext).ctx?.map
      (fun c => c.examples.map (fun e => (e.l.conditional_contextual_bandit.type,
        e.l.conditional_contextual_bandit.outcome.map
          (fun o => (o.cost, o.probabilities.map (fun p => (p.action, p.score))))))) =
      some [(.shared, some (some 2, [(1, some 1)])), (.action, none),
        (.slot, some (some (2 ^ 127), [(4294967295, some (-1))]))] := by
  obtain ⟨a1, a2⟩ := applyLabelIndex_inr _ _ happly
  obtain ⟨b1, b2, b3, b4, b5, b6⟩ := LabelObject_EndObject_ccb ops cfg c2 c3 n3 hlt hcommit
  have htypes : slotTypes c3.examples = slotTypes ctx.examples := by
    rw [b1, a1]
    exact popExamples_types ctx ns
  have hlen : c3.examples.length = ctx.examples.length := by
    have := congrArg List.length htypes
    unfold slotTypes at this
    rw [List.length_map, List.length_map] at this
    exact this
  have hfound : c3.label_object_state.found_cb = ctx.label_object_state.found_cb := by
    rw [b2, a2]
  have hend : DefaultState.EndObject ops cfg ctx =
      .ret (syntheticSlot cfg c3).root_state (syntheticSlot cfg c3) := by
    rw [Default_EndObject_top ops cfg ctx ns r hnp hrp hex c2 happly, hcommit]
  refine ⟨⟨htypes, hlen, hfound⟩, fun hyes => ?_, fun hno => ?_, fun hor => ?_,
    fun ha hp => ?_, by rfl, by rfl⟩
  · have hcond : c3.examples.countP
          (fun ex => ex.l.conditional_contextual_bandit.type == example_type.slot) = 0 ∧
        c3.label_object_state.found_cb = true := by
      rw [countP_slot_eq_zero, htypes, hfound]
      exact hyes
    have hs : syntheticSlot cfg c3 =
        { c3 with factory_calls := c3.factory_calls + 1, ex := c3.examples.length,
                  examples := c3.examples ++
                    [{ cfg.example_factory c3.factory_calls with
                      l := { cfg.default_label (cfg.example_factory c3.factory_calls).l with
                        conditional_contextual_bandit :=
                          { (cfg.default_label
                              (cfg.example_factory c3.factory_calls).l).conditional_contextual_bandit
                            with
                            type := .slot
                            outcome := some
                              { cost := c3.label_object_state.cb_label.cost
                                probabilities :=
                                  [{ action :=
                                      (c3.label_object_state.cb_label.action + 2 ^ 32 - 1) % 2 ^ 32
                                     score := c3.label_object_state.cb_label.probability }] } } } }] } := by
      unfold syntheticSlot
      rw [if_pos hlt]
      simp only []
      rw [if_pos hcond]
    refine ⟨{ cfg.example_factory c3.factory_calls with
        l := { cfg.default_label (cfg.example_factory c3.factory_calls).l with
          conditional_contextual_bandit :=
            { (cfg.default_label
                (cfg.example_factory c3.factory_calls).l).conditional_contextual_bandit
              with
              type := .slot
              outcome := some
                { cost := c3.label_object_state.cb_label.cost
                  probabilities :=
                    [{ action :=
                        (c3.label_object_state.cb_label.action + 2 ^ 32 - 1) % 2 ^ 32
                       score := c3.label_object_state.cb_label.probability }] } } } },
      ?_, ?_, rfl, rfl⟩
    · rw [hend, hs]
    · rw [List.length_append, List.length_singleton, hlen]
  · have hcond : ¬ (c3.examples.countP
          (fun ex => ex.l.conditional_contextual_bandit.type == example_type.slot) = 0 ∧
        c3.label_object_state.found_cb = true) := by
      rw [countP_slot_eq_zero, htypes, hfound]
      exact hno
    have hs : syntheticSlot cfg c3 = c3 := by
      unfold syntheticSlot
      rw [if_pos hlt]
      simp only []
      rw [if_neg hcond]
    rw [hend, hs]
  · rw [b5 (by rw [a2]; exact hor), a2]
  · exact b6 (by rw [a2]; exact ha) (by rw [a2]; exact hp)

/-- Witness for C30: the close of
`\x7b"_label_Action":3,"_label_cost":2,"_label_probability":1,"_multi":[\x7b"a":1\x7d]\x7d`
under the ccb label type. One slot example is appended; its outcome has the cost 2 and the
pair (2, 1). -/
theorem ccb_close_synthetic_slot_witness :
    sampleCcbCloseContext.examples.length = 2 ∧
    slotTypes sampleCcbCloseContext.examples = [.shared, .action] ∧
    sampleCcbCloseContext.label_object_state.found_cb = true ∧
    (∃ slot : LabeledExample (Option Int),
      (DefaultState.EndObject sampleOps (sampleJson .ccb) sampleCcbCloseContext).ctx?.map
        (fun c => c.examples.length) = some 3 ∧
      slot.l.conditional_contextual_bandit.type = .slot ∧
      slot.l.conditional_contextual_bandit.outcome = some
        { cost := some 2, probabilities := [{ action := 2, score := some 1 }] }) :=
  ⟨rfl, rfl, rfl,
    ((ccb_close_synthetic_slot sampleOps (sampleJson .ccb) sampleCcbCloseContext sampleTopScope
      (some .default_state) rfl rfl rfl (by decide)
      { sampleCcbCloseContext with
        examples := popExamples sampleCcbCloseContext sampleTopScope,
        namespace_path := [], return_path := [] }
      ((LabelObjectState.EndObject sampleOps (sampleJson .ccb)
        { sampleCcbCloseContext with
          examples := popExamples sampleCcbCloseContext sampleTopScope,
          namespace_path := [], return_path := [] }).ctx?.getD sampleCcbCloseContext)
      none rfl rfl).2.1 ⟨by decide, rfl⟩).imp
      (fun _ h => ⟨by rw [h.1]; rfl, h.2.2.1, h.2.2.2⟩)⟩

/-! ## Lines that make the caller read another line (C23) -/

/-- In the DecisionService state the member `_skipLearn` with a boolean value writes the
flag of the interaction record and comes back to the DecisionService state. -/
lemma skipLearn_member_run {F : Type} (ops : FloatOps F) (cv : FloatConv F)
    (cfg : JsonConfig F) (ctx : JsonContext F)
    (hstate : ctx.current_state = .decision_service_state) (src : List Char) (b : Bool) :
    Runs ops cv cfg [.Key "_skipLearn".toList src, .Bool b] ctx
      { ctx with
        stream := src
        bool_state_return_state := some .decision_service_state
        decision_service_state_data := { ctx.decision_service_state_data with skipLearn := b }
        previous_state := some .bool_state
        current_state := .decision_service_state } := by
  have h1 : VWReaderHandler.token ops cv cfg ctx (.Key "_skipLearn".toList src) =
      .ret (some .bool_state)
        { ctx with stream := src, bool_state_return_state := some .decision_service_state } := by
    rw [token_key_decision_service ops cv cfg ctx hstate]
    rfl
  refine Runs.cons_run ops cv cfg h1 ?_
  have h2 : VWReaderHandler.token ops cv cfg
      { ctx with stream := src, bool_state_return_state := some .decision_service_state,
                 previous_state := some ctx.current_state, current_state := .bool_state }
      (.Bool b) =
      .ret (some .decision_service_state)
        { ctx with stream := src, bool_state_return_state := some .decision_service_state,
                   previous_state := some ctx.current_state, current_state := .bool_state,
                   decision_service_state_data :=
                     { ctx.decision_service_state_data with skipLearn := b } } := rfl
  exact Runs.single_run ops cv cfg h2

/-! ## Which handler calls write the skip-learn flag (C23) -/

lemma notBool_none : NotBoolState none := fun h => by cases h

lemma notBool_some (s : BaseState) (h : s ≠ .bool_state) : NotBoolState (some s) :=
  fun hh => h (Option.some.inj hh)

lemma KeepsFlag.refl_keeps {F : Type} (ctx : JsonContext F) (hQ : SavedNotBool ctx) :
    KeepsFlag ctx none ctx :=
  ⟨notBool_none, hQ, rfl, rfl, rfl, rfl⟩

lemma KeepsFlag.trans_keeps {F : Type} {a b c : JsonContext F} {n m : Option BaseState}
    (h1 : KeepsFlag a n b) (h2 : KeepsFlag b m c) : KeepsFlag a m c :=
  ⟨h2.next, h2.saved, h2.flag.trans h1.flag, h2.state.trans h1.state,
    h2.previous.trans h1.previous,
    h2.bool_return.trans h1.bool_return⟩

lemma KeepsFlag.with_next {F : Type} {a b : JsonContext F} {n : Option BaseState}
    (h : KeepsFlag a n b) (m : Option BaseState) (hm : NotBoolState m) : KeepsFlag a m b :=
  ⟨hm, h.saved, h.flag, h.state, h.previous, h.bool_return⟩

lemma fail_keeps {F : Type} (ctx : JsonContext F) (e : JsonError) (hQ : SavedNotBool ctx) :
    (ctx.fail e).Keeps ctx :=
  ⟨notBool_none, { hQ with }, rfl, rfl, rfl, rfl⟩

lemma setEx_keeps {F : Type} (ctx : JsonContext F) (e : LabeledExample F)
    (hQ : SavedNotBool ctx) : KeepsFlag ctx none (ctx.setEx e) :=
  ⟨notBool_none, { hQ with }, rfl, rfl, rfl, rfl⟩

lemma PushNamespace_keeps {F : Type} (cfg : JsonConfig F) (ctx : JsonContext F)
    (ns : List Char) (r : Option BaseState) (hQ : SavedNotBool ctx) (hr : NotBoolState r) :
    KeepsFlag ctx none (ctx.PushNamespace cfg ns r) := by
  refine ⟨notBool_none, { hQ with path := ?_ }, rfl, rfl, rfl, rfl⟩
  intro p hp
  rcases List.mem_append.mp hp with h | h
  · exact hQ.path p h
  · rw [List.mem_singleton.mp h]
    exact hr

lemma Context_PopNamespace_return {F S : Type} (x : Context F S) (r : S) (c : Context F S)
    (h : x.PopNamespace = some (r, c)) : x.return_path.getLast? = some r := by
  unfold Context.PopNamespace at h
  split at h
  · rename_i ns rs hns hrs
    cases h
    exact hrs
  · cases h

lemma PopNamespace_keeps {F : Type} (ctx : JsonContext F) (r : Option BaseState)
    (c : JsonContext F) (h : ctx.PopNamespace = some (r, c)) (hQ : SavedNotBool ctx) :
    KeepsFlag ctx r c := by
  unfold JsonContext.PopNamespace at h
  have hdrop : ∀ p ∈ ctx.return_path.dropLast, NotBoolState p :=
    fun p hp => hQ.path p (List.dropLast_subset _ hp)
  split at h
  · rename_i ns rs hns hrs
    have hr : NotBoolState rs := hQ.path rs (List.mem_of_getLast?_eq_some hrs)
    split at h
    · split at h
      · cases h
      · rename_i e he
        split at h
        · cases h
        · rename_i r1 c1 hpop
          have h1 := Context_PopNamespace_return _ _ _ hpop
          have h2 : some r1 = some rs := h1.symm.trans hrs
          cases h2
          cases h
          exact ⟨hr, { hQ with path := hdrop }, rfl, rfl, rfl, rfl⟩
    · cases h
      exact ⟨hr, { hQ with path := hdrop }, rfl, rfl, rfl, rfl⟩
  · cases h

lemma pushFeature_keeps {F : Type} (ops : FloatOps F) (cfg : JsonConfig F)
    (ctx c : JsonContext F) (v : F) (i : Nat) (name : List Char)
    (h : ctx.pushFeature ops cfg v i name = some c) (hQ : SavedNotBool ctx) :
    KeepsFlag ctx none c := by
  unfold JsonContext.pushFeature at h
  split at h
  · cases h
  · split at h
    · cases h
    · cases h
      exact ⟨notBool_none, { hQ with }, rfl, rfl, rfl, rfl⟩

lemma AddFeature_keeps_flag {F : Type} (ops : FloatOps F) (cfg : JsonConfig F)
    (ctx c : JsonContext F) (v : F) (i : Nat) (name : List Char)
    (h : ctx.AddFeature ops cfg v i name = some c) (hQ : SavedNotBool ctx) :
    KeepsFlag ctx none c := by
  unfold JsonContext.AddFeature at h
  split at h
  · cases h
  · split at h
    · cases h
      exact KeepsFlag.refl_keeps _ hQ
    · exact pushFeature_keeps ops cfg ctx c v i name h hQ

lemma AddFeatureStr_keeps {F : Type} (ops : FloatOps F) (cfg : JsonConfig F)
    (ctx c : JsonContext F) (str : List Char)
    (h : ctx.AddFeatureStr ops cfg str = some c) (hQ : SavedNotBool ctx) :
    KeepsFlag ctx none c := by
  unfold JsonContext.AddFeatureStr at h
  split at h
  · cases h
  · exact pushFeature_keeps ops cfg ctx c _ _ _ h hQ

lemma AddFeatureKeyValue_keeps {F : Type} (ops : FloatOps F) (cfg : JsonConfig F)
    (ctx c : JsonContext F) (key value : List Char)
    (h : ctx.AddFeatureKeyValue ops cfg key value = some c) (hQ : SavedNotBool ctx) :
    KeepsFlag ctx none c := by
  unfold JsonContext.AddFeatureKeyValue at h
  split at h
  · cases h
  · exact pushFeature_keeps ops cfg ctx c _ _ _ h hQ

lemma ofOption_keeps {F : Type} (ctx : JsonContext F) (n : Option BaseState)
    (o : Option (JsonContext F)) (hn : NotBoolState n)
    (h : ∀ c, o = some c → KeepsFlag ctx none c) :
    (Handled.ofOption n o).Keeps ctx := by
  cases o with
  | none => trivial
  | some c => exact (h c rfl).with_next n hn

lemma Ignore_keeps {F : Type} (ctx : JsonContext F) (length : Nat) (hQ : SavedNotBool ctx) :
    (DefaultState.Ignore ctx length).Keeps ctx ∧
    (∀ e c, DefaultState.Ignore ctx length = .throws e c → KeepsFlag ctx none c) := by
  unfold DefaultState.Ignore
  simp only []
  split
  · exact ⟨fail_keeps ctx _ hQ, fun e c h => by cases h⟩
  · split
    · exact ⟨fail_keeps ctx _ hQ, fun e c h => by cases h⟩
    · exact ⟨trivial, fun e c h => by cases h⟩
    · split
      · exact ⟨fail_keeps ctx _ hQ, fun e c h => by cases h⟩
      · split
        · exact ⟨trivial, fun e c h => by cases h⟩
        · exact ⟨⟨notBool_some _ (by decide), { hQ with }, rfl, rfl, rfl, rfl⟩,
            fun e c h => by cases h⟩

/-! ### The handlers of the label states -/

lemma BaseState_Null_keeps {F : Type} (s : BaseState) (ctx : JsonContext F)
    (hs : s ≠ .bool_state) (hQ : SavedNotBool ctx) (hp : NotBoolState ctx.previous_state) :
    (BaseState.Null s ctx).Keeps ctx := by
  unfold BaseState.Null
  refine ⟨?_, hQ, rfl, rfl, rfl, rfl⟩
  split
  · exact notBool_some _ hs
  · exact hp

lemma LabelObjectState_StartObject_keeps {F : Type} (cfg : JsonConfig F) (ctx : JsonContext F)
    (hQ : SavedNotBool ctx) (hp : NotBoolState ctx.previous_state) :
    (LabelObjectState.StartObject cfg ctx).Keeps ctx := by
  unfold LabelObjectState.StartObject
  split
  · trivial
  · simp only []
    split
    · exact ⟨notBool_none, { hQ with }, rfl, rfl, rfl, rfl⟩
    · exact ⟨notBool_some _ (by decide), { hQ with label_object := hp }, rfl, rfl, rfl, rfl⟩

lemma LabelObjectState_Key_keeps {F : Type} (ctx : JsonContext F) (str : List Char)
    (hQ : SavedNotBool ctx) : (LabelObjectState.Key ctx str).Keeps ctx :=
  ⟨notBool_some _ (by decide), { hQ with }, rfl, rfl, rfl, rfl⟩

lemma LabelObjectState_String_keeps {F : Type} (cv : FloatConv F) (ctx : JsonContext F)
    (str : List Char) (hQ : SavedNotBool ctx) : (LabelObjectState.String cv ctx str).Keeps ctx := by
  unfold LabelObjectState.String
  simp only []
  repeat' split
  all_goals
    first
    | trivial
    | exact fail_keeps _ _ hQ
    | exact ⟨notBool_some _ (by decide), { hQ with }, rfl, rfl, rfl, rfl⟩

lemma LabelObjectState_Float_keeps {F : Type} (cv : FloatConv F) (ctx : JsonContext F)
    (v : F) (hQ : SavedNotBool ctx) : (LabelObjectState.Float cv ctx v).Keeps ctx := by
  unfold LabelObjectState.Float
  simp only []
  repeat' split
  all_goals
    first
    | trivial
    | exact fail_keeps _ _ hQ
    | exact ⟨notBool_some _ (by decide), { hQ with }, rfl, rfl, rfl, rfl⟩

lemma LabelObjectState_EndObject_keeps {F : Type} (ops : FloatOps F) (cfg : JsonConfig F)
    (ctx : JsonContext F) (hQ : SavedNotBool ctx) :
    (LabelObjectState.EndObject ops cfg ctx).Keeps ctx := by
  unfold LabelObjectState.EndObject
  simp only []
  repeat' split
  all_goals
    first
    | trivial
    | exact ⟨hQ.label_object, { hQ with }, rfl, rfl, rfl, rfl⟩

lemma forwardLabel_keeps {F : Type} (ctx : JsonContext F) (r : Handled F)
    (h : r.Keeps ctx) (hp : NotBoolState ctx.previous_state) : (forwardLabel r).Keeps ctx := by
  cases r with
  | undefined => trivial
  | throws e c => trivial
  | ret n c =>
    cases n with
    | none => exact h
    | some s =>
      have h1 : KeepsFlag ctx (some s) c := h
      refine ⟨?_, h1.saved, h1.flag, h1.state, h1.previous, h1.bool_return⟩
      show NotBoolState c.previous_state
      rw [h1.previous]
      exact hp

lemma skipLabelPrefix_keeps {F : Type} (ctx : JsonContext F) (r : Handled F)
    (h : r.Keeps (skipLabelPrefix ctx)) : r.Keeps ctx := by
  cases r with
  | undefined => trivial
  | throws e c => trivial
  | ret n c =>
    have h1 : KeepsFlag (skipLabelPrefix ctx) n c := h
    exact ⟨h1.next, h1.saved, h1.flag, h1.state, h1.previous, h1.bool_return⟩

lemma skipLabelPrefix_saved {F : Type} (ctx : JsonContext F) (hQ : SavedNotBool ctx) :
    SavedNotBool (skipLabelPrefix ctx) := { hQ with }

lemma LabelSinglePropertyState_Float_keeps {F : Type} (cv : FloatConv F)
    (ctx : JsonContext F) (v : F) (hQ : SavedNotBool ctx)
    (hp : NotBoolState ctx.previous_state) :
    (LabelSinglePropertyState.Float cv ctx v).Keeps ctx := by
  unfold LabelSinglePropertyState.Float
  have h := LabelObjectState_Float_keeps cv (skipLabelPrefix ctx) v (skipLabelPrefix_saved ctx hQ)
  exact skipLabelPrefix_keeps ctx _ (forwardLabel_keeps _ _ h hp)

lemma LabelSinglePropertyState_String_keeps {F : Type} (cv : FloatConv F)
    (ctx : JsonContext F) (str : List Char) (hQ : SavedNotBool ctx)
    (hp : NotBoolState ctx.previous_state) :
    (LabelSinglePropertyState.String cv ctx str).Keeps ctx := by
  unfold LabelSinglePropertyState.String
  have h := LabelObjectState_String_keeps cv (skipLabelPrefix ctx) str
    (skipLabelPrefix_saved ctx hQ)
  exact skipLabelPrefix_keeps ctx _ (forwardLabel_keeps _ _ h hp)

lemma LabelIndexState_Uint_keeps {F : Type} (ctx : JsonContext F) (v : Nat)
    (hQ : SavedNotBool ctx) (hp : NotBoolState ctx.previous_state) :
    (LabelIndexState.Uint ctx v).Keeps ctx :=
  ⟨hp, { hQ with }, rfl, rfl, rfl, rfl⟩

lemma LabelState_String_keeps {F : Type} (cfg : JsonConfig F) (ctx : JsonContext F)
    (str : List Char) (hQ : SavedNotBool ctx) (hp : NotBoolState ctx.previous_state) :
    (LabelState.String cfg ctx str).Keeps ctx := by
  unfold LabelState.String
  split
  · trivial
  · exact ⟨hp, { hQ with }, rfl, rfl, rfl, rfl⟩

lemma LabelState_Float_keeps {F : Type} (ctx : JsonContext F) (v : F)
    (hQ : SavedNotBool ctx) (hp : NotBoolState ctx.previous_state) :
    (LabelState.Float ctx v).Keeps ctx := by
  unfold LabelState.Float
  split
  · trivial
  · exact ⟨hp, { hQ with }, rfl, rfl, rfl, rfl⟩

/-! ### The handlers of the text, tag, multi and slots states -/

lemma TextState_loop_keeps {F : Type} (ops : FloatOps F) (cfg : JsonConfig F)
    (str : List Char) : ∀ (cur : List Char) (ctx c : JsonContext F),
      TextState.loop ops cfg str cur ctx = some c → SavedNotBool ctx → KeepsFlag ctx none c := by
  induction str with
  | nil =>
    intro cur ctx c h hQ
    unfold TextState.loop at h
    split at h
    · exact AddFeatureStr_keeps ops cfg ctx c cur h hQ
    · cases h
      exact KeepsFlag.refl_keeps _ hQ
  | cons a as ih =>
    intro cur ctx c h hQ
    unfold TextState.loop at h
    split at h
    · split at h
      · cases h
      · rename_i ctx1 h1
        have hk : KeepsFlag ctx none ctx1 := by
          split at h1
          · exact AddFeatureStr_keeps ops cfg ctx ctx1 cur h1 hQ
          · cases h1
            exact KeepsFlag.refl_keeps _ hQ
        exact hk.trans_keeps (ih [] ctx1 c h hk.saved)
    · split at h
      · exact ih _ ctx c h hQ
      · exact ih _ ctx c h hQ

lemma TextState_String_keeps {F : Type} (ops : FloatOps F) (cfg : JsonConfig F)
    (ctx : JsonContext F) (str : List Char) (hQ : SavedNotBool ctx)
    (hp : NotBoolState ctx.previous_state) : (TextState.String ops cfg ctx str).Keeps ctx := by
  unfold TextState.String
  split
  · trivial
  · exact ofOption_keeps ctx _ _ hp
      (fun c h => TextState_loop_keeps ops cfg str [] ctx c h hQ)

lemma TagState_String_keeps {F : Type} (ctx : JsonContext F) (str : List Char)
    (hQ : SavedNotBool ctx) (hp : NotBoolState ctx.previous_state) :
    (TagState.String ctx str).Keeps ctx := by
  unfold TagState.String
  split
  · trivial
  · exact ⟨hp, { hQ with }, rfl, rfl, rfl, rfl⟩

lemma MultiState_StartArray_keeps {F : Type} (ops : FloatOps F) (cv : FloatConv F)
    (cfg : JsonConfig F) (ctx : JsonContext F) (hQ : SavedNotBool ctx) :
    (MultiState.StartArray ops cv cfg ctx).Keeps ctx := by
  unfold MultiState.StartArray
  repeat' split
  all_goals
    first
    | trivial
    | exact ⟨notBool_some _ (by decide), { hQ with }, rfl, rfl, rfl, rfl⟩

lemma newExample_keeps {F : Type} (cfg : JsonConfig F) (ctx : JsonContext F)
    (t : example_type) (hQ : SavedNotBool ctx) : KeepsFlag ctx none (ctx.newExample cfg t) :=
  ⟨notBool_none, { hQ with }, rfl, rfl, rfl, rfl⟩

lemma MultiState_StartObject_keeps {F : Type} (cfg : JsonConfig F) (ctx : JsonContext F)
    (hQ : SavedNotBool ctx) : (MultiState.StartObject cfg ctx).Keeps ctx := by
  unfold MultiState.StartObject
  have h1 := newExample_keeps cfg ctx .action hQ
  exact (h1.trans_keeps (PushNamespace_keeps cfg _ [' '] (some .multi_state) h1.saved
    (notBool_some _ (by decide)))).with_next _ (notBool_some _ (by decide))

lemma MultiState_EndArray_keeps {F : Type} (ctx : JsonContext F) (hQ : SavedNotBool ctx) :
    (MultiState.EndArray ctx).Keeps ctx := by
  unfold MultiState.EndArray
  split
  · trivial
  · exact ⟨notBool_some _ (by decide), { hQ with }, rfl, rfl, rfl, rfl⟩

lemma SlotsState_StartArray_keeps {F : Type} (ctx : JsonContext F) (hQ : SavedNotBool ctx) :
    (SlotsState.StartArray ctx).Keeps ctx := by
  unfold SlotsState.StartArray
  split
  · trivial
  · rename_i saved ctx1 h
    have h1 := PopNamespace_keeps ctx saved ctx1 h hQ
    exact ⟨notBool_some _ (by decide),
      { h1.saved with
        slots_saved := h1.next
        slots_root := h1.saved.root
        root := notBool_some _ (by decide) },
      h1.flag, h1.state, h1.previous, h1.bool_return⟩

lemma SlotsState_StartObject_keeps {F : Type} (cfg : JsonConfig F) (ctx : JsonContext F)
    (hQ : SavedNotBool ctx) : (SlotsState.StartObject cfg ctx).Keeps ctx := by
  unfold SlotsState.StartObject
  simp only []
  have h1 : KeepsFlag ctx none
      { ctx.newExample cfg .slot with
        label_index_state_index :=
          wrapInt (intOfUnsigned (ctx.newExample cfg .slot).examples.length - 2) } :=
    ⟨notBool_none, { hQ with }, rfl, rfl, rfl, rfl⟩
  exact (h1.trans_keeps (PushNamespace_keeps cfg _ [' '] (some .slots_state) h1.saved
    (notBool_some _ (by decide)))).with_next _ (notBool_some _ (by decide))

lemma SlotsState_EndArray_keeps {F : Type} (cfg : JsonConfig F) (ctx : JsonContext F)
    (hQ : SavedNotBool ctx) : (SlotsState.EndArray cfg ctx).Keeps ctx := by
  unfold SlotsState.EndArray
  split
  · trivial
  · simp only []
    have h1 : KeepsFlag ctx none { ctx with ex := 0 } :=
      ⟨notBool_none, { hQ with }, rfl, rfl, rfl, rfl⟩
    have h2 := h1.trans_keeps (PushNamespace_keeps cfg { ctx with ex := 0 } [' ']
      ctx.slots_state_saved h1.saved hQ.slots_saved)
    exact ⟨notBool_some _ (by decide), { h2.saved with root := hQ.slots_root },
      h2.flag, h2.state, h2.previous, h2.bool_return⟩

/-! ### The handlers of the array, default and pdf states -/

lemma ArrayState_StartArray_keeps {F : Type} (cfg : JsonConfig F) (ctx : JsonContext F)
    (hQ : SavedNotBool ctx) (hp : NotBoolState ctx.previous_state) :
    (ArrayState.StartArray cfg ctx).Keeps ctx := by
  unfold ArrayState.StartArray
  split
  · exact fail_keeps _ _ hQ
  · simp only []
    have h1 := PushNamespace_keeps cfg ctx ctx.key ctx.previous_state hQ hp
    exact ⟨notBool_some _ (by decide), { h1.saved with }, h1.flag, h1.state, h1.previous,
      h1.bool_return⟩

lemma ArrayState_Float_keeps {F : Type} (ops : FloatOps F) (cfg : JsonConfig F)
    (ctx : JsonContext F) (f : F) (hQ : SavedNotBool ctx) :
    (ArrayState.Float ops cfg ctx f).Keeps ctx := by
  unfold ArrayState.Float
  split
  · trivial
  · simp only []
    split
    · trivial
    · rename_i ctx1 h
      have h1 := AddFeature_keeps_flag ops cfg ctx ctx1 _ _ _ h hQ
      exact ⟨notBool_some _ (by decide), { h1.saved with }, h1.flag, h1.state, h1.previous,
        h1.bool_return⟩

lemma ArrayState_StartObject_keeps {F : Type} (cfg : JsonConfig F) (ctx : JsonContext F)
    (hQ : SavedNotBool ctx) : (ArrayState.StartObject cfg ctx).Keeps ctx := by
  unfold ArrayState.StartObject
  exact (PushNamespace_keeps cfg ctx _ (some .array_state) hQ
    (notBool_some _ (by decide))).with_next _ (notBool_some _ (by decide))

lemma ArrayState_EndArray_keeps {F : Type} (ctx : JsonContext F) (hQ : SavedNotBool ctx) :
    (ArrayState.EndArray ctx).Keeps ctx := by
  unfold ArrayState.EndArray
  split
  · trivial
  · rename_i r ctx1 h
    exact PopNamespace_keeps ctx r ctx1 h hQ

lemma keeps_ite {F : Type} (ctx : JsonContext F) (p : Prop) [Decidable p] (a b : Handled F)
    (ha : p → a.Keeps ctx) (hb : ¬ p → b.Keeps ctx) : (if p then a else b).Keeps ctx := by
  split
  · exact ha (by assumption)
  · exact hb (by assumption)

lemma DefaultState_Key_keeps {F : Type} (cfg : JsonConfig F) (ctx : JsonContext F)
    (str : List Char) (hQ : SavedNotBool ctx) : (DefaultState.Key cfg ctx str).Keeps ctx := by
  have hQ1 : SavedNotBool { ctx with key := str, key_length := str.length } := { hQ with }
  have hI := Ignore_keeps { ctx with key := str, key_length := str.length } str.length hQ1
  have hkeep : ∀ r : Handled F,
      r.Keeps { ctx with key := str, key_length := str.length } → r.Keeps ctx := by
    intro r h
    cases r with
    | undefined => trivial
    | throws e c => trivial
    | ret n c =>
      have h1 : KeepsFlag { ctx with key := str, key_length := str.length } n c := h
      exact ⟨h1.next, h1.saved, h1.flag, h1.state, h1.previous, h1.bool_return⟩
  unfold DefaultState.Key
  refine keeps_ite _ _ _ _ (fun _ => ?_) (fun _ => ?_)
  swap
  · exact ⟨notBool_some _ (by decide), { hQ with }, rfl, rfl, rfl, rfl⟩
  refine keeps_ite _ _ _ _ (fun _ => ?_) (fun _ => ?_)
  · refine keeps_ite _ _ _ _ (fun _ => ?_) (fun _ => ?_)
    · refine keeps_ite _ _ _ _ (fun _ => ?_) (fun _ => ?_)
      · exact ⟨notBool_some _ (by decide), { hQ with }, rfl, rfl, rfl, rfl⟩
      · exact ⟨notBool_some _ (by decide), { hQ with }, rfl, rfl, rfl, rfl⟩
    · refine keeps_ite _ _ _ _ (fun _ => ?_) (fun _ => ?_)
      · exact ⟨notBool_some _ (by decide), { hQ with }, rfl, rfl, rfl, rfl⟩
      · refine keeps_ite _ _ _ _ (fun _ => ?_) (fun _ => ?_)
        · exact ⟨notBool_some _ (by decide), { hQ with }, rfl, rfl, rfl, rfl⟩
        · exact hkeep _ (fail_keeps _ _ hQ1)
  refine keeps_ite _ _ _ _ (fun _ => ?_) (fun _ => ?_)
  · exact ⟨notBool_some _ (by decide), { hQ with }, rfl, rfl, rfl, rfl⟩
  refine keeps_ite _ _ _ _ (fun _ => ?_) (fun _ => ?_)
  · exact ⟨notBool_some _ (by decide), { hQ with }, rfl, rfl, rfl, rfl⟩
  refine keeps_ite _ _ _ _ (fun _ => ?_) (fun _ => ?_)
  · exact ⟨notBool_some _ (by decide), { hQ with }, rfl, rfl, rfl, rfl⟩
  refine keeps_ite _ _ _ _ (fun _ => ?_) (fun _ => ?_)
  · exact ⟨notBool_some _ (by decide), { hQ with }, rfl, rfl, rfl, rfl⟩
  refine keeps_ite _ _ _ _ (fun _ => ?_) (fun _ => ?_)
  · exact ⟨notBool_some _ (by decide),
      { hQ with uint_array := notBool_some _ (by decide) }, rfl, rfl, rfl, rfl⟩
  refine keeps_ite _ _ _ _ (fun _ => ?_) (fun _ => ?_)
  · exact ⟨notBool_some _ (by decide),
      { hQ with uint_array := notBool_some _ (by decide) }, rfl, rfl, rfl, rfl⟩
  refine keeps_ite _ _ _ _ (fun _ => ?_) (fun _ => ?_)
  · split
    case isTrue =>
      obtain ⟨hI1, hI2⟩ := hI
      revert hI1 hI2
      generalize DefaultState.Ignore { ctx with key := str, key_length := str.length }
        str.length = r
      intro hI1 hI2
      cases r with
      | undefined => trivial
      | throws e c =>
        have h1 := hI2 e c rfl
        exact ⟨notBool_some _ (by decide),
          { h1.saved with float_array := notBool_some _ (by decide) },
          h1.flag, h1.state, h1.previous, h1.bool_return⟩
      | ret n c =>
        have h1 : KeepsFlag { ctx with key := str, key_length := str.length } n c := hI1
        exact ⟨notBool_some _ (by decide),
          { h1.saved with float_array := notBool_some _ (by decide) },
          h1.flag, h1.state, h1.previous, h1.bool_return⟩
    case isFalse =>
      exact ⟨notBool_some _ (by decide),
        { hQ with float_array := notBool_some _ (by decide) }, rfl, rfl, rfl, rfl⟩
  refine keeps_ite _ _ _ _ (fun _ => ?_) (fun _ => ?_)
  · refine keeps_ite _ _ _ _ (fun _ => ?_) (fun _ => ?_)
    · trivial
    · exact ⟨notBool_some _ (by decide),
        { hQ with float_array := notBool_some _ (by decide) }, rfl, rfl, rfl, rfl⟩
  refine keeps_ite _ _ _ _ (fun _ => ?_) (fun _ => ?_)
  · exact ⟨notBool_some _ (by decide),
      { hQ with dedup_value := notBool_some _ (by decide) }, rfl, rfl, rfl, rfl⟩
  · exact hkeep _ hI.1

lemma DefaultState_String_keeps {F : Type} (ops : FloatOps F) (cfg : JsonConfig F)
    (ctx : JsonContext F) (str : List Char) (hQ : SavedNotBool ctx) :
    (DefaultState.String ops cfg ctx str).Keeps ctx := by
  unfold DefaultState.String
  simp only []
  split
  · exact ofOption_keeps ctx _ _ (notBool_some _ (by decide))
      (fun c h => AddFeatureKeyValue_keeps ops cfg ctx c _ _ h hQ)
  · exact ofOption_keeps ctx _ _ (notBool_some _ (by decide))
      (fun c h => AddFeatureStr_keeps ops cfg ctx c _ h hQ)

lemma DefaultState_Bool_keeps {F : Type} (ops : FloatOps F) (cfg : JsonConfig F)
    (ctx : JsonContext F) (b : Bool) (hQ : SavedNotBool ctx) :
    (DefaultState.Bool ops cfg ctx b).Keeps ctx := by
  unfold DefaultState.Bool
  split
  · exact ofOption_keeps ctx _ _ (notBool_some _ (by decide))
      (fun c h => AddFeatureStr_keeps ops cfg ctx c _ h hQ)
  · exact ⟨notBool_some _ (by decide), hQ, rfl, rfl, rfl, rfl⟩

lemma DefaultState_StartObject_keeps {F : Type} (cfg : JsonConfig F) (ctx : JsonContext F)
    (hQ : SavedNotBool ctx) : (DefaultState.StartObject cfg ctx).Keeps ctx := by
  unfold DefaultState.StartObject
  exact (PushNamespace_keeps cfg ctx _ (some .default_state) hQ
    (notBool_some _ (by decide))).with_next _ (notBool_some _ (by decide))

lemma DefaultState_Float_keeps {F : Type} (ops : FloatOps F) (cfg : JsonConfig F)
    (ctx : JsonContext F) (f : F) (hQ : SavedNotBool ctx) :
    (DefaultState.Float ops cfg ctx f).Keeps ctx := by
  unfold DefaultState.Float
  split
  · trivial
  · exact ofOption_keeps ctx _ _ (notBool_some _ (by decide))
      (fun c h => AddFeature_keeps_flag ops cfg ctx c _ _ _ h hQ)

lemma applyLabelIndex_keeps {F : Type} (ctx : JsonContext F) (hQ : SavedNotBool ctx) :
    (∀ r, applyLabelIndex ctx = some (.inl r) → r.Keeps ctx) ∧
    (∀ c, applyLabelIndex ctx = some (.inr c) → KeepsFlag ctx none c) := by
  unfold applyLabelIndex
  simp only []
  split
  · split
    · refine ⟨fun r h => ?_, fun c h => (by cases h)⟩
      cases h
      exact fail_keeps _ _ hQ
    · split
      · exact ⟨fun r h => (by cases h), fun c h => (by cases h)⟩
      · refine ⟨fun r h => (by cases h), fun c h => ?_⟩
        cases h
        exact ⟨notBool_none, { hQ with }, rfl, rfl, rfl, rfl⟩
  · refine ⟨fun r h => (by cases h), fun c h => ?_⟩
    cases h
    exact KeepsFlag.refl_keeps _ hQ

lemma syntheticSlot_keeps {F : Type} (cfg : JsonConfig F) (ctx : JsonContext F)
    (hQ : SavedNotBool ctx) : KeepsFlag ctx none (syntheticSlot cfg ctx) := by
  unfold syntheticSlot
  split
  · simp only []
    split
    · exact ⟨notBool_none, { hQ with }, rfl, rfl, rfl, rfl⟩
    · exact KeepsFlag.refl_keeps _ hQ
  · exact KeepsFlag.refl_keeps _ hQ

lemma DefaultState_EndObject_keeps {F : Type} (ops : FloatOps F) (cfg : JsonConfig F)
    (ctx : JsonContext F) (hQ : SavedNotBool ctx) :
    (DefaultState.EndObject ops cfg ctx).Keeps ctx := by
  unfold DefaultState.EndObject
  split
  · trivial
  · rename_i r ctx1 hpop
    have h1 := PopNamespace_keeps ctx r ctx1 hpop hQ
    split
    · have h2 := applyLabelIndex_keeps ctx1 h1.saved
      split
      · trivial
      · rename_i res hres
        have h3 := h2.1 res hres
        cases res with
        | undefined => trivial
        | throws e c => trivial
        | ret n c =>
          have h4 : KeepsFlag ctx1 n c := h3
          exact h1.trans_keeps h4
      · rename_i ctx2 hres
        have h3 := h1.trans_keeps (h2.2 ctx2 hres)
        have h4 := LabelObjectState_EndObject_keeps ops cfg ctx2 h3.saved
        split
        · trivial
        · trivial
        · rename_i n ctx3 hend
          rw [hend] at h4
          have h5 : KeepsFlag ctx2 n ctx3 := h4
          have h6 := (h3.trans_keeps h5).trans_keeps (syntheticSlot_keeps cfg ctx3 h5.saved)
          exact h6.with_next _ h6.saved.root
    · exact h1

lemma ArrayToPdfState_StartObject_keeps {F : Type} (ctx : JsonContext F)
    (hQ : SavedNotBool ctx) (hp : NotBoolState ctx.previous_state) :
    (ArrayToPdfState.StartObject ctx).Keeps ctx :=
  ⟨notBool_some _ (by decide), { hQ with pdf_object := hp }, rfl, rfl, rfl, rfl⟩

lemma ArrayToPdfState_Key_keeps {F : Type} (ctx : JsonContext F) (str : List Char)
    (hQ : SavedNotBool ctx) : (ArrayToPdfState.Key ctx str).Keeps ctx :=
  ⟨notBool_some _ (by decide), { hQ with }, rfl, rfl, rfl, rfl⟩

lemma ArrayToPdfState_String_keeps {F : Type} (ctx : JsonContext F) (str : List Char)
    (hQ : SavedNotBool ctx) : (ArrayToPdfState.String ctx str).Keeps ctx := by
  unfold ArrayToPdfState.String
  split
  · exact fail_keeps ctx _ hQ
  · exact ⟨notBool_some _ (by decide), hQ, rfl, rfl, rfl, rfl⟩

lemma ArrayToPdfState_StartArray_keeps {F : Type} (ops : FloatOps F) (ctx : JsonContext F)
    (hQ : SavedNotBool ctx) : (ArrayToPdfState.StartArray ops ctx).Keeps ctx :=
  ⟨notBool_some _ (by decide), { hQ with }, rfl, rfl, rfl, rfl⟩

lemma ArrayToPdfState_EndArray_keeps {F : Type} (cfg : JsonConfig F) (ctx : JsonContext F)
    (hQ : SavedNotBool ctx) : (ArrayToPdfState.EndArray cfg ctx).Keeps ctx := by
  unfold ArrayToPdfState.EndArray
  split
  · trivial
  · exact ⟨hQ.pdf_array, { hQ with }, rfl, rfl, rfl, rfl⟩

lemma ArrayToPdfState_Float_keeps {F : Type} (ctx : JsonContext F) (v : F)
    (hQ : SavedNotBool ctx) : (ArrayToPdfState.Float ctx v).Keeps ctx := by
  unfold ArrayToPdfState.Float
  simp only []
  repeat' split
  all_goals
    first
    | trivial
    | exact fail_keeps _ _ hQ
    | exact ⟨notBool_some _ (by decide), { hQ with }, rfl, rfl, rfl, rfl⟩

lemma ArrayToPdfState_EndObject_keeps {F : Type} (ops : FloatOps F) (ctx : JsonContext F)
    (hQ : SavedNotBool ctx) : (ArrayToPdfState.EndObject ops ctx).Keeps ctx := by
  unfold ArrayToPdfState.EndObject
  split
  · trivial
  · exact ⟨hQ.pdf_object, { hQ with }, rfl, rfl, rfl, rfl⟩

/-! ### The handlers of the decision-service, vector and single-value states -/

lemma pushFloatArray_keeps {F : Type} (ctx c : JsonContext F) (v : F)
    (h : ctx.pushFloatArray v = some c) (hQ : SavedNotBool ctx) :
    KeepsFlag ctx none c ∧ c.array_float_state = ctx.array_float_state := by
  unfold JsonContext.pushFloatArray at h
  split at h
  · cases h
  · cases h
    exact ⟨⟨notBool_none, { hQ with }, rfl, rfl, rfl, rfl⟩, rfl⟩
  · cases h
    exact ⟨⟨notBool_none, { hQ with }, rfl, rfl, rfl, rfl⟩, rfl⟩

lemma pushUintArray_keeps {F : Type} (ctx c : JsonContext F) (v : Nat)
    (h : ctx.pushUintArray v = some c) (hQ : SavedNotBool ctx) :
    KeepsFlag ctx none c ∧ c.array_uint_state = ctx.array_uint_state := by
  unfold JsonContext.pushUintArray at h
  split at h
  · cases h
  · cases h
    exact ⟨⟨notBool_none, { hQ with }, rfl, rfl, rfl, rfl⟩, rfl⟩
  · cases h
    exact ⟨⟨notBool_none, { hQ with }, rfl, rfl, rfl, rfl⟩, rfl⟩
  · cases h
    exact ⟨⟨notBool_none, { hQ with }, rfl, rfl, rfl, rfl⟩, rfl⟩

lemma ArrayFloatState_StartArray_keeps {F : Type} (ctx : JsonContext F)
    (hQ : SavedNotBool ctx) : (ArrayFloatState.StartArray ctx).Keeps ctx := by
  unfold ArrayFloatState.StartArray
  split
  · exact fail_keeps _ _ hQ
  · exact ⟨notBool_some _ (by decide), { hQ with }, rfl, rfl, rfl, rfl⟩

lemma ArrayFloatState_afterValue_keeps {F : Type} (ctx : JsonContext F)
    (hQ : SavedNotBool ctx) : (ArrayFloatState.afterValue ctx).Keeps ctx := by
  unfold ArrayFloatState.afterValue
  split
  · exact ⟨hQ.float_array, { hQ with }, rfl, rfl, rfl, rfl⟩
  · exact ⟨notBool_some _ (by decide), hQ, rfl, rfl, rfl, rfl⟩

lemma keeps_after {F : Type} (ctx c : JsonContext F) (r : Handled F)
    (h1 : KeepsFlag ctx none c) (h2 : r.Keeps c) : r.Keeps ctx := by
  cases r with
  | undefined => trivial
  | throws e c1 => trivial
  | ret n c1 =>
    have h3 : KeepsFlag c n c1 := h2
    exact h1.trans_keeps h3

lemma ArrayFloatState_Float_keeps {F : Type} (ctx : JsonContext F) (f : F)
    (hQ : SavedNotBool ctx) : (ArrayFloatState.Float ctx f).Keeps ctx := by
  unfold ArrayFloatState.Float
  split
  · trivial
  · rename_i ctx1 h
    have h1 := (pushFloatArray_keeps ctx ctx1 f h hQ).1
    exact keeps_after ctx ctx1 _ h1 (ArrayFloatState_afterValue_keeps ctx1 h1.saved)

lemma ArrayFloatState_Uint_keeps {F : Type} (cv : FloatConv F) (ctx : JsonContext F) (f : Nat)
    (hQ : SavedNotBool ctx) : (ArrayFloatState.Uint cv ctx f).Keeps ctx := by
  unfold ArrayFloatState.Uint
  split
  · trivial
  · rename_i ctx1 h
    have h1 := (pushFloatArray_keeps ctx ctx1 _ h hQ).1
    exact keeps_after ctx ctx1 _ h1 (ArrayFloatState_afterValue_keeps ctx1 h1.saved)

lemma ArrayFloatState_String_keeps {F : Type} (cv : FloatConv F) (ctx : JsonContext F)
    (str : List Char) (hQ : SavedNotBool ctx) :
    (ArrayFloatState.String cv ctx str).Keeps ctx := by
  unfold ArrayFloatState.String
  split
  · exact fail_keeps _ _ hQ
  · split
    · trivial
    · rename_i ctx1 h
      have h1 := (pushFloatArray_keeps ctx ctx1 _ h hQ).1
      exact keeps_after ctx ctx1 _ h1 (ArrayFloatState_afterValue_keeps ctx1 h1.saved)

lemma ArrayFloatState_EndArray_keeps {F : Type} (ctx : JsonContext F)
    (hQ : SavedNotBool ctx) : (ArrayFloatState.EndArray ctx).Keeps ctx :=
  ⟨hQ.float_array, { hQ with }, rfl, rfl, rfl, rfl⟩

lemma ArrayUintState_StartArray_keeps {F : Type} (ctx : JsonContext F)
    (hQ : SavedNotBool ctx) : (ArrayUintState.StartArray ctx).Keeps ctx := by
  unfold ArrayUintState.StartArray
  split
  · exact fail_keeps _ _ hQ
  · exact ⟨notBool_some _ (by decide), { hQ with }, rfl, rfl, rfl, rfl⟩

lemma ArrayUintState_afterValue_keeps {F : Type} (ctx : JsonContext F)
    (hQ : SavedNotBool ctx) : (ArrayUintState.afterValue ctx).Keeps ctx := by
  unfold ArrayUintState.afterValue
  split
  · exact ⟨hQ.uint_array, { hQ with }, rfl, rfl, rfl, rfl⟩
  · exact ⟨notBool_some _ (by decide), hQ, rfl, rfl, rfl, rfl⟩

lemma ArrayUintState_Uint_keeps {F : Type} (ctx : JsonContext F) (f : Nat)
    (hQ : SavedNotBool ctx) : (ArrayUintState.Uint ctx f).Keeps ctx := by
  unfold ArrayUintState.Uint
  split
  · trivial
  · rename_i ctx1 h
    have h1 := (pushUintArray_keeps ctx ctx1 f h hQ).1
    exact keeps_after ctx ctx1 _ h1 (ArrayUintState_afterValue_keeps ctx1 h1.saved)

lemma ArrayUintState_Float_keeps {F : Type} (cv : FloatConv F) (ctx : JsonContext F) (f : F)
    (hQ : SavedNotBool ctx) : (ArrayUintState.Float cv ctx f).Keeps ctx := by
  unfold ArrayUintState.Float
  split
  · trivial
  · rename_i ctx1 h
    have h1 := (pushUintArray_keeps ctx ctx1 _ h hQ).1
    exact keeps_after ctx ctx1 _ h1 (ArrayUintState_afterValue_keeps ctx1 h1.saved)

lemma ArrayUintState_String_keeps {F : Type} (ctx : JsonContext F) (str : List Char)
    (hQ : SavedNotBool ctx) : (ArrayUintState.String ctx str).Keeps ctx := by
  unfold ArrayUintState.String
  split
  · exact fail_keeps _ _ hQ
  · split
    · trivial
    · rename_i ctx1 h
      have h1 := (pushUintArray_keeps ctx ctx1 _ h hQ).1
      exact keeps_after ctx ctx1 _ h1 (ArrayUintState_afterValue_keeps ctx1 h1.saved)

lemma ArrayUintState_EndArray_keeps {F : Type} (ctx : JsonContext F)
    (hQ : SavedNotBool ctx) : (ArrayUintState.EndArray ctx).Keeps ctx :=
  ⟨hQ.uint_array, { hQ with }, rfl, rfl, rfl, rfl⟩

lemma StringToStringState_String_keeps {F : Type} (ctx : JsonContext F) (str : List Char)
    (hQ : SavedNotBool ctx) : (StringToStringState.String ctx str).Keeps ctx :=
  ⟨hQ.string_value, { hQ with }, rfl, rfl, rfl, rfl⟩

lemma StringToStringState_Null_keeps {F : Type} (ctx : JsonContext F)
    (hQ : SavedNotBool ctx) : (StringToStringState.Null ctx).Keeps ctx :=
  ⟨hQ.string_value, hQ, rfl, rfl, rfl, rfl⟩

lemma FloatToFloatState_Float_keeps {F : Type} (ctx : JsonContext F) (f : F)
    (hQ : SavedNotBool ctx) : (FloatToFloatState.Float ctx f).Keeps ctx :=
  ⟨hQ.float_value, { hQ with }, rfl, rfl, rfl, rfl⟩

lemma UIntToUIntState_Uint_keeps {F : Type} (ctx : JsonContext F) (i : Nat)
    (hQ : SavedNotBool ctx) : (UIntToUIntState.Uint ctx i).Keeps ctx := by
  unfold UIntToUIntState.Uint
  split
  · trivial
  · split
    · trivial
    · exact ⟨hQ.uint_value, { hQ with }, rfl, rfl, rfl, rfl⟩

lemma UIntDedupState_Uint_keeps {F : Type} (ctx : JsonContext F) (i : Nat)
    (hQ : SavedNotBool ctx) : (UIntDedupState.Uint ctx i).Keeps ctx := by
  unfold UIntDedupState.Uint
  split
  · split
    · trivial
    · exact ⟨hQ.dedup_value, { hQ with }, rfl, rfl, rfl, rfl⟩
  · trivial

lemma SlotOutcomeList_StartArray_keeps {F : Type} (cfg : JsonConfig F) (ctx : JsonContext F)
    (hQ : SavedNotBool ctx) : (SlotOutcomeList.StartArray cfg ctx).Keeps ctx := by
  unfold SlotOutcomeList.StartArray
  simp only []
  split
  · trivial
  · exact ⟨notBool_some _ (by decide),
      { hQ with old_root := hQ.root, root := notBool_some _ (by decide) }, rfl, rfl, rfl, rfl⟩

lemma SlotOutcomeList_StartObject_keeps {F : Type} (cfg : JsonConfig F) (ctx : JsonContext F)
    (hQ : SavedNotBool ctx) : (SlotOutcomeList.StartObject cfg ctx).Keeps ctx := by
  unfold SlotOutcomeList.StartObject
  simp only []
  split
  · trivial
  · have h1 : KeepsFlag ctx none
        { ctx with
          ex := ctx.slot_outcome_list_state.slot_object_index.toNat
          label_index_state_index := wrapInt (ctx.slot_outcome_list_state.slot_object_index - 1)
          slot_outcome_list_state := { ctx.slot_outcome_list_state with
            slot_object_index := wrapInt (ctx.slot_outcome_list_state.slot_object_index + 1) } } :=
      ⟨notBool_none, { hQ with }, rfl, rfl, rfl, rfl⟩
    exact (h1.trans_keeps (PushNamespace_keeps cfg _ [' '] (some .slot_outcome_list_state)
      h1.saved (notBool_some _ (by decide)))).with_next _ (notBool_some _ (by decide))

lemma topAction_flag {F : Type} (cfg : JsonConfig F)
    (data : Option (DecisionServiceInteraction F)) (d1 : DecisionServiceInteraction F)
    (ex : LabeledExample F) (h : topAction cfg data ex = some d1) :
    ∃ d, data = some d ∧ d1.skipLearn = d.skipLearn := by
  unfold topAction at h
  split at h
  · cases h
  · rename_i d
    repeat' split at h
    all_goals
      first
      | (cases h; done)
      | (cases h; exact ⟨_, rfl, rfl⟩)

lemma topAction_none {F : Type} (cfg : JsonConfig F) (exs : List (LabeledExample F)) :
    exs.foldl (topAction cfg) none = none := by
  induction exs with
  | nil => rfl
  | cons e es ih => exact ih

lemma topActions_flag {F : Type} (cfg : JsonConfig F) (exs : List (LabeledExample F)) :
    ∀ d d1 : DecisionServiceInteraction F,
      exs.foldl (topAction cfg) (some d) = some d1 → d1.skipLearn = d.skipLearn := by
  induction exs with
  | nil =>
    intro d d1 h
    cases h
    rfl
  | cons e es ih =>
    intro d d1 h
    rw [List.foldl_cons] at h
    cases hd : topAction cfg (some d) e with
    | none =>
      rw [hd, topAction_none] at h
      cases h
    | some d2 =>
      rw [hd] at h
      obtain ⟨d0, h0, h1⟩ := topAction_flag cfg (some d) d2 e hd
      cases h0
      exact (ih d2 d1 h).trans h1

lemma SlotOutcomeList_EndArray_keeps {F : Type} (cfg : JsonConfig F) (ctx : JsonContext F)
    (hQ : SavedNotBool ctx) : (SlotOutcomeList.EndArray cfg ctx).Keeps ctx := by
  unfold SlotOutcomeList.EndArray
  split
  · trivial
  · rename_i d h
    exact ⟨notBool_some _ (by decide), { hQ with root := hQ.old_root },
      topActions_flag cfg _ _ _ h, rfl, rfl, rfl⟩

lemma keeps_opt_ite {F : Type} (ctx : JsonContext F) (p : Prop) [Decidable p]
    (a b : Option (Handled F)) (ha : p → ∀ r, a = some r → r.Keeps ctx)
    (hb : ¬ p → ∀ r, b = some r → r.Keeps ctx) :
    ∀ r, (if p then a else b) = some r → r.Keeps ctx := by
  split
  · exact ha (by assumption)
  · exact hb (by assumption)

lemma keeps_opt_some {F : Type} (ctx : JsonContext F) (x : Handled F) (h : x.Keeps ctx) :
    ∀ r, some x = some r → r.Keeps ctx := by
  intro r hr
  cases hr
  exact h

lemma DecisionServiceState_underscoreKey_keeps {F : Type} (ctx : JsonContext F)
    (str : List Char) (hskip : isSkipLearnKey str = false) (hQ : SavedNotBool ctx) :
    ∀ r, DecisionServiceState.underscoreKey ctx str = some r → r.Keeps ctx := by
  have hno : ¬ (str.length = 10 ∧ strncmp_eq str "_skipLearn".toList 10 = true) := by
    intro hh
    unfold isSkipLearnKey at hskip
    rw [hh.2, decide_eq_true hh.1] at hskip
    cases hskip
  unfold DecisionServiceState.underscoreKey
  refine keeps_opt_ite _ _ _ _ (fun _ => ?_) (fun _ => ?_)
  · refine keeps_opt_ite _ _ _ _ (fun _ => ?_) (fun _ => ?_)
    · refine keeps_opt_ite _ _ _ _ (fun _ => ?_) (fun _ => ?_)
      · exact keeps_opt_some _ _ ⟨notBool_some _ (by decide), { hQ with }, rfl, rfl, rfl, rfl⟩
      · exact keeps_opt_some _ _ ⟨notBool_some _ (by decide), { hQ with }, rfl, rfl, rfl, rfl⟩
    refine keeps_opt_ite _ _ _ _ (fun _ => ?_) (fun _ => ?_)
    · exact keeps_opt_some _ _ ⟨notBool_some _ (by decide), { hQ with }, rfl, rfl, rfl, rfl⟩
    refine keeps_opt_ite _ _ _ _ (fun _ => ?_) (fun _ => ?_)
    · exact keeps_opt_some _ _ ⟨notBool_some _ (by decide), { hQ with }, rfl, rfl, rfl, rfl⟩
    · exact fun r h => by cases h
  refine keeps_opt_ite _ _ _ _ (fun hh => absurd hh hno) (fun _ => ?_)
  refine keeps_opt_ite _ _ _ _ (fun _ => ?_) (fun _ => ?_)
  · exact keeps_opt_some _ _ ⟨notBool_some _ (by decide), hQ, rfl, rfl, rfl, rfl⟩
  refine keeps_opt_ite _ _ _ _ (fun _ => ?_) (fun _ => ?_)
  · exact keeps_opt_some _ _ ⟨notBool_some _ (by decide),
      { hQ with float_array := notBool_some _ (by decide) }, rfl, rfl, rfl, rfl⟩
  · exact fun r h => by cases h

lemma afterUnderscore_keeps {F : Type} (ctx : JsonContext F) (str : List Char)
    (hQ : SavedNotBool ctx) :
    KeepsFlag ctx none (DecisionServiceState.afterUnderscore ctx str) := by
  unfold DecisionServiceState.afterUnderscore
  split
  · exact ⟨notBool_none, { hQ with }, rfl, rfl, rfl, rfl⟩
  · exact KeepsFlag.refl_keeps _ hQ

lemma DecisionServiceState_Key_keeps {F : Type} (ctx : JsonContext F) (str : List Char)
    (hskip : isSkipLearnKey str = false) (hQ : SavedNotBool ctx) :
    (DecisionServiceState.Key ctx str).Keeps ctx := by
  unfold DecisionServiceState.Key
  refine keeps_ite _ _ _ _ (fun _ => ?_) (fun _ => ?_)
  · refine keeps_ite _ _ _ _ (fun _ => ?_) (fun _ => ?_)
    · exact ⟨notBool_some _ (by decide),
        { hQ with uint_array := notBool_some _ (by decide) }, rfl, rfl, rfl, rfl⟩
    refine keeps_ite _ _ _ _ (fun _ => ?_) (fun _ => ?_)
    · exact ⟨notBool_some _ (by decide),
        { hQ with float_array := notBool_some _ (by decide) }, rfl, rfl, rfl, rfl⟩
    refine keeps_ite _ _ _ _ (fun _ => ?_) (fun _ => ?_)
    · exact ⟨notBool_some _ (by decide), { hQ with }, rfl, rfl, rfl, rfl⟩
    · exact (Ignore_keeps ctx _ hQ).1
  refine keeps_ite _ _ _ _ (fun _ => ?_) (fun _ => ?_)
  · exact ⟨notBool_some _ (by decide),
      { hQ with pdf_array := notBool_some _ (by decide) }, rfl, rfl, rfl, rfl⟩
  refine keeps_ite _ _ _ _ (fun _ => ?_) (fun _ => ?_)
  · exact ⟨notBool_some _ (by decide),
      { hQ with float_value := notBool_some _ (by decide) }, rfl, rfl, rfl, rfl⟩
  refine keeps_ite _ _ _ _ (fun _ => ?_) (fun _ => ?_)
  · exact ⟨notBool_some _ (by decide),
      { hQ with string_value := notBool_some _ (by decide) }, rfl, rfl, rfl, rfl⟩
  refine keeps_ite _ _ _ _ (fun _ => ?_) (fun _ => ?_)
  · have hu := DecisionServiceState_underscoreKey_keeps ctx str hskip hQ
    revert hu
    generalize DecisionServiceState.underscoreKey ctx str = o
    intro hu
    cases o with
    | some r => exact hu r rfl
    | none =>
      have h1 := afterUnderscore_keeps ctx str hQ
      exact keeps_after ctx _ _ h1 (Ignore_keeps _ _ h1.saved).1
  · exact (Ignore_keeps ctx _ hQ).1

/-! ### Every handler call but the write of the Bool state keeps the flag -/

/-- In a state other than the Bool state, a handler call that is not the one of the
DecisionService state for the key `_skipLearn` keeps the skip-learn flag and returns a state
that is not the Bool state, provided no pointer the context holds points to the Bool
state. -/
lemma handle_keeps {F : Type} (ops : FloatOps F) (cv : FloatConv F) (cfg : JsonConfig F)
    (s : BaseState) (t : Token F) (ctx : JsonContext F) (hs : s ≠ .bool_state)
    (ht : s = .decision_service_state → isSkipLearnToken t = false)
    (hQ : SavedNotBool ctx) (hp : NotBoolState ctx.previous_state) :
    (BaseState.handle ops cv cfg s t ctx).Keeps ctx := by
  cases s with
  | default_state =>
    cases t with
    | Null => exact BaseState_Null_keeps _ ctx (by decide) hQ hp
    | Bool b => exact DefaultState_Bool_keeps ops cfg ctx b hQ
    | Float v => exact DefaultState_Float_keeps ops cfg ctx v hQ
    | Uint v => exact DefaultState_Float_keeps ops cfg ctx _ hQ
    | String str => exact DefaultState_String_keeps ops cfg ctx str hQ
    | StartObject => exact DefaultState_StartObject_keeps cfg ctx hQ
    | Key str src => exact DefaultState_Key_keeps cfg ctx str hQ
    | EndObject memberCount => exact DefaultState_EndObject_keeps ops cfg ctx hQ
    | StartArray => exact ArrayState_StartArray_keeps cfg ctx hQ hp
    | EndArray elementCount => exact fail_keeps ctx _ hQ
  | label_state =>
    cases t with
    | Null => exact BaseState_Null_keeps _ ctx (by decide) hQ hp
    | Bool b => exact fail_keeps ctx _ hQ
    | Float v => exact LabelState_Float_keeps ctx v hQ hp
    | Uint v => exact LabelState_Float_keeps ctx _ hQ hp
    | String str => exact LabelState_String_keeps cfg ctx str hQ hp
    | StartObject => exact LabelObjectState_StartObject_keeps cfg ctx hQ hp
    | Key str src => exact fail_keeps ctx _ hQ
    | EndObject memberCount => exact fail_keeps ctx _ hQ
    | StartArray => exact fail_keeps ctx _ hQ
    | EndArray elementCount => exact fail_keeps ctx _ hQ
  | label_object_state =>
    cases t with
    | Null => exact BaseState_Null_keeps _ ctx (by decide) hQ hp
    | Bool b => exact fail_keeps ctx _ hQ
    | Float v => exact LabelObjectState_Float_keeps cv ctx v hQ
    | Uint v => exact LabelObjectState_Float_keeps cv ctx _ hQ
    | String str => exact LabelObjectState_String_keeps cv ctx str hQ
    | StartObject => exact LabelObjectState_StartObject_keeps cfg ctx hQ hp
    | Key str src => exact LabelObjectState_Key_keeps ctx str hQ
    | EndObject memberCount => exact LabelObjectState_EndObject_keeps ops cfg ctx hQ
    | StartArray => exact fail_keeps ctx _ hQ
    | EndArray elementCount => exact fail_keeps ctx _ hQ
  | label_single_property_state =>
    cases t with
    | Null => exact BaseState_Null_keeps _ ctx (by decide) hQ hp
    | Bool b => exact fail_keeps ctx _ hQ
    | Float v => exact LabelSinglePropertyState_Float_keeps cv ctx v hQ hp
    | Uint v => exact LabelSinglePropertyState_Float_keeps cv ctx _ hQ hp
    | String str => exact LabelSinglePropertyState_String_keeps cv ctx str hQ hp
    | StartObject => exact LabelObjectState_StartObject_keeps cfg ctx hQ hp
    | Key str src => exact fail_keeps ctx _ hQ
    | EndObject memberCount => exact fail_keeps ctx _ hQ
    | StartArray => exact fail_keeps ctx _ hQ
    | EndArray elementCount => exact fail_keeps ctx _ hQ
  | label_index_state =>
    cases t with
    | Null => exact BaseState_Null_keeps _ ctx (by decide) hQ hp
    | Bool b => exact fail_keeps ctx _ hQ
    | Float v => exact fail_keeps ctx _ hQ
    | Uint v => exact LabelIndexState_Uint_keeps ctx v hQ hp
    | String str => exact fail_keeps ctx _ hQ
    | StartObject => exact fail_keeps ctx _ hQ
    | Key str src => exact fail_keeps ctx _ hQ
    | EndObject memberCount => exact fail_keeps ctx _ hQ
    | StartArray => exact fail_keeps ctx _ hQ
    | EndArray elementCount => exact fail_keeps ctx _ hQ
  | text_state =>
    cases t with
    | Null => exact BaseState_Null_keeps _ ctx (by decide) hQ hp
    | Bool b => exact fail_keeps ctx _ hQ
    | Float v => exact fail_keeps ctx _ hQ
    | Uint v => exact fail_keeps ctx _ hQ
    | String str => exact TextState_String_keeps ops cfg ctx str hQ hp
    | StartObject => exact fail_keeps ctx _ hQ
    | Key str src => exact fail_keeps ctx _ hQ
    | EndObject memberCount => exact fail_keeps ctx _ hQ
    | StartArray => exact fail_keeps ctx _ hQ
    | EndArray elementCount => exact fail_keeps ctx _ hQ
  | tag_state =>
    cases t with
    | Null => exact BaseState_Null_keeps _ ctx (by decide) hQ hp
    | Bool b => exact fail_keeps ctx _ hQ
    | Float v => exact fail_keeps ctx _ hQ
    | Uint v => exact fail_keeps ctx _ hQ
    | String str => exact TagState_String_keeps ctx str hQ hp
    | StartObject => exact fail_keeps ctx _ hQ
    | Key str src => exact fail_keeps ctx _ hQ
    | EndObject memberCount => exact fail_keeps ctx _ hQ
    | StartArray => exact fail_keeps ctx _ hQ
    | EndArray elementCount => exact fail_keeps ctx _ hQ
  | multi_state =>
    cases t with
    | Null => exact BaseState_Null_keeps _ ctx (by decide) hQ hp
    | Bool b => exact fail_keeps ctx _ hQ
    | Float v => exact fail_keeps ctx _ hQ
    | Uint v => exact fail_keeps ctx _ hQ
    | String str => exact fail_keeps ctx _ hQ
    | StartObject => exact MultiState_StartObject_keeps cfg ctx hQ
    | Key str src => exact fail_keeps ctx _ hQ
    | EndObject memberCount => exact fail_keeps ctx _ hQ
    | StartArray => exact MultiState_StartArray_keeps ops cv cfg ctx hQ
    | EndArray elementCount => exact MultiState_EndArray_keeps ctx hQ
  | ignore_state =>
    cases t with
    | Null => exact BaseState_Null_keeps _ ctx (by decide) hQ hp
    | Bool b => exact fail_keeps ctx _ hQ
    | Float v => exact fail_keeps ctx _ hQ
    | Uint v => exact ⟨hp, hQ, rfl, rfl, rfl, rfl⟩
    | String str => exact fail_keeps ctx _ hQ
    | StartObject => exact fail_keeps ctx _ hQ
    | Key str src => exact fail_keeps ctx _ hQ
    | EndObject memberCount => exact fail_keeps ctx _ hQ
    | StartArray => exact fail_keeps ctx _ hQ
    | EndArray elementCount => exact fail_keeps ctx _ hQ
  | array_state =>
    cases t with
    | Null => exact ⟨notBool_some _ (by decide), hQ, rfl, rfl, rfl, rfl⟩
    | Bool b => exact fail_keeps ctx _ hQ
    | Float v => exact ArrayState_Float_keeps ops cfg ctx v hQ
    | Uint v => exact ArrayState_Float_keeps ops cfg ctx _ hQ
    | String str => exact fail_keeps ctx _ hQ
    | StartObject => exact ArrayState_StartObject_keeps cfg ctx hQ
    | Key str src => exact fail_keeps ctx _ hQ
    | EndObject memberCount => exact fail_keeps ctx _ hQ
    | StartArray => exact ArrayState_StartArray_keeps cfg ctx hQ hp
    | EndArray elementCount => exact ArrayState_EndArray_keeps ctx hQ
  | slots_state =>
    cases t with
    | Null => exact BaseState_Null_keeps _ ctx (by decide) hQ hp
    | Bool b => exact fail_keeps ctx _ hQ
    | Float v => exact fail_keeps ctx _ hQ
    | Uint v => exact fail_keeps ctx _ hQ
    | String str => exact fail_keeps ctx _ hQ
    | StartObject => exact SlotsState_StartObject_keeps cfg ctx hQ
    | Key str src => exact fail_keeps ctx _ hQ
    | EndObject memberCount => exact fail_keeps ctx _ hQ
    | StartArray => exact SlotsState_StartArray_keeps ctx hQ
    | EndArray elementCount => exact SlotsState_EndArray_keeps cfg ctx hQ
  | array_pdf_state =>
    cases t with
    | Null => exact BaseState_Null_keeps _ ctx (by decide) hQ hp
    | Bool b => exact fail_keeps ctx _ hQ
    | Float v => exact ArrayToPdfState_Float_keeps ctx v hQ
    | Uint v => exact ArrayToPdfState_Float_keeps ctx _ hQ
    | String str => exact ArrayToPdfState_String_keeps ctx str hQ
    | StartObject => exact ArrayToPdfState_StartObject_keeps ctx hQ hp
    | Key str src => exact ArrayToPdfState_Key_keeps ctx str hQ
    | EndObject memberCount => exact ArrayToPdfState_EndObject_keeps ops ctx hQ
    | StartArray => exact ArrayToPdfState_StartArray_keeps ops ctx hQ
    | EndArray elementCount => exact ArrayToPdfState_EndArray_keeps cfg ctx hQ
  | decision_service_state =>
    cases t with
    | Null => exact BaseState_Null_keeps _ ctx (by decide) hQ hp
    | Bool b => exact fail_keeps ctx _ hQ
    | Float v => exact fail_keeps ctx _ hQ
    | Uint v => exact fail_keeps ctx _ hQ
    | String str => exact fail_keeps ctx _ hQ
    | StartObject => exact ⟨notBool_some _ (by decide), hQ, rfl, rfl, rfl, rfl⟩
    | Key str src => exact DecisionServiceState_Key_keeps ctx str (ht rfl) hQ
    | EndObject memberCount => exact ⟨notBool_some _ (by decide), hQ, rfl, rfl, rfl, rfl⟩
    | StartArray => exact fail_keeps ctx _ hQ
    | EndArray elementCount => exact fail_keeps ctx _ hQ
  | array_float_state =>
    cases t with
    | Null => exact ArrayFloatState_afterValue_keeps ctx hQ
    | Bool b => exact fail_keeps ctx _ hQ
    | Float v => exact ArrayFloatState_Float_keeps ctx v hQ
    | Uint v => exact ArrayFloatState_Uint_keeps cv ctx v hQ
    | String str => exact ArrayFloatState_String_keeps cv ctx str hQ
    | StartObject => exact fail_keeps ctx _ hQ
    | Key str src => exact fail_keeps ctx _ hQ
    | EndObject memberCount => exact fail_keeps ctx _ hQ
    | StartArray => exact ArrayFloatState_StartArray_keeps ctx hQ
    | EndArray elementCount => exact ArrayFloatState_EndArray_keeps ctx hQ
  | array_uint_state =>
    cases t with
    | Null => exact ArrayUintState_afterValue_keeps ctx hQ
    | Bool b => exact fail_keeps ctx _ hQ
    | Float v => exact ArrayUintState_Float_keeps cv ctx v hQ
    | Uint v => exact ArrayUintState_Uint_keeps ctx v hQ
    | String str => exact ArrayUintState_String_keeps ctx str hQ
    | StartObject => exact fail_keeps ctx _ hQ
    | Key str src => exact fail_keeps ctx _ hQ
    | EndObject memberCount => exact fail_keeps ctx _ hQ
    | StartArray => exact ArrayUintState_StartArray_keeps ctx hQ
    | EndArray elementCount => exact ArrayUintState_EndArray_keeps ctx hQ
  | string_state =>
    cases t with
    | Null => exact StringToStringState_Null_keeps ctx hQ
    | Bool b => exact fail_keeps ctx _ hQ
    | Float v => exact fail_keeps ctx _ hQ
    | Uint v => exact fail_keeps ctx _ hQ
    | String str => exact StringToStringState_String_keeps ctx str hQ
    | StartObject => exact fail_keeps ctx _ hQ
    | Key str src => exact fail_keeps ctx _ hQ
    | EndObject memberCount => exact fail_keeps ctx _ hQ
    | StartArray => exact fail_keeps ctx _ hQ
    | EndArray elementCount => exact fail_keeps ctx _ hQ
  | float_state =>
    cases t with
    | Null => exact FloatToFloatState_Float_keeps ctx _ hQ
    | Bool b => exact fail_keeps ctx _ hQ
    | Float v => exact FloatToFloatState_Float_keeps ctx v hQ
    | Uint v => exact FloatToFloatState_Float_keeps ctx _ hQ
    | String str => exact fail_keeps ctx _ hQ
    | StartObject => exact fail_keeps ctx _ hQ
    | Key str src => exact fail_keeps ctx _ hQ
    | EndObject memberCount => exact fail_keeps ctx _ hQ
    | StartArray => exact fail_keeps ctx _ hQ
    | EndArray elementCount => exact fail_keeps ctx _ hQ
  | uint_state =>
    cases t with
    | Null => exact BaseState_Null_keeps _ ctx (by decide) hQ hp
    | Bool b => exact fail_keeps ctx _ hQ
    | Float v => exact fail_keeps ctx _ hQ
    | Uint v => exact UIntToUIntState_Uint_keeps ctx v hQ
    | String str => exact fail_keeps ctx _ hQ
    | StartObject => exact fail_keeps ctx _ hQ
    | Key str src => exact fail_keeps ctx _ hQ
    | EndObject memberCount => exact fail_keeps ctx _ hQ
    | StartArray => exact fail_keeps ctx _ hQ
    | EndArray elementCount => exact fail_keeps ctx _ hQ
  | uint_dedup_state =>
    cases t with
    | Null => exact BaseState_Null_keeps _ ctx (by decide) hQ hp
    | Bool b => exact fail_keeps ctx _ hQ
    | Float v => exact fail_keeps ctx _ hQ
    | Uint v => exact UIntDedupState_Uint_keeps ctx v hQ
    | String str => exact fail_keeps ctx _ hQ
    | StartObject => exact fail_keeps ctx _ hQ
    | Key str src => exact fail_keeps ctx _ hQ
    | EndObject memberCount => exact fail_keeps ctx _ hQ
    | StartArray => exact fail_keeps ctx _ hQ
    | EndArray elementCount => exact fail_keeps ctx _ hQ
  | bool_state => exact absurd rfl hs
  | slot_outcome_list_state =>
    cases t with
    | Null => exact BaseState_Null_keeps _ ctx (by decide) hQ hp
    | Bool b => exact fail_keeps ctx _ hQ
    | Float v => exact fail_keeps ctx _ hQ
    | Uint v => exact fail_keeps ctx _ hQ
    | String str => exact fail_keeps ctx _ hQ
    | StartObject => exact SlotOutcomeList_StartObject_keeps cfg ctx hQ
    | Key str src => exact fail_keeps ctx _ hQ
    | EndObject memberCount => exact fail_keeps ctx _ hQ
    | StartArray => exact SlotOutcomeList_StartArray_keeps cfg ctx hQ
    | EndArray elementCount => exact SlotOutcomeList_EndArray_keeps cfg ctx hQ

/-! ### The flag along the parse of a line -/

lemma isSkipLearnKey_eq (str : List Char) (h : isSkipLearnKey str = true) :
    str = "_skipLearn".toList := by
  unfold isSkipLearnKey at h
  rw [Bool.and_eq_true, decide_eq_true_eq] at h
  have h1 := strncmp_eq_take str "_skipLearn".toList 10 h.2 (by rfl) (by rfl)
  rw [← h1, List.take_of_length_le (by omega)]

lemma keeps_of_stream {F : Type} (ctx : JsonContext F) (src : List Char) (r : Handled F)
    (h : r.Keeps { ctx with stream := src }) : r.Keeps ctx := by
  cases r with
  | undefined => trivial
  | throws e c => trivial
  | ret n c =>
    have h1 : KeepsFlag { ctx with stream := src } n c := h
    exact ⟨h1.next, h1.saved, h1.flag, h1.state, h1.previous, h1.bool_return⟩

/-- In the DecisionService state, a token that is neither a null nor the key `_skipLearn`
is handled without a look at the previous state. -/
lemma handle_ds_keeps {F : Type} (ops : FloatOps F) (cv : FloatConv F) (cfg : JsonConfig F)
    (t : Token F) (ctx : JsonContext F) (hnull : t ≠ .Null)
    (ht : isSkipLearnToken t = false) (hQ : SavedNotBool ctx) :
    (BaseState.handle ops cv cfg .decision_service_state t ctx).Keeps ctx := by
  cases t with
  | Null => exact absurd rfl hnull
  | Key str src => exact DecisionServiceState_Key_keeps ctx str ht hQ
  | StartObject => exact ⟨notBool_some _ (by decide), hQ, rfl, rfl, rfl, rfl⟩
  | EndObject memberCount => exact ⟨notBool_some _ (by decide), hQ, rfl, rfl, rfl, rfl⟩
  | Bool b => exact fail_keeps ctx _ hQ
  | Float v => exact fail_keeps ctx _ hQ
  | Uint v => exact fail_keeps ctx _ hQ
  | String str => exact fail_keeps ctx _ hQ
  | StartArray => exact fail_keeps ctx _ hQ
  | EndArray elementCount => exact fail_keeps ctx _ hQ

lemma token_keeps {F : Type} (ops : FloatOps F) (cv : FloatConv F) (cfg : JsonConfig F)
    (ctx : JsonContext F) (t : Token F) (hs : ctx.current_state ≠ .bool_state)
    (ht : ctx.current_state = .decision_service_state → isSkipLearnToken t = false)
    (hQ : SavedNotBool ctx)
    (hp : NotBoolState ctx.previous_state ∨
      (ctx.current_state = .decision_service_state ∧ t ≠ .Null)) :
    (VWReaderHandler.token ops cv cfg ctx t).Keeps ctx := by
  have key : ∀ c0 : JsonContext F, c0.current_state = ctx.current_state →
      c0.previous_state = ctx.previous_state → SavedNotBool c0 →
      (BaseState.handle ops cv cfg c0.current_state t c0).Keeps c0 := by
    intro c0 h1 h2 hQ0
    rcases hp with hp | hp
    · exact handle_keeps ops cv cfg _ t c0 (by rw [h1]; exact hs)
        (fun hd => ht (by rw [← h1]; exact hd)) hQ0 (by rw [h2]; exact hp)
    · rw [h1, hp.1]
      exact handle_ds_keeps ops cv cfg t c0 hp.2 (ht hp.1) hQ0
  cases t with
  | Key str src =>
    exact keeps_of_stream ctx src _ (key { ctx with stream := src } rfl rfl { hQ with })
  | Null => exact key ctx rfl rfl hQ
  | Bool b => exact key ctx rfl rfl hQ
  | Float v => exact key ctx rfl rfl hQ
  | Uint v => exact key ctx rfl rfl hQ
  | String str => exact key ctx rfl rfl hQ
  | StartObject => exact key ctx rfl rfl hQ
  | EndObject memberCount => exact key ctx rfl rfl hQ
  | StartArray => exact key ctx rfl rfl hQ
  | EndArray elementCount => exact key ctx rfl rfl hQ

lemma parse_step {F : Type} (ops : FloatOps F) (cv : FloatConv F) (cfg : JsonConfig F)
    (t : Token F) (ts : List (Token F)) (ctx c2 : JsonContext F)
    (h : parseTokens ops cv cfg (t :: ts) ctx = .finished c2) :
    ∃ n c, VWReaderHandler.token ops cv cfg ctx t = .ret (some n) c ∧
      parseTokens ops cv cfg ts
        { c with previous_state := some c.current_state, current_state := n } =
        .finished c2 := by
  rw [parseTokens] at h
  cases hr : VWReaderHandler.token ops cv cfg ctx t with
  | undefined => rw [hr] at h; cases h
  | throws e c => rw [hr] at h; cases h
  | ret n c =>
    rw [hr] at h
    cases n with
    | none => cases h
    | some s => exact ⟨s, c, rfl, h⟩

/-- From a context none of whose pointers points to the Bool state, tokens none of which is
the key `_skipLearn` leave the skip-learn flag as it was. -/
lemma parse_keeps_flag {F : Type} (ops : FloatOps F) (cv : FloatConv F) (cfg : JsonConfig F)
    (ts : List (Token F)) : ∀ (ctx c2 : JsonContext F),
      parseTokens ops cv cfg ts ctx = .finished c2 →
      ctx.current_state ≠ .bool_state → NotBoolState ctx.previous_state → SavedNotBool ctx →
      (∀ t ∈ ts, isSkipLearnToken t = false) →
      c2.decision_service_state_data.skipLearn = ctx.decision_service_state_data.skipLearn := by
  induction ts with
  | nil =>
    intro ctx c2 h _ _ _ _
    rw [parseTokens] at h
    cases h
    rfl
  | cons t ts ih =>
    intro ctx c2 h hs hp hQ hts
    obtain ⟨n, c, hr, hrest⟩ := parse_step ops cv cfg t ts ctx c2 h
    have hk := token_keeps ops cv cfg ctx t hs
      (fun _ => hts t (List.mem_cons_self _ _)) hQ (Or.inl hp)
    rw [hr] at hk
    have hk1 : KeepsFlag ctx (some n) c := hk
    have hn : n ≠ .bool_state := fun hh => hk1.next (by rw [hh])
    have h2 := ih { c with previous_state := some c.current_state, current_state := n } c2
      hrest hn
      (by
        show NotBoolState (some c.current_state)
        rw [hk1.state]
        exact notBool_some _ hs)
      { hk1.saved with }
      (fun t1 ht1 => hts t1 (List.mem_cons_of_mem _ ht1))
    exact h2.trans hk1.flag

/-- After the member `_skipLearn`, in the DecisionService state again: tokens that do not
begin with a null and hold no key `_skipLearn` leave the flag as the member set it. -/
lemma parse_after_member {F : Type} (ops : FloatOps F) (cv : FloatConv F) (cfg : JsonConfig F)
    (post : List (Token F)) (ctx c2 : JsonContext F)
    (h : parseTokens ops cv cfg post ctx = .finished c2)
    (hs : ctx.current_state = .decision_service_state) (hQ : SavedNotBool ctx)
    (hpost : ∀ t ∈ post, isSkipLearnToken t = false) (hnull : post.head? ≠ some .Null) :
    c2.decision_service_state_data.skipLearn = ctx.decision_service_state_data.skipLearn := by
  cases post with
  | nil =>
    rw [parseTokens] at h
    cases h
    rfl
  | cons t ts =>
    obtain ⟨n, c, hr, hrest⟩ := parse_step ops cv cfg t ts ctx c2 h
    have hk := token_keeps ops cv cfg ctx t (by rw [hs]; decide)
      (fun _ => hpost t (List.mem_cons_self _ _)) hQ
      (Or.inr ⟨hs, fun hh => hnull (by rw [hh]; rfl)⟩)
    rw [hr] at hk
    have hk1 : KeepsFlag ctx (some n) c := hk
    have hn : n ≠ .bool_state := fun hh => hk1.next (by rw [hh])
    have h2 := parse_keeps_flag ops cv cfg ts
      { c with previous_state := some c.current_state, current_state := n } c2 hrest hn
      (by
        show NotBoolState (some c.current_state)
        rw [hk1.state, hs]
        exact notBool_some _ (by decide))
      { hk1.saved with }
      (fun t1 ht1 => hpost t1 (List.mem_cons_of_mem _ ht1))
    exact h2.trans hk1.flag

/-! ### The Bool state is entered from the DecisionService state only -/

lemma token_of_current {F : Type} (ops : FloatOps F) (cv : FloatConv F) (cfg : JsonConfig F)
    (ctx : JsonContext F) (s : BaseState) (h : ctx.current_state = s) :
    (∀ str src, VWReaderHandler.token ops cv cfg ctx (.Key str src) =
      BaseState.handle ops cv cfg s (.Key str src) { ctx with stream := src }) ∧
    (∀ t, (∀ str src, t ≠ .Key str src) →
      VWReaderHandler.token ops cv cfg ctx t = BaseState.handle ops cv cfg s t ctx) := by
  subst h
  refine ⟨fun str src => rfl, fun t ht => ?_⟩
  cases t with
  | Key str src => exact absurd rfl (ht str src)
  | Null => rfl
  | Bool b => rfl
  | Float v => rfl
  | Uint v => rfl
  | String str => rfl
  | StartObject => rfl
  | EndObject memberCount => rfl
  | StartArray => rfl
  | EndArray elementCount => rfl

lemma inv_of_keeps {F : Type} (ctx c : JsonContext F) (n : BaseState)
    (hI : BoolStateInv ctx) (hk : KeepsFlag ctx (some n) c)
    (hs : ctx.current_state ≠ .bool_state) :
    BoolStateInv { c with previous_state := some c.current_state, current_state := n } where
  saved := { hk.saved with }
  bool_return := by
    show c.bool_state_return_state = none ∨ c.bool_state_return_state = _
    rw [hk.bool_return]
    exact hI.bool_return
  after := fun h => by
    have h1 : some c.current_state = some BaseState.bool_state := h
    rw [hk.state] at h1
    exact absurd (Option.some.inj h1) hs
  inside := fun h => by
    have h1 : n = BaseState.bool_state := h
    exact absurd (by rw [h1]) hk.next

/-- One token keeps the invariant. -/
lemma token_inv {F : Type} (ops : FloatOps F) (cv : FloatConv F) (cfg : JsonConfig F)
    (ctx c : JsonContext F) (t : Token F) (n : BaseState)
    (h : VWReaderHandler.token ops cv cfg ctx t = .ret (some n) c) (hI : BoolStateInv ctx) :
    BoolStateInv { c with previous_state := some c.current_state, current_state := n } := by
  by_cases hb : ctx.current_state = .bool_state
  · have hprev := hI.inside hb
    obtain ⟨hkey, hother⟩ := token_of_current ops cv cfg ctx _ hb
    have hdone : ∀ c0 : JsonContext F, c0.current_state = .bool_state →
        SavedNotBool c0 → (c0.bool_state_return_state = none ∨
          c0.bool_state_return_state = some .decision_service_state) →
        BoolStateInv { c0 with
          previous_state := some c0.current_state
          current_state := .decision_service_state } := by
      intro c0 h0 hQ0 hr0
      exact ⟨{ hQ0 with }, hr0, fun _ => rfl, fun hh => by cases hh⟩
    cases t with
    | Key str src =>
      rw [hkey] at h
      cases h
    | Bool b =>
      rw [hother _ (fun _ _ hh => by cases hh)] at h
      have h1 : BoolToBoolState.Bool ctx b = .ret (some n) c := h
      unfold BoolToBoolState.Bool at h1
      injection h1 with hn hc
      subst hc
      rcases hI.bool_return with hr | hr
      · rw [hr] at hn
        cases hn
      · rw [hr] at hn
        cases hn
        exact hdone _ hb { hI.saved with } (Or.inr hr)
    | Null =>
      rw [hother _ (fun _ _ hh => by cases hh)] at h
      have h1 : BaseState.Null .bool_state ctx = .ret (some n) c := h
      unfold BaseState.Null at h1
      injection h1 with hn hc
      subst hc
      rw [hprev, if_neg (fun hh => by cases hh)] at hn
      cases hn
      exact hdone _ hb hI.saved hI.bool_return
    | Float v => rw [hother _ (fun _ _ hh => by cases hh)] at h; cases h
    | Uint v => rw [hother _ (fun _ _ hh => by cases hh)] at h; cases h
    | String str => rw [hother _ (fun _ _ hh => by cases hh)] at h; cases h
    | StartObject => rw [hother _ (fun _ _ hh => by cases hh)] at h; cases h
    | EndObject memberCount => rw [hother _ (fun _ _ hh => by cases hh)] at h; cases h
    | StartArray => rw [hother _ (fun _ _ hh => by cases hh)] at h; cases h
    | EndArray elementCount => rw [hother _ (fun _ _ hh => by cases hh)] at h; cases h
  by_cases hd : ctx.current_state = .decision_service_state
  · obtain ⟨hkey, hother⟩ := token_of_current ops cv cfg ctx _ hd
    by_cases hnull : t = .Null
    · subst hnull
      rw [hother _ (fun _ _ hh => by cases hh)] at h
      have h1 : BaseState.Null .decision_service_state ctx = .ret (some n) c := h
      unfold BaseState.Null at h1
      injection h1 with hn hc
      subst hc
      exact ⟨{ hI.saved with }, hI.bool_return, fun hh => absurd (Option.some.inj hh) hb,
        fun _ => by
          show some ctx.current_state = _
          rw [hd]⟩
    by_cases hskip : isSkipLearnToken t = true
    · cases t with
      | Key str src =>
        have hstr := isSkipLearnKey_eq str hskip
        subst hstr
        rw [hkey] at h
        have h1 : Handled.ret (some BaseState.bool_state)
            { ctx with
              stream := src
              bool_state_return_state := some BaseState.decision_service_state } =
            .ret (some n) c := h
        cases h1
        exact ⟨{ hI.saved with bool_value := notBool_some _ (by decide) }, Or.inr rfl,
          fun hh => absurd (Option.some.inj hh) hb,
          fun _ => by
            show some ctx.current_state = _
            rw [hd]⟩
      | Null => cases hskip
      | Bool b => cases hskip
      | Float v => cases hskip
      | Uint v => cases hskip
      | String str => cases hskip
      | StartObject => cases hskip
      | EndObject memberCount => cases hskip
      | StartArray => cases hskip
      | EndArray elementCount => cases hskip
    · have hk := token_keeps ops cv cfg ctx t hb
        (fun _ => by
          cases hx : isSkipLearnToken t with
          | true => exact absurd hx hskip
          | false => rfl)
        hI.saved (Or.inr ⟨hd, hnull⟩)
      rw [h] at hk
      exact inv_of_keeps ctx c n hI hk hb
  · have hp : NotBoolState ctx.previous_state := fun hh => hd (hI.after hh)
    have hk := token_keeps ops cv cfg ctx t hb (fun hh => absurd hh hd) hI.saved (Or.inl hp)
    rw [h] at hk
    exact inv_of_keeps ctx c n hI hk hb

lemma parse_inv {F : Type} (ops : FloatOps F) (cv : FloatConv F) (cfg : JsonConfig F)
    (ts : List (Token F)) : ∀ (ctx c2 : JsonContext F),
      parseTokens ops cv cfg ts ctx = .finished c2 → BoolStateInv ctx → BoolStateInv c2 := by
  induction ts with
  | nil =>
    intro ctx c2 h hI
    rw [parseTokens] at h
    cases h
    exact hI
  | cons t ts ih =>
    intro ctx c2 h hI
    obtain ⟨n, c, hr, hrest⟩ := parse_step ops cv cfg t ts ctx c2 h
    exact ih _ c2 hrest (token_inv ops cv cfg ctx c t n hr hI)

lemma init_inv {F : Type} (ops : FloatOps F) (cfg : JsonConfig F)
    (examples : List (LabeledExample F)) (line : List Char)
    (data : DecisionServiceInteraction F) :
    BoolStateInv ((VWReaderHandler.init ops cfg examples line none
      data).SetStartStateToDecisionService data) where
  saved :=
    { label_object := notBool_none
      slots_saved := notBool_none
      slots_root := notBool_none
      pdf_object := notBool_none
      pdf_array := notBool_none
      float_array := notBool_none
      uint_array := notBool_none
      string_value := notBool_none
      float_value := notBool_none
      uint_value := notBool_none
      dedup_value := notBool_none
      bool_value := notBool_none
      old_root := notBool_none
      root := notBool_some _ (by decide)
      path := fun p hp => by cases hp }
  bool_return := Or.inl rfl
  after := fun h => by cases h
  inside := fun h => by cases h

/-- What a line that `read_line_decision_service_json` reads itself returns: the interaction
record of the context the parse of its tokens ends with. -/
lemma read_line_returned {F : Type} (ops : FloatOps F) (cv : FloatConv F)
    (cfg : JsonConfig F) (drv : JsonDriver F) (examples : List (LabeledExample F))
    (line : List Char) (calls : Nat) (data0 data : DecisionServiceInteraction F)
    (exs : List (LabeledExample F)) (calls1 : Nat) (hlt : cfg.label_type ≠ .slates)
    (h : read_line_decision_service_json ops cv cfg drv examples line calls data0 =
      .returned exs calls1 data) :
    ∃ c2, parseTokens ops cv (cfg.after calls) (drv.tokens line)
        ((VWReaderHandler.init ops (cfg.after calls) examples line none
          data0).SetStartStateToDecisionService data0) = .finished c2 ∧
      data = c2.decision_service_state_data := by
  unfold read_line_decision_service_json at h
  rw [if_neg hlt] at h
  split at h
  · cases h
  · simp only [] at h
    split at h
    · rename_i c2 hfin
      split at h
      · cases h
      · cases h
        exact ⟨c2, hfin, rfl⟩
    · cases h
    · cases h
    · cases h

/-- C23. In decision-service mode `parse_line_json` returns false for every line whose first
byte is not the opening brace, with the examples and the count of factory calls as they were
and whatever the reader would make of the line; and it returns false, with the examples given
back and one fresh example in their place, whenever reading the line returns an interaction
record whose `skipLearn` is set. That flag is what the member `_skipLearn` writes: a line
whose tokens end with the member `_skipLearn` with the value true and the closing brace,
after tokens that run to the DecisionService state, is read with the flag set, so that
`parse_line_json` returns false for it. Outside decision-service mode `parse_line_json`
returns true whenever it returns. On false `read_features_json` goes on with the next
line. The member may stand anywhere among the members of the value: for every line that
`read_line_decision_service_json` reads itself (the label type is not slates) and returns
from, whose tokens hold the member `_skipLearn` with the value true at a place where the
parse is in the DecisionService state, whatever the tokens before it, and after it any
tokens that do not begin with a null and hold no further key `_skipLearn`, the interaction
record returned has the flag set and `parse_line_json` returns false. -/
theorem parse_line_json_asks_for_another_line {F : Type} (ops : FloatOps F)
    (cv : FloatConv F) (cfg : JsonConfig F) (drv : JsonDriver F) (line : List Char)
    (examples : List (LabeledExample F)) (calls : Nat) :
    (cfg.decision_service_json = true → line.headD NUL ≠ '\x7b' →
      parse_line_json ops cv cfg drv line examples calls = .returned false examples calls) ∧
    (cfg.decision_service_json = true → line.headD NUL = '\x7b' →
      ∀ exs calls1 data,
        read_line_decision_service_json ops cv cfg drv examples line calls
          (DecisionServiceInteraction.empty ops) = .returned exs calls1 data →
        data.skipLearn = true →
        parse_line_json ops cv cfg drv line examples calls =
          .returned false [cfg.example_factory calls1] (calls1 + 1)) ∧
    (cfg.label_type ≠ .slates → examples ≠ [] → drv.parse_error line = false →
      ∀ pre src n c,
        drv.tokens line = pre ++ [.Key "_skipLearn".toList src, .Bool true, .EndObject n] →
        Runs ops cv (cfg.after calls) pre
          ((VWReaderHandler.init ops (cfg.after calls) examples line none
            (DecisionServiceInteraction.empty ops)).SetStartStateToDecisionService
              (DecisionServiceInteraction.empty ops)) c →
        c.current_state = .decision_service_state →
        ∃ exs data,
          read_line_decision_service_json ops cv cfg drv examples line calls
            (DecisionServiceInteraction.empty ops) =
              .returned exs (calls + c.factory_calls) data ∧
          data.skipLearn = true) ∧
    (cfg.decision_service_json = false → ∀ b exs calls1,
      parse_line_json ops cv cfg drv line examples calls = .returned b exs calls1 → b = true) ∧
    (∀ raw input exs calls1, ¬ (read_features raw 0).ret < 1 →
      parse_line_json ops cv cfg drv (read_features raw 0).view examples calls =
        .returned false exs calls1 →
      read_features_json ops cv cfg drv (raw :: input) examples calls =
        read_features_json ops cv cfg drv input exs calls1) ∧
    (cfg.decision_service_json = true → line.headD NUL = '\x7b' → cfg.label_type ≠ .slates →
      ∀ pre src post c,
        drv.tokens line = pre ++ [.Key "_skipLearn".toList src, .Bool true] ++ post →
        Runs ops cv (cfg.after calls) pre
          ((VWReaderHandler.init ops (cfg.after calls) examples line none
            (DecisionServiceInteraction.empty ops)).SetStartStateToDecisionService
              (DecisionServiceInteraction.empty ops)) c →
        c.current_state = .decision_service_state →
        (∀ t ∈ post, isSkipLearnToken t = false) → post.head? ≠ some .Null →
        ∀ exs calls1 data,
          read_line_decision_service_json ops cv cfg drv examples line calls
            (DecisionServiceInteraction.empty ops) = .returned exs calls1 data →
          data.skipLearn = true ∧
          parse_line_json ops cv cfg drv line examples calls =
            .returned false [cfg.example_factory calls1] (calls1 + 1)) := by
  have hfalse : cfg.decision_service_json = true → line.headD NUL = '\x7b' →
      ∀ exs calls1 data,
        read_line_decision_service_json ops cv cfg drv examples line calls
          (DecisionServiceInteraction.empty ops) = .returned exs calls1 data →
        data.skipLearn = true →
        parse_line_json ops cv cfg drv line examples calls =
          .returned false [cfg.example_factory calls1] (calls1 + 1) := by
    intro hds hb exs calls1 data hread hskip
    unfold parse_line_json
    rw [if_pos hds, if_neg (not_not.mpr hb), hread]
    simp only []
    rw [if_pos hskip]
    rfl
  refine ⟨fun hds hb => ?_, hfalse,
    fun hlt hne hsyn pre src n c htok hrun hstate => ?_, fun hds b exs calls1 h => ?_,
    fun raw input exs calls1 hret h => ?_,
    fun hds hb hlt pre src post c htok hrun hstate hpost hnull exs calls1 data hread => ?_⟩
  · unfold parse_line_json
    rw [if_pos hds, if_pos hb]
  · have hrun2 := skipLearn_member_run ops cv (cfg.after calls) c hstate src true
    have hend : VWReaderHandler.token ops cv (cfg.after calls)
        { c with
          stream := src
          bool_state_return_state := some .decision_service_state
          decision_service_state_data := { c.decision_service_state_data with skipLearn := true }
          previous_state := some .bool_state
          current_state := .decision_service_state } (.EndObject n) =
        .ret (some .decision_service_state)
          { c with
            stream := src
            bool_state_return_state := some .decision_service_state
            decision_service_state_data :=
              { c.decision_service_state_data with skipLearn := true }
            previous_state := some .bool_state
            current_state := .decision_service_state } := rfl
    have hall := Runs.finished_run ops cv (cfg.after calls)
      (Runs.append_run ops cv (cfg.after calls) hrun
        (Runs.append_run ops cv (cfg.after calls) hrun2
          (Runs.single_run ops cv (cfg.after calls) hend)))
    have hemp : examples.isEmpty = false := by
      cases examples with
      | nil => exact absurd rfl hne
      | cons a as => rfl
    unfold read_line_decision_service_json
    rw [if_neg hlt, hemp]
    simp only [Bool.false_eq_true, if_false]
    rw [htok]
    have happ : pre ++ [Token.Key "_skipLearn".toList src, Token.Bool true, Token.EndObject n] =
        pre ++ ([Token.Key "_skipLearn".toList src, Token.Bool true] ++ [Token.EndObject n]) :=
      rfl
    rw [happ, hall]
    simp only [hsyn, Bool.false_eq_true, if_false]
    exact ⟨_, _, rfl, rfl⟩
  · unfold parse_line_json at h
    have hds2 : ¬ (cfg.decision_service_json = true) := by rw [hds]; decide
    rw [if_neg hds2] at h
    cases hr : read_line_json ops cv cfg drv examples line calls none with
    | returned e c d =>
      rw [hr] at h
      injection h with h1 _ _
      exact h1.symm
    | threw e => rw [hr] at h; cases h
    | undefined => rw [hr] at h; cases h
  · rw [read_features_json, if_neg hret, h]
    rfl
  · obtain ⟨c2, hfin, hdata⟩ := read_line_returned ops cv cfg drv examples line calls
      (DecisionServiceInteraction.empty ops) data exs calls1 hlt hread
    have hinv := parse_inv ops cv (cfg.after calls) pre _ c
      (Runs.finished_run ops cv (cfg.after calls) hrun)
      (init_inv ops (cfg.after calls) examples line (DecisionServiceInteraction.empty ops))
    have hrun2 := skipLearn_member_run ops cv (cfg.after calls) c hstate src true
    rw [htok, List.append_assoc, hrun, hrun2 post] at hfin
    have hflag := parse_after_member ops cv (cfg.after calls) post _ c2 hfin rfl
      { hinv.saved with bool_value := notBool_some _ (by decide) } hpost hnull
    have hskip : data.skipLearn = true := by
      rw [hdata]
      exact hflag
    exact ⟨hskip, hfalse hds hb exs calls1 data hread hskip⟩

/-- Witness for C23: in decision-service mode under the cb label type, the line `not json`
is skipped with nothing touched, the line `\x7b"_skipLearn":true\x7d` is read with the flag
set and makes `parse_line_json` return false with one fresh example, the line
`\x7b"a":[1],"_skipLearn":false\x7d` makes it return true, and the line
`\x7b"_skipLearn":true,"a":[1]\x7d`, in which a member follows the flag, is read with the
flag set and makes `parse_line_json` return false. -/
theorem parse_line_json_asks_for_another_line_witness :
    parse_line_json sampleOps sampleConv (sampleServiceJson .cb) sampleDriver
        "not json".toList [sampleExample] 0 = .returned false [sampleExample] 0 ∧
    (∃ exs data,
      read_line_decision_service_json sampleOps sampleConv (sampleServiceJson .cb) sampleDriver
          [sampleExample] sampleSkipLearnLine 0 (DecisionServiceInteraction.empty sampleOps) =
        .returned exs (0 + 0) data ∧
      data.skipLearn = true) ∧
    parse_line_json sampleOps sampleConv (sampleServiceJson .cb) sampleDriver
        sampleSkipLearnLine [sampleExample] 0 = .returned false [sampleExample] 1 ∧
    parse_line_json sampleOps sampleConv (sampleServiceJson .cb) sampleDriver
        sampleLearnLine [sampleExample] 0 =
      .returned true
        (apply_pdrop sampleOps sampleConv (sampleServiceJson .cb) (some 0) [sampleExample]) 0 ∧
    (∀ exs calls1 data,
      read_line_decision_service_json sampleOps sampleConv (sampleServiceJson .cb)
          sampleSkipFirstDriver [sampleExample] sampleSkipFirstLine 0
          (DecisionServiceInteraction.empty sampleOps) = .returned exs calls1 data →
      data.skipLearn = true ∧
      parse_line_json sampleOps sampleConv (sampleServiceJson .cb) sampleSkipFirstDriver
          sampleSkipFirstLine [sampleExample] 0 =
        .returned false [(sampleServiceJson .cb).example_factory calls1] (calls1 + 1)) ∧
    parse_line_json sampleOps sampleConv (sampleServiceJson .cb) sampleSkipFirstDriver
        sampleSkipFirstLine [sampleExample] 0 = .returned false [sampleExample] 1 :=
  ⟨(parse_line_json_asks_for_another_line sampleOps sampleConv (sampleServiceJson .cb)
      sampleDriver "not json".toList [sampleExample] 0).1 rfl (by decide),
    (parse_line_json_asks_for_another_line sampleOps sampleConv (sampleServiceJson .cb)
      sampleDriver sampleSkipLearnLine [sampleExample] 0).2.2.1 (by decide)
      (List.cons_ne_nil _ _) rfl [.StartObject] (sampleSkipLearnLine.drop 1) 1
      { (VWReaderHandler.init sampleOps ((sampleServiceJson .cb).after 0) [sampleExample]
          sampleSkipLearnLine none
          (DecisionServiceInteraction.empty sampleOps)).SetStartStateToDecisionService
            (DecisionServiceInteraction.empty sampleOps) with
        previous_state := some .decision_service_state }
      rfl
      (Runs.single_run sampleOps sampleConv ((sampleServiceJson .cb).after 0) rfl)
      rfl,
    by rfl, by rfl,
    (parse_line_json_asks_for_another_line sampleOps sampleConv (sampleServiceJson .cb)
      sampleSkipFirstDriver sampleSkipFirstLine [sampleExample] 0).2.2.2.2.2 rfl (by decide)
      (by decide) [.StartObject] (sampleSkipFirstLine.drop 1)
      [.Key "a".toList (sampleSkipFirstLine.drop 19), .StartArray, .Uint 1, .EndArray 1,
        .EndObject 2]
      { (VWReaderHandler.init sampleOps ((sampleServiceJson .cb).after 0) [sampleExample]
          sampleSkipFirstLine none
          (DecisionServiceInteraction.empty sampleOps)).SetStartStateToDecisionService
            (DecisionServiceInteraction.empty sampleOps) with
        previous_state := some .decision_service_state }
      rfl
      (Runs.single_run sampleOps sampleConv ((sampleServiceJson .cb).after 0) rfl)
      rfl
      (fun t ht => by
        simp only [List.mem_cons, List.mem_singleton, List.not_mem_nil, or_false] at ht
        rcases ht with h | h | h | h | h <;> rw [h] <;> rfl)
      (fun h => by cases h),
    by rfl⟩

/-! ## The error returns of the fast skip (C38) -/

/-- A zero byte inside the scanned text acts as the end of the buffer, unless the scan of the
text before it ends right after a backslash inside a string: that scan steps over the byte
without looking at it. -/
lemma ignore_zero_byte (pre rest : List Char) :
    (∀ head d s, ignoreLoop pre head d s ≠ .overrun →
      ignoreLoop (pre ++ NUL :: rest) head d s = ignoreLoop pre head d s) ∧
    (∀ head d s, ignoreString pre head d s ≠ .overrun →
      ignoreString (pre ++ NUL :: rest) head d s = ignoreString pre head d s) ∧
    (∀ head d s, ignoreEscaped pre head d s ≠ .overrun →
      ignoreEscaped (pre ++ NUL :: rest) head d s = ignoreEscaped pre head d s) := by
  induction pre with
  | nil =>
    refine ⟨fun head d s _ => ?_, fun head d s _ => ?_, fun head d s hne => ?_⟩
    · simp only [List.nil_append, ignoreLoop, if_true]
    · simp only [List.nil_append, ignoreString, if_true]
    · exact absurd (by rw [ignoreEscaped]) hne
  | cons c cs ih =>
    obtain ⟨ihA, ihB, ihC⟩ := ih
    refine ⟨fun head d s hne => ?_, fun head d s hne => ?_, fun head d s hne => ?_⟩
    · rw [List.cons_append]
      by_cases h0 : c = NUL
      · subst h0
        simp only [ignoreLoop, if_true]
      by_cases h1 : c = '"'
      · subst h1
        rw [ignoreLoop_quote] at hne
        rw [ignoreLoop_quote, ignoreLoop_quote]
        exact ihB _ _ _ hne
      by_cases h2 : c = '\x7b'
      · subst h2
        rw [ignoreLoop_open_brace] at hne
        rw [ignoreLoop_open_brace, ignoreLoop_open_brace]
        exact ihA _ _ _ hne
      by_cases h3 : c = '\x7d'
      · subst h3
        rw [ignoreLoop_close_brace] at hne
        rw [ignoreLoop_close_brace, ignoreLoop_close_brace]
        by_cases hz : d = 0 ∧ s = 0
        · rw [if_pos hz, if_pos hz]
        · rw [if_neg hz] at hne
          rw [if_neg hz, if_neg hz]
          exact ihA _ _ _ hne
      by_cases h4 : c = '['
      · subst h4
        rw [ignoreLoop_open_bracket] at hne
        rw [ignoreLoop_open_bracket, ignoreLoop_open_bracket]
        exact ihA _ _ _ hne
      by_cases h5 : c = ']'
      · subst h5
        rw [ignoreLoop_close_bracket] at hne
        rw [ignoreLoop_close_bracket, ignoreLoop_close_bracket]
        by_cases hz : d = 0 ∧ s = 0
        · rw [if_pos hz, if_pos hz]
        · rw [if_neg hz] at hne
          rw [if_neg hz, if_neg hz]
          exact ihA _ _ _ hne
      by_cases h6 : c = ','
      · subst h6
        rw [ignoreLoop_comma] at hne
        rw [ignoreLoop_comma, ignoreLoop_comma]
        by_cases hz : d = 0 ∧ s = 0
        · rw [if_pos hz, if_pos hz]
        · rw [if_neg hz] at hne
          rw [if_neg hz, if_neg hz]
          exact ihA _ _ _ hne
      have hsc : isScalarChar c = true := (isScalarChar_iff c).mpr ⟨h0, h1, h2, h3, h4, h5, h6⟩
      rw [ignoreLoop_scalar _ _ _ _ _ hsc] at hne
      rw [ignoreLoop_scalar _ _ _ _ _ hsc, ignoreLoop_scalar _ _ _ _ _ hsc]
      exact ihA _ _ _ hne
    · rw [List.cons_append, ignoreString, ignoreString]
      rw [ignoreString] at hne
      by_cases h0 : c = NUL
      · rw [if_pos h0, if_pos h0]
      rw [if_neg h0] at hne
      rw [if_neg h0, if_neg h0]
      by_cases h1 : c = '\\'
      · rw [if_pos h1] at hne
        rw [if_pos h1, if_pos h1]
        exact ihC _ _ _ hne
      rw [if_neg h1] at hne
      rw [if_neg h1, if_neg h1]
      by_cases h2 : c = '"'
      · rw [if_pos h2] at hne
        rw [if_pos h2, if_pos h2]
        exact ihA _ _ _ hne
      rw [if_neg h2] at hne
      rw [if_neg h2, if_neg h2]
      exact ihB _ _ _ hne
    · rw [List.cons_append, ignoreEscaped, ignoreEscaped]
      rw [ignoreEscaped] at hne
      exact ihB _ _ _ hne

/-- The scan of a text without a backslash never steps over the end of the buffer. -/
lemma ignore_no_overrun (cs : List Char) (h : '\\' ∉ cs) :
    (∀ head d s, ignoreLoop cs head d s ≠ .overrun) ∧
    (∀ head d s, ignoreString cs head d s ≠ .overrun) := by
  induction cs with
  | nil =>
    refine ⟨fun head d s hh => ?_, fun head d s hh => ?_⟩
    · rw [ignoreLoop] at hh; cases hh
    · rw [ignoreString] at hh; cases hh
  | cons c cs ih =>
    have hc : c ≠ '\\' := fun hc => h (hc ▸ List.mem_cons_self _ _)
    obtain ⟨ihA, ihB⟩ := ih (fun hm => h (List.mem_cons_of_mem _ hm))
    refine ⟨fun head d s hh => ?_, fun head d s hh => ?_⟩
    · by_cases h0 : c = NUL
      · subst h0
        simp only [ignoreLoop, if_true] at hh
        cases hh
      by_cases h1 : c = '"'
      · subst h1
        rw [ignoreLoop_quote] at hh
        exact ihB _ _ _ hh
      by_cases h2 : c = '\x7b'
      · subst h2
        rw [ignoreLoop_open_brace] at hh
        exact ihA _ _ _ hh
      by_cases h3 : c = '\x7d'
      · subst h3
        rw [ignoreLoop_close_brace] at hh
        by_cases hz : d = 0 ∧ s = 0
        · rw [if_pos hz] at hh
          cases hh
        · rw [if_neg hz] at hh
          exact ihA _ _ _ hh
      by_cases h4 : c = '['
      · subst h4
        rw [ignoreLoop_open_bracket] at hh
        exact ihA _ _ _ hh
      by_cases h5 : c = ']'
      · subst h5
        rw [ignoreLoop_close_bracket] at hh
        by_cases hz : d = 0 ∧ s = 0
        · rw [if_pos hz] at hh
          cases hh
        · rw [if_neg hz] at hh
          exact ihA _ _ _ hh
      by_cases h6 : c = ','
      · subst h6
        rw [ignoreLoop_comma] at hh
        by_cases hz : d = 0 ∧ s = 0
        · rw [if_pos hz] at hh
          cases hh
        · rw [if_neg hz] at hh
          exact ihA _ _ _ hh
      have hsc : isScalarChar c = true := (isScalarChar_iff c).mpr ⟨h0, h1, h2, h3, h4, h5, h6⟩
      rw [ignoreLoop_scalar _ _ _ _ _ hsc] at hh
      exact ihA _ _ _ hh
    · rw [ignoreString] at hh
      by_cases h0 : c = NUL
      · rw [if_pos h0] at hh
        cases hh
      rw [if_neg h0, if_neg hc] at hh
      by_cases h2 : c = '"'
      · rw [if_pos h2] at hh
        exact ihA _ _ _ hh
      rw [if_neg h2] at hh
      exact ihB _ _ _ hh

/-- C38. `Ignore` on a key of `length` bytes whose opening quote is the first byte of the
buffer view. When the byte at `length + 2`, right after the closing quote of the key, is not
a colon (or the view ends before it), the handler reports `Expected ':' found` and returns
the error sentinel, and nothing of the context but the message is changed: the buffer is as
it was. When the scan of the value reads a zero byte (or the end of the view, where the zero
byte that ends the buffer stands), the handler reports `Found EOF` and returns the error
sentinel with the buffer as it was. A zero byte in the scanned text is read, and ends the
scan in that way, when the scan of the text before it neither stopped at a terminator nor
ended right after a backslash inside a string; in a text without a backslash the scan never
steps over a zero byte. -/
theorem ignore_error_returns {F : Type} (ctx : JsonContext F) (length : Nat) :
    ((length + 2 ≥ ctx.stream.length ∨ ctx.stream.getD (length + 2) NUL ≠ ':') →
      DefaultState.Ignore ctx length =
        .ret none { ctx with error_ptr := ctx.error_ptr ++
          [JsonError.expectedColon (ctx.stream.getD (length + 2) NUL)] }) ∧
    (length + 2 < ctx.stream.length → ctx.stream.getD (length + 2) NUL = ':' →
      ignoreLoop (ctx.stream.drop (length + 3)) (length + 3) 0 0 = .eof →
      DefaultState.Ignore ctx length =
        .ret none { ctx with error_ptr := ctx.error_ptr ++ [JsonError.foundEOF] }) ∧
    (∀ pre rest : List Char, ∀ head : Nat, ∀ d s : Int,
      ignoreLoop pre head d s = .eof → ignoreLoop (pre ++ NUL :: rest) head d s = .eof) ∧
    (∀ cs : List Char, ∀ head : Nat, ∀ d s : Int, '\\' ∉ cs →
      ignoreLoop cs head d s ≠ .overrun) := by
  refine ⟨fun h => ?_, fun h1 h2 h3 => ?_, fun pre rest head d s h => ?_,
    fun cs head d s h => (ignore_no_overrun cs h).1 head d s⟩
  · unfold DefaultState.Ignore
    simp only []
    rw [if_pos h]
    rfl
  · unfold DefaultState.Ignore
    simp only []
    rw [if_neg (by
      rintro (h | h)
      · omega
      · exact h h2)]
    rw [h3]
    rfl
  · rw [(ignore_zero_byte pre rest).1 head d s (by rw [h]; exact fun hh => by cases hh), h]

/-- C38 at concrete inputs. The key `_x` followed by a blank and a colon: the handler
returns the error sentinel with the message `Expected ':' found ' '` and the buffer
untouched, and the parse of the whole line fails. A string value that the end of the buffer
cuts: `Found EOF`, buffer untouched. -/
theorem ignore_error_returns_witness :
    DefaultState.Ignore { sampleJsonContext .simple with stream := sampleSpacedColonView } 2 =
      .ret none { sampleJsonContext .simple with
        stream := sampleSpacedColonView
        error_ptr := [JsonError.expectedColon ' '] } ∧
    (parseTokens sampleOps sampleConv (sampleJson .simple) spacedColonTokens
      (sampleJsonContext .simple)).isFailed = true ∧
    DefaultState.Ignore { sampleJsonContext .simple with stream := sampleCutStringView } 2 =
      .ret none { sampleJsonContext .simple with
        stream := sampleCutStringView
        error_ptr := [JsonError.foundEOF] } :=
  ⟨(ignore_error_returns { sampleJsonContext .simple with stream := sampleSpacedColonView }
      2).1 (Or.inr (by decide)),
    by rfl,
    (ignore_error_returns { sampleJsonContext .simple with stream := sampleCutStringView }
      2).2.1 (by decide) (by rfl) (by rfl)⟩

/-- C38, the failing input: in the line `\x7b"_x":"a\` the byte after the backslash is the
zero byte that ends the buffer. The scan steps over it without looking at it and reads past
the end of the buffer: no error sentinel is returned. With a zero byte written out in the
view, followed by more text, the scan goes on after it and stops at a later terminator, and
the handler overwrites the bytes up to there. -/
theorem ignore_steps_over_escaped_zero_byte :
    ignoreLoop (sampleCutEscapeView.drop 5) 5 0 0 = .overrun ∧
    DefaultState.Ignore { sampleJsonContext .simple with stream := sampleCutEscapeView } 2 =
      Handled.undefined ∧
    (DefaultState.Ignore { sampleJsonContext .simple with
        stream := sampleCutEscapeView ++ NUL :: "b\",1\x7d".toList } 2).next? =
      some .ignore_state := by
  refine ⟨by rfl, by rfl, by rfl⟩

/-! ## The label scratch after a commit (C31) -/

lemma set_of_get? {α : Type} (xs : List α) (i : Nat) (x : α) (h : xs.get? i = some x) :
    xs.set i x = xs := by
  induction xs generalizing i with
  | nil => rfl
  | cons y ys ih =>
    cases i with
    | zero =>
      simp only [List.get?_cons_zero, Option.some.injEq] at h
      subst h
      rfl
    | succ k =>
      simp only [List.get?_cons_succ] at h
      rw [List.set_cons_succ, ih k h]

lemma setEx_of_ex? {F : Type} (c : JsonContext F) (e : LabeledExample F) (h : c.ex? = some e) :
    c.setEx e = c := by
  unfold JsonContext.setEx
  rw [set_of_get? c.examples c.ex e h]

lemma ex?_setEx {F : Type} (c : JsonContext F) (e0 e : LabeledExample F) (h : c.ex? = some e0) :
    (c.setEx e).ex? = some e := by
  unfold JsonContext.setEx JsonContext.ex? at *
  rw [List.get?_eq_getElem?] at h
  have hlt : c.ex < c.examples.length := by
    by_contra hge
    rw [List.getElem?_eq_none (by omega)] at h
    cases h
  show (c.examples.set c.ex e).get? c.ex = some e
  rw [List.get?_eq_getElem?, List.getElem?_set_self hlt]

/-- What `LabelObjectState::EndObject` leaves in the scratch members when it returns. -/
lemma EndObject_scratch {F : Type} (ops : FloatOps F) (cfg : JsonConfig F) (ctx : JsonContext F)
    (n : Option BaseState) (c : JsonContext F)
    (h : LabelObjectState.EndObject ops cfg ctx = .ret n c) :
    n = ctx.label_object_state.return_state ∧
    c.label_object_state =
      LabelObjectState.afterCommit ops cfg ctx.label_object_state ∧
    c.ex = ctx.ex ∧ c.examples.length = ctx.examples.length ∧
    (cfg.label_type = .ccb → ∃ e, ctx.ex? = some e) := by
  unfold LabelObjectState.EndObject at h
  unfold LabelObjectState.afterCommit
  simp only [] at h
  by_cases hccb : cfg.label_type = .ccb
  · rw [if_pos hccb] at h
    rw [if_pos hccb]
    cases hex : ctx.ex? with
    | none => rw [hex] at h; cases h
    | some e =>
      rw [hex] at h
      simp only [] at h
      by_cases hg : ctx.label_object_state.actions.length ≠ 0 ∧
          ctx.label_object_state.probs.length ≠ 0
      · rw [if_pos hg] at h
        rw [if_pos hg]
        by_cases hl : ctx.label_object_state.actions.length ≠
            ctx.label_object_state.probs.length
        · rw [if_pos hl] at h
          cases h
        · rw [if_neg hl] at h
          injection h with h1 h2
          subst h2
          exact ⟨h1.symm, rfl, rfl, List.length_set _ _ _, fun _ => ⟨e, rfl⟩⟩
      · rw [if_neg hg] at h
        rw [if_neg hg]
        injection h with h1 h2
        subst h2
        exact ⟨h1.symm, rfl, rfl, List.length_set _ _ _, fun _ => ⟨e, rfl⟩⟩
  rw [if_neg hccb] at h
  rw [if_neg hccb]
  by_cases hsl : cfg.label_type = .slates
  · rw [if_pos hsl] at h
    rw [if_pos hsl]
    by_cases hg : ctx.label_object_state.actions.length ≠ 0 ∧
        ctx.label_object_state.probs.length ≠ 0
    · rw [if_pos hg] at h
      rw [if_pos hg]
      by_cases hl : ctx.label_object_state.actions.length ≠
          ctx.label_object_state.probs.length
      · rw [if_pos hl] at h
        cases h
      · rw [if_neg hl] at h
        cases hex : ctx.ex? with
        | none => rw [hex] at h; cases h
        | some e =>
          rw [hex] at h
          injection h with h1 h2
          subst h2
          exact ⟨h1.symm, rfl, rfl, List.length_set _ _ _, fun hh => absurd hh hccb⟩
    · rw [if_neg hg] at h
      rw [if_neg hg]
      injection h with h1 h2
      subst h2
      exact ⟨h1.symm, rfl, rfl, rfl, fun hh => absurd hh hccb⟩
  rw [if_neg hsl] at h
  rw [if_neg hsl]
  by_cases hcb : ctx.label_object_state.found_cb = true
  · rw [if_pos hcb] at h
    rw [if_pos hcb]
    cases hex : ctx.ex? with
    | none => rw [hex] at h; cases h
    | some e =>
      rw [hex] at h
      injection h with h1 h2
      subst h2
      exact ⟨h1.symm, rfl, rfl, List.length_set _ _ _, fun hh => absurd hh hccb⟩
  rw [if_neg hcb] at h
  rw [if_neg hcb]
  by_cases hcc : ctx.label_object_state.found_cb_continuous = true
  · rw [if_pos hcc] at h
    rw [if_pos hcc]
    cases hex : ctx.ex? with
    | none => rw [hex] at h; cases h
    | some e =>
      rw [hex] at h
      injection h with h1 h2
      subst h2
      exact ⟨h1.symm, rfl, rfl, List.length_set _ _ _, fun hh => absurd hh hccb⟩
  rw [if_neg hcc] at h
  rw [if_neg hcc]
  by_cases hf : ctx.label_object_state.found = true
  · rw [if_pos hf] at h
    rw [if_pos hf]
    cases hex : ctx.ex? with
    | none => rw [hex] at h; cases h
    | some e =>
      rw [hex] at h
      injection h with h1 h2
      subst h2
      exact ⟨h1.symm, rfl, rfl, rfl, fun hh => absurd hh hccb⟩
  rw [if_neg hf] at h
  rw [if_neg hf]
  injection h with h1 h2
  subst h2
  exact ⟨h1.symm, rfl, rfl, rfl, fun hh => absurd hh hccb⟩

lemma ex?_of_same {F : Type} (ctx c : JsonContext F) (e : LabeledExample F)
    (h : ctx.ex? = some e) (h1 : c.ex = ctx.ex) (h2 : c.examples.length = ctx.examples.length) :
    ∃ e1, c.ex? = some e1 := by
  unfold JsonContext.ex? at *
  rw [List.get?_eq_getElem?] at h
  have hlt : ctx.ex < ctx.examples.length := by
    by_contra hge
    rw [List.getElem?_eq_none (by omega)] at h
    cases h
  rw [List.get?_eq_getElem?, h1, List.getElem?_eq_getElem (by rw [h2]; exact hlt)]
  exact ⟨_, rfl⟩

lemma ret_setEx_eq {F : Type} (r : Option BaseState) (c : JsonContext F)
    (e x : LabeledExample F) (y : LabelObjectState F) (hex : c.ex? = some e) (hx : x = e)
    (hy : y = c.label_object_state) :
    Handled.ret r { c.setEx x with label_object_state := y } = Handled.ret r c := by
  subst hx hy
  rw [setEx_of_ex? c x hex]

/-- Under ccb a commit with nothing in the included-action list and one of the two other
lists empty returns the context as it is. -/
lemma EndObject_ccb_idle {F : Type} (ops : FloatOps F) (cfg : JsonConfig F)
    (c : JsonContext F) (e : LabeledExample F) (hccb : cfg.label_type = .ccb)
    (hex : c.ex? = some e) (hinc : c.label_object_state.inc = [])
    (hg : ¬(c.label_object_state.actions.length ≠ 0 ∧ c.label_object_state.probs.length ≠ 0)) :
    LabelObjectState.EndObject ops cfg c = .ret c.label_object_state.return_state c := by
  unfold LabelObjectState.EndObject
  simp only []
  rw [if_pos hccb, hex]
  simp only []
  rw [if_neg hg]
  refine ret_setEx_eq _ c e _ _ hex ?_ ?_
  · rw [hinc, List.append_nil]
  · rw [← hinc]

/-- Under slates a commit with one of the two lists empty returns the context as it is. -/
lemma EndObject_slates_idle {F : Type} (ops : FloatOps F) (cfg : JsonConfig F)
    (c : JsonContext F) (hccb : cfg.label_type ≠ .ccb) (hsl : cfg.label_type = .slates)
    (hg : ¬(c.label_object_state.actions.length ≠ 0 ∧ c.label_object_state.probs.length ≠ 0)) :
    LabelObjectState.EndObject ops cfg c = .ret c.label_object_state.return_state c := by
  unfold LabelObjectState.EndObject
  simp only []
  rw [if_neg hccb, if_pos hsl, if_neg hg]

/-- Under the other label types a commit with none of the three flags set returns the
context as it is. -/
lemma EndObject_flags_idle {F : Type} (ops : FloatOps F) (cfg : JsonConfig F)
    (c : JsonContext F) (hccb : cfg.label_type ≠ .ccb) (hsl : cfg.label_type ≠ .slates)
    (h1 : c.label_object_state.found_cb = false)
    (h2 : c.label_object_state.found_cb_continuous = false)
    (h3 : c.label_object_state.found = false) :
    LabelObjectState.EndObject ops cfg c = .ret c.label_object_state.return_state c := by
  unfold LabelObjectState.EndObject
  simp only []
  rw [if_neg hccb, if_neg hsl, if_neg (by rw [h1]; exact Bool.false_ne_true),
    if_neg (by rw [h2]; exact Bool.false_ne_true), if_neg (by rw [h3]; exact Bool.false_ne_true)]

lemma afterCommit_return_state {F : Type} (ops : FloatOps F) (cfg : JsonConfig F)
    (st : LabelObjectState F) :
    (LabelObjectState.afterCommit ops cfg st).return_state = st.return_state := by
  unfold LabelObjectState.afterCommit
  split_ifs <;> rfl

lemma afterCommit_lists {F : Type} (ops : FloatOps F) (cfg : JsonConfig F)
    (st : LabelObjectState F) (h : cfg.label_type = .ccb ∨ cfg.label_type = .slates) :
    ¬((LabelObjectState.afterCommit ops cfg st).actions.length ≠ 0 ∧
      (LabelObjectState.afterCommit ops cfg st).probs.length ≠ 0) ∧
    (cfg.label_type = .ccb → (LabelObjectState.afterCommit ops cfg st).inc = []) := by
  unfold LabelObjectState.afterCommit
  by_cases hccb : cfg.label_type = .ccb
  · rw [if_pos hccb]
    by_cases hg : st.actions.length ≠ 0 ∧ st.probs.length ≠ 0
    · rw [if_pos hg]
      exact ⟨fun hh => hh.1 rfl, fun _ => rfl⟩
    · rw [if_neg hg]
      exact ⟨hg, fun _ => rfl⟩
  · rw [if_neg hccb]
    have hsl : cfg.label_type = .slates := h.resolve_left hccb
    rw [if_pos hsl]
    by_cases hg : st.actions.length ≠ 0 ∧ st.probs.length ≠ 0
    · rw [if_pos hg]
      exact ⟨fun hh => hh.1 rfl, fun hh => absurd hh hccb⟩
    · rw [if_neg hg]
      exact ⟨hg, fun hh => absurd hh hccb⟩

lemma afterCommit_flags {F : Type} (ops : FloatOps F) (cfg : JsonConfig F)
    (st : LabelObjectState F) (hccb : cfg.label_type ≠ .ccb) (hsl : cfg.label_type ≠ .slates)
    (h : st.flagCount ≤ 1) :
    (LabelObjectState.afterCommit ops cfg st).found = false ∧
    (LabelObjectState.afterCommit ops cfg st).found_cb = false ∧
    (LabelObjectState.afterCommit ops cfg st).found_cb_continuous = false := by
  unfold LabelObjectState.afterCommit
  unfold LabelObjectState.flagCount at h
  rw [if_neg hccb, if_neg hsl]
  cases h1 : st.found <;> cases h2 : st.found_cb <;> cases h3 : st.found_cb_continuous <;>
    simp_all

/-- C31, amended. When `LabelObjectState::EndObject` returns, it returns the state saved at
the start of the label object, and of the scratch it has cleared the part that the branch
taken committed (`LabelObjectState.afterCommit`): under ccb the included-action list, and
the action and probability lists with the cb element when both lists held something, the
flag `found_cb` being left as it was; under slates the two lists and the cb element under
that condition; under any other label type the first that was set of `found_cb` (with the
cb element), `found_cb_continuous` (with the continuous element) and `found`. Everything
else is left as accumulated. A second `EndObject` immediately after returns the same state
and leaves the context as it is, so commits nothing, under ccb, under slates, and under the
other label types when at most one of the three flags was set; in that last case the three
flags are then clear. A flag that the commit left set is not cleared at the start of the
next label object: `LabelObjectState::StartObject` leaves the three flags as they are; they
are cleared together by `LabelObjectState::init`, which `VWReaderHandler::init` runs when
the parse of a line starts. -/
theorem label_commit_clears_committed_part {F : Type} (ops : FloatOps F) (cfg : JsonConfig F)
    (ctx : JsonContext F) (n : Option BaseState) (c : JsonContext F)
    (h : LabelObjectState.EndObject ops cfg ctx = .ret n c) :
    n = ctx.label_object_state.return_state ∧
    c.label_object_state = LabelObjectState.afterCommit ops cfg ctx.label_object_state ∧
    ((cfg.label_type = .ccb ∨ cfg.label_type = .slates ∨
        ctx.label_object_state.flagCount ≤ 1) →
      LabelObjectState.EndObject ops cfg c = .ret n c) ∧
    (cfg.label_type ≠ .ccb → cfg.label_type ≠ .slates →
      ctx.label_object_state.flagCount ≤ 1 →
      c.label_object_state.found = false ∧ c.label_object_state.found_cb = false ∧
        c.label_object_state.found_cb_continuous = false) ∧
    (cfg.label_type = .ccb →
      c.label_object_state.found_cb = ctx.label_object_state.found_cb ∧
      c.label_object_state.inc = []) ∧
    (∀ (ctx0 : JsonContext F) (n0 : Option BaseState) (c0 : JsonContext F),
      LabelObjectState.StartObject cfg ctx0 = .ret n0 c0 →
      c0.label_object_state.found = ctx0.label_object_state.found ∧
      c0.label_object_state.found_cb = ctx0.label_object_state.found_cb ∧
      c0.label_object_state.found_cb_continuous =
        ctx0.label_object_state.found_cb_continuous) ∧
    (∀ (examples : List (LabeledExample F)) (stream : List Char)
        (dedup : Option (Nat → Option (LabeledExample F)))
        (data : DecisionServiceInteraction F),
      (VWReaderHandler.init ops cfg examples stream dedup data).label_object_state.found =
        false ∧
      (VWReaderHandler.init ops cfg examples stream dedup data).label_object_state.found_cb =
        false ∧
      (VWReaderHandler.init ops cfg examples stream dedup
        data).label_object_state.found_cb_continuous = false) := by
  obtain ⟨hn, hst, hex, hlen, hsome⟩ := EndObject_scratch ops cfg ctx n c h
  have hret : c.label_object_state.return_state = n := by
    rw [hst, afterCommit_return_state, hn]
  refine ⟨hn, hst, fun hcase => ?_, fun hccb hsl hcount => ?_, fun hccb => ?_,
    fun ctx0 n0 c0 h0 => ?_, fun examples stream dedup data => ⟨rfl, rfl, rfl⟩⟩
  · rw [← hret]
    by_cases hccb : cfg.label_type = .ccb
    · obtain ⟨e, he⟩ := hsome hccb
      obtain ⟨e1, he1⟩ := ex?_of_same ctx c e he hex hlen
      have hl := afterCommit_lists ops cfg ctx.label_object_state (Or.inl hccb)
      rw [← hst] at hl
      exact EndObject_ccb_idle ops cfg c e1 hccb he1 (hl.2 hccb) hl.1
    by_cases hsl : cfg.label_type = .slates
    · have hl := afterCommit_lists ops cfg ctx.label_object_state (Or.inr hsl)
      rw [← hst] at hl
      exact EndObject_slates_idle ops cfg c hccb hsl hl.1
    have hcount : ctx.label_object_state.flagCount ≤ 1 := by
      rcases hcase with hh | hh | hh
      · exact absurd hh hccb
      · exact absurd hh hsl
      · exact hh
    have hf := afterCommit_flags ops cfg ctx.label_object_state hccb hsl hcount
    rw [← hst] at hf
    exact EndObject_flags_idle ops cfg c hccb hsl hf.2.1 hf.2.2 hf.1
  · have hf := afterCommit_flags ops cfg ctx.label_object_state hccb hsl hcount
    rw [← hst] at hf
    exact hf
  · rw [hst]
    unfold LabelObjectState.afterCommit
    rw [if_pos hccb]
    split <;> exact ⟨rfl, rfl⟩
  · unfold LabelObjectState.StartObject at h0
    split at h0
    · cases h0
    · simp only [] at h0
      split at h0
      · cases h0
        exact ⟨rfl, rfl, rfl⟩
      · cases h0
        exact ⟨rfl, rfl, rfl⟩

/-- Witness for C31, amended: under the cb label type with a cost found, the commit clears
the flag and the cb element, and a second commit changes nothing. -/
theorem label_commit_clears_committed_part_witness :
    LabelObjectState.EndObject sampleOps (sampleJson .cb) sampleCostFoundContext =
      .ret (some .default_state) sampleCostCommitted ∧
    sampleCostCommitted.label_object_state.found_cb = false ∧
    (sampleCostCommitted.examples.map fun e => e.l.cb.costs) =
      [[(sampleJson .cb).cb_class_default]] ∧
    LabelObjectState.EndObject sampleOps (sampleJson .cb) sampleCostCommitted =
      .ret (some .default_state) sampleCostCommitted :=
  ⟨by rfl, by rfl, by rfl,
    (label_commit_clears_committed_part sampleOps (sampleJson .cb) sampleCostFoundContext
      (some .default_state) sampleCostCommitted (by rfl)).2.2.1
      (Or.inr (Or.inr (by decide)))⟩

/-- C31, counterexample. Under the cb label type the label object
`\x7b"Label":2,"Cost":1\x7d` sets both `found` and `found_cb`; its close commits the cost
and clears `found_cb` only, so that `found` is still set, and a second `EndObject` right
after commits again: it counts the label. Under ccb a commit with one action and no
probability in the lists leaves the action list and the flag `found_cb` as they were. In
the line of `staleFlagTokens` the flag `found` that the label object of the first action
left set is still set when the empty label object of the second action closes, and that
close counts a label. -/
theorem label_commit_keeps_scratch :
    (parseTokens sampleOps sampleConv (sampleJson .cb) labelAndCostTokens
      (sampleJsonContext .cb)).isFinished = true ∧
    sampleLabelAndCostContext.label_object_state.found = true ∧
    sampleLabelAndCostContext.counted_labels = [] ∧
    (LabelObjectState.EndObject sampleOps (sampleJson .cb)
      sampleLabelAndCostContext).ctx?.map (fun c => c.counted_labels) = some [some 2] ∧
    (LabelObjectState.EndObject sampleOps (sampleJson .ccb)
      sampleCcbScratchContext).ctx?.map
        (fun c => (c.label_object_state.actions, c.label_object_state.found_cb,
          c.label_object_state.inc)) = some ([1], true, []) ∧
    (parseTokens sampleOps sampleConv (sampleJson .cb) (staleFlagTokens.take 12)
      (sampleJsonContext .cb)).ctx?.map
        (fun c => (c.counted_labels.length, c.label_object_state.found)) = some (0, true) ∧
    (parseTokens sampleOps sampleConv (sampleJson .cb) (staleFlagTokens.take 16)
      (sampleJsonContext .cb)).ctx?.map
        (fun c => (c.counted_labels.length, c.label_object_state.found)) = some (1, false) ∧
    (parseTokens sampleOps sampleConv (sampleJson .cb) staleFlagTokens
      (sampleJsonContext .cb)).isFinished = true := by
  refine ⟨by rfl, by rfl, by rfl, by rfl, by rfl, by rfl, by rfl, by rfl⟩

/-! ## The features of a `_text` value (C33) -/

/-- The runs of `str` when `cur`, already escaped, stands in front of its first piece. -/
lemma textRuns_aux {F : Type} (ops : FloatOps F) (cfg : JsonConfig F) (str : List Char) :
    ∀ (cur : List Char) (ctx : JsonContext F),
      TextState.loop ops cfg str cur ctx =
        addTextFeatures ops cfg
          ((((str.splitOnP (fun c => c == ' ' || c == '\t')).map
            (fun r => r.map escapeTextChar)).modifyHead (fun r => cur ++ r)).filter
              (fun r => !r.isEmpty)) ctx := by
  induction str with
  | nil =>
    intro cur ctx
    rw [TextState.loop, List.splitOnP_nil]
    cases cur with
    | nil => rfl
    | cons a as =>
      simp only [List.length_cons, Nat.succ_pos, gt_iff_lt, if_true, List.map_cons, List.map_nil,
        List.modifyHead_cons, List.append_nil, List.filter_cons, List.isEmpty_cons,
        Bool.not_false, List.filter_nil, addTextFeatures, Nat.zero_lt_succ]
      cases ctx.AddFeatureStr ops cfg (a :: as) <;> rfl
  | cons c cs ih =>
    intro cur ctx
    rw [TextState.loop, List.splitOnP_cons]
    by_cases hsep : c = ' ' ∨ c = '\t'
    · have hp : (c == ' ' || c == '\t') = true := by
        rcases hsep with h | h <;> subst h <;> decide
      rw [if_pos hsep, if_pos hp]
      simp only [List.map_cons, List.map_nil, List.modifyHead_cons, List.append_nil,
        List.filter_cons]
      have hrest := fun ctx1 => ih [] ctx1
      have hid : ∀ l : List (List Char), l.modifyHead (fun r => [] ++ r) = l := by
        intro l
        cases l <;> rfl
      simp only [hid] at hrest
      cases cur with
      | nil =>
        simp only [List.length_nil, gt_iff_lt, lt_self_iff_false, if_false, List.isEmpty_nil,
          Bool.not_true, Bool.false_eq_true]
        exact hrest ctx
      | cons a as =>
        simp only [List.length_cons, gt_iff_lt, Nat.zero_lt_succ, if_true, List.isEmpty_cons,
          Bool.not_false, addTextFeatures]
        cases ctx.AddFeatureStr ops cfg (a :: as) with
        | none => rfl
        | some ctx1 => exact hrest ctx1
    · have hp : (c == ' ' || c == '\t') = false := by
        rw [Bool.or_eq_false_iff]
        exact ⟨beq_false_of_ne (fun h => hsep (Or.inl h)),
          beq_false_of_ne (fun h => hsep (Or.inr h))⟩
      rw [if_neg hsep, hp]
      simp only [Bool.false_eq_true, if_false]
      have hne := List.splitOnP_ne_nil (fun c => c == ' ' || c == '\t') cs
      have hmod : ∀ x : Char, (((cs.splitOnP (fun c => c == ' ' || c == '\t')).modifyHead
          (List.cons c)).map (fun r => r.map escapeTextChar)).modifyHead (fun r => cur ++ r) =
          ((cs.splitOnP (fun c => c == ' ' || c == '\t')).map
            (fun r => r.map escapeTextChar)).modifyHead
              (fun r => (cur ++ [escapeTextChar c]) ++ r) := by
        intro _
        cases hsp : cs.splitOnP (fun c => c == ' ' || c == '\t') with
        | nil => exact absurd hsp hne
        | cons r rs =>
          simp only [List.modifyHead_cons, List.map_cons, List.append_assoc,
            List.singleton_append]
      rw [hmod c]
      by_cases hesc : c = ':' ∨ c = '|'
      · rw [if_pos hesc, ih]
        unfold escapeTextChar
        rw [if_pos hesc]
      · rw [if_neg hesc, ih]
        unfold escapeTextChar
        rw [if_neg hesc]

/-- No piece of a split holds a separator. -/
lemma splitOnP_pieces {α : Type} (p : α → Bool) (xs : List α) :
    ∀ r ∈ xs.splitOnP p, ∀ x ∈ r, p x = false := by
  induction xs with
  | nil =>
    intro r hr x hx
    rw [List.splitOnP_nil, List.mem_singleton] at hr
    subst hr
    cases hx
  | cons c cs ih =>
    intro r hr x hx
    rw [List.splitOnP_cons] at hr
    by_cases hp : p c = true
    · rw [if_pos hp, List.mem_cons] at hr
      rcases hr with h | h
      · subst h
        cases hx
      · exact ih r h x hx
    · rw [if_neg hp] at hr
      cases hsp : cs.splitOnP p with
      | nil => exact absurd hsp (List.splitOnP_ne_nil p cs)
      | cons r0 rs =>
        rw [hsp, List.modifyHead_cons, List.mem_cons] at hr
        rcases hr with h | h
        · subst h
          rw [List.mem_cons] at hx
          rcases hx with h1 | h1
          · subst h1
            exact Bool.eq_false_iff.mpr hp
          · exact ih r0 (by rw [hsp]; exact List.mem_cons_self _ _) x h1
        · exact ih r (by rw [hsp]; exact List.mem_cons_of_mem _ h) x hx

lemma modifyHead_nil_append (l : List (List Char)) :
    l.modifyHead (fun r => [] ++ r) = l := by
  cases l <;> rfl

/-- The loop of `TextState::String` adds one feature per run. -/
lemma TextState_loop_runs {F : Type} (ops : FloatOps F) (cfg : JsonConfig F) (str : List Char)
    (ctx : JsonContext F) :
    TextState.loop ops cfg str [] ctx = addTextFeatures ops cfg (textRuns str) ctx := by
  rw [textRuns_aux, modifyHead_nil_append]
  unfold textRuns
  congr 1
  rw [List.filter_map]
  congr 1
  apply List.filter_congr
  intro r _
  cases r <;> rfl

lemma addTextFeatures_same {F : Type} (ops : FloatOps F) (cfg : JsonConfig F)
    (rs : List (List Char)) :
    ∀ ctx : JsonContext F, InScope ctx →
      ∃ c, addTextFeatures ops cfg rs ctx = some c ∧ SameObject ctx c := by
  induction rs with
  | nil => exact fun ctx _ => ⟨ctx, rfl, SameObject.refl_object ctx⟩
  | cons r rs ih =>
    intro ctx hs
    obtain ⟨c1, h1, s1⟩ := AddFeatureStr_same ops cfg ctx hs r
    obtain ⟨c2, h2, s2⟩ := ih c1 (hs.of_same s1)
    refine ⟨c2, ?_, s1.trans_object s2⟩
    rw [addTextFeatures, h1]
    exact h2

/-- C33. For every string value, `TextState::String` on a context with a current namespace
does what adding, in order of appearance, one feature per maximal run of characters that are
neither space nor tab does, the name handed to `Namespace::AddFeature(all, name)` being the
run with every `:` and `|` replaced by `_` (`textRuns`, `addTextFeatures`); empty pieces,
between consecutive separators or at either end, add nothing. The handler returns the
previous state. On a context whose top scope writes into the current example every feature
is stored and the handler returns: the object is the same but for those features. -/
theorem text_adds_one_feature_per_run {F : Type} (ops : FloatOps F) (cfg : JsonConfig F)
    (ctx : JsonContext F) (str : List Char) :
    (ctx.CurrentNamespace ≠ none →
      TextState.String ops cfg ctx str =
        Handled.ofOption ctx.previous_state (addTextFeatures ops cfg (textRuns str) ctx)) ∧
    (InScope ctx → ∃ c, addTextFeatures ops cfg (textRuns str) ctx = some c ∧
      TextState.String ops cfg ctx str = .ret ctx.previous_state c ∧ SameObject ctx c) ∧
    (∀ run ∈ textRuns str, run ≠ [] ∧ ∀ ch ∈ run, ch ≠ ' ' ∧ ch ≠ '\t' ∧ ch ≠ ':' ∧ ch ≠ '|') := by
  have hmain : ctx.CurrentNamespace ≠ none →
      TextState.String ops cfg ctx str =
        Handled.ofOption ctx.previous_state (addTextFeatures ops cfg (textRuns str) ctx) := by
    intro hns
    unfold TextState.String
    cases hc : ctx.CurrentNamespace with
    | none => exact absurd hc hns
    | some ns =>
      simp only []
      rw [TextState_loop_runs]
  refine ⟨hmain, fun hs => ?_, fun run hrun => ?_⟩
  · obtain ⟨c, hc, hsame⟩ := addTextFeatures_same ops cfg (textRuns str) ctx hs
    refine ⟨c, hc, ?_, hsame⟩
    obtain ⟨ns, hns, _⟩ := hs.scope
    rw [hmain (by unfold JsonContext.CurrentNamespace; rw [hns]; exact fun h => by cases h), hc]
    rfl
  · unfold textRuns at hrun
    rw [List.mem_map] at hrun
    obtain ⟨r, hr, rfl⟩ := hrun
    rw [List.mem_filter] at hr
    obtain ⟨hr1, hr2⟩ := hr
    refine ⟨?_, fun ch hch => ?_⟩
    · cases r with
      | nil => cases hr2
      | cons a as => exact fun h => by cases h
    · rw [List.mem_map] at hch
      obtain ⟨x, hx, rfl⟩ := hch
      have hsep := splitOnP_pieces _ str r hr1 x hx
      rw [Bool.or_eq_false_iff] at hsep
      have h1 : x ≠ ' ' := fun h => by rw [h] at hsep; exact absurd hsep.1 (by decide)
      have h2 : x ≠ '\t' := fun h => by rw [h] at hsep; exact absurd hsep.2 (by decide)
      unfold escapeTextChar
      by_cases hesc : x = ':' ∨ x = '|'
      · rw [if_pos hesc]
        decide
      · rw [if_neg hesc]
        exact ⟨h1, h2, fun h => hesc (Or.inl h), fun h => hesc (Or.inr h)⟩

/-- C33 at a concrete input: the value ` a:b  c|d` followed by a tab has the runs `a_b` and
`c_d`, and the handler returns the previous state. -/
theorem text_adds_one_feature_per_run_witness :
    textRuns " a:b  c|d\t".toList = ["a_b".toList, "c_d".toList] ∧
    TextState.String sampleOps (sampleJson .simple) sampleOpenContext " a:b  c|d\t".toList =
      Handled.ofOption sampleOpenContext.previous_state
        (addTextFeatures sampleOps (sampleJson .simple) (textRuns " a:b  c|d\t".toList)
          sampleOpenContext) ∧
    (TextState.String sampleOps (sampleJson .simple) sampleOpenContext
      " a:b  c|d\t".toList).next? = sampleOpenContext.previous_state ∧
    ((TextState.String sampleOps (sampleJson .simple) sampleOpenContext
      " a:b  c|d\t".toList).ctx?.map fun c =>
        c.examples.map fun e => ((e.feature_space 32).indicies.length)) = some [2] :=
  ⟨by decide,
    (text_adds_one_feature_per_run sampleOps (sampleJson .simple) sampleOpenContext
      " a:b  c|d\t".toList).1 (by decide),
    by rfl, by rfl⟩

/-! ## The elements of a numeric array (C32) -/

/-- `Namespace::AddFeature` reads neither the states nor the running hash of the Array
state. -/
lemma AddFeature_inArray {F : Type} (ops : FloatOps F) (cfg : JsonConfig F)
    (c : JsonContext F) (f : F) (i : Nat) (name : List Char) (h : Nat)
    (p : Option BaseState) (s : BaseState) :
    ({ c with array_state_array_hash := h, previous_state := p, current_state := s } :
        JsonContext F).AddFeature ops cfg f i name =
      (c.AddFeature ops cfg f i name).map fun c1 =>
        { c1 with array_state_array_hash := h, previous_state := p, current_state := s } := by
  unfold JsonContext.AddFeature JsonContext.pushFeature
  simp only []
  cases c.namespace_path.getLast? with
  | none => rfl
  | some ns =>
    simp only []
    by_cases hz : ops.isZero f = true
    · rw [if_pos hz, if_pos hz]
      rfl
    · rw [if_neg hz, if_neg hz]
      cases c.examples.get? ns.ftrs with
      | none => rfl
      | some e => rfl

lemma offerArrayFeatures_inArray {F : Type} (ops : FloatOps F) (cfg : JsonConfig F) (b : Nat)
    (fs : List F) :
    ∀ (i : Nat) (c : JsonContext F) (h : Nat) (p : Option BaseState) (s : BaseState),
      offerArrayFeatures ops cfg b fs i
          { c with array_state_array_hash := h, previous_state := p, current_state := s } =
        (offerArrayFeatures ops cfg b fs i c).map fun c1 =>
          { c1 with array_state_array_hash := h, previous_state := p, current_state := s } := by
  induction fs with
  | nil => exact fun _ _ _ _ _ => rfl
  | cons f fs ih =>
    intro i c h p s
    rw [offerArrayFeatures, offerArrayFeatures]
    show (match c.CurrentNamespace with
      | none => none
      | some ns => _) = _
    cases hns : c.CurrentNamespace with
    | none => rfl
    | some ns =>
      simp only []
      rw [AddFeature_inArray]
      cases c.AddFeature ops cfg f ((b + i) % 2 ^ 64)
        (if cfg.audit then
          ['['] ++ (Nat.repr (((b + i) % 2 ^ 64 + 2 ^ 64 - ns.namespace_hash % 2 ^ 64)
            % 2 ^ 64)).toList ++ [']']
        else []) with
      | none => rfl
      | some c1 => exact ih (i + 1) c1 h p s

lemma AddFeature_keeps {F : Type} (ops : FloatOps F) (cfg : JsonConfig F)
    (c c1 : JsonContext F) (f : F) (i : Nat) (name : List Char)
    (h : c.AddFeature ops cfg f i name = some c1) :
    c1.array_state_array_hash = c.array_state_array_hash ∧
    c1.current_state = c.current_state ∧ c1.previous_state = c.previous_state := by
  have key := AddFeature_inArray ops cfg c f i name c.array_state_array_hash c.previous_state
    c.current_state
  have key2 : c.AddFeature ops cfg f i name =
      (c.AddFeature ops cfg f i name).map fun c1 =>
        { c1 with array_state_array_hash := c.array_state_array_hash,
                  previous_state := c.previous_state, current_state := c.current_state } := key
  rw [h] at key2
  injection key2 with key3
  refine ⟨?_, ?_, ?_⟩
  · exact (congrArg JsonContext.array_state_array_hash key3).trans rfl
  · exact (congrArg JsonContext.current_state key3).trans rfl
  · exact (congrArg JsonContext.previous_state key3).trans rfl

section
variable {F : Type} (ops : FloatOps F) (cv : FloatConv F) (cfg : JsonConfig F)

/-- The elements of a numeric array, from the position `i` on. -/
lemma array_elements_run (b : Nat) (elems : List (Token F))
    (hel : ∀ t ∈ elems, isNumberOrNull t = true) :
    ∀ (i : Nat) (c : JsonContext F), c.current_state = .array_state →
      c.array_state_array_hash = (b + i) % 2 ^ 64 →
      (∀ c1, offerArrayFeatures ops cfg b (numericValues cv elems) i c = some c1 →
        Runs ops cv cfg elems c
          (c1.inArray ((b + (i + (numericValues cv elems).length)) % 2 ^ 64)
            (if elems.isEmpty then c.previous_state else some .array_state))) ∧
      (offerArrayFeatures ops cfg b (numericValues cv elems) i c = none →
        ∀ post, parseTokens ops cv cfg (elems ++ post) c = .undefined) := by
  induction elems with
  | nil =>
    intro i c hstate hhash
    refine ⟨fun c1 h1 => ?_, fun h1 => by cases h1⟩
    injection h1 with h1
    subst h1
    have hc : c.inArray ((b + (i + (numericValues cv ([] : List (Token F))).length)) % 2 ^ 64)
        (if ([] : List (Token F)).isEmpty then c.previous_state else some .array_state) = c := by
      show c.inArray ((b + (i + 0)) % 2 ^ 64) c.previous_state = c
      rw [Nat.add_zero, ← hhash]
      unfold JsonContext.inArray
      rw [← hstate]
    rw [hc]
    exact Runs.nil_run ops cv cfg c
  | cons t ts ih =>
    intro i c hstate hhash
    have hts : ∀ t ∈ ts, isNumberOrNull t = true := fun t ht => hel t (List.mem_cons_of_mem _ ht)
    have hif : (if (t :: ts).isEmpty then c.previous_state else some BaseState.array_state) =
        some .array_state := rfl
    rw [hif]
    -- the step over a null
    have hnull : t = .Null →
        (∀ c1, offerArrayFeatures ops cfg b (numericValues cv (t :: ts)) i c = some c1 →
          Runs ops cv cfg (t :: ts) c
            (c1.inArray ((b + (i + (numericValues cv (t :: ts)).length)) % 2 ^ 64)
              (some .array_state))) ∧
        (offerArrayFeatures ops cfg b (numericValues cv (t :: ts)) i c = none →
          ∀ post, parseTokens ops cv cfg ((t :: ts) ++ post) c = .undefined) := by
      intro ht
      subst ht
      have htok : VWReaderHandler.token ops cv cfg c .Null = .ret (some .array_state) c := by
        rw [token_of_state ops cv cfg c .array_state hstate _ (fun _ _ h => by cases h)]
        rfl
      have hoff := offerArrayFeatures_inArray ops cfg b (numericValues cv ts) i c
        c.array_state_array_hash (some c.current_state) .array_state
      have hoff2 : offerArrayFeatures ops cfg b (numericValues cv ts) i
          { c with previous_state := some c.current_state, current_state := .array_state } =
          (offerArrayFeatures ops cfg b (numericValues cv ts) i c).map fun c1 =>
            c1.inArray c.array_state_array_hash (some c.current_state) := hoff
      obtain ⟨ih1, ih2⟩ := ih hts i
        { c with previous_state := some c.current_state, current_state := .array_state } rfl
        hhash
      rw [show numericValues cv (Token.Null :: ts) = numericValues cv ts from rfl]
      refine ⟨fun c1 h1 => ?_, fun h1 post => ?_⟩
      · rw [h1] at hoff2
        have hrun := ih1 _ hoff2
        refine Runs.cons_run ops cv cfg htok ?_
        have heq : (c1.inArray c.array_state_array_hash (some c.current_state)).inArray
            ((b + (i + (numericValues cv ts).length)) % 2 ^ 64)
            (if ts.isEmpty then some c.current_state else some .array_state) =
            c1.inArray ((b + (i + (numericValues cv ts).length)) % 2 ^ 64)
              (some .array_state) := by
          rw [hstate, ite_self]
          rfl
        rw [← heq]
        exact hrun
      · rw [h1] at hoff2
        rw [List.cons_append, parseTokens_cons_ret ops cv cfg c c _ _ .array_state htok]
        exact ih2 hoff2 post
    -- the step over a number
    have hnum : ∀ f : F, VWReaderHandler.token ops cv cfg c t = ArrayState.Float ops cfg c f →
        numericValues cv (t :: ts) = f :: numericValues cv ts →
        (∀ c1, offerArrayFeatures ops cfg b (numericValues cv (t :: ts)) i c = some c1 →
          Runs ops cv cfg (t :: ts) c
            (c1.inArray ((b + (i + (numericValues cv (t :: ts)).length)) % 2 ^ 64)
              (some .array_state))) ∧
        (offerArrayFeatures ops cfg b (numericValues cv (t :: ts)) i c = none →
          ∀ post, parseTokens ops cv cfg ((t :: ts) ++ post) c = .undefined) := by
      intro f htok hvals
      rw [hvals, offerArrayFeatures]
      unfold ArrayState.Float at htok
      cases hns : c.CurrentNamespace with
      | none =>
        rw [hns] at htok
        refine ⟨fun c1 h1 => (by cases h1), fun _ post => ?_⟩
        rw [List.cons_append, parseTokens, htok]
      | some ns =>
        rw [hns] at htok
        simp only [] at htok ⊢
        rw [hhash] at htok
        cases hadd : c.AddFeature ops cfg f ((b + i) % 2 ^ 64)
          (if cfg.audit then
            ['['] ++ (Nat.repr (((b + i) % 2 ^ 64 + 2 ^ 64 - ns.namespace_hash % 2 ^ 64)
              % 2 ^ 64)).toList ++ [']']
          else []) with
        | none =>
          rw [hadd] at htok
          refine ⟨fun c1 h1 => (by cases h1), fun _ post => ?_⟩
          rw [List.cons_append, parseTokens, htok]
        | some c2 =>
          rw [hadd] at htok
          simp only [] at htok ⊢
          obtain ⟨k1, k2, k3⟩ := AddFeature_keeps ops cfg c c2 f _ _ hadd
          have hnext : (c2.array_state_array_hash + 1) % 2 ^ 64 = (b + (i + 1)) % 2 ^ 64 := by
            rw [k1, hhash]
            omega
          have hoff := offerArrayFeatures_inArray ops cfg b (numericValues cv ts) (i + 1) c2
            ((c2.array_state_array_hash + 1) % 2 ^ 64) (some c2.current_state) .array_state
          obtain ⟨ih1, ih2⟩ := ih hts (i + 1)
            (c2.inArray ((c2.array_state_array_hash + 1) % 2 ^ 64) (some c2.current_state)) rfl
            hnext
          have hoff2 : offerArrayFeatures ops cfg b (numericValues cv ts) (i + 1)
              (c2.inArray ((c2.array_state_array_hash + 1) % 2 ^ 64) (some c2.current_state)) =
              (offerArrayFeatures ops cfg b (numericValues cv ts) (i + 1) c2).map fun c1 =>
                c1.inArray ((c2.array_state_array_hash + 1) % 2 ^ 64)
                  (some c2.current_state) := hoff
          refine ⟨fun c1 h1 => ?_, fun h1 post => ?_⟩
          · rw [h1] at hoff2
            have hrun := ih1 _ hoff2
            refine Runs.cons_run ops cv cfg htok ?_
            have heq : (c1.inArray ((c2.array_state_array_hash + 1) % 2 ^ 64)
                (some c2.current_state)).inArray
                ((b + (i + 1 + (numericValues cv ts).length)) % 2 ^ 64)
                (if ts.isEmpty then some c2.current_state else some .array_state) =
                c1.inArray ((b + (i + (f :: numericValues cv ts).length)) % 2 ^ 64)
                  (some .array_state) := by
              rw [k2, hstate, ite_self, List.length_cons,
                show i + 1 + (numericValues cv ts).length = i + ((numericValues cv ts).length + 1)
                  by omega]
              rfl
            rw [← heq]
            exact hrun
          · rw [h1] at hoff2
            rw [List.cons_append, parseTokens_cons_ret ops cv cfg c _ _ _ .array_state htok]
            exact ih2 hoff2 post
    have ht := hel t (List.mem_cons_self _ _)
    cases t with
    | Null => exact hnull rfl
    | Float v =>
      refine hnum v ?_ rfl
      rw [token_of_state ops cv cfg c .array_state hstate _ (fun _ _ h => by cases h)]
      rfl
    | Uint v =>
      refine hnum (cv.ofUInt v) ?_ rfl
      rw [token_of_state ops cv cfg c .array_state hstate _ (fun _ _ h => by cases h)]
      rfl
    | _ => cases ht

lemma offerArrayFeatures_same (b : Nat) (fs : List F) :
    ∀ (i : Nat) (c : JsonContext F), InScope c →
      ∃ c1, offerArrayFeatures ops cfg b fs i c = some c1 ∧ SameObject c c1 := by
  induction fs with
  | nil => exact fun _ c _ => ⟨c, rfl, SameObject.refl_object c⟩
  | cons f fs ih =>
    intro i c hs
    obtain ⟨ns, hns, _⟩ := hs.scope
    obtain ⟨c1, h1, s1⟩ := AddFeature_same ops cfg c hs f ((b + i) % 2 ^ 64)
      (if cfg.audit then
        ['['] ++ (Nat.repr (((b + i) % 2 ^ 64 + 2 ^ 64 - ns.namespace_hash % 2 ^ 64)
          % 2 ^ 64)).toList ++ [']']
      else [])
    obtain ⟨c2, h2, s2⟩ := ih (i + 1) c1 (hs.of_same s1)
    refine ⟨c2, ?_, s1.trans_object s2⟩
    rw [offerArrayFeatures]
    unfold JsonContext.CurrentNamespace
    rw [hns]
    simp only []
    rw [h1]
    exact h2

end

/-- C32. In the Array state with the running hash `b` (a 64-bit value), a sequence of
elements that are numbers and nulls does what offering the numeric elements in order does,
the `i`-th of them (counting from 0, integers and floats alike, nulls not counted) with its
own value and the hash `b + i` (`offerArrayFeatures`; the sum wraps at 64 bits): the parse
goes on from the context so obtained, in the Array state, with the running hash
`b + n` for `n` numeric elements, so that a null has added nothing and has left the counter
as it was. When an offer has no defined behaviour, so has the parse. On a context whose top
scope writes into the current example every offer is defined. At the start of the array,
`ArrayState::StartArray` pushes the namespace of the last key and captures its hash as
`b`. -/
theorem numeric_array_positional_hash {F : Type} (ops : FloatOps F) (cv : FloatConv F)
    (cfg : JsonConfig F) (ctx : JsonContext F) (elems : List (Token F))
    (hel : ∀ t ∈ elems, isNumberOrNull t = true)
    (hstate : ctx.current_state = .array_state)
    (hb : ctx.array_state_array_hash < 2 ^ 64) :
    (∀ c1, offerArrayFeatures ops cfg ctx.array_state_array_hash (numericValues cv elems) 0
        ctx = some c1 →
      Runs ops cv cfg elems ctx
        (c1.inArray
          ((ctx.array_state_array_hash + (numericValues cv elems).length) % 2 ^ 64)
          (if elems.isEmpty then ctx.previous_state else some .array_state))) ∧
    (offerArrayFeatures ops cfg ctx.array_state_array_hash (numericValues cv elems) 0 ctx =
        none →
      ∀ post, parseTokens ops cv cfg (elems ++ post) ctx = .undefined) ∧
    (InScope ctx → ∃ c1, offerArrayFeatures ops cfg ctx.array_state_array_hash
      (numericValues cv elems) 0 ctx = some c1 ∧ SameObject ctx c1) ∧
    (∀ ctx0 : JsonContext F, ctx0.previous_state ≠ some .array_state →
      ∃ c0 ns, ArrayState.StartArray cfg ctx0 = .ret (some .array_state) c0 ∧
        c0.CurrentNamespace = some ns ∧ ns.name = ctx0.key ∧
        ns.namespace_hash = hash_space_cstr cfg.all ctx0.key ∧
        c0.array_state_array_hash = hash_space_cstr cfg.all ctx0.key) := by
  obtain ⟨h1, h2⟩ := array_elements_run ops cv cfg ctx.array_state_array_hash elems hel 0 ctx
    hstate (by rw [Nat.add_zero, Nat.mod_eq_of_lt hb])
  refine ⟨fun c1 hc1 => ?_, h2, fun hs => offerArrayFeatures_same ops cfg _ _ 0 ctx hs,
    fun ctx0 hprev => ?_⟩
  · have := h1 c1 hc1
    rw [Nat.zero_add] at this
    exact this
  · have hstart : ArrayState.StartArray cfg ctx0 = .ret (some .array_state)
        { ctx0.PushNamespace cfg ctx0.key ctx0.previous_state with
          array_state_array_hash := hash_space_cstr cfg.all ctx0.key } := by
      unfold ArrayState.StartArray
      rw [if_neg hprev]
    exact ⟨_, _, hstart, getLast?_append_singleton ctx0.namespace_path _, rfl, rfl, rfl⟩

/-- C32 at a concrete input: the elements `3,null,0,5` of the array of `\x7b"a":[3,null,0,5]`.
The numeric elements are 3, 0 and 5, at the positions 0, 1 and 2; the feature of value 3 is
stored with the hash `b`, the one of value 5 with the hash `b + 2`, the zero is dropped by
`AddFeature`, and the running hash ends at `b + 3`. -/
theorem numeric_array_positional_hash_witness :
    numericValues sampleConv sampleArrayElements = [some 3, some 0, some 5] ∧
    ((parseTokens sampleOps sampleConv (sampleJson .simple) sampleArrayElements
      sampleArrayContext).ctx?.map fun c =>
        (c.array_state_array_hash, c.examples.map fun e => (e.feature_space 97).indicies)) =
      some (sampleArrayContext.array_state_array_hash + 3,
        [[sampleArrayContext.array_state_array_hash,
          sampleArrayContext.array_state_array_hash + 2]]) ∧
    (∀ c1, offerArrayFeatures sampleOps (sampleJson .simple)
        sampleArrayContext.array_state_array_hash
        (numericValues sampleConv sampleArrayElements) 0 sampleArrayContext = some c1 →
      Runs sampleOps sampleConv (sampleJson .simple) sampleArrayElements sampleArrayContext
        (c1.inArray
          ((sampleArrayContext.array_state_array_hash +
            (numericValues sampleConv sampleArrayElements).length) % 2 ^ 64)
          (if sampleArrayElements.isEmpty then sampleArrayContext.previous_state
            else some .array_state))) :=
  ⟨by rfl, by rfl,
    (numeric_array_positional_hash sampleOps sampleConv (sampleJson .simple) sampleArrayContext
      sampleArrayElements (by decide) (by rfl) (by decide)).1⟩

/-! ## The `_outcomes` array (C34) -/

/-- When every non-slot example stands before every slot, the position that follows the
non-slot count by `k` holds the `k`-th slot. -/
lemma slot_after_non_slots {F : Type} (cfg : JsonConfig F)
    (pre post : List (LabeledExample F)) (hpre : ∀ e ∈ pre, isNonSlot cfg e = true)
    (hpost : ∀ e ∈ post, isNonSlot cfg e = false) (k : Nat) :
    (pre ++ post).countP (isNonSlot cfg) = pre.length ∧
    (pre ++ post).get? ((pre ++ post).countP (isNonSlot cfg) + k) =
      (slotExamples cfg (pre ++ post)).get? k := by
  have hcount : (pre ++ post).countP (isNonSlot cfg) = pre.length := by
    rw [List.countP_append, List.countP_eq_length.mpr hpre,
      List.countP_eq_zero.mpr (fun e he => by rw [hpost e he]; exact Bool.false_ne_true)]
    rfl
  refine ⟨hcount, ?_⟩
  have hfilter : slotExamples cfg (pre ++ post) = post := by
    unfold slotExamples
    rw [List.filter_append, List.filter_eq_nil_iff.mpr (fun e he => by rw [hpre e he]; decide),
      List.filter_eq_self.mpr (fun e he => by rw [hpost e he]; rfl)]
    rfl
  rw [hcount, hfilter, List.get?_eq_getElem?, List.get?_eq_getElem?,
    List.getElem?_append_right (by omega), Nat.add_sub_cancel_left]

/-- C34. `SlotOutcomeList::StartArray` counts the examples of the group that are not slots,
wherever they stand, and keeps the count `n` as the slot object index; when `n` is 0 it
raises `Badly formed ccb example. Shared example is required.`. `StartObject` with the index
`i` makes the example at position `i` the current one, the position being taken as it is,
and increments the index, so that the `k`-th outcome object is applied to the example at
position `n + k`. That example is the `k`-th slot of the group, in creation order, when
every non-slot example stands before every slot. -/
theorem outcome_index_counts_non_slots {F : Type} (cfg : JsonConfig F) (ctx : JsonContext F) :
    (ctx.examples.countP (isNonSlot cfg) = 0 →
      ∃ c, SlotOutcomeList.StartArray cfg ctx = .throws .sharedExampleRequired c) ∧
    (ctx.examples.countP (isNonSlot cfg) ≠ 0 →
      ∃ c, SlotOutcomeList.StartArray cfg ctx = .ret (some .slot_outcome_list_state) c ∧
        c.slot_outcome_list_state.slot_object_index =
          ((ctx.examples.countP (isNonSlot cfg) : Nat) : Int) ∧
        c.examples = ctx.examples ∧ c.ex = ctx.ex) ∧
    (∀ i : Nat, ctx.slot_outcome_list_state.slot_object_index = (i : Int) →
      i < ctx.examples.length → i + 1 < 2 ^ 31 →
      ∃ c, SlotOutcomeList.StartObject cfg ctx = .ret (some .default_state) c ∧
        c.ex = i ∧ c.examples = ctx.examples ∧
        c.slot_outcome_list_state.slot_object_index = ((i + 1 : Nat) : Int) ∧
        c.label_index_state_index = (i : Int) - 1) ∧
    (∀ pre post : List (LabeledExample F), ctx.examples = pre ++ post →
      (∀ e ∈ pre, isNonSlot cfg e = true) → (∀ e ∈ post, isNonSlot cfg e = false) →
      ∀ k, ctx.examples.get? (ctx.examples.countP (isNonSlot cfg) + k) =
        (slotExamples cfg ctx.examples).get? k) := by
  refine ⟨fun h0 => ?_, fun h0 => ?_, fun i hi hlt hsmall => ?_,
    fun pre post hex hpre hpost k => ?_⟩
  · unfold SlotOutcomeList.StartArray
    simp only []
    rw [if_pos (by rw [h0]; rfl)]
    exact ⟨_, rfl⟩
  · unfold SlotOutcomeList.StartArray
    simp only []
    rw [if_neg (by
      intro h
      exact h0 (by exact_mod_cast h))]
    exact ⟨_, rfl, rfl, rfl, rfl⟩
  · unfold SlotOutcomeList.StartObject
    simp only []
    rw [hi, if_neg (by
      rintro (h | h)
      · omega
      · exact absurd h (by omega))]
    refine ⟨_, rfl, ?_, rfl, ?_, ?_⟩
    · show ((i : Int)).toNat = i
      exact Int.toNat_natCast i
    · show wrapInt ((i : Int) + 1) = ((i + 1 : Nat) : Int)
      rw [wrapInt_small _ (by omega) (by push_cast; omega)]
      push_cast
      rfl
    · show wrapInt ((i : Int) - 1) = (i : Int) - 1
      unfold wrapInt
      omega
  · rw [hex]
    exact (slot_after_non_slots cfg pre post hpre hpost k).2

/-- C34 at concrete inputs. In the line of `multiFirstTokens` the action stands before the
two slots, the count of non-slot examples is 2 and the two outcome objects are applied to
the two slots. In the line of `slotsFirstTokens` the slot is created before the action: the
group is a shared example, a slot and an action, the count of non-slot examples is 2, and
the outcome object is applied to the example at position 2, the action; the slot gets no
outcome. -/
theorem outcome_index_counts_non_slots_witness :
    outcomePlaces (parseTokens sampleOps sampleConv (sampleServiceJson .ccb) multiFirstTokens
      sampleCcbServiceContext) =
      some ([.shared, .action, .slot, .slot], [false, false, true, true]) ∧
    slotTypes sampleSlotsFirstContext.examples = [.shared, .slot, .action] ∧
    sampleSlotsFirstContext.current_state = .slot_outcome_list_state ∧
    (∃ c, SlotOutcomeList.StartArray (sampleServiceJson .ccb) sampleSlotsFirstContext =
        .ret (some .slot_outcome_list_state) c ∧
      c.slot_outcome_list_state.slot_object_index =
        ((sampleSlotsFirstContext.examples.countP (isNonSlot (sampleServiceJson .ccb)) : Nat) :
          Int) ∧
      c.examples = sampleSlotsFirstContext.examples ∧ c.ex = sampleSlotsFirstContext.ex) ∧
    sampleSlotsFirstContext.examples.countP (isNonSlot (sampleServiceJson .ccb)) = 2 ∧
    outcomePlaces (parseTokens sampleOps sampleConv (sampleServiceJson .ccb) slotsFirstTokens
      sampleCcbServiceContext) =
      some ([.shared, .slot, .action], [false, false, true]) :=
  ⟨by rfl, by rfl, by rfl,
    (outcome_index_counts_non_slots (sampleServiceJson .ccb) sampleSlotsFirstContext).2.1
      (by decide),
    by rfl, by rfl⟩

/-! ## What the next state depends on (C35) -/

/-- The state returned for a token the state class has no handler for. -/
lemma unhandled_next {F : Type} (ops : FloatOps F) (cv : FloatConv F) (cfg : JsonConfig F)
    (s : BaseState) (t : Token F) (c : JsonContext F) (h : hasOwnHandler s t = false) :
    (BaseState.handle ops cv cfg s t c).next? =
      if isNullToken t = true then (if c.previous_state = none then some s else c.previous_state)
      else none := by
  cases s <;> cases t <;> first | rfl | cases h

/-- C35, amended. `Context::TransitionState` depends on the returned state alone: it
installs the state the handler returned as the current state and the old current state as
the previous state, and it fails, leaving the context as it is, exactly when the handler
returned the null pointer. The state a handler returns depends on the context as well as
on the current state and the token. For a token the state class has no handler of its own
for, it is the null pointer in every context when the token is not a null, and for a null
it is the previous state when there is one and the state itself otherwise: the same in any
two contexts with the same previous state. `ArrayState::StartArray` returns the error
sentinel when the previous state is the Array state and the Array state otherwise: the same
in any two contexts with the same previous state. -/
theorem next_state_only_through_context {F : Type} (ops : FloatOps F) (cv : FloatConv F)
    (cfg : JsonConfig F) (s : BaseState) (t : Token F) (c1 c2 : JsonContext F) :
    (∀ n : BaseState, c1.TransitionState (some n) =
      (true, { c1 with previous_state := some c1.current_state, current_state := n })) ∧
    c1.TransitionState none = (false, c1) ∧
    (hasOwnHandler s t = false → isNullToken t = false →
      (BaseState.handle ops cv cfg s t c1).next? = none) ∧
    (hasOwnHandler s t = false → isNullToken t = true →
      (BaseState.handle ops cv cfg s t c1).next? =
        if c1.previous_state = none then some s else c1.previous_state) ∧
    (hasOwnHandler s t = false → c1.previous_state = c2.previous_state →
      (BaseState.handle ops cv cfg s t c1).next? = (BaseState.handle ops cv cfg s t c2).next?) ∧
    (ArrayState.StartArray cfg c1).next? =
      (if c1.previous_state = some .array_state then none else some .array_state) ∧
    (c1.previous_state = c2.previous_state →
      (ArrayState.StartArray cfg c1).next? = (ArrayState.StartArray cfg c2).next?) := by
  have harr : ∀ c : JsonContext F, (ArrayState.StartArray cfg c).next? =
      (if c.previous_state = some .array_state then none else some .array_state) := by
    intro c
    unfold ArrayState.StartArray
    by_cases hp : c.previous_state = some .array_state
    · rw [if_pos hp, if_pos hp]
      rfl
    · rw [if_neg hp, if_neg hp]
      rfl
  refine ⟨fun _ => rfl, rfl, fun h hn => ?_, fun h hn => ?_, fun h hp => ?_, harr c1,
    fun hp => ?_⟩
  · rw [unhandled_next ops cv cfg s t c1 h, hn]
    rfl
  · rw [unhandled_next ops cv cfg s t c1 h, if_pos hn]
  · rw [unhandled_next ops cv cfg s t c1 h, unhandled_next ops cv cfg s t c2 h, hp]
  · rw [harr c1, harr c2, hp]

/-- C35, counterexample. In the Default state a null returns the Ignore state in a context
whose previous state is the Ignore state and the Default state in a context with no
previous state. In the Array state the start of an array returns the error sentinel when the
previous state is the Array state and the Array state when it is the Default state. In the
Ignore state an unsigned integer returns the previous state, whatever it is. The contexts
of each pair differ in the previous state alone. -/
theorem next_state_depends_on_previous_state :
    (BaseState.handle sampleOps sampleConv (sampleJson .simple) .default_state Token.Null
      { sampleJsonContext .simple with previous_state := some .ignore_state }).next? =
      some .ignore_state ∧
    (BaseState.handle sampleOps sampleConv (sampleJson .simple) .default_state Token.Null
      { sampleJsonContext .simple with previous_state := none }).next? =
      some .default_state ∧
    (BaseState.handle sampleOps sampleConv (sampleJson .simple) .array_state Token.StartArray
      { sampleArrayContext with previous_state := some .array_state }).next? = none ∧
    (BaseState.handle sampleOps sampleConv (sampleJson .simple) .array_state Token.StartArray
      { sampleArrayContext with previous_state := some .default_state }).next? =
      some .array_state ∧
    (BaseState.handle sampleOps sampleConv (sampleJson .simple) .ignore_state (Token.Uint 0)
      { sampleJsonContext .simple with previous_state := some .default_state }).next? =
      some .default_state ∧
    (BaseState.handle sampleOps sampleConv (sampleJson .simple) .ignore_state (Token.Uint 0)
      { sampleJsonContext .simple with previous_state := some .multi_state }).next? =
      some .multi_state := by
  refine ⟨by rfl, by rfl, by rfl, by rfl, by rfl, by rfl⟩

/-! ## A line without a bar (C37) -/

lemma beforeBar_of_no_bar (line : List Char) (h : '|' ∉ line) : beforeBar line = line := by
  unfold beforeBar
  rw [List.takeWhile_eq_self_iff]
  intro c hc
  simp only [bne_iff_ne, ne_eq]
  exact fun hh => h (hh ▸ hc)

/-- The last piece of a split is not empty when the text does not end with a separator. -/
lemma splitOnP_last (p : Char → Bool) (s : List Char) (hne : s ≠ [])
    (hend : ∀ c, s.getLast? = some c → p c = false) :
    ∃ r, (s.splitOnP p).getLast? = some r ∧ r ≠ [] := by
  induction s with
  | nil => exact absurd rfl hne
  | cons c cs ih =>
    rw [List.splitOnP_cons]
    by_cases hcs : cs = []
    · subst hcs
      have hc : p c = false := hend c rfl
      rw [hc, List.splitOnP_nil]
      exact ⟨[c], rfl, List.cons_ne_nil _ _⟩
    · have hlast : (c :: cs).getLast? = cs.getLast? := by
        cases cs with
        | nil => exact absurd rfl hcs
        | cons d ds => rfl
      obtain ⟨r, hr, hrne⟩ := ih hcs (fun x hx => hend x (by rw [hlast]; exact hx))
      by_cases hp : p c = true
      · rw [if_pos hp]
        refine ⟨r, ?_, hrne⟩
        cases hsp : cs.splitOnP p with
        | nil => exact absurd hsp (List.splitOnP_ne_nil p cs)
        | cons a as =>
          rw [hsp] at hr
          rw [← hr]
          rfl
      · rw [if_neg hp]
        cases hsp : cs.splitOnP p with
        | nil => exact absurd hsp (List.splitOnP_ne_nil p cs)
        | cons a as =>
          rw [hsp] at hr
          rw [List.modifyHead_cons]
          cases as with
          | nil => exact ⟨c :: a, rfl, List.cons_ne_nil _ _⟩
          | cons b bs => exact ⟨r, by rw [← hr]; rfl, hrne⟩

lemma filter_getLast? {α : Type} (p : α → Bool) (l : List α) (x : α)
    (h : l.getLast? = some x) (hp : p x = true) : (l.filter p).getLast? = some x := by
  obtain ⟨init, rfl⟩ : ∃ init, l = init ++ [x] := by
    rw [List.getLast?_eq_some_iff] at h
    exact h
  rw [List.filter_append, List.filter_singleton, hp]
  simp only [cond_true]
  exact List.getLast?_append_of_ne_nil _ (List.cons_ne_nil _ _) |>.trans rfl

/-- A text that is not empty and does not end with a space has a last token. -/
lemma spaceTokens_last (s : List Char) (hne : s ≠ []) (hend : s.getLast? ≠ some ' ') :
    ∃ t, (spaceTokens s).getLast? = some t := by
  obtain ⟨r, hr, hrne⟩ := splitOnP_last (fun c => c == ' ') s hne (fun c hc => by
    simp only [beq_eq_false_iff_ne, ne_eq]
    exact fun hh => hend (hh ▸ hc))
  refine ⟨r, ?_⟩
  unfold spaceTokens
  refine filter_getLast? _ _ r hr ?_
  cases r with
  | nil => exact absurd rfl hrne
  | cons a as => rfl

lemma afterFirstTab_suffix (s : List Char) : afterFirstTab s <:+ s := by
  unfold afterFirstTab
  by_cases h : '\t' ∈ s
  · rw [if_pos h]
    exact (List.drop_suffix _ _).trans (List.dropWhile_suffix _)
  · rw [if_neg h]

/-- The label section of a line without a bar that does not end with a space: it is the
text after the first tab, and its last token, when it has one, is a tag. -/
lemma labelText_no_bar (line : List Char) (hbar : '|' ∉ line)
    (hend : line.getLast? ≠ some ' ') :
    labelText line = afterFirstTab line ∧
    (∀ t, (spaceTokens (afterFirstTab line)).getLast? = some t →
      lastIsTag line = true ∧
      tagText line = (if t.head? = some '\'' then t.drop 1 else t) ∧
      labelTokens line = (spaceTokens (afterFirstTab line)).dropLast) ∧
    (spaceTokens (afterFirstTab line) = [] →
      lastIsTag line = false ∧ labelTokens line = []) := by
  have htext : labelText line = afterFirstTab line := by
    unfold labelText
    rw [beforeBar_of_no_bar line hbar]
  refine ⟨htext, fun t ht => ?_, fun hnil => ?_⟩
  · have hsec : afterFirstTab line ≠ [] := by
      intro h0
      rw [h0, spaceTokens_nil] at ht
      cases ht
    have hlast : (afterFirstTab line).getLast? ≠ some ' ' := by
      obtain ⟨pre, hpre⟩ := afterFirstTab_suffix line
      intro hh
      apply hend
      rw [← hpre, List.getLast?_append_of_ne_nil _ hsec]
      exact hh
    have htag : lastIsTag line = true := by
      unfold lastIsTag
      rw [htext, ht]
      simp only [Bool.or_eq_true, bne_iff_ne, ne_eq]
      exact Or.inr hlast
    refine ⟨htag, ?_, ?_⟩
    · unfold tagText
      rw [htext, ht]
    · unfold labelTokens
      rw [htag, htext]
      rfl
  · have htag : lastIsTag line = false := by
      unfold lastIsTag
      rw [htext, hnil]
      rfl
    refine ⟨htag, ?_⟩
    unfold labelTokens
    rw [htag, htext, hnil]
    rfl

/-- C37, amended. For a line that is not empty, holds no bar and does not end with a space,
`substring_to_example` returns with no feature stored and the feature parser not run. The
text that is tokenised is the label section: the text after the first tab when the line has
one, the whole line otherwise. The last space-separated token of that section, when there
is one, is appended to the tag, a leading single quote being stripped, and is not passed to
the label token parser, which is called with the tokens before it when there are any and is
not called otherwise. When the section has no token (the line ends with its first tab) the
tag is left as it was and the label token parser is not called. A line without a tab always
has such a last token. -/
theorem bare_line_last_token_is_tag {F L : Type} (ops : FloatOps F) (all : vw F)
    (lp : LabelParser L) (audit : Bool) (line : List Char) (st : LineState F L) (u : TCParser F)
    (hne : line ≠ []) (hbar : '|' ∉ line) (hend : line.getLast? ≠ some ' ') :
    ∃ s5, substring_to_example ops all lp audit line st u = .ok () (s5, u) ∧
      s5.ae.feature_space = st.ae.feature_space ∧ s5.ae.indices = st.ae.indices ∧
      (∀ t, (spaceTokens (afterFirstTab line)).getLast? = some t →
        s5.ae.tag = st.ae.tag ++ (if t.head? = some '\'' then t.drop 1 else t) ∧
        s5.parse_label_calls = st.parse_label_calls ++
          (if (spaceTokens (afterFirstTab line)).dropLast.isEmpty then []
            else [(spaceTokens (afterFirstTab line)).dropLast])) ∧
      (spaceTokens (afterFirstTab line) = [] →
        s5.ae.tag = st.ae.tag ∧ s5.parse_label_calls = st.parse_label_calls) ∧
      ('\t' ∉ line → afterFirstTab line = line ∧ ∃ t, (spaceTokens line).getLast? = some t) := by
  obtain ⟨s5, hs5, htag, _, hcalls, _, hfs, hidx, _⟩ := labelParse_spec lp line st
  obtain ⟨_, hsome, hnone⟩ := labelText_no_bar line hbar hend
  have hfind : find_first (fun c => c == '|') line = none :=
    find_first_none _ line (fun c hc => by
      simp only [beq_eq_false_iff_ne, ne_eq]
      exact fun hh => hbar (hh ▸ hc))
  refine ⟨s5, ?_, hfs, hidx, fun t ht => ?_, fun hnil => ?_, fun htab => ?_⟩
  · unfold substring_to_example
    simp only []
    rw [hs5, hfind]
  · obtain ⟨h1, h2, h3⟩ := hsome t ht
    rw [h1, h2] at htag
    rw [h3] at hcalls
    exact ⟨htag, hcalls⟩
  · obtain ⟨h1, h3⟩ := hnone hnil
    rw [h1] at htag
    rw [h3] at hcalls
    exact ⟨by rw [htag]; exact List.append_nil _, by rw [hcalls]; exact List.append_nil _⟩
  · have hid : afterFirstTab line = line := by
      unfold afterFirstTab
      rw [if_neg htab]
    exact ⟨hid, spaceTokens_last line hne hend⟩

/-- Witness for C37, amended: the line `1` gives the tag `1`, no call of the label token
parser and no feature. -/
theorem bare_line_last_token_is_tag_witness :
    ∃ s5, substring_to_example sampleOps (sampleVW false) sampleLabelParser false ['1']
        sampleLineState sampleState = .ok () (s5, sampleState) ∧
      s5.ae.tag = ['1'] ∧ s5.parse_label_calls = [] ∧
      s5.ae.feature_space = sampleLineState.ae.feature_space ∧ s5.ae.indices = [] := by
  obtain ⟨s5, h1, h2, h3, h4, _, _⟩ := bare_line_last_token_is_tag sampleOps (sampleVW false)
    sampleLabelParser false ['1'] sampleLineState sampleState (by decide) (by decide) (by decide)
  obtain ⟨h5, h6⟩ := h4 ['1'] (by decide)
  exact ⟨s5, h1, h5, h6, h2, h3⟩

/-- C37, counterexample. The line made of `1` and a tab is not empty, holds no bar and does
not end with a space, and no tag is stored: the label section, the text after the tab, is
empty. For the line `x a`, tab, `b`, the last space-separated token is `a`, tab, `b`, and the
tag is `b`; the token `x` is not passed to the label token parser either. -/
theorem tab_line_tag_is_after_tab :
    (match substring_to_example sampleOps (sampleVW false) sampleLabelParser false ['1', '\t']
        sampleLineState sampleState with
      | .ok _ s => some (s.1.ae.tag, s.1.parse_label_calls)
      | _ => none) = some ([], []) ∧
    (match substring_to_example sampleOps (sampleVW false) sampleLabelParser false
        ['x', ' ', 'a', '\t', 'b'] sampleLineState sampleState with
      | .ok _ s => some (s.1.ae.tag, s.1.parse_label_calls)
      | _ => none) = some (['b'], []) ∧
    spaceTokens ['x', ' ', 'a', '\t', 'b'] = [['x'], ['a', '\t', 'b']] := by
  refine ⟨by rfl, by rfl, by decide⟩

/-! ## Termination and the read index of the text parser (C36) -/

lemma get?_some_lt {line : List Char} {i : Nat} {c : Char} (h : line.get? i = some c) :
    i < line.length := by
  by_contra hlt
  rw [List.get?_eq_none.mpr (by omega)] at h
  cases h

lemma nameEnd_false_lt {line : List Char} {i : Nat} (h : nameEnd line i = false) :
    i < line.length := by
  unfold nameEnd at h
  cases hg : line.get? i with
  | none => rw [hg] at h; cases h
  | some c => exact get?_some_lt hg

lemma atSeparator_false_lt {line : List Char} {i : Nat} (h : atSeparator line i = false) :
    i < line.length := by
  unfold atSeparator at h
  cases hg : line.get? i with
  | none => rw [hg] at h; cases h
  | some c => exact get?_some_lt hg

lemma read_name_loop_le (line : List Char) (n i : Nat) (hi : i ≤ line.length) :
    read_name_loop line n i ≤ line.length := by
  induction n generalizing i with
  | zero => exact hi
  | succ n ih =>
    unfold read_name_loop
    by_cases hend : nameEnd line i = true
    · rw [if_pos hend]
      exact hi
    · rw [if_neg hend]
      exact ih (i + 1) (nameEnd_false_lt (Bool.eq_false_iff.mpr hend))

lemma Within.refl_within {F : Type} (line : List Char) (s : TCParser F)
    (h : s._read_idx ≤ line.length) : Within line s s := ⟨le_refl _, h⟩

lemma Within.trans_within {F : Type} {line : List Char} {a b c : TCParser F}
    (h : Within line a b) (h' : Within line b c) : Within line a c :=
  ⟨le_trans h.1 h'.1, h'.2⟩

lemma read_name_within {F : Type} (line : List Char) (st : TCParser F)
    (h : st._read_idx ≤ line.length) : Within line st (read_name line st).2 :=
  ⟨read_name_loop_ge line _ _, read_name_loop_le line _ _ h⟩

lemma find_first_lt (p : Char → Bool) (s : List Char) (k : Nat)
    (h : find_first p s = some k) : k < s.length := by
  induction s generalizing k with
  | nil => cases h
  | cons c cs ih =>
    unfold find_first at h
    by_cases hp : p c = true
    · rw [if_pos hp] at h
      injection h with h
      subst h
      exact Nat.succ_pos _
    · rw [if_neg hp] at h
      cases hf : find_first p cs with
      | none => rw [hf] at h; cases h
      | some j =>
        rw [hf] at h
        injection h with h
        subst h
        exact Nat.succ_lt_succ (ih j hf)

lemma stringFeatureValue_idx_le {F : Type} (sv : List Char) (st : TCParser F) :
    (stringFeatureValue sv st).2._read_idx ≤ st._read_idx + sv.length := by
  unfold stringFeatureValue
  cases h : find_first (fun c => !isBlank c) sv with
  | none =>
    simp only []
    cases h2 : find_first isBlank sv with
    | none => exact le_refl _
    | some j =>
      have := find_first_lt _ sv j h2
      simp only []
      omega
  | some k =>
    have hk := find_first_lt _ sv k h
    by_cases hpos : k > 0
    · simp only [hpos, if_true]
      cases h2 : find_first isBlank (sv.drop k) with
      | none =>
        simp only [List.length_drop]
        omega
      | some j =>
        have := find_first_lt _ _ j h2
        rw [List.length_drop] at this
        simp only []
        omega
    · simp only [hpos, if_false]
      cases h2 : find_first isBlank sv with
      | none => exact le_refl _
      | some j =>
        have := find_first_lt _ sv j h2
        simp only []
        omega

lemma parserWarning_idx {F : Type} (all : vw F) (k : WarningKind) (m : List Char)
    (st : TCParser F) :
    (parserWarning all k m st).Ensures (fun s => s._read_idx = st._read_idx) := by
  unfold parserWarning
  split
  · exact rfl
  · exact rfl

lemma parserWarning_within {F : Type} (all : vw F) (k : WarningKind) (m : List Char)
    (line : List Char) (st : TCParser F) (h : st._read_idx ≤ line.length) :
    (parserWarning all k m st).Ensures (Within line st) :=
  (parserWarning_idx all k m st).mono_ensures (fun s hs => ⟨by rw [hs], by rw [hs]; exact h⟩)

lemma isFeatureValueFloat_within {F : Type} (ops : FloatOps F) (all : vw F)
    (hfloat : FloatReaderBounded all) (line : List Char) (st : TCParser F)
    (h : st._read_idx ≤ line.length) :
    (isFeatureValueFloat ops all line st).Ensures (Within line st) := by
  unfold isFeatureValueFloat
  by_cases hsep : atSeparator line st._read_idx = true
  · rw [if_pos hsep]
    exact Within.refl_within line st h
  rw [if_neg hsep]
  have hlt := atSeparator_false_lt (Bool.eq_false_iff.mpr hsep)
  by_cases hcolon : line.get? st._read_idx = some ':'
  · rw [if_pos hcolon]
    have hr := hfloat (line.drop (st._read_idx + 1))
    rw [List.length_drop] at hr
    simp only []
    by_cases h0 : (all.parseFloat (line.drop (st._read_idx + 1))).2 = 0
    · rw [if_pos h0]
      exact ⟨Nat.le_succ _, hlt⟩
    rw [if_neg h0]
    by_cases hnan : ops.isNaN (all.parseFloat (line.drop (st._read_idx + 1))).1 = true
    · rw [if_pos hnan]
      refine Outcome.Ensures.bind_ensures (parserWarning_idx all _ _ _)
        (fun s hs => ⟨by rw [hs]; exact Nat.le_succ _, by rw [hs]; exact hlt⟩)
        (fun _ s hs => ?_)
      show st._read_idx ≤ s._read_idx + _ ∧ s._read_idx + _ ≤ line.length
      rw [hs]
      show st._read_idx ≤ st._read_idx + 1 + _ ∧ st._read_idx + 1 + _ ≤ line.length
      omega
    · rw [if_neg hnan]
      show st._read_idx ≤ st._read_idx + 1 + _ ∧ st._read_idx + 1 + _ ≤ line.length
      omega
  · rw [if_neg hcolon]
    exact Outcome.Ensures.bind_ensures (parserWarning_idx all _ _ _)
      (fun s hs => ⟨le_of_eq hs.symm, le_trans (le_of_eq hs) h⟩)
      (fun _ s hs => ⟨le_of_eq hs.symm, le_trans (le_of_eq hs) h⟩)

lemma featureValue_within {F : Type} (ops : FloatOps F) (line : List Char) (r : Bool × F)
    (st : TCParser F) (h : st._read_idx ≤ line.length) :
    Within line st (featureValue ops line r st).2 := by
  refine ⟨(featureValue_advanced ops line r st).2, ?_⟩
  unfold featureValue
  by_cases hr : (!r.1) = true
  · rw [if_pos hr]
    have := stringFeatureValue_idx_le (line.drop st._read_idx) st
    rw [List.length_drop] at this
    show (stringFeatureValue (line.drop st._read_idx) st).2._read_idx ≤ line.length
    omega
  · rw [if_neg hr]
    exact h

lemma featureHash_read_idx {F : Type} (all : vw F) (feature_name sfv : List Char)
    (st : TCParser F) : (featureHash all feature_name sfv st).2._read_idx = st._read_idx := by
  unfold featureHash
  split
  · rfl
  · split <;> rfl

lemma maybeFeature_within {F : Type} (ops : FloatOps F) (all : vw F) (audit : Bool)
    (hfloat : FloatReaderBounded all) (line : List Char) (st : TCParser F)
    (h : st._read_idx ≤ line.length) :
    (maybeFeature ops all audit line st).Ensures (Within line st) := by
  unfold maybeFeature
  by_cases hsep : atSeparator line st._read_idx = true
  · rw [if_pos hsep]
    exact Within.refl_within line st h
  rw [if_neg hsep]
  have h1 := read_name_within line st h
  refine Outcome.Ensures.bind_ensures (isFeatureValueFloat_within ops all hfloat line _ h1.2)
    (fun s hs => h1.trans_within hs) (fun r s hs => ?_)
  have h2 := featureValue_within ops line r s hs.2
  have h3 := featureHash_read_idx all (read_name line st).1 (featureValue ops line r s).1
    (featureValue ops line r s).2
  have h4 : Within line st (featureHash all (read_name line st).1 (featureValue ops line r s).1
      (featureValue ops line r s).2).2 := by
    have := h1.trans_within (hs.trans_within h2)
    exact ⟨by rw [h3]; exact this.1, by rw [h3]; exact this.2⟩
  simp only []
  split
  · exact h4
  · show _ ≤ (storeFeature _ _ _ _ _ _ _)._read_idx ∧ (storeFeature _ _ _ _ _ _ _)._read_idx ≤ _
    rw [storeFeature_read_idx]
    exact h4

/-- The loop of `listFeatures` ends within its budget with the read index within the line,
and every iteration moves the read index forward. -/
lemma listFeaturesLoop_within {F : Type} (ops : FloatOps F) (all : vw F) (audit : Bool)
    (hfloat : FloatReaderBounded all) (line : List Char) (n : Nat) (st : TCParser F)
    (hn : line.length - st._read_idx ≤ n) (h : st._read_idx ≤ line.length) :
    (listFeaturesLoop ops all audit line n st).Ensures (Within line st) := by
  induction n generalizing st with
  | zero =>
    unfold listFeaturesLoop
    by_cases hb : atBlank line st._read_idx = true
    · have := atBlank_lt hb
      omega
    · rw [if_neg hb]
      exact Within.refl_within line st h
  | succ n ih =>
    unfold listFeaturesLoop
    by_cases hb : atBlank line st._read_idx = true
    · rw [if_pos hb]
      have hlt := atBlank_lt hb
      refine Outcome.Ensures.bind_ensures
        (maybeFeature_within ops all audit hfloat line { st with _read_idx := st._read_idx + 1 }
          hlt)
        (fun s hs => ⟨le_trans (Nat.le_succ _) hs.1, hs.2⟩) (fun _ s hs => ?_)
      have hs1 : st._read_idx + 1 ≤ s._read_idx := hs.1
      exact (ih s (by omega) hs.2).mono_ensures
        (fun s' hs' => ⟨by have := hs'.1; omega, hs'.2⟩)
    · rw [if_neg hb]
      exact Within.refl_within line st h

lemma listFeatures_within {F : Type} (ops : FloatOps F) (all : vw F) (audit : Bool)
    (hfloat : FloatReaderBounded all) (line : List Char) (st : TCParser F)
    (h : st._read_idx ≤ line.length) :
    (listFeatures ops all audit line st).Ensures (Within line st) := by
  unfold listFeatures
  refine Outcome.Ensures.bind_ensures
    (listFeaturesLoop_within ops all audit hfloat line _ st (le_refl _) h)
    (fun s hs => hs) (fun _ s hs => ?_)
  split
  · exact (parserWarning_within all _ _ line s hs.2).mono_ensures
      (fun s' hs' => hs.trans_within hs')
  · exact hs

lemma nameSpaceInfoValue_within {F : Type} (ops : FloatOps F) (all : vw F)
    (hfloat : FloatReaderBounded all) (line : List Char) (st : TCParser F)
    (h : st._read_idx ≤ line.length) :
    (nameSpaceInfoValue ops all line st).Ensures (Within line st) := by
  unfold nameSpaceInfoValue
  by_cases hsep : atSeparator line st._read_idx = true
  · rw [if_pos hsep]
    exact Within.refl_within line st h
  rw [if_neg hsep]
  have hlt := atSeparator_false_lt (Bool.eq_false_iff.mpr hsep)
  by_cases hcolon : line.get? st._read_idx = some ':'
  · rw [if_pos hcolon]
    have hr := hfloat (line.drop (st._read_idx + 1))
    rw [List.length_drop] at hr
    simp only []
    refine @Outcome.Ensures.bind_ensures _ _ _
      (fun s => s._read_idx = st._read_idx + 1) _ _ _ ?_ ?_ ?_
    · split
      · exact parserWarning_idx all _ _ _
      · exact rfl
    · intro s hs
      exact ⟨by rw [hs]; exact Nat.le_succ _, by rw [hs]; exact hlt⟩
    · intro _ s hs
      refine @Outcome.Ensures.bind_ensures _ _ _
        (fun s => s._read_idx = st._read_idx + 1) _ _ _ ?_ ?_ ?_
      · split
        · exact (parserWarning_idx all _ _ _).mono_ensures (fun s' hs' => hs'.trans hs)
        · exact hs
      · intro s' hs'
        exact ⟨by rw [hs']; exact Nat.le_succ _, by rw [hs']; exact hlt⟩
      · intro _ s' hs'
        show st._read_idx ≤ s'._read_idx + _ ∧ s'._read_idx + _ ≤ line.length
        rw [hs']
        omega
  · rw [if_neg hcolon]
    exact parserWarning_within all _ _ line st h

lemma nameSpaceInfo_tail_within {F : Type} (ops : FloatOps F) (all : vw F) (audit : Bool)
    (hfloat : FloatReaderBounded all) (line : List Char) (st t : TCParser F)
    (ht : t._read_idx = st._read_idx) (h : st._read_idx ≤ line.length) :
    (nameSpaceInfoValue ops all line
      { (if audit then { (read_name line t).2 with _base := (read_name line t).1 }
          else (read_name line t).2) with
        _channel_hash := all.hasher (read_name line t).1 all.hash_seed }).Ensures
      (Within line st) := by
  have hrn := read_name_within line t (by rw [ht]; exact h)
  cases audit
  · refine Outcome.Ensures.mono_ensures
      (nameSpaceInfoValue_within ops all hfloat line _ ?_) ?_
    · exact hrn.2
    · intro s hs
      have h1 : t._read_idx ≤ (read_name line t).2._read_idx := hrn.1
      have h2 : (read_name line t).2._read_idx ≤ s._read_idx := hs.1
      exact ⟨by omega, hs.2⟩
  · refine Outcome.Ensures.mono_ensures
      (nameSpaceInfoValue_within ops all hfloat line _ ?_) ?_
    · exact hrn.2
    · intro s hs
      have h1 : t._read_idx ≤ (read_name line t).2._read_idx := hrn.1
      have h2 : (read_name line t).2._read_idx ≤ s._read_idx := hs.1
      exact ⟨by omega, hs.2⟩

lemma nameSpaceInfo_within {F : Type} (ops : FloatOps F) (all : vw F) (audit : Bool)
    (hfloat : FloatReaderBounded all) (line : List Char) (st : TCParser F)
    (h : st._read_idx ≤ line.length) :
    (nameSpaceInfo ops all audit line st).Ensures (Within line st) := by
  unfold nameSpaceInfo
  cases hg : line.get? st._read_idx with
  | none => exact parserWarning_within all _ _ line st h
  | some c =>
    simp only []
    by_cases hstop : (c == '|' || c == ' ' || c == '\t' || c == ':' || c == '\r') = true
    · rw [if_pos hstop]
      exact parserWarning_within all _ _ line st h
    · rw [if_neg hstop]
      apply nameSpaceInfo_tail_within ops all audit hfloat line st _ _ h
      split <;> split <;> rfl

lemma nameSpace_within {F : Type} (ops : FloatOps F) (all : vw F) (audit : Bool)
    (hfloat : FloatReaderBounded all) (line : List Char) (st : TCParser F)
    (h : st._read_idx ≤ line.length) :
    (nameSpace ops all audit line st).Ensures (Within line st) := by
  unfold nameSpace
  have hclose : ∀ s : TCParser F, Within line st s →
      (if s._new_index ∧ (s._ae.feature_space s._index).size > 0 then
          (Outcome.ok () { s with _ae := s._ae.pushIndex s._index } :
            Outcome (TCParser F) Unit)
        else .ok () s).Ensures (Within line st) := by
    intro s hs
    split
    · exact hs
    · exact hs
  refine Outcome.Ensures.bind_ensures ?_ (fun s hs => hs) (fun _ s hs => hclose s hs)
  by_cases hsep : atSeparator line (nameSpaceReset ops st)._read_idx = true
  · rw [if_pos hsep]
    have hu : (unnamedSection all audit (nameSpaceReset ops st))._read_idx = st._read_idx := by
      unfold unnamedSection nameSpaceReset
      simp only []
      split <;> split <;> rfl
    refine (listFeatures_within ops all audit hfloat line _ (by rw [hu]; exact h)).mono_ensures
      (fun s hs => ⟨?_, hs.2⟩)
    have := hs.1
    rw [hu] at this
    exact this
  · rw [if_neg hsep]
    by_cases hcolon : line.get? (nameSpaceReset ops st)._read_idx ≠ some ':'
    · rw [if_pos hcolon]
      refine Outcome.Ensures.bind_ensures
        (nameSpaceInfo_within ops all audit hfloat line (nameSpaceReset ops st) h)
        (fun s hs => hs) (fun _ s hs => ?_)
      exact (listFeatures_within ops all audit hfloat line s hs.2).mono_ensures
        (fun s' hs' => ⟨le_trans hs.1 hs'.1, hs'.2⟩)
    · rw [if_neg hcolon]
      exact parserWarning_within all _ _ line (nameSpaceReset ops st) h

/-- The loop of `listNameSpace` ends within its budget with the read index within the line,
and every iteration moves the read index forward. -/
lemma listNameSpaceLoop_within {F : Type} (ops : FloatOps F) (all : vw F) (audit : Bool)
    (hfloat : FloatReaderBounded all) (line : List Char) (n : Nat) (st : TCParser F)
    (hn : line.length - st._read_idx ≤ n) (h : st._read_idx ≤ line.length) :
    (listNameSpaceLoop ops all audit line n st).Ensures (Within line st) := by
  induction n generalizing st with
  | zero =>
    unfold listNameSpaceLoop
    by_cases hb : line.get? st._read_idx = some '|'
    · have := bar_lt hb
      omega
    · rw [if_neg hb]
      exact Within.refl_within line st h
  | succ n ih =>
    unfold listNameSpaceLoop
    by_cases hb : line.get? st._read_idx = some '|'
    · rw [if_pos hb]
      have hlt := bar_lt hb
      refine Outcome.Ensures.bind_ensures
        (nameSpace_within ops all audit hfloat line { st with _read_idx := st._read_idx + 1 }
          hlt)
        (fun s hs => ⟨le_trans (Nat.le_succ _) hs.1, hs.2⟩) (fun _ s hs => ?_)
      have hs1 : st._read_idx + 1 ≤ s._read_idx := hs.1
      exact (ih s (by omega) hs.2).mono_ensures
        (fun s' hs' => ⟨by have := hs'.1; omega, hs'.2⟩)
    · rw [if_neg hb]
      exact Within.refl_within line st h

lemma listNameSpace_within {F : Type} (ops : FloatOps F) (all : vw F) (audit : Bool)
    (hfloat : FloatReaderBounded all) (line : List Char) (st : TCParser F)
    (h : st._read_idx ≤ line.length) :
    (listNameSpace ops all audit line st).Ensures (Within line st) := by
  unfold listNameSpace
  refine Outcome.Ensures.bind_ensures
    (listNameSpaceLoop_within ops all audit hfloat line _ st (le_refl _) h)
    (fun s hs => hs) (fun _ s hs => ?_)
  cases line.get? s._read_idx with
  | none => exact hs
  | some c =>
    simp only []
    split
    · exact (parserWarning_within all _ _ line s hs.2).mono_ensures
        (fun s' hs' => hs.trans_within hs')
    · exact hs

lemma sampleParseFloat_bounded (strict : Bool) : FloatReaderBounded (sampleVW strict) := by
  intro sv
  show (sampleParseFloat sv).2 ≤ sv.length
  unfold sampleParseFloat
  by_cases hnan : sv.take 3 = ['n', 'a', 'n']
  · rw [if_pos hnan]
    have := congrArg List.length hnan
    rw [List.length_take] at this
    simp only [List.length_cons, List.length_nil] at this
    show 3 ≤ sv.length
    omega
  · rw [if_neg hnan]
    simp only []
    split
    · exact Nat.zero_le _
    · exact (List.takeWhile_sublist _).length_le

/-- C36. Provided the float reader reports consuming no more characters than the text it is
given has, the parse of every line ends, by a return or a throw, within the budgets of its
loops, and leaves the read index at most the length of the line (on an empty line nothing
is read and the index is not touched). From a read index within the line, each of
`listNameSpace`, `nameSpace`, `listFeatures`, `maybeFeature`, `isFeatureValueFloat` and
`read_name` ends with the read index not moved back and at most the length of the line.
Every iteration of the loop of `listFeatures` runs at a read index below the length of the
line, where a blank stands, and ends with the read index strictly greater; so does every
iteration of the loop of `listNameSpace`, where a bar stands. A character is read only at an
index below the length of the line: at or past the end, the tests see the end of the
line. -/
theorem text_parse_ends_within_line {F : Type} (ops : FloatOps F) (all : vw F) (audit : Bool)
    (line : List Char) (ae : Example F) (u : TCParser F) (hfloat : FloatReaderBounded all) :
    (TCParser.construct ops all audit line ae u).Ensures
      (fun s => if line.isEmpty then s._read_idx = u._read_idx
        else s._read_idx ≤ line.length) ∧
    (∀ st : TCParser F, st._read_idx ≤ line.length →
      (listNameSpace ops all audit line st).Ensures (Within line st) ∧
      (nameSpace ops all audit line st).Ensures (Within line st) ∧
      (listFeatures ops all audit line st).Ensures (Within line st) ∧
      (maybeFeature ops all audit line st).Ensures (Within line st) ∧
      (isFeatureValueFloat ops all line st).Ensures (Within line st) ∧
      Within line st (read_name line st).2 ∧
      Within line st (stringFeatureValue (line.drop st._read_idx) st).2) ∧
    (∀ (n : Nat) (st : TCParser F), atBlank line st._read_idx = true →
      st._read_idx < line.length ∧
      listFeaturesLoop ops all audit line (n + 1) st =
        (maybeFeature ops all audit line { st with _read_idx := st._read_idx + 1 }).bind
          (fun _ s => listFeaturesLoop ops all audit line n s) ∧
      (maybeFeature ops all audit line { st with _read_idx := st._read_idx + 1 }).Ensures
        (fun s => st._read_idx < s._read_idx ∧ s._read_idx ≤ line.length)) ∧
    (∀ (n : Nat) (st : TCParser F), line.get? st._read_idx = some '|' →
      st._read_idx < line.length ∧
      listNameSpaceLoop ops all audit line (n + 1) st =
        (nameSpace ops all audit line { st with _read_idx := st._read_idx + 1 }).bind
          (fun _ s => listNameSpaceLoop ops all audit line n s) ∧
      (nameSpace ops all audit line { st with _read_idx := st._read_idx + 1 }).Ensures
        (fun s => st._read_idx < s._read_idx ∧ s._read_idx ≤ line.length)) ∧
    (∀ (i : Nat) (c : Char), line.get? i = some c → i < line.length) ∧
    (∀ i : Nat, line.length ≤ i → atSeparator line i = true ∧ nameEnd line i = true ∧
      atBlank line i = false ∧ atSectionEnd line i = true) := by
  refine ⟨?_, fun st h => ⟨listNameSpace_within ops all audit hfloat line st h,
      nameSpace_within ops all audit hfloat line st h,
      listFeatures_within ops all audit hfloat line st h,
      maybeFeature_within ops all audit hfloat line st h,
      isFeatureValueFloat_within ops all hfloat line st h,
      read_name_within line st h, ?_⟩,
    fun n st hb => ?_, fun n st hb => ?_, fun i c hc => get?_some_lt hc, fun i hi => ?_⟩
  · unfold TCParser.construct
    by_cases he : line.isEmpty = true
    · rw [if_neg (by rw [he]; decide)]
      show (if line.isEmpty = true then u._read_idx = u._read_idx else _)
      rw [if_pos he]
    · rw [if_pos (by simpa using he)]
      exact (listNameSpace_within ops all audit hfloat line _ (Nat.zero_le _)).mono_ensures
        (fun s hs => by rw [if_neg he]; exact hs.2)
  · refine ⟨(stringFeatureValue_advanced _ st).2, ?_⟩
    have := stringFeatureValue_idx_le (line.drop st._read_idx) st
    rw [List.length_drop] at this
    omega
  · have hlt := atBlank_lt hb
    refine ⟨hlt, ?_, ?_⟩
    · rw [listFeaturesLoop, if_pos hb]
    · exact (maybeFeature_within ops all audit hfloat line
        { st with _read_idx := st._read_idx + 1 } hlt).mono_ensures
          (fun s hs => ⟨Nat.lt_of_succ_le hs.1, hs.2⟩)
  · have hlt := bar_lt hb
    refine ⟨hlt, ?_, ?_⟩
    · rw [listNameSpaceLoop, if_pos hb]
    · exact (nameSpace_within ops all audit hfloat line
        { st with _read_idx := st._read_idx + 1 } hlt).mono_ensures
          (fun s hs => ⟨Nat.lt_of_succ_le hs.1, hs.2⟩)
  · have hnone : line.get? i = none := List.get?_eq_none.mpr hi
    unfold atSeparator nameEnd atBlank atSectionEnd
    rw [hnone]
    exact ⟨rfl, rfl, rfl, rfl⟩

/-- Witness for C36: the line `|a b:2 c` parsed with the sample float reader, which reads a
run of digits or `nan`; the parse returns with the read index at the end of the line. -/
theorem text_parse_ends_within_line_witness :
    FloatReaderBounded (sampleVW false) ∧
    (TCParser.construct sampleOps (sampleVW false) false "|a b:2 c".toList
      (Example.empty sampleOps) sampleState).Ensures
      (fun s => if "|a b:2 c".toList.isEmpty then s._read_idx = sampleState._read_idx
        else s._read_idx ≤ "|a b:2 c".toList.length) ∧
    ((TCParser.construct sampleOps (sampleVW false) false "|a b:2 c".toList
      (Example.empty sampleOps) sampleState).state?.map fun s => s._read_idx) = some 8 :=
  ⟨sampleParseFloat_bounded false,
    (text_parse_ends_within_line sampleOps (sampleVW false) false "|a b:2 c".toList
      (Example.empty sampleOps) sampleState (sampleParseFloat_bounded false)).1,
    by rfl⟩

/-! ## The circuit of the error-correcting tournament: one level (C39, C40) -/

lemma entrants_set (ts : List (List Nat)) (i : Nat) (t : List Nat) (q : Nat)
    (hi : i < ts.length) :
    entrants (ts.set i t) q = if q = i then t.length else entrants ts q := by
  unfold entrants
  by_cases hq : q = i
  · subst hq
    rw [if_pos rfl, List.getD_eq_getElem?_getD, List.getElem?_set_self hi]
    rfl
  · rw [if_neg hq, List.getD_eq_getElem?_getD, List.getD_eq_getElem?_getD,
      List.getElem?_set_ne (fun h => hq h.symm)]

lemma pushAt_spec (ts : List (List Nat)) (i x : Nat) (hi : i < ts.length) :
    ∃ ts1, pushAt ts i x = some ts1 ∧ ts1.length = ts.length ∧
      (∀ q, entrants ts1 q = entrants ts q + if q = i then 1 else 0) ∧
      (∀ t ∈ ts1, ∀ y ∈ t, y = x ∨ ∃ t0 ∈ ts, y ∈ t0) := by
  have hget : ts.get? i = some (ts.get ⟨i, hi⟩) := List.get?_eq_get hi
  refine ⟨ts.set i (ts.get ⟨i, hi⟩ ++ [x]), ?_, List.length_set _ _ _, fun q => ?_,
    fun t ht y hy => ?_⟩
  · unfold pushAt
    rw [hget]
  · rw [entrants_set ts i _ q hi]
    by_cases hq : q = i
    · subst hq
      rw [if_pos rfl, if_pos rfl, List.length_append]
      unfold entrants
      rw [List.getD_eq_getElem?_getD, List.getElem?_eq_getElem hi]
      rfl
    · rw [if_neg hq, if_neg hq, Nat.add_zero]
  · rcases List.mem_or_eq_of_mem_set ht with h | h
    · exact Or.inr ⟨t, h, hy⟩
    · subst h
      rcases List.mem_append.mp hy with h1 | h1
      · exact Or.inr ⟨_, List.get_mem ts i hi, h1⟩
      · exact Or.inl (List.mem_singleton.mp h1)

lemma DirIds.set_ids {ds : List direction} (h : DirIds ds) (i : Nat) (d : direction)
    (hd : ∀ d0, ds.get? i = some d0 → d.id = d0.id) : DirIds (ds.set i d) := by
  intro j x hx
  rw [List.get?_eq_getElem?] at hx
  by_cases hj : i = j
  · subst hj
    by_cases hlt : i < ds.length
    · rw [List.getElem?_set_self hlt] at hx
      injection hx with hx
      subst hx
      rw [hd _ (List.get?_eq_get hlt)]
      exact h i _ (List.get?_eq_get hlt)
    · rw [List.getElem?_eq_none (by rw [List.length_set]; omega)] at hx
      cases hx
  · rw [List.getElem?_set_ne hj] at hx
    exact h j x (by rw [List.get?_eq_getElem?]; exact hx)

lemma setDirection_spec (ds : List direction) (i : Nat) (f : direction → direction)
    (hi : i < ds.length) (hf : ∀ d, (f d).id = d.id) :
    ∃ ds1, setDirection ds i f = some ds1 ∧ ds1.length = ds.length ∧
      (DirIds ds → DirIds ds1) := by
  have hget : ds.get? i = some (ds.get ⟨i, hi⟩) := List.get?_eq_get hi
  refine ⟨ds.set i (f (ds.get ⟨i, hi⟩)), ?_, List.length_set _ _ _, fun h => ?_⟩
  · unfold setDirection
    rw [hget]
  · refine h.set_ids i _ (fun d0 hd0 => ?_)
    rw [hget] at hd0
    injection hd0 with hd0
    rw [hf, hd0]

lemma wayUp_id (i idx : Nat) (x : direction) : (wayUp i idx x).id = x.id := by
  unfold wayUp
  split <;> rfl

lemma wayUpOfLast_id (idx : Nat) (x : direction) : (wayUpOfLast idx x).id = x.id := by
  unfold wayUpOfLast
  split <;> rfl

lemma DirIds.append_ids {ds : List direction} (h : DirIds ds) (d : direction)
    (hd : d.id = ds.length % 2 ^ 32) : DirIds (ds ++ [d]) := by
  intro j x hx
  rw [List.get?_eq_getElem?] at hx
  by_cases hj : j < ds.length
  · rw [List.getElem?_append_left hj] at hx
    exact h j x (by rw [List.get?_eq_getElem?]; exact hx)
  · rw [List.getElem?_append_right (by omega)] at hx
    by_cases hj2 : j = ds.length
    · subst hj2
      rw [Nat.sub_self] at hx
      injection hx with hx
      subst hx
      exact hd
    · rw [List.getElem?_eq_none (by simp only [List.length_singleton]; omega)] at hx
      cases hx

lemma backIndex_lt (n : Nat) : backIndex (n + 1) < n + 1 := by
  unfold backIndex
  omega

lemma linkMatch_spec (ds : List direction) (i id left right : Nat)
    (hl : left < ds.length + 1) (hr : right < ds.length + 1) :
    ∃ ds3 idx, linkMatch ds i id left right = some (ds3, idx) ∧
      ds3.length = ds.length + 1 ∧ idx < ds3.length ∧
      (DirIds ds → id = ds.length % 2 ^ 32 → DirIds ds3) := by
  unfold linkMatch
  simp only []
  have hlen0 : (ds ++ [matchNode id i left right]).length = ds.length + 1 := by
    rw [List.length_append]
    rfl
  rw [hlen0]
  obtain ⟨ds1, h1, l1, i1⟩ := setDirection_spec (ds ++ [matchNode id i left right]) left
    (wayUp i (backIndex (ds.length + 1))) (by rw [hlen0]; exact hl) (wayUp_id _ _)
  obtain ⟨ds2, h2, l2, i2⟩ := setDirection_spec ds1 right
    (wayUp i (backIndex (ds.length + 1))) (by rw [l1, hlen0]; exact hr) (wayUp_id _ _)
  obtain ⟨ds3, h3, l3, i3⟩ := setDirection_spec ds2 left
    (wayUpOfLast (backIndex (ds.length + 1))) (by rw [l2, l1, hlen0]; exact hl)
    (wayUpOfLast_id _)
  refine ⟨ds3, backIndex (ds.length + 1), ?_, by rw [l3, l2, l1, hlen0], ?_, fun hd hid => ?_⟩
  · rw [h1, Option.some_bind, h2, Option.some_bind, h3]
    rfl
  · rw [l3, l2, l1, hlen0]
    exact backIndex_lt _
  · exact i3 (i2 (i1 (hd.append_ids _ hid)))

lemma promote_spec (tournaments : List (List Nat)) (i id idx : Nat) (ds : List direction)
    (nt : List (List Nat)) (fn : List Nat) (hidx : idx < ds.length)
    (hnt : nt.length = tournaments.length) (hi : i < tournaments.length) :
    ∃ ds1 nt1 fn1, promote tournaments i id idx ds nt fn = some (ds1, nt1, fn1) ∧
      ds1.length = ds.length ∧ nt1.length = nt.length ∧
      (∀ q, entrants nt1 q = entrants nt q +
        ((if q = i then (if lastPair tournaments i then 0 else 1) else 0) +
          (if q = i + 1 ∧ i + 1 < tournaments.length then
            (if lastPair tournaments i then 2 else 1) else 0))) ∧
      fn1.length = fn.length + (if lastPair tournaments i then 1 else 0) ∧
      (∀ t ∈ nt1, ∀ y ∈ t, y = id ∨ ∃ t0 ∈ nt, y ∈ t0) ∧
      (DirIds ds → DirIds ds1) := by
  by_cases hlast : lastPair tournaments i = true
  · obtain ⟨ds4, h4, l4, i4⟩ := setDirection_spec ds idx (fun x => { x with last := true })
      hidx (fun _ => rfl)
    by_cases hnext : i + 1 < tournaments.length
    · obtain ⟨nt1, p1, n1, s1, m1⟩ := pushAt_spec nt (i + 1) id (by rw [hnt]; exact hnext)
      obtain ⟨nt2, p2, n2, s2, m2⟩ := pushAt_spec nt1 (i + 1) id (by rw [n1, hnt]; exact hnext)
      have hp : promote tournaments i id idx ds nt fn =
          some (ds4, nt2, fn ++ [(ds4.length - 1) % 2 ^ 32]) := by
        unfold promote
        simp only [hlast, hnext, if_true, h4, p1, p2, Option.some_bind, Option.map_some']
      refine ⟨ds4, nt2, fn ++ [(ds4.length - 1) % 2 ^ 32], hp, l4, by rw [n2, n1],
        fun q => ?_, ?_, fun t ht y hy => ?_, i4⟩
      · rw [s2 q, s1 q]
        simp only [hlast, if_true]
        split_ifs <;> omega
      · rw [List.length_append, if_pos hlast]
        rfl
      · rcases m2 t ht y hy with h | ⟨t0, ht0, hy0⟩
        · exact Or.inl h
        · exact m1 t0 ht0 y hy0
    · obtain ⟨ds5, h5, l5, i5⟩ := setDirection_spec ds4 idx (fun x => { x with winner := 0 })
        (by rw [l4]; exact hidx) (fun _ => rfl)
      obtain ⟨ds6, h6, l6, i6⟩ := setDirection_spec ds5 idx (fun x => { x with loser := 0 })
        (by rw [l5, l4]; exact hidx) (fun _ => rfl)
      have hp : promote tournaments i id idx ds nt fn =
          some (ds6, nt, fn ++ [(ds5.length - 1) % 2 ^ 32]) := by
        unfold promote
        simp only [hlast, hnext, if_true, if_false, h4, h5, h6, Option.some_bind,
          Option.map_some']
      refine ⟨ds6, nt, fn ++ [(ds5.length - 1) % 2 ^ 32], hp, by rw [l6, l5, l4], rfl,
        fun q => ?_, ?_, fun t ht y hy => Or.inr ⟨t, ht, hy⟩, fun h => i6 (i5 (i4 h))⟩
      · simp only [hlast, if_true]
        split_ifs <;> omega
      · rw [List.length_append, if_pos hlast]
        rfl
  · obtain ⟨nt1, p1, n1, s1, m1⟩ := pushAt_spec nt i id (by rw [hnt]; exact hi)
    by_cases hnext : i + 1 < tournaments.length
    · obtain ⟨nt2, p2, n2, s2, m2⟩ := pushAt_spec nt1 (i + 1) id (by rw [n1, hnt]; exact hnext)
      have hp : promote tournaments i id idx ds nt fn = some (ds, nt2, fn) := by
        unfold promote
        simp only [hlast, hnext, Bool.false_eq_true, if_true, if_false, p1, p2, Option.some_bind, Option.map_some']
      refine ⟨ds, nt2, fn, hp, rfl, by rw [n2, n1], fun q => ?_, ?_,
        fun t ht y hy => ?_, fun h => h⟩
      · rw [s2 q, s1 q]
        simp only [hlast, Bool.false_eq_true, if_false]
        split_ifs <;> omega
      · rw [if_neg hlast]
        rfl
      · rcases m2 t ht y hy with h | ⟨t0, ht0, hy0⟩
        · exact Or.inl h
        · exact m1 t0 ht0 y hy0
    · obtain ⟨ds6, h6, l6, i6⟩ := setDirection_spec ds idx (fun x => { x with loser := 0 })
        hidx (fun _ => rfl)
      have hp : promote tournaments i id idx ds nt fn = some (ds6, nt1, fn) := by
        unfold promote
        simp only [hlast, hnext, Bool.false_eq_true, if_false, p1, h6, Option.some_bind, Option.map_some']
      refine ⟨ds6, nt1, fn, hp, l6, n1, fun q => ?_, ?_, m1, i6⟩
      · rw [s1 q]
        simp only [hlast, Bool.false_eq_true, if_false]
        split_ifs <;> omega
      · rw [if_neg hlast]
        rfl

lemma RoundStep.refl_step (E : Nat) (r : Round) (h : RoundInv E r) :
    RoundStep E r r 0 0 (fun _ => 0) :=
  ⟨h, rfl, rfl, fun _ => rfl, rfl, fun hd => hd⟩

lemma RoundStep.trans_step {E : Nat} {r r1 r2 : Round} {a b a1 b1 : Nat} {f f1 : Nat → Nat}
    (h : RoundStep E r r1 a b f) (h1 : RoundStep E r1 r2 a1 b1 f1) :
    RoundStep E r r2 (a + a1) (b + b1) (fun q => f q + f1 q) :=
  ⟨h1.inv, by rw [h1.dirs, h.dirs, Nat.add_assoc], by rw [h1.finals, h.finals, Nat.add_assoc],
    fun q => by rw [h1.sizes q, h.sizes q, Nat.add_assoc], h1.levels.trans h.levels,
    fun hd => h1.dirIds (h.dirIds hd)⟩

lemma RoundStep.congr_step {E : Nat} {r r1 : Round} {a b a1 b1 : Nat} {f f1 : Nat → Nat}
    (h : RoundStep E r r1 a b f) (ha : a = a1) (hb : b = b1) (hf : ∀ q, f q = f1 q) :
    RoundStep E r r1 a1 b1 f1 :=
  ⟨h.inv, by rw [h.dirs, ha], by rw [h.finals, hb], fun q => by rw [h.sizes q, hf q],
    h.levels, h.dirIds⟩

lemma entrant_get? (t : List Nat) (j : Nat) (hj : j < t.length) :
    ∃ x, t.get? j = some x ∧ x ∈ t :=
  ⟨t.get ⟨j, hj⟩, List.get?_eq_get hj, List.get_mem t j hj⟩

/-- One match of tournament `i`. -/
lemma matchBody_step (tournaments : List (List Nat)) (E i j : Nat) (r : Round)
    (hE : tournaments.length = E) (hi : i < E) (hj : 2 * j + 1 < entrants tournaments i)
    (hids : ∀ x ∈ tournaments.getD i [], x < r.e.directions.length) (hinv : RoundInv E r) :
    ∃ r1, matchBody tournaments i j r = some r1 ∧
      RoundStep E r r1 1 (if lastPair tournaments i then 1 else 0)
        (fun q => (if q = i then (if lastPair tournaments i then 0 else 1) else 0) +
          (if q = i + 1 ∧ i + 1 < tournaments.length then
            (if lastPair tournaments i then 2 else 1) else 0)) := by
  unfold entrants at hj
  obtain ⟨left, hleft, hlmem⟩ := entrant_get? (tournaments.getD i []) (2 * j) (by omega)
  obtain ⟨right, hright, hrmem⟩ := entrant_get? (tournaments.getD i []) (2 * j + 1) hj
  obtain ⟨ds3, idx, hlink, l3, hidx, i3⟩ := linkMatch_spec r.e.directions i r.node left right
    (Nat.lt_succ_of_lt (hids left hlmem)) (Nat.lt_succ_of_lt (hids right hrmem))
  obtain ⟨ds1, nt1, fn1, hp, l1, n1, s1, f1, m1, i1⟩ := promote_spec tournaments i r.node idx
    ds3 r.new_tournaments r.e.final_nodes hidx (by rw [hinv.len, hE]) (by rw [hE]; exact hi)
  refine ⟨{ e := { r.e with directions := ds1, final_nodes := fn1 }
            node := (r.node + 1) % 2 ^ 32
            new_tournaments := nt1 }, ?_, ⟨?_, ?_, ?_⟩, ?_, f1, s1, rfl, ?_⟩
  · unfold matchBody
    rw [hleft, hright]
    simp only []
    rw [hlink, Option.some_bind, hp]
    rfl
  · show (r.node + 1) % 2 ^ 32 = ds1.length % 2 ^ 32
    rw [l1, l3, hinv.node]
    omega
  · show nt1.length = E
    rw [n1, hinv.len]
  · intro t ht y hy
    show y < ds1.length
    rw [l1, l3]
    rcases m1 t ht y hy with h | ⟨t0, ht0, hy0⟩
    · rw [h, hinv.node]
      have := Nat.mod_le r.e.directions.length (2 ^ 32)
      omega
    · exact Nat.lt_succ_of_lt (hinv.ids t0 ht0 y hy0)
  · show ds1.length = r.e.directions.length + 1
    rw [l1, l3]
  · intro hd
    exact i1 (i3 hd hinv.node)

/-- The matches `j`, ..., `j + count - 1` of tournament `i`. -/
lemma matchLoop_step (tournaments : List (List Nat)) (E i : Nat)
    (hE : tournaments.length = E) (hi : i < E) (count : Nat) :
    ∀ (j : Nat) (r : Round), 2 * (j + count) ≤ entrants tournaments i →
      (∀ x ∈ tournaments.getD i [], x < r.e.directions.length) → RoundInv E r →
      ∃ r1, matchLoop tournaments i count j r = some r1 ∧
        RoundStep E r r1 count (count * if lastPair tournaments i then 1 else 0)
          (fun q => count * ((if q = i then (if lastPair tournaments i then 0 else 1) else 0) +
            (if q = i + 1 ∧ i + 1 < tournaments.length then
              (if lastPair tournaments i then 2 else 1) else 0))) := by
  induction count with
  | zero =>
    intro j r _ _ hinv
    exact ⟨r, rfl, (RoundStep.refl_step E r hinv).congr_step rfl (Nat.zero_mul _).symm
      (fun q => (Nat.zero_mul _).symm)⟩
  | succ count ih =>
    intro j r hj hids hinv
    obtain ⟨r1, h1, st1⟩ := matchBody_step tournaments E i j r hE hi (by omega) hids hinv
    obtain ⟨r2, h2, st2⟩ := ih (j + 1) r1 (by omega)
      (fun x hx => by rw [st1.dirs]; exact Nat.lt_succ_of_lt (hids x hx)) st1.inv
    refine ⟨r2, ?_, (st1.trans_step st2).congr_step (Nat.add_comm _ _) ?_ (fun q => ?_)⟩
    · rw [matchLoop, h1, Option.some_bind, h2]
    · rw [Nat.succ_mul, Nat.add_comm]
    · rw [Nat.succ_mul, Nat.add_comm]

/-- The matches of tournament `i` and the carry of its odd entrant. -/
lemma tournamentBody_step (tournaments : List (List Nat)) (E i : Nat) (r : Round)
    (hE : tournaments.length = E) (hi : i < E)
    (hids : ∀ x ∈ tournaments.getD i [], x < r.e.directions.length) (hinv : RoundInv E r) :
    ∃ r1, tournamentBody tournaments i r = some r1 ∧
      RoundStep E r r1 (entrants tournaments i / 2) (finalsOf tournaments i)
        (fun q => (if q = i then staying tournaments i else 0) +
          (if q = i + 1 ∧ i + 1 < E then moving tournaments i else 0)) := by
  obtain ⟨r1, h1, st1⟩ := matchLoop_step tournaments E i hE hi (entrants tournaments i / 2) 0 r
    (by omega) hids hinv
  have hsz : ∀ q odd, (entrants tournaments i / 2 *
      ((if q = i then (if lastPair tournaments i then 0 else 1) else 0) +
        (if q = i + 1 ∧ i + 1 < tournaments.length then
          (if lastPair tournaments i then 2 else 1) else 0)) +
      if q = i then odd else 0) =
      (if q = i then
        (if lastPair tournaments i then 0 else entrants tournaments i / 2) + odd else 0) +
      (if q = i + 1 ∧ i + 1 < E then
        (if lastPair tournaments i then 2 else 1) * (entrants tournaments i / 2) else 0) := by
    intro q odd
    rw [hE]
    by_cases hl : lastPair tournaments i = true
    · simp only [hl, if_true]
      split_ifs <;> omega
    · simp only [hl, Bool.false_eq_true, if_false]
      split_ifs <;> omega
  have hfin : (entrants tournaments i / 2 * if lastPair tournaments i then 1 else 0) =
      finalsOf tournaments i := by
    unfold finalsOf
    split <;> omega
  have h1b : matchLoop tournaments i ((tournaments.getD i []).length / 2) 0 r = some r1 := h1
  by_cases hodd : entrants tournaments i % 2 = 1
  · have hne : tournaments.getD i [] ≠ [] := by
      intro h0
      unfold entrants at hodd
      rw [h0] at hodd
      cases hodd
    obtain ⟨x, hx⟩ : ∃ x, (tournaments.getD i []).getLast? = some x :=
      ⟨_, List.getLast?_eq_getLast _ hne⟩
    have hxmem : x ∈ tournaments.getD i [] := List.mem_of_getLast?_eq_some hx
    obtain ⟨nt, p, n, sq, m⟩ := pushAt_spec r1.new_tournaments i x
      (by rw [st1.inv.len]; exact hi)
    refine ⟨{ r1 with new_tournaments := nt }, ?_, ⟨⟨st1.inv.node, ?_, ?_⟩, st1.dirs, ?_,
      fun q => ?_, st1.levels, st1.dirIds⟩⟩
    · unfold tournamentBody
      rw [h1b, Option.some_bind]
      unfold entrants at hodd
      rw [if_pos hodd, hx]
      simp only []
      rw [p]
      rfl
    · show nt.length = E
      rw [n, st1.inv.len]
    · intro t ht y hy
      rcases m t ht y hy with h | ⟨t0, ht0, hy0⟩
      · rw [h]
        show x < r1.e.directions.length
        rw [st1.dirs]
        exact Nat.lt_add_right _ (hids x hxmem)
      · exact st1.inv.ids t0 ht0 y hy0
    · rw [st1.finals, hfin]
    · show entrants nt q = _
      rw [sq q, st1.sizes q, Nat.add_assoc, hsz q 1]
      unfold staying moving
      rw [hodd]
  · have heven : entrants tournaments i % 2 = 0 := by omega
    refine ⟨r1, ?_, st1.congr_step rfl hfin (fun q => ?_)⟩
    · unfold tournamentBody
      rw [h1b, Option.some_bind]
      unfold entrants at hodd
      rw [if_neg hodd]
    · have := hsz q 0
      simp only [ite_self, Nat.add_zero] at this
      rw [this]
      unfold staying moving
      simp only [heven, Nat.add_zero]

/-- The tournaments `i`, ..., `i + count - 1` of a level. -/
lemma tournamentLoop_step (tournaments : List (List Nat)) (E : Nat)
    (hE : tournaments.length = E) (count : Nat) :
    ∀ (i : Nat) (r : Round), i + count ≤ E →
      (∀ t ∈ tournaments, ∀ x ∈ t, x < r.e.directions.length) → RoundInv E r →
      ∃ r1, tournamentLoop tournaments count i r = some r1 ∧
        RoundStep E r r1 (sumFrom (fun q => entrants tournaments q / 2) i count)
          (sumFrom (finalsOf tournaments) i count)
          (fun q => (if i ≤ q ∧ q < i + count then staying tournaments q else 0) +
            (if i + 1 ≤ q ∧ q ≤ i + count ∧ q < E then moving tournaments (q - 1) else 0)) := by
  induction count with
  | zero =>
    intro i r _ _ hinv
    refine ⟨r, rfl, (RoundStep.refl_step E r hinv).congr_step rfl rfl (fun q => ?_)⟩
    rw [if_neg (by omega), if_neg (by omega)]
  | succ count ih =>
    intro i r hi hids hinv
    have hmem : ∀ x ∈ tournaments.getD i [], x < r.e.directions.length := by
      intro x hx
      have hlt : i < tournaments.length := by omega
      rw [List.getD_eq_getElem?_getD, List.getElem?_eq_getElem hlt] at hx
      exact hids _ (List.getElem_mem hlt) x hx
    obtain ⟨r1, h1, st1⟩ := tournamentBody_step tournaments E i r hE (by omega) hmem hinv
    obtain ⟨r2, h2, st2⟩ := ih (i + 1) r1 (by omega)
      (fun t ht x hx => by rw [st1.dirs]; exact Nat.lt_add_right _ (hids t ht x hx)) st1.inv
    refine ⟨r2, ?_, (st1.trans_step st2).congr_step rfl rfl (fun q => ?_)⟩
    · rw [tournamentLoop, h1, Option.some_bind, h2]
    · have hz : ∀ q, E ≤ q → staying tournaments q = 0 := by
        intro q hq
        unfold staying entrants
        rw [List.getD_eq_getElem?_getD, List.getElem?_eq_none (by omega)]
        simp
      by_cases hqi : q = i
      · subst hqi
        simp only [if_true, Nat.add_sub_cancel, true_and]
        split_ifs <;> omega
      · by_cases hq1 : q = i + 1
        · subst hq1
          simp only [Nat.add_sub_cancel, true_and]
          have := hz (i + 1)
          split_ifs <;> omega
        · simp only [hqi, if_false]
          split_ifs <;> omega

lemma entrants_beyond (tournaments : List (List Nat)) (q : Nat)
    (h : tournaments.length ≤ q) : entrants tournaments q = 0 := by
  unfold entrants
  rw [List.getD_eq_getElem?_getD, List.getElem?_eq_none h]
  rfl

lemma staying_beyond (tournaments : List (List Nat)) (q : Nat)
    (h : tournaments.length ≤ q) : staying tournaments q = 0 := by
  unfold staying
  rw [entrants_beyond tournaments q h]
  simp

lemma entrants_empty_level (tournaments : List (List Nat)) (q : Nat) :
    entrants (tournaments.map (fun _ => ([] : List Nat))) q = 0 := by
  unfold entrants
  rw [List.getD_eq_getElem?_getD, List.getElem?_map]
  cases tournaments[q]? <;> rfl

/-- One run of the body of the level loop. -/
lemma levelBody_spec (tournaments : List (List Nat)) (E : Nat) (e : ect) (node : Nat)
    (hE : tournaments.length = E)
    (hids : ∀ t ∈ tournaments, ∀ x ∈ t, x < e.directions.length)
    (hnode : node = e.directions.length % 2 ^ 32) :
    ∃ e1 node1 nt, levelBody tournaments e node = some (e1, node1) ∧
      e1.all_levels = e.all_levels ++ [nt] ∧ nt.length = E ∧
      (∀ q, entrants nt q = staying tournaments q +
        (if 1 ≤ q ∧ q < E then moving tournaments (q - 1) else 0)) ∧
      e1.directions.length =
        e.directions.length + sumFrom (fun q => entrants tournaments q / 2) 0 E ∧
      e1.final_nodes.length = e.final_nodes.length + sumFrom (finalsOf tournaments) 0 E ∧
      (∀ t ∈ nt, ∀ x ∈ t, x < e1.directions.length) ∧
      node1 = e1.directions.length % 2 ^ 32 ∧
      (DirIds e.directions → DirIds e1.directions) := by
  have hinv : RoundInv E
      { e := e, node := node, new_tournaments := tournaments.map (fun _ => []) } := by
    refine ⟨hnode, ?_, fun t ht x hx => ?_⟩
    · show (tournaments.map (fun _ => ([] : List Nat))).length = E
      rw [List.length_map, hE]
    · have ht1 : t ∈ tournaments.map (fun _ => ([] : List Nat)) := ht
      rw [List.mem_map] at ht1
      obtain ⟨_, _, rfl⟩ := ht1
      cases hx
  obtain ⟨r1, h1, st1⟩ := tournamentLoop_step tournaments E hE E 0
    { e := e, node := node, new_tournaments := tournaments.map (fun _ => []) }
    (by omega) hids hinv
  refine ⟨{ r1.e with all_levels := r1.e.all_levels ++ [r1.new_tournaments] }, r1.node,
    r1.new_tournaments, ?_, ?_, st1.inv.len, fun q => ?_, st1.dirs, st1.finals, st1.inv.ids,
    st1.inv.node, st1.dirIds⟩
  · unfold levelBody
    rw [hE, h1]
    rfl
  · show r1.e.all_levels ++ [r1.new_tournaments] = _
    rw [st1.levels]
  · rw [st1.sizes q]
    show entrants (tournaments.map (fun _ => ([] : List Nat))) q + _ = _
    rw [entrants_empty_level, Nat.zero_add]
    have hz := staying_beyond tournaments q
    rw [hE] at hz
    split_ifs <;> omega

/-! ## The circuit of the error-correcting tournament: the measure of a level -/

lemma sumFrom_congr (f g : Nat → Nat) (c : Nat) :
    ∀ i, (∀ q, i ≤ q → q < i + c → f q = g q) → sumFrom f i c = sumFrom g i c := by
  induction c with
  | zero => exact fun _ _ => rfl
  | succ c ih =>
    intro i h
    rw [sumFrom, sumFrom, h i (le_refl _) (by omega),
      ih (i + 1) (fun q h1 h2 => h q (by omega) (by omega))]

lemma sumFrom_add (f g : Nat → Nat) (c : Nat) :
    ∀ i, sumFrom (fun q => f q + g q) i c = sumFrom f i c + sumFrom g i c := by
  induction c with
  | zero => exact fun _ => rfl
  | succ c ih =>
    intro i
    rw [sumFrom, sumFrom, sumFrom, ih (i + 1)]
    omega

lemma sumFrom_zero (f : Nat → Nat) (c : Nat) :
    ∀ i, (∀ q, i ≤ q → q < i + c → f q = 0) → sumFrom f i c = 0 := by
  induction c with
  | zero => exact fun _ _ => rfl
  | succ c ih =>
    intro i h
    rw [sumFrom, h i (le_refl _) (by omega),
      ih (i + 1) (fun q h1 h2 => h q (by omega) (by omega))]

lemma sumFrom_single (f : Nat → Nat) (m : Nat) (c : Nat) :
    ∀ i, i ≤ m → m < i + c → (∀ q, i ≤ q → q < i + c → q ≠ m → f q = 0) →
      sumFrom f i c = f m := by
  induction c with
  | zero => exact fun i h1 h2 _ => absurd h2 (by omega)
  | succ c ih =>
    intro i h1 h2 h
    rw [sumFrom]
    by_cases him : i = m
    · subst him
      rw [sumFrom_zero f c (i + 1) (fun q h3 h4 => h q (by omega) (by omega) (by omega))]
      rfl
    · rw [h i (le_refl _) (by omega) him, Nat.zero_add]
      exact ih (i + 1) (by omega) (by omega) (fun q h3 h4 h5 => h q (by omega) (by omega) h5)

lemma sumFrom_ge (f : Nat → Nat) (m : Nat) (c : Nat) :
    ∀ i, i ≤ m → m < i + c → f m ≤ sumFrom f i c := by
  induction c with
  | zero => exact fun i h1 h2 => absurd h2 (by omega)
  | succ c ih =>
    intro i h1 h2
    rw [sumFrom]
    by_cases him : i = m
    · subst him
      exact Nat.le_add_right _ _
    · exact le_trans (ih (i + 1) (by omega) (by omega)) (Nat.le_add_left _ _)

lemma sumFrom_shift (f : Nat → Nat) (c : Nat) :
    ∀ i, sumFrom (fun q => f (q + 1)) i c = sumFrom f (i + 1) c := by
  induction c with
  | zero => exact fun _ => rfl
  | succ c ih =>
    intro i
    rw [sumFrom, sumFrom, ih (i + 1)]

lemma sumFrom_last (f : Nat → Nat) (c : Nat) :
    ∀ i, sumFrom f i (c + 1) = sumFrom f i c + f (i + c) := by
  induction c with
  | zero =>
    intro i
    rw [sumFrom, sumFrom, sumFrom, Nat.add_zero, Nat.zero_add, Nat.add_zero]
  | succ c ih =>
    intro i
    rw [sumFrom, ih (i + 1), sumFrom, Nat.add_assoc, Nat.add_assoc, Nat.add_comm 1 c]

lemma lastPair_iff (tournaments : List (List Nat)) (q : Nat) :
    lastPair tournaments q = true ↔
      entrants tournaments q = 2 ∧ (q = 0 ∨ entrants tournaments (q - 1) = 0) := by
  unfold lastPair entrants
  simp only [Bool.and_eq_true, beq_iff_eq, Bool.or_eq_true, List.isEmpty_iff,
    List.length_eq_zero]

/-- Under the invariant only the first tournament that is not over can have its last
pair. -/
lemma lastPair_of_inv (tournaments : List (List Nat)) (E m : Nat)
    (inv : LevelInv E m (entrants tournaments)) (q : Nat) :
    lastPair tournaments q = true ↔ q = m ∧ entrants tournaments m = 2 := by
  rw [lastPair_iff]
  constructor
  · rintro ⟨h2, h0⟩
    have hqE : q < E := by
      by_contra hge
      have := inv.beyond q (by omega)
      omega
    have hm : q = m := by
      by_contra hne
      rcases Nat.lt_or_gt_of_ne hne with hlt | hgt
      · have := inv.over q hlt
        omega
      · have hq1 : entrants tournaments (q - 1) = 0 := by
          rcases h0 with h | h
          · omega
          · exact h
        by_cases hqm : q - 1 = m
        · have := inv.live (by omega)
          rw [hqm] at hq1
          omega
        · have := inv.chain (q - 1) (by omega) hq1
          rw [show q - 1 + 1 = q by omega] at this
          omega
    exact ⟨hm, hm ▸ h2⟩
  · rintro ⟨rfl, h2⟩
    refine ⟨h2, ?_⟩
    by_cases h0 : q = 0
    · exact Or.inl h0
    · exact Or.inr (inv.over (q - 1) (by omega))

lemma staying_of_inv (tournaments : List (List Nat)) (E m : Nat)
    (inv : LevelInv E m (entrants tournaments)) (q : Nat) :
    (q = m ∧ entrants tournaments m = 2 → staying tournaments q = 0) ∧
    (¬(q = m ∧ entrants tournaments m = 2) →
      staying tournaments q = entrants tournaments q / 2 + entrants tournaments q % 2) := by
  unfold staying
  constructor
  · intro h
    rw [if_pos ((lastPair_of_inv tournaments E m inv q).mpr h), h.1, h.2]
  · intro h
    rw [if_neg (fun hl => h ((lastPair_of_inv tournaments E m inv q).mp hl))]

lemma moving_of_inv (tournaments : List (List Nat)) (E m : Nat)
    (inv : LevelInv E m (entrants tournaments)) (q : Nat) :
    (q = m ∧ entrants tournaments m = 2 → moving tournaments q = 2) ∧
    (¬(q = m ∧ entrants tournaments m = 2) →
      moving tournaments q = entrants tournaments q / 2) := by
  unfold moving
  constructor
  · intro h
    rw [if_pos ((lastPair_of_inv tournaments E m inv q).mpr h), h.1, h.2]
  · intro h
    rw [if_neg (fun hl => h ((lastPair_of_inv tournaments E m inv q).mp hl)), Nat.one_mul]

lemma finalsOf_of_inv (tournaments : List (List Nat)) (E m : Nat)
    (inv : LevelInv E m (entrants tournaments)) (q : Nat) :
    (q = m ∧ entrants tournaments m = 2 → finalsOf tournaments q = 1) ∧
    (¬(q = m ∧ entrants tournaments m = 2) → finalsOf tournaments q = 0) := by
  unfold finalsOf
  constructor
  · intro h
    rw [if_pos ((lastPair_of_inv tournaments E m inv q).mpr h), h.1, h.2]
  · intro h
    rw [if_neg (fun hl => h ((lastPair_of_inv tournaments E m inv q).mp hl))]

/-- The first tournament that is not over after a level: the next one when the last pair of
tournament `m` was matched, tournament `m` otherwise. -/
lemma nextOpen_le (E m s2 : Nat) (h : m ≤ E) :
    (if m < E ∧ s2 = 2 then m + 1 else m) ≤ E := by
  split_ifs <;> omega

/-- The invariant of the levels is kept by the body of the level loop. -/
lemma LevelInv.next_inv (tournaments nt : List (List Nat)) (E m : Nat)
    (inv : LevelInv E m (entrants tournaments))
    (hnt : ∀ q, entrants nt q = staying tournaments q +
      (if 1 ≤ q ∧ q < E then moving tournaments (q - 1) else 0)) :
    LevelInv E (if m < E ∧ entrants tournaments m = 2 then m + 1 else m) (entrants nt) := by
  have hbm : E ≤ m → entrants tournaments m = 0 := inv.beyond m
  refine ⟨nextOpen_le E m _ inv.le, fun q hq => ?_, fun hlt => ?_, fun q hq h0 => ?_,
    fun q hq => ?_⟩
  · -- the tournaments before the open one are empty
    rw [hnt q]
    have k1 := staying_of_inv tournaments E m inv q
    have o1 : q < m → entrants tournaments q = 0 := inv.over q
    have hqm1 : q ≤ m := by
      by_cases hF : m < E ∧ entrants tournaments m = 2
      · rw [if_pos hF] at hq
        omega
      · rw [if_neg hF] at hq
        omega
    have hst : staying tournaments q = 0 := by
      by_cases hF : q = m ∧ entrants tournaments m = 2
      · exact k1.1 hF
      · have := k1.2 hF
        have hlt : q < m := by
          by_cases hF2 : m < E ∧ entrants tournaments m = 2
          · rw [if_pos hF2] at hq
            by_contra hge
            exact hF ⟨by omega, hF2.2⟩
          · rw [if_neg hF2] at hq
            exact hq
        have := o1 hlt
        omega
    by_cases hg : 1 ≤ q ∧ q < E
    · rw [if_pos hg, hst, Nat.zero_add]
      have := (moving_of_inv tournaments E m inv (q - 1)).2 (by omega)
      have := inv.over (q - 1) (by omega)
      omega
    · rw [if_neg hg, hst]
  · -- the open tournament has two entrants or more
    by_cases hF : m < E ∧ entrants tournaments m = 2
    · rw [if_pos hF] at hlt ⊢
      rw [hnt (m + 1), if_pos ⟨by omega, hlt⟩, Nat.add_sub_cancel]
      have := (moving_of_inv tournaments E m inv m).1 ⟨rfl, hF.2⟩
      omega
    · rw [if_neg hF] at hlt ⊢
      rw [hnt m]
      have := (staying_of_inv tournaments E m inv m).2 (fun h => hF ⟨hlt, h.2⟩)
      have := inv.live hlt
      have hne : entrants tournaments m ≠ 2 := fun h => hF ⟨hlt, h⟩
      omega
  · -- no tournament with entrants follows an empty one
    have hmq : m < q := by
      by_cases hF : m < E ∧ entrants tournaments m = 2
      · rw [if_pos hF] at hq
        omega
      · rw [if_neg hF] at hq
        exact hq
    rw [hnt q] at h0
    rw [hnt (q + 1), Nat.add_sub_cancel]
    have k1 := (staying_of_inv tournaments E m inv q).2 (by omega)
    have k3 := (staying_of_inv tournaments E m inv (q + 1)).2 (by omega)
    have k4 := (moving_of_inv tournaments E m inv q).2 (by omega)
    have hsq : entrants tournaments q = 0 := by omega
    have := inv.chain q hmq hsq
    split_ifs <;> omega
  · rw [hnt q, if_neg (by omega)]
    have := inv.beyond q hq
    have := (staying_of_inv tournaments E m inv q).2 (by omega)
    omega

/-- The final nodes of a level: one when the last pair of the open tournament is matched. -/
lemma finals_of_level (tournaments : List (List Nat)) (E m : Nat)
    (inv : LevelInv E m (entrants tournaments)) :
    sumFrom (finalsOf tournaments) 0 E =
      if m < E ∧ entrants tournaments m = 2 then 1 else 0 := by
  by_cases hF : m < E ∧ entrants tournaments m = 2
  · rw [if_pos hF, sumFrom_single (finalsOf tournaments) m E 0 (Nat.zero_le _) (by omega)
      (fun q _ _ hq => (finalsOf_of_inv tournaments E m inv q).2 (fun h => hq h.1))]
    exact (finalsOf_of_inv tournaments E m inv m).1 ⟨rfl, hF.2⟩
  · rw [if_neg hF]
    refine sumFrom_zero _ E 0 (fun q _ hq => ?_)
    refine (finalsOf_of_inv tournaments E m inv q).2 (fun h => hF ⟨?_, h.2⟩)
    omega

/-- A level with an open tournament has a match. -/
lemma pairs_of_level (tournaments : List (List Nat)) (E m : Nat)
    (inv : LevelInv E m (entrants tournaments)) (hm : m < E) :
    1 ≤ sumFrom (fun q => entrants tournaments q / 2) 0 E := by
  have := sumFrom_ge (fun q => entrants tournaments q / 2) m E 0 (Nat.zero_le _) (by omega)
  have := inv.live hm
  simp only [] at *
  omega

/-- What the entrants of one tournament weigh after their matches, the matches and the final
node included. -/
lemma weight_of_tournament (tournaments : List (List Nat)) (a q : Nat) :
    staying tournaments q * (a + 1) + moving tournaments q * a +
      (entrants tournaments q / 2 + finalsOf tournaments q) =
    entrants tournaments q * (a + 1) := by
  unfold staying moving finalsOf
  by_cases hl : lastPair tournaments q = true
  · have h2 : entrants tournaments q = 2 := ((lastPair_iff tournaments q).mp hl).1
    rw [if_pos hl, if_pos hl, if_pos hl, h2]
    ring
  · rw [if_neg hl, if_neg hl, if_neg hl]
    have hdm := Nat.div_add_mod (entrants tournaments q) 2
    generalize entrants tournaments q / 2 = p at *
    generalize entrants tournaments q % 2 = r at *
    rw [← hdm]
    ring

/-- The weight of the next level, the matches and the final nodes of the level add up to
the weight of the level. -/
lemma weight_of_level (tournaments nt : List (List Nat)) (E : Nat)
    (hnt : ∀ q, entrants nt q = staying tournaments q +
      (if 1 ≤ q ∧ q < E then moving tournaments (q - 1) else 0)) :
    levelWeight E (entrants nt) + sumFrom (fun q => entrants tournaments q / 2) 0 E +
      sumFrom (finalsOf tournaments) 0 E = levelWeight E (entrants tournaments) := by
  unfold levelWeight
  have h1 : sumFrom (fun q => entrants nt q * (E - q)) 0 E =
      sumFrom (fun q => staying tournaments q * (E - q)) 0 E +
      sumFrom (fun q => (if 1 ≤ q ∧ q < E then moving tournaments (q - 1) else 0) * (E - q))
        0 E := by
    rw [← sumFrom_add]
    refine sumFrom_congr _ _ E 0 (fun q _ _ => ?_)
    rw [hnt q, Nat.add_mul]
  have h2 : sumFrom (fun q => (if 1 ≤ q ∧ q < E then moving tournaments (q - 1) else 0) *
      (E - q)) 0 E = sumFrom (fun q => moving tournaments q * (E - q - 1)) 0 E := by
    cases E with
    | zero => rfl
    | succ n =>
      rw [sumFrom, if_neg (by omega), Nat.zero_mul, Nat.zero_add, ← sumFrom_shift,
        sumFrom_last, Nat.zero_add, show n + 1 - n - 1 = 0 by omega, Nat.mul_zero,
        Nat.add_zero]
      refine sumFrom_congr _ _ n 0 (fun q _ hq => ?_)
      rw [if_pos ⟨by omega, by omega⟩, Nat.add_sub_cancel,
        show n + 1 - (q + 1) = n + 1 - q - 1 by omega]
  rw [h1, h2, ← sumFrom_add, ← sumFrom_add, ← sumFrom_add]
  refine sumFrom_congr _ _ E 0 (fun q _ hq => ?_)
  obtain ⟨a, ha⟩ : ∃ a, E - q = a + 1 := ⟨E - q - 1, by omega⟩
  rw [ha, Nat.add_sub_cancel, Nat.add_assoc]
  exact weight_of_tournament tournaments a q

/-- The weight of a level and the number of the open tournament make at least `E`. -/
lemma weight_ge (E m : Nat) (s : Nat → Nat) (inv : LevelInv E m s) :
    E ≤ levelWeight E s + m := by
  by_cases hm : m < E
  · have h1 := sumFrom_ge (fun q => s q * (E - q)) m E 0 (Nat.zero_le _) (by omega)
    have h2 := inv.live hm
    have h3 : 2 * (E - m) ≤ s m * (E - m) := Nat.mul_le_mul_right _ h2
    unfold levelWeight
    simp only [] at h1
    omega
  · have := inv.le
    omega

/-- When every tournament is over the level is empty and weighs nothing. -/
lemma weight_over (E : Nat) (s : Nat → Nat) (inv : LevelInv E E s) : levelWeight E s = 0 := by
  unfold levelWeight
  refine sumFrom_zero _ E 0 (fun q _ hq => ?_)
  rw [inv.over q (by omega), Nat.zero_mul]

lemma not_empty_iff (tournaments : List (List Nat)) :
    not_empty tournaments = true ↔ ∃ q, entrants tournaments q ≠ 0 := by
  unfold not_empty
  rw [List.any_eq_true]
  constructor
  · rintro ⟨t, ht, hne⟩
    obtain ⟨q, hq, rfl⟩ := List.getElem_of_mem ht
    refine ⟨q, ?_⟩
    unfold entrants
    rw [List.getD_eq_getElem?_getD, List.getElem?_eq_getElem hq]
    cases hc : tournaments[q] with
    | nil => rw [hc] at hne; cases hne
    | cons a as => exact fun h => by cases h
  · rintro ⟨q, hq⟩
    unfold entrants at hq
    by_cases hlt : q < tournaments.length
    · rw [List.getD_eq_getElem?_getD, List.getElem?_eq_getElem hlt] at hq
      refine ⟨tournaments[q], List.getElem_mem hlt, ?_⟩
      cases hc : tournaments[q] with
      | nil => rw [hc] at hq; exact absurd rfl hq
      | cons a as => rfl
    · rw [List.getD_eq_getElem?_getD, List.getElem?_eq_none (by omega)] at hq
      exact absurd rfl hq

lemma not_empty_of_inv (tournaments : List (List Nat)) (E m : Nat)
    (inv : LevelInv E m (entrants tournaments)) :
    not_empty tournaments = decide (m < E) := by
  by_cases hm : m < E
  · rw [decide_eq_true hm, not_empty_iff]
    exact ⟨m, by have := inv.live hm; omega⟩
  · rw [decide_eq_false hm]
    have hmE : m = E := by have := inv.le; omega
    rw [Bool.eq_false_iff]
    intro h
    obtain ⟨q, hq⟩ := (not_empty_iff tournaments).mp h
    by_cases hq2 : q < m
    · exact hq (inv.over q hq2)
    · exact hq (inv.beyond q (by omega))

/-! ## The circuit of the error-correcting tournament: the loops (C39, C40) -/

/-- The loop over the labels ends when the labels fit the 32-bit counter: it appends the
`max_label - i` labels from `i` on and their leaves. -/
lemma leafLoop_spec (max_label : Nat) (h32 : max_label < 2 ^ 32) (fuel : Nat) :
    ∀ (i : Nat) (st : List Nat × List direction), i ≤ max_label → max_label - i ≤ fuel →
      ∃ t ds, leafLoop max_label fuel i st = some (t, ds) ∧
        t.length = st.1.length + (max_label - i) ∧
        ds.length = st.2.length + (max_label - i) ∧
        (∀ x ∈ t, x ∈ st.1 ∨ x < max_label) ∧
        (DirIds st.2 → st.2.length = i → DirIds ds) := by
  induction fuel with
  | zero =>
    intro i st hi hf
    refine ⟨st.1, st.2, ?_, by omega, by omega, fun x hx => Or.inl hx, fun hd _ => hd⟩
    rw [leafLoop, if_neg (by omega)]
  | succ fuel ih =>
    intro i st hi hf
    by_cases hlt : i < max_label
    · obtain ⟨t, ds, h, l1, l2, m, d⟩ := ih (i + 1) (st.1 ++ [i], st.2 ++ [leaf i])
        (by omega) (by omega)
      refine ⟨t, ds, ?_, ?_, ?_, fun x hx => ?_, fun hd hlen => ?_⟩
      · rw [leafLoop, if_pos hlt, Nat.mod_eq_of_lt (by omega)]
        exact h
      · rw [l1, List.length_append, List.length_singleton]
        omega
      · rw [l2, List.length_append, List.length_singleton]
        omega
      · rcases m x hx with h1 | h1
        · rcases List.mem_append.mp h1 with h2 | h2
          · exact Or.inl h2
          · rw [List.mem_singleton.mp h2]
            exact Or.inr hlt
        · exact Or.inr h1
      · refine d (hd.append_ids (leaf i) ?_) ?_
        · show i = st.2.length % 2 ^ 32
          rw [hlen, Nat.mod_eq_of_lt (by omega)]
        · rw [List.length_append, List.length_singleton, hlen]
    · refine ⟨st.1, st.2, ?_, by omega, by omega, fun x hx => Or.inl hx, fun hd _ => hd⟩
      rw [leafLoop, if_neg hlt]

lemma noStranded_of_inv (tournaments : List (List Nat)) (E m : Nat)
    (inv : LevelInv E m (entrants tournaments)) : NoStrandedEntrant tournaments := by
  intro q hq
  have h1 : ¬q < m := fun h => by have := inv.over q h; omega
  have h2 : q < E := by
    by_contra h
    have := inv.beyond q (by omega)
    omega
  have h3 : q ≠ m := fun h => by
    have := inv.live (by omega)
    rw [← h] at this
    omega
  exact ⟨m, by omega, inv.live (by omega)⟩

lemma empty_of_inv (tournaments : List (List Nat)) (E : Nat)
    (inv : LevelInv E E (entrants tournaments)) : ∀ t ∈ tournaments, t = [] := by
  intro t ht
  obtain ⟨q, hq, rfl⟩ := List.getElem_of_mem ht
  have h0 : entrants tournaments q = 0 := by
    by_cases h : q < E
    · exact inv.over q h
    · exact inv.beyond q (by omega)
  unfold entrants at h0
  rw [List.getD_eq_getElem?_getD, List.getElem?_eq_getElem hq] at h0
  exact List.length_eq_zero.mp h0

lemma getLast?_append_one {α : Type} (l : List α) (x : α) : (l ++ [x]).getLast? = some x := by
  rw [List.getLast?_append_of_ne_nil _ (List.cons_ne_nil _ _)]
  rfl

/-- The level loop: from a level that satisfies the invariant, with the budget that the
weight of the level asks for, the loop ends at a level in which every tournament is empty;
it appends as many nodes as the weight says and one final node for each tournament that
was not over. -/
lemma levelLoop_spec (E : Nat) (fuel : Nat) :
    ∀ (m : Nat) (e : ect) (level node : Nat) (ts : List (List Nat)),
      e.all_levels.length = level + 1 → e.all_levels.getLast? = some ts → ts.length = E →
      LevelInv E m (entrants ts) → (∀ t ∈ ts, ∀ x ∈ t, x < e.directions.length) →
      node = e.directions.length % 2 ^ 32 →
      (∀ L ∈ e.all_levels, L.length = E ∧ NoStrandedEntrant L) →
      levelWeight E (entrants ts) + m ≤ fuel + E →
      ∃ e1, levelLoop fuel e level node = some e1 ∧
        e1.directions.length + E = e.directions.length + (levelWeight E (entrants ts) + m) ∧
        e1.final_nodes.length + m = e.final_nodes.length + E ∧
        (∃ last, e1.all_levels.getLast? = some last ∧ ∀ t ∈ last, t = []) ∧
        (∀ L ∈ e1.all_levels, L.length = E ∧ NoStrandedEntrant L) ∧
        e1.all_levels.length + E ≤
          e.all_levels.length + (levelWeight E (entrants ts) + m) ∧
        (DirIds e.directions → DirIds e1.directions) := by
  induction fuel with
  | zero =>
    intro m e level node ts hlen hlast hE inv hids hnode hgood hfuel
    have hge := weight_ge E m _ inv
    have hget : e.all_levels.get? level = some ts := by
      rw [List.getLast?_eq_getElem?, hlen, Nat.add_sub_cancel] at hlast
      rw [List.get?_eq_getElem?]
      exact hlast
    have hm : ¬m < E := by
      intro hm
      have h1 := sumFrom_ge (fun q => entrants ts q * (E - q)) m E 0 (Nat.zero_le _) (by omega)
      have h2 := inv.live hm
      have h3 : 2 * (E - m) ≤ entrants ts m * (E - m) := Nat.mul_le_mul_right _ h2
      unfold levelWeight at hfuel
      simp only [] at h1
      omega
    have hmE : m = E := by have := inv.le; omega
    subst hmE
    refine ⟨e, ?_, by rw [weight_over m _ inv]; omega, rfl,
      ⟨ts, hlast, empty_of_inv ts m inv⟩, hgood, by omega, fun hd => hd⟩
    rw [levelLoop, hget]
    simp only []
    rw [not_empty_of_inv ts m m inv, decide_eq_false (by omega)]
    rfl
  | succ fuel ih =>
    intro m e level node ts hlen hlast hE inv hids hnode hgood hfuel
    have hge := weight_ge E m _ inv
    have hget : e.all_levels.get? level = some ts := by
      rw [List.getLast?_eq_getElem?, hlen, Nat.add_sub_cancel] at hlast
      rw [List.get?_eq_getElem?]
      exact hlast
    by_cases hm : m < E
    · obtain ⟨e1, node1, nt, hbody, hlev, hntE, hsz, hdirs, hfin, hids1, hnode1, hdid⟩ :=
        levelBody_spec ts E e node hE hids hnode
      have inv1 := inv.next_inv ts nt E m hsz
      have hw := weight_of_level ts nt E hsz
      have hf := finals_of_level ts E m inv
      have hp := pairs_of_level ts E m inv hm
      have hm1 : (if m < E ∧ entrants ts m = 2 then m + 1 else m) =
          m + sumFrom (finalsOf ts) 0 E := by
        rw [hf]
        split_ifs <;> rfl
      rw [hm1] at inv1
      obtain ⟨e2, hloop, r1, r2, r3, r4, r5, r6⟩ := ih (m + sumFrom (finalsOf ts) 0 E) e1
        (level + 1) node1 nt (by rw [hlev, List.length_append, hlen]; rfl)
        (by rw [hlev]; exact getLast?_append_one _ _) hntE inv1 hids1 hnode1
        (fun L hL => by
          rw [hlev] at hL
          rcases List.mem_append.mp hL with h | h
          · exact hgood L h
          · rw [List.mem_singleton.mp h]
            exact ⟨hntE, noStranded_of_inv nt E _ inv1⟩)
        (by omega)
      refine ⟨e2, ?_, by omega, by omega, r3, r4, ?_, fun hd => r6 (hdid hd)⟩
      · rw [levelLoop, hget]
        simp only []
        rw [not_empty_of_inv ts E m inv, decide_eq_true hm, if_pos rfl, hbody, Option.some_bind]
        exact hloop
      · rw [hlev, List.length_append, List.length_singleton] at r5
        omega
    · have hmE : m = E := by have := inv.le; omega
      subst hmE
      refine ⟨e, ?_, by rw [weight_over m _ inv]; omega, rfl,
        ⟨ts, hlast, empty_of_inv ts m inv⟩, hgood, by omega, fun hd => hd⟩
      rw [levelLoop, hget]
      simp only []
      rw [not_empty_of_inv ts m m inv, decide_eq_false (by omega)]
      rfl

lemma entrants_first_level (t : List Nat) (n : Nat) (q : Nat) :
    entrants (t :: List.replicate n []) q = if q = 0 then t.length else 0 := by
  unfold entrants
  cases q with
  | zero => rfl
  | succ q =>
    rw [if_neg (Nat.succ_ne_zero q), List.getD_eq_getElem?_getD, List.getElem?_cons_succ]
    by_cases hq : q < n
    · rw [List.getElem?_eq_getElem (by rw [List.length_replicate]; exact hq),
        List.getElem_replicate]
      rfl
    · rw [List.getElem?_eq_none (by rw [List.length_replicate]; omega)]
      rfl

/-- The first level: the labels in the first tournament, the other tournaments empty. -/
lemma first_level_inv (t : List Nat) (n : Nat) (h : 2 ≤ t.length) :
    LevelInv (n + 1) 0 (entrants (t :: List.replicate n [])) ∧
    levelWeight (n + 1) (entrants (t :: List.replicate n [])) = t.length * (n + 1) := by
  refine ⟨⟨Nat.zero_le _, fun q hq => absurd hq (Nat.not_lt_zero q), fun _ => ?_,
    fun q hq _ => ?_, fun q hq => ?_⟩, ?_⟩
  · rw [entrants_first_level, if_pos rfl]
    exact h
  · rw [entrants_first_level, if_neg (Nat.succ_ne_zero q)]
  · rw [entrants_first_level, if_neg (by omega)]
  · unfold levelWeight
    rw [sumFrom_single _ 0 (n + 1) 0 (le_refl _) (by omega) (fun q _ _ hq => by
      rw [entrants_first_level, if_neg hq, Nat.zero_mul])]
    rw [entrants_first_level, if_pos rfl, Nat.sub_zero]

/-- `create_circuit` for two labels or more that fit the 32-bit counter, on a structure
without levels. -/
lemma create_circuit_spec (e : ect) (k el fuel : Nat) (hk : 2 ≤ k) (hk32 : k < 2 ^ 32)
    (hel : 1 ≤ el) (hel64 : el < 2 ^ 64) (hfresh : e.all_levels = [])
    (hfuel : k * el ≤ fuel) :
    ∃ e1, create_circuit fuel e k el =
        some (e1, (((k - 1) * el) % 2 ^ 64 % 2 ^ 32 + (el - 1)) % 2 ^ 64) ∧
      e1.directions.length = e.directions.length + k + (k - 1) * el ∧
      e1.final_nodes.length = e.final_nodes.length + el ∧
      e1.last_pair = ((k - 1) * el) % 2 ^ 64 % 2 ^ 32 ∧
      (∃ last, e1.all_levels.getLast? = some last ∧ ∀ t ∈ last, t = []) ∧
      (∀ L ∈ e1.all_levels, L.length = el ∧ NoStrandedEntrant L) ∧
      e1.all_levels.length ≤ (k - 1) * el + 1 ∧
      (e.directions = [] → DirIds e1.directions) := by
  have hkel : (k - 1) * el + el = k * el := by
    obtain ⟨k1, rfl⟩ : ∃ k1, k = k1 + 1 := ⟨k - 1, by omega⟩
    rw [Nat.add_sub_cancel, Nat.succ_mul]
  have hkle : k ≤ k * el := Nat.le_mul_of_pos_right k hel
  obtain ⟨t, ds, hleaf, lt, lds, mt, dd⟩ := leafLoop_spec k hk32 fuel 0 ([], e.directions)
    (Nat.zero_le _) (by omega)
  have lt1 : t.length = k := by rw [lt]; simp
  have lds1 : ds.length = e.directions.length + k := by rw [lds]; rfl
  obtain ⟨n, hn⟩ : ∃ n, el = n + 1 := ⟨el - 1, by omega⟩
  have hrep : (el + 2 ^ 64 - 1) % 2 ^ 64 = n := by omega
  have hkm : (k + 2 ^ 64 - 1) % 2 ^ 64 = k - 1 := by omega
  obtain ⟨inv0, hw0⟩ := first_level_inv t n (by rw [lt1]; exact hk)
  rw [lt1, ← hn] at hw0
  rw [← hn] at inv0
  obtain ⟨e2, hloop, r1, r2, r3, r4, r5, r6⟩ := levelLoop_spec el fuel 0
    { e with directions := ds, all_levels := e.all_levels ++ [t :: List.replicate n []] }
    0 (ds.length % 2 ^ 32) (t :: List.replicate n [])
    (by
      show (e.all_levels ++ [t :: List.replicate n []]).length = 0 + 1
      rw [hfresh]
      rfl)
    (getLast?_append_one _ _)
    (by rw [List.length_cons, List.length_replicate, hn])
    inv0
    (fun t0 ht0 x hx => by
      show x < ds.length
      rw [lds1]
      rcases List.mem_cons.mp ht0 with h | h
      · rw [h] at hx
        rcases mt x hx with h1 | h1
        · cases h1
        · omega
      · rw [List.eq_of_mem_replicate h] at hx
        cases hx)
    rfl
    (fun L hL => by
      have hL1 : L ∈ e.all_levels ++ [t :: List.replicate n []] := hL
      rw [hfresh, List.nil_append, List.mem_singleton] at hL1
      rw [hL1]
      exact ⟨by rw [List.length_cons, List.length_replicate, hn],
        noStranded_of_inv _ el 0 inv0⟩)
    (by rw [hw0]; omega)
  rw [hw0] at r1 r5
  have r1a : e2.directions.length + el = ds.length + (k * el + 0) := r1
  have r2a : e2.final_nodes.length + 0 = e.final_nodes.length + el := r2
  have r5a : e2.all_levels.length + el ≤
      (e.all_levels ++ [t :: List.replicate n []]).length + (k * el + 0) := r5
  rw [hfresh] at r5a
  refine ⟨{ e2 with
      last_pair := ((k + 2 ^ 64 - 1) % 2 ^ 64 * el) % 2 ^ 64 % 2 ^ 32
      tree_height := if k > 1 then final_depth el else e2.tree_height }, ?_, ?_, ?_, ?_, r3,
    r4, ?_, fun hd => r6 (dd (by rw [hd]; intro j d h; cases h) (by rw [hd]; rfl))⟩
  · unfold create_circuit
    rw [if_neg (by omega), hleaf, Option.some_bind]
    simp only []
    rw [hrep, hloop, Option.map_some', hkm, show el - 1 = n by omega]
  · show e2.directions.length = _
    omega
  · show e2.final_nodes.length = _
    omega
  · show ((k + 2 ^ 64 - 1) % 2 ^ 64 * el) % 2 ^ 64 % 2 ^ 32 = _
    rw [hkm]
  · show e2.all_levels.length ≤ _
    simp only [List.nil_append, List.length_singleton] at r5a
    omega

/-! ## The tournament structure is built (C39, C40) -/

lemma leafLoop_wraps (max_label : Nat) (h32 : 2 ^ 32 ≤ max_label) (fuel : Nat) :
    ∀ (i : Nat) (st : List Nat × List direction), i < 2 ^ 32 →
      leafLoop max_label fuel i st = none := by
  induction fuel with
  | zero =>
    intro i st hi
    rw [leafLoop, if_pos (by omega)]
  | succ fuel ih =>
    intro i st hi
    rw [leafLoop, if_pos (by omega)]
    exact ih _ _ (Nat.mod_lt _ (by decide))

/-- C39. For `max_label` at least 2 and `eliminations` at least 1 (a 64-bit number), when
the structure has no levels yet: with `max_label` below 2^32, `create_circuit` returns as
soon as each of its two loops may make `max_label * eliminations` passes; the last level it
built has only empty tournaments, there are at most `(max_label - 1) * eliminations + 1`
levels, every level has `eliminations` tournaments, and in no level is a tournament left
alone with one entrant (a tournament with one entrant comes after one with two entrants or
more). With `max_label` 2^32 or more, the 32-bit counter of the first loop never reaches it
and the call does not return, whatever the number of passes allowed. -/
theorem create_circuit_terminates (e : ect) (max_label eliminations : Nat)
    (hk : 2 ≤ max_label) (hel : 1 ≤ eliminations) (hel64 : eliminations < 2 ^ 64)
    (hfresh : e.all_levels = []) :
    (max_label < 2 ^ 32 → ∀ fuel, max_label * eliminations ≤ fuel →
      ∃ e1 ret, create_circuit fuel e max_label eliminations = some (e1, ret) ∧
        (∃ last, e1.all_levels.getLast? = some last ∧ not_empty last = false ∧
          ∀ t ∈ last, t = []) ∧
        e1.all_levels.length ≤ (max_label - 1) * eliminations + 1 ∧
        (∀ L ∈ e1.all_levels, L.length = eliminations ∧ NoStrandedEntrant L)) ∧
    (2 ^ 32 ≤ max_label → ∀ fuel, create_circuit fuel e max_label eliminations = none) := by
  refine ⟨fun hk32 fuel hfuel => ?_, fun hbig fuel => ?_⟩
  · obtain ⟨e1, hrun, _, _, _, ⟨last, hlast, hempty⟩, hlevels, hcount, _⟩ :=
      create_circuit_spec e max_label eliminations fuel hk hk32 hel hel64 hfresh hfuel
    refine ⟨e1, _, hrun, ⟨last, hlast, ?_, hempty⟩, hcount, hlevels⟩
    rw [not_empty, List.any_eq_false]
    intro t ht
    rw [hempty t ht]
    decide
  · unfold create_circuit
    rw [if_neg (by omega), leafLoop_wraps max_label hbig fuel 0 _ (by decide)]
    rfl

/-- Witness for C39: three labels and two eliminations on a fresh structure. -/
theorem create_circuit_terminates_witness :
    (2 ≤ 3 ∧ 1 ≤ 2 ∧ 2 < 2 ^ 64 ∧ (freshEct 3 1).all_levels = []) ∧
    ∃ e1 ret, create_circuit 6 (freshEct 3 1) 3 2 = some (e1, ret) ∧
      (∃ last, e1.all_levels.getLast? = some last ∧ not_empty last = false ∧
        ∀ t ∈ last, t = []) ∧
      e1.all_levels.length ≤ (3 - 1) * 2 + 1 ∧
      (∀ L ∈ e1.all_levels, L.length = 2 ∧ NoStrandedEntrant L) :=
  ⟨⟨by decide, by decide, by decide, rfl⟩,
    (create_circuit_terminates (freshEct 3 1) 3 2 (by decide) (by decide) (by decide) rfl).1
      (by decide) 6 (by decide)⟩

/-- C40. On a fresh structure, with `k` labels at least 2 and `el` eliminations at least 1
such that the `k + (k - 1) * el` nodes can be numbered with 32 bits, `create_circuit`
returns `(k - 1) * el + el - 1` and leaves `k + (k - 1) * el` nodes (the `k` leaves, then
`(k - 1) * el` match nodes), `el` final nodes and `last_pair = (k - 1) * el`; the id of every
node is its position, so the id of a match node minus `k` is below `last_pair` and below the
value returned. With one label the call returns 0 and leaves the structure as it was. -/
theorem create_circuit_counts (e : ect) (k el fuel : Nat) (hk : 2 ≤ k) (hel : 1 ≤ el)
    (hsize : k + (k - 1) * el < 2 ^ 32) (hdirs : e.directions = [])
    (hlevels : e.all_levels = []) (hfinals : e.final_nodes = []) (hfuel : k * el ≤ fuel) :
    (∃ e1, create_circuit fuel e k el = some (e1, (k - 1) * el + el - 1) ∧
      e1.directions.length = k + (k - 1) * el ∧
      e1.final_nodes.length = el ∧
      e1.last_pair = (k - 1) * el ∧
      (∀ j d, e1.directions.get? j = some d → d.id = j) ∧
      (∀ j d, e1.directions.get? j = some d → k ≤ j →
        d.id - k < e1.last_pair ∧ d.id - k < (k - 1) * el + el - 1)) ∧
    (∀ (fuel0 : Nat) (e0 : ect) (el0 : Nat), create_circuit fuel0 e0 1 el0 = some (e0, 0)) := by
  have hpos : 1 ≤ (k - 1) * el := Nat.mul_pos (by omega) hel
  have hel32 : el < 2 ^ 32 := by
    have : el ≤ (k - 1) * el := Nat.le_mul_of_pos_left el (by omega)
    omega
  obtain ⟨e1, hrun, hlen, hfin, hpair, _, _, _, hids⟩ :=
    create_circuit_spec e k el fuel hk (by omega) hel
      (lt_trans hel32 (by decide)) hlevels hfuel
  have hm1 : ((k - 1) * el) % 2 ^ 64 % 2 ^ 32 = (k - 1) * el := by
    rw [Nat.mod_eq_of_lt (lt_trans (show (k - 1) * el < 2 ^ 32 by omega) (by decide)),
      Nat.mod_eq_of_lt (by omega)]
  have hm2 : ((k - 1) * el + (el - 1)) % 2 ^ 64 = (k - 1) * el + el - 1 := by
    rw [Nat.mod_eq_of_lt (by omega)]
    omega
  rw [hm1, hm2] at hrun
  rw [hm1] at hpair
  rw [hdirs] at hlen
  rw [hfinals] at hfin
  have hlen1 : e1.directions.length = k + (k - 1) * el := by
    rw [hlen]
    simp
  have hid : ∀ j d, e1.directions.get? j = some d → d.id = j ∧ j < k + (k - 1) * el := by
    intro j d hj
    have hlt : j < e1.directions.length := by
      rcases Nat.lt_or_ge j e1.directions.length with h | h
      · exact h
      · rw [List.get?_eq_none.mpr h] at hj
        cases hj
    rw [hlen1] at hlt
    refine ⟨?_, hlt⟩
    rw [hids hdirs j d hj, Nat.mod_eq_of_lt (by omega)]
  refine ⟨⟨e1, hrun, hlen1, ?_, hpair, fun j d hj => (hid j d hj).1, fun j d hj hkj => ?_⟩,
    fun fuel0 e0 el0 => ?_⟩
  · rw [hfin]
    simp
  · obtain ⟨h1, h2⟩ := hid j d hj
    rw [h1, hpair]
    omega
  · unfold create_circuit
    rw [if_pos rfl]

/-- Witness for C40: three labels and two eliminations on a fresh structure. -/
theorem create_circuit_counts_witness :
    (2 ≤ 3 ∧ 1 ≤ 2 ∧ 3 + (3 - 1) * 2 < 2 ^ 32 ∧ 3 * 2 ≤ 6) ∧
    ∃ e1, create_circuit 6 (freshEct 3 1) 3 2 = some (e1, 5) ∧
      e1.directions.length = 7 ∧ e1.final_nodes.length = 2 ∧ e1.last_pair = 4 ∧
      (∀ j d, e1.directions.get? j = some d → d.id = j) ∧
      (∀ j d, e1.directions.get? j = some d → 3 ≤ j → d.id - 3 < e1.last_pair ∧ d.id - 3 < 5) :=
  ⟨⟨by decide, by decide, by decide, by decide⟩,
    (create_circuit_counts (freshEct 3 1) 3 2 6 (by decide) (by decide) (by decide) rfl rfl rfl
      (by decide)).1⟩

/-- With 65537 labels and 65536 eliminations the number of match nodes is 2^32: the call
returns, with 65537 + 2^32 nodes, but `last_pair`, a 32-bit number, is 0 and the value
returned is 65535. -/
theorem create_circuit_last_pair_wraps :
    ∃ e1, create_circuit (65537 * 65536) (freshEct 65537 65535) 65537 65536 =
        some (e1, 65535) ∧
      e1.last_pair = 0 ∧
      e1.directions.length = 65537 + 4294967296 ∧
      (65537 - 1) * 65536 = 4294967296 := by
  obtain ⟨e1, hrun, hlen, _, hpair, _⟩ :=
    create_circuit_spec (freshEct 65537 65535) 65537 65536 (65537 * 65536) (by norm_num)
      (by norm_num) (by norm_num) (by norm_num) rfl (le_refl _)
  refine ⟨e1, ?_, ?_, ?_, by norm_num⟩
  · rw [hrun]
    norm_num
  · rw [hpair]
    norm_num
  · rw [hlen]
    show 0 + 65537 + (65537 - 1) * 65536 = _
    norm_num

end VW
